import Mathlib

/-!
Paged record store, B+ tree index and query executor: a verification development.

Shallow embedding of `src/record/RecordManager.cpp`, `src/index/BPlusTree.cpp`,
`src/index/IndexManager.cpp`, `src/query/QueryExecutor.cpp`,
`src/system/SystemManager.cpp` and the structures of `src/parser/SQLStatement.h`.

Conventions of the embedding.
* A page is a function from a word index (`int`, as in `page[pos]`) to an
  unsigned 32-bit word, kept as a `Nat`.  Reading a word into an `int`
  variable is `toInt`, storing an `int` into a page is `toWord`.
* The buffer pool (`BufPageManager`, not part of `src/`) is the map from page
  numbers to pages: `getPage` reads it, writes through the returned pointer
  update it, `allocPage` hands out the page of that number with whatever
  content it has.
* `while (true)` loops that follow page pointers take a fuel argument and
  return `none` when it runs out; the theorems show that this does not happen
  on the stores the code builds.
* The B+ tree index is kept at the granularity of nodes; the invariant of the
  INT tree is stated page by page, with a key interval and a height assigned
  to every page.
* The executor appears twice.  `QueryExecutor.executeInsert` and
  `QueryExecutor.executeDelete` are the row loops over one table with the
  checks as parameters; `QueryExecutor.Db` has the statements over the whole
  state of `SystemManager` (catalog, record files, indexes), with the checks
  and the index maintenance of the code.
* A string (`std::string`) is the list of its bytes; a `double` is its 64-bit
  pattern.  Library functions are computed where the code depends on their
  result (`std::to_string`, `snprintf("%.2f")`, `std::stoi`, the fragment of
  `std::regex` that `likeMatch` uses); `std::stod` is a parameter.
-/

namespace RecordManager

/-! ## Machine words -/

/-- The value of an `unsigned int` word read into an `int` variable. -/
def toInt (w : Nat) : Int := if w % 2 ^ 32 < 2 ^ 31 then (w % 2 ^ 32 : Nat) else ((w % 2 ^ 32 : Nat) : Int) - 2 ^ 32

/-- The `unsigned int` word stored when an `int` is assigned to a page word. -/
def toWord (i : Int) : Nat := (i % 2 ^ 32).toNat

/-- A page: word index to unsigned 32-bit word. -/
abbrev Page := Int → Nat

/-- The assignment `page[i] = w`. -/
def write (pg : Page) (i : Int) (w : Nat) : Page := fun j => if j = i then w else pg j

/-- Modelled from the spec: `PAGE_INT_NUM` is declared in
`filesystem/utils/pagedef.h`, which is not under `src/`; the spec fixes a page
at 8192 bytes, that is 2048 words of 32 bits. -/
def PAGE_INT_NUM : Int := 2048

def PAGE_HEADER_SIZE : Int := 16
def PAGE_DATA_START : Int := PAGE_HEADER_SIZE
def PAGE_TYPE_OFFSET : Int := 0
def PAGE_RECORD_COUNT_OFFSET : Int := 1
def PAGE_FREE_START_OFFSET : Int := 2
def PAGE_NEXT_PAGE_OFFSET : Int := 3
def RECORD_HEADER_SIZE : Int := 2

/-- The state of a `RecordManager`: the pages of its file as seen through the
buffer pool, and the `tailPageID` member. -/
structure Store where
  pages : Int → Page
  tailPageID : Int

/-- Replace one page of the file. -/
def setPage (pages : Int → Page) (pageID : Int) (pg : Page) : Int → Page :=
  fun q => if q = pageID then pg else pages q

/-- `getPageHeader`: (recordCount, freeStart, nextPage). -/
def getPageHeader (pg : Page) : Int × Int × Int :=
  (toInt (pg PAGE_RECORD_COUNT_OFFSET), toInt (pg PAGE_FREE_START_OFFSET),
    toInt (pg PAGE_NEXT_PAGE_OFFSET))

/-- `setPageHeader`. -/
def setPageHeader (pg : Page) (recordCount freeStart nextPage : Int) : Page :=
  write (write (write pg PAGE_RECORD_COUNT_OFFSET (toWord recordCount))
    PAGE_FREE_START_OFFSET (toWord freeStart)) PAGE_NEXT_PAGE_OFFSET (toWord nextPage)

/-- The `while (pos < freeStart)` loop of `findRecordInPage`.  The result is
the returned `int` and the value left in `offset` (0 stands for the
uninitialised `offset` of a miss). -/
def findRecordInPageLoop : Nat → Page → Int → Int → Int → Int × Int
  | 0, _, _, _, _ => (-1, 0)
  | fuel + 1, pg, recordID, freeStart, pos =>
    if pos < freeStart then
      let recordLen := toInt (pg pos)
      if recordLen ≤ 0 ∨ pos + recordLen > PAGE_INT_NUM then (-1, 0)
      else
        let rid := toInt (pg (pos + 1))
        if rid = recordID ∧ rid ≠ 0 then (recordLen, pos)
        else findRecordInPageLoop fuel pg recordID freeStart (pos + recordLen)
    else (-1, 0)

/-- Iterations the scan of one page can make: every iteration that continues
advances `pos` by at least one word and keeps it within the page. -/
def pageFuel : Nat := 2049

/-- `findRecordInPage`. -/
def findRecordInPage (pg : Page) (recordID : Int) : Int × Int :=
  findRecordInPageLoop pageFuel pg recordID (getPageHeader pg).2.1 PAGE_DATA_START

/-- `findFreeSpace`. -/
def findFreeSpace (pg : Page) (requiredSize : Int) : Int :=
  let freeStart := (getPageHeader pg).2.1
  if freeStart + requiredSize > PAGE_INT_NUM then -1 else freeStart

/-- The copy loop `page[insertPos + RECORD_HEADER_SIZE + i] = data[i]`. -/
def writeWords (pg : Page) (pos : Int) : List Nat → Page
  | [] => pg
  | w :: ws => writeWords (write pg pos w) (pos + 1) ws

/-- `insertRecordInPage`: the returned flag and the page afterwards.  The
payload `data` is the `dataLen` words of the caller's buffer. -/
def insertRecordInPage (pg : Page) (recordID : Int) (data : List Nat) : Bool × Page :=
  if (findRecordInPage pg recordID).1 > 0 then (false, pg)
  else
    let (recordCount, freeStart, nextPage) := getPageHeader pg
    let totalLen := RECORD_HEADER_SIZE + (data.length : Int)
    let insertPos := findFreeSpace pg totalLen
    if insertPos = -1 then (false, pg)
    else
      let pg1 := write pg insertPos (toWord totalLen)
      let pg2 := write pg1 (insertPos + 1) (toWord recordID)
      let pg3 := writeWords pg2 (insertPos + RECORD_HEADER_SIZE) data
      (true, setPageHeader pg3 (recordCount + 1) (freeStart + totalLen) nextPage)

/-- `deleteRecordInPage`: the returned flag and the page afterwards. -/
def deleteRecordInPage (pg : Page) (recordID : Int) : Bool × Page :=
  let (recordLen, offset) := findRecordInPage pg recordID
  if recordLen ≤ 0 then (false, pg)
  else
    let (recordCount, freeStart, nextPage) := getPageHeader pg
    let pg1 := write pg (offset + 1) 0
    (true, setPageHeader pg1 (recordCount - 1) freeStart nextPage)

/-- The header a newly allocated page is given (`newPage[...] = ...`). -/
def initPage (pg : Page) : Page :=
  write (write (write (write pg PAGE_TYPE_OFFSET 0) PAGE_RECORD_COUNT_OFFSET 0)
    PAGE_FREE_START_OFFSET (toWord PAGE_DATA_START)) PAGE_NEXT_PAGE_OFFSET (toWord (-1))

/-- The constructor on a file that needs initialising (`forceInit`, or a first
page whose header is out of range): page 0 gets an empty header and becomes the
tail.  `disk` is the content of the file before, which is arbitrary. -/
def freshStore (disk : Int → Page) : Store :=
  { pages := setPage disk 0 (initPage (disk 0)), tailPageID := 0 }

/-- `insertRecord(int, BufType, int)`. -/
def insertRecord (st : Store) (recordID : Int) (data : List Nat) : Bool × Store :=
  let pg := st.pages st.tailPageID
  let r := insertRecordInPage pg recordID data
  if r.1 then (true, { st with pages := setPage st.pages st.tailPageID r.2 })
  else
    let (recordCount, freeStart, _) := getPageHeader pg
    let newPageID := st.tailPageID + 1
    let newPage := initPage (st.pages newPageID)
    let pgT := setPageHeader pg recordCount freeStart newPageID
    let pages1 := setPage (setPage st.pages st.tailPageID pgT) newPageID newPage
    let r2 := insertRecordInPage newPage recordID data
    (r2.1, { pages := setPage pages1 newPageID r2.2, tailPageID := newPageID })

/-- The `while (true)` loop of `deleteRecord`. -/
def deleteRecordLoop : Nat → (Int → Page) → Int → Int → Option (Bool × (Int → Page))
  | 0, _, _, _ => none
  | fuel + 1, pages, recordID, pageID =>
    let pg := pages pageID
    let r := deleteRecordInPage pg recordID
    if r.1 then some (true, setPage pages pageID r.2)
    else
      let nextPage := (getPageHeader pg).2.2
      if nextPage = -1 then some (false, pages)
      else deleteRecordLoop fuel pages recordID nextPage

/-- Fuel for a walk along the page chain: the chain of a store built by this
class is the pages `0 .. tailPageID`. -/
def chainFuel (st : Store) : Nat := (st.tailPageID + 1).toNat

/-- `deleteRecord`. -/
def deleteRecord (st : Store) (recordID : Int) : Option (Bool × Store) :=
  (deleteRecordLoop (chainFuel st) st.pages recordID 0).map
    fun r => (r.1, { st with pages := r.2 })

/-- `updateRecord(int, BufType, int)`. -/
def updateRecord (st : Store) (recordID : Int) (newData : List Nat) : Option (Bool × Store) :=
  match deleteRecord st recordID with
  | none => none
  | some (false, st1) => some (false, st1)
  | some (true, st1) => some (insertRecord st1 recordID newData)

/-- The words `page[pos], .., page[pos + n - 1]`. -/
def readWords (pg : Page) (pos : Int) : Nat → List Nat
  | 0 => []
  | n + 1 => pg pos :: readWords pg (pos + 1) n

/-- The `while (true)` loop of `getRecord(int, BufType, int)`: the returned
`int` and the words copied into the caller's buffer. -/
def getRecordLoop : Nat → (Int → Page) → Int → Int → Int → Option (Int × List Nat)
  | 0, _, _, _, _ => none
  | fuel + 1, pages, recordID, maxLen, pageID =>
    let pg := pages pageID
    let (recordLen, offset) := findRecordInPage pg recordID
    if recordLen > 0 then
      let dataLen := recordLen - RECORD_HEADER_SIZE
      let copyLen := if dataLen < maxLen then dataLen else maxLen
      some (copyLen, readWords pg (offset + RECORD_HEADER_SIZE) copyLen.toNat)
    else
      let nextPage := (getPageHeader pg).2.2
      if nextPage = -1 then some (-1, [])
      else getRecordLoop fuel pages recordID maxLen nextPage

/-- `getRecord(int, BufType, int)`. -/
def getRecord (st : Store) (recordID : Int) (maxLen : Int) : Option (Int × List Nat) :=
  getRecordLoop (chainFuel st) st.pages recordID maxLen 0

/-- The `while (true)` loop of `recordExists`. -/
def recordExistsLoop : Nat → (Int → Page) → Int → Int → Option Bool
  | 0, _, _, _ => none
  | fuel + 1, pages, recordID, pageID =>
    let pg := pages pageID
    if (findRecordInPage pg recordID).1 > 0 then some true
    else
      let nextPage := (getPageHeader pg).2.2
      if nextPage = -1 then some false
      else recordExistsLoop fuel pages recordID nextPage

/-- `recordExists`. -/
def recordExists (st : Store) (recordID : Int) : Option Bool :=
  recordExistsLoop (chainFuel st) st.pages recordID 0

/-- The inner `while (pos < freeStart)` loop of `getAllRecordsDirect`: the
(slot id, payload words) pairs pushed for one page.  The code copies the
payload as `dataLen * 4` bytes; the embedding keeps the `dataLen` words. -/
def scanPageLoop : Nat → Page → Int → Int → List (Int × List Nat)
  | 0, _, _, _ => []
  | fuel + 1, pg, freeStart, pos =>
    if pos < freeStart then
      let recordLen := toInt (pg pos)
      if recordLen ≤ 0 ∨ pos + recordLen > PAGE_INT_NUM then []
      else
        let rid := toInt (pg (pos + 1))
        let rest := scanPageLoop fuel pg freeStart (pos + recordLen)
        if rid ≠ 0 then
          (rid, readWords pg (pos + RECORD_HEADER_SIZE) (recordLen - RECORD_HEADER_SIZE).toNat) :: rest
        else rest
    else []

/-- The outer `while (true)` loop of `getAllRecordsDirect`. -/
def getAllRecordsDirectLoop : Nat → (Int → Page) → Int → Option (List (Int × List Nat))
  | 0, _, _ => none
  | fuel + 1, pages, pageID =>
    let pg := pages pageID
    let (_, freeStart, nextPage) := getPageHeader pg
    let here := scanPageLoop pageFuel pg freeStart PAGE_DATA_START
    if nextPage = -1 then some here
    else (getAllRecordsDirectLoop fuel pages nextPage).map fun rest => here ++ rest

/-- `getAllRecordsDirect`: the pairs of `recordIDs[i]` and `records[i]`, in
the order pushed. -/
def getAllRecordsDirect (st : Store) : Option (List (Int × List Nat)) :=
  getAllRecordsDirectLoop (chainFuel st) st.pages 0

/-! ## Abstract view of a record page

The records laid out in a page, tombstones included, and the relation between
a page and the list of records it holds. -/

/-- A record as it lies in a page: the slot id word (0 for a tombstone) and the
payload words. -/
structure Rec where
  rid : Int
  data : List Nat
deriving DecidableEq, Repr

/-- Words a record occupies: the two header words and the payload. -/
def Rec.size (r : Rec) : Int := 2 + (r.data.length : Int)

/-- Words occupied by a list of records. -/
def span : List Rec → Int
  | [] => 0
  | r :: rs => r.size + span rs

/-- The records `rs` lie back to back in `pg` from word `pos` on. -/
def Layout (pg : Page) : Int → List Rec → Prop
  | _, [] => True
  | pos, r :: rs => toInt (pg pos) = r.size ∧ toInt (pg (pos + 1)) = r.rid ∧
      readWords pg (pos + 2) r.data.length = r.data ∧ Layout pg (pos + r.size) rs

/-- What `findRecordInPage` computes, on the list of records. -/
def findRec (id : Int) : Int → List Rec → Int × Int
  | _, [] => (-1, 0)
  | pos, r :: rs => if r.rid = id ∧ r.rid ≠ 0 then (r.size, pos) else findRec id (pos + r.size) rs

/-- The (slot id, payload) pairs of the records that are not tombstones. -/
def liveRecs (rs : List Rec) : List (Int × List Nat) :=
  (rs.filter fun r => decide (r.rid ≠ 0)).map fun r => (r.rid, r.data)

/-- Zero the slot id of the first record with slot id `id`. -/
def tombstone (id : Int) : List Rec → List Rec
  | [] => []
  | r :: rs => if r.rid = id ∧ r.rid ≠ 0 then { r with rid := 0 } :: rs else r :: tombstone id rs

/-- The page `pg` holds exactly the records `rs`: `free_start` is the first word
after them, they fit in the page, and `next_page_no` is `next`. -/
def PageRep (pg : Page) (rs : List Rec) (next : Int) : Prop :=
  16 + span rs ≤ PAGE_INT_NUM ∧ toInt (pg 2) = 16 + span rs ∧ toInt (pg 3) = next ∧
    Layout pg 16 rs

/-- A record of `rs` that is not a tombstone has slot id `id`. -/
def liveIn (id : Int) (rs : List Rec) : Prop := ∃ r ∈ rs, r.rid = id ∧ r.rid ≠ 0

/-- The pages `p, p + 1, ..` of the file hold the record lists `pgs`, each
linked to the next and the last one ending the chain. -/
def ChainRep (pages : Int → Page) : Int → List (List Rec) → Prop
  | _, [] => False
  | p, [rs] => PageRep (pages p) rs (-1)
  | p, rs :: rest => PageRep (pages p) rs (p + 1) ∧ ChainRep pages (p + 1) rest

/-- The store is the chain of pages `0 .. tailPageID` holding `pgs`. -/
def StoreRep (st : Store) (pgs : List (List Rec)) : Prop :=
  ChainRep st.pages 0 pgs ∧ st.tailPageID + 1 = (pgs.length : Int)

/-- A store whose page chain is well formed: pages `0 .. tailPageID`, each a
packed sequence of records, linked in order. -/
def WellFormed (st : Store) : Prop := ∃ pgs, StoreRep st pgs

/-- The range of the C++ type `int`. -/
def isInt32 (i : Int) : Prop := -2147483648 ≤ i ∧ i < 2147483648

/-- The pages `p, p + 1, ..` hold the record lists `init`, each linked to the
page after it. -/
def Linked (pages : Int → Page) : Int → List (List Rec) → Prop
  | _, [] => True
  | p, rs :: rest => PageRep (pages p) rs (p + 1) ∧ Linked pages (p + 1) rest

/-- The live (slot id, payload) pairs of a chain of pages, page by page. -/
def allLive : List (List Rec) → List (Int × List Nat)
  | [] => []
  | rs :: rest => liveRecs rs ++ allLive rest

/-- Zero the slot id of the first live record with slot id `id` in the chain. -/
def tombstoneChain (id : Int) : List (List Rec) → List (List Rec)
  | [] => []
  | rs :: rest =>
    if (findRec id 16 rs).1 > 0 then tombstone id rs :: rest else rs :: tombstoneChain id rest

/-- The payload of the first pair with slot id `id`. -/
def lookupLive (id : Int) : List (Int × List Nat) → Option (List Nat)
  | [] => none
  | (i, d) :: rest => if i = id then some d else lookupLive id rest

/-- Remove the first pair with slot id `id`. -/
def eraseLive (id : Int) : List (Int × List Nat) → List (Int × List Nat)
  | [] => []
  | (i, d) :: rest => if i = id then rest else (i, d) :: eraseLive id rest

/-- What `getRecord` returns for the payload found (the words copied are cut
at `maxLen`), or for a miss. -/
def getRecordResult (maxLen : Int) : Option (List Nat) → Int × List Nat
  | none => (-1, [])
  | some d =>
    let copyLen : Int := if (d.length : Int) < maxLen then d.length else maxLen
    (copyLen, d.take copyLen.toNat)

/-! ## Sequences of calls -/

/-- A call on the record store. -/
inductive Op where
  | insert (recordID : Int) (data : List Nat)
  | delete (recordID : Int)
deriving DecidableEq, Repr

/-- Run a sequence of `insertRecord` / `deleteRecord` calls, ignoring the
returned flags. -/
def runOps : Store → List Op → Option Store
  | st, [] => some st
  | st, Op.insert recordID data :: ops => runOps (insertRecord st recordID data).2 ops
  | st, Op.delete recordID :: ops =>
    match deleteRecord st recordID with
    | none => none
    | some r => runOps r.2 ops

/-- The slot ids of the `insertRecord` calls of a sequence, in order. -/
def insertedIds : List Op → List Int
  | [] => []
  | Op.insert recordID _ :: ops => recordID :: insertedIds ops
  | Op.delete _ :: ops => insertedIds ops

/-- The pair `(recordID, data)` was inserted by some call of the sequence and
no later call deletes `recordID`. -/
def InsertedNotDeleted (ops : List Op) (recordID : Int) (data : List Nat) : Prop :=
  ∃ pre post, ops = pre ++ Op.insert recordID data :: post ∧ Op.delete recordID ∉ post

/-- The live pairs a sequence of calls leaves, starting from the pairs `l`:
an insert appends its pair, a delete removes the pair of that slot id. -/
def specRun : List (Int × List Nat) → List Op → List (Int × List Nat)
  | l, [] => l
  | l, Op.insert recordID data :: ops => specRun (l ++ [(recordID, data)]) ops
  | l, Op.delete recordID :: ops => specRun (eraseLive recordID l) ops

/-- A file of zero words, used for concrete instances. -/
def zeroDisk : Int → Page := fun _ _ => 0

/-- A concrete store: slot ids 1, 5 and 7 inserted into a fresh file. -/
def exampleStore : Store :=
  (insertRecord (insertRecord (insertRecord (freshStore zeroDisk) 1 [100, 200, 300]).2
    5 [55]).2 7 [70, 71]).2

/-- A concrete sequence of calls: three inserts with two deletes in between,
one of them of a slot id that was never inserted. -/
def exampleOps : List Op :=
  [Op.insert 1 [10, 20], Op.insert 2 [30], Op.delete 1, Op.insert 3 [], Op.delete 9]

end RecordManager

namespace QueryExecutor

open RecordManager (toInt toWord)

/-! ## Values, schemas and the row encoding

`src/parser/SQLStatement.h` and `QueryExecutor::serializeRecord` /
`deserializeRecord`.  Bytes are natural numbers below 256.  A `double` is kept
as its 64-bit pattern: the encoder and the decoder only copy it. -/

/-- The enumeration `DataType`. -/
inductive DataType where
  | INT
  | VARCHAR
  | FLOAT
  | UNKNOWN
deriving DecidableEq, Repr

/-- The enumeration `Value::Type`. -/
inductive ValueType where
  | INT
  | FLOAT
  | STRING
  | NULL_VALUE
deriving DecidableEq, Repr

/-- The struct `Value`: `floatVal` is the bit pattern of the `double`, `strVal`
the bytes of the `std::string`. -/
structure Value where
  type : ValueType
  intVal : Int
  floatVal : Nat
  strVal : List Nat
  isNull : Bool
deriving DecidableEq, Repr

/-- `Value::makeNull()` (also the default constructor). -/
def Value.makeNull : Value := ⟨ValueType.NULL_VALUE, 0, 0, [], true⟩

/-- `Value(int v)`. -/
def Value.ofInt (v : Int) : Value := ⟨ValueType.INT, v, 0, [], false⟩

/-- `Value(double v)`. -/
def Value.ofFloat (bits : Nat) : Value := ⟨ValueType.FLOAT, 0, bits, [], false⟩

/-- `Value(const std::string& v)`. -/
def Value.ofString (s : List Nat) : Value := ⟨ValueType.STRING, 0, 0, s, false⟩

/-- The fields of `ColumnDef` the encoding reads. -/
structure ColumnDef where
  name : String
  type : DataType
  length : Int
  notNull : Bool
deriving DecidableEq, Repr

/-- The four bytes of a 32-bit word in memory (little-endian). -/
def le32 (w : Nat) : List Nat :=
  [w % 256, w / 256 % 256, w / 65536 % 256, w / 16777216 % 256]

/-- The eight bytes of a 64-bit pattern in memory (little-endian). -/
def le64 (w : Nat) : List Nat :=
  le32 (w % 4294967296) ++ le32 (w / 4294967296 % 4294967296)

/-- `memcpy(&x, data + pos, 4)` for a 32-bit `x`. -/
def rd32 (data : List Nat) (pos : Int) : Nat :=
  match data.drop pos.toNat with
  | b0 :: b1 :: b2 :: b3 :: _ => b0 + 256 * b1 + 65536 * b2 + 16777216 * b3
  | _ => 0

/-- `memcpy(&x, data + pos, 8)` for a `double` `x`. -/
def rd64 (data : List Nat) (pos : Int) : Nat :=
  rd32 data pos + 4294967296 * rd32 data (pos + 4)

/-- The value of `1 << i` as it is combined with the `unsigned` bitmap.  For
`i >= 32` the C++ shift is undefined; the embedding takes the count modulo 32,
as the x86 shift does. -/
def shl1 (i : Nat) : Nat := 2 ^ (i % 32)

/-- The first loop of `serializeRecord`: the null bitmap of the first 32
values. -/
def nullBitmapLoop : Nat → List Value → Nat → Nat
  | _, [], acc => acc
  | i, v :: vs, acc =>
    if i < 32 then nullBitmapLoop (i + 1) vs (if v.isNull then acc ||| shl1 i else acc)
    else acc

/-- The bytes one column contributes in `serializeRecord`. -/
def serializeColumn (col : ColumnDef) (val : Value) : List Nat :=
  match col.type with
  | DataType.INT => le32 (toWord (if val.isNull then 0 else val.intVal))
  | DataType.FLOAT => le64 (if val.isNull then 0 else val.floatVal)
  | DataType.VARCHAR =>
    let str := if val.isNull then [] else val.strVal
    let len : Int := min (str.length : Int) col.length
    le32 (toWord len) ++ str.take len.toNat ++ List.replicate (col.length - len).toNat 0
  | DataType.UNKNOWN => []

/-- The second loop of `serializeRecord`, over the columns that have a value. -/
def serializeLoop : List ColumnDef → List Value → List Nat
  | col :: cols, val :: vals => serializeColumn col val ++ serializeLoop cols vals
  | _, _ => []

/-- `serializeRecord(meta, values)`, on the column list of `meta`. -/
def serializeRecord (columns : List ColumnDef) (values : List Value) : List Nat :=
  le32 (nullBitmapLoop 0 values 0) ++ serializeLoop columns values

/-- The loop `while (!str.empty() && str.back() == '\0') str.pop_back()`. -/
def stripTrailingZeros (s : List Nat) : List Nat :=
  (s.reverse.dropWhile fun b => decide (b = 0)).reverse

/-- The loop of `deserializeRecord` from column number `i` at byte `pos`;
a `break` ends the list of values. -/
def deserializeLoop (data : List Nat) (dataLen : Int) (nullBitmap : Nat) :
    Nat → List ColumnDef → Int → List Value
  | _, [], _ => []
  | i, col :: cols, pos =>
    let isNull := decide (nullBitmap &&& shl1 i ≠ 0)
    match col.type with
    | DataType.INT =>
      if pos + 4 > dataLen then []
      else
        (if isNull then Value.makeNull else Value.ofInt (toInt (rd32 data pos))) ::
          deserializeLoop data dataLen nullBitmap (i + 1) cols (pos + 4)
    | DataType.FLOAT =>
      if pos + 8 > dataLen then []
      else
        (if isNull then Value.makeNull else Value.ofFloat (rd64 data pos)) ::
          deserializeLoop data dataLen nullBitmap (i + 1) cols (pos + 8)
    | DataType.VARCHAR =>
      if pos + 4 > dataLen then []
      else
        let len := toInt (rd32 data pos)
        let pos1 := pos + 4
        (if isNull then Value.makeNull
          else
            let len1 := if pos1 + len > dataLen then dataLen - pos1 else len
            Value.ofString (stripTrailingZeros ((data.drop pos1.toNat).take len1.toNat))) ::
          deserializeLoop data dataLen nullBitmap (i + 1) cols (pos1 + col.length)
    | DataType.UNKNOWN => deserializeLoop data dataLen nullBitmap (i + 1) cols pos

/-- `deserializeRecord(meta, data, dataLen)` with `dataLen` the size of
`data`. -/
def deserializeRecord (columns : List ColumnDef) (data : List Nat) : List Value :=
  if (data.length : Int) < 4 then []
  else deserializeLoop data data.length (rd32 data 0) 0 columns 4

/-- A value is valid for a column: it is null, or it has the column's type and
its content is representable (an `int`, a 64-bit pattern, a byte string no
longer than the VARCHAR capacity). -/
def ValidFor (col : ColumnDef) (v : Value) : Prop :=
  v.isNull = true ∨
    (col.type = DataType.INT ∧ v.type = ValueType.INT ∧
      -2147483648 ≤ v.intVal ∧ v.intVal < 2147483648) ∨
    (col.type = DataType.FLOAT ∧ v.type = ValueType.FLOAT ∧ v.floatVal < 18446744073709551616) ∨
    (col.type = DataType.VARCHAR ∧ v.type = ValueType.STRING ∧
      (v.strVal.length : Int) ≤ col.length ∧ ∀ b ∈ v.strVal, b < 256)

/-- Two values have the same null flag and, when not null, the same type and
the same content of that type (integer, floating-point pattern or string). -/
def SameContent (v w : Value) : Prop :=
  v.isNull = w.isNull ∧
    (v.isNull = false → v.type = w.type ∧
      match v.type with
      | ValueType.INT => v.intVal = w.intVal
      | ValueType.FLOAT => v.floatVal = w.floatVal
      | ValueType.STRING => v.strVal = w.strVal
      | ValueType.NULL_VALUE => True)

/-- A schema the encoding handles: at most 32 columns (the width of the null
bitmap), each INT, FLOAT or VARCHAR with a capacity that is a non-negative
`int`. -/
def SupportedSchema (columns : List ColumnDef) : Prop :=
  columns.length ≤ 32 ∧
    ∀ col ∈ columns, col.type ≠ DataType.UNKNOWN ∧ 0 ≤ col.length ∧ col.length < 2147483648

/-- The last byte of a string, when there is one, is not NUL. -/
def NoTrailingNul (s : List Nat) : Prop := ∀ b, s.getLast? = some b → b ≠ 0

/-- The value the decoder builds from the content of `v`. -/
def canon (v : Value) : Value :=
  if v.isNull then Value.makeNull
  else match v.type with
    | ValueType.INT => Value.ofInt v.intVal
    | ValueType.FLOAT => Value.ofFloat v.floatVal
    | ValueType.STRING => Value.ofString v.strVal
    | ValueType.NULL_VALUE => Value.makeNull

/-- The null bitmap agrees with the null flags of `vals` from bit `i` on. -/
def BitsMatch (bitmap : Nat) : Nat → List Value → Prop
  | _, [] => True
  | i, v :: vs => bitmap.testBit i = v.isNull ∧ BitsMatch bitmap (i + 1) vs

/-- Every value of the row is valid for its column and no string ends in a NUL
byte. -/
def RowValid : List ColumnDef → List Value → Prop
  | [], [] => True
  | col :: cols, v :: vs =>
    ValidFor col v ∧ (v.isNull = false → NoTrailingNul v.strVal) ∧ RowValid cols vs
  | _, _ => False

/-- A row is valid under a schema as the claim words it: one value per column,
each valid for its column. -/
def ClaimRowValid (columns : List ColumnDef) (row : List Value) : Prop :=
  List.Forall₂ ValidFor columns row

/-- The schema of scenario S1 with a FLOAT column added. -/
def exampleColumns : List ColumnDef :=
  [⟨"id", DataType.INT, 0, true⟩, ⟨"n", DataType.VARCHAR, 8, false⟩,
    ⟨"f", DataType.FLOAT, 0, false⟩]

/-- A row of `exampleColumns`: a negative integer, the string "ab" and a null. -/
def exampleRow : List Value := [Value.ofInt (-2), Value.ofString [97, 98], Value.makeNull]

/-- A schema of 33 INT columns. -/
def wideColumns : List ColumnDef := List.replicate 33 ⟨"c", DataType.INT, 0, false⟩

/-- A row of `wideColumns` whose last value, at index 32, is null. -/
def wideRow : List Value := List.replicate 32 (Value.ofInt 7) ++ [Value.makeNull]

end QueryExecutor

namespace QueryExecutor

open RecordManager (Store insertRecord deleteRecord getAllRecordsDirect freshStore zeroDisk)

/-! ## Record count: `INSERT`, `DELETE` and `COUNT(*)`

`SystemManager::updateRecordCount`, `SystemManager::getNextRecordID`, the
row loop of `QueryExecutor::executeInsert`, the victim loop of
`QueryExecutor::executeDelete`, `QueryExecutor::scanTable` and the `COUNT(*)`
fast path of `QueryExecutor::executeSelect`.

The constraint checks of `executeInsert` (`checkNotNull`, `checkPrimaryKey`,
`checkForeignKey`), the WHERE predicate (`matchAllWhereClauses`) and the
foreign-key reference test of `executeDelete` read the state without changing
it; they are parameters here.  Index maintenance changes neither the record
store nor `recordCount` and is left out. -/

/-- One table: the counters of its `TableMeta`, its columns and its record
store. -/
structure Table where
  columns : List ColumnDef
  recordCount : Int
  nextRecordID : Int
  rm : Store

/-- `SystemManager::updateRecordCount` for an existing table. -/
def updateRecordCount (t : Table) (delta : Int) : Table :=
  if delta > 0 then { t with recordCount := t.recordCount + delta } else t

/-- `SystemManager::getNextRecordID` for an existing table. -/
def getNextRecordID (t : Table) : Int × Table :=
  (t.nextRecordID, { t with nextRecordID := t.nextRecordID + 1 })

/-- The word buffer `insertRecord(int, const char*, int)` builds from the
bytes: `(dataLen + 3) / 4` zeroed words with the bytes copied over them. -/
def packWords : List Nat → List Nat
  | [] => []
  | [b0] => [b0]
  | [b0, b1] => [b0 + 256 * b1]
  | [b0, b1, b2] => [b0 + 256 * b1 + 65536 * b2]
  | b0 :: b1 :: b2 :: b3 :: rest =>
    (b0 + 256 * b1 + 65536 * b2 + 16777216 * b3) :: packWords rest

/-- The bytes of a word buffer, as `getAllRecordsDirect` copies them out. -/
def unpackBytes : List Nat → List Nat
  | [] => []
  | w :: ws => le32 w ++ unpackBytes ws

/-- `scanTable`: every live record with its decoded values. -/
def scanTable (t : Table) : Option (List (Int × List Value)) :=
  (getAllRecordsDirect t.rm).map fun l =>
    l.map fun r => (r.1, deserializeRecord t.columns (unpackBytes r.2))

/-- One iteration of the row loop of `executeInsert`: the success flag and the
table afterwards. -/
def executeInsertRow (checks : Table → List Value → Bool) (t : Table) (values : List Value) :
    Bool × Table :=
  if values.length ≠ t.columns.length then (false, t)
  else if !checks t values then (false, t)
  else
    let data := serializeRecord t.columns values
    let (recordID, t1) := getNextRecordID t
    let r := insertRecord t1.rm recordID (packWords data)
    if !r.1 then (false, { t1 with rm := r.2 })
    else (true, updateRecordCount { t1 with rm := r.2 } 1)

/-- `executeInsert`: rows are inserted in order up to the first failure. -/
def executeInsert (checks : Table → List Value → Bool) : Table → List (List Value) → Bool × Table
  | t, [] => (true, t)
  | t, values :: rest =>
    let r := executeInsertRow checks t values
    if r.1 then executeInsert checks r.2 rest else (false, r.2)

/-- The victim loop of `executeDelete` over the scanned records: whether the
loop ran to its end (false: the early return on a referenced row), the store
at that point and `deletedCount`. -/
def deleteLoop (matchWhere referenced : List Value → Bool) :
    Store → Int → List (Int × List Value) → Option (Bool × Store × Int)
  | rm, deletedCount, [] => some (true, rm, deletedCount)
  | rm, deletedCount, (recordID, values) :: rest =>
    if matchWhere values then
      if referenced values then some (false, rm, deletedCount)
      else
        match deleteRecord rm recordID with
        | none => none
        | some (true, rm1) => deleteLoop matchWhere referenced rm1 (deletedCount + 1) rest
        | some (false, rm1) => deleteLoop matchWhere referenced rm1 deletedCount rest
    else deleteLoop matchWhere referenced rm deletedCount rest

/-- `executeDelete`: the success flag, `affectedRows` and the table afterwards.
The records come from `scanTable`; the filtered scan and the index probe of the
code return the rows among these that the loop's own WHERE test keeps. -/
def executeDelete (matchWhere referenced : List Value → Bool) (t : Table) :
    Option (Bool × Int × Table) :=
  match scanTable t with
  | none => none
  | some records =>
    match deleteLoop matchWhere referenced t.rm 0 records with
    | none => none
    | some (false, rm1, _) => some (false, 0, { t with rm := rm1 })
    | some (true, rm1, deletedCount) =>
      let t1 := { t with rm := rm1 }
      some (true, deletedCount, if deletedCount > 0 then updateRecordCount t1 (-deletedCount) else t1)

/-- The `COUNT(*)` fast path of `executeSelect` (no WHERE clause): the value of
the single result row. -/
def selectCountStar (t : Table) : Int :=
  let count := if t.recordCount ≥ 0 then t.recordCount else 0
  if count > 2147483647 then 2147483647 else count

/-- The table of scenario S1, just created: `t (id INT NOT NULL, n VARCHAR(8))`. -/
def tableS1 : Table :=
  { columns := [⟨"id", DataType.INT, 0, true⟩, ⟨"n", DataType.VARCHAR, 8, false⟩],
    recordCount := 0, nextRecordID := 1, rm := freshStore zeroDisk }

/-- The three rows of scenario S1: (1,'a'), (2,'b'), (3,'c'). -/
def rowsS1 : List (List Value) :=
  [[Value.ofInt 1, Value.ofString [97]], [Value.ofInt 2, Value.ofString [98]],
    [Value.ofInt 3, Value.ofString [99]]]

/-- The WHERE clause `id = 2` of scenario S1 on a decoded row. -/
def whereIdIs2 (values : List Value) : Bool :=
  match values with
  | v :: _ => !v.isNull && decide (v.intVal = 2)
  | [] => false

end QueryExecutor

namespace BPlusTree

/-! ## B+ tree index

`src/index/BPlusTree.cpp`.  The index file is kept at the granularity of nodes:
`pages p` is the node that `readNode(p)` decodes from page `p`, and `writeNode`
replaces it.  (`writeNode` followed by `readNode` returns the node written when
its `keyCount` entries fit in the page and, for an internal node, `keyCount`
is positive; the nodes written by the operations below are of that kind.)
The header page is kept as the two counters the operations update; the copies
of `rootPage` and `firstLeaf` that `updateHeader` writes there are read by
`load` only and are left out.  A `float` key is its 32-bit pattern. -/

/-- The struct `RID`. -/
structure RID where
  pageNum : Int
  slotNum : Int
deriving DecidableEq, Repr

/-- The enumeration `KeyType`. -/
inductive KeyType where
  | INT
  | FLOAT
  | VARCHAR
deriving DecidableEq, Repr

/-- The class `BPlusTreeNode`, with the defaults of its constructor. -/
structure BPlusTreeNode where
  pageNum : Int := -1
  isLeaf : Bool := true
  keyCount : Int := 0
  parent : Int := -1
  nextLeaf : Int := -1
  prevLeaf : Int := -1
  keys : List Int := []
  floatKeys : List Nat := []
  strKeys : List (List Nat) := []
  children : List Int := []
  rids : List RID := []
deriving DecidableEq, Repr

/-- The state of a `BPlusTree` object and of its file. -/
structure Tree where
  pages : Int → BPlusTreeNode
  nodeCount : Int
  entryCount : Int
  keyType : KeyType
  keyLength : Int
  order : Int
  rootPage : Int
  firstLeaf : Int

/-- `BP_HEADER_SIZE`. -/
def BP_HEADER_SIZE : Int := 16

/-- `calculateOrder`, with `Int.tdiv` for the division of `int`. -/
def calculateOrder (keyType : KeyType) (keyLength : Int) : Int :=
  let availableInts := RecordManager.PAGE_INT_NUM - BP_HEADER_SIZE
  let keySize : Int := if keyType = KeyType.VARCHAR then (keyLength + 3).tdiv 4 + 1 else 1
  let leafEntrySize := keySize + 2
  let internalEntrySize := keySize + 1
  let leafOrder := availableInts.tdiv leafEntrySize
  let internalOrder := (availableInts - 1).tdiv internalEntrySize
  min leafOrder internalOrder

/-- The tree after the constructor and `initialize`, on a file whose pages
decode to `disk`, with the member `order` as given. -/
def emptyTreeOfOrder (disk : Int → BPlusTreeNode) (keyType : KeyType) (order : Int) : Tree :=
  { pages := disk, nodeCount := 0, entryCount := 0, keyType := keyType, keyLength := 0,
    order := order, rootPage := -1, firstLeaf := -1 }

/-- The tree after the constructor and `initialize`: `order` is what the
constructor computes with `calculateOrder`. -/
def emptyTree (disk : Int → BPlusTreeNode) (keyType : KeyType) (keyLength : Int) : Tree :=
  { emptyTreeOfOrder disk keyType (calculateOrder keyType keyLength) with keyLength := keyLength }

/-- `readNode`: an internal node comes back with the default leaf links. -/
def readNode (t : Tree) (pageNum : Int) : BPlusTreeNode :=
  let n := t.pages pageNum
  if n.isLeaf then { n with pageNum := pageNum }
  else { n with pageNum := pageNum, nextLeaf := -1, prevLeaf := -1 }

/-- `writeNode`. -/
def writeNode (t : Tree) (node : BPlusTreeNode) : Tree :=
  { t with pages := fun p => if p = node.pageNum then node else t.pages p }

/-- `allocateNewPage`: the new page number and the tree with the header
counter advanced. -/
def allocateNewPage (t : Tree) : Int × Tree :=
  (t.nodeCount + 1, { t with nodeCount := t.nodeCount + 1 })

/-- `v.insert(v.begin() + i, x)`. -/
def insertAt {α : Type} (l : List α) (i : Nat) (x : α) : List α := l.take i ++ x :: l.drop i

/-- `v.erase(v.begin() + i)`. -/
def eraseAt {α : Type} (l : List α) (i : Nat) : List α := l.take i ++ l.drop (i + 1)

/-- The index the loop `while (i < keyCount && key >= keys[i]) i++` of
`findLeaf(int)` stops at. -/
def childIndex (node : BPlusTreeNode) (key : Int) : Nat :=
  ((node.keys.take node.keyCount.toNat).takeWhile fun k => decide (key ≥ k)).length

/-- The loop of `findLeaf(int)` from `currentPage`. -/
def findLeafLoop : Nat → Tree → Int → Int → Option Int
  | 0, _, _, _ => none
  | fuel + 1, t, key, currentPage =>
    let node := readNode t currentPage
    if node.isLeaf then some currentPage
    else findLeafLoop fuel t key (node.children.getD (childIndex node key) 0)

/-- Fuel for a walk through the nodes of the file: one step per allocated
node. -/
def nodeFuel (t : Tree) : Nat := (t.nodeCount + 1).toNat

/-- `findLeaf(int)`. -/
def findLeaf (t : Tree) (key : Int) : Option Int :=
  if t.rootPage = -1 then some (-1) else findLeafLoop (nodeFuel t) t key t.rootPage

/-- `insertIntoLeaf(leaf, int, rid)`. -/
def insertIntoLeaf (leaf : BPlusTreeNode) (key : Int) (rid : RID) : BPlusTreeNode :=
  let i := ((leaf.keys.take leaf.keyCount.toNat).takeWhile fun k => decide (k < key)).length
  { leaf with keys := insertAt leaf.keys i key, rids := insertAt leaf.rids i rid,
              keyCount := leaf.keyCount + 1 }

/-- The index the loop `while (i < children.size() && children[i] != page) i++`
stops at. -/
def indexOfChild (children : List Int) (page : Int) : Nat :=
  (children.takeWhile fun c => decide (c ≠ page)).length

/-- The loop of `splitInternal` that re-parents the children of the new node. -/
def reparent (t : Tree) (newPageNum : Int) : List Int → Tree
  | [] => t
  | childPage :: rest =>
    reparent (writeNode t { readNode t childPage with parent := newPageNum }) newPageNum rest

/-- `splitInternal` up to its final call of `insertIntoParent`: the tree with
both halves written, the left node, the promoted key and the new node. -/
def splitInternalPrep (t : Tree) (node : BPlusTreeNode) :
    Tree × BPlusTreeNode × Int × BPlusTreeNode :=
  let mid := (node.keyCount.tdiv 2).toNat
  let midKey := node.keys.getD mid 0
  let (newPageNum, t1) := allocateNewPage t
  let kc := node.keyCount.toNat
  let newKeys := (node.keys.take kc).drop (mid + 1)
  let newChildren := (node.children.take kc).drop (mid + 1) ++ [node.children.getLastD 0]
  let newNode : BPlusTreeNode :=
    { pageNum := newPageNum, isLeaf := false, parent := node.parent, keys := newKeys,
      children := newChildren, keyCount := (newKeys.length : Int) }
  let t2 := reparent t1 newPageNum newChildren
  let node1 := { node with keys := node.keys.take mid, children := node.children.take (mid + 1),
                           keyCount := (mid : Int) }
  let t3 := writeNode (writeNode t2 node1) newNode
  (t3, node1, midKey, newNode)

/-- `insertIntoParent(left, int, right)`, with `splitInternal` unfolded at its
call. -/
def insertIntoParent : Nat → Tree → BPlusTreeNode → Int → BPlusTreeNode → Option Tree
  | 0, _, _, _, _ => none
  | fuel + 1, t, left, key, right =>
    if left.parent = -1 then
      let (newRootPage, t1) := allocateNewPage t
      let newRoot : BPlusTreeNode :=
        { pageNum := newRootPage, isLeaf := false, keyCount := 1, parent := -1, keys := [key],
          children := [left.pageNum, right.pageNum] }
      let t2 := writeNode t1 newRoot
      let t3 := writeNode t2 { left with parent := newRootPage }
      let t4 := writeNode t3 { right with parent := newRootPage }
      some { t4 with rootPage := newRootPage }
    else
      let parent := readNode t left.parent
      let i := indexOfChild parent.children left.pageNum
      let parent1 := { parent with keys := insertAt parent.keys i key,
                                   children := insertAt parent.children (i + 1) right.pageNum,
                                   keyCount := parent.keyCount + 1 }
      let t1 := writeNode t { right with parent := parent1.pageNum }
      if parent1.keyCount ≥ t.order then
        let (t2, node1, midKey, newNode) := splitInternalPrep t1 parent1
        insertIntoParent fuel t2 node1 midKey newNode
      else some (writeNode t1 parent1)

/-- The parent of `left` as `insertIntoParent` has it after inserting `key`
and the page of `right` behind `left`. -/
def parentWithEntry (t : Tree) (left : BPlusTreeNode) (key : Int) (right : BPlusTreeNode) :
    BPlusTreeNode :=
  let parent := readNode t left.parent
  let i := indexOfChild parent.children left.pageNum
  { parent with keys := insertAt parent.keys i key,
                children := insertAt parent.children (i + 1) right.pageNum,
                keyCount := parent.keyCount + 1 }

/-- `splitInternal`. -/
def splitInternal (fuel : Nat) (t : Tree) (node : BPlusTreeNode) : Option Tree :=
  let (t1, node1, midKey, newNode) := splitInternalPrep t node
  insertIntoParent fuel t1 node1 midKey newNode

/-- `splitLeaf` up to its final call of `insertIntoParent`: the tree with both
halves written, the left leaf, the promoted key and the new leaf. -/
def splitLeafPrep (t : Tree) (leaf : BPlusTreeNode) :
    Tree × BPlusTreeNode × Int × BPlusTreeNode :=
  let mid := (leaf.keyCount.tdiv 2).toNat
  let (newPageNum, t1) := allocateNewPage t
  let kc := leaf.keyCount.toNat
  let newKeys := (leaf.keys.take kc).drop mid
  let newLeaf : BPlusTreeNode :=
    { pageNum := newPageNum, isLeaf := true, parent := leaf.parent, nextLeaf := leaf.nextLeaf,
      prevLeaf := leaf.pageNum, keys := newKeys, rids := (leaf.rids.take kc).drop mid,
      keyCount := (newKeys.length : Int) }
  let leaf1 := { leaf with keys := leaf.keys.take mid, rids := leaf.rids.take mid,
                           keyCount := (mid : Int), nextLeaf := newPageNum }
  let t2 :=
    if newLeaf.nextLeaf ≠ -1 then
      writeNode t1 { readNode t1 newLeaf.nextLeaf with prevLeaf := newPageNum }
    else t1
  let t3 := writeNode (writeNode t2 leaf1) newLeaf
  (t3, leaf1, newLeaf.keys.getD 0 0, newLeaf)

/-- `splitLeaf`. -/
def splitLeaf (fuel : Nat) (t : Tree) (leaf : BPlusTreeNode) : Option Tree :=
  let (t1, leaf1, midKey, newLeaf) := splitLeafPrep t leaf
  insertIntoParent fuel t1 leaf1 midKey newLeaf

/-- `insert(int, const RID&)`: the returned flag and the tree afterwards. -/
def insert (t : Tree) (key : Int) (rid : RID) : Option (Bool × Tree) :=
  if t.keyType ≠ KeyType.INT then some (false, t)
  else if t.rootPage = -1 then
    let (newPageNum, t1) := allocateNewPage t
    let leaf : BPlusTreeNode :=
      { pageNum := newPageNum, isLeaf := true, keyCount := 1, parent := -1, nextLeaf := -1,
        prevLeaf := -1, keys := [key], rids := [rid] }
    let t2 := writeNode t1 leaf
    some (true, { t2 with rootPage := newPageNum, firstLeaf := newPageNum,
                          entryCount := t2.entryCount + 1 })
  else
    match findLeaf t key with
    | none => none
    | some leafPage =>
      let leaf := readNode t leafPage
      if (leaf.keys.take leaf.keyCount.toNat).contains key then some (false, t)
      else
        let leaf1 := insertIntoLeaf leaf key rid
        let t1 := { t with entryCount := t.entryCount + 1 }
        if leaf1.keyCount ≥ t.order then (splitLeaf (nodeFuel t) t1 leaf1).map fun t2 => (true, t2)
        else some (true, writeNode t1 leaf1)

/-- The loop `for (i < keyCount) if (keys[i] == key) { rid = rids[i]; return true; }`
over the first `keyCount` keys and their RIDs. -/
def lookupLoop (key : Int) : List Int → List RID → Option RID
  | k :: ks, r :: rs => if k = key then some r else lookupLoop key ks rs
  | _, _ => none

/-- The search of a leaf for `key`. -/
def lookupInLeaf (leaf : BPlusTreeNode) (key : Int) : Option RID :=
  lookupLoop key (leaf.keys.take leaf.keyCount.toNat) leaf.rids

/-- `search(int, RID&)`: `some rid` for a true return with `rid` set, `none`
for a false return. -/
def search (t : Tree) (key : Int) : Option (Option RID) :=
  if t.keyType ≠ KeyType.INT ∨ t.rootPage = -1 then some none
  else
    match findLeaf t key with
    | none => none
    | some leafPage =>
      if leafPage = -1 then some none else some (lookupInLeaf (readNode t leafPage) key)

/-- The `for` loop of `rangeSearch(int, ..)` over one leaf, from entry `i`
on: the RIDs pushed and the `done` flag. -/
def scanLeaf (lowKey highKey : Int) (includeLow includeHigh : Bool) :
    List Int → List RID → List RID × Bool
  | k :: ks, r :: rs =>
    let aboveLow := if includeLow then decide (k ≥ lowKey) else decide (k > lowKey)
    let belowHigh := if includeHigh then decide (k ≤ highKey) else decide (k < highKey)
    if !belowHigh then ([], true)
    else
      let rest := scanLeaf lowKey highKey includeLow includeHigh ks rs
      if aboveLow && belowHigh then (r :: rest.1, rest.2) else rest
  | _, _ => ([], false)

/-- The `while (!done && leaf.pageNum != -1)` loop of `rangeSearch(int, ..)`. -/
def rangeLoop (lowKey highKey : Int) (includeLow includeHigh : Bool) :
    Nat → Tree → BPlusTreeNode → Option (List RID)
  | 0, _, _ => none
  | fuel + 1, t, leaf =>
    if leaf.pageNum = -1 then some []
    else
      let r := scanLeaf lowKey highKey includeLow includeHigh
        (leaf.keys.take leaf.keyCount.toNat) leaf.rids
      if !r.2 && leaf.nextLeaf ≠ -1 then
        (rangeLoop lowKey highKey includeLow includeHigh fuel t (readNode t leaf.nextLeaf)).map
          fun rest => r.1 ++ rest
      else some r.1

/-- `rangeSearch(int, int, bool, bool)`. -/
def rangeSearch (t : Tree) (lowKey highKey : Int) (includeLow includeHigh : Bool) :
    Option (List RID) :=
  if t.keyType ≠ KeyType.INT ∨ t.rootPage = -1 then some []
  else
    match findLeaf t lowKey with
    | none => none
    | some leafPage =>
      if leafPage = -1 then some []
      else rangeLoop lowKey highKey includeLow includeHigh (nodeFuel t) t (readNode t leafPage)

/-- `deleteFromLeaf(leaf, int)`. -/
def deleteFromLeaf (leaf : BPlusTreeNode) (key : Int) : BPlusTreeNode :=
  let i := ((leaf.keys.take leaf.keyCount.toNat).takeWhile fun k => decide (k ≠ key)).length
  if (i : Int) < leaf.keyCount then
    { leaf with keys := eraseAt leaf.keys i, rids := eraseAt leaf.rids i,
                keyCount := leaf.keyCount - 1 }
  else leaf

/-- `redistributeOrMerge`. -/
def redistributeOrMerge (t : Tree) (node : BPlusTreeNode) : Tree :=
  if node.keyCount > 0 then writeNode t node else t

/-- `remove(int)`: the returned flag and the tree afterwards. -/
def remove (t : Tree) (key : Int) : Option (Bool × Tree) :=
  if t.keyType ≠ KeyType.INT ∨ t.rootPage = -1 then some (false, t)
  else
    match findLeaf t key with
    | none => none
    | some leafPage =>
      if leafPage = -1 then some (false, t)
      else
        let leaf := readNode t leafPage
        if !(leaf.keys.take leaf.keyCount.toNat).contains key then some (false, t)
        else
          let leaf1 := deleteFromLeaf leaf key
          let t1 := { t with entryCount := t.entryCount - 1 }
          if leaf1.keyCount = 0 then
            if leaf1.pageNum = t.rootPage then
              some (true, { t1 with rootPage := -1, firstLeaf := -1 })
            else some (true, redistributeOrMerge t1 leaf1)
          else some (true, writeNode t1 leaf1)

/-- The `while (currentPage != -1)` loop of `getAllRIDs`. -/
def getAllRIDsLoop : Nat → Tree → Int → Option (List RID)
  | 0, _, _ => none
  | fuel + 1, t, currentPage =>
    if currentPage = -1 then some []
    else
      let leaf := readNode t currentPage
      (getAllRIDsLoop fuel t leaf.nextLeaf).map fun rest =>
        (leaf.rids.take leaf.keyCount.toNat) ++ rest

/-- `getAllRIDs`. -/
def getAllRIDs (t : Tree) : Option (List RID) :=
  if t.firstLeaf = -1 then some [] else getAllRIDsLoop (nodeFuel t + 1) t t.firstLeaf

/-! ### VARCHAR keys

`insert(const std::string&, ..)` and the overloads it calls.  A string is its
list of bytes; `std::string` comparison is lexicographic on the bytes. -/

/-- `a < b` for `std::string`. -/
def strLt : List Nat → List Nat → Bool
  | [], [] => false
  | [], _ :: _ => true
  | _ :: _, [] => false
  | a :: as, b :: bs => if a < b then true else if b < a then false else strLt as bs

/-- The index the loop `while (i < keyCount && key >= strKeys[i]) i++` of
`findLeaf(const std::string&)` stops at. -/
def childIndexStr (node : BPlusTreeNode) (key : List Nat) : Nat :=
  ((node.strKeys.take node.keyCount.toNat).takeWhile fun k => !strLt key k).length

/-- The loop of `findLeaf(const std::string&)` from `currentPage`. -/
def findLeafStrLoop : Nat → Tree → List Nat → Int → Option Int
  | 0, _, _, _ => none
  | fuel + 1, t, key, currentPage =>
    let node := readNode t currentPage
    if node.isLeaf then some currentPage
    else findLeafStrLoop fuel t key (node.children.getD (childIndexStr node key) 0)

/-- `findLeaf(const std::string&)`. -/
def findLeafStr (t : Tree) (key : List Nat) : Option Int :=
  if t.rootPage = -1 then some (-1) else findLeafStrLoop (nodeFuel t) t key t.rootPage

/-- `insertIntoLeaf(leaf, const std::string&, rid)`. -/
def insertIntoLeafStr (leaf : BPlusTreeNode) (key : List Nat) (rid : RID) : BPlusTreeNode :=
  let i := ((leaf.strKeys.take leaf.keyCount.toNat).takeWhile fun k => strLt k key).length
  { leaf with strKeys := insertAt leaf.strKeys i key, rids := insertAt leaf.rids i rid,
              keyCount := leaf.keyCount + 1 }

/-- The words the `keyCount` entries of a leaf take in its page, after the
header, as `writeNode` lays them out: a key word and two RID words for an INT
or FLOAT key, a length word, the bytes of the string in whole words and two
RID words for a VARCHAR key. -/
def leafWords (keyType : KeyType) (leaf : BPlusTreeNode) : Int :=
  match keyType with
  | KeyType.VARCHAR =>
    ((leaf.strKeys.take leaf.keyCount.toNat).map fun k => ((k.length : Int) + 3) / 4 + 3).sum
  | _ => 3 * leaf.keyCount

/-- The entries of the leaf fit in a page.  `writeNode` makes no such test: it
writes a leaf that does not fit past the end of the page buffer, which has no
defined result. -/
def leafFits (keyType : KeyType) (leaf : BPlusTreeNode) : Prop :=
  BP_HEADER_SIZE + leafWords keyType leaf ≤ RecordManager.PAGE_INT_NUM

instance (keyType : KeyType) (leaf : BPlusTreeNode) : Decidable (leafFits keyType leaf) :=
  inferInstanceAs (Decidable (BP_HEADER_SIZE + leafWords keyType leaf ≤ RecordManager.PAGE_INT_NUM))

/-- `insert(const std::string&, const RID&)`: the returned flag and the tree
afterwards.  The overload never splits a leaf; the call has no result here
when the leaf it writes does not fit in the page. -/
def insertStr (t : Tree) (key : List Nat) (rid : RID) : Option (Bool × Tree) :=
  if t.keyType ≠ KeyType.VARCHAR then some (false, t)
  else if t.rootPage = -1 then
    let (newPageNum, t1) := allocateNewPage t
    let leaf : BPlusTreeNode :=
      { pageNum := newPageNum, isLeaf := true, keyCount := 1, parent := -1, nextLeaf := -1,
        prevLeaf := -1, strKeys := [key], rids := [rid] }
    if leafFits KeyType.VARCHAR leaf then
      let t2 := writeNode t1 leaf
      some (true, { t2 with rootPage := newPageNum, firstLeaf := newPageNum,
                            entryCount := t2.entryCount + 1 })
    else none
  else
    match findLeafStr t key with
    | none => none
    | some leafPage =>
      let leaf := readNode t leafPage
      let leaf1 := insertIntoLeafStr leaf key rid
      let t1 := { t with entryCount := t.entryCount + 1 }
      if leafFits KeyType.VARCHAR leaf1 then some (true, writeNode t1 leaf1) else none

/-- An index file whose pages all decode to the default node. -/
def blankDisk : Int → BPlusTreeNode := fun _ => {}

/-- Insert the entries in order, ignoring the returned flags. -/
def insertAll : Tree → List (Int × RID) → Option Tree
  | t, [] => some t
  | t, (key, rid) :: rest =>
    match insert t key rid with
    | none => none
    | some r => insertAll r.2 rest

/-- Remove the keys in order, ignoring the returned flags. -/
def removeAll : Tree → List Int → Option Tree
  | t, [] => some t
  | t, key :: rest =>
    match remove t key with
    | none => none
    | some r => removeAll r.2 rest

/-- The keys `1, …, n`. -/
def upKeys (n : Nat) : List Int := (List.range n).map fun (i : Nat) => (i : Int) + 1

/-- The RIDs `(0,1), …, (0,n)`. -/
def upRids (n : Nat) : List RID := (List.range n).map fun (i : Nat) => ⟨0, (i : Int) + 1⟩

/-- The entries `(1, (0,1)), …, (n, (0,n))`. -/
def ascending (n : Nat) : List (Int × RID) := (upKeys n).zip (upRids n)

/-- The INT tree (order 677) on a blank file after the inserts of the keys
1, …, 677 in this order and the removals of the keys 1, …, 337 in this order.
(Every call returns; the default of `getD` is not used.) -/
def drainedTree : Tree :=
  ((insertAll (emptyTree blankDisk KeyType.INT 4) (ascending 677)).bind
    fun t => removeAll t (upKeys 337)).getD (emptyTree blankDisk KeyType.INT 4)

/-- The tree is a single root leaf at page 1 holding the keys `1, …, n`. -/
structure OneLeaf (t : Tree) (n : Nat) : Prop where
  keyType : t.keyType = KeyType.INT
  order : t.order = 677
  rootPage : t.rootPage = 1
  nodeCount : t.nodeCount = 1
  page1 : t.pages 1 =
    { pageNum := 1, isLeaf := true, keyCount := (n : Int), parent := -1, nextLeaf := -1,
      prevLeaf := -1, keys := upKeys n, rids := upRids n }

/-- The tree is the root at page 3 with the separator 339 over the leaves at
pages 1 and 2, and leaf 1 holds the keys `j + 1, …, 338`. -/
structure TwoLeaves (t : Tree) (j : Nat) : Prop where
  keyType : t.keyType = KeyType.INT
  order : t.order = 677
  rootPage : t.rootPage = 3
  nodeCount : t.nodeCount = 3
  page3 : t.pages 3 =
    { pageNum := 3, isLeaf := false, keyCount := 1, parent := -1, keys := [339],
      children := [1, 2] }
  page1 : t.pages 1 =
    { pageNum := 1, isLeaf := true, keyCount := (338 : Int) - (j : Int), parent := 3,
      nextLeaf := 2, prevLeaf := -1, keys := (upKeys 338).drop j, rids := (upRids 338).drop j }

end BPlusTree

namespace BPlusTree

/-! ### The shape of a well-formed INT tree

The invariant is stated page by page.  Every page of the tree carries a key
interval `[lo, hi)` and a height, kept in a `Ghost` record that is not part of
the program state: an internal node cuts its interval at its keys and hands
the pieces to its children, a leaf holds exactly the entries of the abstract
map `M` whose keys lie in its interval, and the leaves are threaded in key
order by `nextLeaf`. -/

/-- The fields of a node that the operations read back; `pageNum`, `prevLeaf`
and the leaf link of an internal node are not among them. -/
def view (n : BPlusTreeNode) : BPlusTreeNode :=
  { pageNum := 0, isLeaf := n.isLeaf, keyCount := n.keyCount, parent := n.parent,
    nextLeaf := if n.isLeaf then n.nextLeaf else -1, prevLeaf := 0, keys := n.keys,
    strKeys := [], children := n.children, rids := n.rids }

/-- The view of the node stored at page `p`. -/
def V (t : Tree) (p : Int) : BPlusTreeNode := view (t.pages p)

/-- The interval and height assigned to each page of the tree. -/
structure Ghost where
  inT : Int → Prop
  lo : Int → Int
  hi : Int → Int
  ht : Int → Nat

/-- Below every `int` key. -/
def BOT : Int := -2147483648

/-- Above every `int` key. -/
def TOP : Int := 2147483648

/-- A leaf with interval `[lo, hi)` holds, in increasing key order, exactly the
entries of `M` with a key in the interval. -/
def LeafOK (n : BPlusTreeNode) (lo hi : Int) (M : Int → Option RID) : Prop :=
  n.keyCount = (n.keys.length : Int) ∧ n.rids.length = n.keys.length ∧
    n.keys.Pairwise (· < ·) ∧
    ∀ k r, (k, r) ∈ n.keys.zip n.rids ↔ (M k = some r ∧ lo ≤ k ∧ k < hi)

/-- The child `c` of page `p` is a page of the tree with interval `[a, b)`,
one level below `p`, whose parent pointer is `p`. -/
def ChildOK (par : Int → Int) (g : Ghost) (p c a b : Int) : Prop :=
  g.inT c ∧ par c = p ∧ g.lo c = a ∧ g.hi c = b ∧ g.ht c + 1 = g.ht p

/-- The keys `ks` cut `[a, b)` into non-empty pieces, one for each of the
children `cs`, in order. -/
def KidsOK (par : Int → Int) (g : Ghost) (p : Int) : Int → Int → List Int → List Int → Prop
  | a, b, [], [c] => a < b ∧ ChildOK par g p c a b
  | a, b, k :: ks, c :: cs => a < k ∧ ChildOK par g p c a k ∧ KidsOK par g p k b ks cs
  | _, _, _, _ => False

/-- The parent pointer stored at each page. -/
def parentOf (t : Tree) (c : Int) : Int := (V t c).parent

/-- The node at page `p` is well formed. -/
def NodeOK (t : Tree) (g : Ghost) (M : Int → Option RID) (p : Int) : Prop :=
  if (V t p).isLeaf then LeafOK (V t p) (g.lo p) (g.hi p) M ∧ g.ht p = 0 ∧ g.lo p < g.hi p
  else (V t p).keyCount = ((V t p).keys.length : Int) ∧
    KidsOK (parentOf t) g p (g.lo p) (g.hi p) (V t p).keys (V t p).children

/-- Page `p` is the root and has no parent, or its parent pointer names an
internal node of the tree that lists `p` among its children. -/
def UpOK (t : Tree) (g : Ghost) (p : Int) : Prop :=
  ((V t p).parent = -1 ∧ p = t.rootPage) ∨
    ((V t p).parent ≠ -1 ∧ g.inT (V t p).parent ∧ (V t (V t p).parent).isLeaf = false ∧
      p ∈ (V t (V t p).parent).children)

/-- The leaves `chain` are linked by `nextLeaf` in this order, each interval
starting where the one before ends, up to `TOP`. -/
def ChainOK (t : Tree) (g : Ghost) : List Int → Prop
  | [] => False
  | [l] => g.inT l ∧ (V t l).isLeaf = true ∧ (V t l).nextLeaf = -1 ∧ g.hi l = TOP
  | l :: l2 :: rest =>
    g.inT l ∧ (V t l).isLeaf = true ∧ (V t l).nextLeaf = l2 ∧ g.hi l = g.lo l2 ∧
      ChainOK t g (l2 :: rest)

/-- A non-empty tree is well formed and holds the entries `M`. -/
structure Good (t : Tree) (g : Ghost) (M : Int → Option RID) (chain : List Int) : Prop where
  root_in : g.inT t.rootPage
  root_lo : g.lo t.rootPage = BOT
  root_hi : g.hi t.rootPage = TOP
  root_par : (V t t.rootPage).parent = -1
  range : ∀ p, g.inT p → 1 ≤ p ∧ p ≤ t.nodeCount
  node_ok : ∀ p, g.inT p → NodeOK t g M p
  up_ok : ∀ p, g.inT p → UpOK t g p
  ht_le : ∀ p, g.inT p → g.ht p ≤ g.ht t.rootPage
  height : (g.ht t.rootPage : Int) < t.nodeCount
  chain_ok : ChainOK t g chain
  chain_all : ∀ p, g.inT p → (V t p).isLeaf = true → p ∈ chain
  chain_len : (chain.length : Int) ≤ t.nodeCount

/-- The state between a split and the insertion of the separator into the
parent: the halves `left` and `right` are written and have their intervals,
cut at `sep`; the parent of `left` does not list `right` yet, and would be well
formed with `sep` and `right` inserted after `left`. -/
structure Pend (t : Tree) (g : Ghost) (M : Int → Option RID) (chain : List Int)
    (left right : BPlusTreeNode) (sep : Int) : Prop where
  left_v : V t left.pageNum = view left
  right_v : V t right.pageNum = view right
  left_in : g.inT left.pageNum
  right_in : g.inT right.pageNum
  ne : left.pageNum ≠ right.pageNum
  par_eq : right.parent = left.parent
  hi_left : g.hi left.pageNum = sep
  lo_right : g.lo right.pageNum = sep
  ht_eq : g.ht right.pageNum = g.ht left.pageNum
  root_in : g.inT t.rootPage
  root_lo : g.lo t.rootPage = BOT
  root_par : (V t t.rootPage).parent = -1
  root_hi : (left.parent = -1 ∧ g.hi right.pageNum = TOP) ∨
    (left.parent ≠ -1 ∧ g.hi t.rootPage = TOP)
  range : ∀ p, g.inT p → 1 ≤ p ∧ p ≤ t.nodeCount
  node_ok : ∀ p, g.inT p → p ≠ left.parent → NodeOK t g M p
  par_ok : left.parent ≠ -1 →
    (V t left.parent).keyCount = ((V t left.parent).keys.length : Int) ∧
    (V t left.parent).isLeaf = false ∧ g.inT left.parent ∧
    KidsOK (parentOf t) g left.parent (g.lo left.parent) (g.hi left.parent)
      (insertAt (V t left.parent).keys
        (indexOfChild (V t left.parent).children left.pageNum) sep)
      (insertAt (V t left.parent).children
        (indexOfChild (V t left.parent).children left.pageNum + 1) right.pageNum)
  up_ok : ∀ p, g.inT p → p ≠ right.pageNum → UpOK t g p
  ht_le : ∀ p, g.inT p → g.ht p ≤ g.ht t.rootPage
  height : (g.ht t.rootPage : Int) < t.nodeCount
  chain_ok : ChainOK t g chain
  chain_all : ∀ p, g.inT p → (V t p).isLeaf = true → p ∈ chain
  chain_len : (chain.length : Int) ≤ t.nodeCount

/-- The pages of two trees agree on everything but the keys and RIDs. -/
def SameShape (t t' : Tree) : Prop :=
  t'.rootPage = t.rootPage ∧ ∀ q, (V t' q).parent = (V t q).parent ∧
    (V t' q).isLeaf = (V t q).isLeaf ∧ (V t' q).children = (V t q).children ∧
    (V t' q).nextLeaf = (V t q).nextLeaf

/-- The chain of leaves with `R` put after `L`. -/
def insertAfter (L R : Int) : List Int → List Int
  | [] => []
  | l :: rest => if l = L then l :: R :: rest else l :: insertAfter L R rest

/-- The tree is an INT tree of order at least 3 that is empty with `M` empty,
or well formed with the entries `M`; the keys of `M` are `int`s. -/
def Inv (t : Tree) (M : Int → Option RID) : Prop :=
  t.keyType = KeyType.INT ∧ 3 ≤ t.order ∧ 0 ≤ t.nodeCount ∧
    (∀ k r, M k = some r → BOT ≤ k ∧ k < TOP) ∧
    ((t.rootPage = -1 ∧ ∀ k, M k = none) ∨ (t.rootPage ≠ -1 ∧ ∃ g chain, Good t g M chain))

/-- The map `M` with `key` bound to `rid`. -/
def bind (M : Int → Option RID) (key : Int) (rid : RID) : Int → Option RID :=
  fun k => if k = key then some rid else M k

/-- The map `M` after `insert(e.1, e.2)`: a key already bound keeps its RID. -/
def bindNew (M : Int → Option RID) (e : Int × RID) : Int → Option RID :=
  fun k => match M k with
    | some r => some r
    | none => if k = e.1 then some e.2 else none

/-- The entries an initially empty tree holds after the inserts of `entries`,
in order. -/
def entriesMap (entries : List (Int × RID)) : Int → Option RID :=
  entries.foldl bindNew (fun _ => none)

/-- The low bound of a range: `k >= lowKey`, or `k > lowKey` when the bound is
exclusive. -/
def aboveLow (lowKey : Int) (includeLow : Bool) (k : Int) : Bool :=
  if includeLow then decide (k ≥ lowKey) else decide (k > lowKey)

/-- The high bound of a range: `k <= highKey`, or `k < highKey` when the bound
is exclusive. -/
def belowHigh (highKey : Int) (includeHigh : Bool) (k : Int) : Bool :=
  if includeHigh then decide (k ≤ highKey) else decide (k < highKey)

end BPlusTree

namespace BPlusTree

/-! ### VARCHAR keys: `search` and `remove` -/

/-- The loop `for (i < keyCount) if (strKeys[i] == key) { rid = rids[i]; return true; }`
over the first `keyCount` keys and their RIDs. -/
def lookupStrLoop (key : List Nat) : List (List Nat) → List RID → Option RID
  | k :: ks, r :: rs => if k = key then some r else lookupStrLoop key ks rs
  | _, _ => none

/-- `search(const std::string&, RID&)`: `some rid` for a true return with `rid`
set, `none` for a false return. -/
def searchStr (t : Tree) (key : List Nat) : Option (Option RID) :=
  if t.keyType ≠ KeyType.VARCHAR ∨ t.rootPage = -1 then some none
  else
    match findLeafStr t key with
    | none => none
    | some leafPage =>
      if leafPage = -1 then some none
      else
        let leaf := readNode t leafPage
        some (lookupStrLoop key (leaf.strKeys.take leaf.keyCount.toNat) leaf.rids)

/-- `deleteFromLeaf(leaf, const std::string&)`. -/
def deleteFromLeafStr (leaf : BPlusTreeNode) (key : List Nat) : BPlusTreeNode :=
  let i := ((leaf.strKeys.take leaf.keyCount.toNat).takeWhile fun k => decide (k ≠ key)).length
  if (i : Int) < leaf.keyCount then
    { leaf with strKeys := eraseAt leaf.strKeys i, rids := eraseAt leaf.rids i,
                keyCount := leaf.keyCount - 1 }
  else leaf

/-- `remove(const std::string&)`: the returned flag and the tree afterwards. -/
def removeStr (t : Tree) (key : List Nat) : Option (Bool × Tree) :=
  if t.keyType ≠ KeyType.VARCHAR ∨ t.rootPage = -1 then some (false, t)
  else
    match findLeafStr t key with
    | none => none
    | some leafPage =>
      if leafPage = -1 then some (false, t)
      else
        let leaf := readNode t leafPage
        if !(leaf.strKeys.take leaf.keyCount.toNat).contains key then some (false, t)
        else
          let leaf1 := deleteFromLeafStr leaf key
          some (true, writeNode { t with entryCount := t.entryCount - 1 } leaf1)

end BPlusTree

namespace BPlusTree

/-! ### FLOAT keys

`insert(float, ..)`, `search(float, ..)`, `remove(float)` and the overloads
they call.  A `float` is its 32-bit pattern; the comparisons are those of IEEE
754: a NaN compares false with everything but under `!=`, and the two zeros
are equal. -/

/-- A `float` is a NaN: exponent field all ones and a non-zero fraction. -/
def floatIsNaN (w : Nat) : Bool :=
  decide (w / 8388608 % 256 = 255) && decide (w % 8388608 ≠ 0)

/-- An integer that orders as the `float` does when it is not a NaN: the
magnitude bits, negated when the sign bit is set (so `+0.0f` and `-0.0f` both
give 0). -/
def floatOrd (w : Nat) : Int :=
  if w / 2147483648 % 2 = 1 then -((w % 2147483648 : Nat) : Int)
  else ((w % 2147483648 : Nat) : Int)

/-- `a < b` on two `float`s. -/
def floatLt (a b : Nat) : Bool :=
  !floatIsNaN a && !floatIsNaN b && decide (floatOrd a < floatOrd b)

/-- `a >= b` on two `float`s. -/
def floatGe (a b : Nat) : Bool :=
  !floatIsNaN a && !floatIsNaN b && decide (floatOrd a ≥ floatOrd b)

/-- `a == b` on two `float`s. -/
def floatEq (a b : Nat) : Bool :=
  !floatIsNaN a && !floatIsNaN b && decide (floatOrd a = floatOrd b)

/-- The index the loop `while (i < keyCount && key >= floatKeys[i]) i++` of
`findLeaf(float)` stops at. -/
def childIndexFloat (node : BPlusTreeNode) (key : Nat) : Nat :=
  ((node.floatKeys.take node.keyCount.toNat).takeWhile fun k => floatGe key k).length

/-- The loop of `findLeaf(float)` from `currentPage`. -/
def findLeafFloatLoop : Nat → Tree → Nat → Int → Option Int
  | 0, _, _, _ => none
  | fuel + 1, t, key, currentPage =>
    let node := readNode t currentPage
    if node.isLeaf then some currentPage
    else findLeafFloatLoop fuel t key (node.children.getD (childIndexFloat node key) 0)

/-- `findLeaf(float)`. -/
def findLeafFloat (t : Tree) (key : Nat) : Option Int :=
  if t.rootPage = -1 then some (-1) else findLeafFloatLoop (nodeFuel t) t key t.rootPage

/-- `insertIntoLeaf(leaf, float, rid)`. -/
def insertIntoLeafFloat (leaf : BPlusTreeNode) (key : Nat) (rid : RID) : BPlusTreeNode :=
  let i := ((leaf.floatKeys.take leaf.keyCount.toNat).takeWhile fun k => floatLt k key).length
  { leaf with floatKeys := insertAt leaf.floatKeys i key, rids := insertAt leaf.rids i rid,
              keyCount := leaf.keyCount + 1 }

/-- `insert(float, const RID&)`: the returned flag and the tree afterwards.
Both branches of the final test on `keyCount >= order` write the leaf, so the
overload never splits; the call has no result here when the leaf it writes
does not fit in the page. -/
def insertFloat (t : Tree) (key : Nat) (rid : RID) : Option (Bool × Tree) :=
  if t.keyType ≠ KeyType.FLOAT then some (false, t)
  else if t.rootPage = -1 then
    let (newPageNum, t1) := allocateNewPage t
    let leaf : BPlusTreeNode :=
      { pageNum := newPageNum, isLeaf := true, keyCount := 1, parent := -1, nextLeaf := -1,
        prevLeaf := -1, floatKeys := [key], rids := [rid] }
    if leafFits KeyType.FLOAT leaf then
      let t2 := writeNode t1 leaf
      some (true, { t2 with rootPage := newPageNum, firstLeaf := newPageNum,
                            entryCount := t2.entryCount + 1 })
    else none
  else
    match findLeafFloat t key with
    | none => none
    | some leafPage =>
      let leaf := readNode t leafPage
      let leaf1 := insertIntoLeafFloat leaf key rid
      let t1 := { t with entryCount := t.entryCount + 1 }
      if leafFits KeyType.FLOAT leaf1 then some (true, writeNode t1 leaf1) else none

/-- The loop `for (i < keyCount) if (floatKeys[i] == key) { rid = rids[i]; return true; }`
over the first `keyCount` keys and their RIDs. -/
def lookupFloatLoop (key : Nat) : List Nat → List RID → Option RID
  | k :: ks, r :: rs => if floatEq k key then some r else lookupFloatLoop key ks rs
  | _, _ => none

/-- `search(float, RID&)`: `some rid` for a true return with `rid` set, `none`
for a false return. -/
def searchFloat (t : Tree) (key : Nat) : Option (Option RID) :=
  if t.keyType ≠ KeyType.FLOAT ∨ t.rootPage = -1 then some none
  else
    match findLeafFloat t key with
    | none => none
    | some leafPage =>
      if leafPage = -1 then some none
      else
        let leaf := readNode t leafPage
        some (lookupFloatLoop key (leaf.floatKeys.take leaf.keyCount.toNat) leaf.rids)

/-- `deleteFromLeaf(leaf, float)`. -/
def deleteFromLeafFloat (leaf : BPlusTreeNode) (key : Nat) : BPlusTreeNode :=
  let i := ((leaf.floatKeys.take leaf.keyCount.toNat).takeWhile fun k => !floatEq k key).length
  if (i : Int) < leaf.keyCount then
    { leaf with floatKeys := eraseAt leaf.floatKeys i, rids := eraseAt leaf.rids i,
                keyCount := leaf.keyCount - 1 }
  else leaf

/-- `remove(float)`: the returned flag and the tree afterwards. -/
def removeFloat (t : Tree) (key : Nat) : Option (Bool × Tree) :=
  if t.keyType ≠ KeyType.FLOAT ∨ t.rootPage = -1 then some (false, t)
  else
    match findLeafFloat t key with
    | none => none
    | some leafPage =>
      if leafPage = -1 then some (false, t)
      else
        let leaf := readNode t leafPage
        if !(leaf.floatKeys.take leaf.keyCount.toNat).any (fun k => floatEq k key) then
          some (false, t)
        else
          let leaf1 := deleteFromLeafFloat leaf key
          some (true, writeNode { t with entryCount := t.entryCount - 1 } leaf1)

end BPlusTree
namespace QueryExecutor

/-! ## Comparison of values and the WHERE predicate

`QueryExecutor::compareValues`, `evaluateCompare`, `likeMatch`,
`matchWhereClause` and `matchAllWhereClauses`, with `ResultSet::valueToString`
and the catalog structures of `src/system/SystemManager.h` they read.

A `double` is its 64-bit IEEE 754 pattern: the comparison, the conversion of
an `int` and the `"%.2f"` formatting below are computed on the pattern. -/

/-- The bytes of an ASCII string literal. -/
def asciiBytes (s : String) : List Nat := s.toList.map Char.toNat

/-- A `double` is a NaN: exponent field all ones and a non-zero fraction. -/
def doubleIsNaN (b : Nat) : Bool :=
  decide (b / 4503599627370496 % 2048 = 2047) && decide (b % 4503599627370496 ≠ 0)

/-- An integer that orders as the `double` does when it is not a NaN: the
magnitude bits, negated when the sign bit is set (so `+0.0` and `-0.0` both
give 0). -/
def doubleKey (b : Nat) : Int :=
  if b / 9223372036854775808 % 2 = 1 then -((b % 9223372036854775808 : Nat) : Int)
  else ((b % 9223372036854775808 : Nat) : Int)

/-- `f1 < f2` on two `double`s. -/
def doubleLt (a b : Nat) : Bool :=
  !doubleIsNaN a && !doubleIsNaN b && decide (doubleKey a < doubleKey b)

/-- The position of the highest set bit of `n` (0 for `n < 2`), for `n` below
`2 ^ fuel`. -/
def highBit : Nat → Nat → Nat
  | 0, _ => 0
  | fuel + 1, n => if n ≥ 2 then highBit fuel (n / 2) + 1 else 0

/-- `(double)i` for an `int` `i`: the conversion is exact. -/
def intToDouble (i : Int) : Nat :=
  if i = 0 then 0
  else
    let m := i.natAbs
    let e := highBit 64 m
    (if i < 0 then 9223372036854775808 else 0) + (1023 + e) * 4503599627370496 +
      m * 2 ^ (52 - e) % 4503599627370496

/-- `std::to_string(int)`. -/
def intToString (i : Int) : List Nat :=
  (if i < 0 then [45] else []) ++ (Nat.toDigits 10 i.natAbs).map Char.toNat

/-- `snprintf(buf, 64, "%.2f", x)`: the value rounded to two decimals (to
nearest, ties to even), cut to the 63 characters that fit the buffer. -/
def formatFixed2 (b : Nat) : List Nat :=
  let sign := if b / 9223372036854775808 % 2 = 1 then [45] else []
  let e := b / 4503599627370496 % 2048
  let f := b % 4503599627370496
  if e = 2047 then sign ++ asciiBytes (if f = 0 then "inf" else "nan")
  else
    let m := if e = 0 then f else f + 4503599627370496
    let sh : Int := (if e = 0 then 1 else (e : Int)) - 1075
    let num := if sh ≥ 0 then m * 100 * 2 ^ sh.toNat else m * 100
    let den := if sh ≥ 0 then 1 else 2 ^ (-sh).toNat
    let q := num / den
    let r := num % den
    let n := if 2 * r > den ∨ (2 * r = den ∧ q % 2 = 1) then q + 1 else q
    let frac := n % 100
    (sign ++ (Nat.toDigits 10 (n / 100)).map Char.toNat ++
      [46, 48 + frac / 10, 48 + frac % 10]).take 63

/-- `ResultSet::valueToString`. -/
def valueToString (val : Value) : List Nat :=
  if val.isNull then asciiBytes "NULL"
  else
    match val.type with
    | ValueType.INT => intToString val.intVal
    | ValueType.FLOAT => formatFixed2 val.floatVal
    | ValueType.STRING =>
      val.strVal.filter fun c => (decide (c ≥ 32) && decide (c < 127)) || decide (c ≥ 128)
    | ValueType.NULL_VALUE => asciiBytes "NULL"

/-- The sign of `s1.compare(s2)` for `std::string`: the callers read only the
sign of the result. -/
def strCompare (s1 s2 : List Nat) : Int :=
  if BPlusTree.strLt s1 s2 then -1 else if BPlusTree.strLt s2 s1 then 1 else 0

/-- `compareValues(v1, v2)`, up to the magnitude of the result of a string
comparison. -/
def compareValues (v1 v2 : Value) : Int :=
  if v1.isNull && v2.isNull then 0
  else if v1.isNull then -1
  else if v2.isNull then 1
  else if v1.type = ValueType.INT ∧ v2.type = ValueType.INT then
    if v1.intVal < v2.intVal then -1 else if v1.intVal > v2.intVal then 1 else 0
  else if v1.type = ValueType.FLOAT ∨ v2.type = ValueType.FLOAT then
    let f1 := if v1.type = ValueType.FLOAT then v1.floatVal else intToDouble v1.intVal
    let f2 := if v2.type = ValueType.FLOAT then v2.floatVal else intToDouble v2.intVal
    if doubleLt f1 f2 then -1 else if doubleLt f2 f1 then 1 else 0
  else if v1.type = ValueType.STRING ∧ v2.type = ValueType.STRING then
    strCompare v1.strVal v2.strVal
  else strCompare (valueToString v1) (valueToString v2)

/-- The enumeration `CompareOp`. -/
inductive CompareOp where
  | EQ
  | NE
  | LT
  | LE
  | GT
  | GE
  | LIKE
  | IS_NULL
  | IS_NOT_NULL
  | IN
deriving DecidableEq, Repr

/-- `evaluateCompare(op, cmpResult)`. -/
def evaluateCompare (op : CompareOp) (cmpResult : Int) : Bool :=
  match op with
  | CompareOp.EQ => decide (cmpResult = 0)
  | CompareOp.NE => decide (cmpResult ≠ 0)
  | CompareOp.LT => decide (cmpResult < 0)
  | CompareOp.LE => decide (cmpResult ≤ 0)
  | CompareOp.GT => decide (cmpResult > 0)
  | CompareOp.GE => decide (cmpResult ≥ 0)
  | _ => false

end QueryExecutor

namespace QueryExecutor

/-! ### `LIKE`

`likeMatch` rewrites the pattern into a regular expression and hands it to
`std::regex` (ECMAScript grammar, flag `icase`) and `std::regex_match`.  The
library is modelled on the expressions the rewriting can produce: a sequence
of atoms, each either `.` or one character (plain, or a syntax character after
a backslash), optionally followed by `*`.  In the ECMAScript grammar `.`
matches every character except the line terminators, which for `char` are
`\n` and `\r`; with `icase` a character matches when the two are equal after
`tolower` of the classic locale. -/

/-- The characters `likeMatch` puts a backslash before:
`. * + ? [ ] ( ) { } ^ $ |` and the backslash. -/
def isRegexSpecial (c : Nat) : Bool :=
  [46, 42, 43, 63, 91, 93, 40, 41, 123, 125, 94, 36, 124, 92].contains c

/-- The loop of `likeMatch` that builds the regular expression `reimu`. -/
def likeRegex : List Nat → List Nat
  | [] => []
  | c :: rest =>
    (if c = 37 then [46, 42]
      else if c = 95 then [46]
      else if isRegexSpecial c then [92, c]
      else [c]) ++ likeRegex rest

/-- An atom of a regular expression: `.` or one character. -/
inductive RegexAtom where
  | anyChar
  | char (c : Nat)
deriving DecidableEq, Repr

/-- A token of a regular expression: an atom or the quantifier `*`. -/
inductive RegexToken where
  | atom (a : RegexAtom)
  | star
deriving DecidableEq, Repr

/-- The scanner of `std::regex` on the fragment: `escaped` tells that the
previous character was an unescaped backslash.  The result is `none` for an
expression outside the fragment. -/
def regexTokens : Bool → List Nat → Option (List RegexToken)
  | true, [] => none
  | true, c :: rest =>
    if isRegexSpecial c then
      (regexTokens false rest).map fun ts => RegexToken.atom (RegexAtom.char c) :: ts
    else none
  | false, [] => some []
  | false, c :: rest =>
    if c = 92 then regexTokens true rest
    else if c = 46 then
      (regexTokens false rest).map fun ts => RegexToken.atom RegexAtom.anyChar :: ts
    else if c = 42 then (regexTokens false rest).map fun ts => RegexToken.star :: ts
    else if isRegexSpecial c then none
    else (regexTokens false rest).map fun ts => RegexToken.atom (RegexAtom.char c) :: ts

/-- The parser of `std::regex` on the fragment: each atom with the flag that a
`*` follows it; `none` for a `*` with nothing to repeat. -/
def regexItems : List RegexToken → Option (List (RegexAtom × Bool))
  | [] => some []
  | RegexToken.atom a :: RegexToken.star :: rest =>
    (regexItems rest).map fun items => (a, true) :: items
  | RegexToken.atom a :: rest => (regexItems rest).map fun items => (a, false) :: items
  | RegexToken.star :: _ => none

/-- `tolower` of the classic locale on a byte. -/
def asciiLower (c : Nat) : Nat := if 65 ≤ c ∧ c ≤ 90 then c + 32 else c

/-- One character against one atom, with `icase`. -/
def atomMatches (a : RegexAtom) (c : Nat) : Bool :=
  match a with
  | RegexAtom.anyChar => decide (c ≠ 10) && decide (c ≠ 13)
  | RegexAtom.char p => decide (asciiLower p = asciiLower c)

/-- The strings `a* k`: `k` accepts the rest after any number of characters
that match `a`. -/
def matchStar (k : List Nat → Bool) (a : RegexAtom) : List Nat → Bool
  | [] => k []
  | c :: s => k (c :: s) || (atomMatches a c && matchStar k a s)

/-- The whole string is in the language of the items (`std::regex_match`). -/
def matchItems : List (RegexAtom × Bool) → List Nat → Bool
  | [], s => s.isEmpty
  | (a, true) :: rest, s => matchStar (matchItems rest) a s
  | (a, false) :: rest, s =>
    match s with
    | [] => false
    | c :: s1 => atomMatches a c && matchItems rest s1

/-- `std::regex re(reimu, std::regex::icase); std::regex_match(str, re)` on the
fragment; `none` when `reimu` is outside it. -/
def regexMatch (reimu str : List Nat) : Option Bool :=
  ((regexTokens false reimu).bind regexItems).map fun items => matchItems items str

/-- `likeMatch(str, pattern)`. -/
def likeMatch (str pattern : List Nat) : Bool :=
  match regexMatch (likeRegex pattern) str with
  | some b => b
  | none => false

/-! ### The catalog structures and the WHERE predicate -/

/-- The struct `Column`. -/
structure Column where
  tableName : String := ""
  columnName : String := ""
deriving DecidableEq, Repr

/-- The struct `WhereClause`. -/
structure WhereClause where
  column : Column := {}
  op : CompareOp := CompareOp.EQ
  value : Value := Value.makeNull
  rightColumn : Column := {}
  inList : List Value := []
  isColumnCompare : Bool := false
deriving DecidableEq, Repr

/-- The struct `KeyDef`. -/
structure KeyDef where
  name : String
  columns : List String
  refTable : String
  refColumns : List String
deriving DecidableEq, Repr

/-- The struct `TableMeta`, with the fields the executor reads. -/
structure TableMeta where
  tableName : String
  columns : List ColumnDef
  primaryKey : List String := []
  foreignKeys : List KeyDef := []
  indexes : List String := []
  recordCount : Int := 0
  nextRecordID : Int := 1
deriving DecidableEq, Repr

/-- The loop of `TableMeta::getColumnIndex` from index `i`. -/
def getColumnIndexFrom (colName : String) : Int → List ColumnDef → Int
  | _, [] => -1
  | i, col :: cols => if col.name = colName then i else getColumnIndexFrom colName (i + 1) cols

/-- `TableMeta::getColumnIndex`. -/
def TableMeta.getColumnIndex (tableMeta : TableMeta) (colName : String) : Int :=
  getColumnIndexFrom colName 0 tableMeta.columns

/-- `TableMeta::hasIndex`. -/
def TableMeta.hasIndex (tableMeta : TableMeta) (colName : String) : Bool :=
  tableMeta.indexes.contains colName

/-- The column name without its table prefix: the text after the first dot
when there is one (`colName.substr(colName.find(.) + 1)`). -/
def stripTablePrefix (colName : String) : String :=
  match colName.toList.dropWhile fun c => c != Char.ofNat 46 with
  | [] => colName
  | _ :: rest => String.mk rest

/-- `record[idx]` for an index already checked against the size. -/
def valueAt (record : List Value) (idx : Int) : Value := record.getD idx.toNat Value.makeNull

/-- The right operand of a comparison in `matchWhereClause`: the compared
column of the row (`none` when it does not resolve) or the literal. -/
def rightOperand (clause : WhereClause) (tableMeta : TableMeta) (record : List Value) :
    Option Value :=
  if clause.isColumnCompare then
    let rightColIdx := tableMeta.getColumnIndex (stripTablePrefix clause.rightColumn.columnName)
    if rightColIdx < 0 ∨ rightColIdx ≥ record.length then none
    else some (valueAt record rightColIdx)
  else some clause.value

/-- `matchWhereClause(clause, meta, record)`. -/
def matchWhereClause (clause : WhereClause) (tableMeta : TableMeta) (record : List Value) : Bool :=
  let colIdx := tableMeta.getColumnIndex (stripTablePrefix clause.column.columnName)
  if colIdx < 0 ∨ colIdx ≥ record.length then false
  else
    let leftVal := valueAt record colIdx
    match clause.op with
    | CompareOp.IS_NULL => leftVal.isNull
    | CompareOp.IS_NOT_NULL => !leftVal.isNull
    | CompareOp.LIKE =>
      if leftVal.isNull then false
      else
        likeMatch
          (if leftVal.type = ValueType.STRING then leftVal.strVal else valueToString leftVal)
          clause.value.strVal
    | CompareOp.IN => clause.inList.any fun v => decide (compareValues leftVal v = 0)
    | op =>
      match rightOperand clause tableMeta record with
      | none => false
      | some rightVal =>
        if leftVal.isNull || rightVal.isNull then false
        else evaluateCompare op (compareValues leftVal rightVal)

/-- `matchAllWhereClauses(clauses, meta, record)`. -/
def matchAllWhereClauses (clauses : List WhereClause) (tableMeta : TableMeta)
    (record : List Value) : Bool :=
  clauses.all fun clause => matchWhereClause clause tableMeta record

end QueryExecutor

namespace QueryExecutor

/-- The items of the regular expression of a LIKE pattern, read off the
pattern: `%` is `.*`, `_` is `.`, every other character is itself. -/
def likeItems : List Nat → List (RegexAtom × Bool)
  | [] => []
  | c :: rest =>
    (if c = 37 then (RegexAtom.anyChar, true)
      else if c = 95 then (RegexAtom.anyChar, false)
      else (RegexAtom.char c, false)) :: likeItems rest

end QueryExecutor

namespace QueryExecutor

/-! ## Arithmetic of `double`

The sums and the quotient the aggregates compute, on the 64-bit pattern of a
`double`: the exact result rounded to nearest, ties to even.  A NaN operand
gives that operand with the quiet bit set, an invalid operation the default
NaN. -/

/-- The sign bit of a `double` is set. -/
def doubleNegative (b : Nat) : Bool := decide (b / 9223372036854775808 % 2 = 1)

/-- The significand of a finite `double`, as an integer. -/
def doubleMantissa (b : Nat) : Nat :=
  if b / 4503599627370496 % 2048 = 0 then b % 4503599627370496
  else b % 4503599627370496 + 4503599627370496

/-- The exponent of the last bit of the significand of a finite `double`: its
magnitude is `doubleMantissa b * 2 ^ doubleExponent b`. -/
def doubleExponent (b : Nat) : Int :=
  (if b / 4503599627370496 % 2048 = 0 then 1 else ((b / 4503599627370496 % 2048 : Nat) : Int)) -
    1075

/-- A `double` is an infinity. -/
def doubleIsInf (b : Nat) : Bool :=
  decide (b / 4503599627370496 % 2048 = 2047) && decide (b % 4503599627370496 = 0)

/-- The pattern of a sign bit. -/
def signBit (negative : Bool) : Nat := if negative then 9223372036854775808 else 0

/-- The default NaN of an invalid operation. -/
def defaultNaN : Nat := 18444492273895866368

/-- A NaN with its quiet bit set. -/
def quietNaN (b : Nat) : Nat :=
  if b / 2251799813685248 % 2 = 1 then b else b + 2251799813685248

/-- The position of the highest set bit of `n` (0 for `n < 2`), for `n` below
`2 ^ 4096`: the halving search over the exponents 2048, 1024, ..., 1. -/
def topBit (n : Nat) : Nat :=
  ([2048, 1024, 512, 256, 128, 64, 32, 16, 8, 4, 2, 1].foldl
    (fun (acc : Nat × Nat) (k : Nat) =>
      if acc.2 >>> k ≠ 0 then (acc.1 + k, acc.2 >>> k) else acc) (0, n)).1

/-- The `double` nearest to `mag * 2 ^ q` with the given sign, ties to even;
an infinity when the rounded value is too large. -/
def roundDouble (negative : Bool) (mag : Nat) (q : Int) : Nat :=
  if mag = 0 then signBit negative
  else
    let len : Int := ((topBit mag + 1 : Nat) : Int)
    let q1 : Int := max (q + len - 53) (-1074)
    let sh := q1 - q
    let m :=
      if sh ≤ 0 then mag * 2 ^ (-sh).toNat
      else
        let d := 2 ^ sh.toNat
        let t := mag / d
        let r := mag % d
        if 2 * r > d ∨ (2 * r = d ∧ t % 2 = 1) then t + 1 else t
    let m2 := if m = 9007199254740992 then 4503599627370496 else m
    let q2 := if m = 9007199254740992 then q1 + 1 else q1
    if q2 > 971 then signBit negative + 2047 * 4503599627370496
    else if m2 < 4503599627370496 then signBit negative + m2
    else signBit negative + (q2 + 1075).toNat * 4503599627370496 + (m2 - 4503599627370496)

/-- The value of a finite `double` as an integer multiple of `2 ^ q`, for `q`
at most its exponent. -/
def doubleScaled (b : Nat) (q : Int) : Int :=
  let v : Int := ((doubleMantissa b * 2 ^ (doubleExponent b - q).toNat : Nat) : Int)
  if doubleNegative b then -v else v

/-- The sum `a + b` of two `double`s. -/
def doubleAdd (a b : Nat) : Nat :=
  if doubleIsNaN a then quietNaN a
  else if doubleIsNaN b then quietNaN b
  else if doubleIsInf a then
    if doubleIsInf b ∧ doubleNegative a ≠ doubleNegative b then defaultNaN else a
  else if doubleIsInf b then b
  else if doubleMantissa a = 0 then
    if doubleMantissa b = 0 then signBit (doubleNegative a && doubleNegative b) else b
  else if doubleMantissa b = 0 then a
  else
    let q := min (doubleExponent a) (doubleExponent b)
    let s := doubleScaled a q + doubleScaled b q
    if s = 0 then 0 else roundDouble (decide (s < 0)) s.natAbs q

/-- The quotient `a / b` of two `double`s. -/
def doubleDiv (a b : Nat) : Nat :=
  let negative := doubleNegative a != doubleNegative b
  if doubleIsNaN a then quietNaN a
  else if doubleIsNaN b then quietNaN b
  else if doubleIsInf a then
    if doubleIsInf b then defaultNaN else signBit negative + 2047 * 4503599627370496
  else if doubleIsInf b then signBit negative
  else if doubleMantissa b = 0 then
    if doubleMantissa a = 0 then defaultNaN else signBit negative + 2047 * 4503599627370496
  else
    let n := doubleMantissa a * 2 ^ 128
    let quot := n / doubleMantissa b
    let sticky := if n % doubleMantissa b = 0 then 0 else 1
    roundDouble negative (2 * quot + sticky) (doubleExponent a - doubleExponent b - 129)

/-- `(double)n` for a `long long` `n`: exact below `2 ^ 53`, where it is the
conversion of an `int`, and rounded above. -/
def longToDouble (n : Int) : Nat :=
  if n.natAbs < 9007199254740992 then intToDouble n else roundDouble (decide (n < 0)) n.natAbs 0

/-- `(int)x` for a `double` `x`: the value cut towards zero.  The conversion
of a NaN or of a value outside the range of `int` is undefined in C++; the
function gives what the conversion instruction of x86-64 gives, `INT_MIN`. -/
def doubleToInt (b : Nat) : Int :=
  if b / 4503599627370496 % 2048 = 2047 then -2147483648
  else
    let e := doubleExponent b
    let mag : Nat :=
      if e ≥ 0 then doubleMantissa b <<< e.toNat else doubleMantissa b >>> (-e).toNat
    let v : Int := if doubleNegative b then -(mag : Int) else (mag : Int)
    if v < -2147483648 ∨ v > 2147483647 then -2147483648 else v

/-- The `double` a `float` converts to, on the 32-bit pattern of the `float`:
the conversion is exact, and a NaN comes out quiet. -/
def floatToDouble (w : Nat) : Nat :=
  let sign := signBit (decide (w / 2147483648 % 2 = 1))
  let e := w / 8388608 % 256
  let f := w % 8388608
  if e = 255 then
    if f = 0 then sign + 2047 * 4503599627370496
    else quietNaN (sign + 2047 * 4503599627370496 + f * 536870912)
  else if e = 0 then roundDouble (decide (w / 2147483648 % 2 = 1)) f (-149)
  else sign + (e + 896) * 4503599627370496 + f * 536870912

/-- The sign bit of a `float`. -/
def floatSign (negative : Bool) : Nat := if negative then 2147483648 else 0

/-- The `float` nearest to `mag * 2 ^ q` with the given sign, ties to even; an
infinity when the rounded value is too large. -/
def roundFloat (negative : Bool) (mag : Nat) (q : Int) : Nat :=
  if mag = 0 then floatSign negative
  else
    let len : Int := ((topBit mag + 1 : Nat) : Int)
    let q1 : Int := max (q + len - 24) (-149)
    let sh := q1 - q
    let m :=
      if sh ≤ 0 then mag * 2 ^ (-sh).toNat
      else
        let d := 2 ^ sh.toNat
        let t := mag / d
        let r := mag % d
        if 2 * r > d ∨ (2 * r = d ∧ t % 2 = 1) then t + 1 else t
    let m2 := if m = 16777216 then 8388608 else m
    let q2 := if m = 16777216 then q1 + 1 else q1
    if q2 > 104 then floatSign negative + 255 * 8388608
    else if m2 < 8388608 then floatSign negative + m2
    else floatSign negative + (q2 + 150).toNat * 8388608 + (m2 - 8388608)

/-- `(float)x` for a `double` `x`, as the 32-bit pattern of the result: the
nearest `float`, ties to even.  A value too large for `float`, for which the
conversion is undefined in C++, gives the infinity the conversion instruction
of x86-64 gives; a NaN keeps its sign and the upper fraction bits and comes
out quiet. -/
def doubleToFloat (b : Nat) : Nat :=
  if doubleIsNaN b then
    let w := floatSign (doubleNegative b) + 255 * 8388608 + b % 4503599627370496 / 536870912
    if w / 4194304 % 2 = 1 then w else w + 4194304
  else if doubleIsInf b then floatSign (doubleNegative b) + 255 * 8388608
  else roundFloat (doubleNegative b) (doubleMantissa b) (doubleExponent b)

end QueryExecutor
namespace IndexManager

open BPlusTree (Tree RID KeyType)
open QueryExecutor (doubleToFloat)

/-! ## Index manager

`src/index/IndexManager.cpp`: the map `openIndexes` from index keys to trees.
Every index of the database is taken to be open, as it is from `createIndex`
on.  A `double` key is its 64-bit pattern; the FLOAT overloads convert it to
`float` before they reach the tree.  A result `none` stands for a loop out of
fuel or for a leaf written past its page. -/

/-- The map `openIndexes`, as the list of its entries. -/
abbrev OpenIndexes := List (String × Tree)

/-- `getIndexKey`. -/
def getIndexKey (tableName columnName : String) : String := tableName ++ "_" ++ columnName

/-- `openIndex` for the indexes that are open: the tree of the key, if any. -/
def openIndex (im : OpenIndexes) (tableName columnName : String) : Option Tree :=
  (im.find? fun e => decide (e.1 = getIndexKey tableName columnName)).map fun e => e.2

/-- The map with the tree of an index replaced (the tree object is updated in
place by its operations). -/
def putIndex (tableName columnName : String) (tree : Tree) : OpenIndexes → OpenIndexes
  | [] => []
  | e :: es =>
    if e.1 = getIndexKey tableName columnName then (e.1, tree) :: es
    else e :: putIndex tableName columnName tree es

/-- `createIndex(tableName, columnName, keyType, keyLength)`: nothing is done
when the index exists; otherwise the new index file, whose pages decode to
`disk`, is initialised and opened. -/
def createIndex (im : OpenIndexes) (disk : Int → BPlusTree.BPlusTreeNode)
    (tableName columnName : String) (keyType : KeyType) (keyLength : Int) : OpenIndexes :=
  if (openIndex im tableName columnName).isSome then im
  else im ++ [(getIndexKey tableName columnName, BPlusTree.emptyTree disk keyType keyLength)]

/-- `insertEntry(tableName, columnName, int key, rid)`. -/
def insertEntry (im : OpenIndexes) (tableName columnName : String) (key : Int) (rid : RID) :
    Option (Bool × OpenIndexes) :=
  match openIndex im tableName columnName with
  | none => some (false, im)
  | some tree =>
    if tree.keyType ≠ KeyType.INT then some (false, im)
    else (BPlusTree.insert tree key rid).map fun r => (r.1, putIndex tableName columnName r.2 im)

/-- `insertEntry(tableName, columnName, double key, rid)`. -/
def insertEntryFloat (im : OpenIndexes) (tableName columnName : String) (key : Nat) (rid : RID) :
    Option (Bool × OpenIndexes) :=
  match openIndex im tableName columnName with
  | none => some (false, im)
  | some tree =>
    if tree.keyType ≠ KeyType.FLOAT then some (false, im)
    else
      (BPlusTree.insertFloat tree (doubleToFloat key) rid).map fun r =>
        (r.1, putIndex tableName columnName r.2 im)

/-- `insertEntry(tableName, columnName, const std::string& key, rid)`. -/
def insertEntryStr (im : OpenIndexes) (tableName columnName : String) (key : List Nat)
    (rid : RID) : Option (Bool × OpenIndexes) :=
  match openIndex im tableName columnName with
  | none => some (false, im)
  | some tree =>
    if tree.keyType ≠ KeyType.VARCHAR then some (false, im)
    else
      (BPlusTree.insertStr tree key rid).map fun r => (r.1, putIndex tableName columnName r.2 im)

/-- `deleteEntry(tableName, columnName, int key)`. -/
def deleteEntry (im : OpenIndexes) (tableName columnName : String) (key : Int) :
    Option (Bool × OpenIndexes) :=
  match openIndex im tableName columnName with
  | none => some (false, im)
  | some tree =>
    if tree.keyType ≠ KeyType.INT then some (false, im)
    else (BPlusTree.remove tree key).map fun r => (r.1, putIndex tableName columnName r.2 im)

/-- `deleteEntry(tableName, columnName, double key)`. -/
def deleteEntryFloat (im : OpenIndexes) (tableName columnName : String) (key : Nat) :
    Option (Bool × OpenIndexes) :=
  match openIndex im tableName columnName with
  | none => some (false, im)
  | some tree =>
    if tree.keyType ≠ KeyType.FLOAT then some (false, im)
    else
      (BPlusTree.removeFloat tree (doubleToFloat key)).map fun r =>
        (r.1, putIndex tableName columnName r.2 im)

/-- `deleteEntry(tableName, columnName, const std::string& key)`. -/
def deleteEntryStr (im : OpenIndexes) (tableName columnName : String) (key : List Nat) :
    Option (Bool × OpenIndexes) :=
  match openIndex im tableName columnName with
  | none => some (false, im)
  | some tree =>
    if tree.keyType ≠ KeyType.VARCHAR then some (false, im)
    else (BPlusTree.removeStr tree key).map fun r => (r.1, putIndex tableName columnName r.2 im)

/-- `searchEntry(tableName, columnName, int key, rid)`: `some rid` for a true
return, `none` for a false one. -/
def searchEntry (im : OpenIndexes) (tableName columnName : String) (key : Int) :
    Option (Option RID) :=
  match openIndex im tableName columnName with
  | none => some none
  | some tree => if tree.keyType ≠ KeyType.INT then some none else BPlusTree.search tree key

/-- `searchEntry(tableName, columnName, double key, rid)`. -/
def searchEntryFloat (im : OpenIndexes) (tableName columnName : String) (key : Nat) :
    Option (Option RID) :=
  match openIndex im tableName columnName with
  | none => some none
  | some tree =>
    if tree.keyType ≠ KeyType.FLOAT then some none
    else BPlusTree.searchFloat tree (doubleToFloat key)

/-- `searchEntry(tableName, columnName, const std::string& key, rid)`. -/
def searchEntryStr (im : OpenIndexes) (tableName columnName : String) (key : List Nat) :
    Option (Option RID) :=
  match openIndex im tableName columnName with
  | none => some none
  | some tree =>
    if tree.keyType ≠ KeyType.VARCHAR then some none else BPlusTree.searchStr tree key

/-- `rangeSearch(tableName, columnName, int lowKey, int highKey, ..)`. -/
def rangeSearch (im : OpenIndexes) (tableName columnName : String) (lowKey highKey : Int)
    (includeLow includeHigh : Bool) : Option (List RID) :=
  match openIndex im tableName columnName with
  | none => some []
  | some tree =>
    if tree.keyType ≠ KeyType.INT then some []
    else BPlusTree.rangeSearch tree lowKey highKey includeLow includeHigh

end IndexManager

namespace SystemManager

open QueryExecutor (TableMeta ColumnDef KeyDef DataType)
open RecordManager (Store)

/-! ## Catalog

`src/system/SystemManager.cpp`: the tables of the current database, each with
its `TableMeta` and its `RecordManager`, and the index manager. -/

/-- The state of a `SystemManager` with a current database: the entries of
`tableMetas` in key order, each with the record manager of the table, and the
open indexes. -/
structure Database where
  tables : List (TableMeta × Store)
  indexManager : IndexManager.OpenIndexes

/-- The entry of `tableName` in `tableMetas`, with its record manager. -/
def findTable (db : Database) (tableName : String) : Option (TableMeta × Store) :=
  db.tables.find? fun e => decide (e.1.tableName = tableName)

/-- `getTableMeta`: `none` for the null pointer. -/
def getTableMeta (db : Database) (tableName : String) : Option TableMeta :=
  (findTable db tableName).map fun e => e.1

/-- `getRecordManager`: `none` for the null pointer. -/
def getRecordManager (db : Database) (tableName : String) : Option Store :=
  (findTable db tableName).map fun e => e.2

/-- The entries with the one of `tableName` changed by `f`. -/
def modifyTable (tableName : String) (f : TableMeta × Store → TableMeta × Store) :
    List (TableMeta × Store) → List (TableMeta × Store)
  | [] => []
  | e :: es =>
    if e.1.tableName = tableName then f e :: es else e :: modifyTable tableName f es

/-- The database after the record manager of `tableName` has changed its file
to `rm`. -/
def putRecordManager (db : Database) (tableName : String) (rm : Store) : Database :=
  { db with tables := modifyTable tableName (fun e => (e.1, rm)) db.tables }

/-- `showTables`. -/
def showTables (db : Database) : List String := db.tables.map fun e => e.1.tableName

/-- `getNextRecordID`: the returned id and the database afterwards. -/
def getNextRecordID (db : Database) (tableName : String) : Int × Database :=
  match getTableMeta db tableName with
  | none => (-1, db)
  | some tableMeta =>
    let tables :=
      modifyTable tableName (fun e => ({ e.1 with nextRecordID := e.1.nextRecordID + 1 }, e.2))
        db.tables
    (tableMeta.nextRecordID, { db with tables := tables })

/-- `updateRecordCount`. -/
def updateRecordCount (db : Database) (tableName : String) (delta : Int) : Database :=
  if delta > 0 then
    let tables :=
      modifyTable tableName (fun e => ({ e.1 with recordCount := e.1.recordCount + delta }, e.2))
        db.tables
    { db with tables := tables }
  else db

/-- The index creation loop of `createTable` over the primary-key columns.
(The test `!meta.hasIndex(pkCol)` of the loop reads the local copy of the
`TableMeta`, which has no index.) -/
def createPrimaryKeyIndexes (disk : Int → BPlusTree.BPlusTreeNode) (tableName : String) :
    List String → TableMeta → IndexManager.OpenIndexes → TableMeta × IndexManager.OpenIndexes
  | [], tableMeta, im => (tableMeta, im)
  | pkCol :: rest, tableMeta, im =>
    match tableMeta.columns.find? fun col => decide (col.name = pkCol) with
    | none => createPrimaryKeyIndexes disk tableName rest tableMeta im
    | some col =>
      let keyType :=
        if col.type = DataType.INT then BPlusTree.KeyType.INT
        else if col.type = DataType.FLOAT then BPlusTree.KeyType.FLOAT
        else BPlusTree.KeyType.VARCHAR
      let keyLength := if col.type = DataType.INT ∨ col.type = DataType.FLOAT then 0 else col.length
      createPrimaryKeyIndexes disk tableName rest
        { tableMeta with indexes := tableMeta.indexes ++ [pkCol] }
        (IndexManager.createIndex im disk tableName pkCol keyType keyLength)

/-- The loop of `createTable` over the columns that looks for a repeated
name: whether a column has a name of `seen` or of an earlier column. -/
def hasDuplicateName : List String → List ColumnDef → Bool
  | _, [] => false
  | seen, col :: rest =>
    if seen.contains col.name then true else hasDuplicateName (col.name :: seen) rest

/-- `createTable` in a current database, on fresh files: the returned flag and
the database afterwards.  A table that exists or a repeated column name gives
false and changes nothing.  The data file has pages `dataDisk`, the index
files decode to `indexDisk`; the file operations succeed.  The new entry is
added at the end; the examples create their tables in key order. -/
def createTable (db : Database) (dataDisk : Int → RecordManager.Page)
    (indexDisk : Int → BPlusTree.BPlusTreeNode) (tableName : String) (columns : List ColumnDef)
    (primaryKey : List String) (foreignKeys : List KeyDef) : Bool × Database :=
  if (findTable db tableName).isSome then (false, db)
  else if hasDuplicateName [] columns then (false, db)
  else
    let tableMeta : TableMeta :=
      { tableName := tableName,
        columns := columns.map fun col =>
          if primaryKey.contains col.name then { col with notNull := true } else col,
        primaryKey := primaryKey, foreignKeys := foreignKeys, indexes := [], recordCount := 0,
        nextRecordID := 1 }
    let r := createPrimaryKeyIndexes indexDisk tableName primaryKey tableMeta db.indexManager
    (true, { tables := db.tables ++ [(r.1, RecordManager.freshStore dataDisk)],
             indexManager := r.2 })

/-- The database after a call of `createTable`. -/
def afterCreateTable (db : Database) (dataDisk : Int → RecordManager.Page)
    (indexDisk : Int → BPlusTree.BPlusTreeNode) (tableName : String) (columns : List ColumnDef)
    (primaryKey : List String) (foreignKeys : List KeyDef) : Database :=
  (createTable db dataDisk indexDisk tableName columns primaryKey foreignKeys).2

end SystemManager

namespace QueryExecutor.Db

open SystemManager (Database getTableMeta getRecordManager)
open RecordManager (Store Page getAllRecordsDirect getPageHeader scanPageLoop pageFuel chainFuel
  getRecord PAGE_DATA_START)
open BPlusTree (RID)

/-! ## The executor on a database

`QueryExecutor` over the state of `SystemManager`: scans, constraint checks
and the statements `INSERT`, `DELETE`, `UPDATE` and `LOAD DATA`, with index
maintenance.  A result is `none` only when a page-following loop runs out of
fuel or an index leaf is written past its page. -/

/-- The fields of `ResultSet` a statement without rows sets. -/
structure ResultSet where
  success : Bool := true
  message : String := ""
  affectedRows : Int := 0
deriving DecidableEq, Repr

/-- A fresh `ResultSet` after `setError(msg)`. -/
def errorResult (msg : String) : ResultSet := { success := false, message := msg }

/-- A name between single quotes, as the error messages show it. -/
def quoted (s : String) : String :=
  String.singleton (Char.ofNat 39) ++ s ++ String.singleton (Char.ofNat 39)

/-- `meta->columns[colIdx]` for an index already checked. -/
def columnAt (tableMeta : TableMeta) (colIdx : Int) : ColumnDef :=
  tableMeta.columns.getD colIdx.toNat ⟨"", DataType.UNKNOWN, 0, false⟩

/-- `scanTable(tableName)`. -/
def scanTable (db : Database) (tableName : String) : Option (List (Int × List Value)) :=
  match getTableMeta db tableName, getRecordManager db tableName with
  | some tableMeta, some rm =>
    (getAllRecordsDirect rm).map fun l =>
      l.map fun r => (r.1, deserializeRecord tableMeta.columns (unpackBytes r.2))
  | _, _ => some []

/-- The outer `while (true)` loop of `scanTableFiltered`: the live records of
the chain, page by page (the inner loop is that of `getAllRecordsDirect`). -/
def scanFilteredLoop : Nat → (Int → Page) → Int → Option (List (Int × List Nat))
  | 0, _, _ => none
  | fuel + 1, pages, pageID =>
    let pg := pages pageID
    let (_, freeStart, nextPage) := getPageHeader pg
    let here := scanPageLoop pageFuel pg freeStart PAGE_DATA_START
    if nextPage = -1 ∨ nextPage > 1000000 then some here
    else (scanFilteredLoop fuel pages nextPage).map fun rest => here ++ rest

/-- `scanTableFiltered(tableName, whereClauses)`. -/
def scanTableFiltered (db : Database) (tableName : String) (whereClauses : List WhereClause) :
    Option (List (Int × List Value)) :=
  match getTableMeta db tableName, getRecordManager db tableName with
  | some tableMeta, some rm =>
    (scanFilteredLoop (chainFuel rm) rm.pages 0).map fun l =>
      (l.map fun r => (r.1, deserializeRecord tableMeta.columns (unpackBytes r.2))).filter
        fun r => matchAllWhereClauses whereClauses tableMeta r.2
  | _, _ => some []

/-- `shouldUseIndex(tableName, clause)`. -/
def shouldUseIndex (db : Database) (tableName : String) (clause : WhereClause) : Bool :=
  match getTableMeta db tableName with
  | none => false
  | some tableMeta =>
    let colName := stripTablePrefix clause.column.columnName
    if !tableMeta.hasIndex colName then false
    else if tableMeta.primaryKey ≠ [colName] then false
    else
      [CompareOp.EQ, CompareOp.LT, CompareOp.LE, CompareOp.GT, CompareOp.GE].contains clause.op

/-- The loop of `indexScan` that fetches the rows of the RIDs with
`getRecord(rid.slotNum, buffer, 8192)`. -/
def fetchRecords (tableMeta : TableMeta) (rm : Store) : List RID → Option (List (Int × List Value))
  | [] => some []
  | rid :: rest =>
    match getRecord rm rid.slotNum 2048 with
    | none => none
    | some (youmu, words) =>
      (fetchRecords tableMeta rm rest).map fun tail =>
        if youmu > 0 then
          let len := min (youmu * 4) 8192
          (rid.slotNum,
            deserializeRecord tableMeta.columns ((unpackBytes words).take len.toNat)) :: tail
        else tail

/-- The RIDs `indexScan` collects from the index of the clause's column. -/
def indexScanRIDs (db : Database) (tableName : String) (clause : WhereClause) (col : ColumnDef) :
    Option (List RID) :=
  let columnName := clause.column.columnName
  if col.type = DataType.INT then
    let key := clause.value.intVal
    if clause.op = CompareOp.EQ then
      (IndexManager.searchEntry db.indexManager tableName columnName key).map Option.toList
    else
      let lowKey := if clause.op = CompareOp.GT ∨ clause.op = CompareOp.GE then key else -2147483648
      let highKey := if clause.op = CompareOp.LT ∨ clause.op = CompareOp.LE then key else 2147483647
      IndexManager.rangeSearch db.indexManager tableName columnName lowKey highKey
        (decide (clause.op ≠ CompareOp.GT)) (decide (clause.op ≠ CompareOp.LT))
  else if col.type = DataType.FLOAT then
    if clause.op = CompareOp.EQ then
      (IndexManager.searchEntryFloat db.indexManager tableName columnName
        (floatToDouble (doubleToFloat clause.value.floatVal))).map Option.toList
    else some []
  else if col.type = DataType.VARCHAR then
    if clause.op = CompareOp.EQ then
      (IndexManager.searchEntryStr db.indexManager tableName columnName clause.value.strVal).map
        Option.toList
    else some []
  else some []

/-- `indexScan(tableName, clause)`. -/
def indexScan (db : Database) (tableName : String) (clause : WhereClause) :
    Option (List (Int × List Value)) :=
  match getTableMeta db tableName, getRecordManager db tableName with
  | some tableMeta, some rm =>
    match tableMeta.columns.find? fun col => decide (col.name = clause.column.columnName) with
    | none => some []
    | some col => (indexScanRIDs db tableName clause col).bind (fetchRecords tableMeta rm)
  | _, _ => some []

/-- The overload of `searchEntry` the checks pick for a column type, with the
field of the value they pass: whether the key was found. -/
def searchByType (im : IndexManager.OpenIndexes) (tableName columnName : String)
    (type : DataType) (val : Value) : Option Bool :=
  (if type = DataType.INT then IndexManager.searchEntry im tableName columnName val.intVal
    else if type = DataType.FLOAT then
      IndexManager.searchEntryFloat im tableName columnName val.floatVal
    else IndexManager.searchEntryStr im tableName columnName val.strVal).map Option.isSome

/-- `checkNotNull(tableName, values)`. -/
def checkNotNull (db : Database) (tableName : String) (values : List Value) : Bool :=
  match getTableMeta db tableName with
  | none => false
  | some tableMeta => (tableMeta.columns.zip values).all fun p => !(p.1.notNull && p.2.isNull)

/-- The inner loop of the scan of `checkPrimaryKey`: the row agrees with
`values` on every primary-key column that resolves. -/
def primaryKeyMatches (tableMeta : TableMeta) (values record : List Value) : Bool :=
  tableMeta.primaryKey.all fun pkCol =>
    let colIdx := tableMeta.getColumnIndex pkCol
    if colIdx ≥ 0 ∧ colIdx < values.length ∧ colIdx < record.length then
      decide (compareValues (valueAt values colIdx) (valueAt record colIdx) = 0)
    else true

/-- The column the index probe of `checkPrimaryKey` looks up, when that branch
is taken: a single-column primary key with an index and a non-null value. -/
def primaryKeyProbe (tableMeta : TableMeta) (values : List Value) : Option (String × Int) :=
  match tableMeta.primaryKey with
  | [pkCol] =>
    let colIdx := tableMeta.getColumnIndex pkCol
    if tableMeta.hasIndex pkCol ∧ colIdx ≥ 0 ∧ colIdx < values.length ∧
        (valueAt values colIdx).isNull = false then some (pkCol, colIdx)
    else none
  | _ => none

/-- `checkPrimaryKey(tableName, values)`. -/
def checkPrimaryKey (db : Database) (tableName : String) (values : List Value) : Option Bool :=
  match getTableMeta db tableName with
  | none => some true
  | some tableMeta =>
    if tableMeta.primaryKey.isEmpty then some true
    else if tableMeta.primaryKey.any fun pkCol =>
        let colIdx := tableMeta.getColumnIndex pkCol
        decide (colIdx ≥ 0) && decide (colIdx < values.length) && (valueAt values colIdx).isNull
      then some false
    else if tableMeta.recordCount = 0 then some true
    else
      match primaryKeyProbe tableMeta values with
      | some (pkCol, colIdx) =>
        (searchByType db.indexManager tableName pkCol (columnAt tableMeta colIdx).type
          (valueAt values colIdx)).map fun found => !found
      | none =>
        (scanTable db tableName).map fun records =>
          !records.any fun r => primaryKeyMatches tableMeta values r.2

end QueryExecutor.Db

namespace QueryExecutor.Db

open SystemManager (Database getTableMeta getRecordManager putRecordManager showTables)
open RecordManager (insertRecord deleteRecord)
open BPlusTree (RID)

/-- The values of the local columns of a foreign key that resolve in the row
(`fkValues`). -/
def foreignKeyValues (tableMeta : TableMeta) (values : List Value) (fk : KeyDef) : List Value :=
  fk.columns.filterMap fun col =>
    let colIdx := tableMeta.getColumnIndex col
    if colIdx ≥ 0 ∧ colIdx < values.length then some (valueAt values colIdx) else none

/-- The inner loop of the scan of `checkForeignKey`: the referenced row agrees
with `fkValues` on every pair of columns whose referenced column resolves. -/
def foreignKeyMatches (refMeta : TableMeta) (fk : KeyDef) (fkValues refRecord : List Value) :
    Bool :=
  (List.range (min fk.columns.length fk.refColumns.length)).all fun i =>
    let refColIdx := refMeta.getColumnIndex (fk.refColumns.getD i "")
    if refColIdx ≥ 0 ∧ refColIdx < refRecord.length then
      decide (compareValues (fkValues.getD i Value.makeNull) (valueAt refRecord refColIdx) = 0)
    else true

/-- The column the index probe of `checkForeignKey` looks up, when that branch
is taken: a single-column key whose referenced column has an index and
resolves, with a non-null value. -/
def foreignKeyProbe (refMeta : TableMeta) (fk : KeyDef) (fkValues : List Value) :
    Option (String × Int) :=
  match fk.columns, fk.refColumns with
  | [_], [refCol] =>
    let refColIdx := refMeta.getColumnIndex refCol
    if refMeta.hasIndex refCol ∧ refColIdx ≥ 0 ∧
        (fkValues.getD 0 Value.makeNull).isNull = false then some (refCol, refColIdx)
    else none
  | _, _ => none

/-- The body of the loop of `checkForeignKey` for one foreign key: `false` for
`return false`, `true` for going on to the next key. -/
def checkOneForeignKey (db : Database) (tableMeta : TableMeta) (values : List Value)
    (fk : KeyDef) : Option Bool :=
  match getTableMeta db fk.refTable with
  | none => some false
  | some refMeta =>
    let fkValues := foreignKeyValues tableMeta values fk
    if fkValues.all fun v => v.isNull then some true
    else if refMeta.recordCount = 0 then some true
    else
      match foreignKeyProbe refMeta fk fkValues with
      | some (refCol, refColIdx) =>
        searchByType db.indexManager fk.refTable refCol (columnAt refMeta refColIdx).type
          (fkValues.getD 0 Value.makeNull)
      | none =>
        if refMeta.recordCount > 1000 then some true
        else
          (scanTable db fk.refTable).map fun refRecords =>
            refRecords.any fun r => foreignKeyMatches refMeta fk fkValues r.2

/-- The loop of `checkForeignKey` over the foreign keys. -/
def checkForeignKeys (db : Database) (tableMeta : TableMeta) (values : List Value) :
    List KeyDef → Option Bool
  | [] => some true
  | fk :: rest =>
    match checkOneForeignKey db tableMeta values fk with
    | none => none
    | some false => some false
    | some true => checkForeignKeys db tableMeta values rest

/-- `checkForeignKey(tableName, values)`. -/
def checkForeignKey (db : Database) (tableName : String) (values : List Value) : Option Bool :=
  match getTableMeta db tableName with
  | none => some true
  | some tableMeta => checkForeignKeys db tableMeta values tableMeta.foreignKeys

/-- The overload of `insertEntry` picked for a column type, with the field of
the value passed; the returned flag is ignored by the callers. -/
def insertByType (im : IndexManager.OpenIndexes) (tableName columnName : String)
    (type : DataType) (val : Value) (rid : RID) : Option IndexManager.OpenIndexes :=
  (if type = DataType.INT then IndexManager.insertEntry im tableName columnName val.intVal rid
    else if type = DataType.FLOAT then
      IndexManager.insertEntryFloat im tableName columnName val.floatVal rid
    else IndexManager.insertEntryStr im tableName columnName val.strVal rid).map fun r => r.2

/-- The overload of `deleteEntry` picked for a column type, with the field of
the value passed; the returned flag is ignored by the callers. -/
def deleteByType (im : IndexManager.OpenIndexes) (tableName columnName : String)
    (type : DataType) (val : Value) : Option IndexManager.OpenIndexes :=
  (if type = DataType.INT then IndexManager.deleteEntry im tableName columnName val.intVal
    else if type = DataType.FLOAT then
      IndexManager.deleteEntryFloat im tableName columnName val.floatVal
    else IndexManager.deleteEntryStr im tableName columnName val.strVal).map fun r => r.2

/-- The index loop after a row is stored: an entry for every indexed column
whose value is not null, over the columns paired with the values. -/
def insertIndexEntries (tableName : String) (tableMeta : TableMeta) (recordID : Int) :
    IndexManager.OpenIndexes → List (ColumnDef × Value) → Option IndexManager.OpenIndexes
  | im, [] => some im
  | im, (col, val) :: rest =>
    if tableMeta.hasIndex col.name ∧ val.isNull = false then
      (insertByType im tableName col.name col.type val ⟨0, recordID⟩).bind fun im1 =>
        insertIndexEntries tableName tableMeta recordID im1 rest
    else insertIndexEntries tableName tableMeta recordID im rest

/-- The index loop before a row is deleted: the entry of every indexed column
whose value is not null is removed. -/
def deleteIndexEntries (tableName : String) (tableMeta : TableMeta) :
    IndexManager.OpenIndexes → List (ColumnDef × Value) → Option IndexManager.OpenIndexes
  | im, [] => some im
  | im, (col, val) :: rest =>
    if tableMeta.hasIndex col.name ∧ val.isNull = false then
      (deleteByType im tableName col.name col.type val).bind fun im1 =>
        deleteIndexEntries tableName tableMeta im1 rest
    else deleteIndexEntries tableName tableMeta im rest

/-- The row loop of `executeInsert` from `insertedCount` rows on. -/
def insertRows (tableName : String) (tableMeta : TableMeta) :
    Database → Int → List (List Value) → Option (ResultSet × Database)
  | db, insertedCount, [] =>
    some ({ message := "Query Done", affectedRows := insertedCount }, db)
  | db, insertedCount, values :: rest =>
    if values.length ≠ tableMeta.columns.length then
      some (errorResult "Column count mismatch", db)
    else if !checkNotNull db tableName values then
      some (errorResult "NOT NULL constraint violated", db)
    else
      match checkPrimaryKey db tableName values, checkForeignKey db tableName values with
      | none, _ => none
      | some false, _ =>
        some (errorResult "Duplicate entry - duplicate value violates constraint", db)
      | some true, none => none
      | some true, some false =>
        some (errorResult "Foreign key constraint violated - foreign key reference not found",
          db)
      | some true, some true =>
        let data := serializeRecord tableMeta.columns values
        let (recordID, db1) := SystemManager.getNextRecordID db tableName
        match getRecordManager db1 tableName with
        | none => none
        | some rm =>
          let r := insertRecord rm recordID (packWords data)
          let db2 := putRecordManager db1 tableName r.2
          if !r.1 then some (errorResult "Failed to insert record", db2)
          else
            match insertIndexEntries tableName tableMeta recordID db2.indexManager
                (tableMeta.columns.zip values) with
            | none => none
            | some im =>
              insertRows tableName tableMeta
                (SystemManager.updateRecordCount { db2 with indexManager := im } tableName 1)
                (insertedCount + 1) rest

/-- `executeInsert(tableName, valueLists)`. -/
def executeInsert (db : Database) (tableName : String) (valueLists : List (List Value)) :
    Option (ResultSet × Database) :=
  match getTableMeta db tableName with
  | none => some (errorResult ("Table " ++ quoted tableName ++ " does not exist"), db)
  | some tableMeta => insertRows tableName tableMeta db 0 valueLists

end QueryExecutor.Db

namespace QueryExecutor.Db

open SystemManager (Database getTableMeta getRecordManager putRecordManager showTables)
open RecordManager (insertRecord deleteRecord updateRecord)

/-- The foreign keys of the other tables that reference `tableName`, each with
the name of its table (`referencingFKs`). -/
def referencingForeignKeys (db : Database) (tableName : String) : List (String × KeyDef) :=
  ((showTables db).map fun otherTableName =>
    if otherTableName = tableName then []
    else
      match getTableMeta db otherTableName with
      | none => []
      | some otherMeta =>
        (otherMeta.foreignKeys.filter fun fk => decide (fk.refTable = tableName)).map
          fun fk => (otherTableName, fk)).flatten

/-- The clauses `fk.columns[i] = refColValues[i]` built from the values of a
row on the referenced columns that resolve (`checkClauses`). -/
def referenceClauses (tableMeta : TableMeta) (values : List Value) (refTableName : String)
    (fk : KeyDef) : List WhereClause :=
  let refColValues := fk.refColumns.filterMap fun refCol =>
    let colIdx := tableMeta.getColumnIndex refCol
    if colIdx ≥ 0 ∧ colIdx < values.length then some (valueAt values colIdx) else none
  (fk.columns.zip refColValues).map fun p =>
    { column := { tableName := refTableName, columnName := p.1 }, op := CompareOp.EQ,
      value := p.2, isColumnCompare := false }

/-- The loop of `executeDelete` over `referencingFKs` for one victim
(`hasReference`). -/
def hasReference (db : Database) (tableMeta : TableMeta) (values : List Value) :
    List (String × KeyDef) → Option Bool
  | [] => some false
  | (refTableName, fk) :: rest =>
    match getTableMeta db refTableName with
    | none => hasReference db tableMeta values rest
    | some _ =>
      match scanTableFiltered db refTableName
          (referenceClauses tableMeta values refTableName fk) with
      | none => none
      | some refRecords =>
        if !refRecords.isEmpty then some true else hasReference db tableMeta values rest

/-- The victim loop of `executeDelete` from `deletedCount` rows on. -/
def deleteRows (tableName : String) (tableMeta : TableMeta) (whereClauses : List WhereClause)
    (referencingFKs : List (String × KeyDef)) :
    Database → Int → List (Int × List Value) → Option (ResultSet × Database)
  | db, deletedCount, [] =>
    some ({ message := "Query Done", affectedRows := deletedCount },
      if deletedCount > 0 then SystemManager.updateRecordCount db tableName (-deletedCount)
      else db)
  | db, deletedCount, (recordID, values) :: rest =>
    if matchAllWhereClauses whereClauses tableMeta values then
      match hasReference db tableMeta values referencingFKs with
      | none => none
      | some true =>
        some (errorResult "Foreign key constraint failed - cannot delete referenced row", db)
      | some false =>
        match deleteIndexEntries tableName tableMeta db.indexManager
            (tableMeta.columns.zip values) with
        | none => none
        | some im =>
          match (getRecordManager db tableName).bind fun rm => deleteRecord rm recordID with
          | none => none
          | some (deleted, rm1) =>
            deleteRows tableName tableMeta whereClauses referencingFKs
              (putRecordManager { db with indexManager := im } tableName rm1)
              (if deleted then deletedCount + 1 else deletedCount) rest
    else deleteRows tableName tableMeta whereClauses referencingFKs db deletedCount rest

/-- The records `executeDelete` starts from: an index scan, a filtered scan or
a full scan. -/
def deleteCandidates (db : Database) (tableName : String) (whereClauses : List WhereClause) :
    Option (List (Int × List Value)) :=
  match whereClauses with
  | [] => scanTable db tableName
  | [clause] =>
    if shouldUseIndex db tableName clause then indexScan db tableName clause
    else scanTableFiltered db tableName whereClauses
  | _ => scanTableFiltered db tableName whereClauses

/-- `executeDelete(tableName, whereClauses)`. -/
def executeDelete (db : Database) (tableName : String) (whereClauses : List WhereClause) :
    Option (ResultSet × Database) :=
  match getTableMeta db tableName with
  | none => some (errorResult ("Table " ++ quoted tableName ++ " does not exist"), db)
  | some tableMeta =>
    (deleteCandidates db tableName whereClauses).bind fun records =>
      deleteRows tableName tableMeta whereClauses (referencingForeignKeys db tableName) db 0
        records

/-- The struct `SetClause`. -/
structure SetClause where
  column : String
  value : Value
deriving DecidableEq, Repr

/-- The loop of `executeUpdate` over the SET clauses for one row: the new
values, and the index entries of the changed indexed columns replaced. -/
def applySetClauses (tableName : String) (tableMeta : TableMeta) (recordID : Int)
    (oldValues : List Value) : IndexManager.OpenIndexes → List Value → List SetClause →
    Option (IndexManager.OpenIndexes × List Value)
  | im, newValues, [] => some (im, newValues)
  | im, newValues, sc :: rest =>
    let colIdx := tableMeta.getColumnIndex sc.column
    if colIdx ≥ 0 ∧ colIdx < newValues.length then
      let type := (columnAt tableMeta colIdx).type
      let oldVal := valueAt oldValues colIdx
      (if tableMeta.hasIndex sc.column ∧ oldVal.isNull = false then
          deleteByType im tableName sc.column type oldVal
        else some im).bind fun im1 =>
        (if tableMeta.hasIndex sc.column ∧ sc.value.isNull = false then
            insertByType im1 tableName sc.column type sc.value ⟨0, recordID⟩
          else some im1).bind fun im2 =>
          applySetClauses tableName tableMeta recordID oldValues im2
            (newValues.set colIdx.toNat sc.value) rest
    else applySetClauses tableName tableMeta recordID oldValues im newValues rest

/-- The loop of `executeUpdate` over `referencingFKs` for one row: a changed
referenced column whose old value is still referenced. -/
def updateReferenced (db : Database) (tableMeta : TableMeta) (setClauses : List SetClause)
    (oldValues : List Value) : List (String × KeyDef) → Option Bool
  | [] => some false
  | (refTableName, fk) :: rest =>
    if setClauses.any fun sc => fk.refColumns.contains sc.column then
      match scanTableFiltered db refTableName
          (referenceClauses tableMeta oldValues refTableName fk) with
      | none => none
      | some refRecords =>
        if !refRecords.isEmpty then some true
        else updateReferenced db tableMeta setClauses oldValues rest
    else updateReferenced db tableMeta setClauses oldValues rest

end QueryExecutor.Db

namespace QueryExecutor.Db

open SystemManager (Database getTableMeta getRecordManager putRecordManager)
open RecordManager (insertRecord updateRecord)

/-- The row loop of `executeUpdate` from `updatedCount` rows on. -/
def updateRows (tableName : String) (tableMeta : TableMeta) (setClauses : List SetClause)
    (whereClauses : List WhereClause) (referencingFKs : List (String × KeyDef)) :
    Database → Int → List (Int × List Value) → Option (ResultSet × Database)
  | db, updatedCount, [] => some ({ message := "Query Done", affectedRows := updatedCount }, db)
  | db, updatedCount, (recordID, oldValues) :: rest =>
    if matchAllWhereClauses whereClauses tableMeta oldValues then
      match applySetClauses tableName tableMeta recordID oldValues db.indexManager oldValues
          setClauses with
      | none => none
      | some (im, newValues) =>
        let db1 : Database := { db with indexManager := im }
        let pkModified := setClauses.any fun sc => tableMeta.primaryKey.contains sc.column
        let fkModified := setClauses.any fun sc =>
          tableMeta.foreignKeys.any fun fk => fk.columns.contains sc.column
        if !checkNotNull db1 tableName newValues then
          some (errorResult "NOT NULL constraint violated", db1)
        else
          match (if pkModified then checkPrimaryKey db1 tableName newValues else some true),
            (if fkModified then checkForeignKey db1 tableName newValues else some true),
            updateReferenced db1 tableMeta setClauses oldValues referencingFKs with
          | none, _, _ => none
          | some false, _, _ =>
            some (errorResult "Duplicate entry - duplicate value violates constraint", db1)
          | some true, none, _ => none
          | some true, some false, _ =>
            some (errorResult
              "Foreign key constraint violated - referenced value does not exist", db1)
          | some true, some true, none => none
          | some true, some true, some true =>
            some (errorResult "Foreign key constraint failed - cannot update referenced row",
              db1)
          | some true, some true, some false =>
            let data := serializeRecord tableMeta.columns newValues
            match (getRecordManager db1 tableName).bind fun rm =>
                updateRecord rm recordID (packWords data) with
            | none => none
            | some (updated, rm1) =>
              updateRows tableName tableMeta setClauses whereClauses referencingFKs
                (putRecordManager db1 tableName rm1)
                (if updated then updatedCount + 1 else updatedCount) rest
    else updateRows tableName tableMeta setClauses whereClauses referencingFKs db updatedCount rest

/-- `executeUpdate(tableName, setClauses, whereClauses)`. -/
def executeUpdate (db : Database) (tableName : String) (setClauses : List SetClause)
    (whereClauses : List WhereClause) : Option (ResultSet × Database) :=
  match getTableMeta db tableName with
  | none => some (errorResult ("Table " ++ quoted tableName ++ " does not exist"), db)
  | some tableMeta =>
    (if whereClauses.isEmpty then scanTable db tableName
      else scanTableFiltered db tableName whereClauses).bind fun records =>
      updateRows tableName tableMeta setClauses whereClauses
        (referencingForeignKeys db tableName) db 0 records

/-! ### `LOAD DATA`

The file is the list of its lines, as `std::getline` returns them.
`std::stoi` is computed; `std::stod` is a parameter (`none` when it throws). -/

/-- `isspace` of the classic locale. -/
def isSpace (c : Nat) : Bool := decide (c = 32) || (decide (9 ≤ c) && decide (c ≤ 13))

/-- `std::stoi(field)`: `none` when it throws (no digits, or a value that is
not an `int`). -/
def stoi (field : List Nat) : Option Int :=
  let s := field.dropWhile isSpace
  let negative := decide (s.head? = some 45)
  let s1 := if s.head? = some 45 ∨ s.head? = some 43 then s.drop 1 else s
  let digits := s1.takeWhile fun c => decide (48 ≤ c) && decide (c ≤ 57)
  if digits.isEmpty then none
  else
    let n : Nat := digits.foldl (fun acc c => acc * 10 + (c - 48)) 0
    let v : Int := if negative then -(n : Int) else (n : Int)
    if v < -2147483648 ∨ v > 2147483647 then none else some v

/-- The fields of a line: the text between the commas. -/
def splitComma : List Nat → List (List Nat)
  | [] => [[]]
  | c :: rest =>
    if c = 44 then [] :: splitComma rest
    else
      match splitComma rest with
      | field :: fields => (c :: field) :: fields
      | [] => [[c]]

/-- The value `executeLoadData` builds from one field for a column. -/
def parseField (stod : List Nat → Option Nat) (col : ColumnDef) (field : List Nat) : Value :=
  if field.isEmpty ∨ field = asciiBytes "NULL" then Value.makeNull
  else if col.type = DataType.INT then
    match stoi field with
    | some v => Value.ofInt v
    | none => Value.makeNull
  else if col.type = DataType.FLOAT then
    match stod field with
    | some bits => Value.ofFloat bits
    | none => Value.makeNull
  else Value.ofString field

/-- The values of one line: a field for each column while the line has one,
nulls for the columns that are left. -/
def parseLine (stod : List Nat → Option Nat) (columns : List ColumnDef) (line : List Nat) :
    List Value :=
  let values := (columns.zip (splitComma line)).map fun p => parseField stod p.1 p.2
  values ++ List.replicate (columns.length - values.length) Value.makeNull

/-- The line loop of `executeLoadData` from `loadedCount` rows on. -/
def loadLines (stod : List Nat → Option Nat) (tableName : String) (tableMeta : TableMeta) :
    Database → Int → List (List Nat) → Option (ResultSet × Database)
  | db, loadedCount, [] =>
    some ({ message := "Query OK", affectedRows := loadedCount },
      SystemManager.updateRecordCount db tableName (if loadedCount > 0 then loadedCount else 0))
  | db, loadedCount, line :: rest =>
    if line.isEmpty then loadLines stod tableName tableMeta db loadedCount rest
    else
      let values := parseLine stod tableMeta.columns line
      let data := serializeRecord tableMeta.columns values
      let (recordID, db1) := SystemManager.getNextRecordID db tableName
      match getRecordManager db1 tableName with
      | none => none
      | some rm =>
        let r := insertRecord rm recordID (packWords data)
        let db2 := putRecordManager db1 tableName r.2
        if r.1 then
          match insertIndexEntries tableName tableMeta recordID db2.indexManager
              (tableMeta.columns.zip values) with
          | none => none
          | some im =>
            loadLines stod tableName tableMeta { db2 with indexManager := im } (loadedCount + 1)
              rest
        else loadLines stod tableName tableMeta db2 loadedCount rest

/-- `executeLoadData(fileName, tableName, delimiter)` on a file that opens and
has the lines `lines`. -/
def executeLoadData (stod : List Nat → Option Nat) (db : Database) (lines : List (List Nat))
    (tableName : String) : Option (ResultSet × Database) :=
  match getTableMeta db tableName with
  | none => some (errorResult ("Table " ++ quoted tableName ++ " does not exist"), db)
  | some tableMeta => loadLines stod tableName tableMeta db 0 lines

end QueryExecutor.Db

namespace QueryExecutor

/-! ### What a stored row reads back as -/

/-- The content of a `Value` object is representable: the integer is an `int`,
the floating-point field a 64-bit pattern, the string a sequence of bytes.
(The type tag of the value plays no part.) -/
def Representable (v : Value) : Prop :=
  RecordManager.isInt32 v.intVal ∧ v.floatVal < 18446744073709551616 ∧ ∀ b ∈ v.strVal, b < 256

/-- The value a column reads back as after `val` has been stored in it: the
field of `val` that belongs to the declared type of the column, whatever the
type of `val`; a string is cut to the column length and loses its trailing NUL
bytes. -/
def storedValue (col : ColumnDef) (val : Value) : Value :=
  if val.isNull then Value.makeNull
  else
    match col.type with
    | DataType.INT => Value.ofInt val.intVal
    | DataType.FLOAT => Value.ofFloat val.floatVal
    | DataType.VARCHAR => Value.ofString (stripTrailingZeros (val.strVal.take col.length.toNat))
    | DataType.UNKNOWN => Value.makeNull

/-- The row read back after `values` has been stored under `columns`. -/
def storedRow : List ColumnDef → List Value → List Value
  | col :: cols, val :: vals => storedValue col val :: storedRow cols vals
  | _, _ => []

end QueryExecutor

namespace QueryExecutor

/-- The rows a scan shows for `rows` stored one after the other under
`columns`, the first with record id `recordID`. -/
def numberedRows (columns : List ColumnDef) : Int → List (List Value) → List (Int × List Value)
  | _, [] => []
  | recordID, values :: rest =>
    (recordID, storedRow columns values) :: numberedRows columns (recordID + 1) rest

/-- The one-column rows `(a)`, `(a + 1)`, .., `(a + n - 1)`. -/
def countingRows : Nat → Int → List (List Value)
  | 0, _ => []
  | n + 1, a => [Value.ofInt a] :: countingRows n (a + 1)

end QueryExecutor

namespace QueryExecutor

/-! ## Aggregates

`QueryExecutor::calculateAggregate` and the streaming accumulator `AggState`
of `executeSelect`. -/

/-- The enumeration `AggregateType`. -/
inductive AggregateType where
  | NONE
  | COUNT
  | AVG
  | MAX
  | MIN
  | SUM
deriving DecidableEq, Repr

/-- One step of the `SUM` loop of `calculateAggregate` on `(sum, hasFloat)`. -/
def sumStep (acc : Nat × Bool) (v : Value) : Nat × Bool :=
  if !v.isNull then
    if v.type = ValueType.INT then (doubleAdd acc.1 (intToDouble v.intVal), acc.2)
    else if v.type = ValueType.FLOAT then (doubleAdd acc.1 v.floatVal, true)
    else acc
  else acc

/-- One step of the `AVG` loop of `calculateAggregate` on `(sum, count)`. -/
def avgStep (acc : Nat × Int) (v : Value) : Nat × Int :=
  if !v.isNull then
    if v.type = ValueType.INT then (doubleAdd acc.1 (intToDouble v.intVal), acc.2 + 1)
    else if v.type = ValueType.FLOAT then (doubleAdd acc.1 v.floatVal, acc.2 + 1)
    else (acc.1, acc.2 + 1)
  else acc

/-- One step of the `MAX` loop. -/
def maxStep (maxVal v : Value) : Value :=
  if !v.isNull && (maxVal.isNull || decide (compareValues v maxVal > 0)) then v else maxVal

/-- One step of the `MIN` loop. -/
def minStep (minVal v : Value) : Value :=
  if !v.isNull && (minVal.isNull || decide (compareValues v minVal < 0)) then v else minVal

/-- `calculateAggregate(aggType, values)`.  The counters are `int`s in the
code; the embedding counts in `Int` (lists shorter than `2 ^ 31`). -/
def calculateAggregate (aggType : AggregateType) (values : List Value) : Value :=
  if values.isEmpty then Value.makeNull
  else
    match aggType with
    | AggregateType.COUNT =>
      Value.ofInt (values.foldl (fun (count : Int) v => if !v.isNull then count + 1 else count) 0)
    | AggregateType.SUM =>
      let acc := values.foldl sumStep (0, false)
      if acc.2 then Value.ofFloat acc.1 else Value.ofInt (doubleToInt acc.1)
    | AggregateType.AVG =>
      let acc := values.foldl avgStep (0, 0)
      if acc.2 > 0 then Value.ofFloat (doubleDiv acc.1 (intToDouble acc.2)) else Value.makeNull
    | AggregateType.MAX => values.foldl maxStep Value.makeNull
    | AggregateType.MIN => values.foldl minStep Value.makeNull
    | AggregateType.NONE => Value.makeNull

/-- The local structure `AggState` of `executeSelect`. -/
structure AggState where
  type : AggregateType := AggregateType.NONE
  colIdx : Int := -1
  cnt : Int := 0
  sum : Nat := 0
  best : Value := Value.makeNull
  hasFloat : Bool := false
deriving DecidableEq, Repr

/-- The update of one `AggState` by a record that passed WHERE: the `switch`
in the record loop of `executeSelect`. -/
def aggUpdate (values : List Value) (st : AggState) : AggState :=
  let inRange := decide (st.colIdx ≥ 0) && decide (st.colIdx < (values.length : Int))
  let v := valueAt values st.colIdx
  match st.type with
  | AggregateType.COUNT =>
    if st.colIdx = -1 then { st with cnt := st.cnt + 1 }
    else if inRange then (if !v.isNull then { st with cnt := st.cnt + 1 } else st)
    else st
  | AggregateType.SUM =>
    if inRange && !v.isNull then
      if v.type = ValueType.INT then { st with sum := doubleAdd st.sum (intToDouble v.intVal) }
      else if v.type = ValueType.FLOAT then
        { st with sum := doubleAdd st.sum v.floatVal, hasFloat := true }
      else st
    else st
  | AggregateType.AVG =>
    if inRange && !v.isNull then
      if v.type = ValueType.INT then
        { st with sum := doubleAdd st.sum (intToDouble v.intVal), cnt := st.cnt + 1 }
      else if v.type = ValueType.FLOAT then
        { st with sum := doubleAdd st.sum v.floatVal, cnt := st.cnt + 1 }
      else { st with cnt := st.cnt + 1 }
    else st
  | AggregateType.MAX =>
    if inRange && !v.isNull && (st.best.isNull || decide (compareValues v st.best > 0)) then
      { st with best := v }
    else st
  | AggregateType.MIN =>
    if inRange && !v.isNull && (st.best.isNull || decide (compareValues v st.best < 0)) then
      { st with best := v }
    else st
  | AggregateType.NONE => st

/-- The value pushed to the result row for one `AggState` after the loop. -/
def aggResult (st : AggState) : Value :=
  match st.type with
  | AggregateType.COUNT => Value.ofInt (if st.cnt > 2147483647 then 2147483647 else st.cnt)
  | AggregateType.SUM =>
    if st.hasFloat then Value.ofFloat st.sum else Value.ofInt (doubleToInt st.sum)
  | AggregateType.AVG =>
    if st.cnt > 0 then Value.ofFloat (doubleDiv st.sum (longToDouble st.cnt)) else Value.makeNull
  | AggregateType.MAX => st.best
  | AggregateType.MIN => st.best
  | AggregateType.NONE => Value.makeNull

/-- The streaming accumulator on the records that passed WHERE, in the order
read: the state vector is updated by every record, then turned into the one
result row. -/
def aggregateRows (states : List AggState) (records : List (List Value)) : List Value :=
  (records.foldl (fun sts values => sts.map (aggUpdate values)) states).map aggResult

end QueryExecutor
namespace QueryExecutor

/-- The strict order `compareValues` reads between two non-null values of one
type: the order of the integers, of the `double`s, of the strings; values
whose type tag is `NULL_VALUE` are not ordered. -/
def valueLt (a b : Value) : Bool :=
  match a.type with
  | ValueType.INT => decide (a.intVal < b.intVal)
  | ValueType.FLOAT => doubleLt a.floatVal b.floatVal
  | ValueType.STRING => BPlusTree.strLt a.strVal b.strVal
  | ValueType.NULL_VALUE => false

/-- The results of SUM (`s`) and of AVG (`a`) have the null flag and the type
the inputs `values` call for: SUM is an INT value when no non-null input is a
FLOAT and a FLOAT value when one is, AVG is a FLOAT value when some input is
not null and null when none is. -/
def SumAvgSpec (values : List Value) (s a : Value) : Prop :=
  ((∀ v ∈ values, v.isNull = false → v.type ≠ ValueType.FLOAT) →
      s.type = ValueType.INT ∧ s.isNull = false) ∧
    ((∃ v ∈ values, v.isNull = false ∧ v.type = ValueType.FLOAT) →
      s.type = ValueType.FLOAT ∧ s.isNull = false) ∧
    ((∃ v ∈ values, v.isNull = false) → a.type = ValueType.FLOAT ∧ a.isNull = false) ∧
    ((∀ v ∈ values, v.isNull = true) → a = Value.makeNull)

/-- The usual meaning of the six comparison operators for a strict order
`lt`; the other operators never hold. -/
def CompareOp.holds {α : Type} (lt : α → α → Prop) (op : CompareOp) (x y : α) : Prop :=
  match op with
  | CompareOp.EQ => x = y
  | CompareOp.NE => x ≠ y
  | CompareOp.LT => lt x y
  | CompareOp.LE => lt x y ∨ x = y
  | CompareOp.GT => lt y x
  | CompareOp.GE => lt y x ∨ x = y
  | _ => False

/-- The number a finite `double` stands for: its significand, scaled to the
exponent -1074 of the smallest `double`, over `2 ^ 1074`. -/
def doubleRat (b : Nat) : ℚ := (doubleScaled b (-1074) : ℚ) / 2 ^ 1074

end QueryExecutor
namespace QueryExecutor.Db

open SystemManager (Database afterCreateTable)
open RecordManager (zeroDisk)
open BPlusTree (blankDisk)

/-! ### Example databases -/

/-- A current database with no table. -/
def emptyDatabase : Database := { tables := [], indexManager := [] }

/-- The table of the examples of the WHERE predicate: `t (x INT, y INT)`. -/
def tableXY : TableMeta :=
  { tableName := "t", columns := [⟨"x", DataType.INT, 0, false⟩, ⟨"y", DataType.INT, 0, false⟩] }

/-- The clause `column op value` with a literal. -/
def compareLiteral (column : String) (op : CompareOp) (value : Value) : WhereClause :=
  { column := { columnName := column }, op := op, value := value }

/-- After `CREATE TABLE t (a VARCHAR(2), PRIMARY KEY (a))`. -/
def shortKeyDb : Database :=
  afterCreateTable emptyDatabase zeroDisk blankDisk "t" [⟨"a", DataType.VARCHAR, 2, false⟩] ["a"] []

/-- After `CREATE TABLE t (id INT, PRIMARY KEY (id))`. -/
def intKeyDb : Database :=
  afterCreateTable emptyDatabase zeroDisk blankDisk "t" [⟨"id", DataType.INT, 0, false⟩] ["id"] []

/-- After `CREATE TABLE dept (id INT, PRIMARY KEY (id))` and
`CREATE TABLE emp (id INT, dept INT NOT NULL, PRIMARY KEY (id),
FOREIGN KEY (dept) REFERENCES dept (id))`. -/
def deptEmpDb : Database :=
  afterCreateTable
    (afterCreateTable emptyDatabase zeroDisk blankDisk "dept" [⟨"id", DataType.INT, 0, false⟩] ["id"] [])
    zeroDisk blankDisk "emp"
    [⟨"id", DataType.INT, 0, false⟩, ⟨"dept", DataType.INT, 0, true⟩] ["id"]
    [⟨"fk_dept", ["dept"], "dept", ["id"]⟩]

/-- After `CREATE TABLE site (a INT, b INT)` and `CREATE TABLE visit (x INT,
y INT, FOREIGN KEY (x, y) REFERENCES site (a, b))`. -/
def siteVisitDb : Database :=
  afterCreateTable
    (afterCreateTable emptyDatabase zeroDisk blankDisk "site"
      [⟨"a", DataType.INT, 0, false⟩, ⟨"b", DataType.INT, 0, false⟩] [] [])
    zeroDisk blankDisk "visit"
    [⟨"x", DataType.INT, 0, false⟩, ⟨"y", DataType.INT, 0, false⟩] []
    [⟨"fk_site", ["x", "y"], "site", ["a", "b"]⟩]

/-- The foreign key of `visit` in `siteVisitDb`. -/
def visitKey : KeyDef := ⟨"fk_site", ["x", "y"], "site", ["a", "b"]⟩

/-- The `TableMeta` of `visit` in `siteVisitDb`. -/
def visitMeta : TableMeta :=
  { tableName := "visit",
    columns := [⟨"x", DataType.INT, 0, false⟩, ⟨"y", DataType.INT, 0, false⟩],
    foreignKeys := [visitKey] }

/-- The database after the statements in order, when each returns: the result
of the last one with the database it leaves. -/
def runAll (db : Database) :
    List (Database → Option (ResultSet × Database)) → Option (ResultSet × Database)
  | [] => some ({}, db)
  | [stmt] => stmt db
  | stmt :: rest => (stmt db).bind fun r => runAll r.2 rest

/-- After `CREATE TABLE m (f FLOAT, k INT)`. -/
def mixedDb : Database :=
  afterCreateTable emptyDatabase zeroDisk blankDisk "m"
    [⟨"f", DataType.FLOAT, 0, false⟩, ⟨"k", DataType.INT, 0, false⟩] [] []

end QueryExecutor.Db

namespace QueryExecutor.Db

open SystemManager (Database afterCreateTable)
open RecordManager (zeroDisk)
open BPlusTree (blankDisk)

/-- The database after the one statement, or the database as it was when the
statement has no result. -/
def after (db : Database) (stmt : Database → Option (ResultSet × Database)) : Database :=
  match stmt db with
  | some r => r.2
  | none => db

/-- The database `deptEmpDb` after `INSERT INTO dept VALUES (1)`. -/
def deptOneDb : Database := after deptEmpDb fun db => executeInsert db "dept" [[Value.ofInt 1]]

/-- The `TableMeta` of `emp` in `deptEmpDb`. -/
def empMeta : TableMeta :=
  { tableName := "emp",
    columns := [⟨"id", DataType.INT, 0, true⟩, ⟨"dept", DataType.INT, 0, true⟩],
    primaryKey := ["id"], foreignKeys := [⟨"fk_dept", ["dept"], "dept", ["id"]⟩],
    indexes := ["id"] }

/-- The `TableMeta` of `item` in `itemPartDb`. -/
def itemMeta : TableMeta :=
  { tableName := "item", columns := [⟨"id", DataType.INT, 0, false⟩] }

/-- The `TableMeta` of `part` in `itemPartDb`. -/
def partMeta : TableMeta :=
  { tableName := "part", columns := [⟨"item", DataType.INT, 0, false⟩],
    foreignKeys := [⟨"fk_item", ["item"], "item", ["id"]⟩] }

/-- After `CREATE TABLE item (id INT)` and `CREATE TABLE part (item INT,
FOREIGN KEY (item) REFERENCES item (id))`. -/
def itemPartDb : Database :=
  afterCreateTable
    (afterCreateTable emptyDatabase zeroDisk blankDisk "item" [⟨"id", DataType.INT, 0, false⟩] [] [])
    zeroDisk blankDisk "part" [⟨"item", DataType.INT, 0, false⟩] []
    [⟨"fk_item", ["item"], "item", ["id"]⟩]

/-- The database `itemPartDb` after one INSERT statement that puts the 1001
rows (1), (2), .., (1001) into `item`. -/
def bigItemDb : Database :=
  after itemPartDb fun db => executeInsert db "item" (countingRows 1001 1)

/-- The `TableMeta` of `m` in `mixedDb`. -/
def mixedMeta : TableMeta :=
  { tableName := "m",
    columns := [⟨"f", DataType.FLOAT, 0, false⟩, ⟨"k", DataType.INT, 0, false⟩] }

end QueryExecutor.Db

namespace RecordManager

/-- The inner `while (pos < freeStart && count < maxCount)` loop of
`getAllRecordIDs` on one page: the slot ids written from `count` on. -/
def recordIDsPageLoop : Nat → Page → Int → Int → Int → Int → List Int
  | 0, _, _, _, _, _ => []
  | fuel + 1, pg, freeStart, maxCount, count, pos =>
    if pos < freeStart ∧ count < maxCount then
      let recordLen := toInt (pg pos)
      if recordLen ≤ 0 ∨ pos + recordLen > PAGE_INT_NUM then []
      else
        let rid := toInt (pg (pos + 1))
        if rid ≠ 0 then
          rid :: recordIDsPageLoop fuel pg freeStart maxCount (count + 1) (pos + recordLen)
        else recordIDsPageLoop fuel pg freeStart maxCount count (pos + recordLen)
    else []

/-- The outer `while (count < maxCount)` loop of `getAllRecordIDs`. -/
def getAllRecordIDsLoop : Nat → (Int → Page) → Int → Int → Int → Option (List Int)
  | 0, _, _, _, _ => none
  | fuel + 1, pages, maxCount, count, pageID =>
    if count < maxCount then
      let pg := pages pageID
      let (_, freeStart, nextPage) := getPageHeader pg
      let here := recordIDsPageLoop pageFuel pg freeStart maxCount count PAGE_DATA_START
      if nextPage = -1 then some here
      else
        (getAllRecordIDsLoop fuel pages maxCount (count + (here.length : Int)) nextPage).map
          fun rest => here ++ rest
    else some []

/-- `getAllRecordIDs(recordIDs, maxCount)`: the ids written to the buffer; the
returned count is their number. -/
def getAllRecordIDs (st : Store) (maxCount : Int) : Option (List Int) :=
  getAllRecordIDsLoop (chainFuel st) st.pages maxCount 0 0

end RecordManager

namespace QueryExecutor.Db

open SystemManager (Database getTableMeta getRecordManager)
open RecordManager (Store getRecord getAllRecordIDs)

/-! ## SELECT

`QueryExecutor::executeSelect` and `executeJoin`, with the helper
`getAllRecordIDsSafe` of the streaming aggregates.  `std::sort` is a
parameter of `executeSelect`. -/

/-- The structure `Selector`. -/
structure Selector where
  column : Column := ⟨"", ""⟩
  aggregate : AggregateType := AggregateType.NONE
  isAllColumns : Bool := false
  isCountStar : Bool := false
deriving DecidableEq, Repr

/-- The enumeration `OrderType`. -/
inductive OrderType where
  | ASC
  | DESC
deriving DecidableEq, Repr

/-- The fields of `ResultSet` a SELECT sets. -/
structure QueryResult where
  success : Bool := true
  message : String := ""
  columnNames : List String := []
  columnTypes : List DataType := []
  rows : List (List Value) := []
deriving DecidableEq, Repr

/-- `result.setError(msg)` on a result under construction. -/
def QueryResult.setError (result : QueryResult) (msg : String) : QueryResult :=
  { result with success := false, message := msg }

/-- `result.addColumn(name, type)`. -/
def QueryResult.addColumn (result : QueryResult) (name : String) (type : DataType) : QueryResult :=
  { result with columnNames := result.columnNames ++ [name],
                columnTypes := result.columnTypes ++ [type] }

/-- `Column::toString`. -/
def Column.toString (c : Column) : String :=
  if c.tableName = "" then c.columnName else c.tableName ++ "." ++ c.columnName

/-- The index of the first element a `for` loop with `break` finds, -1 when
there is none. -/
def firstIndex {α : Type} (p : α → Bool) : List α → Int
  | [] => -1
  | x :: xs => if p x then 0 else if firstIndex p xs < 0 then -1 else firstIndex p xs + 1

/-- `s.find(t) != std::string::npos`. -/
def containsString (s t : String) : Bool :=
  s.toList.tails.any fun l => t.toList.isPrefixOf l

/-- The aggregate name a column header shows. -/
def aggName : AggregateType → String
  | AggregateType.COUNT => "COUNT"
  | AggregateType.AVG => "AVG"
  | AggregateType.MAX => "MAX"
  | AggregateType.MIN => "MIN"
  | AggregateType.SUM => "SUM"
  | AggregateType.NONE => ""

/-- The column lookup of `matchRecord` in `executeJoin`: the exact
`table.column` name when the reference has a table name, else (or when that
finds nothing) the first column whose name after the dot is the column name
(`stripTablePrefix` is the `substr` after `find`). -/
def resolveColumn (allColNames : List String) (col : Column) : Int :=
  let exact :=
    if col.tableName ≠ "" then
      firstIndex (fun n => decide (n = col.tableName ++ "." ++ col.columnName)) allColNames
    else -1
  if exact < 0 then firstIndex (fun n => decide (stripTablePrefix n = col.columnName)) allColNames
  else exact

/-- One WHERE conjunct on a combined record: the body of the loop of
`matchRecord`. -/
def matchJoinClause (allColNames : List String) (record : List Value) (clause : WhereClause) :
    Bool :=
  let leftIdx := resolveColumn allColNames clause.column
  if leftIdx < 0 ∨ leftIdx ≥ (record.length : Int) then false
  else
    let leftVal := valueAt record leftIdx
    let rightIdx := resolveColumn allColNames clause.rightColumn
    if clause.isColumnCompare ∧ (rightIdx < 0 ∨ rightIdx ≥ (record.length : Int)) then false
    else
      let rightVal := if clause.isColumnCompare then valueAt record rightIdx else clause.value
      if clause.op = CompareOp.IS_NULL then leftVal.isNull
      else if clause.op = CompareOp.IS_NOT_NULL then !leftVal.isNull
      else if clause.op = CompareOp.LIKE then
        if leftVal.isNull then false
        else
          likeMatch
            (if leftVal.type = ValueType.STRING then leftVal.strVal else valueToString leftVal)
            clause.value.strVal
      else evaluateCompare clause.op (compareValues leftVal rightVal)

/-- The lambda `matchRecord` of `executeJoin`. -/
def matchRecord (allColNames : List String) (whereClauses : List WhereClause)
    (record : List Value) : Bool :=
  whereClauses.all (matchJoinClause allColNames record)

/-- The products of one row of the first table with the rows of the other
tables: the loop over `t` in the branch of `executeJoin` for three tables or
more. -/
def extendProducts : List (List Value) → List (List (Int × List Value)) → List (List Value)
  | currentProducts, [] => currentProducts
  | currentProducts, records :: rest =>
    extendProducts
      (currentProducts.flatMap fun product => records.map fun r => product ++ r.2) rest

/-- The records `executeJoin` keeps: the nested loop for two tables, the
product loop for more. -/
def joinRecords (allColNames : List String) (whereClauses : List WhereClause) :
    List (List (Int × List Value)) → List (List Value)
  | [first, second] =>
    first.flatMap fun r1 =>
      (second.map fun r2 => r1.2 ++ r2.2).filter (matchRecord allColNames whereClauses)
  | first :: others =>
    first.flatMap fun r1 =>
      (extendProducts [r1.2] others).filter (matchRecord allColNames whereClauses)
  | [] => []

/-- The index `executeJoin` finds for a selector: exact `table.column` with a
table name, first column of that name without. -/
def resolveSelector (allColNames : List String) (sel : Selector) : Int :=
  if sel.column.tableName ≠ "" then
    firstIndex (fun n => decide (n = sel.column.tableName ++ "." ++ sel.column.columnName))
      allColNames
  else firstIndex (fun n => decide (stripTablePrefix n = sel.column.columnName)) allColNames

/-- The scans of the tables of a join, in FROM order. -/
def scanAll (db : Database) : List String → Option (List (List (Int × List Value)))
  | [] => some []
  | tableName :: rest =>
    match scanTable db tableName, scanAll db rest with
    | some records, some tail => some (records :: tail)
    | _, _ => none

/-- `executeJoin(tables, whereClauses, selectors)`. -/
def executeJoin (db : Database) (tables : List String) (whereClauses : List WhereClause)
    (selectors : List Selector) : Option QueryResult :=
  if tables.length < 2 then some (QueryResult.setError {} "JOIN requires at least 2 tables")
  else
    match tables.find? fun t => (getTableMeta db t).isNone with
    | some t => some (QueryResult.setError {} ("Table " ++ quoted t ++ " does not exist"))
    | none =>
      let metas := tables.filterMap fun t => (getTableMeta db t).map fun m => (t, m)
      match scanAll db tables with
      | none => none
      | some allRecords =>
        let allColNames := metas.flatMap fun p => p.2.columns.map fun c => p.1 ++ "." ++ c.name
        let allColTypes := metas.flatMap fun p => p.2.columns.map fun c => c.type
        let filteredRecords := joinRecords allColNames whereClauses allRecords
        if selectors.any fun sel => sel.isAllColumns then
          some { columnNames := allColNames, columnTypes := allColTypes, rows := filteredRecords }
        else
          let selectIndices :=
            (selectors.map (resolveSelector allColNames)).filter fun idx => decide (idx ≥ 0)
          some
            { columnNames := selectIndices.map fun idx => allColNames.getD idx.toNat "",
              columnTypes := selectIndices.map fun idx => allColTypes.getD idx.toNat DataType.UNKNOWN,
              rows := filteredRecords.map fun record =>
                (selectIndices.filter fun idx => decide (idx < (record.length : Int))).map
                  fun idx => valueAt record idx }

end QueryExecutor.Db
namespace QueryExecutor.Db

open SystemManager (Database getTableMeta getRecordManager)
open RecordManager (Store getRecord getAllRecordIDs)

/-- The `while (true)` loop of `getAllRecordIDsSafe`: the buffer is filled
with capacity `capacity`, which doubles up to `hardCap` while the buffer comes
back full. -/
def recordIDsSafeLoop : Nat → Store → Bool → Int → Int → Int → Option (List Int)
  | 0, _, _, _, _, _ => none
  | fuel + 1, rm, hasHint, recordCount, hardCap, capacity =>
    match getAllRecordIDs rm capacity with
    | none => none
    | some ids =>
      if (ids.length : Int) < capacity then some ids
      else if hasHint ∧ capacity ≥ recordCount + 1024 then some ids
      else
        let start := capacity - min 64 capacity
        let tailVal := ids.getD start.toNat 0
        let allSame := (ids.drop (start.toNat + 1)).all fun id => decide (id = tailVal)
        if allSame ∧ capacity > 65536 then
          some ((ids.take start.toNat).reverse.dropWhile fun id => decide (id = tailVal)).reverse
        else if capacity ≥ hardCap then some ids
        else
          recordIDsSafeLoop fuel rm hasHint recordCount hardCap
            (if capacity * 2 > hardCap then hardCap else capacity * 2)

/-- `getAllRecordIDsSafe(rm, meta, recordIDs)`: the ids left in `recordIDs`.
Without a hint the capacity goes from 65536 to the cap of 5000000 in at most
eight rounds. -/
def getAllRecordIDsSafe (rm : Store) (tableMeta : TableMeta) : Option (List Int) :=
  let hasHint := decide (tableMeta.recordCount > 0)
  let capacity := if hasHint then tableMeta.recordCount + 1024 else 65536
  let hardCap := if hasHint then max capacity (tableMeta.recordCount + 1024) else 5000000
  recordIDsSafeLoop 8 rm hasHint tableMeta.recordCount hardCap
    (if capacity > hardCap then hardCap else capacity)

/-- The record loop of the streaming aggregates: the rows read with
`getRecord(rid, buffer, 8192)` that pass WHERE, in the order of the ids. -/
def streamRecords (tableMeta : TableMeta) (rm : Store) (whereClauses : List WhereClause) :
    List Int → Option (List (List Value))
  | [] => some []
  | rid :: rest =>
    match getRecord rm rid 2048 with
    | none => none
    | some (youmu, words) =>
      (streamRecords tableMeta rm whereClauses rest).map fun tail =>
        if youmu > 0 then
          let len := min (youmu * 4) 8192
          let values := deserializeRecord tableMeta.columns ((unpackBytes words).take len.toNat)
          if matchAllWhereClauses whereClauses tableMeta values then values :: tail else tail
        else tail

/-- What the selector loop of the single-table branch collects for one
selector: `(selectColIndices, selectColNames, selectColTypes, selectAggTypes)`
entries, or `none` when the column is not found. -/
def selectorEntries (tableMeta : TableMeta) (sel : Selector) :
    Option (List (Int × String × DataType × AggregateType)) :=
  if sel.isAllColumns then
    some ((List.range tableMeta.columns.length).map fun i =>
      ((i : Int), (columnAt tableMeta i).name, (columnAt tableMeta i).type, AggregateType.NONE))
  else if sel.isCountStar then some [(-1, "COUNT(*)", DataType.INT, AggregateType.COUNT)]
  else
    let colIdx := tableMeta.getColumnIndex sel.column.columnName
    if colIdx < 0 then none
    else
      some [(colIdx,
        if sel.aggregate ≠ AggregateType.NONE then
          aggName sel.aggregate ++ "(" ++ Column.toString sel.column ++ ")"
        else sel.column.columnName,
        (columnAt tableMeta colIdx).type, sel.aggregate)]

/-- The selector loop of the single-table branch: the entries of all
selectors, or the error of the first selector whose column is not found. -/
def selectorLoop (tableMeta : TableMeta) :
    List Selector → Except String (List (Int × String × DataType × AggregateType))
  | [] => Except.ok []
  | sel :: rest =>
    match selectorEntries tableMeta sel with
    | none => Except.error ("Column " ++ quoted sel.column.columnName ++ " not found")
    | some entries =>
      match selectorLoop tableMeta rest with
      | Except.error msg => Except.error msg
      | Except.ok tail => Except.ok (entries ++ tail)

/-- The values of column `colIdx` in the records that have it: the vector
`colValues` handed to `calculateAggregate`. -/
def columnValues (colIdx : Int) (records : List (List Value)) : List Value :=
  (records.filter fun record =>
    decide (colIdx ≥ 0) && decide (colIdx < (record.length : Int))).map
      fun record => valueAt record colIdx

/-- The insertion of a record into the `std::map` of groups, whose keys are
kept in the order of `std::string`. -/
def groupInsert (key : List Nat) (record : List Value) :
    List (List Nat × List (List Value)) → List (List Nat × List (List Value))
  | [] => [(key, [record])]
  | (k, records) :: rest =>
    if key = k then (k, records ++ [record]) :: rest
    else if BPlusTree.strLt key k then (key, [record]) :: (k, records) :: rest
    else (k, records) :: groupInsert key record rest

/-- The map `groups` after the grouping loop: every record is filed under
`ResultSet::valueToString` of its value in the GROUP BY column. -/
def groupRecords (groupColIdx : Int) (records : List (List Value)) :
    List (List Nat × List (List Value)) :=
  records.foldl
    (fun groups record => groupInsert (valueToString (valueAt record groupColIdx)) record groups) []

/-- The result row of one group (of the whole input for an aggregate without
GROUP BY over a join): a count of the rows for `COUNT(*)`,
`calculateAggregate` on the column for another aggregate, else the value of
the first row. -/
def groupRow (plan : List (Int × AggregateType)) (records : List (List Value)) : List Value :=
  plan.flatMap fun p =>
    if p.2 = AggregateType.COUNT ∧ p.1 = -1 then [Value.ofInt (records.length : Int)]
    else if p.2 ≠ AggregateType.NONE then [calculateAggregate p.2 (columnValues p.1 records)]
    else
      match records with
      | first :: _ =>
        if p.1 ≥ 0 ∧ p.1 < (first.length : Int) then [valueAt first p.1] else []
      | [] => []

/-- The row of an aggregate query without GROUP BY over a join: nothing is
pushed for a selector without an aggregate. -/
def joinAggregateRow (plan : List (Int × AggregateType)) (records : List (List Value)) :
    List Value :=
  plan.flatMap fun p =>
    if p.2 = AggregateType.COUNT ∧ p.1 = -1 then [Value.ofInt (records.length : Int)]
    else if p.2 ≠ AggregateType.NONE then [calculateAggregate p.2 (columnValues p.1 records)]
    else []

/-- The column lookup of the aggregate branch over a join: the first column
of the join result whose name is the reference or contains `.column`. -/
def findJoinColumn (columnNames : List String) (col : Column) : Int :=
  firstIndex
    (fun n => decide (n = Column.toString col) || containsString n ("." ++ col.columnName))
    columnNames

/-- The selector loop of the aggregate branch over a join: the result with
its columns added and the `(index, aggregate)` pairs, or the result with the
error set. -/
def joinSelectorLoop (joinResult : QueryResult) :
    QueryResult → List Selector → Except QueryResult (QueryResult × List (Int × AggregateType))
  | result, [] => Except.ok (result, [])
  | result, sel :: rest =>
    if sel.isCountStar then
      match joinSelectorLoop joinResult (result.addColumn "COUNT(*)" DataType.INT) rest with
      | Except.error e => Except.error e
      | Except.ok (r, plan) => Except.ok (r, (-1, AggregateType.COUNT) :: plan)
    else
      let foundIdx := findJoinColumn joinResult.columnNames sel.column
      if foundIdx < 0 then Except.error (result.setError "Column not found in JOIN result")
      else
        let type := joinResult.columnTypes.getD foundIdx.toNat DataType.UNKNOWN
        let name :=
          if sel.aggregate ≠ AggregateType.NONE then
            aggName sel.aggregate ++ "(" ++ Column.toString sel.column ++ ")"
          else joinResult.columnNames.getD foundIdx.toNat ""
        match joinSelectorLoop joinResult (result.addColumn name type) rest with
        | Except.error e => Except.error e
        | Except.ok (r, plan) => Except.ok (r, (foundIdx, sel.aggregate) :: plan)

/-- The branch of `executeSelect` for several tables. -/
def selectJoin (db : Database) (selectors : List Selector) (fromTables : List String)
    (whereClauses : List WhereClause) (groupByColumn : Column) (hasGroupBy : Bool) :
    Option QueryResult :=
  let hasAggInSelectors :=
    selectors.any fun sel => sel.isCountStar || decide (sel.aggregate ≠ AggregateType.NONE)
  if !hasAggInSelectors && !hasGroupBy then executeJoin db fromTables whereClauses selectors
  else
    match executeJoin db fromTables whereClauses [{ isAllColumns := true }] with
    | none => none
    | some joinResult =>
      if !joinResult.success then some joinResult
      else
        match joinSelectorLoop joinResult {} selectors with
        | Except.error e => some e
        | Except.ok (result, plan) =>
          if hasGroupBy then
            let groupColIdx := findJoinColumn joinResult.columnNames groupByColumn
            if groupColIdx < 0 then some (result.setError "GROUP BY column not found")
            else
              some { result with
                rows := (groupRecords groupColIdx joinResult.rows).map fun g => groupRow plan g.2 }
          else some { result with rows := [joinAggregateRow plan joinResult.rows] }

/-- The values of a record at the selected indices that it has. -/
def selectRow (indices : List Int) (record : List Value) : List Value :=
  (indices.filter fun colIdx =>
    decide (colIdx ≥ 0) && decide (colIdx < (record.length : Int))).map fun colIdx =>
      valueAt record colIdx

/-- The position in the result rows of the ORDER BY column: the first
selected column of that header, else the first selected column that reads the
table column of that name; -1 when there is none. -/
def orderColumnIndex (tableMeta : TableMeta) (names : List String) (indices : List Int)
    (orderByColumn : Column) : Int :=
  let byName := firstIndex (fun n => decide (n = orderByColumn.columnName)) names
  if byName < 0 then
    let origIdx := tableMeta.getColumnIndex orderByColumn.columnName
    if origIdx ≥ 0 then firstIndex (fun i => decide (i = origIdx)) indices else -1
  else byName

/-- The comparator handed to `std::sort`. -/
def orderBefore (orderColIdx : Int) (orderType : OrderType) (a b : List Value) : Bool :=
  if orderType = OrderType.ASC then
    decide (compareValues (valueAt a orderColIdx) (valueAt b orderColIdx) < 0)
  else decide (compareValues (valueAt a orderColIdx) (valueAt b orderColIdx) > 0)

/-- The OFFSET step on the result rows. -/
def applyOffset (offset : Int) (rows : List (List Value)) : List (List Value) :=
  if offset > 0 then (if offset ≥ (rows.length : Int) then [] else rows.drop offset.toNat)
  else rows

/-- The LIMIT step on the result rows. -/
def applyLimit (limit : Int) (rows : List (List Value)) : List (List Value) :=
  if limit ≥ 0 ∧ limit < (rows.length : Int) then rows.take limit.toNat else rows

/-- The records of the table that pass WHERE, for the branches of
`executeSelect` that collect them: by the index, by the filtered scan or by
the plain scan. -/
def filteredRecords (db : Database) (tableName : String) (tableMeta : TableMeta)
    (whereClauses : List WhereClause) : Option (List (List Value)) :=
  match whereClauses with
  | [] => (scanTable db tableName).map fun records => records.map fun r => r.2
  | [clause] =>
    if shouldUseIndex db tableName clause then
      (indexScan db tableName clause).map fun records =>
        (records.filter fun r => matchAllWhereClauses whereClauses tableMeta r.2).map fun r => r.2
    else (scanTableFiltered db tableName whereClauses).map fun records => records.map fun r => r.2
  | _ => (scanTableFiltered db tableName whereClauses).map fun records => records.map fun r => r.2

/-- The streaming branch of `executeSelect`: aggregates without GROUP BY on
one table. -/
def selectStreaming (db : Database) (tableName : String) (tableMeta : TableMeta)
    (whereClauses : List WhereClause) (plan : List (Int × AggregateType))
    (result : QueryResult) : Option QueryResult :=
  if whereClauses.isEmpty ∧ plan = [(-1, AggregateType.COUNT)] then
    let count := if tableMeta.recordCount ≥ 0 then tableMeta.recordCount else 0
    some { result with
      rows := [[Value.ofInt (if count > 2147483647 then 2147483647 else count)]] }
  else
    match getRecordManager db tableName with
    | none => some (result.setError ("Cannot open table " ++ quoted tableName))
    | some rm =>
      match getAllRecordIDsSafe rm tableMeta with
      | none => none
      | some recordIDs =>
        match streamRecords tableMeta rm whereClauses recordIDs with
        | none => none
        | some records =>
          some { result with
            rows := [aggregateRows (plan.map fun p => { type := p.2, colIdx := p.1 }) records] }

/-- `executeSelect(selectors, fromTables, whereClauses, groupByColumn,
orderByColumn, orderType, limit, offset, hasGroupBy, hasOrderBy)`; `sort` is
`std::sort` with its comparator.  The second aggregate block of the code,
after the records are collected, is never reached and is left out. -/
def executeSelect (sort : (List Value → List Value → Bool) → List (List Value) → List (List Value))
    (db : Database) (selectors : List Selector) (fromTables : List String)
    (whereClauses : List WhereClause) (groupByColumn orderByColumn : Column)
    (orderType : OrderType) (limit offset : Int) (hasGroupBy hasOrderBy : Bool) :
    Option QueryResult :=
  match fromTables with
  | [] => some (QueryResult.setError {} "No tables specified")
  | tableName :: others =>
    if others ≠ [] then
      selectJoin db selectors fromTables whereClauses groupByColumn hasGroupBy
    else
      match getTableMeta db tableName with
      | none => some (QueryResult.setError {} ("Table " ++ quoted tableName ++ " does not exist"))
      | some tableMeta =>
        match selectorLoop tableMeta selectors with
        | Except.error msg => some (QueryResult.setError {} msg)
        | Except.ok entries =>
          let indices := entries.map fun e => e.1
          let names := entries.map fun e => e.2.1
          let plan := entries.map fun e => (e.1, e.2.2.2)
          let result : QueryResult :=
            { columnNames := names, columnTypes := entries.map fun e => e.2.2.1 }
          let hasAggregate := plan.any fun p => decide (p.2 ≠ AggregateType.NONE)
          if hasAggregate && !hasGroupBy then
            selectStreaming db tableName tableMeta whereClauses plan result
          else
            match filteredRecords db tableName tableMeta whereClauses with
            | none => none
            | some records =>
              let groupColIdx := tableMeta.getColumnIndex groupByColumn.columnName
              if hasGroupBy ∧ groupColIdx < 0 then
                some (result.setError "GROUP BY column not found")
              else
                let rows :=
                  if hasGroupBy then
                    (groupRecords groupColIdx records).map fun g => groupRow plan g.2
                  else records.map (selectRow indices)
                let orderColIdx := orderColumnIndex tableMeta names indices orderByColumn
                let sorted :=
                  if hasOrderBy ∧ rows ≠ [] ∧ orderColIdx ≥ 0 then
                    sort (orderBefore orderColIdx orderType) rows
                  else rows
                some { result with rows := applyLimit limit (applyOffset offset sorted) }

end QueryExecutor.Db
namespace QueryExecutor.Db

open SystemManager (Database afterCreateTable)
open RecordManager (zeroDisk)
open BPlusTree (blankDisk)

/-! ### Example databases of the SELECT statements -/

/-- After `CREATE TABLE a (x INT)` and `CREATE TABLE b (y INT)`. -/
def pairDb : Database :=
  afterCreateTable (afterCreateTable emptyDatabase zeroDisk blankDisk "a" [⟨"x", DataType.INT, 0, false⟩] [] [])
    zeroDisk blankDisk "b" [⟨"y", DataType.INT, 0, false⟩] [] []

/-- The database `pairDb` after `INSERT INTO a VALUES (NULL)` and
`INSERT INTO b VALUES (NULL)`. -/
def nullPairDb : Database :=
  after (after pairDb fun db => executeInsert db "a" [[Value.makeNull]]) fun db =>
    executeInsert db "b" [[Value.makeNull]]

/-- The join condition `a.x = b.y`. -/
def joinOnXY : WhereClause :=
  { column := ⟨"a", "x"⟩, op := CompareOp.EQ, rightColumn := ⟨"b", "y"⟩, isColumnCompare := true }

/-- The database `pairDb` after `INSERT INTO a VALUES (1)`: `b` has no row. -/
def onlyADb : Database := after pairDb fun db => executeInsert db "a" [[Value.ofInt 1]]

/-- After `CREATE TABLE a (id INT)`, `CREATE TABLE b (id INT)`,
`INSERT INTO a VALUES (1)` and `INSERT INTO b VALUES (10)`. -/
def sameNameDb : Database :=
  after
    (after
      (afterCreateTable
        (afterCreateTable emptyDatabase zeroDisk blankDisk "a" [⟨"id", DataType.INT, 0, false⟩] [] [])
        zeroDisk blankDisk "b" [⟨"id", DataType.INT, 0, false⟩] [] [])
      fun db => executeInsert db "a" [[Value.ofInt 1]])
    fun db => executeInsert db "b" [[Value.ofInt 10]]

/-- After `CREATE TABLE a (id2 INT)`, `CREATE TABLE b (id INT)`,
`INSERT INTO a VALUES (1)` and `INSERT INTO b VALUES (10)`. -/
def longerNameDb : Database :=
  after
    (after
      (afterCreateTable
        (afterCreateTable emptyDatabase zeroDisk blankDisk "a" [⟨"id2", DataType.INT, 0, false⟩] [] [])
        zeroDisk blankDisk "b" [⟨"id", DataType.INT, 0, false⟩] [] [])
      fun db => executeInsert db "a" [[Value.ofInt 1]])
    fun db => executeInsert db "b" [[Value.ofInt 10]]

/-- A selector `agg(table.column)`; a plain column with `AggregateType.NONE`. -/
def selectColumn (aggregate : AggregateType) (tableName columnName : String) : Selector :=
  { column := ⟨tableName, columnName⟩, aggregate := aggregate }

/-- The call of `executeSelect` for a statement without GROUP BY, ORDER BY,
LIMIT and OFFSET (`limit = -1`, `offset = 0`). -/
def selectFrom (sort : (List Value → List Value → Bool) → List (List Value) → List (List Value))
    (db : Database) (selectors : List Selector) (fromTables : List String)
    (whereClauses : List WhereClause) : Option QueryResult :=
  executeSelect sort db selectors fromTables whereClauses ⟨"", ""⟩ ⟨"", ""⟩ OrderType.ASC (-1) 0
    false false

/-- After `CREATE TABLE t (g INT, v INT)` and
`INSERT INTO t VALUES (1, 10), (1, 20), (2, 5), (2, NULL)`. -/
def groupDb : Database :=
  after
    (afterCreateTable emptyDatabase zeroDisk blankDisk "t"
      [⟨"g", DataType.INT, 0, false⟩, ⟨"v", DataType.INT, 0, false⟩] [] [])
    fun db =>
      executeInsert db "t"
        [[Value.ofInt 1, Value.ofInt 10], [Value.ofInt 1, Value.ofInt 20],
          [Value.ofInt 2, Value.ofInt 5], [Value.ofInt 2, Value.makeNull]]

/-- After `CREATE TABLE t (g FLOAT, v INT)` and
`INSERT INTO t VALUES (1.001, 10), (1.002, 20)`: the two `double`s are
4607186922399644778 and 4607191425999272149. -/
def floatGroupDb : Database :=
  after
    (afterCreateTable emptyDatabase zeroDisk blankDisk "t"
      [⟨"g", DataType.FLOAT, 0, false⟩, ⟨"v", DataType.INT, 0, false⟩] [] [])
    fun db =>
      executeInsert db "t"
        [[Value.ofFloat 4607186922399644778, Value.ofInt 10],
          [Value.ofFloat 4607191425999272149, Value.ofInt 20]]

/-- After `CREATE TABLE t (a INT, b INT)` and
`INSERT INTO t VALUES (1, 2), (2, 1)`. -/
def orderDb : Database :=
  after
    (afterCreateTable emptyDatabase zeroDisk blankDisk "t"
      [⟨"a", DataType.INT, 0, false⟩, ⟨"b", DataType.INT, 0, false⟩] [] [])
    fun db => executeInsert db "t" [[Value.ofInt 1, Value.ofInt 2], [Value.ofInt 2, Value.ofInt 1]]

end QueryExecutor.Db
namespace SystemManager

open QueryExecutor (TableMeta ColumnDef KeyDef DataType Value rd32 shl1 stripTrailingZeros
  floatToDouble valueAt unpackBytes)
open RecordManager (Store toInt getAllRecordsDirect)

/-- The index creation loop of `addPrimaryKey`: an index for every key column
that has none yet, the column appended to the index list of the table. -/
def addKeyIndexes (disk : Int → BPlusTree.BPlusTreeNode) (tableName : String) :
    List String → TableMeta → IndexManager.OpenIndexes → TableMeta × IndexManager.OpenIndexes
  | [], tableMeta, im => (tableMeta, im)
  | col :: rest, tableMeta, im =>
    if !tableMeta.hasIndex col then
      match tableMeta.columns.find? fun c => decide (c.name = col) with
      | none => addKeyIndexes disk tableName rest tableMeta im
      | some colDef =>
        let keyType :=
          if colDef.type = DataType.INT then BPlusTree.KeyType.INT
          else if colDef.type = DataType.FLOAT then BPlusTree.KeyType.FLOAT
          else BPlusTree.KeyType.VARCHAR
        let keyLength :=
          if colDef.type = DataType.INT ∨ colDef.type = DataType.FLOAT then 0 else colDef.length
        addKeyIndexes disk tableName rest
          { tableMeta with indexes := tableMeta.indexes ++ [col] }
          (IndexManager.createIndex im disk tableName col keyType keyLength)
    else addKeyIndexes disk tableName rest tableMeta im

/-- The loop over the columns with which `addPrimaryKey` reads a stored
record, from column number `j` at byte `pos`: unlike `deserializeRecord` it
reads a FLOAT as four bytes and goes on to the next column when one does not
fit.  There is no result when the length word of a VARCHAR column that is not
null is negative and passes the test `pos + strLen <= len`: the constructor
`std::string(buffer + pos, strLen)` then throws. -/
def keyFillValues (data : List Nat) (len : Int) (nullBitmap : Nat) :
    Nat → List ColumnDef → Int → Option (List Value)
  | _, [], _ => some []
  | j, col :: cols, pos =>
    let isNull := decide (nullBitmap &&& shl1 j ≠ 0)
    match col.type with
    | DataType.INT =>
      if pos + 4 ≤ len then
        (keyFillValues data len nullBitmap (j + 1) cols (pos + 4)).map fun rest =>
          (if isNull then Value.makeNull else Value.ofInt (toInt (rd32 data pos))) :: rest
      else keyFillValues data len nullBitmap (j + 1) cols pos
    | DataType.FLOAT =>
      if pos + 4 ≤ len then
        (keyFillValues data len nullBitmap (j + 1) cols (pos + 4)).map fun rest =>
          (if isNull then Value.makeNull else Value.ofFloat (floatToDouble (rd32 data pos))) ::
            rest
      else keyFillValues data len nullBitmap (j + 1) cols pos
    | DataType.VARCHAR =>
      if pos + 4 ≤ len then
        let strLen := toInt (rd32 data pos)
        let pos1 := pos + 4
        let rest := keyFillValues data len nullBitmap (j + 1) cols (pos1 + col.length)
        if isNull then rest.map fun vs => Value.makeNull :: vs
        else if pos1 + strLen ≤ len then
          if strLen < 0 then none
          else
            rest.map fun vs =>
              Value.ofString (stripTrailingZeros ((data.drop pos1.toNat).take strLen.toNat)) :: vs
        else rest
      else keyFillValues data len nullBitmap (j + 1) cols pos
    | DataType.UNKNOWN => keyFillValues data len nullBitmap (j + 1) cols pos

/-- Whether no length word that the loop of `addPrimaryKey` over the columns
reads in a stored record, for a VARCHAR column that is not null, is
negative. -/
def lengthsNonNegative (data : List Nat) (len : Int) (nullBitmap : Nat) :
    Nat → List ColumnDef → Int → Bool
  | _, [], _ => true
  | j, col :: cols, pos =>
    match col.type with
    | DataType.INT =>
      if pos + 4 ≤ len then lengthsNonNegative data len nullBitmap (j + 1) cols (pos + 4)
      else lengthsNonNegative data len nullBitmap (j + 1) cols pos
    | DataType.FLOAT =>
      if pos + 4 ≤ len then lengthsNonNegative data len nullBitmap (j + 1) cols (pos + 4)
      else lengthsNonNegative data len nullBitmap (j + 1) cols pos
    | DataType.VARCHAR =>
      if pos + 4 ≤ len then
        (decide (nullBitmap &&& shl1 j ≠ 0) || decide (0 ≤ toInt (rd32 data pos))) &&
          lengthsNonNegative data len nullBitmap (j + 1) cols (pos + 4 + col.length)
      else lengthsNonNegative data len nullBitmap (j + 1) cols pos
    | DataType.UNKNOWN => lengthsNonNegative data len nullBitmap (j + 1) cols pos

/-- The stored record `words` of a table with the columns `columns` holds no
negative length word where `addPrimaryKey` reads one. -/
def readableRecord (columns : List ColumnDef) (words : List Nat) : Prop :=
  lengthsNonNegative (unpackBytes words) (unpackBytes words).length (rd32 (unpackBytes words) 0)
    0 columns 4 = true

instance (columns : List ColumnDef) (words : List Nat) : Decidable (readableRecord columns words) :=
  inferInstanceAs (Decidable (_ = true))

/-- The entries one stored record adds to the indexes of the key columns. -/
def keyFillRecord (tableName : String) (tableMeta : TableMeta) (recordID : Int)
    (values : List Value) : List String → IndexManager.OpenIndexes → Option IndexManager.OpenIndexes
  | [], im => some im
  | pkCol :: rest, im =>
    let colIdx := tableMeta.getColumnIndex pkCol
    if colIdx ≥ 0 ∧ colIdx < (values.length : Int) ∧ (valueAt values colIdx).isNull = false then
      (QueryExecutor.Db.insertByType im tableName pkCol (QueryExecutor.Db.columnAt tableMeta colIdx).type
        (valueAt values colIdx) ⟨0, recordID⟩).bind (keyFillRecord tableName tableMeta recordID values rest)
    else keyFillRecord tableName tableMeta recordID values rest im

/-- The loop of `addPrimaryKey` that puts the stored records into the new
indexes. -/
def keyFill (tableName : String) (tableMeta : TableMeta) (columns : List String) :
    List (Int × List Nat) → IndexManager.OpenIndexes → Option IndexManager.OpenIndexes
  | [], im => some im
  | record :: rest, im =>
    let data := unpackBytes record.2
    if (data.length : Int) ≥ 4 then
      (keyFillValues data data.length (rd32 data 0) 0 tableMeta.columns 4).bind fun values =>
        (keyFillRecord tableName tableMeta record.1 values columns im).bind
          (keyFill tableName tableMeta columns rest)
    else keyFill tableName tableMeta columns rest im

/-- `addPrimaryKey(tableName, columns)`: the returned flag and the database
afterwards; the files of the new indexes decode to `indexDisk`. -/
def addPrimaryKey (db : Database) (indexDisk : Int → BPlusTree.BPlusTreeNode)
    (tableName : String) (columns : List String) : Option (Bool × Database) :=
  match findTable db tableName with
  | none => some (false, db)
  | some (tableMeta, rm) =>
    if tableMeta.primaryKey ≠ [] then some (false, db)
    else if columns.any fun col => !tableMeta.columns.any fun c => decide (c.name = col) then
      some (false, db)
    else
      let r :=
        addKeyIndexes indexDisk tableName columns { tableMeta with primaryKey := columns }
          db.indexManager
      match getAllRecordsDirect rm with
      | none => none
      | some records =>
        (keyFill tableName r.1 columns records r.2).map fun im =>
          (true, { tables := modifyTable tableName (fun e => (r.1, e.2)) db.tables,
                   indexManager := im })

end SystemManager

namespace QueryExecutor.Db

/-- The field loop of `executeLoadData` on one line, from byte `pos` for the
columns that are left: `line.find(actualDelimiter, pos)` with the fixed
`actualDelimiter = ","`, a value for the text up to it. -/
def fieldLoop (stod : List Nat → Option Nat) (line : List Nat) : List ColumnDef → Nat → List Value
  | [], _ => []
  | col :: cols, pos =>
    if pos ≤ line.length then
      let rest := line.drop pos
      let field := rest.takeWhile fun c => c != 44
      parseField stod col field ::
        fieldLoop stod line cols
          (if field.length < rest.length then pos + field.length + 1 else line.length + 1)
    else []

/-- The values `executeLoadData(fileName, tableName, delimiter)` builds from
one line of the file: the field loop, then nulls up to the number of columns.
The parameter `delimiter` is not read. -/
def loadLineValues (stod : List Nat → Option Nat) (columns : List ColumnDef) (line : List Nat)
    (_delimiter : List Nat) : List Value :=
  let values := fieldLoop stod line columns 0
  values ++ List.replicate (columns.length - values.length) Value.makeNull

end QueryExecutor.Db
namespace QueryExecutor.Db

open SystemManager (Database afterCreateTable addPrimaryKey)
open RecordManager (zeroDisk)
open BPlusTree (blankDisk)

/-- After `CREATE TABLE t (a INT, b INT, PRIMARY KEY (a, b))`. -/
def twoKeyDb : Database :=
  afterCreateTable emptyDatabase zeroDisk blankDisk "t"
    [⟨"a", DataType.INT, 0, false⟩, ⟨"b", DataType.INT, 0, false⟩] ["a", "b"] []

/-- After `CREATE TABLE t (a INT, b INT)` and `INSERT INTO t VALUES (1, 2)`. -/
def noKeyDb : Database :=
  after
    (afterCreateTable emptyDatabase zeroDisk blankDisk "t"
      [⟨"a", DataType.INT, 0, false⟩, ⟨"b", DataType.INT, 0, false⟩] [] [])
    fun db => executeInsert db "t" [[Value.ofInt 1, Value.ofInt 2]]

/-- After `CREATE TABLE u (a INT, s VARCHAR(8), f FLOAT)` and
`INSERT INTO u VALUES (1, 'x', 2.5)`. -/
def threeTypeDb : Database :=
  after
    (afterCreateTable emptyDatabase zeroDisk blankDisk "u"
      [⟨"a", DataType.INT, 0, false⟩, ⟨"s", DataType.VARCHAR, 8, false⟩,
        ⟨"f", DataType.FLOAT, 0, false⟩] [] [])
    fun db => executeInsert db "u"
      [[Value.ofInt 1, Value.ofString [120], Value.ofFloat 4612811918334230528]]

/-- After `CREATE TABLE t (f FLOAT)`. -/
def floatDb : Database :=
  afterCreateTable emptyDatabase zeroDisk blankDisk "t" [⟨"f", DataType.FLOAT, 0, false⟩] [] []

/-- `std::stod` on the fields of the example file: the quiet NaN (pattern
9221120237041090560) for the field `nan`; the file has no other field. -/
def stodNan (field : List Nat) : Option Nat :=
  if field = asciiBytes "nan" then some 9221120237041090560 else none

/-- The index list of a table and the keys of the open indexes. -/
def indexLists (db : Database) (tableName : String) : Option (List String) × List String :=
  ((SystemManager.getTableMeta db tableName).map fun m => m.indexes,
    db.indexManager.map fun e => e.1)

end QueryExecutor.Db
namespace QueryExecutor.Db

open SystemManager (Database)

/-! ### Example databases of the index probe -/

/-- The database `shortKeyDb` after `INSERT INTO t VALUES ('a'), ('c')`. -/
def twoNamesDb : Database :=
  after shortKeyDb fun db => executeInsert db "t" [[Value.ofString [97]], [Value.ofString [99]]]

/-- The database `intKeyDb` after `INSERT INTO t VALUES (1), (2)`. -/
def twoIdsDb : Database :=
  after intKeyDb fun db => executeInsert db "t" [[Value.ofInt 1], [Value.ofInt 2]]

/-- The clause `id = id`, a comparison with a column operand. -/
def idEqualsId : WhereClause :=
  { column := ⟨"", "id"⟩, op := CompareOp.EQ, rightColumn := ⟨"", "id"⟩, isColumnCompare := true }

end QueryExecutor.Db

namespace BPlusTree

/-- Insert the string entries in order, ignoring the returned flags. -/
def insertAllStr : Tree → List (List Nat × RID) → Option Tree
  | t, [] => some t
  | t, (key, rid) :: rest =>
    match insertStr t key rid with
    | none => none
    | some r => insertAllStr r.2 rest

/-- The entries with the one-byte keys `1, …, n` in this order, the `i`-th with
the RID `(0, i)`. -/
def byteEntries (n : Nat) : List (List Nat × RID) :=
  (List.range n).map fun (i : Nat) => ([i + 1], ⟨0, (i : Int) + 1⟩)

end BPlusTree

namespace QueryExecutor

/-- The strict order `compareValues` induces on values that are null or of one
type: a null comes before every non-null value, and two non-null values are
ordered by `valueLt`. -/
def nullsFirstLt (a b : Value) : Prop :=
  (a.isNull = true ∧ b.isNull = false) ∨
    (a.isNull = false ∧ b.isNull = false ∧ valueLt a b = true)

end QueryExecutor

namespace SystemManager.MetaFile

open QueryExecutor (Value ValueType DataType asciiBytes)
open QueryExecutor.Db (isSpace)

/-! ## The `.meta` file

`SystemManager::saveTableMeta` and `SystemManager::loadTableMeta`, on the
entry of `tableMetas` with all its fields.  The file is the list of its bytes,
and so is every `std::string` of the entry.  `operator<<` of a
`double` (six significant digits by default) and `operator>>` of a `float` are
parameters.  The result of a load is `none` when the code reads a local `int`
or `float` that no extraction has set. -/

/-- The struct `KeyDef`. -/
structure KeyDef where
  name : List Nat := []
  columns : List (List Nat) := []
  refTable : List Nat := []
  refColumns : List (List Nat) := []
deriving DecidableEq, Repr

/-- The struct `IndexInfo`, with the defaults of its constructor. -/
structure IndexInfo where
  name : List Nat := []
  columns : List (List Nat) := []
  isExplicit : Bool := true
  isUnique : Bool := false
deriving DecidableEq, Repr

/-- The struct `ColumnDef` with all its fields, and the defaults of its
constructor. -/
structure ColumnDef where
  name : List Nat := []
  type : DataType := DataType.UNKNOWN
  length : Int := 0
  notNull : Bool := false
  hasDefault : Bool := false
  defaultValue : Value := Value.makeNull
deriving DecidableEq, Repr

/-- The struct `TableMeta` with all its fields, and the defaults of its
constructor. -/
structure TableMeta where
  tableName : List Nat := []
  columns : List ColumnDef := []
  primaryKey : List (List Nat) := []
  primaryKeyColumns : List (List Nat) := []
  foreignKeys : List KeyDef := []
  indexes : List (List Nat) := []
  explicitIndexes : List IndexInfo := []
  uniqueConstraints : List IndexInfo := []
  recordCount : Int := 0
  nextRecordID : Int := 1
deriving DecidableEq, Repr

/-- `file << i` for an `int` or a `size_t`: the decimal digits, after a minus
sign when negative. -/
def showInt (i : Int) : List Nat :=
  (if i < 0 then [45] else []) ++ (Nat.toDigits 10 i.natAbs).map Char.toNat

/-- `file << (flag ? 1 : 0)`. -/
def showFlag (flag : Bool) : List Nat := if flag then [49] else [48]

/-- The names of a list, each after a blank. -/
def showNames (names : List (List Nat)) : List Nat :=
  (names.map fun name => 32 :: name).flatten

/-- The text written for the default value of a column. -/
def showDefault (showDouble : Nat → List Nat) (v : Value) : List Nat :=
  if v.isNull then asciiBytes " NULL"
  else if v.type = ValueType.INT then asciiBytes " INT " ++ showInt v.intVal
  else if v.type = ValueType.FLOAT then asciiBytes " FLOAT " ++ showDouble v.floatVal
  else asciiBytes " STRING " ++ v.strVal

/-- The line written for one column. -/
def showColumn (showDouble : Nat → List Nat) (col : ColumnDef) : List Nat :=
  col.name ++ [32] ++
    (if col.type = DataType.INT then asciiBytes "INT"
      else if col.type = DataType.FLOAT then asciiBytes "FLOAT"
      else asciiBytes "VARCHAR " ++ showInt col.length) ++
    [32] ++ showFlag col.notNull ++ [32] ++ showFlag col.hasDefault ++
    (if col.hasDefault then showDefault showDouble col.defaultValue else []) ++ [10]

/-- The line written for one foreign key. -/
def showForeignKey (fk : KeyDef) : List Nat :=
  (if fk.name.isEmpty then [45] else fk.name) ++ [32] ++
    showInt fk.columns.length ++ showNames fk.columns ++ [32] ++ fk.refTable ++
    [32] ++ showInt fk.refColumns.length ++ showNames fk.refColumns ++ [10]

/-- The line written for one explicit index. -/
def showIndex (idx : IndexInfo) : List Nat :=
  idx.name ++ [32] ++ showInt idx.columns.length ++ showNames idx.columns ++ [32] ++
    showFlag idx.isExplicit ++ [32] ++ showFlag idx.isUnique ++ [10]

/-- `saveTableMeta`: the bytes written to the `.meta` file of the entry. -/
def saveTableMeta (showDouble : Nat → List Nat) (tableMeta : TableMeta) : List Nat :=
  asciiBytes "TABLE " ++ tableMeta.tableName ++ [10] ++
    asciiBytes "COLUMNS " ++ showInt tableMeta.columns.length ++ [10] ++
    (tableMeta.columns.map (showColumn showDouble)).flatten ++
    asciiBytes "PRIMARY_KEY " ++ showInt tableMeta.primaryKey.length ++
    showNames tableMeta.primaryKey ++ [10] ++
    asciiBytes "FOREIGN_KEYS " ++ showInt tableMeta.foreignKeys.length ++ [10] ++
    (tableMeta.foreignKeys.map showForeignKey).flatten ++
    asciiBytes "INDEXES " ++ showInt tableMeta.indexes.length ++ showNames tableMeta.indexes ++
    [10] ++
    asciiBytes "EXPLICIT_INDEXES " ++ showInt tableMeta.explicitIndexes.length ++ [10] ++
    (tableMeta.explicitIndexes.map showIndex).flatten ++
    asciiBytes "PRIMARY_KEY_COLS " ++ showInt tableMeta.primaryKeyColumns.length ++
    showNames tableMeta.primaryKeyColumns ++ [10] ++
    asciiBytes "RECORD_COUNT " ++ showInt tableMeta.recordCount ++ [10] ++
    asciiBytes "NEXT_RECORD_ID " ++ showInt tableMeta.nextRecordID ++ [10]

/-- The lines `std::getline` returns one after the other: the text between
the line feeds, and no line after the last line feed. -/
def getLines : List Nat → List Nat → List (List Nat)
  | acc, [] => if acc.isEmpty then [] else [acc.reverse]
  | acc, c :: cs => if c = 10 then acc.reverse :: getLines [] cs else getLines (c :: acc) cs

/-- An `std::istringstream`: the bytes not yet read, and whether `failbit` is
set. -/
structure IStream where
  rest : List Nat
  failed : Bool := false
deriving DecidableEq, Repr

/-- `is >> s` for a `std::string` that holds `old`: the white space is
skipped and the bytes up to the next white space are read; at the end of the
text, or on a stream that has failed, `s` keeps `old` and the stream fails. -/
def readToken (is : IStream) (old : List Nat) : List Nat × IStream :=
  if is.failed then (old, is)
  else
    let s := is.rest.dropWhile isSpace
    if s.isEmpty then (old, { rest := [], failed := true })
    else (s.takeWhile fun c => !isSpace c, { rest := s.dropWhile fun c => !isSpace c })

/-- `is >> i` for an `int` that holds `old` (`none` when it was never set):
after the white space a sign and the decimal digits are read.  At the end of
the text, or on a stream that has failed, `i` keeps `old`; without a digit
`i` is 0, and out of the range of `int` it is the nearest bound: the stream
fails in all three cases. -/
def readInt (is : IStream) (old : Option Int) : Option Int × IStream :=
  if is.failed then (old, is)
  else
    let s := is.rest.dropWhile isSpace
    if s.isEmpty then (old, { rest := [], failed := true })
    else
      let negative := decide (s.head? = some 45)
      let s1 := if s.head? = some 45 ∨ s.head? = some 43 then s.drop 1 else s
      let digits := s1.takeWhile fun c => decide (48 ≤ c) && decide (c ≤ 57)
      let rest := s1.drop digits.length
      if digits.isEmpty then (some 0, { rest := rest, failed := true })
      else
        let n : Nat := digits.foldl (fun acc c => acc * 10 + (c - 48)) 0
        let v : Int := if negative then -(n : Int) else (n : Int)
        if v > 2147483647 then (some 2147483647, { rest := rest, failed := true })
        else if v < -2147483648 then (some (-2147483648), { rest := rest, failed := true })
        else (some v, { rest := rest })

/-- The loop `for (j < count) { std::string s; is >> s; v.push_back(s); }`. -/
def readTokens : Nat → IStream → List (List Nat) × IStream
  | 0, is => ([], is)
  | n + 1, is =>
    let r := readToken is []
    let rs := readTokens n r.2
    (r.1 :: rs.1, rs.2)

/-- The default value read after the flag `hasDefault`: the `Value` built for
the tag `valType`. `readFloat` stands for `colIss >> val` with a `float val`:
the `double` of the value read and the bytes left, or `none` when no number
starts the text. -/
def readDefault (readFloat : List Nat → Option (Nat × List Nat)) (is : IStream) : Option Value :=
  let r := readToken is []
  if r.1 = asciiBytes "NULL" then some Value.makeNull
  else if r.1 = asciiBytes "INT" then (readInt r.2 none).1.map Value.ofInt
  else if r.1 = asciiBytes "FLOAT" then
    let s := r.2.rest.dropWhile isSpace
    if r.2.failed ∨ s.isEmpty then none
    else
      match readFloat s with
      | some p => some (Value.ofFloat p.1)
      | none => some (Value.ofFloat 0)
  else if r.1 = asciiBytes "STRING" then some (Value.ofString (readToken r.2 []).1)
  else some Value.makeNull

/-- The body of the column loop of `loadTableMeta` for one line. -/
def readColumn (readFloat : List Nat → Option (Nat × List Nat)) (line : List Nat) :
    Option ColumnDef :=
  let r1 := readToken { rest := line } []
  let r2 := readToken r1.2 []
  let type :=
    if r2.1 = asciiBytes "INT" then DataType.INT
    else if r2.1 = asciiBytes "FLOAT" then DataType.FLOAT
    else if r2.1 = asciiBytes "VARCHAR" then DataType.VARCHAR
    else DataType.UNKNOWN
  let r3 := if r2.1 = asciiBytes "VARCHAR" then readInt r2.2 (some 0) else (some 0, r2.2)
  let r4 := readInt r3.2 none
  let r5 := readInt r4.2 none
  match r3.1, r4.1, r5.1 with
  | some length, some notNullInt, some hasDefaultInt =>
    if hasDefaultInt ≠ 0 then
      (readDefault readFloat r5.2).map fun v =>
        { name := r1.1, type := type, length := length, notNull := decide (notNullInt ≠ 0),
          hasDefault := true, defaultValue := v }
    else
      some { name := r1.1, type := type, length := length, notNull := decide (notNullInt ≠ 0),
             hasDefault := false }
  | _, _, _ => none

/-- The body of the foreign-key loop of `loadTableMeta` for one line. -/
def readForeignKey (line : List Nat) : Option KeyDef :=
  let r1 := readToken { rest := line } []
  let r2 := readInt r1.2 none
  match r2.1 with
  | none => none
  | some colCount =>
    let cols := readTokens colCount.toNat r2.2
    let r3 := readToken cols.2 []
    let r4 := readInt r3.2 none
    match r4.1 with
    | none => none
    | some refColCount =>
      some { name := if r1.1 = [45] then [] else r1.1, columns := cols.1, refTable := r3.1,
             refColumns := (readTokens refColCount.toNat r4.2).1 }

/-- The body of the explicit-index loop of `loadTableMeta` for one line. -/
def readIndex (line : List Nat) : Option IndexInfo :=
  let r1 := readToken { rest := line } []
  let r2 := readInt r1.2 none
  match r2.1 with
  | none => none
  | some colCount =>
    let cols := readTokens colCount.toNat r2.2
    let r3 := readInt cols.2 none
    let r4 := readInt r3.2 none
    match r3.1, r4.1 with
    | some isExplicitInt, some isUniqueInt =>
      some { name := r1.1, columns := cols.1, isExplicit := decide (isExplicitInt ≠ 0),
             isUnique := decide (isUniqueInt ≠ 0) }
    | _, _ => none

/-- The items a block loop `for (i < count && std::getline(file, line))`
builds from the lines it reads, in order. -/
def readBlock {α : Type} (readLine : List Nat → Option α) : List (List Nat) → Option (List α)
  | [] => some []
  | line :: rest =>
    match readLine line, readBlock readLine rest with
    | some item, some items => some (item :: items)
    | _, _ => none

/-- The `while (std::getline(file, line))` loop of `loadTableMeta` on the
lines that are left; every turn reads at least one line, so `fuel` at least
the number of lines is never used up. -/
def loadLoop (readFloat : List Nat → Option (Nat × List Nat)) :
    Nat → List (List Nat) → TableMeta → Option TableMeta
  | 0, _, _ => none
  | _ + 1, [], tableMeta => some tableMeta
  | fuel + 1, line :: rest, tableMeta =>
    let r := readToken { rest := line } []
    let count := readInt r.2 none
    let block := rest.take (count.1.getD 0).toNat
    let after := rest.drop (count.1.getD 0).toNat
    if r.1 = asciiBytes "TABLE" then
      loadLoop readFloat fuel rest { tableMeta with tableName := (readToken r.2 tableMeta.tableName).1 }
    else if r.1 = asciiBytes "COLUMNS" then
      match count.1, readBlock (readColumn readFloat) block with
      | some _, some cols =>
        loadLoop readFloat fuel after { tableMeta with columns := tableMeta.columns ++ cols }
      | _, _ => none
    else if r.1 = asciiBytes "PRIMARY_KEY" then
      match count.1 with
      | some n =>
        loadLoop readFloat fuel rest
          { tableMeta with primaryKey := tableMeta.primaryKey ++ (readTokens n.toNat count.2).1 }
      | none => none
    else if r.1 = asciiBytes "FOREIGN_KEYS" then
      match count.1, readBlock readForeignKey block with
      | some _, some fks =>
        loadLoop readFloat fuel after { tableMeta with foreignKeys := tableMeta.foreignKeys ++ fks }
      | _, _ => none
    else if r.1 = asciiBytes "INDEXES" then
      match count.1 with
      | some n =>
        loadLoop readFloat fuel rest
          { tableMeta with indexes := tableMeta.indexes ++ (readTokens n.toNat count.2).1 }
      | none => none
    else if r.1 = asciiBytes "EXPLICIT_INDEXES" then
      match count.1, readBlock readIndex block with
      | some _, some idxs =>
        loadLoop readFloat fuel after
          { tableMeta with explicitIndexes := tableMeta.explicitIndexes ++ idxs }
      | _, _ => none
    else if r.1 = asciiBytes "PRIMARY_KEY_COLS" then
      match count.1 with
      | some n =>
        loadLoop readFloat fuel rest
          { tableMeta with
            primaryKeyColumns := tableMeta.primaryKeyColumns ++ (readTokens n.toNat count.2).1 }
      | none => none
    else if r.1 = asciiBytes "RECORD_COUNT" then
      loadLoop readFloat fuel rest
        { tableMeta with recordCount := ((readInt r.2 (some tableMeta.recordCount)).1).getD 0 }
    else if r.1 = asciiBytes "NEXT_RECORD_ID" then
      loadLoop readFloat fuel rest
        { tableMeta with nextRecordID := ((readInt r.2 (some tableMeta.nextRecordID)).1).getD 0 }
    else loadLoop readFloat fuel rest tableMeta

/-- `loadTableMeta` on a file that opens and holds the bytes `text`: the
entry stored in `tableMetas`. -/
def loadTableMeta (readFloat : List Nat → Option (Nat × List Nat)) (text : List Nat) :
    Option TableMeta :=
  (loadLoop readFloat ((getLines [] text).length + 1) (getLines [] text) {}).map fun tableMeta =>
    if tableMeta.primaryKeyColumns.isEmpty ∧ ¬ tableMeta.primaryKey.isEmpty then
      { tableMeta with primaryKeyColumns := tableMeta.primaryKey }
    else tableMeta

/-- The entry of `tableMetas` after
`CREATE TABLE t (a VARCHAR(20) DEFAULT 'hello world')`. -/
def greetingMeta : TableMeta :=
  { tableName := asciiBytes "t",
    columns := [{ name := asciiBytes "a", type := DataType.VARCHAR, length := 20,
                  hasDefault := true,
                  defaultValue := Value.ofString (asciiBytes "hello world") }] }

end SystemManager.MetaFile

namespace RecordManager

/-! ## Page statistics and sequences of calls with updates -/

/-- The `while (true)` loop of `getStatistics` from page `pageID`, with the
totals so far. -/
def getStatisticsLoop : Nat → (Int → Page) → Int → Int → Int → Option (Int × Int)
  | 0, _, _, _, _ => none
  | fuel + 1, pages, pageID, totalRecords, totalPages =>
    let (recordCount, _, nextPage) := getPageHeader (pages pageID)
    if nextPage = -1 then some (totalRecords + recordCount, totalPages + 1)
    else getStatisticsLoop fuel pages nextPage (totalRecords + recordCount) (totalPages + 1)

/-- `getStatistics(totalRecords, totalPages)`: the two totals. -/
def getStatistics (st : Store) : Option (Int × Int) :=
  getStatisticsLoop (chainFuel st) st.pages 0 0 0

/-- The header word 1 of each of the pages `p, p + 1, ..` is the number of
records of its list that are not tombstones. -/
def Counted (pages : Int → Page) : Int → List (List Rec) → Prop
  | _, [] => True
  | p, rs :: rest =>
    toInt (pages p 1) = ((liveRecs rs).length : Int) ∧ Counted pages (p + 1) rest

/-- A call on the record store, `updateRecord` included. -/
inductive Call where
  | insert (recordID : Int) (data : List Nat)
  | delete (recordID : Int)
  | update (recordID : Int) (newData : List Nat)
deriving DecidableEq, Repr

/-- The slot id of the call is an `int`, and that of an `insertRecord` is not
zero. -/
def Call.Valid : Call → Prop
  | Call.insert recordID _ => isInt32 recordID ∧ recordID ≠ 0
  | Call.delete recordID => isInt32 recordID
  | Call.update recordID _ => isInt32 recordID

/-- Run a sequence of calls, ignoring the returned flags. -/
def runCalls : Store → List Call → Option Store
  | st, [] => some st
  | st, Call.insert recordID data :: calls => runCalls (insertRecord st recordID data).2 calls
  | st, Call.delete recordID :: calls =>
    match deleteRecord st recordID with
    | none => none
    | some r => runCalls r.2 calls
  | st, Call.update recordID newData :: calls =>
    match updateRecord st recordID newData with
    | none => none
    | some r => runCalls r.2 calls

/-- A concrete sequence of calls: two inserts, an update that moves the first
record, a delete, and an update of a slot id that is not live. -/
def exampleCalls : List Call :=
  [Call.insert 1 [10, 20], Call.insert 2 [30], Call.update 1 [11], Call.delete 2,
    Call.update 9 [1]]

end RecordManager

namespace RecordManager

/-- The store is a well-formed chain of pages, each with the number of its
records that are not tombstones in header word 1. -/
def Accounted (st : Store) : Prop := ∃ pgs, StoreRep st pgs ∧ Counted st.pages 0 pgs

end RecordManager

namespace BPlusTree

/-! ### Key order of a tree

The order property of the pages below the root: inside a leaf, and between the
keys of an internal node and the keys stored below its children. -/

/-- A call of `insert(int, const RID&)` or of `remove(int)`. -/
inductive TreeOp where
  | insert (key : Int) (rid : RID)
  | remove (key : Int)
deriving DecidableEq, Repr

/-- The key of the call is an `int`. -/
def TreeOp.InRange : TreeOp → Prop
  | TreeOp.insert key _ => BOT ≤ key ∧ key < TOP
  | TreeOp.remove key => BOT ≤ key ∧ key < TOP

instance : DecidablePred TreeOp.InRange
  | TreeOp.insert key _ => inferInstanceAs (Decidable (BOT ≤ key ∧ key < TOP))
  | TreeOp.remove key => inferInstanceAs (Decidable (BOT ≤ key ∧ key < TOP))

/-- The calls made in order, ignoring the returned flags. -/
def runTreeOps : Tree → List TreeOp → Option Tree
  | t, [] => some t
  | t, TreeOp.insert key rid :: rest =>
    match insert t key rid with
    | none => none
    | some r => runTreeOps r.2 rest
  | t, TreeOp.remove key :: rest =>
    match remove t key with
    | none => none
    | some r => runTreeOps r.2 rest

/-- Page `q` is page `p` or is reached from `p` through child pointers of
internal nodes. -/
inductive Under (t : Tree) : Int → Int → Prop where
  | here (p : Int) : Under t p p
  | down (p c q : Int) : (readNode t p).isLeaf = false → c ∈ (readNode t p).children →
      Under t c q → Under t p q

/-- Key `k` is among the `keyCount` keys of a leaf under page `p`. -/
def StoredUnder (t : Tree) (p k : Int) : Prop :=
  ∃ q, Under t p q ∧ (readNode t q).isLeaf = true ∧
    k ∈ (readNode t q).keys.take (readNode t q).keyCount.toNat

/-- The order property at page `p`: the keys of a leaf are non-decreasing; an
internal node has `keyCount` keys and one child more, every key stored under
child `i` is at most key `i`, and every key stored under child `i + 1` is at
least key `i`. -/
def NodeOrdered (t : Tree) (p : Int) : Prop :=
  if (readNode t p).isLeaf then
    ((readNode t p).keys.take (readNode t p).keyCount.toNat).Pairwise (· ≤ ·)
  else
    (readNode t p).keyCount = ((readNode t p).keys.length : Int) ∧
    (readNode t p).children.length = (readNode t p).keys.length + 1 ∧
    ∀ (i : Nat) (s c c' : Int), (readNode t p).keys.get? i = some s →
      (readNode t p).children.get? i = some c → (readNode t p).children.get? (i + 1) = some c' →
      (∀ k, StoredUnder t c k → k ≤ s) ∧ (∀ k, StoredUnder t c' k → s ≤ k)

/-- Every page of the tree, from the root down, has the order property. -/
def Ordered (t : Tree) : Prop :=
  t.rootPage ≠ -1 → ∀ p, Under t t.rootPage p → NodeOrdered t p

/-- The map `M` without `key`. -/
def unbind (M : Int → Option RID) (key : Int) : Int → Option RID :=
  fun k => if k = key then none else M k

/-- Inserts and removals that empty the root leaf and fill the tree again, with
a second insert of a key and a removal of an absent key. -/
def exampleTreeOps : List TreeOp :=
  [TreeOp.insert 5 ⟨0, 1⟩, TreeOp.insert 3 ⟨0, 2⟩, TreeOp.remove 5, TreeOp.remove 3,
   TreeOp.insert 7 ⟨0, 3⟩, TreeOp.insert 7 ⟨0, 4⟩, TreeOp.remove 9]

end BPlusTree

namespace BPlusTree

/-! ### Indexes as the operations build them -/

/-- An INT index as the index operations build it: the tree some sequence of
`insert` and `remove` calls with `int` keys leaves, starting from an empty
index. -/
def IntBuilt (t : Tree) : Prop :=
  ∃ (disk : Int → BPlusTreeNode) (keyLength : Int) (ops : List TreeOp),
    (∀ op ∈ ops, op.InRange) ∧
      runTreeOps (emptyTree disk KeyType.INT keyLength) ops = some t

/-- The number of keys a node holds in the key vector of the key type. -/
def keysHeld (keyType : KeyType) (node : BPlusTreeNode) : Nat :=
  match keyType with
  | KeyType.INT => node.keys.length
  | KeyType.FLOAT => node.floatKeys.length
  | KeyType.VARCHAR => node.strKeys.length

/-- A FLOAT or VARCHAR index as the index operations build it.  These key
types have no split, so the tree has no page yet or its root is a leaf; the
leaf holds `keyCount` keys and RIDs and fits in its page. -/
def LeafRooted (t : Tree) : Prop :=
  0 ≤ t.nodeCount ∧
    (t.rootPage = -1 ∨
      ((readNode t t.rootPage).isLeaf = true ∧
        (readNode t t.rootPage).keyCount = (keysHeld t.keyType (readNode t t.rootPage) : Int) ∧
        (readNode t t.rootPage).rids.length = keysHeld t.keyType (readNode t t.rootPage) ∧
        leafFits t.keyType (readNode t t.rootPage)))

/-- An index as the index operations build it. -/
def IndexOK (t : Tree) : Prop := if t.keyType = KeyType.INT then IntBuilt t else LeafRooted t

/-- The words the entries of the root leaf take in its page; 0 for a tree
without pages. -/
def rootWords (t : Tree) : Int :=
  if t.rootPage = -1 then 0 else leafWords t.keyType (readNode t t.rootPage)

end BPlusTree

namespace QueryExecutor.Db

open SystemManager (Database)

/-- A well-formed database: every record file is a well-formed page chain and
every open index is as the index operations build it. -/
def WellFormedDb (db : Database) : Prop :=
  (∀ e ∈ db.tables, RecordManager.WellFormed e.2) ∧
    ∀ e ∈ db.indexManager, BPlusTree.IndexOK e.2

end QueryExecutor.Db

namespace IndexManager

open BPlusTree (KeyType IndexOK rootWords)

/-- Every open index is as the index operations build it, and the leaf of
every FLOAT or VARCHAR index whose key satisfies `touched` has room for
`budget` more words. -/
def RoomFor (im : OpenIndexes) (touched : String → Prop) (budget : Int) : Prop :=
  ∀ e ∈ im, IndexOK e.2 ∧
    (e.2.keyType ≠ KeyType.INT → touched e.1 → rootWords e.2 + budget ≤ 2032)

end IndexManager

namespace SystemManager

open QueryExecutor (TableMeta DataType)

/-- A bound on the words that filling the new indexes of `addPrimaryKey` adds
to the leaf of a FLOAT or VARCHAR index: for every key column that is not an
INT column, every stored record adds at most one entry, of at most three words
and the words of the record. -/
def fillWords (tableMeta : TableMeta) (columns : List String) (records : List (Int × List Nat)) :
    Int :=
  ((columns.filter fun c =>
      decide ((QueryExecutor.Db.columnAt tableMeta (tableMeta.getColumnIndex c)).type ≠
        DataType.INT)).length : Int) *
    (records.map fun r => (r.2.length : Int) + 3).sum

end SystemManager
namespace RecordManager

/-! ## Record pages: the scan loops on a well-formed page -/

theorem toInt_toWord (i : Int) (h1 : -2147483648 ≤ i) (h2 : i < 2147483648) : toInt (toWord i) = i := by
  unfold toInt toWord
  have e : (2:Int)^32 = 4294967296 := by norm_num
  have e2 : (2:Nat)^32 = 4294967296 := by norm_num
  have e3 : (2:Nat)^31 = 2147483648 := by norm_num
  rw [e, e2, e3]
  split_ifs with h <;> omega

theorem toInt_range (w : Nat) : -2147483648 ≤ toInt w ∧ toInt w < 2147483648 := by
  unfold toInt
  have e2 : (2:Nat)^32 = 4294967296 := by norm_num
  have e3 : (2:Nat)^31 = 2147483648 := by norm_num
  have e : (2:Int)^32 = 4294967296 := by norm_num
  rw [e, e2, e3]
  split_ifs with h <;> omega

theorem Rec.size_ge (r : Rec) : 2 ≤ r.size := by unfold Rec.size; omega

theorem span_nonneg (rs : List Rec) : 0 ≤ span rs := by
  induction rs with
  | nil => simp [span]
  | cons r rs ih => have := r.size_ge; simp only [span]; omega

theorem span_ge_length (rs : List Rec) : 2 * (rs.length : Int) ≤ span rs := by
  induction rs with
  | nil => simp [span]
  | cons r rs ih => have := r.size_ge; simp only [span, List.length_cons]; push_cast; omega

theorem span_append (a b : List Rec) : span (a ++ b) = span a + span b := by
  induction a with
  | nil => simp [span]
  | cons r rs ih =>
    show span (r :: (rs ++ b)) = span (r :: rs) + span b
    rw [span, span, ih]; omega

theorem write_same (pg : Page) (i : Int) (w : Nat) : write pg i w i = w := by simp [write]

theorem write_other (pg : Page) (i j : Int) (w : Nat) (h : j ≠ i) : write pg i w j = pg j := by
  simp [write, h]

theorem writeWords_other (ws : List Nat) : ∀ (pg : Page) (pos j : Int),
    (j < pos ∨ pos + ws.length ≤ j) → writeWords pg pos ws j = pg j := by
  induction ws with
  | nil => intro pg pos j _; rfl
  | cons w ws ih =>
    intro pg pos j h
    simp only [writeWords, List.length_cons] at h ⊢
    rw [ih _ _ _ (by push_cast at h; omega), write_other _ _ _ _ (by push_cast at h; omega)]

theorem readWords_congr (pg pg' : Page) : ∀ (n : Nat) (pos : Int),
    (∀ j, pos ≤ j → j < pos + n → pg' j = pg j) → readWords pg' pos n = readWords pg pos n := by
  intro n
  induction n with
  | zero => intro pos _; rfl
  | succ n ih =>
    intro pos h
    simp only [readWords]
    rw [h pos (le_refl _) (by push_cast; omega), ih (pos + 1) (fun j h1 h2 => h j (by omega) (by push_cast; omega))]

theorem readWords_writeWords (ws : List Nat) : ∀ (pg : Page) (pos : Int),
    readWords (writeWords pg pos ws) pos ws.length = ws := by
  induction ws with
  | nil => intro pg pos; rfl
  | cons w ws ih =>
    intro pg pos
    simp only [writeWords, List.length_cons, readWords]
    rw [ih, writeWords_other _ _ _ _ (Or.inl (by omega)), write_same]

theorem Layout_congr (pg pg' : Page) : ∀ (rs : List Rec) (pos : Int),
    (∀ j, pos ≤ j → j < pos + span rs → pg' j = pg j) → Layout pg pos rs → Layout pg' pos rs := by
  intro rs
  induction rs with
  | nil => intro pos _ _; trivial
  | cons r rs ih =>
    intro pos h hl
    obtain ⟨h1, h2, h3, h4⟩ := hl
    have hsz : r.size = 2 + (r.data.length : Int) := rfl
    have hsp := span_nonneg rs
    simp only [span] at h
    refine ⟨?_, ?_, ?_, ?_⟩
    · rw [h pos (le_refl _) (by omega)]; exact h1
    · rw [h (pos + 1) (by omega) (by omega)]; exact h2
    · rw [readWords_congr pg pg' _ _ (fun j h1 h2 => h j (by omega) (by omega))]; exact h3
    · exact ih (pos + r.size) (fun j h1 h2 => h j (by omega) (by omega)) h4

theorem Layout_append (pg : Page) : ∀ (a b : List Rec) (pos : Int),
    Layout pg pos (a ++ b) ↔ Layout pg pos a ∧ Layout pg (pos + span a) b := by
  intro a
  induction a with
  | nil => intro b pos; simp [Layout, span]
  | cons r rs ih =>
    intro b pos
    show Layout pg pos (r :: (rs ++ b)) ↔ _
    rw [Layout, Layout, span, ih, show pos + r.size + span rs = pos + (r.size + span rs) by omega]
    tauto

theorem findLoop_eq (pg : Page) (id freeStart : Int) (hfs : freeStart ≤ PAGE_INT_NUM) :
    ∀ (rs : List Rec) (fuel : Nat) (pos : Int), Layout pg pos rs → pos + span rs = freeStart →
      rs.length < fuel → findRecordInPageLoop fuel pg id freeStart pos = findRec id pos rs := by
  intro rs
  induction rs with
  | nil =>
    intro fuel pos _ hs hf
    obtain ⟨f, rfl⟩ : ∃ f, fuel = f + 1 := ⟨fuel - 1, by simp at hf; omega⟩
    simp only [span] at hs
    simp [findRecordInPageLoop, findRec]
    omega
  | cons r rs ih =>
    intro fuel pos hl hs hf
    obtain ⟨f, rfl⟩ : ∃ f, fuel = f + 1 := ⟨fuel - 1, by simp at hf; omega⟩
    obtain ⟨h1, h2, _, h4⟩ := hl
    simp only [span] at hs
    have hsz := r.size_ge
    have hsp := span_nonneg rs
    have hlt : pos < freeStart := by omega
    have hnb : ¬ (r.size ≤ 0 ∨ pos + r.size > PAGE_INT_NUM) := by omega
    simp only [findRecordInPageLoop, findRec, hlt, if_true, h1, h2, hnb, if_false]
    split_ifs with hc
    · rfl
    · exact ih f (pos + r.size) h4 (by omega) (by simpa using hf)

theorem scanLoop_eq (pg : Page) (freeStart : Int) (hfs : freeStart ≤ PAGE_INT_NUM) :
    ∀ (rs : List Rec) (fuel : Nat) (pos : Int), Layout pg pos rs → pos + span rs = freeStart →
      rs.length < fuel → scanPageLoop fuel pg freeStart pos = liveRecs rs := by
  intro rs
  induction rs with
  | nil =>
    intro fuel pos _ hs hf
    obtain ⟨f, rfl⟩ : ∃ f, fuel = f + 1 := ⟨fuel - 1, by simp at hf; omega⟩
    simp only [span] at hs
    simp [scanPageLoop, liveRecs]
    omega
  | cons r rs ih =>
    intro fuel pos hl hs hf
    obtain ⟨f, rfl⟩ : ∃ f, fuel = f + 1 := ⟨fuel - 1, by simp at hf; omega⟩
    obtain ⟨h1, h2, h3, h4⟩ := hl
    simp only [span] at hs
    have hsz := r.size_ge
    have hsp := span_nonneg rs
    have hlt : pos < freeStart := by omega
    have hnb : ¬ (r.size ≤ 0 ∨ pos + r.size > PAGE_INT_NUM) := by omega
    have hlen : (r.size - RECORD_HEADER_SIZE).toNat = r.data.length := by
      simp [Rec.size, RECORD_HEADER_SIZE]
    have ih' := ih f (pos + r.size) h4 (by omega) (by simpa using hf)
    simp only [scanPageLoop, hlt, if_true, h1, h2, hnb, if_false, ih', hlen]
    rw [show pos + RECORD_HEADER_SIZE = pos + 2 from rfl, h3]
    by_cases hz : r.rid = 0
    · simp [liveRecs, hz]
    · simp [liveRecs, hz]

theorem pageRep_length (pg : Page) (rs : List Rec) (next : Int) (h : PageRep pg rs next) :
    rs.length < pageFuel := by
  have h1 := h.1
  have h2 := span_ge_length rs
  simp only [PAGE_INT_NUM] at h1
  simp only [pageFuel]
  omega

theorem findRecordInPage_eq (pg : Page) (rs : List Rec) (next id : Int) (h : PageRep pg rs next) :
    findRecordInPage pg id = findRec id 16 rs := by
  have hl := pageRep_length pg rs next h
  obtain ⟨h1, h3, _, h5⟩ := h
  unfold findRecordInPage
  have : (getPageHeader pg).2.1 = 16 + span rs := h3
  rw [this]
  exact findLoop_eq pg id _ h1 rs pageFuel 16 h5 rfl hl

theorem scanPage_eq (pg : Page) (rs : List Rec) (next : Int) (h : PageRep pg rs next) :
    scanPageLoop pageFuel pg (getPageHeader pg).2.1 PAGE_DATA_START = liveRecs rs := by
  have hl := pageRep_length pg rs next h
  obtain ⟨h1, h3, _, h5⟩ := h
  have : (getPageHeader pg).2.1 = 16 + span rs := h3
  rw [this]
  exact scanLoop_eq pg _ h1 rs pageFuel 16 h5 rfl hl

/-! ## Record pages: insertion and deletion in one page -/

theorem findRec_pos_iff (id : Int) : ∀ (rs : List Rec) (pos : Int),
    (findRec id pos rs).1 > 0 ↔ liveIn id rs := by
  intro rs
  induction rs with
  | nil => intro pos; simp [findRec, liveIn]
  | cons r rs ih =>
    intro pos
    have hsz := r.size_ge
    simp only [findRec]
    split_ifs with hc
    · simp only [liveIn, List.mem_cons]
      constructor
      · intro _; exact ⟨r, Or.inl rfl, hc⟩
      · intro _; show r.size > 0; omega
    · rw [ih]
      simp only [liveIn, List.mem_cons]
      constructor
      · rintro ⟨x, hx, h⟩; exact ⟨x, Or.inr hx, h⟩
      · rintro ⟨x, hx | hx, h⟩
        · subst hx; exact absurd h hc
        · exact ⟨x, hx, h⟩

theorem findRec_miss (id : Int) : ∀ (rs : List Rec) (pos : Int),
    ¬ liveIn id rs → findRec id pos rs = (-1, 0) := by
  intro rs
  induction rs with
  | nil => intro pos _; rfl
  | cons r rs ih =>
    intro pos h
    simp only [findRec]
    split_ifs with hc
    · exact absurd ⟨r, List.mem_cons_self _ _, hc⟩ h
    · exact ih _ (fun ⟨x, hx, hh⟩ => h ⟨x, List.mem_cons_of_mem _ hx, hh⟩)

theorem findRec_offset_ge (id : Int) : ∀ (rs : List Rec) (pos : Int),
    liveIn id rs → pos ≤ (findRec id pos rs).2 := by
  intro rs
  induction rs with
  | nil => intro pos h; obtain ⟨x, hx, _⟩ := h; simp at hx
  | cons r rs ih =>
    intro pos h
    have hsz := r.size_ge
    simp only [findRec]
    split_ifs with hc
    · exact le_refl _
    · have : liveIn id rs := by
        obtain ⟨x, hx, hh⟩ := h
        rcases List.mem_cons.1 hx with hx | hx
        · subst hx; exact absurd hh hc
        · exact ⟨x, hx, hh⟩
      have := ih (pos + r.size) this
      omega

theorem span_tombstone (id : Int) (rs : List Rec) : span (tombstone id rs) = span rs := by
  induction rs with
  | nil => rfl
  | cons r rs ih =>
    simp only [tombstone]
    split_ifs with hc
    · simp [span, Rec.size]
    · simp [span, ih]

theorem toInt_zero : toInt 0 = 0 := by decide

theorem Layout_tombstone (id : Int) : ∀ (rs : List Rec) (pg : Page) (pos : Int),
    Layout pg pos rs → liveIn id rs →
      Layout (write pg ((findRec id pos rs).2 + 1) 0) pos (tombstone id rs) := by
  intro rs
  induction rs with
  | nil => intro pg pos _ h; obtain ⟨x, hx, _⟩ := h; simp at hx
  | cons r rs ih =>
    intro pg pos hl h
    have hsz : r.size = 2 + (r.data.length : Int) := rfl
    obtain ⟨h1, h2, h3, h4⟩ := hl
    simp only [findRec, tombstone]
    split_ifs with hc
    · refine ⟨?_, ?_, ?_, ?_⟩
      · rw [write_other _ _ _ _ (by omega)]; exact h1
      · rw [write_same]; exact toInt_zero
      · show readWords _ _ r.data.length = r.data
        rw [readWords_congr pg _ _ _ (fun j h1 _ => write_other _ _ _ _ (by omega))]; exact h3
      · show Layout _ (pos + r.size) rs
        exact Layout_congr pg _ rs _ (fun j h1 _ => write_other _ _ _ _ (by omega)) h4
    · have hlive : liveIn id rs := by
        obtain ⟨x, hx, hh⟩ := h
        rcases List.mem_cons.1 hx with hx | hx
        · subst hx; exact absurd hh hc
        · exact ⟨x, hx, hh⟩
      have hge := findRec_offset_ge id rs (pos + r.size) hlive
      refine ⟨?_, ?_, ?_, ih pg (pos + r.size) h4 hlive⟩
      · rw [write_other _ _ _ _ (by omega)]; exact h1
      · rw [write_other _ _ _ _ (by omega)]; exact h2
      · rw [readWords_congr pg _ _ _ (fun j _ h2 => write_other _ _ _ _ (by omega))]; exact h3

theorem findRec_offset_lt (id : Int) : ∀ (rs : List Rec) (pos : Int),
    liveIn id rs → (findRec id pos rs).2 + 2 ≤ pos + span rs := by
  intro rs
  induction rs with
  | nil => intro pos h; obtain ⟨x, hx, _⟩ := h; simp at hx
  | cons r rs ih =>
    intro pos h
    have hsz := r.size_ge
    have hsp := span_nonneg rs
    simp only [findRec, span]
    split_ifs with hc
    · show pos + 2 ≤ _; omega
    · have : liveIn id rs := by
        obtain ⟨x, hx, hh⟩ := h
        rcases List.mem_cons.1 hx with hx | hx
        · subst hx; exact absurd hh hc
        · exact ⟨x, hx, hh⟩
      have := ih (pos + r.size) this
      omega

theorem setPageHeader_other (pg : Page) (a b c j : Int) (h : 16 ≤ j) :
    setPageHeader pg a b c j = pg j := by
  simp only [setPageHeader, PAGE_RECORD_COUNT_OFFSET, PAGE_FREE_START_OFFSET, PAGE_NEXT_PAGE_OFFSET]
  rw [write_other _ _ _ _ (by omega), write_other _ _ _ _ (by omega), write_other _ _ _ _ (by omega)]

theorem setPageHeader_two (pg : Page) (a b c : Int) : setPageHeader pg a b c 2 = toWord b := by
  simp [setPageHeader, write, PAGE_RECORD_COUNT_OFFSET, PAGE_FREE_START_OFFSET, PAGE_NEXT_PAGE_OFFSET]

theorem setPageHeader_three (pg : Page) (a b c : Int) : setPageHeader pg a b c 3 = toWord c := by
  simp [setPageHeader, write, PAGE_RECORD_COUNT_OFFSET, PAGE_FREE_START_OFFSET, PAGE_NEXT_PAGE_OFFSET]

theorem toInt_toWord_toInt (w : Nat) : toInt (toWord (toInt w)) = toInt w :=
  toInt_toWord _ (toInt_range w).1 (toInt_range w).2

theorem deleteRecordInPage_miss (pg : Page) (rs : List Rec) (next id : Int)
    (h : PageRep pg rs next) (hn : ¬ liveIn id rs) : deleteRecordInPage pg id = (false, pg) := by
  unfold deleteRecordInPage
  rw [findRecordInPage_eq pg rs next id h, findRec_miss id rs 16 hn]
  simp

theorem deleteRecordInPage_hit (pg : Page) (rs : List Rec) (next id : Int)
    (h : PageRep pg rs next) (hl : liveIn id rs) :
    (deleteRecordInPage pg id).1 = true ∧ PageRep (deleteRecordInPage pg id).2 (tombstone id rs) next := by
  have hpos := (findRec_pos_iff id rs 16).2 hl
  have hge := findRec_offset_ge id rs 16 hl
  have hlt := findRec_offset_lt id rs 16 hl
  have hfind := findRecordInPage_eq pg rs next id h
  obtain ⟨h1, h2, h3, h4⟩ := h
  have hnle : ¬ (findRec id 16 rs).1 ≤ 0 := by omega
  unfold deleteRecordInPage
  rw [hfind]
  simp only [hnle, if_false, true_and]
  refine ⟨by rw [span_tombstone]; exact h1, ?_, ?_, ?_⟩
  · rw [setPageHeader_two, span_tombstone]
    show toInt (toWord (toInt (pg 2))) = _
    rw [toInt_toWord_toInt]; exact h2
  · rw [setPageHeader_three]
    show toInt (toWord (toInt (pg 3))) = _
    rw [toInt_toWord_toInt]; exact h3
  · refine Layout_congr _ _ _ _ (fun j hj _ => setPageHeader_other _ _ _ _ j hj) ?_
    exact Layout_tombstone id rs pg 16 h4 hl

theorem insertRecordInPage_dup (pg : Page) (rs : List Rec) (next id : Int) (data : List Nat)
    (h : PageRep pg rs next) (hl : liveIn id rs) : insertRecordInPage pg id data = (false, pg) := by
  unfold insertRecordInPage
  rw [findRecordInPage_eq pg rs next id h, if_pos ((findRec_pos_iff id rs 16).2 hl)]

theorem insertRecordInPage_full (pg : Page) (rs : List Rec) (next id : Int) (data : List Nat)
    (h : PageRep pg rs next) (hf : 16 + span rs + (2 + (data.length : Int)) > PAGE_INT_NUM) :
    insertRecordInPage pg id data = (false, pg) := by
  unfold insertRecordInPage
  split_ifs with hc
  · rfl
  · have h2 : toInt (pg 2) = 16 + span rs := h.2.1
    simp only [findFreeSpace, getPageHeader, PAGE_FREE_START_OFFSET, RECORD_HEADER_SIZE, h2, hf,
      if_true]

theorem insertRecordInPage_ok (pg : Page) (rs : List Rec) (next id : Int) (data : List Nat)
    (h : PageRep pg rs next) (hn : ¬ liveIn id rs) (hid : isInt32 id)
    (hf : 16 + span rs + (2 + (data.length : Int)) ≤ PAGE_INT_NUM) :
    (insertRecordInPage pg id data).1 = true ∧
      PageRep (insertRecordInPage pg id data).2 (rs ++ [⟨id, data⟩]) next := by
  have hfind := findRecordInPage_eq pg rs next id h
  obtain ⟨h1, h2, h3, h4⟩ := h
  have hnpos : ¬ (findRec id 16 rs).1 > 0 := fun hh => hn ((findRec_pos_iff id rs 16).1 hh)
  have hsp := span_nonneg rs
  have hP : PAGE_INT_NUM = 2048 := rfl
  have hnf : ¬ (16 + span rs + (2 + (data.length : Int)) > PAGE_INT_NUM) := by omega
  have hne : ¬ (16 + span rs = -1) := by omega
  unfold insertRecordInPage
  rw [hfind, if_neg hnpos]
  simp only [findFreeSpace, getPageHeader, PAGE_FREE_START_OFFSET, RECORD_HEADER_SIZE,
    PAGE_NEXT_PAGE_OFFSET, PAGE_RECORD_COUNT_OFFSET, h2, hnf, if_false, hne, true_and]
  have hspan : span (rs ++ [(⟨id, data⟩ : Rec)]) = span rs + (2 + (data.length : Int)) := by
    rw [span_append]; simp [span, Rec.size]
  refine ⟨by rw [hspan]; omega, ?_, ?_, ?_⟩
  · rw [setPageHeader_two, hspan, toInt_toWord _ (by omega) (by omega)]; omega
  · rw [setPageHeader_three, toInt_toWord_toInt]; exact h3
  · refine Layout_congr _ _ _ _ (fun j hj _ => setPageHeader_other _ _ _ _ j hj) ?_
    rw [Layout_append]
    constructor
    · refine Layout_congr pg _ _ _ (fun j hj1 hj2 => ?_) h4
      rw [writeWords_other _ _ _ _ (Or.inl (by omega)), write_other _ _ _ _ (by omega),
        write_other _ _ _ _ (by omega)]
    · refine ⟨?_, ?_, ?_, trivial⟩
      · rw [writeWords_other _ _ _ _ (Or.inl (by omega)), write_other _ _ _ _ (by omega),
          write_same]
        exact toInt_toWord _ (by omega) (by omega)
      · rw [writeWords_other _ _ _ _ (Or.inl (by omega)), write_same]
        exact toInt_toWord _ hid.1 hid.2
      · exact readWords_writeWords data _ _

/-! ## Lists of live records -/

theorem liveIn_cons (id : Int) (r : Rec) (rs : List Rec) :
    liveIn id (r :: rs) ↔ (r.rid = id ∧ r.rid ≠ 0) ∨ liveIn id rs := by
  simp only [liveIn, List.mem_cons]
  constructor
  · rintro ⟨x, hx | hx, h⟩
    · subst hx; exact Or.inl h
    · exact Or.inr ⟨x, hx, h⟩
  · rintro (h | ⟨x, hx, h⟩)
    · exact ⟨r, Or.inl rfl, h⟩
    · exact ⟨x, Or.inr hx, h⟩

theorem liveRecs_cons_dead (r : Rec) (rs : List Rec) (h : r.rid = 0) :
    liveRecs (r :: rs) = liveRecs rs := by
  simp [liveRecs, h]

theorem liveRecs_cons_live (r : Rec) (rs : List Rec) (h : r.rid ≠ 0) :
    liveRecs (r :: rs) = (r.rid, r.data) :: liveRecs rs := by
  simp [liveRecs, h]

theorem lookupLive_isSome_iff (id : Int) (rs : List Rec) :
    (lookupLive id (liveRecs rs)).isSome = true ↔ liveIn id rs := by
  induction rs with
  | nil => simp [liveRecs, lookupLive, liveIn]
  | cons r rs ih =>
    rw [liveIn_cons]
    by_cases h0 : r.rid = 0
    · rw [liveRecs_cons_dead r rs h0, ih]
      constructor
      · exact Or.inr
      · rintro (h | h)
        · exact absurd h0 h.2
        · exact h
    · rw [liveRecs_cons_live r rs h0]
      by_cases hid : r.rid = id
      · simp only [lookupLive, hid, if_true, Option.isSome_some, true_iff]
        exact Or.inl ⟨trivial, hid ▸ h0⟩
      · simp only [lookupLive, hid, if_false, ih]
        constructor
        · exact Or.inr
        · rintro (h | h)
          · exact h.1.elim
          · exact h

theorem lookupLive_append_some (id : Int) (a b : List (Int × List Nat)) (d : List Nat)
    (h : lookupLive id a = some d) : lookupLive id (a ++ b) = some d := by
  induction a with
  | nil => simp [lookupLive] at h
  | cons x a ih =>
    obtain ⟨i, e⟩ := x
    show lookupLive id ((i, e) :: (a ++ b)) = some d
    by_cases hi : i = id
    · simpa [lookupLive, hi] using h
    · simp only [lookupLive, hi, if_false] at h ⊢
      exact ih h

theorem lookupLive_append_none (id : Int) (a b : List (Int × List Nat))
    (h : lookupLive id a = none) : lookupLive id (a ++ b) = lookupLive id b := by
  induction a with
  | nil => rfl
  | cons x a ih =>
    obtain ⟨i, e⟩ := x
    show lookupLive id ((i, e) :: (a ++ b)) = _
    by_cases hi : i = id
    · simp [lookupLive, hi] at h
    · simp only [lookupLive, hi, if_false] at h ⊢
      exact ih h

theorem eraseLive_append_some (id : Int) (a b : List (Int × List Nat)) (d : List Nat)
    (h : lookupLive id a = some d) : eraseLive id (a ++ b) = eraseLive id a ++ b := by
  induction a with
  | nil => simp [lookupLive] at h
  | cons x a ih =>
    obtain ⟨i, e⟩ := x
    show eraseLive id ((i, e) :: (a ++ b)) = _
    by_cases hi : i = id
    · simp [eraseLive, hi]
    · simp only [lookupLive, hi, if_false] at h
      simp only [eraseLive, hi, if_false, ih h, List.cons_append]

theorem eraseLive_append_none (id : Int) (a b : List (Int × List Nat))
    (h : lookupLive id a = none) : eraseLive id (a ++ b) = a ++ eraseLive id b := by
  induction a with
  | nil => rfl
  | cons x a ih =>
    obtain ⟨i, e⟩ := x
    show eraseLive id ((i, e) :: (a ++ b)) = _
    by_cases hi : i = id
    · simp [lookupLive, hi] at h
    · simp only [lookupLive, hi, if_false] at h
      simp only [eraseLive, hi, if_false, ih h, List.cons_append]

theorem eraseLive_none (id : Int) (a : List (Int × List Nat))
    (h : lookupLive id a = none) : eraseLive id a = a := by
  have := eraseLive_append_none id a [] h
  simpa [eraseLive] using this

theorem tombstone_miss (id : Int) (rs : List Rec) (h : ¬ liveIn id rs) : tombstone id rs = rs := by
  induction rs with
  | nil => rfl
  | cons r rs ih =>
    rw [liveIn_cons] at h
    simp only [tombstone]
    rw [if_neg (fun hc => h (Or.inl hc)), ih (fun hc => h (Or.inr hc))]

theorem liveRecs_tombstone (id : Int) (rs : List Rec) :
    liveRecs (tombstone id rs) = eraseLive id (liveRecs rs) := by
  induction rs with
  | nil => rfl
  | cons r rs ih =>
    simp only [tombstone]
    by_cases hc : r.rid = id ∧ r.rid ≠ 0
    · rw [if_pos hc, liveRecs_cons_dead _ rs rfl, liveRecs_cons_live r rs hc.2]
      simp [eraseLive, hc.1]
    · rw [if_neg hc]
      by_cases h0 : r.rid = 0
      · rw [liveRecs_cons_dead r _ h0, liveRecs_cons_dead r _ h0, ih]
      · have : r.rid ≠ id := fun h => hc ⟨h, h0⟩
        rw [liveRecs_cons_live r _ h0, liveRecs_cons_live r _ h0, ih]
        simp [eraseLive, this]

theorem readWords_take (pg : Page) : ∀ (n : Nat) (pos : Int) (k : Nat), k ≤ n →
    readWords pg pos k = (readWords pg pos n).take k := by
  intro n
  induction n with
  | zero =>
    intro pos k hk
    have : k = 0 := by omega
    subst this; rfl
  | succ n ih =>
    intro pos k hk
    cases k with
    | zero => rfl
    | succ k => simp only [readWords, List.take_succ_cons]; rw [ih (pos + 1) k (by omega)]

theorem findRec_data (id : Int) : ∀ (rs : List Rec) (pg : Page) (pos : Int),
    Layout pg pos rs → liveIn id rs →
      ∃ d, lookupLive id (liveRecs rs) = some d ∧ (findRec id pos rs).1 = 2 + (d.length : Int) ∧
        ∀ k, k ≤ d.length → readWords pg ((findRec id pos rs).2 + 2) k = d.take k := by
  intro rs
  induction rs with
  | nil => intro pg pos _ h; obtain ⟨x, hx, _⟩ := h; simp at hx
  | cons r rs ih =>
    intro pg pos hl h
    obtain ⟨h1, h2, h3, h4⟩ := hl
    simp only [findRec]
    by_cases hc : r.rid = id ∧ r.rid ≠ 0
    · rw [if_pos hc, liveRecs_cons_live r rs hc.2]
      refine ⟨r.data, by simp [lookupLive, hc.1], rfl, fun k hk => ?_⟩
      show readWords pg (pos + 2) k = _
      rw [readWords_take pg _ _ k hk, h3]
    · rw [if_neg hc]
      have hlive : liveIn id rs := by
        rcases (liveIn_cons id r rs).1 h with h | h
        · exact absurd h hc
        · exact h
      obtain ⟨d, hd1, hd2, hd3⟩ := ih pg (pos + r.size) h4 hlive
      refine ⟨d, ?_, hd2, hd3⟩
      by_cases h0 : r.rid = 0
      · rw [liveRecs_cons_dead r rs h0]; exact hd1
      · have : r.rid ≠ id := fun h => hc ⟨h, h0⟩
        rw [liveRecs_cons_live r rs h0]
        simp [lookupLive, this, hd1]

theorem lookupLive_none_of_not_liveIn (id : Int) (rs : List Rec) (h : ¬ liveIn id rs) :
    lookupLive id (liveRecs rs) = none := by
  have := (lookupLive_isSome_iff id rs).not.2 h
  cases hh : lookupLive id (liveRecs rs) with
  | none => rfl
  | some d => rw [hh] at this; simp at this

/-! ## The page chain: scan and delete -/

theorem ChainRep_single (pages : Int → Page) (p : Int) (rs : List Rec) :
    ChainRep pages p [rs] ↔ PageRep (pages p) rs (-1) := by
  simp [ChainRep]

theorem ChainRep_cons2 (pages : Int → Page) (p : Int) (rs r2 : List Rec) (rest : List (List Rec)) :
    ChainRep pages p (rs :: r2 :: rest) ↔
      PageRep (pages p) rs (p + 1) ∧ ChainRep pages (p + 1) (r2 :: rest) := by
  simp [ChainRep]

theorem ChainRep_congr (pages pages' : Int → Page) : ∀ (pgs : List (List Rec)) (p : Int),
    (∀ q, p ≤ q → pages' q = pages q) → ChainRep pages p pgs → ChainRep pages' p pgs := by
  intro pgs
  induction pgs with
  | nil => intro p _ h; exact h
  | cons rs rest ih =>
    intro p hq h
    cases rest with
    | nil =>
      rw [ChainRep_single] at h ⊢
      rw [hq p (le_refl _)]; exact h
    | cons r2 rest =>
      rw [ChainRep_cons2] at h ⊢
      rw [hq p (le_refl _)]
      exact ⟨h.1, ih (p + 1) (fun q hq' => hq q (by omega)) h.2⟩

theorem setPage_same (pages : Int → Page) (p : Int) (pg : Page) : setPage pages p pg p = pg := by
  simp [setPage]

theorem setPage_other (pages : Int → Page) (p q : Int) (pg : Page) (h : q ≠ p) :
    setPage pages p pg q = pages q := by
  simp [setPage, h]

theorem getAllRecordsDirectLoop_eq (pages : Int → Page) : ∀ (pgs : List (List Rec)) (fuel : Nat)
    (p : Int), 0 ≤ p → ChainRep pages p pgs → pgs.length ≤ fuel →
      getAllRecordsDirectLoop fuel pages p = some (allLive pgs) := by
  intro pgs
  induction pgs with
  | nil => intro fuel p _ h; exact h.elim
  | cons rs rest ih =>
    intro fuel p hp h hf
    obtain ⟨f, rfl⟩ : ∃ f, fuel = f + 1 := ⟨fuel - 1, by simp at hf; omega⟩
    cases rest with
    | nil =>
      rw [ChainRep_single] at h
      have hscan := scanPage_eq _ _ _ h
      have hnext : (getPageHeader (pages p)).2.2 = -1 := h.2.2.1
      simp only [getAllRecordsDirectLoop, hscan, hnext, if_true, allLive, List.append_nil]
    | cons r2 rest =>
      rw [ChainRep_cons2] at h
      have hscan := scanPage_eq _ _ _ h.1
      have hnext : (getPageHeader (pages p)).2.2 = p + 1 := h.1.2.2.1
      have hne : ¬ (p + 1 = -1) := by omega
      have := ih f (p + 1) (by omega) h.2 (by simpa using hf)
      simp only [getAllRecordsDirectLoop, hscan, hnext, hne, if_false, this, Option.map_some']
      rfl

theorem tombstoneChain_cons_hit (id : Int) (rs : List Rec) (rest : List (List Rec))
    (h : liveIn id rs) : tombstoneChain id (rs :: rest) = tombstone id rs :: rest := by
  simp only [tombstoneChain]
  rw [if_pos ((findRec_pos_iff id rs 16).2 h)]

theorem tombstoneChain_cons_miss (id : Int) (rs : List Rec) (rest : List (List Rec))
    (h : ¬ liveIn id rs) : tombstoneChain id (rs :: rest) = rs :: tombstoneChain id rest := by
  simp only [tombstoneChain]
  rw [if_neg (fun hh => h ((findRec_pos_iff id rs 16).1 hh))]

theorem lookupLive_liveRecs_cases (id : Int) (rs : List Rec) :
    (liveIn id rs ∧ ∃ d, lookupLive id (liveRecs rs) = some d) ∨
      (¬ liveIn id rs ∧ lookupLive id (liveRecs rs) = none) := by
  by_cases h : liveIn id rs
  · left
    refine ⟨h, ?_⟩
    have := (lookupLive_isSome_iff id rs).2 h
    cases hh : lookupLive id (liveRecs rs) with
    | none => rw [hh] at this; simp at this
    | some d => exact ⟨d, rfl⟩
  · exact Or.inr ⟨h, lookupLive_none_of_not_liveIn id rs h⟩

theorem allLive_tombstoneChain (id : Int) (pgs : List (List Rec)) :
    allLive (tombstoneChain id pgs) = eraseLive id (allLive pgs) := by
  induction pgs with
  | nil => rfl
  | cons rs rest ih =>
    rcases lookupLive_liveRecs_cases id rs with ⟨h, d, hd⟩ | ⟨h, hd⟩
    · rw [tombstoneChain_cons_hit id rs rest h]
      simp only [allLive]
      rw [eraseLive_append_some id _ _ d hd, liveRecs_tombstone]
    · rw [tombstoneChain_cons_miss id rs rest h]
      simp only [allLive]
      rw [eraseLive_append_none id _ _ hd, ih]

theorem tombstoneChain_length (id : Int) (pgs : List (List Rec)) :
    (tombstoneChain id pgs).length = pgs.length := by
  induction pgs with
  | nil => rfl
  | cons rs rest ih =>
    simp only [tombstoneChain]
    split_ifs <;> simp [ih]

theorem deleteRecordLoop_eq (id : Int) : ∀ (pgs : List (List Rec)) (pages : Int → Page)
    (fuel : Nat) (p : Int), 0 ≤ p → ChainRep pages p pgs → pgs.length ≤ fuel →
      ∃ pages', deleteRecordLoop fuel pages id p =
          some ((lookupLive id (allLive pgs)).isSome, pages') ∧
        ChainRep pages' p (tombstoneChain id pgs) ∧ (∀ q, q < p → pages' q = pages q) ∧
        (lookupLive id (allLive pgs) = none → pages' = pages) := by
  intro pgs
  induction pgs with
  | nil => intro pages fuel p _ h; exact h.elim
  | cons rs rest ih =>
    intro pages fuel p hp h hf
    obtain ⟨f, rfl⟩ : ∃ f, fuel = f + 1 := ⟨fuel - 1, by simp at hf; omega⟩
    have hpr : ∃ next, PageRep (pages p) rs next := by
      cases rest with
      | nil => exact ⟨_, (ChainRep_single _ _ _).1 h⟩
      | cons r2 rest => exact ⟨_, ((ChainRep_cons2 _ _ _ _ _).1 h).1⟩
    obtain ⟨next, hpr⟩ := hpr
    rcases lookupLive_liveRecs_cases id rs with ⟨hl, d, hd⟩ | ⟨hl, hd⟩
    · -- found on this page
      obtain ⟨hr1, hr2⟩ := deleteRecordInPage_hit _ _ _ id hpr hl
      refine ⟨setPage pages p (deleteRecordInPage (pages p) id).2, ?_, ?_, ?_, ?_⟩
      · simp only [deleteRecordLoop, hr1, if_true, allLive]
        rw [lookupLive_append_some id _ _ d hd]; rfl
      · rw [tombstoneChain_cons_hit id rs rest hl]
        cases rest with
        | nil =>
          rw [ChainRep_single] at h ⊢
          rw [setPage_same]
          have : next = -1 := by rw [← hpr.2.2.1, ← h.2.2.1]
          rw [← this]; exact hr2
        | cons r2 rest =>
          rw [ChainRep_cons2] at h ⊢
          rw [setPage_same]
          have : next = p + 1 := by rw [← hpr.2.2.1, ← h.1.2.2.1]
          subst this
          exact ⟨hr2, ChainRep_congr pages _ _ _ (fun q hq => setPage_other _ _ _ _ (by omega)) h.2⟩
      · intro q hq; exact setPage_other _ _ _ _ (by omega)
      · intro hn
        simp only [allLive] at hn
        rw [lookupLive_append_some id _ _ d hd] at hn
        exact absurd hn (by simp)
    · -- not on this page
      have hmiss := deleteRecordInPage_miss _ _ _ id hpr hl
      cases rest with
      | nil =>
        rw [ChainRep_single] at h
        have hnext : (getPageHeader (pages p)).2.2 = -1 := h.2.2.1
        refine ⟨pages, ?_, ?_, fun _ _ => rfl, fun _ => rfl⟩
        · simp only [deleteRecordLoop, hmiss, hnext, if_true, allLive, List.append_nil, hd]
          simp
        · rw [tombstoneChain_cons_miss id rs [] hl]
          simp only [tombstoneChain]
          rw [ChainRep_single]; exact h
      | cons r2 rest =>
        rw [ChainRep_cons2] at h
        have hnext : (getPageHeader (pages p)).2.2 = p + 1 := h.1.2.2.1
        have hne : ¬ (p + 1 = -1) := by omega
        obtain ⟨pages', h1, h2, h3, h4⟩ := ih pages f (p + 1) (by omega) h.2 (by simpa using hf)
        refine ⟨pages', ?_, ?_, fun q hq => h3 q (by omega), ?_⟩
        · simp only [deleteRecordLoop, hmiss, hnext, hne, if_false, h1, allLive]
          rw [lookupLive_append_none id _ _ hd]
          simp
        · rw [tombstoneChain_cons_miss id rs _ hl]
          have hlen := tombstoneChain_length id (r2 :: rest)
          cases htc : tombstoneChain id (r2 :: rest) with
          | nil => rw [htc] at hlen; simp at hlen
          | cons t1 trest =>
            rw [ChainRep_cons2, h3 p (by omega)]
            rw [htc] at h2
            exact ⟨h.1, h2⟩
        · intro hn
          simp only [allLive] at hn
          rw [lookupLive_append_none id _ _ hd] at hn
          exact h4 hn

/-! ## The page chain: lookup -/

theorem recordExistsLoop_eq (id : Int) (pages : Int → Page) : ∀ (pgs : List (List Rec))
    (fuel : Nat) (p : Int), 0 ≤ p → ChainRep pages p pgs → pgs.length ≤ fuel →
      recordExistsLoop fuel pages id p = some (lookupLive id (allLive pgs)).isSome := by
  intro pgs
  induction pgs with
  | nil => intro fuel p _ h; exact h.elim
  | cons rs rest ih =>
    intro fuel p hp h hf
    obtain ⟨f, rfl⟩ : ∃ f, fuel = f + 1 := ⟨fuel - 1, by simp at hf; omega⟩
    have hpr : ∃ next, PageRep (pages p) rs next := by
      cases rest with
      | nil => exact ⟨_, (ChainRep_single _ _ _).1 h⟩
      | cons r2 rest => exact ⟨_, ((ChainRep_cons2 _ _ _ _ _).1 h).1⟩
    obtain ⟨next, hpr⟩ := hpr
    have hfind := findRecordInPage_eq _ _ _ id hpr
    rcases lookupLive_liveRecs_cases id rs with ⟨hl, d, hd⟩ | ⟨hl, hd⟩
    · have hpos := (findRec_pos_iff id rs 16).2 hl
      simp only [recordExistsLoop, hfind, hpos, if_true, allLive]
      rw [lookupLive_append_some id _ _ d hd]; rfl
    · have hpos : ¬ (findRec id 16 rs).1 > 0 := fun hh => hl ((findRec_pos_iff id rs 16).1 hh)
      cases rest with
      | nil =>
        rw [ChainRep_single] at h
        have hnext : (getPageHeader (pages p)).2.2 = -1 := h.2.2.1
        simp only [recordExistsLoop, hfind, hpos, if_false, hnext, if_true, allLive,
          List.append_nil, hd]
        rfl
      | cons r2 rest =>
        rw [ChainRep_cons2] at h
        have hnext : (getPageHeader (pages p)).2.2 = p + 1 := h.1.2.2.1
        have hne : ¬ (p + 1 = -1) := by omega
        simp only [recordExistsLoop, hfind, hpos, if_false, hnext, hne, allLive]
        rw [lookupLive_append_none id _ _ hd]
        exact ih f (p + 1) (by omega) h.2 (by simpa using hf)

theorem getRecordLoop_eq (id maxLen : Int) (pages : Int → Page) : ∀ (pgs : List (List Rec))
    (fuel : Nat) (p : Int), 0 ≤ p → ChainRep pages p pgs → pgs.length ≤ fuel →
      getRecordLoop fuel pages id maxLen p =
        some (getRecordResult maxLen (lookupLive id (allLive pgs))) := by
  intro pgs
  induction pgs with
  | nil => intro fuel p _ h; exact h.elim
  | cons rs rest ih =>
    intro fuel p hp h hf
    obtain ⟨f, rfl⟩ : ∃ f, fuel = f + 1 := ⟨fuel - 1, by simp at hf; omega⟩
    have hpr : ∃ next, PageRep (pages p) rs next := by
      cases rest with
      | nil => exact ⟨_, (ChainRep_single _ _ _).1 h⟩
      | cons r2 rest => exact ⟨_, ((ChainRep_cons2 _ _ _ _ _).1 h).1⟩
    obtain ⟨next, hpr⟩ := hpr
    have hfind := findRecordInPage_eq _ _ _ id hpr
    rcases lookupLive_liveRecs_cases id rs with ⟨hl, -, -⟩ | ⟨hl, hd⟩
    · have hpos := (findRec_pos_iff id rs 16).2 hl
      obtain ⟨d, hd1, hd2, hd3⟩ := findRec_data id rs (pages p) 16 hpr.2.2.2 hl
      simp only [getRecordLoop, hfind, hpos, if_true, allLive]
      rw [lookupLive_append_some id _ _ d hd1]
      simp only [getRecordResult, hd2, RECORD_HEADER_SIZE]
      have e : (2 : Int) + (d.length : Int) - 2 = d.length := by omega
      rw [e]
      congr 2
      apply hd3
      split_ifs with hc
      · simp
      · omega
    · have hpos : ¬ (findRec id 16 rs).1 > 0 := fun hh => hl ((findRec_pos_iff id rs 16).1 hh)
      cases rest with
      | nil =>
        rw [ChainRep_single] at h
        have hnext : (getPageHeader (pages p)).2.2 = -1 := h.2.2.1
        simp only [getRecordLoop, hfind, hpos, if_false, hnext, if_true, allLive,
          List.append_nil, hd]
        rfl
      | cons r2 rest =>
        rw [ChainRep_cons2] at h
        have hnext : (getPageHeader (pages p)).2.2 = p + 1 := h.1.2.2.1
        have hne : ¬ (p + 1 = -1) := by omega
        simp only [getRecordLoop, hfind, hpos, if_false, hnext, hne, allLive]
        rw [lookupLive_append_none id _ _ hd]
        exact ih f (p + 1) (by omega) h.2 (by simpa using hf)

/-! ## The page chain: insertion at the tail -/

theorem Linked_congr (pages pages' : Int → Page) : ∀ (init : List (List Rec)) (p : Int),
    (∀ q, p ≤ q → q < p + init.length → pages' q = pages q) → Linked pages p init →
      Linked pages' p init := by
  intro init
  induction init with
  | nil => intro p _ _; trivial
  | cons rs rest ih =>
    intro p hq h
    simp only [List.length_cons] at hq
    refine ⟨?_, ih (p + 1) (fun q h1 h2 => hq q (by omega) (by push_cast; omega)) h.2⟩
    rw [hq p (le_refl _) (by push_cast; omega)]; exact h.1

theorem ChainRep_snoc (pages : Int → Page) : ∀ (init : List (List Rec)) (last : List Rec) (p : Int),
    ChainRep pages p (init ++ [last]) ↔
      Linked pages p init ∧ PageRep (pages (p + init.length)) last (-1) := by
  intro init
  induction init with
  | nil => intro last p; simp [ChainRep, Linked]
  | cons rs rest ih =>
    intro last p
    have hne : rest ++ [last] ≠ [] := by simp
    obtain ⟨r2, rest', hr⟩ := List.exists_cons_of_ne_nil hne
    show ChainRep pages p (rs :: (rest ++ [last])) ↔ _
    rw [hr, ChainRep_cons2, ← hr, ih]
    simp only [Linked, List.length_cons]
    rw [show p + 1 + (rest.length : Int) = p + ((rest.length + 1 : Nat) : Int) by push_cast; omega]
    tauto

theorem Linked_snoc (pages : Int → Page) : ∀ (init : List (List Rec)) (x : List Rec) (p : Int),
    Linked pages p (init ++ [x]) ↔
      Linked pages p init ∧ PageRep (pages (p + init.length)) x (p + init.length + 1) := by
  intro init
  induction init with
  | nil => intro x p; simp [Linked]
  | cons rs rest ih =>
    intro x p
    show Linked pages p (rs :: (rest ++ [x])) ↔ _
    simp only [Linked, ih, List.length_cons]
    rw [show p + 1 + (rest.length : Int) = p + ((rest.length + 1 : Nat) : Int) by push_cast; omega]
    tauto

theorem allLive_append (a b : List (List Rec)) : allLive (a ++ b) = allLive a ++ allLive b := by
  induction a with
  | nil => rfl
  | cons rs rest ih =>
    show allLive (rs :: (rest ++ b)) = _
    simp only [allLive, ih, List.append_assoc]

theorem PageRep_setNext (pg : Page) (rs : List Rec) (n n' : Int) (h : PageRep pg rs n)
    (hn : isInt32 n') :
    PageRep (setPageHeader pg (getPageHeader pg).1 (getPageHeader pg).2.1 n') rs n' := by
  obtain ⟨h1, h2, _, h4⟩ := h
  refine ⟨h1, ?_, ?_, ?_⟩
  · rw [setPageHeader_two]
    show toInt (toWord (toInt (pg 2))) = _
    rw [toInt_toWord_toInt]; exact h2
  · rw [setPageHeader_three]; exact toInt_toWord _ hn.1 hn.2
  · exact Layout_congr _ _ _ _ (fun j hj _ => setPageHeader_other _ _ _ _ j hj) h4

theorem initPage_two (pg : Page) : initPage pg 2 = toWord 16 := by
  simp [initPage, write, PAGE_TYPE_OFFSET, PAGE_RECORD_COUNT_OFFSET,
    PAGE_FREE_START_OFFSET, PAGE_NEXT_PAGE_OFFSET, PAGE_DATA_START, PAGE_HEADER_SIZE]

theorem initPage_three (pg : Page) : initPage pg 3 = toWord (-1) := by
  simp [initPage, write, PAGE_TYPE_OFFSET, PAGE_RECORD_COUNT_OFFSET,
    PAGE_FREE_START_OFFSET, PAGE_NEXT_PAGE_OFFSET, PAGE_DATA_START, PAGE_HEADER_SIZE]

theorem PageRep_initPage (pg : Page) : PageRep (initPage pg) [] (-1) := by
  refine ⟨by simp [span, PAGE_INT_NUM], ?_, ?_, trivial⟩
  · rw [initPage_two]; decide
  · rw [initPage_three]; decide

theorem StoreRep_fresh (disk : Int → Page) : StoreRep (freshStore disk) [[]] := by
  refine ⟨?_, by simp [freshStore]⟩
  rw [ChainRep_single]
  simp only [freshStore, setPage_same]
  exact PageRep_initPage _

/-- The three outcomes of `insertRecord` on a well-formed store whose chain is
`init ++ [last]`. -/
theorem insertRecord_cases (st : Store) (init : List (List Rec)) (last : List Rec)
    (id : Int) (data : List Nat) (hrep : StoreRep st (init ++ [last])) (hid : isInt32 id)
    (hb : st.tailPageID + 1 < 2147483648) :
    ((¬ liveIn id last ∧ 16 + span last + (2 + (data.length : Int)) ≤ PAGE_INT_NUM) →
        (insertRecord st id data).1 = true ∧
          StoreRep (insertRecord st id data).2 (init ++ [last ++ [⟨id, data⟩]])) ∧
    (¬ (¬ liveIn id last ∧ 16 + span last + (2 + (data.length : Int)) ≤ PAGE_INT_NUM) →
      ((18 + (data.length : Int) ≤ PAGE_INT_NUM →
        (insertRecord st id data).1 = true ∧
          StoreRep (insertRecord st id data).2 (init ++ [last, [⟨id, data⟩]])) ∧
      (¬ (18 + (data.length : Int) ≤ PAGE_INT_NUM) →
        (insertRecord st id data).1 = false ∧
          StoreRep (insertRecord st id data).2 (init ++ [last, []])))) := by
  obtain ⟨hchain, htail⟩ := hrep
  rw [ChainRep_snoc] at hchain
  obtain ⟨hlinked, hlast⟩ := hchain
  simp only [List.length_append, List.length_singleton] at htail
  push_cast at htail
  have ht : st.tailPageID = (init.length : Int) := by omega
  rw [zero_add, ← ht] at hlast
  constructor
  · rintro ⟨hn, hf⟩
    obtain ⟨h1, h2⟩ := insertRecordInPage_ok _ _ _ id data hlast hn hid hf
    have hr : insertRecord st id data = (true, { st with
        pages := (setPage st.pages st.tailPageID (insertRecordInPage (st.pages st.tailPageID) id data).2) }) := by
      simp only [insertRecord, h1, if_true]
    rw [hr]
    refine ⟨rfl, ?_, ?_⟩
    · rw [ChainRep_snoc]
      refine ⟨Linked_congr _ _ _ _ (fun q _ hq => setPage_other _ _ _ _ (by omega)) hlinked, ?_⟩
      show PageRep (setPage st.pages st.tailPageID _ (0 + (init.length : Int))) _ _
      rw [zero_add, ← ht, setPage_same]; exact h2
    · show st.tailPageID + 1 = _
      simp only [List.length_append, List.length_singleton]; push_cast; omega
  · intro hnot
    have hfail : insertRecordInPage (st.pages st.tailPageID) id data = (false, st.pages st.tailPageID) := by
      by_cases hl : liveIn id last
      · exact insertRecordInPage_dup _ _ _ id data hlast hl
      · exact insertRecordInPage_full _ _ _ id data hlast (by
          have : ¬ (16 + span last + (2 + (data.length : Int)) ≤ PAGE_INT_NUM) := fun h => hnot ⟨hl, h⟩
          omega)
    have hnew := PageRep_initPage (st.pages (st.tailPageID + 1))
    have hr : insertRecord st id data =
        ((insertRecordInPage (initPage (st.pages (st.tailPageID + 1))) id data).1,
          { pages := setPage (setPage (setPage st.pages st.tailPageID
              (setPageHeader (st.pages st.tailPageID) (getPageHeader (st.pages st.tailPageID)).1
                (getPageHeader (st.pages st.tailPageID)).2.1 (st.tailPageID + 1)))
              (st.tailPageID + 1) (initPage (st.pages (st.tailPageID + 1))))
              (st.tailPageID + 1) (insertRecordInPage (initPage (st.pages (st.tailPageID + 1))) id data).2,
            tailPageID := st.tailPageID + 1 }) := by
      simp only [insertRecord, hfail]
      rfl
    rw [hr]
    have hprev : PageRep (setPageHeader (st.pages st.tailPageID) (getPageHeader (st.pages st.tailPageID)).1
        (getPageHeader (st.pages st.tailPageID)).2.1 (st.tailPageID + 1)) last (st.tailPageID + 1) :=
      PageRep_setNext _ _ _ _ hlast ⟨by omega, hb⟩
    have key : ∀ (b : Bool) (pgN : Page) (rsN : List Rec), PageRep pgN rsN (-1) →
        StoreRep (Store.mk (setPage (setPage (setPage st.pages st.tailPageID
              (setPageHeader (st.pages st.tailPageID) (getPageHeader (st.pages st.tailPageID)).1
                (getPageHeader (st.pages st.tailPageID)).2.1 (st.tailPageID + 1)))
              (st.tailPageID + 1) (initPage (st.pages (st.tailPageID + 1))))
              (st.tailPageID + 1) pgN) (st.tailPageID + 1)) (init ++ [last, rsN]) := by
      intro _ pgN rsN hN
      refine ⟨?_, ?_⟩
      · rw [show init ++ [last, rsN] = (init ++ [last]) ++ [rsN] by simp, ChainRep_snoc, Linked_snoc]
        refine ⟨⟨?_, ?_⟩, ?_⟩
        · refine Linked_congr _ _ _ _ (fun q _ hq => ?_) hlinked
          show setPage _ _ _ q = _
          rw [setPage_other _ _ _ _ (by omega), setPage_other _ _ _ _ (by omega),
            setPage_other _ _ _ _ (by omega)]
        · show PageRep (setPage _ _ _ (0 + (init.length : Int))) _ _
          rw [zero_add, ← ht, setPage_other _ _ _ _ (by omega), setPage_other _ _ _ _ (by omega),
            setPage_same]
          exact hprev
        · show PageRep (setPage _ _ _ (0 + ((init ++ [last]).length : Int))) _ _
          simp only [List.length_append, List.length_singleton]
          push_cast
          rw [zero_add, ← ht, setPage_same]; exact hN
      · show st.tailPageID + 1 + 1 = _
        simp only [List.length_append, List.length_cons, List.length_nil]; push_cast; omega
    constructor
    · intro hfit
      have hn0 : ¬ liveIn id [] := by simp [liveIn]
      obtain ⟨h1, h2⟩ := insertRecordInPage_ok _ _ _ id data hnew hn0 hid (by simp only [span]; omega)
      exact ⟨h1, key true _ _ h2⟩
    · intro hfit
      have h1 := insertRecordInPage_full _ _ _ id data hnew (by simp only [span]; omega)
      rw [h1]
      exact ⟨rfl, key false _ _ hnew⟩

/-! ## The operations on a well-formed store -/

theorem StoreRep_chainFuel (st : Store) (pgs : List (List Rec)) (h : StoreRep st pgs) :
    chainFuel st = pgs.length := by
  unfold chainFuel
  rw [h.2]; simp

theorem getAllRecordsDirect_eq (st : Store) (pgs : List (List Rec)) (h : StoreRep st pgs) :
    getAllRecordsDirect st = some (allLive pgs) := by
  unfold getAllRecordsDirect
  exact getAllRecordsDirectLoop_eq _ pgs _ 0 (le_refl _) h.1 (by rw [StoreRep_chainFuel st pgs h])

theorem recordExists_eq (st : Store) (pgs : List (List Rec)) (h : StoreRep st pgs) (id : Int) :
    recordExists st id = some (lookupLive id (allLive pgs)).isSome := by
  unfold recordExists
  exact recordExistsLoop_eq id _ pgs _ 0 (le_refl _) h.1 (by rw [StoreRep_chainFuel st pgs h])

theorem getRecord_eq (st : Store) (pgs : List (List Rec)) (h : StoreRep st pgs) (id maxLen : Int) :
    getRecord st id maxLen = some (getRecordResult maxLen (lookupLive id (allLive pgs))) := by
  unfold getRecord
  exact getRecordLoop_eq id maxLen _ pgs _ 0 (le_refl _) h.1 (by rw [StoreRep_chainFuel st pgs h])

theorem deleteRecord_eq (st : Store) (pgs : List (List Rec)) (h : StoreRep st pgs) (id : Int) :
    ∃ st', deleteRecord st id = some ((lookupLive id (allLive pgs)).isSome, st') ∧
      StoreRep st' (tombstoneChain id pgs) ∧ st'.tailPageID = st.tailPageID ∧
      (lookupLive id (allLive pgs) = none → st' = st) := by
  obtain ⟨pages', h1, h2, _, h4⟩ :=
    deleteRecordLoop_eq id pgs st.pages (chainFuel st) 0 (le_refl _) h.1
      (by rw [StoreRep_chainFuel st pgs h])
  refine ⟨{ st with pages := pages' }, ?_, ⟨h2, ?_⟩, rfl, ?_⟩
  · unfold deleteRecord; rw [h1]; rfl
  · show st.tailPageID + 1 = _
    rw [tombstoneChain_length]; exact h.2
  · intro hn; rw [h4 hn]

theorem liveRecs_single (id : Int) (data : List Nat) :
    liveRecs [(⟨id, data⟩ : Rec)] = if id ≠ 0 then [(id, data)] else [] := by
  by_cases h : id = 0 <;> simp [liveRecs, h]

theorem liveRecs_append (a b : List Rec) : liveRecs (a ++ b) = liveRecs a ++ liveRecs b := by
  simp [liveRecs]

theorem insertRecord_eq (st : Store) (pgs : List (List Rec)) (h : StoreRep st pgs)
    (id : Int) (data : List Nat) (hid : isInt32 id) (hb : st.tailPageID + 1 < 2147483648) :
    ∃ pgs', StoreRep (insertRecord st id data).2 pgs' ∧
      allLive pgs' = allLive pgs ++
        (if (insertRecord st id data).1 = true ∧ id ≠ 0 then [(id, data)] else []) ∧
      (18 + (data.length : Int) ≤ PAGE_INT_NUM → (insertRecord st id data).1 = true) ∧
      st.tailPageID ≤ (insertRecord st id data).2.tailPageID ∧
      (insertRecord st id data).2.tailPageID ≤ st.tailPageID + 1 := by
  have hne : pgs ≠ [] := by
    intro hh; rw [hh] at h; exact h.1.elim
  rcases List.eq_nil_or_concat pgs with hh | ⟨init, last, hcat⟩
  · exact absurd hh hne
  · rw [List.concat_eq_append] at hcat
    subst hcat
    obtain ⟨hA, hB⟩ := insertRecord_cases st init last id data h hid hb
    have htail : ∀ (st' : Store) (pgs' : List (List Rec)), StoreRep st' pgs' →
        st'.tailPageID = (pgs'.length : Int) - 1 := fun st' pgs' h' => by have := h'.2; omega
    have ht0 := htail st _ h
    simp only [List.length_append, List.length_singleton] at ht0
    by_cases hc : ¬ liveIn id last ∧ 16 + span last + (2 + (data.length : Int)) ≤ PAGE_INT_NUM
    · obtain ⟨h1, h2⟩ := hA hc
      have ht1 := htail _ _ h2
      simp only [List.length_append, List.length_singleton] at ht1
      refine ⟨_, h2, ?_, fun _ => h1, by omega, by omega⟩
      rw [allLive_append, allLive_append, h1]
      simp only [allLive, liveRecs_append, liveRecs_single, List.append_nil, true_and,
        List.append_assoc]
    · obtain ⟨hB1, hB2⟩ := hB hc
      by_cases hfit : 18 + (data.length : Int) ≤ PAGE_INT_NUM
      · obtain ⟨h1, h2⟩ := hB1 hfit
        have ht1 := htail _ _ h2
        simp only [List.length_append, List.length_cons, List.length_nil] at ht1
        refine ⟨_, h2, ?_, fun _ => h1, by push_cast at ht1 ht0; omega, by push_cast at ht1 ht0; omega⟩
        rw [allLive_append, allLive_append, h1]
        simp only [allLive, liveRecs_single, List.append_nil, true_and, List.append_assoc]
      · obtain ⟨h1, h2⟩ := hB2 hfit
        have ht1 := htail _ _ h2
        simp only [List.length_append, List.length_cons, List.length_nil] at ht1
        refine ⟨_, h2, ?_, fun hh => absurd hh hfit, by push_cast at ht1 ht0; omega, by push_cast at ht1 ht0; omega⟩
        rw [allLive_append, allLive_append, h1]
        simp [allLive, liveRecs]

theorem Layout_isInt32 (pg : Page) : ∀ (rs : List Rec) (pos : Int), Layout pg pos rs →
    ∀ r ∈ rs, isInt32 r.rid := by
  intro rs
  induction rs with
  | nil => intro pos _ r hr; simp at hr
  | cons x rs ih =>
    intro pos h r hr
    rcases List.mem_cons.1 hr with hr | hr
    · subst hr; rw [← h.2.1]; exact toInt_range _
    · exact ih _ h.2.2.2 r hr

theorem mem_liveRecs (rs : List Rec) (x : Int × List Nat) :
    x ∈ liveRecs rs ↔ ∃ r ∈ rs, r.rid ≠ 0 ∧ (r.rid, r.data) = x := by
  simp [liveRecs, and_assoc]

theorem ChainRep_isInt32 (pages : Int → Page) : ∀ (pgs : List (List Rec)) (p : Int),
    ChainRep pages p pgs → ∀ x ∈ allLive pgs, isInt32 x.1 := by
  intro pgs
  induction pgs with
  | nil => intro p h; exact h.elim
  | cons rs rest ih =>
    intro p h x hx
    simp only [allLive, List.mem_append] at hx
    cases rest with
    | nil =>
      rw [ChainRep_single] at h
      rcases hx with hx | hx
      · obtain ⟨r, hr, _, rfl⟩ := (mem_liveRecs rs x).1 hx
        exact Layout_isInt32 _ rs 16 h.2.2.2 r hr
      · simp [allLive] at hx
    | cons r2 rest =>
      rw [ChainRep_cons2] at h
      rcases hx with hx | hx
      · obtain ⟨r, hr, _, rfl⟩ := (mem_liveRecs rs x).1 hx
        exact Layout_isInt32 _ rs 16 h.1.2.2.2 r hr
      · exact ih (p + 1) h.2 x hx

/-! ## Lists of live pairs with pairwise distinct slot ids -/

theorem lookupLive_eq_none_iff (id : Int) (l : List (Int × List Nat)) :
    lookupLive id l = none ↔ id ∉ l.map Prod.fst := by
  induction l with
  | nil => simp [lookupLive]
  | cons x l ih =>
    obtain ⟨i, d⟩ := x
    by_cases h : i = id
    · simp [lookupLive, h]
    · have h' : ¬ id = i := fun e => h e.symm
      simp [lookupLive, h, h', ih]

theorem lookupLive_isSome_iff_mem (id : Int) (l : List (Int × List Nat)) :
    (lookupLive id l).isSome = true ↔ id ∈ l.map Prod.fst := by
  rw [← not_iff_not, ← lookupLive_eq_none_iff]
  cases lookupLive id l <;> simp

theorem lookupLive_mem (id : Int) (l : List (Int × List Nat)) (d : List Nat)
    (h : lookupLive id l = some d) : (id, d) ∈ l := by
  induction l with
  | nil => simp [lookupLive] at h
  | cons x l ih =>
    obtain ⟨i, e⟩ := x
    by_cases hi : i = id
    · simp only [lookupLive, hi, if_true, Option.some.injEq] at h
      subst h; subst hi; exact List.mem_cons_self _ _
    · simp only [lookupLive, hi, if_false] at h
      exact List.mem_cons_of_mem _ (ih h)

theorem eraseLive_eq_filter (id : Int) (l : List (Int × List Nat)) (h : (l.map Prod.fst).Nodup) :
    eraseLive id l = l.filter fun x => decide (x.1 ≠ id) := by
  induction l with
  | nil => rfl
  | cons x l ih =>
    obtain ⟨i, d⟩ := x
    simp only [List.map_cons, List.nodup_cons] at h
    by_cases hi : i = id
    · subst hi
      simp only [eraseLive, if_true, ne_eq, not_true_eq_false, decide_False, Bool.false_eq_true,
        not_false_eq_true, List.filter_cons_of_neg]
      symm
      rw [List.filter_eq_self]
      intro y hy
      have : y.1 ≠ i := fun e => h.1 (e ▸ List.mem_map_of_mem Prod.fst hy)
      simpa using this
    · simp [eraseLive, hi, ih h.2]

theorem lookupLive_eraseLive_ne (id id' : Int) (l : List (Int × List Nat)) (h : id' ≠ id) :
    lookupLive id' (eraseLive id l) = lookupLive id' l := by
  induction l with
  | nil => rfl
  | cons x l ih =>
    obtain ⟨i, d⟩ := x
    by_cases hi : i = id
    · subst hi
      have : ¬ i = id' := fun e => h e.symm
      simp [eraseLive, lookupLive, this]
    · by_cases hi' : i = id'
      · subst hi'
        simp [eraseLive, lookupLive, hi]
      · simp [eraseLive, lookupLive, hi, hi', ih]

theorem lookupLive_eraseLive_self (id : Int) (l : List (Int × List Nat))
    (h : (l.map Prod.fst).Nodup) : lookupLive id (eraseLive id l) = none := by
  rw [lookupLive_eq_none_iff, eraseLive_eq_filter id l h]
  intro hm
  obtain ⟨x, hx, hx1⟩ := List.mem_map.1 hm
  have := (List.mem_filter.1 hx).2
  simp at this
  exact this hx1

theorem nodup_filter_fst (l : List (Int × List Nat)) (p : Int × List Nat → Bool)
    (h : (l.map Prod.fst).Nodup) : ((l.filter p).map Prod.fst).Nodup :=
  h.sublist ((List.filter_sublist l).map Prod.fst)

theorem allLive_fst_ne_zero (pgs : List (List Rec)) : ∀ x ∈ allLive pgs, x.1 ≠ 0 := by
  induction pgs with
  | nil => intro x hx; simp [allLive] at hx
  | cons rs rest ih =>
    intro x hx
    simp only [allLive, List.mem_append] at hx
    rcases hx with hx | hx
    · obtain ⟨r, _, h0, rfl⟩ := (mem_liveRecs rs x).1 hx
      exact h0
    · exact ih x hx

theorem WellFormed_fresh (disk : Int → Page) : WellFormed (freshStore disk) :=
  ⟨_, StoreRep_fresh disk⟩

theorem WellFormed_insertRecord (st : Store) (h : WellFormed st) (id : Int) (data : List Nat)
    (hid : isInt32 id) (hb : st.tailPageID + 1 < 2147483648) :
    WellFormed (insertRecord st id data).2 := by
  obtain ⟨pgs, hp⟩ := h
  obtain ⟨pgs', h', _⟩ := insertRecord_eq st pgs hp id data hid hb
  exact ⟨pgs', h'⟩

theorem WellFormed_deleteRecord (st : Store) (h : WellFormed st) (id : Int) :
    ∃ r, deleteRecord st id = some r ∧ WellFormed r.2 := by
  obtain ⟨pgs, hp⟩ := h
  obtain ⟨st', h1, h2, _⟩ := deleteRecord_eq st pgs hp id
  exact ⟨_, h1, _, h2⟩

theorem lookupLive_snoc_self (id : Int) (l : List (Int × List Nat)) (p : List Nat)
    (h : lookupLive id l = none) : lookupLive id (l ++ [(id, p)]) = some p := by
  rw [lookupLive_append_none id l _ h]; simp [lookupLive]

theorem lookupLive_snoc_ne (id id' : Int) (l : List (Int × List Nat)) (p : List Nat)
    (h : id' ≠ id) : lookupLive id' (l ++ [(id, p)]) = lookupLive id' l := by
  cases hh : lookupLive id' l with
  | none =>
    rw [lookupLive_append_none id' l _ hh]
    have : ¬ id = id' := fun e => h e.symm
    simp [lookupLive, this]
  | some d => exact lookupLive_append_some id' l _ d hh

theorem getRecordResult_full (p : List Nat) (maxLen : Int) (h : (p.length : Int) ≤ maxLen) :
    getRecordResult maxLen (some p) = ((p.length : Int), p) := by
  simp only [getRecordResult]
  split_ifs with hc
  · simp
  · have : maxLen = (p.length : Int) := by omega
    subst this; simp

/-! ## Sequences of calls against their specification -/

theorem runOps_spec : ∀ (ops : List Op) (st : Store) (pgs : List (List Rec)),
    StoreRep st pgs → (∀ id ∈ insertedIds ops, id ≠ 0 ∧ isInt32 id) →
    (∀ id data, Op.insert id data ∈ ops →
      PAGE_HEADER_SIZE + RECORD_HEADER_SIZE + (data.length : Int) ≤ PAGE_INT_NUM) →
    st.tailPageID + 1 + (ops.length : Int) < 2147483648 →
    ∃ st' pgs', runOps st ops = some st' ∧ StoreRep st' pgs' ∧
      allLive pgs' = specRun (allLive pgs) ops := by
  intro ops
  induction ops with
  | nil => intro st pgs h _ _ _; exact ⟨st, pgs, rfl, h, rfl⟩
  | cons op ops ih =>
    intro st pgs h hids hfit hlen
    simp only [List.length_cons] at hlen
    push_cast at hlen
    cases op with
    | insert id data =>
      have hid := hids id (by simp [insertedIds])
      have hf := hfit id data (List.mem_cons_self _ _)
      simp only [PAGE_HEADER_SIZE, RECORD_HEADER_SIZE] at hf
      obtain ⟨pgs1, g1, g2, g3, _, g5⟩ := insertRecord_eq st pgs h id data hid.2 (by omega)
      have hret := g3 (by omega)
      rw [if_pos ⟨hret, hid.1⟩] at g2
      obtain ⟨st', pgs', r1, r2, r3⟩ := ih (insertRecord st id data).2 pgs1 g1
        (fun i hi => hids i (by simp [insertedIds, hi]))
        (fun i d hm => hfit i d (List.mem_cons_of_mem _ hm)) (by omega)
      exact ⟨st', pgs', by simpa [runOps] using r1, r2, by rw [r3, g2]; rfl⟩
    | delete id =>
      obtain ⟨st1, g1, g2, g3, _⟩ := deleteRecord_eq st pgs h id
      obtain ⟨st', pgs', r1, r2, r3⟩ := ih st1 _ g2
        (fun i hi => hids i (by simpa [insertedIds] using hi))
        (fun i d hm => hfit i d (List.mem_cons_of_mem _ hm)) (by rw [g3]; omega)
      refine ⟨st', pgs', ?_, r2, ?_⟩
      · simp only [runOps, g1]; exact r1
      · rw [r3, allLive_tombstoneChain]; rfl

theorem InsertedNotDeleted_cons (op : Op) (ops : List Op) (id : Int) (d : List Nat) :
    InsertedNotDeleted (op :: ops) id d ↔
      (op = Op.insert id d ∧ Op.delete id ∉ ops) ∨ InsertedNotDeleted ops id d := by
  constructor
  · rintro ⟨pre, post, h, hn⟩
    cases pre with
    | nil =>
      simp only [List.nil_append, List.cons.injEq] at h
      exact Or.inl ⟨h.1, h.2 ▸ hn⟩
    | cons x pre =>
      simp only [List.cons_append, List.cons.injEq] at h
      exact Or.inr ⟨pre, post, h.2, hn⟩
  · rintro (⟨h1, h2⟩ | ⟨pre, post, h, hn⟩)
    · exact ⟨[], ops, by simp [h1], h2⟩
    · exact ⟨op :: pre, post, by simp [h], hn⟩

theorem mem_eraseLive (id : Int) (l : List (Int × List Nat)) (h : (l.map Prod.fst).Nodup)
    (x : Int × List Nat) : x ∈ eraseLive id l ↔ x ∈ l ∧ x.1 ≠ id := by
  rw [eraseLive_eq_filter id l h]; simp

theorem specRun_char : ∀ (ops : List Op) (l : List (Int × List Nat)),
    (l.map Prod.fst ++ insertedIds ops).Nodup →
    ((specRun l ops).map Prod.fst).Nodup ∧
      ∀ id d, (id, d) ∈ specRun l ops ↔
        ((id, d) ∈ l ∧ Op.delete id ∉ ops) ∨ InsertedNotDeleted ops id d := by
  intro ops
  induction ops with
  | nil =>
    intro l h
    refine ⟨by simpa [insertedIds, specRun] using h, fun id d => ?_⟩
    simp [specRun, InsertedNotDeleted]
  | cons op ops ih =>
    intro l h
    cases op with
    | insert i e =>
      have h' : ((l ++ [(i, e)]).map Prod.fst ++ insertedIds ops).Nodup := by
        simpa [insertedIds] using h
      obtain ⟨g1, g2⟩ := ih (l ++ [(i, e)]) h'
      refine ⟨g1, fun id d => ?_⟩
      show (id, d) ∈ specRun (l ++ [(i, e)]) ops ↔ _
      rw [g2, InsertedNotDeleted_cons]
      have e1 : Op.insert i e = Op.insert id d ↔ (id, d) = (i, e) := by
        simp only [Op.insert.injEq, Prod.mk.injEq]
        constructor <;> rintro ⟨rfl, rfl⟩ <;> exact ⟨rfl, rfl⟩
      have e2 : Op.delete id ∉ Op.insert i e :: ops ↔ Op.delete id ∉ ops := by simp
      have e3 : (id, d) ∈ l ++ [(i, e)] ↔ (id, d) ∈ l ∨ (id, d) = (i, e) := by simp
      rw [e1, e2, e3]
      tauto
    | delete j =>
      have hl : (l.map Prod.fst).Nodup := by
        simp only [insertedIds] at h
        exact (List.nodup_append.1 h).1
      have h' : ((eraseLive j l).map Prod.fst ++ insertedIds ops).Nodup := by
        simp only [insertedIds] at h
        rw [eraseLive_eq_filter j l hl]
        exact h.sublist (((List.filter_sublist l).map Prod.fst).append (List.Sublist.refl _))
      obtain ⟨g1, g2⟩ := ih (eraseLive j l) h'
      refine ⟨g1, fun id d => ?_⟩
      show (id, d) ∈ specRun (eraseLive j l) ops ↔ _
      rw [g2, InsertedNotDeleted_cons, mem_eraseLive j l hl]
      simp only [List.mem_cons, Op.delete.injEq, not_or, false_and, false_or, reduceCtorEq]
      tauto

end RecordManager

namespace QueryExecutor

open RecordManager (toInt toWord toInt_toWord)

/-! ## Row encoding: bytes and words -/

theorem le32_length (w : Nat) : (le32 w).length = 4 := rfl

theorem le64_length (w : Nat) : (le64 w).length = 8 := rfl

theorem rd32_le32 (pre rest : List Nat) (w : Nat) (hw : w < 4294967296) :
    rd32 (pre ++ (le32 w ++ rest)) (pre.length : Int) = w := by
  unfold rd32
  rw [Int.toNat_ofNat, List.drop_left]
  simp only [le32, List.cons_append, List.nil_append]
  omega

theorem rd32_le32' (pre rest : List Nat) (w : Nat) (hw : w < 4294967296) (pos : Int)
    (hpos : pos = (pre.length : Int)) : rd32 (pre ++ (le32 w ++ rest)) pos = w := by
  subst hpos; exact rd32_le32 pre rest w hw

theorem rd64_le64 (pre rest : List Nat) (w : Nat) (hw : w < 18446744073709551616) :
    rd64 (pre ++ (le64 w ++ rest)) (pre.length : Int) = w := by
  unfold rd64 le64
  rw [List.append_assoc, rd32_le32 pre _ _ (Nat.mod_lt _ (by norm_num))]
  have h2 : rd32 (pre ++ (le32 (w % 4294967296) ++ (le32 (w / 4294967296 % 4294967296) ++ rest)))
      ((pre.length : Int) + 4) = w / 4294967296 % 4294967296 := by
    have := rd32_le32' (pre ++ le32 (w % 4294967296)) rest (w / 4294967296 % 4294967296)
      (Nat.mod_lt _ (by norm_num)) ((pre.length : Int) + 4) (by simp [le32_length])
    simpa [List.append_assoc] using this
  rw [h2]
  omega

theorem toWord_lt (i : Int) : toWord i < 4294967296 := by
  unfold toWord
  have e : (2:Int)^32 = 4294967296 := by norm_num
  rw [e]; omega

theorem stripTrailingZeros_id (s : List Nat) (h : NoTrailingNul s) : stripTrailingZeros s = s := by
  unfold stripTrailingZeros
  rcases List.eq_nil_or_concat s with rfl | ⟨l, b, rfl⟩
  · rfl
  · have hb : b ≠ 0 := h b (by simp)
    simp [List.concat_eq_append, List.dropWhile, hb]

theorem and_shl1_ne_zero (n i : Nat) (hi : i < 32) :
    decide (n &&& shl1 i ≠ 0) = n.testBit i := by
  unfold shl1
  rw [Nat.mod_eq_of_lt hi, Nat.and_two_pow]
  cases n.testBit i <;> simp

/-! ## Row encoding: the null bitmap and the column loop -/

theorem shl1_lt (i : Nat) : shl1 i < 4294967296 := by
  unfold shl1
  have : i % 32 < 32 := Nat.mod_lt _ (by norm_num)
  calc 2 ^ (i % 32) < 2 ^ 32 := Nat.pow_lt_pow_right (by norm_num) this
    _ = 4294967296 := by norm_num

theorem nullBitmapLoop_lt : ∀ (vs : List Value) (i acc : Nat), acc < 4294967296 →
    nullBitmapLoop i vs acc < 4294967296 := by
  intro vs
  induction vs with
  | nil => intro i acc h; exact h
  | cons v vs ih =>
    intro i acc h
    simp only [nullBitmapLoop]
    split_ifs with h1 h2
    · apply ih
      have := Nat.or_lt_two_pow (n := 32) (by simpa using h) (by simpa using shl1_lt i)
      simpa using this
    · exact ih _ _ h
    · exact h

theorem nullBitmapLoop_low : ∀ (vs : List Value) (i acc j : Nat), j < i →
    (nullBitmapLoop i vs acc).testBit j = acc.testBit j := by
  intro vs
  induction vs with
  | nil => intro i acc j _; rfl
  | cons v vs ih =>
    intro i acc j hj
    simp only [nullBitmapLoop]
    split_ifs with h1 h2
    · rw [ih _ _ _ (by omega), Nat.testBit_or]
      unfold shl1
      rw [Nat.mod_eq_of_lt h1, Nat.testBit_two_pow]
      have : ¬ i = j := by omega
      simp [this]
    · exact ih _ _ _ (by omega)
    · rfl

theorem nullBitmapLoop_bits : ∀ (vs : List Value) (i acc : Nat), i + vs.length ≤ 32 →
    (∀ j, i ≤ j → acc.testBit j = false) → BitsMatch (nullBitmapLoop i vs acc) i vs := by
  intro vs
  induction vs with
  | nil => intro i acc _ _; trivial
  | cons v vs ih =>
    intro i acc hlen hacc
    simp only [List.length_cons] at hlen
    have hi : i < 32 := by omega
    have hsh : shl1 i = 2 ^ i := by unfold shl1; rw [Nat.mod_eq_of_lt hi]
    simp only [nullBitmapLoop, hi, if_true]
    constructor
    · rw [nullBitmapLoop_low vs (i + 1) _ i (by omega)]
      cases hv : v.isNull
      · simpa using hacc i (le_refl _)
      · simp [Nat.testBit_or, hsh, Nat.testBit_two_pow]
    · apply ih (i + 1) _ (by omega)
      intro j hj
      cases hv : v.isNull
      · simpa using hacc j (by omega)
      · have : ¬ i = j := by omega
        simp [Nat.testBit_or, hsh, Nat.testBit_two_pow, hacc j (by omega), this]

theorem canon_of_null (v : Value) (h : v.isNull = true) : canon v = Value.makeNull := by
  simp [canon, h]

theorem deserializeLoop_serializeLoop (data : List Nat) : ∀ (cols : List ColumnDef)
    (vals : List Value) (pre : List Nat) (bitmap i : Nat),
    data = pre ++ serializeLoop cols vals → RowValid cols vals →
    (∀ col ∈ cols, col.type ≠ DataType.UNKNOWN ∧ 0 ≤ col.length ∧ col.length < 2147483648) →
    i + cols.length ≤ 32 → BitsMatch bitmap i vals →
    deserializeLoop data (data.length : Int) bitmap i cols (pre.length : Int) =
      vals.map canon := by
  intro cols
  induction cols with
  | nil =>
    intro vals pre bitmap i _ hv _ _ _
    cases vals with
    | nil => rfl
    | cons v vs => exact hv.elim
  | cons col cols ih =>
    intro vals pre bitmap i hdata hv hcols hlen hbits
    cases vals with
    | nil => exact hv.elim
    | cons v vs =>
      obtain ⟨hv1, hv2, hv3⟩ := hv
      obtain ⟨hb1, hb2⟩ := hbits
      simp only [List.length_cons] at hlen
      have hi : i < 32 := by omega
      have hc := hcols col (List.mem_cons_self _ _)
      have hnull : decide (bitmap &&& shl1 i ≠ 0) = v.isNull := by
        rw [and_shl1_ne_zero bitmap i hi, hb1]
      have hdata' : data = pre ++ (serializeColumn col v ++ serializeLoop cols vs) := hdata
      have ih' := ih vs (pre ++ serializeColumn col v) bitmap (i + 1)
        (by rw [hdata', List.append_assoc]) hv3
        (fun c hc' => hcols c (List.mem_cons_of_mem _ hc')) (by omega) hb2
      have hdl : (data.length : Int) = (pre.length : Int) +
          ((serializeColumn col v).length : Int) + ((serializeLoop cols vs).length : Int) := by
        rw [hdata']; simp only [List.length_append]; push_cast; omega
      rw [List.length_append] at ih'
      push_cast at ih'
      show deserializeLoop data _ bitmap i (col :: cols) _ = canon v :: vs.map canon
      rw [deserializeLoop, hnull]
      cases hct : col.type with
      | UNKNOWN => exact absurd hct hc.1
      | INT =>
        have henc : serializeColumn col v = le32 (toWord (if v.isNull then 0 else v.intVal)) := by
          simp [serializeColumn, hct]
        rw [henc] at ih' hdl hdata'
        simp only [le32_length] at ih' hdl
        have hpos : ¬ ((pre.length : Int) + 4 > (data.length : Int)) := by push_cast at hdl; omega
        simp only [hpos, if_false]
        rw [show ((pre.length : Int) + (4 : Nat) : Int) = (pre.length : Int) + 4 by push_cast; rfl] at ih'
        rw [ih']
        congr 1
        cases hn : v.isNull with
        | true => simp [canon, hn]
        | false =>
          rcases hv1 with h | h | h | h
          · rw [hn] at h; simp at h
          · simp only [Bool.false_eq_true, if_false, canon, h.2.1]
            rw [hdata', rd32_le32 pre _ _ (toWord_lt _), hn]
            simp only [Bool.false_eq_true, if_false]
            rw [toInt_toWord _ h.2.2.1 h.2.2.2]
          · rw [hct] at h; simp at h
          · rw [hct] at h; simp at h
      | FLOAT =>
        have henc : serializeColumn col v = le64 (if v.isNull then 0 else v.floatVal) := by
          simp [serializeColumn, hct]
        rw [henc] at ih' hdl hdata'
        simp only [le64_length] at ih' hdl
        have hpos : ¬ ((pre.length : Int) + 8 > (data.length : Int)) := by push_cast at hdl; omega
        simp only [hpos, if_false]
        rw [show ((pre.length : Int) + (8 : Nat) : Int) = (pre.length : Int) + 8 by push_cast; rfl] at ih'
        rw [ih']
        congr 1
        cases hn : v.isNull with
        | true => simp [canon, hn]
        | false =>
          rcases hv1 with h | h | h | h
          · rw [hn] at h; simp at h
          · rw [hct] at h; simp at h
          · simp only [Bool.false_eq_true, if_false, canon, h.2.1]
            rw [hdata', rd64_le64 pre _ _ (by rw [hn]; simpa using h.2.2), hn]
            simp
          · rw [hct] at h; simp at h
      | VARCHAR =>
        obtain ⟨str, hstr, hsl, hcanon⟩ : ∃ str : List Nat,
            (if v.isNull then [] else v.strVal) = str ∧ (str.length : Int) ≤ col.length ∧
            (v.isNull = false → NoTrailingNul str ∧ canon v = Value.ofString str) := by
          cases hn : v.isNull with
          | true => exact ⟨[], by simp, by simpa using hc.2.1, fun h => by simp at h⟩
          | false =>
            rcases hv1 with h | h | h | h
            · rw [hn] at h; simp at h
            · rw [hct] at h; simp at h
            · rw [hct] at h; simp at h
            · exact ⟨v.strVal, by simp, h.2.2.1, fun _ => ⟨hv2 hn, by simp [canon, hn, h.2.1]⟩⟩
        have henc : serializeColumn col v = le32 (toWord (str.length : Int)) ++ (str ++
            List.replicate (col.length - (str.length : Int)).toNat 0) := by
          simp only [serializeColumn, hct, hstr, min_eq_left hsl, Int.toNat_ofNat,
            List.take_length, List.append_assoc]
        have hlenc : ((serializeColumn col v).length : Int) = 4 + col.length := by
          rw [henc]
          simp only [List.length_append, le32_length, List.length_replicate]
          push_cast
          rw [Int.toNat_of_nonneg (by omega)]
          omega
        rw [hlenc] at ih' hdl
        rw [henc, List.append_assoc] at hdata'
        have hc1 := hc.2.1
        have hc2 := hc.2.2
        have hpos : ¬ ((pre.length : Int) + 4 > (data.length : Int)) := by omega
        simp only [hpos, if_false]
        have hrd : rd32 data (pre.length : Int) = toWord (str.length : Int) := by
          rw [hdata']; exact rd32_le32 pre _ _ (toWord_lt _)
        rw [hrd, toInt_toWord _ (by omega) (by omega)]
        rw [show (pre.length : Int) + (4 + col.length) = (pre.length : Int) + 4 + col.length by omega] at ih'
        rw [ih']
        congr 1
        cases hn : v.isNull with
        | true => simp [canon, hn]
        | false =>
          obtain ⟨hnt, hcv⟩ := hcanon hn
          have hfit : ¬ ((pre.length : Int) + 4 + (str.length : Int) > (data.length : Int)) := by
            omega
          simp only [Bool.false_eq_true, if_false, hfit, hcv]
          congr 1
          have hdrop : data.drop ((pre.length : Int) + 4).toNat =
              str ++ (List.replicate (col.length - (str.length : Int)).toNat 0 ++
                  serializeLoop cols vs) := by
            have e : ((pre.length : Int) + 4).toNat = (pre ++ le32 (toWord (str.length : Int))).length := by
              simp [le32_length]; omega
            rw [e, hdata', ← List.append_assoc pre, List.drop_left, List.append_assoc]
          rw [hdrop, Int.toNat_ofNat, List.take_left, stripTrailingZeros_id str hnt]

/-! ## Row encoding: decoding an encoded row -/

theorem sameContent_canon (col : ColumnDef) (v : Value) (h : ValidFor col v) :
    SameContent v (canon v) := by
  cases hn : v.isNull with
  | true => exact ⟨by simp [canon, hn, Value.makeNull], fun h' => by rw [hn] at h'; cases h'⟩
  | false =>
    rcases h with h | h | h | h
    · rw [hn] at h; simp at h
    · refine ⟨by simp [canon, hn, h.2.1, Value.ofInt], fun _ => ?_⟩
      simp [canon, hn, h.2.1, Value.ofInt]
    · refine ⟨by simp [canon, hn, h.2.1, Value.ofFloat], fun _ => ?_⟩
      simp [canon, hn, h.2.1, Value.ofFloat]
    · refine ⟨by simp [canon, hn, h.2.1, Value.ofString], fun _ => ?_⟩
      simp [canon, hn, h.2.1, Value.ofString]

theorem forall₂_sameContent_canon : ∀ (cols : List ColumnDef) (vals : List Value),
    RowValid cols vals → List.Forall₂ SameContent vals (vals.map canon) := by
  intro cols
  induction cols with
  | nil =>
    intro vals h
    cases vals with
    | nil => exact List.Forall₂.nil
    | cons v vs => exact h.elim
  | cons col cols ih =>
    intro vals h
    cases vals with
    | nil => exact h.elim
    | cons v vs => exact List.Forall₂.cons (sameContent_canon col v h.1) (ih vs h.2.2)

theorem rowValid_length : ∀ (cols : List ColumnDef) (vals : List Value),
    RowValid cols vals → vals.length = cols.length := by
  intro cols
  induction cols with
  | nil =>
    intro vals h
    cases vals with
    | nil => rfl
    | cons v vs => exact h.elim
  | cons col cols ih =>
    intro vals h
    cases vals with
    | nil => exact h.elim
    | cons v vs => simp [ih vs h.2.2]

theorem deserialize_serialize_eq (columns : List ColumnDef) (row : List Value)
    (hschema : SupportedSchema columns) (hrow : RowValid columns row) :
    deserializeRecord columns (serializeRecord columns row) = row.map canon := by
  have hlen := rowValid_length columns row hrow
  have hbm := nullBitmapLoop_lt row 0 0 (by norm_num)
  have hbits := nullBitmapLoop_bits row 0 0 (by rw [hlen]; have := hschema.1; omega)
    (fun j _ => Nat.zero_testBit j)
  unfold deserializeRecord serializeRecord
  have h4 : ¬ (((le32 (nullBitmapLoop 0 row 0) ++ serializeLoop columns row).length : Int) < 4) := by
    simp only [List.length_append, le32_length]; push_cast; omega
  rw [if_neg h4]
  have hrd : rd32 (le32 (nullBitmapLoop 0 row 0) ++ serializeLoop columns row) 0 =
      nullBitmapLoop 0 row 0 := by
    have := rd32_le32 [] (serializeLoop columns row) _ hbm
    simpa using this
  rw [hrd]
  exact deserializeLoop_serializeLoop _ columns row (le32 (nullBitmapLoop 0 row 0)) _ 0 rfl hrow
    hschema.2 (by have := hschema.1; omega) hbits

end QueryExecutor

namespace QueryExecutor

open RecordManager (toInt toWord isInt32 toInt_toWord)

/-! ## Row encoding: what a stored row reads back as -/

theorem deserializeLoop_stored (data : List Nat) : ∀ (cols : List ColumnDef)
    (vals : List Value) (pre post : List Nat) (bitmap i : Nat),
    data = pre ++ (serializeLoop cols vals ++ post) → vals.length = cols.length →
    (∀ v ∈ vals, Representable v) →
    (∀ col ∈ cols, col.type ≠ DataType.UNKNOWN ∧ 0 ≤ col.length ∧ col.length < 2147483648) →
    i + cols.length ≤ 32 → BitsMatch bitmap i vals →
    deserializeLoop data (data.length : Int) bitmap i cols (pre.length : Int) =
      storedRow cols vals := by
  intro cols
  induction cols with
  | nil =>
    intro vals pre post bitmap i _ hv _ _ _ _
    cases vals with
    | nil => rfl
    | cons v vs => simp at hv
  | cons col cols ih =>
    intro vals pre post bitmap i hdata hvl hrep hcols hlen hbits
    cases vals with
    | nil => simp at hvl
    | cons v vs =>
      obtain ⟨hb1, hb2⟩ := hbits
      simp only [List.length_cons] at hlen hvl
      have hi : i < 32 := by omega
      have hc := hcols col (List.mem_cons_self _ _)
      have hrv := hrep v (List.mem_cons_self _ _)
      have hnull : decide (bitmap &&& shl1 i ≠ 0) = v.isNull := by
        rw [and_shl1_ne_zero bitmap i hi, hb1]
      have hdata' : data = pre ++ (serializeColumn col v ++ (serializeLoop cols vs ++ post)) := by
        rw [hdata]; simp only [serializeLoop, List.append_assoc]
      have ih' := ih vs (pre ++ serializeColumn col v) post bitmap (i + 1)
        (by rw [hdata', List.append_assoc]) (by omega)
        (fun w hw => hrep w (List.mem_cons_of_mem _ hw))
        (fun c hc' => hcols c (List.mem_cons_of_mem _ hc')) (by omega) hb2
      have hdl : (data.length : Int) = (pre.length : Int) +
          ((serializeColumn col v).length : Int) +
          ((serializeLoop cols vs ++ post).length : Int) := by
        rw [hdata']; simp only [List.length_append]; push_cast; omega
      rw [List.length_append] at ih'
      push_cast at ih'
      show deserializeLoop data _ bitmap i (col :: cols) _ =
        storedValue col v :: storedRow cols vs
      rw [deserializeLoop, hnull]
      cases hct : col.type with
      | UNKNOWN => exact absurd hct hc.1
      | INT =>
        have henc : serializeColumn col v = le32 (toWord (if v.isNull then 0 else v.intVal)) := by
          simp [serializeColumn, hct]
        rw [henc] at ih' hdl hdata'
        simp only [le32_length] at ih' hdl
        have hpos : ¬ ((pre.length : Int) + 4 > (data.length : Int)) := by push_cast at hdl; omega
        simp only [hpos, if_false]
        rw [show ((pre.length : Int) + (4 : Nat) : Int) = (pre.length : Int) + 4 by push_cast; rfl] at ih'
        rw [ih']
        congr 1
        cases hn : v.isNull with
        | true => simp [storedValue, hn]
        | false =>
          simp only [Bool.false_eq_true, if_false, storedValue, hn, hct]
          rw [hdata', rd32_le32 pre _ _ (toWord_lt _), hn]
          simp only [Bool.false_eq_true, if_false]
          rw [toInt_toWord _ hrv.1.1 hrv.1.2]
      | FLOAT =>
        have henc : serializeColumn col v = le64 (if v.isNull then 0 else v.floatVal) := by
          simp [serializeColumn, hct]
        rw [henc] at ih' hdl hdata'
        simp only [le64_length] at ih' hdl
        have hpos : ¬ ((pre.length : Int) + 8 > (data.length : Int)) := by push_cast at hdl; omega
        simp only [hpos, if_false]
        rw [show ((pre.length : Int) + (8 : Nat) : Int) = (pre.length : Int) + 8 by push_cast; rfl] at ih'
        rw [ih']
        congr 1
        cases hn : v.isNull with
        | true => simp [storedValue, hn]
        | false =>
          simp only [Bool.false_eq_true, if_false, storedValue, hn, hct]
          rw [hdata', rd64_le64 pre _ _ (by rw [hn]; simpa using hrv.2.1), hn]
          simp
      | VARCHAR =>
        have hc1 := hc.2.1
        have hc2 := hc.2.2
        obtain ⟨str, hstr, hsl, hcanon⟩ : ∃ str : List Nat,
            (if v.isNull then [] else v.strVal).take
              (min (((if v.isNull then [] else v.strVal).length : Nat) : Int) col.length).toNat =
              str ∧ (str.length : Int) ≤ col.length ∧
            (min (((if v.isNull then [] else v.strVal).length : Nat) : Int) col.length) =
              (str.length : Int) ∧
            (v.isNull = false → str = v.strVal.take col.length.toNat) := by
          refine ⟨_, rfl, ?_, ?_, ?_⟩
          · rw [List.length_take]
            push_cast
            rw [Int.toNat_of_nonneg (by omega)]
            omega
          · rw [List.length_take]
            push_cast
            rw [Int.toNat_of_nonneg (by omega)]
            omega
          · intro hn
            simp only [hn, Bool.false_eq_true, if_false]
            rcases le_total ((v.strVal.length : Int)) col.length with h | h
            · rw [min_eq_left h, Int.toNat_ofNat, List.take_length]
              rw [List.take_of_length_le (by omega)]
            · rw [min_eq_right h]
        obtain ⟨hsl, hmin, hcanon⟩ := hsl, hcanon.1, hcanon.2
        have henc : serializeColumn col v = le32 (toWord (str.length : Int)) ++ (str ++
            List.replicate (col.length - (str.length : Int)).toNat 0) := by
          simp only [serializeColumn, hct]
          rw [hstr, hmin, List.append_assoc]
        have hlenc : ((serializeColumn col v).length : Int) = 4 + col.length := by
          rw [henc]
          simp only [List.length_append, le32_length, List.length_replicate]
          push_cast
          rw [Int.toNat_of_nonneg (by omega)]
          omega
        rw [hlenc] at ih' hdl
        rw [henc, List.append_assoc] at hdata'
        have hpos : ¬ ((pre.length : Int) + 4 > (data.length : Int)) := by omega
        simp only [hpos, if_false]
        have hrd : rd32 data (pre.length : Int) = toWord (str.length : Int) := by
          rw [hdata']; exact rd32_le32 pre _ _ (toWord_lt _)
        rw [hrd, toInt_toWord _ (by omega) (by omega)]
        rw [show (pre.length : Int) + (4 + col.length) = (pre.length : Int) + 4 + col.length by omega] at ih'
        rw [ih']
        congr 1
        cases hn : v.isNull with
        | true => simp [storedValue, hn]
        | false =>
          have hfit : ¬ ((pre.length : Int) + 4 + (str.length : Int) > (data.length : Int)) := by
            omega
          simp only [Bool.false_eq_true, if_false, hfit, storedValue, hn, hct]
          congr 2
          have hdrop : data.drop ((pre.length : Int) + 4).toNat =
              str ++ (List.replicate (col.length - (str.length : Int)).toNat 0 ++
                  (serializeLoop cols vs ++ post)) := by
            have e : ((pre.length : Int) + 4).toNat = (pre ++ le32 (toWord (str.length : Int))).length := by
              simp [le32_length]; omega
            rw [e, hdata', ← List.append_assoc pre, List.drop_left, List.append_assoc]
          rw [hdrop, Int.toNat_ofNat, List.take_left, hcanon hn]


theorem le32_lt (w : Nat) : ∀ b ∈ le32 w, b < 256 := by
  intro b hb
  simp only [le32, List.mem_cons, List.mem_singleton, List.not_mem_nil, or_false] at hb
  rcases hb with h | h | h | h <;> omega

theorem serializeColumn_lt (col : ColumnDef) (v : Value) (hv : Representable v) :
    ∀ b ∈ serializeColumn col v, b < 256 := by
  intro b hb
  unfold serializeColumn at hb
  cases hct : col.type with
  | INT => rw [hct] at hb; exact le32_lt _ b hb
  | FLOAT =>
    rw [hct] at hb
    simp only [le64, List.mem_append] at hb
    rcases hb with h | h <;> exact le32_lt _ b h
  | VARCHAR =>
    rw [hct] at hb
    simp only [List.mem_append, List.mem_replicate] at hb
    rcases hb with (h | h) | h
    · exact le32_lt _ b h
    · have h2 := List.mem_of_mem_take h
      split_ifs at h2 with hn
      · simp at h2
      · exact hv.2.2 b h2
    · omega
  | UNKNOWN => rw [hct] at hb; simp at hb

theorem serializeLoop_lt : ∀ (cols : List ColumnDef) (vals : List Value),
    (∀ v ∈ vals, Representable v) → ∀ b ∈ serializeLoop cols vals, b < 256 := by
  intro cols
  induction cols with
  | nil => intro vals _ b hb; simp [serializeLoop] at hb
  | cons col cols ih =>
    intro vals hv b hb
    cases vals with
    | nil => simp [serializeLoop] at hb
    | cons v vs =>
      simp only [serializeLoop, List.mem_append] at hb
      rcases hb with h | h
      · exact serializeColumn_lt col v (hv v (List.mem_cons_self _ _)) b h
      · exact ih vs (fun w hw => hv w (List.mem_cons_of_mem _ hw)) b h

theorem serializeRecord_lt (cols : List ColumnDef) (vals : List Value)
    (hv : ∀ v ∈ vals, Representable v) : ∀ b ∈ serializeRecord cols vals, b < 256 := by
  intro b hb
  simp only [serializeRecord, List.mem_append] at hb
  rcases hb with h | h
  · exact le32_lt _ b h
  · exact serializeLoop_lt cols vals hv b h

theorem unpackBytes_packWords : ∀ (n : Nat) (data : List Nat), data.length ≤ n →
    (∀ b ∈ data, b < 256) → ∃ pad, unpackBytes (packWords data) = data ++ pad := by
  intro n
  induction n using Nat.strong_induction_on with
  | _ n ih =>
    intro data hlen hb
    match data, hlen, hb with
    | [], _, _ => exact ⟨[], rfl⟩
    | [b0], _, hb =>
      have h0 := hb b0 (by simp)
      refine ⟨[0, 0, 0], ?_⟩
      simp only [packWords, unpackBytes, le32, List.append_nil, List.cons_append, List.nil_append,
        List.cons.injEq, and_true]
      omega
    | [b0, b1], _, hb =>
      have h0 := hb b0 (by simp)
      have h1 := hb b1 (by simp)
      refine ⟨[0, 0], ?_⟩
      simp only [packWords, unpackBytes, le32, List.append_nil, List.cons_append, List.nil_append,
        List.cons.injEq, and_true]
      omega
    | [b0, b1, b2], _, hb =>
      have h0 := hb b0 (by simp)
      have h1 := hb b1 (by simp)
      have h2 := hb b2 (by simp)
      refine ⟨[0], ?_⟩
      simp only [packWords, unpackBytes, le32, List.append_nil, List.cons_append, List.nil_append,
        List.cons.injEq, and_true]
      omega
    | b0 :: b1 :: b2 :: b3 :: rest, hlen, hb =>
      have h0 := hb b0 (by simp)
      have h1 := hb b1 (by simp)
      have h2 := hb b2 (by simp)
      have h3 := hb b3 (by simp)
      simp only [List.length_cons] at hlen
      obtain ⟨pad, hpad⟩ := ih (n - 4) (by omega) rest (by omega)
        (fun b hbm => hb b (by simp [hbm]))
      refine ⟨pad, ?_⟩
      simp only [packWords, unpackBytes, hpad, le32, List.cons_append, List.nil_append,
        List.cons.injEq, and_true]
      omega

theorem deserializeRecord_stored (columns : List ColumnDef) (vals : List Value)
    (post : List Nat) (hschema : SupportedSchema columns) (hlen : vals.length = columns.length)
    (hrep : ∀ v ∈ vals, Representable v) :
    deserializeRecord columns (serializeRecord columns vals ++ post) =
      storedRow columns vals := by
  have hbm := nullBitmapLoop_lt vals 0 0 (by norm_num)
  have hbits := nullBitmapLoop_bits vals 0 0 (by rw [hlen]; have := hschema.1; omega)
    (fun j _ => Nat.zero_testBit j)
  unfold deserializeRecord serializeRecord
  have h4 : ¬ (((le32 (nullBitmapLoop 0 vals 0) ++ serializeLoop columns vals ++ post).length :
      Int) < 4) := by
    simp only [List.length_append, le32_length]; push_cast; omega
  rw [if_neg h4]
  have hrd : rd32 (le32 (nullBitmapLoop 0 vals 0) ++ serializeLoop columns vals ++ post) 0 =
      nullBitmapLoop 0 vals 0 := by
    have := rd32_le32 [] (serializeLoop columns vals ++ post) _ hbm
    simpa using this
  rw [hrd]
  exact deserializeLoop_stored _ columns vals (le32 (nullBitmapLoop 0 vals 0)) post _ 0
    (by simp only [List.append_assoc]) hlen hrep hschema.2 (by have := hschema.1; omega) hbits

theorem deserializeRecord_packWords (columns : List ColumnDef) (vals : List Value)
    (hschema : SupportedSchema columns) (hlen : vals.length = columns.length)
    (hrep : ∀ v ∈ vals, Representable v) :
    deserializeRecord columns (unpackBytes (packWords (serializeRecord columns vals))) =
      storedRow columns vals := by
  obtain ⟨pad, hpad⟩ := unpackBytes_packWords _ (serializeRecord columns vals) (le_refl _)
    (serializeRecord_lt columns vals hrep)
  rw [hpad]
  exact deserializeRecord_stored columns vals pad hschema hlen hrep

end QueryExecutor

namespace BPlusTree

/-! ## B+ tree: reading nodes -/

theorem readNode_pageNum (t : Tree) (p : Int) : (readNode t p).pageNum = p := by
  simp only [readNode]; split_ifs <;> rfl

theorem readNode_congr (t t' : Tree) (p : Int) (h : t'.pages p = t.pages p) :
    readNode t' p = readNode t p := by
  simp only [readNode, h]

theorem findLeafLoop_congr (t t' : Tree) (key : Int) (h : ∀ p, t'.pages p = t.pages p) :
    ∀ (fuel : Nat) (p : Int), findLeafLoop fuel t' key p = findLeafLoop fuel t key p := by
  intro fuel
  induction fuel with
  | zero => intro p; rfl
  | succ n ih =>
    intro p
    simp only [findLeafLoop, readNode_congr t t' p (h p), ih]

theorem findLeaf_congr (t t' : Tree) (key : Int) (h : ∀ p, t'.pages p = t.pages p)
    (hr : t'.rootPage = t.rootPage) (hn : t'.nodeCount = t.nodeCount) :
    findLeaf t' key = findLeaf t key := by
  simp only [findLeaf, hr, nodeFuel, hn, findLeafLoop_congr t t' key h]

theorem search_single_key_leaf (t : Tree) (key leafPage : Int) (rid : RID)
    (hkind : t.keyType = KeyType.INT) (hroot : t.rootPage ≠ -1)
    (hfind : findLeaf t key = some leafPage) (hleaf : leafPage ≠ -1)
    (hkeys : (readNode t leafPage).keys = [key]) (hcount : (readNode t leafPage).keyCount = 1)
    (hrids : (readNode t leafPage).rids = [rid]) : search t key = some (some rid) := by
  unfold search
  rw [if_neg (by simp [hkind, hroot]), hfind]
  simp only [hleaf, if_false]
  simp [lookupInLeaf, hkeys, hcount, hrids, lookupLoop]

theorem remove_single_key_leaf (t : Tree) (key leafPage : Int)
    (hkind : t.keyType = KeyType.INT) (hroot : t.rootPage ≠ -1)
    (hfind : findLeaf t key = some leafPage) (hleaf : leafPage ≠ -1)
    (hnonroot : leafPage ≠ t.rootPage)
    (hkeys : (readNode t leafPage).keys = [key]) (hcount : (readNode t leafPage).keyCount = 1) :
    remove t key = some (true, { t with entryCount := t.entryCount - 1 }) := by
  have hpn : (readNode t leafPage).pageNum = leafPage := readNode_pageNum t leafPage
  have hdel : deleteFromLeaf (readNode t leafPage) key =
      { readNode t leafPage with keys := [], rids := eraseAt (readNode t leafPage).rids 0,
                                 keyCount := 0 } := by
    simp [deleteFromLeaf, hkeys, hcount, eraseAt]
  unfold remove
  rw [if_neg (by simp [hkind, hroot]), hfind]
  simp only [hleaf, if_false, hdel]
  have hc : (List.take (readNode t leafPage).keyCount.toNat (readNode t leafPage).keys).contains key
      = true := by simp [hkeys, hcount]
  simp only [hc, Bool.not_true, Bool.false_eq_true, if_false, if_true, hpn, hnonroot,
    redistributeOrMerge, lt_self_iff_false]

/-! ## B+ tree: descent and point lookup on a well-formed tree -/

theorem view_readNode (t : Tree) (p : Int) : view (readNode t p) = V t p := by
  simp only [readNode, V, view]
  split_ifs with h <;> simp [h]

theorem readNode_isLeaf (t : Tree) (p : Int) : (readNode t p).isLeaf = (V t p).isLeaf := by
  rw [← view_readNode]; rfl

theorem readNode_keys (t : Tree) (p : Int) : (readNode t p).keys = (V t p).keys := by
  rw [← view_readNode]; rfl

theorem readNode_keyCount (t : Tree) (p : Int) : (readNode t p).keyCount = (V t p).keyCount := by
  rw [← view_readNode]; rfl

theorem readNode_children (t : Tree) (p : Int) : (readNode t p).children = (V t p).children := by
  rw [← view_readNode]; rfl

theorem readNode_rids (t : Tree) (p : Int) : (readNode t p).rids = (V t p).rids := by
  rw [← view_readNode]; rfl

theorem readNode_parent (t : Tree) (p : Int) : (readNode t p).parent = (V t p).parent := by
  rw [← view_readNode]; rfl

theorem readNode_nextLeaf (t : Tree) (p : Int) (h : (V t p).isLeaf = true) :
    (readNode t p).nextLeaf = (V t p).nextLeaf := by
  have h' : (t.pages p).isLeaf = true := h
  simp [readNode, V, view, h']

theorem V_writeNode (t : Tree) (n : BPlusTreeNode) (p : Int) :
    V (writeNode t n) p = if p = n.pageNum then view n else V t p := by
  simp only [V, writeNode]
  split_ifs <;> rfl

theorem kidsOK_lengths (par : Int → Int) (g : Ghost) (p : Int) : ∀ (ks cs : List Int) (a b : Int),
    KidsOK par g p a b ks cs → cs.length = ks.length + 1 := by
  intro ks
  induction ks with
  | nil =>
    intro cs a b h
    match cs, h with
    | [c], _ => rfl
  | cons k ks ih =>
    intro cs a b h
    match cs, h with
    | c :: cs, h => simp [ih cs k b h.2.2]

theorem kidsOK_descend (par : Int → Int) (g : Ghost) (p key : Int) :
    ∀ (ks cs : List Int) (a b : Int), KidsOK par g p a b ks cs → a ≤ key → key < b →
      ChildOK par g p (cs.getD (ks.takeWhile fun k => decide (key ≥ k)).length 0)
          (g.lo (cs.getD (ks.takeWhile fun k => decide (key ≥ k)).length 0))
          (g.hi (cs.getD (ks.takeWhile fun k => decide (key ≥ k)).length 0)) ∧
        g.lo (cs.getD (ks.takeWhile fun k => decide (key ≥ k)).length 0) ≤ key ∧
        key < g.hi (cs.getD (ks.takeWhile fun k => decide (key ≥ k)).length 0) := by
  intro ks
  induction ks with
  | nil =>
    intro cs a b h ha hb
    match cs, h with
    | [c], h =>
      obtain ⟨_, h1, h2, h3, h4, h5⟩ := h
      simp only [List.takeWhile_nil, List.length_nil, List.getD_cons_zero]
      exact ⟨⟨h1, h2, rfl, rfl, h5⟩, by omega, by omega⟩
  | cons k ks ih =>
    intro cs a b h ha hb
    match cs, h with
    | c :: cs, h =>
      obtain ⟨_, ⟨h1, h2, h3, h4, h5⟩, hrest⟩ := h
      by_cases hk : key ≥ k
      · simp only [List.takeWhile_cons, hk, decide_True, if_true, List.length_cons,
          List.getD_cons_succ]
        exact ih cs k b hrest hk hb
      · simp only [List.takeWhile_cons, hk, decide_False, Bool.false_eq_true, if_false,
          List.length_nil, List.getD_cons_zero]
        exact ⟨⟨h1, h2, rfl, rfl, h5⟩, by omega, by omega⟩

theorem findLeafLoop_spec (t : Tree) (g : Ghost) (M : Int → Option RID) (key : Int)
    (hnode : ∀ p, g.inT p → NodeOK t g M p) :
    ∀ (fuel : Nat) (p : Int), g.inT p → g.lo p ≤ key → key < g.hi p → g.ht p < fuel →
      ∃ l, findLeafLoop fuel t key p = some l ∧ g.inT l ∧ (V t l).isLeaf = true ∧
        g.lo l ≤ key ∧ key < g.hi l := by
  intro fuel
  induction fuel with
  | zero => intro p _ _ _ h; omega
  | succ n ih =>
    intro p hin hlo hhi hht
    have hok := hnode p hin
    unfold NodeOK at hok
    simp only [findLeafLoop, readNode_isLeaf]
    by_cases hl : (V t p).isLeaf = true
    · simp only [hl, if_true]
      exact ⟨p, rfl, hin, hl, hlo, hhi⟩
    · simp only [hl, if_false] at hok ⊢
      obtain ⟨hkc, hkids⟩ := hok
      have hci : childIndex (readNode t p) key =
          ((V t p).keys.takeWhile fun k => decide (key ≥ k)).length := by
        simp only [childIndex, readNode_keys, readNode_keyCount, hkc, Int.toNat_ofNat,
          List.take_length]
      rw [hci, readNode_children]
      obtain ⟨⟨c1, _, _, _, c5⟩, c6, c7⟩ := kidsOK_descend _ g p key _ _ _ _ hkids hlo hhi
      exact ih _ c1 c6 c7 (by omega)

theorem lookupLoop_some (key : Int) : ∀ (ks : List Int) (rs : List RID) (r : RID),
    lookupLoop key ks rs = some r → (key, r) ∈ ks.zip rs := by
  intro ks
  induction ks with
  | nil => intro rs r h; simp [lookupLoop] at h
  | cons k ks ih =>
    intro rs r h
    cases rs with
    | nil => simp [lookupLoop] at h
    | cons r0 rs =>
      simp only [lookupLoop] at h
      split_ifs at h with hk
      · simp only [Option.some.injEq] at h
        subst h; subst hk
        exact List.mem_cons_self _ _
      · exact List.mem_cons_of_mem _ (ih rs r h)

theorem lookupLoop_none (key : Int) : ∀ (ks : List Int) (rs : List RID),
    lookupLoop key ks rs = none → ∀ r, (key, r) ∉ ks.zip rs := by
  intro ks
  induction ks with
  | nil => intro rs _ r; simp
  | cons k ks ih =>
    intro rs h r
    cases rs with
    | nil => simp
    | cons r0 rs =>
      simp only [lookupLoop] at h
      split_ifs at h with hk
      simp only [List.zip_cons_cons, List.mem_cons, Prod.mk.injEq, not_or, not_and]
      exact ⟨fun e => absurd e.symm hk, ih rs h r⟩

theorem zip_fst_unique : ∀ (ks : List Int) (rs : List RID), ks.Pairwise (· < ·) →
    ∀ k r r', (k, r) ∈ ks.zip rs → (k, r') ∈ ks.zip rs → r = r' := by
  intro ks
  induction ks with
  | nil => intro rs _ k r r' h; simp at h
  | cons k0 ks ih =>
    intro rs hp k r r' h h'
    cases rs with
    | nil => simp at h
    | cons r0 rs =>
      rw [List.pairwise_cons] at hp
      simp only [List.zip_cons_cons, List.mem_cons, Prod.mk.injEq] at h h'
      rcases h with ⟨rfl, rfl⟩ | h
      · rcases h' with ⟨_, rfl⟩ | h'
        · rfl
        · have := hp.1 k (List.of_mem_zip h').1
          omega
      · rcases h' with ⟨rfl, rfl⟩ | h'
        · have := hp.1 k (List.of_mem_zip h).1
          omega
        · exact ih rs hp.2 k r r' h h'

theorem lookupInLeaf_eq (n : BPlusTreeNode) (lo hi : Int) (M : Int → Option RID) (key : Int)
    (h : LeafOK n lo hi M) (hlo : lo ≤ key) (hhi : key < hi) :
    lookupInLeaf n key = M key := by
  obtain ⟨h1, h2, h3, h4⟩ := h
  unfold lookupInLeaf
  rw [h1, Int.toNat_ofNat, List.take_length]
  cases hl : lookupLoop key n.keys n.rids with
  | some r => exact ((h4 key r).1 (lookupLoop_some key _ _ r hl)).1.symm
  | none =>
    cases hm : M key with
    | none => rfl
    | some r => exact absurd ((h4 key r).2 ⟨hm, hlo, hhi⟩) (lookupLoop_none key _ _ hl r)

theorem lookupInLeaf_view (n : BPlusTreeNode) (key : Int) :
    lookupInLeaf n key = lookupInLeaf (view n) key := rfl

theorem findLeaf_spec (t : Tree) (g : Ghost) (M : Int → Option RID) (chain : List Int)
    (hg : Good t g M chain) (hroot : t.rootPage ≠ -1) (key : Int) (hlo : BOT ≤ key)
    (hhi : key < TOP) :
    ∃ l, findLeaf t key = some l ∧ g.inT l ∧ (V t l).isLeaf = true ∧
      g.lo l ≤ key ∧ key < g.hi l := by
  unfold findLeaf
  rw [if_neg hroot]
  apply findLeafLoop_spec t g M key hg.node_ok _ _ hg.root_in (by rw [hg.root_lo]; exact hlo)
    (by rw [hg.root_hi]; exact hhi)
  have := hg.height
  unfold nodeFuel
  omega

theorem search_spec (t : Tree) (M : Int → Option RID) (h : Inv t M) (key : Int)
    (hlo : BOT ≤ key) (hhi : key < TOP) : search t key = some (M key) := by
  obtain ⟨hk, _, _, _, hcase⟩ := h
  unfold search
  rcases hcase with ⟨hr, hM⟩ | ⟨hr, g, chain, hg⟩
  · simp [hk, hr, hM]
  · rw [if_neg (by simp [hk, hr])]
    obtain ⟨l, h1, h2, h3, h4, h5⟩ := findLeaf_spec t g M chain hg hr key hlo hhi
    have hl1 : l ≠ -1 := by have := (hg.range l h2).1; omega
    rw [h1]
    simp only [hl1, if_false]
    have hok := hg.node_ok l h2
    unfold NodeOK at hok
    rw [if_pos h3] at hok
    rw [lookupInLeaf_view, view_readNode, lookupInLeaf_eq _ _ _ M key hok.1 h4 h5]

/-! ## B+ tree: sorted lists of keys -/

theorem take_takeWhile_length {α : Type} (p : α → Bool) : ∀ l : List α,
    l.take (l.takeWhile p).length = l.takeWhile p := by
  intro l
  induction l with
  | nil => rfl
  | cons x l ih =>
    by_cases h : p x
    · simp [List.takeWhile_cons, h, ih]
    · simp [List.takeWhile_cons, h]

theorem drop_takeWhile_length {α : Type} (p : α → Bool) : ∀ l : List α,
    l.drop (l.takeWhile p).length = l.dropWhile p := by
  intro l
  induction l with
  | nil => rfl
  | cons x l ih =>
    by_cases h : p x
    · simp [List.takeWhile_cons, List.dropWhile_cons, h, ih]
    · simp [List.takeWhile_cons, List.dropWhile_cons, h]

theorem takeWhile_length_le {α : Type} (p : α → Bool) (l : List α) :
    (l.takeWhile p).length ≤ l.length := by
  have := congrArg List.length (List.takeWhile_append_dropWhile p l)
  simp only [List.length_append] at this
  omega

/-- Sorted keys split at the insertion point of `key`: smaller before, not
smaller after. -/
theorem sorted_split_lt (key : Int) : ∀ ks : List Int, ks.Pairwise (· < ·) →
    (∀ k ∈ ks.takeWhile (fun k => decide (k < key)), k < key) ∧
      (∀ k ∈ ks.dropWhile (fun k => decide (k < key)), key ≤ k) := by
  intro ks
  induction ks with
  | nil => intro _; simp
  | cons x ks ih =>
    intro hp
    rw [List.pairwise_cons] at hp
    obtain ⟨h1, h2⟩ := ih hp.2
    by_cases hx : x < key
    · simp only [List.takeWhile_cons, List.dropWhile_cons, hx, decide_True, if_true,
        List.mem_cons]
      exact ⟨fun k hk => by rcases hk with rfl | hk; exact hx; exact h1 k hk, h2⟩
    · simp only [List.takeWhile_cons, List.dropWhile_cons, hx, decide_False, Bool.false_eq_true,
        if_false, List.not_mem_nil, List.mem_cons]
      refine ⟨fun k hk => hk.elim, fun k hk => ?_⟩
      rcases hk with rfl | hk
      · omega
      · have := hp.1 k hk; omega

theorem insertAt_length {α : Type} (l : List α) (i : Nat) (x : α) (h : i ≤ l.length) :
    (insertAt l i x).length = l.length + 1 := by
  simp only [insertAt, List.length_append, List.length_take, List.length_cons, List.length_drop]
  omega

theorem pairwise_insert_sorted (key : Int) (ks : List Int) (hp : ks.Pairwise (· < ·))
    (hn : key ∉ ks) :
    (insertAt ks (ks.takeWhile fun k => decide (k < key)).length key).Pairwise (· < ·) := by
  obtain ⟨h1, h2⟩ := sorted_split_lt key ks hp
  unfold insertAt
  rw [take_takeWhile_length, drop_takeWhile_length]
  have hsplit := List.takeWhile_append_dropWhile (fun k => decide (k < key)) ks
  rw [← hsplit] at hp hn
  rw [List.pairwise_append] at hp ⊢
  obtain ⟨p1, p2, p3⟩ := hp
  refine ⟨p1, ?_, ?_⟩
  · rw [List.pairwise_cons]
    refine ⟨fun k hk => ?_, p2⟩
    have := h2 k hk
    have : k ≠ key := by
      intro e; subst e; exact hn (List.mem_append_right _ hk)
    omega
  · intro a ha b hb
    rcases List.mem_cons.1 hb with rfl | hb
    · exact h1 a ha
    · exact p3 a ha b hb

theorem mem_zip_insertAt (ks : List Int) (rs : List RID) (i : Nat) (key : Int) (rid : RID)
    (hlen : rs.length = ks.length) (k : Int) (r : RID) :
    (k, r) ∈ (insertAt ks i key).zip (insertAt rs i rid) ↔
      (k, r) = (key, rid) ∨ (k, r) ∈ ks.zip rs := by
  unfold insertAt
  rw [List.zip_append (by simp [hlen]), List.zip_cons_cons]
  have hz : ks.zip rs = (ks.take i).zip (rs.take i) ++ (ks.drop i).zip (rs.drop i) := by
    rw [← List.zip_append (by simp [hlen]), List.take_append_drop, List.take_append_drop]
  rw [hz]
  simp only [List.mem_append, List.mem_cons]
  tauto

theorem mem_insertAt {α : Type} (l : List α) (i : Nat) (x y : α) :
    y ∈ insertAt l i x ↔ y = x ∨ y ∈ l := by
  unfold insertAt
  have h : y ∈ l ↔ y ∈ l.take i ∨ y ∈ l.drop i := by
    rw [← List.mem_append, List.take_append_drop]
  rw [h]
  simp only [List.mem_append, List.mem_cons]
  tauto

/-- A sorted leaf cut at position `mid`: the two halves and their entries. -/
theorem sorted_cut (ks : List Int) (rs : List RID) (mid : Nat) (hp : ks.Pairwise (· < ·))
    (hlen : rs.length = ks.length) (hmid : mid < ks.length) :
    (ks.take mid).Pairwise (· < ·) ∧ (ks.drop mid).Pairwise (· < ·) ∧
    (∀ k r, (k, r) ∈ (ks.take mid).zip (rs.take mid) ↔
      ((k, r) ∈ ks.zip rs ∧ k < ks.getD mid 0)) ∧
    (∀ k r, (k, r) ∈ (ks.drop mid).zip (rs.drop mid) ↔
      ((k, r) ∈ ks.zip rs ∧ ks.getD mid 0 ≤ k)) ∧
    (∀ k ∈ ks.take mid, k < ks.getD mid 0) ∧ (ks.drop mid).getD 0 0 = ks.getD mid 0 := by
  have hsplit := List.take_append_drop mid ks
  have hp' := hp
  rw [← hsplit, List.pairwise_append] at hp'
  obtain ⟨p1, p2, p3⟩ := hp'
  have hd : ks.drop mid = ks.getD mid 0 :: ks.drop (mid + 1) := by
    rw [List.getD_eq_getElem _ _ hmid]
    exact List.drop_eq_getElem_cons hmid
  have hlow : ∀ k ∈ ks.take mid, k < ks.getD mid 0 :=
    fun k hk => p3 k hk _ (by rw [hd]; exact List.mem_cons_self _ _)
  have hhigh : ∀ k ∈ ks.drop mid, ks.getD mid 0 ≤ k := by
    intro k hk
    rw [hd] at hk p2
    rw [List.pairwise_cons] at p2
    rcases List.mem_cons.1 hk with rfl | hk
    · exact le_refl _
    · exact le_of_lt (p2.1 k hk)
  have hz : ks.zip rs = (ks.take mid).zip (rs.take mid) ++ (ks.drop mid).zip (rs.drop mid) := by
    rw [← List.zip_append (by simp [hlen]), List.take_append_drop, List.take_append_drop]
  refine ⟨p1, p2, fun k r => ?_, fun k r => ?_, hlow, by rw [hd]; rfl⟩
  · rw [hz, List.mem_append]
    constructor
    · intro h; exact ⟨Or.inl h, hlow k (List.of_mem_zip h).1⟩
    · rintro ⟨h | h, hk⟩
      · exact h
      · have := hhigh k (List.of_mem_zip h).1; omega
  · rw [hz, List.mem_append]
    constructor
    · intro h; exact ⟨Or.inr h, hhigh k (List.of_mem_zip h).1⟩
    · rintro ⟨h | h, hk⟩
      · have := hlow k (List.of_mem_zip h).1; omega
      · exact h

/-! ## B+ tree: frame lemmas -/

theorem kidsOK_congr (par par' : Int → Int) (g g' : Ghost) (p p' : Int) :
    ∀ (ks cs : List Int) (a b : Int),
      (∀ c ∈ cs, ∀ x y, ChildOK par g p c x y → ChildOK par' g' p' c x y) →
      KidsOK par g p a b ks cs → KidsOK par' g' p' a b ks cs := by
  intro ks
  induction ks with
  | nil =>
    intro cs a b hc h
    match cs, h with
    | [c], h => exact ⟨h.1, hc c (List.mem_cons_self _ _) a b h.2⟩
  | cons k ks ih =>
    intro cs a b hc h
    match cs, h with
    | c :: cs, h =>
      exact ⟨h.1, hc c (List.mem_cons_self _ _) a k h.2.1,
        ih cs k b (fun c' hc' => hc c' (List.mem_cons_of_mem _ hc')) h.2.2⟩

theorem kidsOK_lt (par : Int → Int) (g : Ghost) (p : Int) :
    ∀ (ks cs : List Int) (a b : Int), KidsOK par g p a b ks cs → a < b := by
  intro ks
  induction ks with
  | nil =>
    intro cs a b h
    match cs, h with
    | [c], h => exact h.1
  | cons k ks ih =>
    intro cs a b h
    match cs, h with
    | c :: cs, h => have := ih cs k b h.2.2; have := h.1; omega

theorem kidsOK_mem (par : Int → Int) (g : Ghost) (p : Int) :
    ∀ (ks cs : List Int) (a b : Int), KidsOK par g p a b ks cs → ∀ c ∈ cs,
      g.inT c ∧ par c = p ∧ a ≤ g.lo c ∧ g.lo c < g.hi c ∧ g.hi c ≤ b ∧ g.ht c + 1 = g.ht p := by
  intro ks
  induction ks with
  | nil =>
    intro cs a b h c hc
    match cs, h with
    | [c0], h =>
      obtain ⟨h0, h1, h2, h3, h4, h5⟩ := h
      simp only [List.mem_singleton] at hc
      subst hc
      exact ⟨h1, h2, by omega, by omega, by omega, h5⟩
  | cons k ks ih =>
    intro cs a b h c hc
    match cs, h with
    | c0 :: cs, h =>
      obtain ⟨h0, ⟨h1, h2, h3, h4, h5⟩, hrest⟩ := h
      have hkb := kidsOK_lt par g p ks cs k b hrest
      rcases List.mem_cons.1 hc with rfl | hc
      · exact ⟨h1, h2, by omega, by omega, by omega, h5⟩
      · obtain ⟨r1, r2, r3, r4, r5, r6⟩ := ih cs k b hrest c hc
        exact ⟨r1, r2, by omega, r4, r5, r6⟩

theorem upOK_sameShape (t t' : Tree) (g : Ghost) (h : SameShape t t') (p : Int)
    (hu : UpOK t g p) : UpOK t' g p := by
  unfold UpOK at hu ⊢
  rw [(h.2 p).1, h.1, (h.2 _).2.1, (h.2 _).2.2.1]
  exact hu

theorem chainOK_sameShape (t t' : Tree) (g : Ghost) (h : SameShape t t') :
    ∀ chain, ChainOK t g chain → ChainOK t' g chain := by
  intro chain
  induction chain with
  | nil => intro hc; exact hc
  | cons l rest ih =>
    intro hc
    cases rest with
    | nil =>
      obtain ⟨h1, h2, h3, h4⟩ := hc
      exact ⟨h1, by rw [(h.2 l).2.1]; exact h2, by rw [(h.2 l).2.2.2]; exact h3, h4⟩
    | cons l2 rest =>
      obtain ⟨h1, h2, h3, h4, h5⟩ := hc
      exact ⟨h1, by rw [(h.2 l).2.1]; exact h2, by rw [(h.2 l).2.2.2]; exact h3, h4, ih h5⟩

theorem parentOf_sameShape (t t' : Tree) (h : SameShape t t') : parentOf t' = parentOf t := by
  funext c; exact (h.2 c).1

/-- Along the chain the intervals follow each other. -/
theorem chain_pairwise (t : Tree) (g : Ghost) (hlt : ∀ l, g.inT l → (V t l).isLeaf = true →
    g.lo l < g.hi l) : ∀ chain, ChainOK t g chain →
    chain.Pairwise (fun x y => g.hi x ≤ g.lo y) ∧ ∀ x ∈ chain, g.inT x ∧ (V t x).isLeaf = true := by
  intro chain
  induction chain with
  | nil => intro h; exact h.elim
  | cons l rest ih =>
    intro hc
    cases rest with
    | nil =>
      exact ⟨List.pairwise_singleton _ _, fun x hx => by
        rw [List.mem_singleton] at hx; subst hx; exact ⟨hc.1, hc.2.1⟩⟩
    | cons l2 rest =>
      obtain ⟨h1, h2, h3, h4, h5⟩ := hc
      obtain ⟨ih1, ih2⟩ := ih h5
      refine ⟨?_, fun x hx => ?_⟩
      · rw [List.pairwise_cons]
        refine ⟨fun y hy => ?_, ih1⟩
        rcases List.mem_cons.1 hy with rfl | hy
        · omega
        · rw [List.pairwise_cons] at ih1
          have a1 := ih1.1 y hy
          have a2 := hlt l2 (ih2 l2 (List.mem_cons_self _ _)).1 (ih2 l2 (List.mem_cons_self _ _)).2
          omega
      · rcases List.mem_cons.1 hx with rfl | hx
        · exact ⟨h1, h2⟩
        · exact ih2 x hx

theorem leaf_lt (t : Tree) (g : Ghost) (M : Int → Option RID) (chain : List Int)
    (hg : Good t g M chain) (l : Int) (hin : g.inT l) (hl : (V t l).isLeaf = true) :
    g.lo l < g.hi l := by
  have := hg.node_ok l hin
  unfold NodeOK at this
  rw [if_pos hl] at this
  exact this.2.2

/-- Two different leaves of the tree have disjoint intervals. -/
theorem leaf_disjoint (t : Tree) (g : Ghost) (M : Int → Option RID) (chain : List Int)
    (hg : Good t g M chain) (x y : Int) (hx : g.inT x) (hy : g.inT y)
    (hxl : (V t x).isLeaf = true) (hyl : (V t y).isLeaf = true) (hne : x ≠ y) :
    g.hi x ≤ g.lo y ∨ g.hi y ≤ g.lo x := by
  obtain ⟨hp, _⟩ := chain_pairwise t g (leaf_lt t g M chain hg) chain hg.chain_ok
  have hsym : chain.Pairwise (fun a b => a = b ∨ g.hi a ≤ g.lo b ∨ g.hi b ≤ g.lo a) :=
    hp.imp (fun h => Or.inr (Or.inl h))
  have := List.Pairwise.forall_of_forall (l := chain)
    (R := fun a b => a = b ∨ g.hi a ≤ g.lo b ∨ g.hi b ≤ g.lo a)
    (fun a b h => by rcases h with h | h | h; exact Or.inl h.symm; exact Or.inr (Or.inr h);
                     exact Or.inr (Or.inl h))
    (fun a _ => Or.inl rfl) hsym (hg.chain_all x hx hxl) (hg.chain_all y hy hyl)
  rcases this with h | h
  · exact absurd h hne
  · exact h

theorem nodeOK_lt (t : Tree) (g : Ghost) (M : Int → Option RID) (p : Int)
    (h : NodeOK t g M p) : g.lo p < g.hi p := by
  unfold NodeOK at h
  split_ifs at h
  · exact h.2.2
  · exact kidsOK_lt _ g p _ _ _ _ h.2

theorem nodeOK_frame (t t' : Tree) (g g' : Ghost) (M M' : Int → Option RID) (p : Int)
    (h : NodeOK t g M p)
    (hd : (V t' p).isLeaf = (V t p).isLeaf ∧ (V t' p).keyCount = (V t p).keyCount ∧
      (V t' p).keys = (V t p).keys ∧ (V t' p).children = (V t p).children ∧
      (V t' p).rids = (V t p).rids)
    (hlo : g'.lo p = g.lo p) (hhi : g'.hi p = g.hi p) (hht : g'.ht p = g.ht p)
    (hM : (V t p).isLeaf = true → ∀ k, g.lo p ≤ k → k < g.hi p → M' k = M k)
    (hc : (V t p).isLeaf = false → ∀ c ∈ (V t p).children, g.inT c → parentOf t c = p →
      g.ht c + 1 = g.ht p →
      g'.inT c ∧ g'.lo c = g.lo c ∧ g'.hi c = g.hi c ∧ g'.ht c = g.ht c ∧ parentOf t' c = p) :
    NodeOK t' g' M' p := by
  obtain ⟨d1, d2, d3, d4, d5⟩ := hd
  unfold NodeOK at h ⊢
  rw [d1, hlo, hhi, hht]
  by_cases hl : (V t p).isLeaf = true
  · rw [if_pos hl] at h ⊢
    obtain ⟨⟨h1, h2, h3, h4⟩, h5, h6⟩ := h
    refine ⟨⟨by rw [d2, d3]; exact h1, by rw [d5, d3]; exact h2, by rw [d3]; exact h3, ?_⟩, h5, h6⟩
    intro k r
    rw [d3, d5, h4 k r]
    constructor
    · rintro ⟨a, b, c⟩; exact ⟨by rw [hM hl k b c]; exact a, b, c⟩
    · rintro ⟨a, b, c⟩; exact ⟨by rw [← hM hl k b c]; exact a, b, c⟩
  · rw [if_neg hl] at h ⊢
    have hl' : (V t p).isLeaf = false := by simpa using hl
    refine ⟨by rw [d2, d3]; exact h.1, ?_⟩
    rw [d3, d4]
    refine kidsOK_congr _ _ g g' p p _ _ _ _ ?_ h.2
    intro c hcm x y ⟨c1, c2, c3, c4, c5⟩
    obtain ⟨e1, e2, e3, e4, e5⟩ := hc hl' c hcm c1 c2 c5
    exact ⟨e1, e5, by rw [e2]; exact c3, by rw [e3]; exact c4, by rw [e4, hht]; exact c5⟩

theorem indexOfChild_cons (c : Int) (cs : List Int) (page : Int) :
    indexOfChild (c :: cs) page = if c = page then 0 else indexOfChild cs page + 1 := by
  unfold indexOfChild
  by_cases h : c = page <;> simp [List.takeWhile_cons, h]

theorem insertAt_zero {α : Type} (l : List α) (x : α) : insertAt l 0 x = x :: l := by
  simp [insertAt]

theorem insertAt_succ {α : Type} (a : α) (l : List α) (i : Nat) (x : α) :
    insertAt (a :: l) (i + 1) x = a :: insertAt l i x := by
  simp [insertAt]

/-- Inserting the separator and the new right half after the child `L`. -/
theorem kidsOK_insert (par par' : Int → Int) (g g' : Ghost) (p L R sep : Int)
    (hL1 : g'.inT L) (hR1 : g'.inT R)
    (hLlo : g'.lo L = g.lo L) (hLhi : g'.hi L = sep) (hRlo : g'.lo R = sep)
    (hRhi : g'.hi R = g.hi L) (hs1 : g.lo L < sep) (hs2 : sep < g.hi L)
    (hLht : g'.ht L = g.ht L) (hRht : g'.ht R = g.ht L)
    (hpL : par' L = p) (hpR : par' R = p) (hp : g'.ht p = g.ht p)
    (hframe : ∀ c, g.inT c → c ≠ L → par c = p → g'.inT c ∧ g'.lo c = g.lo c ∧ g'.hi c = g.hi c ∧
      g'.ht c = g.ht c ∧ par' c = p) :
    ∀ (ks cs : List Int) (a b : Int), KidsOK par g p a b ks cs → L ∈ cs →
      KidsOK par' g' p a b (insertAt ks (indexOfChild cs L) sep)
        (insertAt cs (indexOfChild cs L + 1) R) := by
  have hch : ∀ c x y, c ≠ L → ChildOK par g p c x y → ChildOK par' g' p c x y := by
    intro c x y hne ⟨c1, c2, c3, c4, c5⟩
    obtain ⟨e1, e2, e3, e4, e5⟩ := hframe c c1 hne c2
    exact ⟨e1, e5, by rw [e2]; exact c3, by rw [e3]; exact c4, by rw [e4, hp]; exact c5⟩
  intro ks
  induction ks with
  | nil =>
    intro cs a b h hmem
    match cs, h with
    | [c], h =>
      simp only [List.mem_singleton] at hmem
      subst hmem
      obtain ⟨h0, h1, h2, h3, h4, h5⟩ := h
      simp only [indexOfChild_cons, if_true, insertAt_zero, insertAt_succ]
      exact ⟨by omega, ⟨hL1, hpL, by omega, hLhi, by rw [hLht, hp]; exact h5⟩,
        by omega, ⟨hR1, hpR, hRlo, by omega, by rw [hRht, hp]; exact h5⟩⟩
  | cons k ks ih =>
    intro cs a b h hmem
    match cs, h with
    | c :: cs, h =>
      obtain ⟨h0, ⟨h1, h2, h3, h4, h5⟩, hrest⟩ := h
      by_cases hc : c = L
      · subst hc
        simp only [indexOfChild_cons, if_true, insertAt_zero, insertAt_succ]
        refine ⟨by omega, ⟨hL1, hpL, by omega, hLhi, by rw [hLht, hp]; exact h5⟩, ?_⟩
        have hrest' : KidsOK par' g' p k b ks cs := by
          refine kidsOK_congr par par' g g' p p ks cs k b ?_ hrest
          intro c' hc' x y hco
          refine hch c' x y ?_ hco
          intro e
          have := (kidsOK_mem par g p ks cs k b hrest c' hc').2.2.1
          rw [e] at this
          omega
        match ks, cs, hrest, hrest' with
        | [], [c2], hrest, hrest' =>
          exact ⟨by omega, ⟨hR1, hpR, hRlo, by omega, by rw [hRht, hp]; exact h5⟩, hrest'⟩
        | k2 :: ks2, c2 :: cs2, hrest, hrest' =>
          exact ⟨by omega, ⟨hR1, hpR, hRlo, by omega, by rw [hRht, hp]; exact h5⟩, hrest'⟩
      · have hmem' : L ∈ cs := by
          rcases List.mem_cons.1 hmem with e | e
          · exact absurd e.symm hc
          · exact e
        simp only [indexOfChild_cons, if_neg hc, insertAt_succ]
        exact ⟨h0, hch c a k hc ⟨h1, h2, h3, h4, h5⟩, ih cs k b hrest hmem'⟩

/-- Cutting an internal node at the key of index `mid`. -/
theorem kidsOK_split (par : Int → Int) (g : Ghost) (p : Int) :
    ∀ (mid : Nat) (ks cs : List Int) (a b : Int), KidsOK par g p a b ks cs → mid < ks.length →
      KidsOK par g p a (ks.getD mid 0) (ks.take mid) (cs.take (mid + 1)) ∧
      KidsOK par g p (ks.getD mid 0) b (ks.drop (mid + 1)) (cs.drop (mid + 1)) := by
  intro mid
  induction mid with
  | zero =>
    intro ks cs a b h hm
    match ks, cs, h with
    | k :: ks, c :: cs, h =>
      simp only [List.getD_cons_zero, List.take_zero, zero_add, List.take_succ_cons,
        List.drop_succ_cons, List.drop_zero]
      exact ⟨⟨h.1, h.2.1⟩, h.2.2⟩
  | succ n ih =>
    intro ks cs a b h hm
    match ks, cs, h with
    | k :: ks, c :: cs, h =>
      simp only [List.length_cons, Nat.add_lt_add_iff_right] at hm
      obtain ⟨i1, i2⟩ := ih ks cs k b h.2.2 hm
      simp only [List.getD_cons_succ, List.take_succ_cons, List.drop_succ_cons]
      exact ⟨⟨h.1, h.2.1, i1⟩, i2⟩

theorem takeLast_children (cs : List Int) (n m : Nat) (hlen : cs.length = n + 1) (hm : m ≤ n) :
    (cs.take n).drop m ++ [cs.getLastD 0] = cs.drop m := by
  rcases List.eq_nil_or_concat cs with e | ⟨init, last, e⟩
  · rw [e] at hlen; simp at hlen
  · rw [List.concat_eq_append] at e
    subst e
    simp only [List.length_append, List.length_singleton, Nat.add_right_cancel_iff] at hlen
    rw [List.take_left' hlen]
    have : (init ++ [last]).getLastD 0 = last := by simp
    rw [this, List.drop_append_of_le_length (by omega)]

theorem view_setParent_readNode (t : Tree) (c Q : Int) :
    view { readNode t c with parent := Q } = { V t c with parent := Q } := by
  simp only [readNode, V, view]
  split_ifs with h <;> simp [h]

theorem V_reparent (Q : Int) : ∀ (cs : List Int) (t : Tree) (p : Int),
    V (reparent t Q cs) p = if p ∈ cs then { V t p with parent := Q } else V t p := by
  intro cs
  induction cs with
  | nil => intro t p; simp [reparent]
  | cons c rest ih =>
    intro t p
    rw [reparent, ih, V_writeNode, readNode_pageNum, view_setParent_readNode]
    by_cases h1 : p ∈ rest <;> by_cases h2 : p = c <;> simp [h1, h2]

theorem reparent_fields (Q : Int) : ∀ (cs : List Int) (t : Tree),
    (reparent t Q cs).rootPage = t.rootPage ∧ (reparent t Q cs).nodeCount = t.nodeCount ∧
    (reparent t Q cs).order = t.order ∧ (reparent t Q cs).keyType = t.keyType := by
  intro cs
  induction cs with
  | nil => intro t; simp [reparent]
  | cons c rest ih =>
    intro t
    rw [reparent]
    obtain ⟨a, b, c', d⟩ := ih (writeNode t { readNode t c with parent := Q })
    exact ⟨a, b, c', d⟩

theorem chainOK_frame (t t' : Tree) (g g' : Ghost) : ∀ chain, ChainOK t g chain →
    (∀ l ∈ chain, g.inT l → (V t l).isLeaf = true → g'.inT l ∧ g'.lo l = g.lo l ∧
      g'.hi l = g.hi l ∧ (V t' l).isLeaf = true ∧ (V t' l).nextLeaf = (V t l).nextLeaf) →
    ChainOK t' g' chain := by
  intro chain
  induction chain with
  | nil => intro hc _; exact hc
  | cons l rest ih =>
    intro hc hf
    cases rest with
    | nil =>
      obtain ⟨h1, h2, h3, h4⟩ := hc
      obtain ⟨e1, e2, e3, e4, e5⟩ := hf l (List.mem_cons_self _ _) h1 h2
      exact ⟨e1, e4, by rw [e5]; exact h3, by rw [e3]; exact h4⟩
    | cons l2 rest =>
      obtain ⟨h1, h2, h3, h4, h5⟩ := hc
      obtain ⟨e1, e2, e3, e4, e5⟩ := hf l (List.mem_cons_self _ _) h1 h2
      have hl2 : g.inT l2 ∧ (V t l2).isLeaf = true := by
        cases rest with
        | nil => exact ⟨h5.1, h5.2.1⟩
        | cons l3 rest => exact ⟨h5.1, h5.2.1⟩
      obtain ⟨f1, f2, f3, f4, f5⟩ := hf l2 (List.mem_cons_of_mem _ (List.mem_cons_self _ _))
        hl2.1 hl2.2
      exact ⟨e1, e4, by rw [e5]; exact h3, by rw [e3, f2]; exact h4,
        ih h5 (fun x hx => hf x (List.mem_cons_of_mem _ hx))⟩

theorem mem_insertAfter (L R p : Int) : ∀ chain : List Int,
    p ∈ insertAfter L R chain ↔ p ∈ chain ∨ (p = R ∧ L ∈ chain) := by
  intro chain
  induction chain with
  | nil => simp [insertAfter]
  | cons l rest ih =>
    rw [insertAfter]
    by_cases h : l = L
    · subst h
      simp only [if_true, List.mem_cons, true_or, and_true]
      tauto
    · simp only [if_neg h, List.mem_cons, ih]
      have : ¬ L = l := fun e => h e.symm
      tauto

theorem length_insertAfter (L R : Int) : ∀ chain : List Int,
    (insertAfter L R chain).length ≤ chain.length + 1 := by
  intro chain
  induction chain with
  | nil => simp [insertAfter]
  | cons l rest ih =>
    rw [insertAfter]
    split_ifs
    · simp
    · simp only [List.length_cons]; omega

theorem chainOK_insertAfter (t t' : Tree) (g g' : Ghost) (L R sep : Int)
    (hlt : ∀ l, g.inT l → (V t l).isLeaf = true → g.lo l < g.hi l)
    (hL : g'.inT L ∧ (V t' L).isLeaf = true ∧ (V t' L).nextLeaf = R ∧ g'.hi L = sep ∧
      g'.lo L = g.lo L)
    (hR : g'.inT R ∧ (V t' R).isLeaf = true ∧ (V t' R).nextLeaf = (V t L).nextLeaf ∧
      g'.lo R = sep ∧ g'.hi R = g.hi L)
    (hframe : ∀ l, g.inT l → (V t l).isLeaf = true → l ≠ L → g'.inT l ∧ g'.lo l = g.lo l ∧
      g'.hi l = g.hi l ∧ (V t' l).isLeaf = true ∧ (V t' l).nextLeaf = (V t l).nextLeaf) :
    ∀ chain, ChainOK t g chain → L ∈ chain → ChainOK t' g' (insertAfter L R chain) := by
  obtain ⟨L1, L2, L3, L4, L5⟩ := hL
  obtain ⟨R1, R2, R3, R4, R5⟩ := hR
  intro chain
  induction chain with
  | nil => intro hc _; exact hc.elim
  | cons l rest ih =>
    intro hc hmem
    have hpw := (chain_pairwise t g hlt _ hc).1
    rw [List.pairwise_cons] at hpw
    cases rest with
    | nil =>
      simp only [List.mem_singleton] at hmem
      subst hmem
      obtain ⟨h1, h2, h3, h4⟩ := hc
      simp only [insertAfter, if_true]
      exact ⟨L1, L2, L3, by rw [L4, R4], R1, R2, by rw [R3]; exact h3, by rw [R5]; exact h4⟩
    | cons l2 rest =>
      obtain ⟨h1, h2, h3, h4, h5⟩ := hc
      have hl2 : g.inT l2 ∧ (V t l2).isLeaf = true := by
        cases rest with
        | nil => exact ⟨h5.1, h5.2.1⟩
        | cons l3 rest => exact ⟨h5.1, h5.2.1⟩
      by_cases hl : l = L
      · subst hl
        rw [insertAfter, if_pos rfl]
        have hne : ∀ y ∈ l2 :: rest, y ≠ l := by
          intro y hy e
          have := hpw.1 y hy
          have := hlt l h1 h2
          rw [e] at *
          omega
        have hrest : ChainOK t' g' (l2 :: rest) :=
          chainOK_frame t t' g g' _ h5 (fun x hx i1 i2 => hframe x i1 i2 (hne x hx))
        obtain ⟨f1, f2, f3, f4, f5⟩ := hframe l2 hl2.1 hl2.2 (hne l2 (List.mem_cons_self _ _))
        exact ⟨L1, L2, L3, by rw [L4, R4], R1, R2, by rw [R3]; exact h3,
          by rw [R5, f2]; exact h4, hrest⟩
      · have hmem' : L ∈ l2 :: rest := by
          rcases List.mem_cons.1 hmem with e | e
          · exact absurd e.symm hl
          · exact e
        have ih' := ih h5 hmem'
        obtain ⟨e1, e2, e3, e4, e5⟩ := hframe l h1 h2 hl
        have hlo2 : g'.lo l2 = g.lo l2 := by
          by_cases e : l2 = L
          · rw [e]; exact L5
          · exact (hframe l2 hl2.1 hl2.2 e).2.1
        rw [insertAfter, if_neg hl]
        rw [insertAfter] at ih' ⊢
        split_ifs at ih' ⊢ with e
        · exact ⟨e1, e4, by rw [e5]; exact h3, by rw [e3, hlo2]; exact h4, ih'⟩
        · exact ⟨e1, e4, by rw [e5]; exact h3, by rw [e3, hlo2]; exact h4, ih'⟩

/-- The children left and right of the cut are different pages. -/
theorem kidsOK_split_disjoint (par : Int → Int) (g : Ghost) (p : Int) (mid : Nat)
    (ks cs : List Int) (a b : Int) (h : KidsOK par g p a b ks cs) (hm : mid < ks.length)
    (c : Int) (h1 : c ∈ cs.take (mid + 1)) (h2 : c ∈ cs.drop (mid + 1)) : False := by
  obtain ⟨k1, k2⟩ := kidsOK_split par g p mid ks cs a b h hm
  have e1 := kidsOK_mem par g p _ _ _ _ k1 c h1
  have e2 := kidsOK_mem par g p _ _ _ _ k2 c h2
  omega

/-! ## B+ tree: insertion into the parent -/

theorem Pend.left_root {t : Tree} {g : Ghost} {M : Int → Option RID} {chain : List Int}
    {left right : BPlusTreeNode} {sep : Int} (h : Pend t g M chain left right sep)
    (hp : left.parent = -1) : left.pageNum = t.rootPage := by
  have hu := h.up_ok left.pageNum h.left_in h.ne
  unfold UpOK at hu
  have hv : (V t left.pageNum).parent = -1 := by rw [h.left_v]; exact hp
  rcases hu with ⟨_, e⟩ | ⟨e, _⟩
  · exact e
  · exact absurd hv e

/-- The view of a node does not depend on the fields a write of `parent`
leaves alone. -/
theorem view_setParent (n : BPlusTreeNode) (x : Int) :
    (view { n with parent := x }).isLeaf = (view n).isLeaf ∧
    (view { n with parent := x }).keyCount = (view n).keyCount ∧
    (view { n with parent := x }).keys = (view n).keys ∧
    (view { n with parent := x }).children = (view n).children ∧
    (view { n with parent := x }).rids = (view n).rids ∧
    (view { n with parent := x }).nextLeaf = (view n).nextLeaf ∧
    (view { n with parent := x }).parent = x :=
  ⟨rfl, rfl, rfl, rfl, rfl, rfl, rfl⟩

theorem insertIntoParent_root (fuel : Nat) (t : Tree) (g : Ghost) (M : Int → Option RID)
    (chain : List Int) (left right : BPlusTreeNode) (sep : Int)
    (h : Pend t g M chain left right sep) (hp : left.parent = -1) :
    ∃ t', insertIntoParent (fuel + 1) t left sep right = some t' ∧ t'.keyType = t.keyType ∧
      t'.order = t.order ∧ t'.rootPage ≠ -1 ∧ ∃ g', Good t' g' M chain := by
  have hLroot := h.left_root hp
  have hrL := h.range _ h.left_in
  have hrR := h.range _ h.right_in
  have hNin : ¬ g.inT (t.nodeCount + 1) := fun e => by have := h.range _ e; omega
  have hNL : left.pageNum ≠ t.nodeCount + 1 := by omega
  have hNR : right.pageNum ≠ t.nodeCount + 1 := by omega
  have hRp : right.parent = -1 := by rw [h.par_eq]; exact hp
  have hstep : insertIntoParent (fuel + 1) t left sep right =
      some ({ writeNode (writeNode (writeNode { t with nodeCount := t.nodeCount + 1 }
        { pageNum := t.nodeCount + 1, isLeaf := false, keyCount := 1, parent := -1, keys := [sep],
          children := [left.pageNum, right.pageNum] })
        { left with parent := t.nodeCount + 1 }) { right with parent := t.nodeCount + 1 } with
      rootPage := t.nodeCount + 1 } : Tree) := by
    rw [insertIntoParent, if_pos hp]
    rfl
  rw [hstep]
  generalize ht' : ({ writeNode (writeNode (writeNode { t with nodeCount := t.nodeCount + 1 }
        { pageNum := t.nodeCount + 1, isLeaf := false, keyCount := 1, parent := -1, keys := [sep],
          children := [left.pageNum, right.pageNum] })
        { left with parent := t.nodeCount + 1 }) { right with parent := t.nodeCount + 1 } with
      rootPage := t.nodeCount + 1 } : Tree) = t'
  have hroot : t'.rootPage = t.nodeCount + 1 := by rw [← ht']
  have hcount : t'.nodeCount = t.nodeCount + 1 := by rw [← ht']; rfl
  have hkt : t'.keyType = t.keyType := by rw [← ht']; rfl
  have hord : t'.order = t.order := by rw [← ht']; rfl
  refine ⟨t', rfl, hkt, hord, by rw [hroot]; omega, ?_⟩
  have hV : ∀ p, V t' p = if p = right.pageNum then view { right with parent := t.nodeCount + 1 }
      else if p = left.pageNum then view { left with parent := t.nodeCount + 1 }
      else if p = t.nodeCount + 1 then
        view { pageNum := t.nodeCount + 1, isLeaf := false, keyCount := 1, parent := -1,
               keys := [sep], children := [left.pageNum, right.pageNum] }
      else V t p := by
    intro p
    rw [← ht']
    simp only [V, writeNode]
    split_ifs <;> rfl
  have hVN : V t' (t.nodeCount + 1) =
      view { pageNum := t.nodeCount + 1, isLeaf := false, keyCount := 1, parent := -1,
             keys := [sep], children := [left.pageNum, right.pageNum] } := by
    rw [hV, if_neg (Ne.symm hNR), if_neg (Ne.symm hNL), if_pos rfl]
  have hVL : V t' left.pageNum = view { left with parent := t.nodeCount + 1 } := by
    rw [hV, if_neg h.ne, if_pos rfl]
  have hVR : V t' right.pageNum = view { right with parent := t.nodeCount + 1 } := by
    rw [hV, if_pos rfl]
  have hVo : ∀ p, p ≠ t.nodeCount + 1 → p ≠ left.pageNum → p ≠ right.pageNum →
      V t' p = V t p := by
    intro p p1 p2 p3
    rw [hV, if_neg p3, if_neg p2, if_neg p1]
  have hVd : ∀ p, p ≠ t.nodeCount + 1 → (V t' p).isLeaf = (V t p).isLeaf ∧
      (V t' p).keyCount = (V t p).keyCount ∧ (V t' p).keys = (V t p).keys ∧
      (V t' p).children = (V t p).children ∧ (V t' p).rids = (V t p).rids ∧
      (V t' p).nextLeaf = (V t p).nextLeaf := by
    intro p p1
    by_cases p3 : p = right.pageNum
    · rw [p3, hVR, h.right_v]; exact ⟨rfl, rfl, rfl, rfl, rfl, rfl⟩
    · by_cases p2 : p = left.pageNum
      · rw [p2, hVL, h.left_v]; exact ⟨rfl, rfl, rfl, rfl, rfl, rfl⟩
      · rw [hVo p p1 p2 p3]; exact ⟨rfl, rfl, rfl, rfl, rfl, rfl⟩
  refine ⟨{ inT := fun p => p = t.nodeCount + 1 ∨ g.inT p,
            lo := fun p => if p = t.nodeCount + 1 then BOT else g.lo p,
            hi := fun p => if p = t.nodeCount + 1 then TOP else g.hi p,
            ht := fun p => if p = t.nodeCount + 1 then g.ht left.pageNum + 1 else g.ht p }, ?_⟩
  have hltL := nodeOK_lt t g M _ (h.node_ok _ h.left_in (by rw [hp]; omega))
  have hltR := nodeOK_lt t g M _ (h.node_ok _ h.right_in (by rw [hp]; omega))
  have hhiR : g.hi right.pageNum = TOP := by
    rcases h.root_hi with ⟨_, e⟩ | ⟨e, _⟩
    · exact e
    · exact absurd hp e
  have hloL : g.lo left.pageNum = BOT := by rw [hLroot]; exact h.root_lo
  constructor
  · rw [hroot]; exact Or.inl rfl
  · rw [hroot]; simp
  · rw [hroot]; simp
  · rw [hroot, hVN]; rfl
  · rintro p (e | e)
    · rw [e, hcount]; omega
    · have := h.range p e; rw [hcount]; omega
  · rintro p (e | e)
    · subst e
      unfold NodeOK
      rw [hVN]
      simp only [view, Bool.false_eq_true, if_false, List.length_singleton, Nat.cast_one,
        true_and, KidsOK, ChildOK, parentOf, hVL, hVR, if_true, if_neg hNL, if_neg hNR]
      refine ⟨by rw [← hloL, ← h.hi_left]; exact hltL,
        ⟨Or.inr h.left_in, hloL, h.hi_left, trivial⟩, ?_,
        Or.inr h.right_in, h.lo_right, hhiR, ?_⟩
      · rw [← h.lo_right, ← hhiR]; exact hltR
      · rw [h.ht_eq]
    · have pN : p ≠ t.nodeCount + 1 := fun e' => hNin (e' ▸ e)
      obtain ⟨d1, d2, d3, d4, d5, d6⟩ := hVd p pN
      refine nodeOK_frame t t' g _ M M p (h.node_ok p e (by rw [hp]; have := h.range p e; omega))
        ⟨d1, d2, d3, d4, d5⟩ (by simp [pN]) (by simp [pN]) (by simp [pN]) (fun _ _ _ _ => rfl) ?_
      intro _ c _ cin cpar _
      have cN : c ≠ t.nodeCount + 1 := fun e' => hNin (e' ▸ cin)
      have hrp := h.range p e
      have cL : c ≠ left.pageNum := by
        intro e'
        rw [e', parentOf, h.left_v] at cpar
        have : left.parent = p := cpar
        omega
      have cR : c ≠ right.pageNum := by
        intro e'
        rw [e', parentOf, h.right_v] at cpar
        have : right.parent = p := cpar
        omega
      refine ⟨Or.inr cin, by simp [cN], by simp [cN], by simp [cN], ?_⟩
      rw [parentOf, hVo c cN cL cR]
      exact cpar
  · rintro p (e | e)
    · subst e
      left
      rw [hVN, hroot]
      exact ⟨rfl, rfl⟩
    · have pN : p ≠ t.nodeCount + 1 := fun e' => hNin (e' ▸ e)
      right
      by_cases pR : p = right.pageNum
      · rw [pR, hVR]
        refine ⟨?_, Or.inl rfl, by rw [show (view { right with parent := t.nodeCount + 1 }).parent
          = t.nodeCount + 1 from rfl, hVN]; rfl, ?_⟩
        · show t.nodeCount + 1 ≠ -1
          omega
        · rw [show (view { right with parent := t.nodeCount + 1 }).parent
            = t.nodeCount + 1 from rfl, hVN]
          simp [view]
      · by_cases pL : p = left.pageNum
        · rw [pL, hVL]
          refine ⟨?_, Or.inl rfl, by rw [show (view { left with parent := t.nodeCount + 1 }).parent
            = t.nodeCount + 1 from rfl, hVN]; rfl, ?_⟩
          · show t.nodeCount + 1 ≠ -1
            omega
          · rw [show (view { left with parent := t.nodeCount + 1 }).parent
              = t.nodeCount + 1 from rfl, hVN]
            simp [view]
        · have hu := h.up_ok p e pR
          unfold UpOK at hu
          rcases hu with ⟨_, e'⟩ | ⟨u1, u2, u3, u4⟩
          · exact absurd (e'.trans hLroot.symm) pL
          · rw [hVo p pN pL pR]
            have qN : (V t p).parent ≠ t.nodeCount + 1 := fun e' => hNin (e' ▸ u2)
            obtain ⟨d1, _, _, d4, _, _⟩ := hVd _ qN
            exact ⟨u1, Or.inr u2, by rw [d1]; exact u3, by rw [d4]; exact u4⟩
  · rintro p (e | e)
    · subst e; rw [hroot]
    · have pN : p ≠ t.nodeCount + 1 := fun e' => hNin (e' ▸ e)
      have := h.ht_le p e
      rw [hroot]
      simp only [if_neg pN, if_true]
      rw [← hLroot] at this
      omega
  · rw [hroot, hcount]
    have := h.height
    rw [← hLroot] at this
    simp only [if_true]
    push_cast
    omega
  · refine chainOK_frame t t' g _ chain h.chain_ok ?_
    intro l _ lin ll
    have lN : l ≠ t.nodeCount + 1 := fun e' => hNin (e' ▸ lin)
    obtain ⟨d1, _, _, _, _, d6⟩ := hVd l lN
    exact ⟨Or.inr lin, by simp [lN], by simp [lN], by rw [d1]; exact ll, d6⟩
  · rintro p (e | e) hl
    · rw [e, hVN] at hl
      simp [view] at hl
    · have pN : p ≠ t.nodeCount + 1 := fun e' => hNin (e' ▸ e)
      rw [(hVd p pN).1] at hl
      exact h.chain_all p e hl
  · rw [hcount]; have := h.chain_len; omega

theorem insertIntoParent_step (fuel : Nat) (t : Tree) (left right : BPlusTreeNode) (key : Int)
    (hp : left.parent ≠ -1) :
    insertIntoParent (fuel + 1) t left key right =
      if (parentWithEntry t left key right).keyCount ≥ t.order then
        insertIntoParent fuel
          (splitInternalPrep (writeNode t { right with parent := left.parent })
            (parentWithEntry t left key right)).1
          (splitInternalPrep (writeNode t { right with parent := left.parent })
            (parentWithEntry t left key right)).2.1
          (splitInternalPrep (writeNode t { right with parent := left.parent })
            (parentWithEntry t left key right)).2.2.1
          (splitInternalPrep (writeNode t { right with parent := left.parent })
            (parentWithEntry t left key right)).2.2.2
      else some (writeNode (writeNode t { right with parent := left.parent })
        (parentWithEntry t left key right)) := by
  rw [insertIntoParent, if_neg hp]
  simp only [parentWithEntry, readNode_pageNum]

theorem parentWithEntry_pageNum (t : Tree) (left right : BPlusTreeNode) (key : Int) :
    (parentWithEntry t left key right).pageNum = left.parent := by
  simp only [parentWithEntry]
  exact readNode_pageNum t left.parent

theorem parentWithEntry_view (t : Tree) (left right : BPlusTreeNode) (key : Int) :
    view (parentWithEntry t left key right) =
      { V t left.parent with
        keyCount := (V t left.parent).keyCount + 1,
        keys := insertAt (V t left.parent).keys
          (indexOfChild (V t left.parent).children left.pageNum) key,
        children := insertAt (V t left.parent).children
          (indexOfChild (V t left.parent).children left.pageNum + 1) right.pageNum } := by
  simp only [parentWithEntry, readNode, V, view]
  split_ifs with h <;> simp [h]

theorem insertAt_length_eq {α : Type} (l : List α) (i : Nat) (x : α) :
    (insertAt l i x).length = l.length + 1 := by
  simp only [insertAt, List.length_append, List.length_take, List.length_cons, List.length_drop]
  omega

theorem upOK_mono (t t' : Tree) (g : Ghost) (hr : t'.rootPage = t.rootPage)
    (hq : ∀ q, (V t' q).parent = (V t q).parent ∧ (V t' q).isLeaf = (V t q).isLeaf ∧
      ∀ c ∈ (V t q).children, c ∈ (V t' q).children) (p : Int) (hu : UpOK t g p) :
    UpOK t' g p := by
  unfold UpOK at hu ⊢
  rw [(hq p).1, hr, (hq _).2.1]
  rcases hu with hu | ⟨u1, u2, u3, u4⟩
  · exact Or.inl hu
  · exact Or.inr ⟨u1, u2, u3, (hq _).2.2 p u4⟩

theorem Pend.view_right_parent {t : Tree} {g : Ghost} {M : Int → Option RID} {chain : List Int}
    {left right : BPlusTreeNode} {sep : Int} (h : Pend t g M chain left right sep) :
    view { right with parent := left.parent } = V t right.pageNum := by
  rw [h.right_v, ← h.par_eq]

theorem insertIntoParent_fit (t : Tree) (g : Ghost) (M : Int → Option RID)
    (chain : List Int) (left right : BPlusTreeNode) (sep : Int)
    (h : Pend t g M chain left right sep) (hp : left.parent ≠ -1) :
    Good (writeNode (writeNode t { right with parent := left.parent })
      (parentWithEntry t left sep right)) g M chain := by
  obtain ⟨p1, p2, p3, p4⟩ := h.par_ok hp
  generalize ht' : writeNode (writeNode t { right with parent := left.parent })
      (parentWithEntry t left sep right) = t'
  have hroot : t'.rootPage = t.rootPage := by rw [← ht']; rfl
  have hcount : t'.nodeCount = t.nodeCount := by rw [← ht']; rfl
  have hV : ∀ p, V t' p = if p = left.parent then view (parentWithEntry t left sep right)
      else V t p := by
    intro p
    rw [← ht', V_writeNode, V_writeNode, parentWithEntry_pageNum]
    split_ifs with e1 e2
    · rfl
    · rw [e2, h.view_right_parent]
    · rfl
  have hVP : V t' left.parent = view (parentWithEntry t left sep right) := by
    rw [hV, if_pos rfl]
  have hVo : ∀ p, p ≠ left.parent → V t' p = V t p := fun p e => by rw [hV, if_neg e]
  have hVs : ∀ p, (V t' p).parent = (V t p).parent ∧ (V t' p).isLeaf = (V t p).isLeaf ∧
      (V t' p).nextLeaf = (V t p).nextLeaf := by
    intro p
    by_cases e : p = left.parent
    · rw [e, hVP, parentWithEntry_view]; exact ⟨rfl, rfl, rfl⟩
    · rw [hVo p e]; exact ⟨rfl, rfl, rfl⟩
  have hpar : parentOf t' = parentOf t := by funext c; exact (hVs c).1
  have hrhi : g.hi t.rootPage = TOP := by
    rcases h.root_hi with ⟨e, _⟩ | ⟨_, e⟩
    · exact absurd e hp
    · exact e
  constructor
  · rw [hroot]; exact h.root_in
  · rw [hroot]; exact h.root_lo
  · rw [hroot]; exact hrhi
  · rw [hroot, (hVs _).1]; exact h.root_par
  · intro p e; rw [hcount]; exact h.range p e
  · intro p e
    by_cases pP : p = left.parent
    · subst pP
      unfold NodeOK
      rw [hpar, hVP, parentWithEntry_view]
      simp only [p2, Bool.false_eq_true, if_false]
      refine ⟨?_, p4⟩
      rw [insertAt_length_eq, p1]
      push_cast
      rfl
    · refine nodeOK_frame t t' g g M M p (h.node_ok p e pP) ?_ rfl rfl rfl (fun _ _ _ _ => rfl) ?_
      · rw [hVo p pP]; exact ⟨rfl, rfl, rfl, rfl, rfl⟩
      · intro _ c _ cin cpar _
        exact ⟨cin, rfl, rfl, rfl, by rw [hpar]; exact cpar⟩
  · intro p e
    have hq : ∀ q, (V t' q).parent = (V t q).parent ∧ (V t' q).isLeaf = (V t q).isLeaf ∧
        ∀ c ∈ (V t q).children, c ∈ (V t' q).children := by
      intro q
      refine ⟨(hVs q).1, (hVs q).2.1, ?_⟩
      intro c hc
      by_cases e : q = left.parent
      · rw [e, hVP, parentWithEntry_view]
        rw [e] at hc
        exact (mem_insertAt _ _ _ _).2 (Or.inr hc)
      · rw [hVo q e]; exact hc
    by_cases pR : p = right.pageNum
    · subst pR
      right
      rw [(hVs _).1, h.right_v]
      show right.parent ≠ -1 ∧ g.inT right.parent ∧ (V t' right.parent).isLeaf = false ∧
        right.pageNum ∈ (V t' right.parent).children
      rw [h.par_eq, hVP, parentWithEntry_view]
      exact ⟨hp, p3, p2, (mem_insertAt _ _ _ _).2 (Or.inl rfl)⟩
    · exact upOK_mono t t' g hroot hq p (h.up_ok p e pR)
  · intro p e; rw [hroot]; exact h.ht_le p e
  · rw [hroot, hcount]; exact h.height
  · refine chainOK_frame t t' g g chain h.chain_ok ?_
    intro l _ lin ll
    exact ⟨lin, rfl, rfl, by rw [(hVs l).2.1]; exact ll, (hVs l).2.2⟩
  · intro p e hl
    rw [(hVs p).2.1] at hl
    exact h.chain_all p e hl
  · rw [hcount]; exact h.chain_len

theorem tdiv_two_toNat (n : Nat) : ((n : Int).tdiv 2).toNat = n / 2 := by
  have : (n : Int).tdiv 2 = ((n / 2 : Nat) : Int) := by
    rw [Int.tdiv_eq_ediv (by omega) (by omega)]
    push_cast
    rfl
  rw [this, Int.toNat_ofNat]

theorem splitInternalPrep_eq (t : Tree) (n : BPlusTreeNode) (ks1 cs1 : List Int)
    (hk : n.keys = ks1) (hc : n.children = cs1) (hkc : n.keyCount = (ks1.length : Int))
    (hlen : cs1.length = ks1.length + 1) (h1 : 1 ≤ ks1.length) :
    splitInternalPrep t n =
      (writeNode (writeNode
          (reparent { t with nodeCount := t.nodeCount + 1 } (t.nodeCount + 1)
            (cs1.drop (ks1.length / 2 + 1)))
          { n with keys := ks1.take (ks1.length / 2), children := cs1.take (ks1.length / 2 + 1),
                   keyCount := ((ks1.length / 2 : Nat) : Int) })
        { pageNum := t.nodeCount + 1, isLeaf := false, parent := n.parent,
          keys := ks1.drop (ks1.length / 2 + 1), children := cs1.drop (ks1.length / 2 + 1),
          keyCount := ((ks1.drop (ks1.length / 2 + 1)).length : Int) },
       { n with keys := ks1.take (ks1.length / 2), children := cs1.take (ks1.length / 2 + 1),
                keyCount := ((ks1.length / 2 : Nat) : Int) },
       ks1.getD (ks1.length / 2) 0,
       { pageNum := t.nodeCount + 1, isLeaf := false, parent := n.parent,
         keys := ks1.drop (ks1.length / 2 + 1), children := cs1.drop (ks1.length / 2 + 1),
         keyCount := ((ks1.drop (ks1.length / 2 + 1)).length : Int) }) := by
  have hch : (cs1.take ks1.length).drop (ks1.length / 2 + 1) ++ [cs1.getLastD 0] =
      cs1.drop (ks1.length / 2 + 1) := by
    exact takeLast_children cs1 ks1.length _ hlen (by omega)
  simp only [splitInternalPrep, allocateNewPage, hk, hc, hkc, tdiv_two_toNat, Int.toNat_ofNat,
    List.take_length, hch]

theorem Pend.left_mem {t : Tree} {g : Ghost} {M : Int → Option RID} {chain : List Int}
    {left right : BPlusTreeNode} {sep : Int} (h : Pend t g M chain left right sep)
    (hp : left.parent ≠ -1) : left.pageNum ∈ (V t left.parent).children := by
  have hu := h.up_ok left.pageNum h.left_in h.ne
  unfold UpOK at hu
  rw [h.left_v] at hu
  rcases hu with ⟨e, _⟩ | ⟨_, _, _, e⟩
  · exact absurd e hp
  · exact e

theorem split_pend (t t3 : Tree) (g : Ghost) (M : Int → Option RID) (chain : List Int)
    (left right node1 newNode : BPlusTreeNode) (sep : Int) (mid : Nat) (ks1 cs1 : List Int)
    (h : Pend t g M chain left right sep) (hp : left.parent ≠ -1)
    (hks1 : ks1 = insertAt (V t left.parent).keys
      (indexOfChild (V t left.parent).children left.pageNum) sep)
    (hcs1 : cs1 = insertAt (V t left.parent).children
      (indexOfChild (V t left.parent).children left.pageNum + 1) right.pageNum)
    (hmid : mid < ks1.length)
    (hroot : t3.rootPage = t.rootPage) (hcount : t3.nodeCount = t.nodeCount + 1)
    (hV : ∀ p, V t3 p = if p = t.nodeCount + 1 then view newNode
      else if p = left.parent then view node1
      else if p ∈ cs1.drop (mid + 1) then { V t p with parent := t.nodeCount + 1 } else V t p)
    (hn1 : view node1 =
      { V t left.parent with
        keyCount := (mid : Int),
        keys := ks1.take mid,
        children := cs1.take (mid + 1) })
    (hn1p : node1.pageNum = left.parent)
    (hnn : newNode =
      { pageNum := t.nodeCount + 1, isLeaf := false,
        parent := (V t left.parent).parent, keys := ks1.drop (mid + 1),
        children := cs1.drop (mid + 1), keyCount := ((ks1.drop (mid + 1)).length : Int) }) :
    ∃ g', Pend t3 g' M chain node1 newNode (ks1.getD mid 0) ∧
      g'.ht left.parent = g.ht left.parent ∧ g'.ht t.rootPage = g.ht t.rootPage := by
  obtain ⟨kcP, leafP, inP, kids⟩ := h.par_ok hp
  rw [← hks1, ← hcs1] at kids
  obtain ⟨k1, k2⟩ := kidsOK_split _ g _ mid ks1 cs1 _ _ kids hmid
  have hmemc := kidsOK_mem _ g _ _ _ _ _ kids
  have hcs : ∀ c, c ∈ cs1 ↔ c ∈ cs1.take (mid + 1) ∨ c ∈ cs1.drop (mid + 1) := by
    intro c
    rw [← List.mem_append, List.take_append_drop]
  have hdisj := kidsOK_split_disjoint _ g _ mid ks1 cs1 _ _ kids hmid
  have hQ : ¬ g.inT (t.nodeCount + 1) := fun e => by have := h.range _ e; omega
  have hPQ : left.parent ≠ t.nodeCount + 1 := fun e => hQ (e ▸ inP)
  have hLcs : left.pageNum ∈ cs1 := by
    rw [hcs1]; exact (mem_insertAt _ _ _ _).2 (Or.inr (h.left_mem hp))
  have hRcs : right.pageNum ∈ cs1 := by
    rw [hcs1]; exact (mem_insertAt _ _ _ _).2 (Or.inl rfl)
  have hcsP : ∀ c ∈ cs1, c ≠ left.parent := by
    intro c hc e
    have := (hmemc c hc).2.2.2.2.2
    rw [e] at this
    omega
  have hcsQ : ∀ c ∈ cs1, c ≠ t.nodeCount + 1 := fun c hc e => hQ (e ▸ (hmemc c hc).1)
  have hupP := h.up_ok _ inP (fun e => hcsP _ hRcs e.symm)
  have hVQ : V t3 (t.nodeCount + 1) = view newNode := by rw [hV, if_pos rfl]
  have hVP : V t3 left.parent = view node1 := by rw [hV, if_neg hPQ, if_pos rfl]
  have hVnc : ∀ p ∈ cs1.drop (mid + 1), V t3 p = { V t p with parent := t.nodeCount + 1 } := by
    intro p hpm
    have hpc := (hcs p).2 (Or.inr hpm)
    rw [hV, if_neg (hcsQ p hpc), if_neg (hcsP p hpc), if_pos hpm]
  have hVo : ∀ p, p ≠ t.nodeCount + 1 → p ≠ left.parent → p ∉ cs1.drop (mid + 1) →
      V t3 p = V t p := by
    intro p a b c
    rw [hV, if_neg a, if_neg b, if_neg c]
  have hVd : ∀ p, p ≠ t.nodeCount + 1 → p ≠ left.parent →
      (V t3 p).isLeaf = (V t p).isLeaf ∧ (V t3 p).keyCount = (V t p).keyCount ∧
      (V t3 p).keys = (V t p).keys ∧ (V t3 p).children = (V t p).children ∧
      (V t3 p).rids = (V t p).rids ∧ (V t3 p).nextLeaf = (V t p).nextLeaf := by
    intro p a b
    by_cases c : p ∈ cs1.drop (mid + 1)
    · rw [hVnc p c]; exact ⟨rfl, rfl, rfl, rfl, rfl, rfl⟩
    · rw [hVo p a b c]; exact ⟨rfl, rfl, rfl, rfl, rfl, rfl⟩
  have hparo : ∀ p, p ≠ t.nodeCount + 1 → p ∉ cs1.drop (mid + 1) →
      parentOf t3 p = parentOf t p := by
    intro p a c
    by_cases b : p = left.parent
    · rw [b, parentOf, parentOf, hVP, hn1]
    · rw [parentOf, parentOf, hVo p a b c]
  have hpar_out : ∀ p, parentOf t p ≠ left.parent → p ∉ cs1.drop (mid + 1) := by
    intro p e hm
    exact e (hmemc p ((hcs p).2 (Or.inr hm))).2.1
  have hlt1 := kidsOK_lt _ g _ _ _ _ _ k1
  have hlt2 := kidsOK_lt _ g _ _ _ _ _ k2
  refine ⟨{ inT := fun p => p = t.nodeCount + 1 ∨ g.inT p,
            lo := fun p => if p = t.nodeCount + 1 then ks1.getD mid 0 else g.lo p,
            hi := fun p => if p = t.nodeCount + 1 then g.hi left.parent
                           else if p = left.parent then ks1.getD mid 0 else g.hi p,
            ht := fun p => if p = t.nodeCount + 1 then g.ht left.parent else g.ht p }, ?_, ?_, ?_⟩
  · have hn1par : node1.parent = (V t left.parent).parent := by
      have := congrArg BPlusTreeNode.parent hn1
      exact this
    have hn1leaf : (view node1).isLeaf = false := by
      have := congrArg BPlusTreeNode.isLeaf hn1
      exact this.trans leafP
    have hn1keys : (view node1).keys = ks1.take mid := by
      have := congrArg BPlusTreeNode.keys hn1
      exact this
    have hn1ch : (view node1).children = cs1.take (mid + 1) := by
      have := congrArg BPlusTreeNode.children hn1
      exact this
    have hn1kc : (view node1).keyCount = (mid : Int) := by
      have := congrArg BPlusTreeNode.keyCount hn1
      exact this
    have hrQ : t.rootPage ≠ t.nodeCount + 1 := fun e => hQ (e ▸ h.root_in)
    have hrhi : g.hi t.rootPage = TOP := by
      rcases h.root_hi with ⟨e, _⟩ | ⟨_, e⟩
      · exact absurd e hp
      · exact e
    have hPPf : (V t left.parent).parent ≠ -1 → g.inT (V t left.parent).parent ∧
        (V t (V t left.parent).parent).isLeaf = false ∧
        left.parent ∈ (V t (V t left.parent).parent).children ∧
        (V t left.parent).parent ≠ left.parent ∧
        (V t left.parent).parent ≠ t.nodeCount + 1 ∧
        (V t left.parent).parent ∉ cs1.drop (mid + 1) := by
      intro hPP
      unfold UpOK at hupP
      rcases hupP with ⟨e, _⟩ | ⟨_, u2, u3, u4⟩
      · exact absurd e hPP
      · have hne : (V t left.parent).parent ≠ left.parent := by
          intro e
          rw [e] at u4
          exact hcsP _ (by rw [hcs1]; exact (mem_insertAt _ _ _ _).2 (Or.inr u4)) rfl
        refine ⟨u2, u3, u4, hne, fun e => hQ (e ▸ u2), ?_⟩
        intro hm
        have a1 := (hmemc _ ((hcs _).2 (Or.inr hm))).2.2.2.2.2
        have hn := h.node_ok _ u2 hne
        unfold NodeOK at hn
        rw [u3] at hn
        simp only [Bool.false_eq_true, if_false] at hn
        have a2 := (kidsOK_mem _ g _ _ _ _ _ hn.2 _ u4).2.2.2.2.2
        omega
    subst hnn
    constructor
    · rw [hn1p]; exact hVP
    · exact hVQ
    · rw [hn1p]; exact Or.inr inP
    · exact Or.inl rfl
    · rw [hn1p]; exact hPQ
    · rw [hn1par]
    · rw [hn1p]; simp [hPQ]
    · simp
    · rw [hn1p]; simp [hPQ]
    · rw [hroot]; exact Or.inr h.root_in
    · rw [hroot]; simp only [if_neg hrQ]; exact h.root_lo
    · rw [hroot]
      have := hparo t.rootPage hrQ (hpar_out _ (by rw [parentOf, h.root_par]; exact Ne.symm hp))
      rw [parentOf, parentOf, h.root_par] at this
      exact this
    · rw [hn1par, hroot]
      by_cases hPP : (V t left.parent).parent = -1
      · left
        refine ⟨hPP, ?_⟩
        simp only [if_true]
        unfold UpOK at hupP
        rcases hupP with ⟨_, e⟩ | ⟨e, _⟩
        · rw [e]; exact hrhi
        · exact absurd hPP e
      · right
        refine ⟨hPP, ?_⟩
        have hrP : t.rootPage ≠ left.parent := by
          intro e
          rw [← e, h.root_par] at hPP
          exact hPP rfl
        simp only [if_neg hrQ, if_neg hrP]
        exact hrhi
    · rintro p (e | e)
      · rw [e, hcount]; have := h.range _ inP; omega
      · rw [hcount]; have := h.range p e; omega
    · intro p hin hpp
      rw [hn1par] at hpp
      rcases hin with e | e
      · subst e
        unfold NodeOK
        rw [hVQ]
        simp only [view, Bool.false_eq_true, if_false, if_true, true_and]
        refine kidsOK_congr (parentOf t) (parentOf t3) g _ left.parent _ _ _ _ _ ?_ k2
        intro c hc x y ⟨c1, c2, c3, c4, c5⟩
        have hcc := (hcs c).2 (Or.inr hc)
        have cQ := hcsQ c hcc
        have cP := hcsP c hcc
        refine ⟨Or.inr c1, ?_, ?_, ?_, ?_⟩
        · rw [parentOf, hVnc c hc]
        · simp only [if_neg cQ]; exact c3
        · simp only [if_neg cQ, if_neg cP]; exact c4
        · simp only [if_neg cQ, if_true]; exact c5
      · have pQ : p ≠ t.nodeCount + 1 := fun e' => hQ (e' ▸ e)
        by_cases pP : p = left.parent
        · subst pP
          unfold NodeOK
          rw [hVP, hn1leaf, hn1kc, hn1keys, hn1ch]
          simp only [Bool.false_eq_true, if_false, if_neg pQ, if_true, List.length_take]
          refine ⟨by rw [min_eq_left (le_of_lt hmid)], ?_⟩
          refine kidsOK_congr (parentOf t) (parentOf t3) g _ left.parent _ _ _ _ _ ?_ k1
          intro c hc x y ⟨c1, c2, c3, c4, c5⟩
          have hcc := (hcs c).2 (Or.inl hc)
          have cQ := hcsQ c hcc
          have cP := hcsP c hcc
          refine ⟨Or.inr c1, ?_, ?_, ?_, ?_⟩
          · rw [hparo c cQ (fun hm => hdisj c hc hm)]; exact c2
          · simp only [if_neg cQ]; exact c3
          · simp only [if_neg cQ, if_neg cP]; exact c4
          · simp only [if_neg cQ, if_neg pQ]; exact c5
        · obtain ⟨d1, d2, d3, d4, d5, _⟩ := hVd p pQ pP
          refine nodeOK_frame t t3 g _ M M p (h.node_ok p e pP) ⟨d1, d2, d3, d4, d5⟩
            (by simp [pQ]) (by simp [pQ, pP]) (by simp [pQ]) (fun _ _ _ _ => rfl) ?_
          intro _ c _ cin cpar _
          have cQ : c ≠ t.nodeCount + 1 := fun e' => hQ (e' ▸ cin)
          have cP : c ≠ left.parent := by
            intro e'
            rw [e'] at cpar
            exact hpp cpar.symm
          have cnc := hpar_out c (by rw [cpar]; exact pP)
          refine ⟨Or.inr cin, by simp [cQ], by simp [cQ, cP], by simp [cQ], ?_⟩
          rw [hparo c cQ cnc]; exact cpar
    · rw [hn1par, hn1p]
      intro hPP
      obtain ⟨f1, f2, f3, f4, f5, f6⟩ := hPPf hPP
      have hn := h.node_ok _ f1 f4
      unfold NodeOK at hn
      rw [f2] at hn
      simp only [Bool.false_eq_true, if_false] at hn
      rw [hVo _ f5 f4 f6]
      refine ⟨hn.1, f2, Or.inr f1, ?_⟩
      simp only [if_neg f5, if_neg f4]
      refine kidsOK_insert (parentOf t) (parentOf t3) g _ _ left.parent (t.nodeCount + 1)
        (ks1.getD mid 0) (Or.inr inP) (Or.inl rfl) (by simp [hPQ]) (by simp [hPQ]) (by simp)
        (by simp) hlt1 hlt2 (by simp [hPQ]) (by simp) ?_ ?_ (by simp [f5]) ?_ _ _ _ _ hn.2 f3
      · rw [parentOf, hVP, ← hn1par]; rfl
      · rw [parentOf, hVQ]; rfl
      · intro c cin cP cpar
        have cQ : c ≠ t.nodeCount + 1 := fun e' => hQ (e' ▸ cin)
        have cnc := hpar_out c (by rw [cpar]; exact f4)
        refine ⟨Or.inr cin, by simp [cQ], by simp [cQ, cP], by simp [cQ], ?_⟩
        rw [hparo c cQ cnc]; exact cpar
    · intro p hin pQ
      have pQ : p ≠ t.nodeCount + 1 := pQ
      rcases hin with e | e
      · exact absurd e pQ
      by_cases pnc : p ∈ cs1.drop (mid + 1)
      · right
        rw [hVnc p pnc]
        show t.nodeCount + 1 ≠ -1 ∧ _ ∧ (V t3 (t.nodeCount + 1)).isLeaf = false ∧
          p ∈ (V t3 (t.nodeCount + 1)).children
        rw [hVQ]
        exact ⟨by have := h.range _ inP; omega, Or.inl rfl, rfl, pnc⟩
      by_cases pP : p = left.parent
      · subst pP
        unfold UpOK at hupP ⊢
        rw [hVP, show (view node1).parent = node1.parent from rfl, hn1par, hroot]
        rcases hupP with u | ⟨u1, u2, u3, u4⟩
        · exact Or.inl u
        · obtain ⟨f1, f2, f3, f4, f5, f6⟩ := hPPf u1
          right
          rw [hVo _ f5 f4 f6]
          exact ⟨u1, Or.inr u2, u3, u4⟩
      have hVp := hVo p pQ pP pnc
      by_cases hpar : parentOf t p = left.parent
      · have hpc : p ∈ cs1 := by
          by_cases pR : p = right.pageNum
          · rw [pR]; exact hRcs
          · have hu := h.up_ok p e pR
            unfold UpOK at hu
            rw [show (V t p).parent = left.parent from hpar] at hu
            rcases hu with ⟨u, _⟩ | ⟨_, _, _, u⟩
            · exact absurd u hp
            · rw [hcs1]; exact (mem_insertAt _ _ _ _).2 (Or.inr u)
        have hpt : p ∈ cs1.take (mid + 1) := ((hcs p).1 hpc).resolve_right pnc
        right
        rw [hVp, show (V t p).parent = left.parent from hpar, hVP, hn1leaf, hn1ch]
        exact ⟨hp, Or.inr inP, rfl, hpt⟩
      · have pR : p ≠ right.pageNum := by
          intro e'
          apply hpar
          rw [e', parentOf, h.right_v]
          exact h.par_eq
        have hu := h.up_ok p e pR
        unfold UpOK at hu ⊢
        rw [hVp, hroot]
        rcases hu with u | ⟨u1, u2, u3, u4⟩
        · exact Or.inl u
        · right
          have qQ : (V t p).parent ≠ t.nodeCount + 1 := fun e' => hQ (e' ▸ u2)
          obtain ⟨d1, _, _, d4, _, _⟩ := hVd _ qQ hpar
          exact ⟨u1, Or.inr u2, by rw [d1]; exact u3, by rw [d4]; exact u4⟩
    · rintro p (e | e)
      · rw [e, hroot]
        simp only [if_true, if_neg hrQ]
        exact h.ht_le _ inP
      · have pQ : p ≠ t.nodeCount + 1 := fun e' => hQ (e' ▸ e)
        rw [hroot]
        simp only [if_neg pQ, if_neg hrQ]
        exact h.ht_le p e
    · rw [hroot, hcount]
      simp only [if_neg hrQ]
      have := h.height
      omega
    · refine chainOK_frame t t3 g _ chain h.chain_ok ?_
      intro l _ lin ll
      have lQ : l ≠ t.nodeCount + 1 := fun e' => hQ (e' ▸ lin)
      have lP : l ≠ left.parent := by
        intro e'
        rw [e', leafP] at ll
        exact Bool.noConfusion ll
      obtain ⟨d1, _, _, _, _, d6⟩ := hVd l lQ lP
      exact ⟨Or.inr lin, by simp [lQ], by simp [lQ, lP], by rw [d1]; exact ll, d6⟩
    · rintro p (e | e) hl
      · rw [e, hVQ] at hl
        simp [view] at hl
      · have pQ : p ≠ t.nodeCount + 1 := fun e' => hQ (e' ▸ e)
        by_cases pP : p = left.parent
        · rw [pP, hVP, hn1leaf] at hl
          exact Bool.noConfusion hl
        · rw [(hVd p pQ pP).1] at hl
          exact h.chain_all p e hl
    · rw [hcount]; have := h.chain_len; omega
  · simp [hPQ]
  · have : t.rootPage ≠ t.nodeCount + 1 := fun e => hQ (e ▸ h.root_in)
    simp [this]

theorem Pend.ht_left {t : Tree} {g : Ghost} {M : Int → Option RID} {chain : List Int}
    {left right : BPlusTreeNode} {sep : Int} (h : Pend t g M chain left right sep)
    (hp : left.parent ≠ -1) : g.ht left.pageNum + 1 = g.ht left.parent := by
  obtain ⟨_, _, _, kids⟩ := h.par_ok hp
  exact (kidsOK_mem _ g _ _ _ _ _ kids _
    ((mem_insertAt _ _ _ _).2 (Or.inr (h.left_mem hp)))).2.2.2.2.2

theorem splitInternalPrep_fields (t : Tree) (n : BPlusTreeNode) :
    (splitInternalPrep t n).2.1.pageNum = n.pageNum ∧
    (splitInternalPrep t n).1.rootPage = t.rootPage ∧
    (splitInternalPrep t n).1.order = t.order ∧
    (splitInternalPrep t n).1.keyType = t.keyType := by
  simp only [splitInternalPrep, allocateNewPage]
  exact ⟨trivial, (reparent_fields _ _ _).1, (reparent_fields _ _ _).2.2.1,
    (reparent_fields _ _ _).2.2.2⟩

theorem splitInternalPrep_pend (t : Tree) (g : Ghost) (M : Int → Option RID) (chain : List Int)
    (left right : BPlusTreeNode) (sep : Int)
    (h : Pend t g M chain left right sep) (hp : left.parent ≠ -1) :
    ∃ g', Pend
        (splitInternalPrep (writeNode t { right with parent := left.parent })
          (parentWithEntry t left sep right)).1 g' M chain
        (splitInternalPrep (writeNode t { right with parent := left.parent })
          (parentWithEntry t left sep right)).2.1
        (splitInternalPrep (writeNode t { right with parent := left.parent })
          (parentWithEntry t left sep right)).2.2.2
        (splitInternalPrep (writeNode t { right with parent := left.parent })
          (parentWithEntry t left sep right)).2.2.1 ∧
      g'.ht left.parent = g.ht left.parent ∧ g'.ht t.rootPage = g.ht t.rootPage := by
  obtain ⟨kcP, leafP, inP, kids⟩ := h.par_ok hp
  have hlen := kidsOK_lengths _ g _ _ _ _ _ kids
  have hk : (parentWithEntry t left sep right).keys = insertAt (V t left.parent).keys
      (indexOfChild (V t left.parent).children left.pageNum) sep := by
    simp only [parentWithEntry, readNode_keys, readNode_children]
  have hc : (parentWithEntry t left sep right).children = insertAt (V t left.parent).children
      (indexOfChild (V t left.parent).children left.pageNum + 1) right.pageNum := by
    simp only [parentWithEntry, readNode_children]
  have hkc : (parentWithEntry t left sep right).keyCount = ((insertAt (V t left.parent).keys
      (indexOfChild (V t left.parent).children left.pageNum) sep).length : Int) := by
    simp only [parentWithEntry, readNode_keyCount, insertAt_length_eq, kcP]
    push_cast
    rfl
  have h1 : 1 ≤ (insertAt (V t left.parent).keys
      (indexOfChild (V t left.parent).children left.pageNum) sep).length := by
    rw [insertAt_length_eq]; omega
  rw [splitInternalPrep_eq _ _ _ _ hk hc hkc hlen h1]
  dsimp only
  have hrf := reparent_fields ((writeNode t { right with parent := left.parent }).nodeCount + 1)
    (List.drop ((insertAt (V t left.parent).keys
      (indexOfChild (V t left.parent).children left.pageNum) sep).length / 2 + 1)
      (insertAt (V t left.parent).children
        (indexOfChild (V t left.parent).children left.pageNum + 1) right.pageNum))
    { writeNode t { right with parent := left.parent } with
      nodeCount := (writeNode t { right with parent := left.parent }).nodeCount + 1 }
  refine split_pend t _ g M chain left right _ _ sep
    ((insertAt (V t left.parent).keys
      (indexOfChild (V t left.parent).children left.pageNum) sep).length / 2) _ _ h hp rfl rfl
    (by omega) ?hroot ?hcount ?hV ?hn1 ?hn1p ?hnn
  case hroot => exact hrf.1
  case hcount => exact hrf.2.1
  case hn1p => exact parentWithEntry_pageNum t left right sep
  case hnn =>
    have hpp : (parentWithEntry t left sep right).parent = (V t left.parent).parent := by
      have := congrArg BPlusTreeNode.parent (parentWithEntry_view t left right sep)
      exact this
    rw [hpp]
    rfl
  case hn1 =>
    have := parentWithEntry_view t left right sep
    simp only [view] at this ⊢
    simp only [BPlusTreeNode.mk.injEq] at this ⊢
    obtain ⟨a1, a2, a3, a4, a5, a6, a7, a8, a9, a10, a11⟩ := this
    exact ⟨rfl, a2, trivial, a4, a5, rfl, trivial, rfl, rfl, trivial, a11⟩
  case hV =>
    intro p
    rw [V_writeNode, V_writeNode, V_reparent]
    have hV1 : V { writeNode t { right with parent := left.parent } with
        nodeCount := (writeNode t { right with parent := left.parent }).nodeCount + 1 } p =
        V t p := by
      show V (writeNode t { right with parent := left.parent }) p = V t p
      rw [V_writeNode]
      split_ifs with e
      · rw [e, h.view_right_parent]
      · rfl
    rw [hV1]
    dsimp only
    rw [parentWithEntry_pageNum]
    rfl

/-- From the pending state `insertIntoParent` returns, with a well-formed tree
that holds the same entries. -/
theorem insertIntoParent_spec : ∀ (fuel : Nat) (t : Tree) (g : Ghost) (M : Int → Option RID)
    (chain : List Int) (left right : BPlusTreeNode) (sep : Int),
    Pend t g M chain left right sep → g.ht t.rootPage < fuel + g.ht left.pageNum →
    ∃ t', insertIntoParent fuel t left sep right = some t' ∧ t'.keyType = t.keyType ∧
      t'.order = t.order ∧ t'.rootPage ≠ -1 ∧ ∃ g', Good t' g' M chain := by
  intro fuel
  induction fuel with
  | zero =>
    intro t g M chain left right sep h hf
    have := h.ht_le _ h.left_in
    omega
  | succ n ih =>
    intro t g M chain left right sep h hf
    by_cases hp : left.parent = -1
    · exact insertIntoParent_root n t g M chain left right sep h hp
    · rw [insertIntoParent_step n t left right sep hp]
      split_ifs with hfull
      · obtain ⟨g', hpend, e1, e2⟩ := splitInternalPrep_pend t g M chain left right sep h hp
        obtain ⟨f1, f2, f3, f4⟩ := splitInternalPrep_fields
          (writeNode t { right with parent := left.parent }) (parentWithEntry t left sep right)
        rw [parentWithEntry_pageNum] at f1
        have f2' := f2.trans (show (writeNode t { right with parent := left.parent }).rootPage
          = t.rootPage from rfl)
        have hl := h.ht_left hp
        obtain ⟨t', r1, r2, r3, r4, r5⟩ := ih _ g' M chain _ _ _ hpend (by
          rw [f1, f2', e1, e2]
          omega)
        exact ⟨t', r1, r2.trans f4, r3.trans f3, r4, r5⟩
      · refine ⟨_, rfl, rfl, rfl, ?_, g, insertIntoParent_fit t g M chain left right sep h hp⟩
        show t.rootPage ≠ -1
        have := h.range _ h.root_in
        omega

/-! ## B+ tree: insertion into a leaf -/

theorem mem_zip_of_mem_left : ∀ (ks : List Int) (rs : List RID), rs.length = ks.length →
    ∀ k ∈ ks, ∃ r, (k, r) ∈ ks.zip rs := by
  intro ks
  induction ks with
  | nil => intro rs _ k hk; simp at hk
  | cons k0 ks ih =>
    intro rs hlen k hk
    cases rs with
    | nil => simp at hlen
    | cons r0 rs =>
      simp only [List.length_cons, Nat.add_right_cancel_iff] at hlen
      rcases List.mem_cons.1 hk with e | e
      · exact ⟨r0, by rw [e]; exact List.mem_cons_self _ _⟩
      · obtain ⟨r, hr⟩ := ih rs hlen k e
        exact ⟨r, List.mem_cons_of_mem _ hr⟩

theorem leafOK_mem_iff (n : BPlusTreeNode) (lo hi : Int) (M : Int → Option RID)
    (h : LeafOK n lo hi M) (key : Int) (hlo : lo ≤ key) (hhi : key < hi) :
    key ∈ n.keys ↔ M key ≠ none := by
  obtain ⟨h1, h2, h3, h4⟩ := h
  constructor
  · intro hk
    obtain ⟨r, hr⟩ := mem_zip_of_mem_left _ _ h2 key hk
    rw [((h4 key r).1 hr).1]
    exact Option.some_ne_none r
  · intro hm
    cases hM : M key with
    | none => exact absurd hM hm
    | some r => exact (List.of_mem_zip ((h4 key r).2 ⟨hM, hlo, hhi⟩)).1

theorem insertIntoLeaf_leafOK (n : BPlusTreeNode) (lo hi : Int) (M : Int → Option RID)
    (key : Int) (rid : RID) (h : LeafOK n lo hi M) (hlo : lo ≤ key) (hhi : key < hi)
    (hM : M key = none) : LeafOK (insertIntoLeaf n key rid) lo hi (bind M key rid) := by
  have hmem := leafOK_mem_iff n lo hi M h key hlo hhi
  obtain ⟨h1, h2, h3, h4⟩ := h
  have hnot : key ∉ n.keys := fun e => (hmem.1 e) hM
  have htake : n.keys.take n.keyCount.toNat = n.keys := by
    rw [h1, Int.toNat_ofNat, List.take_length]
  unfold LeafOK insertIntoLeaf
  simp only [htake]
  refine ⟨?_, ?_, pairwise_insert_sorted key n.keys h3 hnot, ?_⟩
  · rw [insertAt_length_eq, h1]; push_cast; rfl
  · rw [insertAt_length_eq, insertAt_length_eq, h2]
  · intro k r
    rw [mem_zip_insertAt _ _ _ _ _ h2, h4 k r]
    unfold bind
    constructor
    · rintro (e | ⟨a, b, c⟩)
      · simp only [Prod.mk.injEq] at e
        obtain ⟨rfl, rfl⟩ := e
        exact ⟨by simp, hlo, hhi⟩
      · have : k ≠ key := fun e => by rw [e, hM] at a; exact Option.noConfusion a
        exact ⟨by rw [if_neg this]; exact a, b, c⟩
    · rintro ⟨a, b, c⟩
      by_cases e : k = key
      · rw [if_pos e] at a
        left
        rw [e, Option.some.inj a]
      · rw [if_neg e] at a
        exact Or.inr ⟨a, b, c⟩

theorem view_insertIntoLeaf (n : BPlusTreeNode) (key : Int) (rid : RID) :
    view (insertIntoLeaf n key rid) = insertIntoLeaf (view n) key rid := rfl

theorem insertIntoLeaf_pageNum (n : BPlusTreeNode) (key : Int) (rid : RID) :
    (insertIntoLeaf n key rid).pageNum = n.pageNum := rfl

theorem insert_of_leaf (t : Tree) (key l : Int) (rid : RID) (hk : t.keyType = KeyType.INT)
    (hr : t.rootPage ≠ -1) (hfind : findLeaf t key = some l) :
    insert t key rid =
      if ((readNode t l).keys.take (readNode t l).keyCount.toNat).contains key then some (false, t)
      else if (insertIntoLeaf (readNode t l) key rid).keyCount ≥ t.order then
        (splitLeaf (nodeFuel t) { t with entryCount := t.entryCount + 1 }
          (insertIntoLeaf (readNode t l) key rid)).map fun t2 => (true, t2)
      else some (true, writeNode { t with entryCount := t.entryCount + 1 }
        (insertIntoLeaf (readNode t l) key rid)) := by
  unfold insert
  rw [if_neg (by simp [hk]), if_neg hr, hfind]

theorem insert_empty (t : Tree) (key : Int) (rid : RID) (hk : t.keyType = KeyType.INT)
    (hr : t.rootPage = -1) (hn : 0 ≤ t.nodeCount) (hlo : BOT ≤ key) (hhi : key < TOP) :
    ∃ t', insert t key rid = some (true, t') ∧ t'.keyType = t.keyType ∧ t'.order = t.order ∧
      t'.rootPage ≠ -1 ∧ ∃ g chain, Good t' g (bind (fun _ => none) key rid) chain := by
  have hstep : insert t key rid = some (true,
      ({ writeNode { t with nodeCount := t.nodeCount + 1 }
          { pageNum := t.nodeCount + 1, isLeaf := true, keyCount := 1, parent := -1,
            nextLeaf := -1, prevLeaf := -1, keys := [key], rids := [rid] } with
        rootPage := t.nodeCount + 1, firstLeaf := t.nodeCount + 1,
        entryCount := t.entryCount + 1 } : Tree)) := by
    unfold insert
    rw [if_neg (by simp [hk]), if_pos hr]
    rfl
  rw [hstep]
  generalize ht' : ({ writeNode { t with nodeCount := t.nodeCount + 1 }
          { pageNum := t.nodeCount + 1, isLeaf := true, keyCount := 1, parent := -1,
            nextLeaf := -1, prevLeaf := -1, keys := [key], rids := [rid] } with
        rootPage := t.nodeCount + 1, firstLeaf := t.nodeCount + 1,
        entryCount := t.entryCount + 1 } : Tree) = t'
  have hroot : t'.rootPage = t.nodeCount + 1 := by rw [← ht']
  have hcount : t'.nodeCount = t.nodeCount + 1 := by rw [← ht']; rfl
  have hV : V t' (t.nodeCount + 1) = view
      { pageNum := t.nodeCount + 1, isLeaf := true, keyCount := 1, parent := -1,
        nextLeaf := -1, prevLeaf := -1, keys := [key], rids := [rid] } := by
    rw [← ht']
    simp only [V, writeNode, if_true]
  refine ⟨t', rfl, by rw [← ht']; rfl, by rw [← ht']; rfl, by rw [hroot]; omega,
    { inT := fun p => p = t.nodeCount + 1, lo := fun _ => BOT, hi := fun _ => TOP,
      ht := fun _ => 0 }, [t.nodeCount + 1], ?_⟩
  constructor
  · exact hroot
  · rfl
  · rfl
  · rw [hroot, hV]; rfl
  · intro p e
    have e' : p = t.nodeCount + 1 := e
    rw [e', hcount]; omega
  · intro p e
    have e' : p = t.nodeCount + 1 := e
    subst e'
    unfold NodeOK
    rw [hV]
    simp only [view, if_true, LeafOK, List.length_singleton, Nat.cast_one, List.pairwise_singleton,
      List.zip_cons_cons, List.zip_nil_right, List.mem_singleton, Prod.mk.injEq, true_and, bind]
    refine ⟨?_, by decide⟩
    intro k r
    constructor
    · rintro ⟨rfl, rfl⟩
      exact ⟨by simp, hlo, hhi⟩
    · rintro ⟨a, _, _⟩
      by_cases e : k = key
      · rw [if_pos e] at a
        exact ⟨e, (Option.some.inj a).symm⟩
      · rw [if_neg e] at a
        exact Option.noConfusion a
  · intro p e
    have e' : p = t.nodeCount + 1 := e
    subst e'
    left
    rw [hV, hroot]
    exact ⟨rfl, rfl⟩
  · intro p _; exact le_refl _
  · rw [hcount]; show ((0 : Nat) : Int) < _; push_cast; omega
  · exact ⟨rfl, by rw [hV]; rfl, by rw [hV]; rfl, rfl⟩
  · intro p e _
    have e' : p = t.nodeCount + 1 := e
    rw [e']; exact List.mem_singleton.2 rfl
  · rw [hcount]; simp only [List.length_singleton, Nat.cast_one]; omega

theorem bind_frame (t : Tree) (g : Ghost) (M : Int → Option RID) (chain : List Int)
    (hg : Good t g M chain) (key : Int) (rid : RID) (l : Int) (hin : g.inT l)
    (hleaf : (V t l).isLeaf = true) (hlo : g.lo l ≤ key) (hhi : key < g.hi l)
    (p : Int) (pin : g.inT p) (pl : p ≠ l) (pleaf : (V t p).isLeaf = true) (k : Int)
    (klo : g.lo p ≤ k) (khi : k < g.hi p) : bind M key rid k = M k := by
  unfold bind
  by_cases e : k = key
  · rcases leaf_disjoint t g M chain hg p l pin hin pleaf hleaf pl with d | d <;> omega
  · rw [if_neg e]

theorem insert_fit (t : Tree) (g : Ghost) (M : Int → Option RID) (chain : List Int)
    (hg : Good t g M chain) (key : Int) (rid : RID) (l : Int) (hin : g.inT l)
    (hleaf : (V t l).isLeaf = true) (hlo : g.lo l ≤ key) (hhi : key < g.hi l)
    (hM : M key = none) :
    Good (writeNode { t with entryCount := t.entryCount + 1 }
      (insertIntoLeaf (readNode t l) key rid)) g (bind M key rid) chain := by
  generalize ht' : writeNode { t with entryCount := t.entryCount + 1 }
      (insertIntoLeaf (readNode t l) key rid) = t'
  have hroot : t'.rootPage = t.rootPage := by rw [← ht']; rfl
  have hcount : t'.nodeCount = t.nodeCount := by rw [← ht']; rfl
  have hV : ∀ p, V t' p = if p = l then insertIntoLeaf (V t l) key rid else V t p := by
    intro p
    rw [← ht', V_writeNode, insertIntoLeaf_pageNum, readNode_pageNum, view_insertIntoLeaf,
      view_readNode]
    rfl
  have hVl : V t' l = insertIntoLeaf (V t l) key rid := by rw [hV, if_pos rfl]
  have hVo : ∀ p, p ≠ l → V t' p = V t p := fun p e => by rw [hV, if_neg e]
  have hss : SameShape t t' := by
    refine ⟨hroot, fun q => ?_⟩
    by_cases e : q = l
    · rw [e, hVl]; exact ⟨rfl, rfl, rfl, rfl⟩
    · rw [hVo q e]; exact ⟨rfl, rfl, rfl, rfl⟩
  have hpar := parentOf_sameShape t t' hss
  constructor
  · rw [hroot]; exact hg.root_in
  · rw [hroot]; exact hg.root_lo
  · rw [hroot]; exact hg.root_hi
  · rw [hroot, (hss.2 _).1]; exact hg.root_par
  · intro p e; rw [hcount]; exact hg.range p e
  · intro p e
    by_cases pl : p = l
    · subst pl
      have hn := hg.node_ok p e
      unfold NodeOK at hn ⊢
      rw [(hss.2 p).2.1, hVl]
      rw [if_pos hleaf] at hn ⊢
      exact ⟨insertIntoLeaf_leafOK _ _ _ M key rid hn.1 hlo hhi hM, hn.2⟩
    · refine nodeOK_frame t t' g g M _ p (hg.node_ok p e) ?_ rfl rfl rfl ?_ ?_
      · rw [hVo p pl]; exact ⟨rfl, rfl, rfl, rfl, rfl⟩
      · intro pleaf k klo khi
        exact bind_frame t g M chain hg key rid l hin hleaf hlo hhi p e pl pleaf k klo khi
      · intro _ c _ cin cpar _
        exact ⟨cin, rfl, rfl, rfl, by rw [hpar]; exact cpar⟩
  · intro p e; exact upOK_sameShape t t' g hss p (hg.up_ok p e)
  · intro p e; rw [hroot]; exact hg.ht_le p e
  · rw [hroot, hcount]; exact hg.height
  · exact chainOK_sameShape t t' g hss chain hg.chain_ok
  · intro p e hl
    rw [(hss.2 p).2.1] at hl
    exact hg.chain_all p e hl
  · rw [hcount]; exact hg.chain_len

theorem getD_mem (ks : List Int) (i : Nat) (h : i < ks.length) : ks.getD i 0 ∈ ks := by
  rw [List.getD_eq_getElem _ _ h]
  exact List.getElem_mem h

theorem head_mem_take (ks : List Int) (mid : Nat) (h1 : 1 ≤ mid) (h : mid < ks.length) :
    ks.getD 0 0 ∈ ks.take mid := by
  match ks, mid, h1, h with
  | k :: ks, m + 1, _, _ => simp

theorem leaf_pend (t t3 : Tree) (g : Ghost) (M : Int → Option RID) (chain : List Int)
    (key : Int) (rid : RID) (l : Int) (leaf1 newLeaf : BPlusTreeNode) (mid : Nat)
    (ks1 : List Int) (rs1 : List RID)
    (hg : Good t g M chain) (hin : g.inT l) (hleaf : (V t l).isLeaf = true)
    (hlo : g.lo l ≤ key) (hhi : key < g.hi l) (hM : M key = none)
    (hks1 : ks1 = (insertIntoLeaf (V t l) key rid).keys)
    (hrs1 : rs1 = (insertIntoLeaf (V t l) key rid).rids)
    (hmid1 : 1 ≤ mid) (hmid : mid < ks1.length)
    (hroot : t3.rootPage = t.rootPage) (hcount : t3.nodeCount = t.nodeCount + 1)
    (hV : ∀ p, V t3 p = if p = t.nodeCount + 1 then view newLeaf
      else if p = l then view leaf1 else V t p)
    (hl1 : view leaf1 =
      { V t l with
        keyCount := (mid : Int),
        keys := ks1.take mid,
        rids := rs1.take mid,
        nextLeaf := t.nodeCount + 1 })
    (hl1p : leaf1.pageNum = l)
    (hnl : newLeaf =
      { pageNum := t.nodeCount + 1, isLeaf := true, parent := (V t l).parent,
        nextLeaf := (V t l).nextLeaf, prevLeaf := l, keys := ks1.drop mid,
        rids := rs1.drop mid, keyCount := ((ks1.drop mid).length : Int) }) :
    ∃ g' chain', Pend t3 g' (bind M key rid) chain' leaf1 newLeaf (ks1.getD mid 0) ∧
      g'.ht t.rootPage = g.ht t.rootPage ∧ g'.ht l = 0 := by
  have hnl0 := hg.node_ok l hin
  unfold NodeOK at hnl0
  rw [if_pos hleaf] at hnl0
  obtain ⟨hLeafOK, hht0, hlt0⟩ := hnl0
  obtain ⟨kc1, len1, sorted1, zip1⟩ :=
    insertIntoLeaf_leafOK (V t l) (g.lo l) (g.hi l) M key rid hLeafOK hlo hhi hM
  rw [← hks1] at kc1 len1 sorted1 zip1
  rw [← hrs1] at len1 zip1
  obtain ⟨s1, s2, z1, z2, lt1, _⟩ := sorted_cut ks1 rs1 mid sorted1 len1 hmid
  have hsep_in : g.lo l ≤ ks1.getD mid 0 ∧ ks1.getD mid 0 < g.hi l := by
    obtain ⟨r, hr⟩ := mem_zip_of_mem_left ks1 rs1 len1 _ (getD_mem ks1 mid hmid)
    exact ((zip1 _ r).1 hr).2
  have hsep_lo : g.lo l < ks1.getD mid 0 := by
    have a1 := lt1 _ (head_mem_take ks1 mid hmid1 hmid)
    obtain ⟨r, hr⟩ := mem_zip_of_mem_left ks1 rs1 len1 _ (getD_mem ks1 0 (by omega))
    have a2 := ((zip1 _ r).1 hr).2.1
    omega
  have hQ : ¬ g.inT (t.nodeCount + 1) := fun e => by have := hg.range _ e; omega
  have hlQ : l ≠ t.nodeCount + 1 := fun e => hQ (e ▸ hin)
  have hrQ : t.rootPage ≠ t.nodeCount + 1 := fun e => hQ (e ▸ hg.root_in)
  have hupl := hg.up_ok l hin
  have hVQ : V t3 (t.nodeCount + 1) = view newLeaf := by rw [hV, if_pos rfl]
  have hVl : V t3 l = view leaf1 := by rw [hV, if_neg hlQ, if_pos rfl]
  have hVo : ∀ p, p ≠ t.nodeCount + 1 → p ≠ l → V t3 p = V t p := by
    intro p a b
    rw [hV, if_neg a, if_neg b]
  have hl1par : leaf1.parent = (V t l).parent := by
    have := congrArg BPlusTreeNode.parent hl1
    exact this
  have hl1leaf : (view leaf1).isLeaf = true := by
    have := congrArg BPlusTreeNode.isLeaf hl1
    exact this.trans hleaf
  have hl1keys : (view leaf1).keys = ks1.take mid := by
    have := congrArg BPlusTreeNode.keys hl1
    exact this
  have hl1rids : (view leaf1).rids = rs1.take mid := by
    have := congrArg BPlusTreeNode.rids hl1
    exact this
  have hl1kc : (view leaf1).keyCount = (mid : Int) := by
    have := congrArg BPlusTreeNode.keyCount hl1
    exact this
  have hl1next : (view leaf1).nextLeaf = t.nodeCount + 1 := by
    have := congrArg BPlusTreeNode.nextLeaf hl1
    exact this
  have hVs : ∀ p, p ≠ t.nodeCount + 1 → (V t3 p).parent = (V t p).parent ∧
      (V t3 p).isLeaf = (V t p).isLeaf ∧ (V t3 p).children = (V t p).children := by
    intro p a
    by_cases b : p = l
    · rw [b, hVl, hl1]; exact ⟨rfl, rfl, rfl⟩
    · rw [hVo p a b]; exact ⟨rfl, rfl, rfl⟩
  have hPf : (V t l).parent ≠ -1 → g.inT (V t l).parent ∧
      (V t (V t l).parent).isLeaf = false ∧ l ∈ (V t (V t l).parent).children ∧
      (V t l).parent ≠ l ∧ (V t l).parent ≠ t.nodeCount + 1 := by
    intro hP
    unfold UpOK at hupl
    rcases hupl with ⟨e, _⟩ | ⟨_, u2, u3, u4⟩
    · exact absurd e hP
    · refine ⟨u2, u3, u4, ?_, fun e => hQ (e ▸ u2)⟩
      intro e
      rw [e, hleaf] at u3
      exact Bool.noConfusion u3
  subst hnl
  refine ⟨{ inT := fun p => p = t.nodeCount + 1 ∨ g.inT p,
            lo := fun p => if p = t.nodeCount + 1 then ks1.getD mid 0 else g.lo p,
            hi := fun p => if p = t.nodeCount + 1 then g.hi l
                           else if p = l then ks1.getD mid 0 else g.hi p,
            ht := fun p => if p = t.nodeCount + 1 then 0 else g.ht p },
          insertAfter l (t.nodeCount + 1) chain, ?_, ?_, ?_⟩
  · constructor
    · rw [hl1p]; exact hVl
    · exact hVQ
    · rw [hl1p]; exact Or.inr hin
    · exact Or.inl rfl
    · rw [hl1p]; exact hlQ
    · rw [hl1par]
    · rw [hl1p]; simp [hlQ]
    · simp
    · rw [hl1p]; simp [hlQ, hht0]
    · rw [hroot]; exact Or.inr hg.root_in
    · rw [hroot]; simp only [if_neg hrQ]; exact hg.root_lo
    · rw [hroot, (hVs _ hrQ).1]; exact hg.root_par
    · rw [hl1par, hroot]
      by_cases hP : (V t l).parent = -1
      · left
        refine ⟨hP, ?_⟩
        simp only [if_true]
        unfold UpOK at hupl
        rcases hupl with ⟨_, e⟩ | ⟨e, _⟩
        · rw [e]; exact hg.root_hi
        · exact absurd hP e
      · right
        refine ⟨hP, ?_⟩
        have hrl : t.rootPage ≠ l := by
          intro e
          rw [← e, hg.root_par] at hP
          exact hP rfl
        simp only [if_neg hrQ, if_neg hrl]
        exact hg.root_hi
    · rintro p (e | e)
      · rw [e, hcount]; have := hg.range _ hin; omega
      · rw [hcount]; have := hg.range p e; omega
    · intro p hin' hpp
      rw [hl1par] at hpp
      rcases hin' with e | e
      · subst e
        unfold NodeOK
        rw [hVQ]
        simp only [view, if_true, LeafOK, true_and]
        refine ⟨⟨?_, s2, ?_⟩, hsep_in.2⟩
        · simp only [List.length_drop, len1]
        · intro k r
          rw [z2 k r, zip1 k r]
          constructor
          · rintro ⟨⟨a, b, c⟩, d⟩; exact ⟨a, d, c⟩
          · rintro ⟨a, d, c⟩; exact ⟨⟨a, by omega, c⟩, d⟩
      · have pQ : p ≠ t.nodeCount + 1 := fun e' => hQ (e' ▸ e)
        by_cases pl : p = l
        · subst pl
          unfold NodeOK
          rw [hVl, if_pos hl1leaf]
          simp only [if_neg pQ, if_true]
          refine ⟨⟨?_, ?_, ?_, ?_⟩, hht0, hsep_lo⟩
          · rw [hl1kc, hl1keys, List.length_take, min_eq_left (le_of_lt hmid)]
          · rw [hl1rids, hl1keys, List.length_take, List.length_take, len1]
          · rw [hl1keys]; exact s1
          · intro k r
            rw [hl1keys, hl1rids, z1 k r, zip1 k r]
            constructor
            · rintro ⟨⟨a, b, c⟩, d⟩; exact ⟨a, b, d⟩
            · rintro ⟨a, b, d⟩; exact ⟨⟨a, b, by omega⟩, d⟩
        · refine nodeOK_frame t t3 g _ M _ p (hg.node_ok p e) ?_
            (by simp [pQ]) (by simp [pQ, pl]) (by simp [pQ]) ?_ ?_
          · rw [hVo p pQ pl]; exact ⟨rfl, rfl, rfl, rfl, rfl⟩
          · intro pleaf k klo khi
            exact bind_frame t g M chain hg key rid l hin hleaf hlo hhi p e pl pleaf k klo khi
          · intro _ c _ cin cpar _
            have cQ : c ≠ t.nodeCount + 1 := fun e' => hQ (e' ▸ cin)
            have cl : c ≠ l := by
              intro e'
              rw [e'] at cpar
              exact hpp cpar.symm
            refine ⟨Or.inr cin, by simp [cQ], by simp [cQ, cl], by simp [cQ], ?_⟩
            rw [parentOf, hVo c cQ cl]; exact cpar
    · rw [hl1par, hl1p]
      intro hP
      obtain ⟨f1, f2, f3, f4, f5⟩ := hPf hP
      have hn := hg.node_ok _ f1
      unfold NodeOK at hn
      rw [f2] at hn
      simp only [Bool.false_eq_true, if_false] at hn
      rw [hVo _ f5 f4]
      refine ⟨hn.1, f2, Or.inr f1, ?_⟩
      simp only [if_neg f5, if_neg f4]
      refine kidsOK_insert (parentOf t) (parentOf t3) g _ _ l (t.nodeCount + 1)
        (ks1.getD mid 0) (Or.inr hin) (Or.inl rfl) (by simp [hlQ]) (by simp [hlQ]) (by simp)
        (by simp) hsep_lo hsep_in.2 (by simp [hlQ]) (by simp [hht0]) ?_ ?_ (by simp [f5]) ?_
        _ _ _ _ hn.2 f3
      · rw [parentOf, hVl]; exact hl1par
      · rw [parentOf, hVQ]; rfl
      · intro c cin cl cpar
        have cQ : c ≠ t.nodeCount + 1 := fun e' => hQ (e' ▸ cin)
        refine ⟨Or.inr cin, by simp [cQ], by simp [cQ, cl], by simp [cQ], ?_⟩
        rw [parentOf, hVo c cQ cl]; exact cpar
    · intro p hin' pQ
      have pQ : p ≠ t.nodeCount + 1 := pQ
      rcases hin' with e | e
      · exact absurd e pQ
      have hu := hg.up_ok p e
      unfold UpOK at hu ⊢
      rw [(hVs p pQ).1, hroot]
      rcases hu with u | ⟨u1, u2, u3, u4⟩
      · exact Or.inl u
      · right
        have qQ : (V t p).parent ≠ t.nodeCount + 1 := fun e' => hQ (e' ▸ u2)
        obtain ⟨_, d1, d2⟩ := hVs _ qQ
        exact ⟨u1, Or.inr u2, by rw [d1]; exact u3, by rw [d2]; exact u4⟩
    · rintro p (e | e)
      · rw [e, hroot]
        simp only [if_true, if_neg hrQ]
        exact Nat.zero_le _
      · have pQ : p ≠ t.nodeCount + 1 := fun e' => hQ (e' ▸ e)
        rw [hroot]
        simp only [if_neg pQ, if_neg hrQ]
        exact hg.ht_le p e
    · rw [hroot, hcount]
      simp only [if_neg hrQ]
      have := hg.height
      omega
    · refine chainOK_insertAfter t t3 g _ l (t.nodeCount + 1) (ks1.getD mid 0)
        (leaf_lt t g M chain hg) ?_ ?_ ?_ chain hg.chain_ok (hg.chain_all l hin hleaf)
      · exact ⟨Or.inr hin, by rw [hVl]; exact hl1leaf, by rw [hVl]; exact hl1next,
          by simp [hlQ], by simp [hlQ]⟩
      · refine ⟨Or.inl rfl, by rw [hVQ]; rfl, ?_, by simp, by simp⟩
        rw [hVQ]; rfl
      · intro l' lin ll lne
        have lQ : l' ≠ t.nodeCount + 1 := fun e' => hQ (e' ▸ lin)
        rw [hVo l' lQ lne]
        exact ⟨Or.inr lin, by simp [lQ], by simp [lQ, lne], ll, rfl⟩
    · intro p hin' hl
      rw [mem_insertAfter]
      rcases hin' with e | e
      · exact Or.inr ⟨e, hg.chain_all l hin hleaf⟩
      · have pQ : p ≠ t.nodeCount + 1 := fun e' => hQ (e' ▸ e)
        rw [(hVs p pQ).2.1] at hl
        exact Or.inl (hg.chain_all p e hl)
    · rw [hcount]
      have := hg.chain_len
      have := length_insertAfter l (t.nodeCount + 1) chain
      omega
  · simp [hrQ]
  · simp [hlQ, hht0]

theorem view_setPrev_readNode (t : Tree) (c x : Int) :
    view { readNode t c with prevLeaf := x } = V t c := by
  simp only [readNode, V, view]
  split_ifs with h <;> simp [h]

theorem splitLeafPrep_eq (t : Tree) (n : BPlusTreeNode) (ks1 : List Int) (rs1 : List RID)
    (hk : n.keys = ks1) (hr : n.rids = rs1) (hkc : n.keyCount = (ks1.length : Int))
    (hlen : rs1.length = ks1.length) (hsep : (ks1.drop (ks1.length / 2)).getD 0 0 =
      ks1.getD (ks1.length / 2) 0) :
    splitLeafPrep t n =
      (writeNode (writeNode
          (if n.nextLeaf ≠ -1 then
            writeNode { t with nodeCount := t.nodeCount + 1 }
              { readNode { t with nodeCount := t.nodeCount + 1 } n.nextLeaf with
                prevLeaf := t.nodeCount + 1 }
           else { t with nodeCount := t.nodeCount + 1 })
          { n with keys := ks1.take (ks1.length / 2), rids := rs1.take (ks1.length / 2),
                   keyCount := ((ks1.length / 2 : Nat) : Int), nextLeaf := t.nodeCount + 1 })
        { pageNum := t.nodeCount + 1, isLeaf := true, parent := n.parent,
          nextLeaf := n.nextLeaf, prevLeaf := n.pageNum, keys := ks1.drop (ks1.length / 2),
          rids := rs1.drop (ks1.length / 2),
          keyCount := ((ks1.drop (ks1.length / 2)).length : Int) },
       { n with keys := ks1.take (ks1.length / 2), rids := rs1.take (ks1.length / 2),
                keyCount := ((ks1.length / 2 : Nat) : Int), nextLeaf := t.nodeCount + 1 },
       ks1.getD (ks1.length / 2) 0,
       { pageNum := t.nodeCount + 1, isLeaf := true, parent := n.parent,
         nextLeaf := n.nextLeaf, prevLeaf := n.pageNum, keys := ks1.drop (ks1.length / 2),
         rids := rs1.drop (ks1.length / 2),
         keyCount := ((ks1.drop (ks1.length / 2)).length : Int) }) := by
  have hrs : rs1.take ks1.length = rs1 := by rw [← hlen, List.take_length]
  simp only [splitLeafPrep, allocateNewPage, hk, hr, hkc, tdiv_two_toNat, Int.toNat_ofNat,
    List.take_length, hrs, hsep]

theorem splitLeafPrep_fields (t : Tree) (n : BPlusTreeNode) :
    (splitLeafPrep t n).2.1.pageNum = n.pageNum ∧
    (splitLeafPrep t n).1.rootPage = t.rootPage ∧
    (splitLeafPrep t n).1.order = t.order ∧
    (splitLeafPrep t n).1.keyType = t.keyType := by
  simp only [splitLeafPrep, allocateNewPage]
  split_ifs <;> exact ⟨trivial, rfl, rfl, rfl⟩

theorem splitLeafPrep_pend (t : Tree) (g : Ghost) (M : Int → Option RID) (chain : List Int)
    (key : Int) (rid : RID) (l : Int)
    (hg : Good t g M chain) (hin : g.inT l) (hleaf : (V t l).isLeaf = true)
    (hlo : g.lo l ≤ key) (hhi : key < g.hi l) (hM : M key = none)
    (hfull : 2 ≤ (insertIntoLeaf (readNode t l) key rid).keyCount) :
    ∃ g' chain', Pend
        (splitLeafPrep { t with entryCount := t.entryCount + 1 }
          (insertIntoLeaf (readNode t l) key rid)).1 g' (bind M key rid) chain'
        (splitLeafPrep { t with entryCount := t.entryCount + 1 }
          (insertIntoLeaf (readNode t l) key rid)).2.1
        (splitLeafPrep { t with entryCount := t.entryCount + 1 }
          (insertIntoLeaf (readNode t l) key rid)).2.2.2
        (splitLeafPrep { t with entryCount := t.entryCount + 1 }
          (insertIntoLeaf (readNode t l) key rid)).2.2.1 ∧
      g'.ht t.rootPage = g.ht t.rootPage ∧ g'.ht l = 0 := by
  have hnl0 := hg.node_ok l hin
  unfold NodeOK at hnl0
  rw [if_pos hleaf] at hnl0
  obtain ⟨kc1, len1, sorted1, zip1⟩ :=
    insertIntoLeaf_leafOK (V t l) (g.lo l) (g.hi l) M key rid hnl0.1 hlo hhi hM
  have hview : view (insertIntoLeaf (readNode t l) key rid) = insertIntoLeaf (V t l) key rid := by
    rw [view_insertIntoLeaf, view_readNode]
  have hk : (insertIntoLeaf (readNode t l) key rid).keys =
      (insertIntoLeaf (V t l) key rid).keys := by
    have := congrArg BPlusTreeNode.keys hview
    exact this
  have hr : (insertIntoLeaf (readNode t l) key rid).rids =
      (insertIntoLeaf (V t l) key rid).rids := by
    have := congrArg BPlusTreeNode.rids hview
    exact this
  have hkc0 : (insertIntoLeaf (readNode t l) key rid).keyCount =
      (insertIntoLeaf (V t l) key rid).keyCount := by
    have := congrArg BPlusTreeNode.keyCount hview
    exact this
  have hkc := hkc0.trans kc1
  have hlen2 : 2 ≤ (insertIntoLeaf (V t l) key rid).keys.length := by
    rw [hkc] at hfull
    exact_mod_cast hfull
  have hmid : (insertIntoLeaf (V t l) key rid).keys.length / 2 <
      (insertIntoLeaf (V t l) key rid).keys.length := by omega
  have hsep := (sorted_cut _ _ _ sorted1 len1 hmid).2.2.2.2.2
  rw [splitLeafPrep_eq _ _ _ _ hk hr hkc len1 hsep]
  dsimp only
  refine leaf_pend t _ g M chain key rid l _ _
    ((insertIntoLeaf (V t l) key rid).keys.length / 2) _ _ hg hin hleaf hlo hhi hM rfl rfl
    (by omega) hmid ?hroot ?hcount ?hV ?hl1 ?hl1p ?hnl
  case hroot => split_ifs <;> rfl
  case hcount => split_ifs <;> rfl
  case hl1p => exact readNode_pageNum t l
  case hnl =>
    have hpp : (insertIntoLeaf (readNode t l) key rid).parent = (V t l).parent := by
      have := congrArg BPlusTreeNode.parent hview
      exact this
    have hnx : (insertIntoLeaf (readNode t l) key rid).nextLeaf = (V t l).nextLeaf :=
      readNode_nextLeaf t l hleaf
    have hpn : (insertIntoLeaf (readNode t l) key rid).pageNum = l := readNode_pageNum t l
    rw [hpp, hnx, hpn]
  case hl1 =>
    have hlf : (insertIntoLeaf (readNode t l) key rid).isLeaf = true := by
      have := congrArg BPlusTreeNode.isLeaf hview
      exact this.trans hleaf
    have := hview
    simp only [view, insertIntoLeaf, hlf, if_true] at this ⊢
    simp only [BPlusTreeNode.mk.injEq] at this ⊢
    obtain ⟨a1, a2, a3, a4, a5, a6, a7, a8, a9, a10, a11⟩ := this
    exact ⟨rfl, a2, trivial, a4, if_pos hlf, rfl, trivial, rfl, rfl, a10, trivial⟩
  case hV =>
    intro p
    rw [V_writeNode, V_writeNode]
    have hV2 : V (if (insertIntoLeaf (readNode t l) key rid).nextLeaf ≠ -1 then
          writeNode { { t with entryCount := t.entryCount + 1 } with
              nodeCount := ({ t with entryCount := t.entryCount + 1 } : Tree).nodeCount + 1 }
            { readNode { { t with entryCount := t.entryCount + 1 } with
                nodeCount := ({ t with entryCount := t.entryCount + 1 } : Tree).nodeCount + 1 }
                (insertIntoLeaf (readNode t l) key rid).nextLeaf with
              prevLeaf := ({ t with entryCount := t.entryCount + 1 } : Tree).nodeCount + 1 }
         else { { t with entryCount := t.entryCount + 1 } with
              nodeCount := ({ t with entryCount := t.entryCount + 1 } : Tree).nodeCount + 1 }) p
        = V t p := by
      split_ifs with e
      · rw [V_writeNode, readNode_pageNum]
        split_ifs with e2
        · rw [view_setPrev_readNode, e2]; rfl
        · rfl
      · rfl
    rw [hV2]
    dsimp only
    rw [show (insertIntoLeaf (readNode t l) key rid).pageNum = l from readNode_pageNum t l]

theorem splitLeaf_eq (fuel : Nat) (t : Tree) (leaf : BPlusTreeNode) :
    splitLeaf fuel t leaf = insertIntoParent fuel (splitLeafPrep t leaf).1
      (splitLeafPrep t leaf).2.1 (splitLeafPrep t leaf).2.2.1 (splitLeafPrep t leaf).2.2.2 := rfl

theorem good_inv (t : Tree) (g : Ghost) (M : Int → Option RID) (chain : List Int)
    (hg : Good t g M chain) (hk : t.keyType = KeyType.INT) (hord : 3 ≤ t.order)
    (hM : ∀ k r, M k = some r → BOT ≤ k ∧ k < TOP) : Inv t M := by
  have hr := hg.range _ hg.root_in
  exact ⟨hk, hord, by omega, hM, Or.inr ⟨by omega, g, chain, hg⟩⟩

theorem bind_range (M : Int → Option RID) (key : Int) (rid : RID)
    (hM : ∀ k r, M k = some r → BOT ≤ k ∧ k < TOP) (hlo : BOT ≤ key) (hhi : key < TOP) :
    ∀ k r, bind M key rid k = some r → BOT ≤ k ∧ k < TOP := by
  intro k r h
  unfold bind at h
  split_ifs at h with e
  · rw [e]; exact ⟨hlo, hhi⟩
  · exact hM k r h

/-- `insert` on a well-formed tree: a new key is added and the tree stays well
formed, a key already present is refused and the tree is unchanged. -/
theorem insert_spec (t : Tree) (M : Int → Option RID) (h : Inv t M) (key : Int) (rid : RID)
    (hlo : BOT ≤ key) (hhi : key < TOP) :
    (M key = none → ∃ t', insert t key rid = some (true, t') ∧ Inv t' (bind M key rid)) ∧
    (M key ≠ none → insert t key rid = some (false, t)) := by
  obtain ⟨hk, hord, hn, hMr, hcase⟩ := h
  have hMr' := bind_range M key rid hMr hlo hhi
  rcases hcase with ⟨hr, hM⟩ | ⟨hr, g, chain, hg⟩
  · refine ⟨fun _ => ?_, fun e => absurd (hM key) e⟩
    obtain ⟨t', h1, h2, h3, _, g, chain, hg⟩ := insert_empty t key rid hk hr hn hlo hhi
    have hMe : M = fun _ => none := funext hM
    rw [hMe]
    exact ⟨t', h1, good_inv t' g _ chain hg (h2.trans hk) (by rw [h3]; exact hord)
      (by rw [← hMe]; exact hMr')⟩
  · obtain ⟨l, hfind, hin, hleaf, hlo', hhi'⟩ := findLeaf_spec t g M chain hg hr key hlo hhi
    have hnl := hg.node_ok l hin
    unfold NodeOK at hnl
    rw [if_pos hleaf] at hnl
    have hmem := leafOK_mem_iff (V t l) _ _ M hnl.1 key hlo' hhi'
    have htake : (readNode t l).keys.take (readNode t l).keyCount.toNat = (V t l).keys := by
      rw [readNode_keys, readNode_keyCount, hnl.1.1, Int.toNat_ofNat, List.take_length]
    rw [insert_of_leaf t key l rid hk hr hfind, htake]
    constructor
    · intro hMk
      have hnc : ((V t l).keys.contains key) = false := by
        rw [Bool.eq_false_iff]
        intro hc
        exact hmem.1 (by simpa using hc) hMk
      rw [hnc]
      simp only [Bool.false_eq_true, if_false]
      split_ifs with hfull
      · rw [splitLeaf_eq]
        obtain ⟨g', chain', hpend, e1, e2⟩ := splitLeafPrep_pend t g M chain key rid l hg hin
          hleaf hlo' hhi' hMk (by omega)
        obtain ⟨f1, f2, f3, f4⟩ := splitLeafPrep_fields { t with entryCount := t.entryCount + 1 }
          (insertIntoLeaf (readNode t l) key rid)
        have f1' : (splitLeafPrep { t with entryCount := t.entryCount + 1 }
            (insertIntoLeaf (readNode t l) key rid)).2.1.pageNum = l :=
          f1.trans (readNode_pageNum t l)
        have f2' : (splitLeafPrep { t with entryCount := t.entryCount + 1 }
            (insertIntoLeaf (readNode t l) key rid)).1.rootPage = t.rootPage := f2
        obtain ⟨t', r1, r2, r3, r4, g2, r5⟩ := insertIntoParent_spec (nodeFuel t) _ g' _ chain'
          _ _ _ hpend (by
            rw [f1', f2', e1, e2]
            have := hg.height
            unfold nodeFuel
            omega)
        rw [r1]
        exact ⟨t', rfl, good_inv t' g2 _ chain' r5 ((r2.trans f4).trans hk)
          (by rw [r3, f3]; exact hord) hMr'⟩
      · exact ⟨_, rfl, good_inv _ g _ chain
          (insert_fit t g M chain hg key rid l hin hleaf hlo' hhi' hMk) hk hord hMr'⟩
    · intro hMk
      have hc : ((V t l).keys.contains key) = true := by
        simpa using hmem.2 hMk
      rw [hc]
      simp

/-! ## B+ tree: sequences of inserts -/

theorem bindNew_of_none (M : Int → Option RID) (e : Int × RID) (h : M e.1 = none) :
    bindNew M e = bind M e.1 e.2 := by
  funext k
  unfold bindNew bind
  by_cases hk : k = e.1
  · rw [hk, h]
  · rw [if_neg hk]
    cases M k <;> simp [hk]

theorem bindNew_of_some (M : Int → Option RID) (e : Int × RID) (h : M e.1 ≠ none) :
    bindNew M e = M := by
  funext k
  unfold bindNew
  cases hM : M k with
  | some r => rfl
  | none =>
    have : k ≠ e.1 := fun hk => h (hk ▸ hM)
    simp [this]

/-- `insertAll` returns, and the tree it returns is well formed with the
entries bound in order. -/
theorem insertAll_spec : ∀ (entries : List (Int × RID)) (t : Tree) (M : Int → Option RID),
    Inv t M → (∀ e ∈ entries, BOT ≤ e.1 ∧ e.1 < TOP) →
    ∃ t', insertAll t entries = some t' ∧ Inv t' (entries.foldl bindNew M) := by
  intro entries
  induction entries with
  | nil => intro t M h _; exact ⟨t, rfl, h⟩
  | cons e rest ih =>
    intro t M h hr
    obtain ⟨hlo, hhi⟩ := hr e (List.mem_cons_self _ _)
    have hs := insert_spec t M h e.1 e.2 hlo hhi
    have hrest : ∀ e' ∈ rest, BOT ≤ e'.1 ∧ e'.1 < TOP :=
      fun e' he' => hr e' (List.mem_cons_of_mem _ he')
    rw [List.foldl_cons]
    obtain ⟨key, rid⟩ := e
    by_cases hM : M key = none
    · obtain ⟨t1, h1, h2⟩ := hs.1 hM
      rw [bindNew_of_none M (key, rid) hM]
      obtain ⟨t', h3, h4⟩ := ih t1 _ h2 hrest
      exact ⟨t', by simp only [insertAll, h1]; exact h3, h4⟩
    · have h1 := hs.2 hM
      rw [bindNew_of_some M (key, rid) hM]
      obtain ⟨t', h3, h4⟩ := ih t M h hrest
      exact ⟨t', by simp only [insertAll, h1]; exact h3, h4⟩

theorem foldl_bindNew_nodup : ∀ (entries : List (Int × RID)) (M : Int → Option RID),
    (entries.map Prod.fst).Nodup → (∀ e ∈ entries, M e.1 = none) →
    (∀ k r, (k, r) ∈ entries → entries.foldl bindNew M k = some r) ∧
    (∀ k, k ∉ entries.map Prod.fst → entries.foldl bindNew M k = M k) := by
  intro entries
  induction entries with
  | nil => intro M _ _; exact ⟨fun k r h => by simp at h, fun k _ => rfl⟩
  | cons e rest ih =>
    intro M hnd hM
    rw [List.map_cons, List.nodup_cons] at hnd
    have he := hM e (List.mem_cons_self _ _)
    have hnone : ∀ e' ∈ rest, bindNew M e e'.1 = none := by
      intro e' he'
      have hne : e'.1 ≠ e.1 := by
        intro h
        exact hnd.1 (h ▸ List.mem_map_of_mem Prod.fst he')
      rw [bindNew_of_none M e he]
      unfold bind
      rw [if_neg hne]
      exact hM e' (List.mem_cons_of_mem _ he')
    obtain ⟨i1, i2⟩ := ih (bindNew M e) hnd.2 hnone
    rw [List.foldl_cons]
    constructor
    · intro k r hkr
      rcases List.mem_cons.1 hkr with h | h
      · rw [i2 k (by rw [← h] at hnd; exact hnd.1), bindNew_of_none M e he, ← h]
        simp [bind]
      · exact i1 k r h
    · intro k hk
      rw [List.map_cons, List.mem_cons, not_or] at hk
      rw [i2 k hk.2, bindNew_of_none M e he]
      unfold bind
      rw [if_neg hk.1]

theorem calculateOrder_int (keyLength : Int) : calculateOrder KeyType.INT keyLength = 677 := by
  unfold calculateOrder
  simp only [reduceCtorEq, if_false]
  decide

theorem inv_emptyTree (disk : Int → BPlusTreeNode) (keyLength : Int) :
    Inv (emptyTree disk KeyType.INT keyLength) (fun _ => none) := by
  refine ⟨rfl, ?_, le_refl _, fun k r h => Option.noConfusion h, Or.inl ⟨rfl, fun _ => rfl⟩⟩
  show 3 ≤ calculateOrder KeyType.INT keyLength
  rw [calculateOrder_int]
  decide

/-! ## B+ tree: range search -/

theorem belowHigh_mono (highKey : Int) (includeHigh : Bool) (k k' : Int) (h : k ≤ k')
    (hk : belowHigh highKey includeHigh k' = true) : belowHigh highKey includeHigh k = true := by
  unfold belowHigh at *
  cases includeHigh <;> simp at * <;> omega

theorem aboveLow_ge (lowKey : Int) (includeLow : Bool) (k : Int)
    (hk : aboveLow lowKey includeLow k = true) : lowKey ≤ k := by
  unfold aboveLow at *
  cases includeLow <;> simp at * <;> omega

theorem scanLeaf_cons (lowKey highKey : Int) (il ih : Bool) (k : Int) (ks : List Int) (r : RID)
    (rs : List RID) :
    scanLeaf lowKey highKey il ih (k :: ks) (r :: rs) =
      if belowHigh highKey ih k = false then ([], true)
      else if aboveLow lowKey il k = true then
        (r :: (scanLeaf lowKey highKey il ih ks rs).1, (scanLeaf lowKey highKey il ih ks rs).2)
      else scanLeaf lowKey highKey il ih ks rs := by
  rw [scanLeaf]
  simp only [aboveLow, belowHigh]
  by_cases h1 : (if ih = true then decide (k ≤ highKey) else decide (k < highKey)) = true
  · by_cases h2 : (if il = true then decide (k ≥ lowKey) else decide (k > lowKey)) = true
    · simp [h1, h2]
    · simp [h1, h2]
  · simp [h1]

/-- The scan of a sorted leaf pushes the RIDs of the entries within both
bounds, and stops early only at a key beyond the high bound. -/
theorem scanLeaf_spec (lowKey highKey : Int) (il ih : Bool) :
    ∀ (ks : List Int) (rs : List RID), ks.Pairwise (· < ·) → rs.length = ks.length →
      (scanLeaf lowKey highKey il ih ks rs).1 =
        ((ks.zip rs).filter fun e => aboveLow lowKey il e.1 && belowHigh highKey ih e.1).map
          Prod.snd ∧
      ((scanLeaf lowKey highKey il ih ks rs).2 = true →
        ∃ k ∈ ks, belowHigh highKey ih k = false) ∧
      ((scanLeaf lowKey highKey il ih ks rs).2 = false →
        ∀ k ∈ ks, belowHigh highKey ih k = true) := by
  intro ks
  induction ks with
  | nil =>
    intro rs _ _
    cases rs <;> simp [scanLeaf]
  | cons k ks ihk =>
    intro rs hp hlen
    cases rs with
    | nil => simp at hlen
    | cons r rs =>
      rw [List.pairwise_cons] at hp
      simp only [List.length_cons, Nat.add_right_cancel_iff] at hlen
      obtain ⟨i1, i2, i3⟩ := ihk rs hp.2 hlen
      rw [scanLeaf_cons]
      by_cases h1 : belowHigh highKey ih k = true
      · have h1' : ¬ belowHigh highKey ih k = false := by simp [h1]
        rw [if_neg h1']
        by_cases h2 : aboveLow lowKey il k = true
        · rw [if_pos h2]
          refine ⟨?_, ?_, ?_⟩
          · simp only [List.zip_cons_cons, List.filter_cons, h1, h2, Bool.and_self, if_true,
              List.map_cons]
            rw [i1]
          · intro hd
            obtain ⟨k', hk', hb⟩ := i2 hd
            exact ⟨k', List.mem_cons_of_mem _ hk', hb⟩
          · intro hd k' hk'
            rcases List.mem_cons.1 hk' with e | e
            · rw [e]; exact h1
            · exact i3 hd k' e
        · rw [if_neg h2]
          refine ⟨?_, ?_, ?_⟩
          · have h2' : aboveLow lowKey il k = false := by simpa using h2
            simp only [List.zip_cons_cons, List.filter_cons, h1, h2', Bool.false_and,
              Bool.false_eq_true, if_false]
            exact i1
          · intro hd
            obtain ⟨k', hk', hb⟩ := i2 hd
            exact ⟨k', List.mem_cons_of_mem _ hk', hb⟩
          · intro hd k' hk'
            rcases List.mem_cons.1 hk' with e | e
            · rw [e]; exact h1
            · exact i3 hd k' e
      · have h1' : belowHigh highKey ih k = false := by simpa using h1
        rw [if_pos h1']
        refine ⟨?_, fun _ => ⟨k, List.mem_cons_self _ _, h1'⟩, fun hd => by simp at hd⟩
        have hall : ∀ e ∈ (k :: ks).zip (r :: rs),
            ¬ ((aboveLow lowKey il e.1 && belowHigh highKey ih e.1) = true) := by
          intro e he hcond
          simp only [Bool.and_eq_true] at hcond
          have hmem : e.1 ∈ k :: ks := (List.of_mem_zip (a := e.1) (b := e.2) he).1
          have hle : k ≤ e.1 := by
            rcases List.mem_cons.1 hmem with e' | e'
            · omega
            · have := hp.1 _ e'; omega
          have := belowHigh_mono highKey ih k e.1 hle hcond.2
          rw [h1'] at this
          exact Bool.noConfusion this
        rw [List.filter_eq_nil_iff.2 hall]
        rfl

theorem chainOK_head (t : Tree) (g : Ghost) (l : Int) (rest : List Int)
    (h : ChainOK t g (l :: rest)) : g.inT l ∧ (V t l).isLeaf = true := by
  cases rest with
  | nil => exact ⟨h.1, h.2.1⟩
  | cons l2 rest => exact ⟨h.1, h.2.1⟩

theorem chainOK_suffix (t : Tree) (g : Ghost) : ∀ (pre : List Int) (l : Int) (post : List Int),
    ChainOK t g (pre ++ l :: post) → ChainOK t g (l :: post) := by
  intro pre
  induction pre with
  | nil => intro l post h; exact h
  | cons a pre ih =>
    intro l post h
    cases hp : pre ++ l :: post with
    | nil => simp at hp
    | cons x y =>
      rw [List.cons_append, hp] at h
      rw [← hp] at h
      exact ih l post (by rw [hp] at h ⊢; exact h.2.2.2.2)

theorem rangeLoop_succ (lowKey highKey : Int) (il ih : Bool) (fuel : Nat) (t : Tree)
    (leaf : BPlusTreeNode) (hpage : leaf.pageNum ≠ -1) :
    rangeLoop lowKey highKey il ih (fuel + 1) t leaf =
      if (scanLeaf lowKey highKey il ih (leaf.keys.take leaf.keyCount.toNat) leaf.rids).2 = false
          ∧ leaf.nextLeaf ≠ -1 then
        (rangeLoop lowKey highKey il ih fuel t (readNode t leaf.nextLeaf)).map fun rest =>
          (scanLeaf lowKey highKey il ih (leaf.keys.take leaf.keyCount.toNat) leaf.rids).1 ++ rest
      else some (scanLeaf lowKey highKey il ih (leaf.keys.take leaf.keyCount.toNat) leaf.rids).1 := by
  rw [rangeLoop, if_neg hpage]
  simp only [Bool.and_eq_true, Bool.not_eq_true', decide_eq_true_eq]

theorem filter_zip_sorted (ks : List Int) (rs : List RID) (p : Int × RID → Bool)
    (hp : ks.Pairwise (· < ·)) (hlen : rs.length = ks.length) :
    (((ks.zip rs).filter p).map Prod.fst).Pairwise (· < ·) := by
  have h1 : (((ks.zip rs).filter p).map Prod.fst).Sublist ((ks.zip rs).map Prod.fst) :=
    List.Sublist.map _ (List.filter_sublist _)
  rw [List.map_fst_zip _ _ (le_of_eq hlen.symm)] at h1
  exact hp.sublist h1

/-- The walk of `rangeSearch` along the leaf chain from leaf `l`: it returns the
RIDs of the entries with a key from the interval of `l` upwards that lie
within both bounds, in increasing key order. -/
theorem rangeLoop_chain (t : Tree) (g : Ghost) (M : Int → Option RID)
    (hnode : ∀ p, g.inT p → NodeOK t g M p) (hrange : ∀ p, g.inT p → 1 ≤ p)
    (hM : ∀ k r, M k = some r → k < TOP) (lowKey highKey : Int) (il ih : Bool) :
    ∀ (rest : List Int) (l : Int) (fuel : Nat), ChainOK t g (l :: rest) → rest.length < fuel →
      ∃ es : List (Int × RID),
        rangeLoop lowKey highKey il ih fuel t (readNode t l) = some (es.map Prod.snd) ∧
        (es.map Prod.fst).Pairwise (· < ·) ∧
        ∀ k r, (k, r) ∈ es ↔ (M k = some r ∧ g.lo l ≤ k ∧ aboveLow lowKey il k = true ∧
          belowHigh highKey ih k = true) := by
  intro rest
  induction rest with
  | nil =>
    intro l fuel hc hf
    obtain ⟨hin, hleaf, hnext, hhi⟩ := hc
    have hn := hnode l hin
    unfold NodeOK at hn
    rw [if_pos hleaf] at hn
    obtain ⟨⟨h1, h2, h3, h4⟩, _, _⟩ := hn
    obtain ⟨n, rfl⟩ : ∃ n, fuel = n + 1 := ⟨fuel - 1, by simp at hf; omega⟩
    have hpage : (readNode t l).pageNum ≠ -1 := by
      rw [readNode_pageNum]; have := hrange l hin; omega
    have htake : (readNode t l).keys.take (readNode t l).keyCount.toNat = (V t l).keys := by
      rw [readNode_keys, readNode_keyCount, h1, Int.toNat_ofNat, List.take_length]
    obtain ⟨s1, _, _⟩ := scanLeaf_spec lowKey highKey il ih _ _ h3 h2
    rw [rangeLoop_succ _ _ _ _ _ _ _ hpage, htake, readNode_rids, readNode_nextLeaf t l hleaf,
      if_neg (by rw [hnext]; simp), s1]
    refine ⟨_, rfl, filter_zip_sorted _ _ _ h3 h2, ?_⟩
    intro k r
    rw [List.mem_filter, h4 k r, hhi]
    simp only [Bool.and_eq_true]
    constructor
    · rintro ⟨⟨a, b, _⟩, c, d⟩; exact ⟨a, b, c, d⟩
    · rintro ⟨a, b, c, d⟩; exact ⟨⟨a, b, hM k r a⟩, c, d⟩
  | cons l2 rest ihr =>
    intro l fuel hc hf
    obtain ⟨hin, hleaf, hnext, hhi, hc2⟩ := hc
    have hin2 := (chainOK_head t g l2 rest hc2).1
    have hl2 : l2 ≠ -1 := by have := hrange l2 hin2; omega
    have hn := hnode l hin
    unfold NodeOK at hn
    rw [if_pos hleaf] at hn
    obtain ⟨⟨h1, h2, h3, h4⟩, _, hlt⟩ := hn
    obtain ⟨n, rfl⟩ : ∃ n, fuel = n + 1 := ⟨fuel - 1, by simp at hf; omega⟩
    have hpage : (readNode t l).pageNum ≠ -1 := by
      rw [readNode_pageNum]; have := hrange l hin; omega
    have htake : (readNode t l).keys.take (readNode t l).keyCount.toNat = (V t l).keys := by
      rw [readNode_keys, readNode_keyCount, h1, Int.toNat_ofNat, List.take_length]
    obtain ⟨s1, s2, s3⟩ := scanLeaf_spec lowKey highKey il ih _ _ h3 h2
    rw [rangeLoop_succ _ _ _ _ _ _ _ hpage, htake, readNode_rids, readNode_nextLeaf t l hleaf,
      hnext, s1]
    by_cases hd : (scanLeaf lowKey highKey il ih (V t l).keys (V t l).rids).2 = false
    · rw [if_pos ⟨hd, hl2⟩]
      obtain ⟨es2, e1, e2, e3⟩ := ihr l2 n hc2 (by simp at hf; omega)
      rw [e1]
      refine ⟨((V t l).keys.zip (V t l).rids).filter
        (fun e => aboveLow lowKey il e.1 && belowHigh highKey ih e.1) ++ es2, ?_, ?_, ?_⟩
      · simp only [Option.map_some', List.map_append]
      · rw [List.map_append, List.pairwise_append]
        refine ⟨filter_zip_sorted _ _ _ h3 h2, e2, ?_⟩
        intro a ha b hb
        obtain ⟨⟨a1, a2⟩, ha', rfl⟩ := List.mem_map.1 ha
        obtain ⟨⟨b1, b2⟩, hb', rfl⟩ := List.mem_map.1 hb
        have c1 := ((h4 a1 a2).1 (List.mem_filter.1 ha').1).2.2
        have c2 := ((e3 b1 b2).1 hb').2.1
        show a1 < b1
        omega
      · intro k r
        rw [List.mem_append, List.mem_filter, h4 k r, e3 k r]
        simp only [Bool.and_eq_true]
        constructor
        · rintro (⟨⟨a, b, _⟩, c, d⟩ | ⟨a, b, c, d⟩)
          · exact ⟨a, b, c, d⟩
          · exact ⟨a, by omega, c, d⟩
        · rintro ⟨a, b, c, d⟩
          by_cases hk : k < g.hi l
          · exact Or.inl ⟨⟨a, b, hk⟩, c, d⟩
          · exact Or.inr ⟨a, by omega, c, d⟩
    · rw [if_neg (fun h => hd h.1)]
      have hd' : (scanLeaf lowKey highKey il ih (V t l).keys (V t l).rids).2 = true := by
        simpa using hd
      obtain ⟨k0, hk0, hb0⟩ := s2 hd'
      obtain ⟨r0, hr0⟩ := mem_zip_of_mem_left _ _ h2 k0 hk0
      have hk0hi := ((h4 k0 r0).1 hr0).2.2
      refine ⟨_, rfl, filter_zip_sorted _ _ _ h3 h2, ?_⟩
      intro k r
      rw [List.mem_filter, h4 k r]
      simp only [Bool.and_eq_true]
      constructor
      · rintro ⟨⟨a, b, _⟩, c, d⟩; exact ⟨a, b, c, d⟩
      · rintro ⟨a, b, c, d⟩
        refine ⟨⟨a, b, ?_⟩, c, d⟩
        by_contra hk
        have := belowHigh_mono highKey ih k0 k (by omega) d
        rw [hb0] at this
        exact Bool.noConfusion this

/-- `rangeSearch` on a well-formed tree returns the RIDs of the entries within
both bounds, in increasing key order. -/
theorem rangeSearch_spec (t : Tree) (M : Int → Option RID) (h : Inv t M)
    (lowKey highKey : Int) (il ih : Bool) (hlo : BOT ≤ lowKey) (hhi : lowKey < TOP) :
    ∃ es : List (Int × RID),
      rangeSearch t lowKey highKey il ih = some (es.map Prod.snd) ∧
      (es.map Prod.fst).Pairwise (· < ·) ∧
      ∀ k r, (k, r) ∈ es ↔ (M k = some r ∧ aboveLow lowKey il k = true ∧
        belowHigh highKey ih k = true) := by
  obtain ⟨hk, _, _, hMr, hcase⟩ := h
  unfold rangeSearch
  rcases hcase with ⟨hr, hM⟩ | ⟨hr, g, chain, hg⟩
  · refine ⟨[], by simp [hr], List.Pairwise.nil, ?_⟩
    intro k r
    simp [hM k]
  · rw [if_neg (by simp [hk, hr])]
    obtain ⟨l, h1, h2, h3, h4, h5⟩ := findLeaf_spec t g M chain hg hr lowKey hlo hhi
    have hl1 : l ≠ -1 := by have := (hg.range l h2).1; omega
    rw [h1]
    simp only [hl1, if_false]
    obtain ⟨pre, post, hsplit⟩ := List.append_of_mem (hg.chain_all l h2 h3)
    have hc := hg.chain_ok
    rw [hsplit] at hc
    have hlen := hg.chain_len
    rw [hsplit] at hlen
    simp only [List.length_append, List.length_cons] at hlen
    obtain ⟨es, e1, e2, e3⟩ := rangeLoop_chain t g M hg.node_ok (fun p hp => (hg.range p hp).1)
      (fun k r hkr => (hMr k r hkr).2) lowKey highKey il ih post l (nodeFuel t)
      (chainOK_suffix t g pre l post hc) (by unfold nodeFuel; omega)
    refine ⟨es, e1, e2, ?_⟩
    intro k r
    rw [e3 k r]
    constructor
    · rintro ⟨a, _, c, d⟩; exact ⟨a, c, d⟩
    · rintro ⟨a, c, d⟩
      have := aboveLow_ge lowKey il k c
      exact ⟨a, by omega, c, d⟩

theorem entriesMap_nodup (entries : List (Int × RID)) (hd : (entries.map Prod.fst).Nodup)
    (k : Int) (r : RID) : entriesMap entries k = some r ↔ (k, r) ∈ entries := by
  obtain ⟨f1, f2⟩ := foldl_bindNew_nodup entries (fun _ => none) hd (fun _ _ => rfl)
  unfold entriesMap
  constructor
  · intro h
    by_cases hk : k ∈ entries.map Prod.fst
    · obtain ⟨⟨k', r'⟩, hm, rfl⟩ := List.mem_map.1 hk
      rw [f1 k' r' hm] at h
      rw [← Option.some.inj h]
      exact hm
    · rw [f2 k hk] at h
      exact Option.noConfusion h
  · exact f1 k r

/-! ## B+ tree: the tree after 677 ascending inserts and 337 removals -/

theorem upKeys_succ (n : Nat) : upKeys (n + 1) = upKeys n ++ [(n : Int) + 1] := by
  simp [upKeys, List.range_succ]

theorem upRids_succ (n : Nat) : upRids (n + 1) = upRids n ++ [⟨0, (n : Int) + 1⟩] := by
  simp [upRids, List.range_succ]

theorem upKeys_length (n : Nat) : (upKeys n).length = n := by simp [upKeys]

theorem upRids_length (n : Nat) : (upRids n).length = n := by simp [upRids]

theorem ascending_succ (n : Nat) :
    ascending (n + 1) = ascending n ++ [((n : Int) + 1, ⟨0, (n : Int) + 1⟩)] := by
  unfold ascending
  rw [upKeys_succ, upRids_succ, List.zip_append (by rw [upKeys_length, upRids_length])]
  rfl

theorem mem_upKeys (n : Nat) (k : Int) : k ∈ upKeys n ↔ 1 ≤ k ∧ k ≤ n := by
  simp only [upKeys, List.mem_map, List.mem_range]
  constructor
  · rintro ⟨i, hi, rfl⟩; omega
  · rintro ⟨h1, h2⟩; exact ⟨(k - 1).toNat, by omega, by omega⟩

theorem takeWhile_all {α : Type} (p : α → Bool) : ∀ l : List α, (∀ x ∈ l, p x = true) →
    l.takeWhile p = l := by
  intro l
  induction l with
  | nil => intro _; rfl
  | cons a l ih =>
    intro h
    rw [List.takeWhile_cons, h a (List.mem_cons_self _ _)]
    simp only [if_true]
    rw [ih (fun x hx => h x (List.mem_cons_of_mem _ hx))]

theorem insertAll_append : ∀ (a b : List (Int × RID)) (t : Tree),
    insertAll t (a ++ b) = (insertAll t a).bind fun t' => insertAll t' b := by
  intro a
  induction a with
  | nil => intro b t; rfl
  | cons e a ih =>
    intro b t
    obtain ⟨key, rid⟩ := e
    simp only [List.cons_append, insertAll]
    cases insert t key rid with
    | none => rfl
    | some r => exact ih b r.2

theorem removeAll_append : ∀ (a b : List Int) (t : Tree),
    removeAll t (a ++ b) = (removeAll t a).bind fun t' => removeAll t' b := by
  intro a
  induction a with
  | nil => intro b t; rfl
  | cons e a ih =>
    intro b t
    simp only [List.cons_append, removeAll]
    cases remove t e with
    | none => rfl
    | some r => exact ih b r.2

theorem readNode_of_leaf (t : Tree) (p : Int) (n : BPlusTreeNode) (h : t.pages p = n)
    (hl : n.isLeaf = true) : readNode t p = { n with pageNum := p } := by
  unfold readNode
  rw [h]
  simp [hl]

theorem OneLeaf.findLeaf_root {t : Tree} {n : Nat} (h : OneLeaf t n) (key : Int) :
    findLeaf t key = some 1 := by
  unfold BPlusTree.findLeaf
  rw [if_neg (by rw [h.rootPage]; decide), h.rootPage]
  have : nodeFuel t = 2 := by unfold nodeFuel; rw [h.nodeCount]; rfl
  rw [this, findLeafLoop, readNode_of_leaf t 1 _ h.page1 rfl]
  rfl

theorem oneLeaf_first : ∃ t, insert (emptyTree blankDisk KeyType.INT 4) 1 ⟨0, 1⟩ = some (true, t) ∧
    OneLeaf t 1 := by
  refine ⟨_, rfl, ?_⟩
  constructor
  · rfl
  · exact calculateOrder_int 4
  · rfl
  · rfl
  · rfl

theorem insertAt_end {α : Type} (l : List α) (x : α) : insertAt l l.length x = l ++ [x] := by
  simp [insertAt]

theorem insertIntoLeaf_up (n : Nat) (p nx : Int) :
    insertIntoLeaf
      { pageNum := 1, isLeaf := true, keyCount := (n : Int), parent := p, nextLeaf := nx,
        prevLeaf := -1, keys := upKeys n, rids := upRids n } ((n : Int) + 1) ⟨0, (n : Int) + 1⟩ =
      { pageNum := 1, isLeaf := true, keyCount := ((n + 1 : Nat) : Int), parent := p,
        nextLeaf := nx, prevLeaf := -1, keys := upKeys (n + 1), rids := upRids (n + 1) } := by
  have htw : ((upKeys n).takeWhile fun k => decide (k < (n : Int) + 1)) = upKeys n := by
    apply takeWhile_all
    intro x hx
    have := (mem_upKeys n x).1 hx
    simp only [decide_eq_true_eq]
    omega
  unfold insertIntoLeaf
  simp only [Int.toNat_ofNat]
  rw [show (upKeys n).take n = upKeys n by rw [List.take_of_length_le (by rw [upKeys_length])],
    htw, upKeys_length]
  have h1 : insertAt (upKeys n) n ((n : Int) + 1) = upKeys (n + 1) := by
    have := insertAt_end (upKeys n) ((n : Int) + 1)
    rw [upKeys_length] at this
    rw [this, upKeys_succ]
  have h2 : insertAt (upRids n) n (⟨0, (n : Int) + 1⟩ : RID) = upRids (n + 1) := by
    have := insertAt_end (upRids n) (⟨0, (n : Int) + 1⟩ : RID)
    rw [upRids_length] at this
    rw [this, upRids_succ]
  rw [h1, h2]
  push_cast
  rfl

theorem oneLeaf_step (t : Tree) (n : Nat) (h : OneLeaf t n) (hn : n + 1 < 677) :
    ∃ t', insert t ((n : Int) + 1) ⟨0, (n : Int) + 1⟩ = some (true, t') ∧ OneLeaf t' (n + 1) := by
  have hr : t.rootPage ≠ -1 := by rw [h.rootPage]; decide
  have hread := readNode_of_leaf t 1 _ h.page1 rfl
  have hnc : ((upKeys n).contains ((n : Int) + 1)) = false := by
    rw [Bool.eq_false_iff]
    intro hc
    have := (mem_upKeys n _).1 (by simpa using hc)
    omega
  rw [insert_of_leaf t _ 1 _ h.keyType hr (h.findLeaf_root _), hread]
  simp only [Int.toNat_ofNat]
  rw [show (upKeys n).take n = upKeys n by rw [List.take_of_length_le (by rw [upKeys_length])],
    hnc, insertIntoLeaf_up]
  simp only [Bool.false_eq_true, if_false]
  rw [if_neg (by rw [h.order]; push_cast; omega)]
  refine ⟨_, rfl, ?_⟩
  constructor
  · exact h.keyType
  · exact h.order
  · exact h.rootPage
  · exact h.nodeCount
  · simp [writeNode]

theorem take_upKeys (m n : Nat) (h : m ≤ n) : (upKeys n).take m = upKeys m := by
  unfold upKeys
  rw [← List.map_take, List.take_range, min_eq_left h]

theorem take_upRids (m n : Nat) (h : m ≤ n) : (upRids n).take m = upRids m := by
  unfold upRids
  rw [← List.map_take, List.take_range, min_eq_left h]

theorem getD_upKeys (i n : Nat) (h : i < n) : (upKeys n).getD i 0 = (i : Int) + 1 := by
  unfold upKeys
  rw [List.getD_eq_getElem _ _ (by simpa using h)]
  simp

theorem twoLeaves_split_aux (t : Tree) (n : Nat) (hn : n = 676) (h : OneLeaf t n) :
    ∃ t', insert t ((n : Int) + 1) ⟨0, (n : Int) + 1⟩ = some (true, t') ∧ TwoLeaves t' 0 := by
  have hr : t.rootPage ≠ -1 := by rw [h.rootPage]; decide
  have hread := readNode_of_leaf t 1 _ h.page1 rfl
  have hnc : ((upKeys n).contains ((n : Int) + 1)) = false := by
    rw [Bool.eq_false_iff]
    intro hc
    have := (mem_upKeys n _).1 (by simpa using hc)
    omega
  have hfuel : nodeFuel t = 2 := by unfold nodeFuel; rw [h.nodeCount]; rfl
  have hhalf : (n + 1) / 2 = 338 := by omega
  have hstep := insert_of_leaf t ((n : Int) + 1) 1 ⟨0, (n : Int) + 1⟩
    h.keyType hr (h.findLeaf_root _)
  rw [hread] at hstep
  simp only [Int.toNat_ofNat] at hstep
  rw [show (upKeys n).take n = upKeys n by
    rw [List.take_of_length_le (by rw [upKeys_length])], hnc, insertIntoLeaf_up] at hstep
  simp only [Bool.false_eq_true, if_false] at hstep
  rw [if_pos (by rw [h.order]; push_cast; omega), splitLeaf_eq, hfuel,
    splitLeafPrep_eq _ _ (upKeys (n + 1)) (upRids (n + 1)) rfl rfl (by rw [upKeys_length])
      (by rw [upKeys_length, upRids_length])
      (by rw [upKeys_length, hhalf, getD_upKeys _ _ (by omega), List.getD_eq_getElem?_getD,
             List.getElem?_drop]
          have : 338 + 0 < (upKeys (n + 1)).length := by rw [upKeys_length]; omega
          rw [List.getElem?_eq_getElem this]
          simp [upKeys])] at hstep
  simp only [upKeys_length] at hstep
  rw [hhalf, take_upKeys 338 (n + 1) (by omega),
    take_upRids 338 (n + 1) (by omega), getD_upKeys 338 (n + 1) (by omega)] at hstep
  rw [insertIntoParent, if_pos rfl] at hstep
  rw [hstep]
  refine ⟨_, rfl, ?_⟩
  constructor
  · exact h.keyType
  · exact h.order
  · show t.nodeCount + 1 + 1 = 3
    rw [h.nodeCount]; rfl
  · show t.nodeCount + 1 + 1 = 3
    rw [h.nodeCount]; rfl
  · simp [writeNode, allocateNewPage, h.nodeCount]
  · simp [writeNode, allocateNewPage, h.nodeCount]

theorem drop_upKeys (j n : Nat) (h : j < n) :
    (upKeys n).drop j = ((j : Int) + 1) :: (upKeys n).drop (j + 1) := by
  have hl : j < (upKeys n).length := by rw [upKeys_length]; exact h
  rw [List.drop_eq_getElem_cons hl]
  congr 1
  have := getD_upKeys j n h
  rw [List.getD_eq_getElem _ _ hl] at this
  exact this

theorem drop_upRids (j n : Nat) (h : j < n) :
    (upRids n).drop j = (⟨0, (j : Int) + 1⟩ : RID) :: (upRids n).drop (j + 1) := by
  have hl : j < (upRids n).length := by rw [upRids_length]; exact h
  rw [List.drop_eq_getElem_cons hl]
  congr 1
  simp [upRids]

theorem readNode_of_internal (t : Tree) (p : Int) (n : BPlusTreeNode) (h : t.pages p = n)
    (hl : n.isLeaf = false) :
    readNode t p = { n with pageNum := p, nextLeaf := -1, prevLeaf := -1 } := by
  unfold readNode
  rw [h]
  simp [hl]

theorem TwoLeaves.findLeaf_low {t : Tree} {j : Nat} (h : TwoLeaves t j) (key : Int)
    (hk : key < 339) : findLeaf t key = some 1 := by
  unfold BPlusTree.findLeaf
  rw [if_neg (by rw [h.rootPage]; decide), h.rootPage]
  have : nodeFuel t = 4 := by unfold nodeFuel; rw [h.nodeCount]; rfl
  rw [this, findLeafLoop, readNode_of_internal t 3 _ h.page3 rfl]
  have hci : childIndex
      { pageNum := 3, isLeaf := false, keyCount := 1, parent := -1, nextLeaf := -1,
        prevLeaf := -1, keys := [339], children := [1, 2] } key = 0 := by
    unfold childIndex
    have : ¬ (key ≥ 339) := by omega
    simp [this]
  simp only [Bool.false_eq_true, if_false]
  rw [hci]
  simp only [List.getD_cons_zero]
  rw [findLeafLoop, readNode_of_leaf t 1 _ h.page1 rfl]
  rfl

theorem deleteFromLeaf_head (n : BPlusTreeNode) (key : Int) (ks : List Int) (r : RID)
    (rs : List RID) (hk : n.keys = key :: ks) (hr : n.rids = r :: rs) (hkc : 0 < n.keyCount) :
    deleteFromLeaf n key = { n with keys := ks, rids := rs, keyCount := n.keyCount - 1 } := by
  obtain ⟨m, hm⟩ : ∃ m, n.keyCount.toNat = m + 1 := ⟨n.keyCount.toNat - 1, by omega⟩
  unfold deleteFromLeaf
  rw [hk, hr, hm, List.take_succ_cons, List.takeWhile_cons]
  simp only [ne_eq, not_true_eq_false, decide_False, Bool.false_eq_true, if_false,
    List.length_nil, Nat.cast_zero, hkc, if_true, eraseAt, List.take_zero, List.nil_append,
    zero_add, List.drop_succ_cons, List.drop_zero]

theorem twoLeaves_remove (t : Tree) (j : Nat) (h : TwoLeaves t j) (hj : j < 337) :
    ∃ t', remove t ((j : Int) + 1) = some (true, t') ∧ TwoLeaves t' (j + 1) := by
  have hread := readNode_of_leaf t 1 _ h.page1 rfl
  have hkc : ((338 : Int) - (j : Int)).toNat = 338 - j := by omega
  have htake : ((upKeys 338).drop j).take (338 - j) = (upKeys 338).drop j := by
    rw [List.take_of_length_le (by rw [List.length_drop, upKeys_length])]
  have hdk := drop_upKeys j 338 (by omega)
  have hdr := drop_upRids j 338 (by omega)
  have hmem : ((upKeys 338).drop j).contains ((j : Int) + 1) = true := by
    rw [hdk]; simp
  unfold remove
  rw [if_neg (by rw [h.keyType, h.rootPage]; decide), h.findLeaf_low _ (by omega)]
  simp only [show ¬ ((1 : Int) = -1) by decide, if_false]
  rw [hread]
  simp only [hkc, htake, hmem, Bool.not_true, Bool.false_eq_true, if_false]
  rw [deleteFromLeaf_head _ ((j : Int) + 1) ((upKeys 338).drop (j + 1)) ⟨0, (j : Int) + 1⟩
    ((upRids 338).drop (j + 1)) hdk hdr (by show (0 : Int) < 338 - (j : Int); omega)]
  simp only
  rw [if_neg (by omega)]
  refine ⟨_, rfl, ?_⟩
  constructor
  · exact h.keyType
  · exact h.order
  · exact h.rootPage
  · exact h.nodeCount
  · have := h.page3
    simp [writeNode, this]
  · simp only [writeNode, if_true]
    push_cast
    rw [show (338 : Int) - (j : Int) - 1 = 338 - ((j : Int) + 1) by omega]

theorem insertAll_ascending : ∀ n : Nat, n + 1 < 677 →
    ∃ t, insertAll (emptyTree blankDisk KeyType.INT 4) (ascending (n + 1)) = some t ∧
      OneLeaf t (n + 1) := by
  intro n
  induction n with
  | zero =>
    intro _
    obtain ⟨t, h1, h2⟩ := oneLeaf_first
    refine ⟨t, ?_, h2⟩
    have : ascending (0 + 1) = [(1, ⟨0, 1⟩)] := by
      rw [ascending_succ]
      simp [ascending, upKeys, upRids]
    rw [this]
    simp only [insertAll, h1]
  | succ n ih =>
    intro hn
    obtain ⟨t, h1, h2⟩ := ih (by omega)
    obtain ⟨t', h3, h4⟩ := oneLeaf_step t (n + 1) h2 hn
    refine ⟨t', ?_, h4⟩
    rw [ascending_succ, insertAll_append, h1]
    simp only [Option.bind, insertAll, h3]

theorem insertAll_ascending_full :
    ∃ t, insertAll (emptyTree blankDisk KeyType.INT 4) (ascending 677) = some t ∧
      TwoLeaves t 0 := by
  obtain ⟨t, h1, h2⟩ := insertAll_ascending 675 (by decide)
  obtain ⟨t', h3, h4⟩ := twoLeaves_split_aux t 676 rfl h2
  refine ⟨t', ?_, h4⟩
  rw [show (677 : Nat) = 676 + 1 from rfl, ascending_succ, insertAll_append, h1]
  simp only [Option.bind, insertAll, h3]

theorem removeAll_upKeys (t : Tree) (h : TwoLeaves t 0) : ∀ j : Nat, j ≤ 337 →
    ∃ t', removeAll t (upKeys j) = some t' ∧ TwoLeaves t' j := by
  intro j
  induction j with
  | zero => intro _; exact ⟨t, rfl, h⟩
  | succ j ih =>
    intro hj
    obtain ⟨t1, h1, h2⟩ := ih (by omega)
    obtain ⟨t2, h3, h4⟩ := twoLeaves_remove t1 j h2 (by omega)
    refine ⟨t2, ?_, h4⟩
    rw [upKeys_succ, removeAll_append, h1]
    simp only [Option.bind, removeAll, h3]

theorem drainedTree_twoLeaves : TwoLeaves drainedTree 337 := by
  obtain ⟨t, h1, h2⟩ := insertAll_ascending_full
  obtain ⟨t', h3, h4⟩ := removeAll_upKeys t h2 337 (le_refl _)
  have : drainedTree = t' := by
    unfold drainedTree
    rw [h1]
    simp only [Option.bind, h3, Option.getD_some]
  rw [this]
  exact h4

theorem drainedTree_leaf : (readNode drainedTree 1).keys = [338] ∧
    (readNode drainedTree 1).keyCount = 1 ∧ (readNode drainedTree 1).rids = [⟨0, 338⟩] := by
  have h := drainedTree_twoLeaves
  rw [readNode_of_leaf drainedTree 1 _ h.page1 rfl]
  have hk := drop_upKeys 337 338 (by decide)
  have hr := drop_upRids 337 338 (by decide)
  have ek : (upKeys 338).drop (337 + 1) = [] :=
    List.drop_eq_nil_of_le (by rw [upKeys_length])
  have er : (upRids 338).drop (337 + 1) = [] :=
    List.drop_eq_nil_of_le (by rw [upRids_length])
  rw [ek] at hk
  rw [er] at hr
  dsimp only
  rw [hk, hr]
  refine ⟨?_, ?_, ?_⟩
  · norm_num
  · norm_num
  · norm_num

end BPlusTree

namespace QueryExecutor

/-! ## The WHERE predicate -/

theorem matchWhereClause_unresolved (clause : WhereClause) (tableMeta : TableMeta)
    (record : List Value)
    (h : ¬ (0 ≤ tableMeta.getColumnIndex (stripTablePrefix clause.column.columnName) ∧
      tableMeta.getColumnIndex (stripTablePrefix clause.column.columnName) < record.length)) :
    matchWhereClause clause tableMeta record = false := by
  unfold matchWhereClause
  simp only []
  rw [if_pos]
  omega

theorem matchWhereClause_compare_null (clause : WhereClause) (tableMeta : TableMeta)
    (record : List Value)
    (hop : clause.op ∈ [CompareOp.EQ, CompareOp.NE, CompareOp.LT, CompareOp.LE, CompareOp.GT,
        CompareOp.GE])
    (hnull : (valueAt record (tableMeta.getColumnIndex
        (stripTablePrefix clause.column.columnName))).isNull = true ∨
      (if clause.isColumnCompare then
          valueAt record (tableMeta.getColumnIndex
            (stripTablePrefix clause.rightColumn.columnName))
        else clause.value).isNull = true) :
    matchWhereClause clause tableMeta record = false := by
  by_cases hres : 0 ≤ tableMeta.getColumnIndex (stripTablePrefix clause.column.columnName) ∧
      tableMeta.getColumnIndex (stripTablePrefix clause.column.columnName) < record.length
  · have hc : ¬ (tableMeta.getColumnIndex (stripTablePrefix clause.column.columnName) < 0 ∨
        tableMeta.getColumnIndex (stripTablePrefix clause.column.columnName) ≥ record.length) := by
      omega
    unfold matchWhereClause
    simp only []
    rw [if_neg hc]
    have key : (match rightOperand clause tableMeta record with
        | none => false
        | some rv =>
          if ((valueAt record (tableMeta.getColumnIndex
              (stripTablePrefix clause.column.columnName))).isNull || rv.isNull) = true then false
          else evaluateCompare clause.op (compareValues (valueAt record
            (tableMeta.getColumnIndex (stripTablePrefix clause.column.columnName))) rv)) =
        false := by
      unfold rightOperand
      by_cases hcc : clause.isColumnCompare = true
      · simp only [hcc, if_true] at hnull ⊢
        split_ifs with h1
        · rfl
        · rcases hnull with hl | hr
          · simp [hl]
          · simp [hr]
      · simp only [hcc] at hnull ⊢
        rcases hnull with hl | hr
        · simp [hl]
        · have hr2 : clause.value.isNull = true := by simpa using hr
          simp [hr2]
    simp only [List.mem_cons, List.mem_singleton, List.not_mem_nil, or_false] at hop
    rcases hop with h | h | h | h | h | h <;> rw [h] at key ⊢ <;> exact key
  · exact matchWhereClause_unresolved clause tableMeta record hres

end QueryExecutor

namespace QueryExecutor

/-! ## `LIKE`: the regular expression of a pattern -/

theorem regexItems_atom (a : RegexAtom) (ts : List RegexToken)
    (h : ts.head? ≠ some RegexToken.star) :
    regexItems (RegexToken.atom a :: ts) = (regexItems ts).map fun items => (a, false) :: items := by
  cases ts with
  | nil => simp [regexItems]
  | cons t rest =>
    cases t with
    | star => simp at h
    | atom b => simp [regexItems]

/-- The expression `likeMatch` builds is in the modelled fragment, and its
items are those of the pattern. -/
theorem regexTokens_likeRegex : ∀ (pattern : List Nat),
    ∃ ts, regexTokens false (likeRegex pattern) = some ts ∧
      ts.head? ≠ some RegexToken.star ∧ regexItems ts = some (likeItems pattern) := by
  intro pattern
  induction pattern with
  | nil => exact ⟨[], rfl, by simp, rfl⟩
  | cons c rest ih =>
    obtain ⟨ts, h1, h2, h3⟩ := ih
    by_cases hp : c = 37
    · subst hp
      refine ⟨RegexToken.atom RegexAtom.anyChar :: RegexToken.star :: ts, ?_, by simp, ?_⟩
      · simp [likeRegex, regexTokens, h1]
      · simp [regexItems, h3, likeItems]
    · by_cases hu : c = 95
      · subst hu
        refine ⟨RegexToken.atom RegexAtom.anyChar :: ts, ?_, by simp, ?_⟩
        · simp [likeRegex, regexTokens, h1]
        · rw [regexItems_atom _ _ h2, h3]
          simp [likeItems]
      · by_cases hs : isRegexSpecial c = true
        · refine ⟨RegexToken.atom (RegexAtom.char c) :: ts, ?_, by simp, ?_⟩
          · simp [likeRegex, regexTokens, h1, hp, hu, hs]
          · rw [regexItems_atom _ _ h2, h3]
            simp [likeItems, hp, hu]
        · have h92 : c ≠ 92 := by
            intro h; subst h; exact hs (by decide)
          have h46 : c ≠ 46 := by
            intro h; subst h; exact hs (by decide)
          have h42 : c ≠ 42 := by
            intro h; subst h; exact hs (by decide)
          refine ⟨RegexToken.atom (RegexAtom.char c) :: ts, ?_, by simp, ?_⟩
          · simp [likeRegex, regexTokens, h1, hp, hu, hs, h92, h46, h42]
          · rw [regexItems_atom _ _ h2, h3]
            simp [likeItems, hp, hu]

/-- `likeMatch` decides whether the whole string matches the items of the
pattern. -/
theorem likeMatch_eq (str pattern : List Nat) :
    likeMatch str pattern = matchItems (likeItems pattern) str := by
  obtain ⟨ts, h1, _, h3⟩ := regexTokens_likeRegex pattern
  simp [likeMatch, regexMatch, h1, h3]

end QueryExecutor

namespace SystemManager

open QueryExecutor (TableMeta)
open RecordManager (Store)

/-! ## Catalog: looking up a table after a change -/

theorem findTable_name (db : Database) (tableName : String) (e : TableMeta × Store)
    (h : findTable db tableName = some e) : e.1.tableName = tableName := by
  unfold findTable at h
  have := List.find?_some h
  simpa using this

theorem find_modifyTable_same (tableName : String) (f : TableMeta × Store → TableMeta × Store) :
    ∀ (l : List (TableMeta × Store)) (e : TableMeta × Store),
    l.find? (fun e => decide (e.1.tableName = tableName)) = some e →
    (f e).1.tableName = tableName →
    (modifyTable tableName f l).find? (fun e => decide (e.1.tableName = tableName)) =
      some (f e) := by
  intro l
  induction l with
  | nil => intro e h; simp at h
  | cons x xs ih =>
    intro e h hf
    by_cases hx : x.1.tableName = tableName
    · simp only [List.find?_cons, hx, decide_True] at h
      simp only [Option.some.injEq] at h
      subst h
      simp only [modifyTable, hx, if_true, List.find?_cons, hf, decide_True]
    · simp only [List.find?_cons, hx, decide_False] at h
      simp only [modifyTable, hx, if_false, List.find?_cons, decide_False]
      exact ih e h hf

theorem find_modifyTable_other (tableName other : String)
    (f : TableMeta × Store → TableMeta × Store) (hne : other ≠ tableName)
    (hf : ∀ e, e.1.tableName = tableName → (f e).1.tableName = tableName) :
    ∀ (l : List (TableMeta × Store)),
    (modifyTable tableName f l).find? (fun e => decide (e.1.tableName = other)) =
      l.find? (fun e => decide (e.1.tableName = other)) := by
  intro l
  induction l with
  | nil => rfl
  | cons x xs ih =>
    by_cases hx : x.1.tableName = tableName
    · have h1 : (f x).1.tableName ≠ other := by rw [hf x hx]; exact fun h => hne h.symm
      have h2 : x.1.tableName ≠ other := by rw [hx]; exact fun h => hne h.symm
      rw [modifyTable, if_pos hx, List.find?_cons, List.find?_cons, decide_eq_false h1,
        decide_eq_false h2]
    · simp only [modifyTable, hx, if_false, List.find?_cons]
      rw [ih]

/-- The database after a successful row insertion into `tableName`: the id
counter advanced, the record manager on the file `rm`, the record count
incremented. -/
theorem findTable_putRecordManager (db : Database) (tableName : String) (rm1 : Store)
    (m : TableMeta) (rm : Store) (h : findTable db tableName = some (m, rm)) :
    findTable (putRecordManager db tableName rm1) tableName = some (m, rm1) := by
  unfold findTable putRecordManager
  exact find_modifyTable_same tableName (fun e => (e.1, rm1)) db.tables (m, rm) h
    (findTable_name db tableName (m, rm) h)

theorem findTable_putRecordManager_other (db : Database) (tableName other : String)
    (rm1 : Store) (hne : other ≠ tableName) :
    findTable (putRecordManager db tableName rm1) other = findTable db other := by
  unfold findTable putRecordManager
  exact find_modifyTable_other tableName other (fun e => (e.1, rm1)) hne (fun e he => he)
    db.tables

theorem getNextRecordID_eq (db : Database) (tableName : String) (m : TableMeta) (rm : Store)
    (h : findTable db tableName = some (m, rm)) :
    (getNextRecordID db tableName).1 = m.nextRecordID ∧
      findTable (getNextRecordID db tableName).2 tableName =
        some ({ m with nextRecordID := m.nextRecordID + 1 }, rm) ∧
      (∀ other, other ≠ tableName →
        findTable (getNextRecordID db tableName).2 other = findTable db other) ∧
      (getNextRecordID db tableName).2.indexManager = db.indexManager := by
  have hm : getTableMeta db tableName = some m := by simp [getTableMeta, h]
  unfold getNextRecordID
  rw [hm]
  refine ⟨rfl, ?_, fun other hne => ?_, rfl⟩
  · exact find_modifyTable_same tableName
      (fun e => ({ e.1 with nextRecordID := e.1.nextRecordID + 1 }, e.2)) db.tables (m, rm) h
      (findTable_name db tableName (m, rm) h)
  · exact find_modifyTable_other tableName other
      (fun e => ({ e.1 with nextRecordID := e.1.nextRecordID + 1 }, e.2)) hne (fun e he => he)
      db.tables

theorem updateRecordCount_one (db : Database) (tableName : String) (m : TableMeta) (rm : Store)
    (h : findTable db tableName = some (m, rm)) :
    findTable (updateRecordCount db tableName 1) tableName =
        some ({ m with recordCount := m.recordCount + 1 }, rm) ∧
      (∀ other, other ≠ tableName →
        findTable (updateRecordCount db tableName 1) other = findTable db other) ∧
      (updateRecordCount db tableName 1).indexManager = db.indexManager := by
  unfold updateRecordCount
  rw [if_pos (by norm_num)]
  refine ⟨?_, fun other hne => ?_, rfl⟩
  · exact find_modifyTable_same tableName
      (fun e => ({ e.1 with recordCount := e.1.recordCount + 1 }, e.2)) db.tables (m, rm) h
      (findTable_name db tableName (m, rm) h)
  · exact find_modifyTable_other tableName other
      (fun e => ({ e.1 with recordCount := e.1.recordCount + 1 }, e.2)) hne (fun e he => he)
      db.tables

end SystemManager

namespace QueryExecutor.Db

open SystemManager (Database findTable getTableMeta getRecordManager putRecordManager
  findTable_name findTable_putRecordManager findTable_putRecordManager_other getNextRecordID_eq
  updateRecordCount_one)
open RecordManager (Store StoreRep allLive insertRecord getAllRecordsDirect isInt32
  getAllRecordsDirect_eq insertRecord_eq PAGE_INT_NUM)

/-! ## Row insertion on a database -/

theorem findTable_congr (db db1 : Database) (h : db1.tables = db.tables) (name : String) :
    findTable db1 name = findTable db name := by
  unfold findTable
  rw [h]

theorem insertIndexEntries_noindex (tableName : String) (tableMeta : TableMeta) (recordID : Int)
    (hidx : tableMeta.indexes = []) :
    ∀ (l : List (ColumnDef × Value)) (im : IndexManager.OpenIndexes),
    insertIndexEntries tableName tableMeta recordID im l = some im := by
  intro l
  induction l with
  | nil => intro im; rfl
  | cons p rest ih =>
    intro im
    obtain ⟨col, val⟩ := p
    have hno : tableMeta.hasIndex col.name = false := by
      simp [TableMeta.hasIndex, hidx]
    simp only [insertIndexEntries, hno, Bool.false_eq_true, false_and, if_false]
    exact ih im

theorem scanTable_eq (db : Database) (tableName : String) (m : TableMeta) (rm : Store)
    (pgs : List (List RecordManager.Rec)) (hfind : findTable db tableName = some (m, rm))
    (hrep : StoreRep rm pgs) :
    scanTable db tableName =
      some ((allLive pgs).map fun r => (r.1, deserializeRecord m.columns (unpackBytes r.2))) := by
  unfold scanTable getTableMeta getRecordManager
  rw [hfind]
  simp only [Option.map_some']
  rw [getAllRecordsDirect_eq rm pgs hrep]
  rfl

/-- The database after a row has been stored in `tableName`: the id counter
advanced, the record manager on its new file, the index manager after the
index loop, the record count incremented. -/
theorem insertRows_cons (tableName : String) (tm : TableMeta) (db : Database) (k : Int)
    (values : List Value) (rest : List (List Value)) (m : TableMeta) (rm : Store)
    (im : IndexManager.OpenIndexes)
    (hfind : findTable db tableName = some (m, rm))
    (hlen : values.length = tm.columns.length)
    (hnn : checkNotNull db tableName values = true)
    (hpk : checkPrimaryKey db tableName values = some true)
    (hfk : checkForeignKey db tableName values = some true)
    (hins : (insertRecord rm m.nextRecordID
      (packWords (serializeRecord tm.columns values))).1 = true)
    (hidx : insertIndexEntries tableName tm m.nextRecordID db.indexManager
      (tm.columns.zip values) = some im) :
    insertRows tableName tm db k (values :: rest) =
      insertRows tableName tm
        (SystemManager.updateRecordCount
          { putRecordManager (SystemManager.getNextRecordID db tableName).2 tableName
              (insertRecord rm m.nextRecordID
                (packWords (serializeRecord tm.columns values))).2 with indexManager := im }
          tableName 1) (k + 1) rest := by
  obtain ⟨h1, h2, _, h4⟩ := getNextRecordID_eq db tableName m rm hfind
  have hrm : getRecordManager (SystemManager.getNextRecordID db tableName).2 tableName =
      some rm := by
    simp [getRecordManager, h2]
  have him : (putRecordManager (SystemManager.getNextRecordID db tableName).2 tableName
      (insertRecord rm m.nextRecordID
        (packWords (serializeRecord tm.columns values))).2).indexManager = db.indexManager := h4
  rw [insertRows]
  simp only [hlen, ne_eq, not_true_eq_false, if_false, hnn, Bool.not_true, Bool.false_eq_true,
    hpk, hfk]
  rw [hrm]
  simp only [h1, hins, Bool.not_true, Bool.false_eq_true, if_false, him, hidx]

/-- What `insertRows_cons` leaves in the catalog. -/
theorem findTable_after_insert (tableName : String) (db : Database) (m : TableMeta) (rm rm1 : Store)
    (im : IndexManager.OpenIndexes) (hfind : findTable db tableName = some (m, rm)) :
    findTable (SystemManager.updateRecordCount
        { putRecordManager (SystemManager.getNextRecordID db tableName).2 tableName rm1 with
          indexManager := im } tableName 1) tableName =
      some ({ m with nextRecordID := m.nextRecordID + 1, recordCount := m.recordCount + 1 },
        rm1) ∧
    (∀ other, other ≠ tableName →
      findTable (SystemManager.updateRecordCount
        { putRecordManager (SystemManager.getNextRecordID db tableName).2 tableName rm1 with
          indexManager := im } tableName 1) other = findTable db other) ∧
    (SystemManager.updateRecordCount
        { putRecordManager (SystemManager.getNextRecordID db tableName).2 tableName rm1 with
          indexManager := im } tableName 1).indexManager = im := by
  obtain ⟨_, h2, h3, _⟩ := getNextRecordID_eq db tableName m rm hfind
  have h5 := findTable_putRecordManager _ tableName rm1 _ _ h2
  have h6 : findTable { putRecordManager (SystemManager.getNextRecordID db tableName).2
      tableName rm1 with indexManager := im } tableName =
      some ({ m with nextRecordID := m.nextRecordID + 1 }, rm1) := h5
  obtain ⟨h7, h8, h9⟩ := updateRecordCount_one _ tableName _ _ h6
  refine ⟨h7, fun other hne => ?_, h9⟩
  rw [h8 other hne]
  have : findTable { putRecordManager (SystemManager.getNextRecordID db tableName).2
      tableName rm1 with indexManager := im } other =
      findTable (putRecordManager (SystemManager.getNextRecordID db tableName).2
      tableName rm1) other := rfl
  rw [this, findTable_putRecordManager_other _ _ _ _ hne, h3 other hne]

end QueryExecutor.Db

namespace QueryExecutor.Db

open SystemManager (Database findTable getTableMeta getRecordManager putRecordManager)
open RecordManager (Store StoreRep WellFormed allLive insertRecord isInt32 insertRecord_eq
  PAGE_INT_NUM)

/-- One row that passes the checks is stored: the row loop goes on from a
database in which the scan of the table ends with the row as the columns read
it back. -/
theorem insertRows_step (tableName : String) (tm : TableMeta) (db : Database) (k : Int)
    (values : List Value) (rest : List (List Value)) (m : TableMeta) (rm : Store)
    (im : IndexManager.OpenIndexes)
    (hfind : findTable db tableName = some (m, rm)) (hcols : m.columns = tm.columns)
    (hwf : WellFormed rm) (htail : rm.tailPageID + 1 < 2147483648)
    (hid : isInt32 m.nextRecordID ∧ m.nextRecordID ≠ 0)
    (hschema : SupportedSchema tm.columns)
    (hlen : values.length = tm.columns.length)
    (hrepr : ∀ v ∈ values, Representable v)
    (hfit : 18 + ((packWords (serializeRecord tm.columns values)).length : Int) ≤ PAGE_INT_NUM)
    (hnn : checkNotNull db tableName values = true)
    (hpk : checkPrimaryKey db tableName values = some true)
    (hfk : checkForeignKey db tableName values = some true)
    (hidx : insertIndexEntries tableName tm m.nextRecordID db.indexManager
      (tm.columns.zip values) = some im) :
    ∃ db1 rows rm1,
      insertRows tableName tm db k (values :: rest) =
        insertRows tableName tm db1 (k + 1) rest ∧
      scanTable db tableName = some rows ∧
      scanTable db1 tableName =
        some (rows ++ [(m.nextRecordID, storedRow tm.columns values)]) ∧
      findTable db1 tableName =
        some ({ m with nextRecordID := m.nextRecordID + 1, recordCount := m.recordCount + 1 },
          rm1) ∧
      WellFormed rm1 ∧ rm1.tailPageID ≤ rm.tailPageID + 1 ∧
      (∀ other, other ≠ tableName → findTable db1 other = findTable db other) ∧
      db1.indexManager = im := by
  obtain ⟨pgs, hrep⟩ := hwf
  obtain ⟨pgs1, hrep1, hlive, hok, _, htail1⟩ :=
    insertRecord_eq rm pgs hrep m.nextRecordID (packWords (serializeRecord tm.columns values))
      hid.1 htail
  have hins := hok hfit
  obtain ⟨hf1, hf2, hf3⟩ := findTable_after_insert tableName db m rm
    (insertRecord rm m.nextRecordID (packWords (serializeRecord tm.columns values))).2 im hfind
  refine ⟨_, _, _,
    insertRows_cons tableName tm db k values rest m rm im hfind hlen hnn hpk hfk hins hidx,
    scanTable_eq db tableName m rm pgs hfind hrep, ?_, hf1, ⟨pgs1, hrep1⟩, htail1, hf2, hf3⟩
  rw [scanTable_eq _ tableName _ _ pgs1 hf1 hrep1, hlive]
  simp only [hins, hid.2, ne_eq, not_false_eq_true, and_self, if_true, List.map_append,
    List.map_cons, List.map_nil]
  rw [hcols, deserializeRecord_packWords tm.columns values hschema hlen hrepr]

theorem checkNotNull_eq (db : Database) (tableName : String) (m : TableMeta) (rm : Store)
    (values : List Value) (hfind : findTable db tableName = some (m, rm)) :
    checkNotNull db tableName values =
      (m.columns.zip values).all fun p => !(p.1.notNull && p.2.isNull) := by
  unfold checkNotNull getTableMeta
  rw [hfind]
  rfl

theorem checkPrimaryKey_nokey (db : Database) (tableName : String) (m : TableMeta) (rm : Store)
    (values : List Value) (hfind : findTable db tableName = some (m, rm))
    (hpk : m.primaryKey = []) : checkPrimaryKey db tableName values = some true := by
  unfold checkPrimaryKey getTableMeta
  rw [hfind]
  simp [hpk]

theorem checkForeignKey_nokey (db : Database) (tableName : String) (m : TableMeta) (rm : Store)
    (values : List Value) (hfind : findTable db tableName = some (m, rm))
    (hfk : m.foreignKeys = []) : checkForeignKey db tableName values = some true := by
  unfold checkForeignKey getTableMeta
  rw [hfind]
  simp [hfk, checkForeignKeys]

/-- Rows stored one after the other in a table without keys and indexes. -/
theorem insertRows_plain (tableName : String) (tm : TableMeta) (hschema : SupportedSchema tm.columns)
    (hnoidx : tm.indexes = []) :
    ∀ (rows : List (List Value)) (db : Database) (k : Int) (m : TableMeta) (rm : Store)
      (old : List (Int × List Value)),
    findTable db tableName = some (m, rm) → m.columns = tm.columns → m.primaryKey = [] →
    m.foreignKeys = [] → WellFormed rm →
    rm.tailPageID + 1 + (rows.length : Int) < 2147483648 →
    1 ≤ m.nextRecordID → m.nextRecordID + (rows.length : Int) < 2147483648 →
    scanTable db tableName = some old →
    (∀ values ∈ rows, values.length = tm.columns.length ∧ (∀ v ∈ values, Representable v) ∧
      18 + ((packWords (serializeRecord tm.columns values)).length : Int) ≤ PAGE_INT_NUM ∧
      ((tm.columns.zip values).all fun p => !(p.1.notNull && p.2.isNull)) = true) →
    ∃ db1 rm1,
      insertRows tableName tm db k rows =
        some ({ message := "Query Done", affectedRows := k + (rows.length : Int) }, db1) ∧
      findTable db1 tableName =
        some ({ m with nextRecordID := m.nextRecordID + (rows.length : Int),
                       recordCount := m.recordCount + (rows.length : Int) }, rm1) ∧
      scanTable db1 tableName = some (old ++ numberedRows tm.columns m.nextRecordID rows) ∧
      (∀ other, other ≠ tableName → findTable db1 other = findTable db other) ∧
      db1.indexManager = db.indexManager := by
  intro rows
  induction rows with
  | nil =>
    intro db k m rm old hfind _ _ _ _ _ _ _ hscan _
    refine ⟨db, rm, ?_, ?_, ?_, fun _ _ => rfl, rfl⟩
    · simp [insertRows]
    · rw [hfind]; simp
    · rw [hscan]; simp [numberedRows]
  | cons values rest ih =>
    intro db k m rm old hfind hcols hpk hfk hwf htail hid1 hid2 hscan hrows
    simp only [List.length_cons] at htail hid2
    push_cast at htail hid2
    obtain ⟨hlen, hrepr, hfit, hnn⟩ := hrows values (List.mem_cons_self _ _)
    obtain ⟨db1, rows1, rm1, hstep, hs0, hs1, hf1, hwf1, htail1, hother1, him1⟩ :=
      insertRows_step tableName tm db k values rest m rm db.indexManager hfind hcols hwf
        (by omega) ⟨⟨by omega, by omega⟩, by omega⟩ hschema hlen hrepr hfit
        (by rw [checkNotNull_eq db tableName m rm values hfind, hcols]; exact hnn)
        (checkPrimaryKey_nokey db tableName m rm values hfind hpk)
        (checkForeignKey_nokey db tableName m rm values hfind hfk)
        (insertIndexEntries_noindex tableName tm m.nextRecordID hnoidx _ _)
    rw [hscan] at hs0
    simp only [Option.some.injEq] at hs0
    subst hs0
    obtain ⟨db2, rm2, h1, h2, h3, h4, h5⟩ := ih db1 (k + 1) _ rm1
      (old ++ [(m.nextRecordID, storedRow tm.columns values)]) hf1 hcols hpk hfk hwf1
      (by omega) (by show 1 ≤ m.nextRecordID + 1; omega)
      (by show m.nextRecordID + 1 + (rest.length : Int) < 2147483648; omega) hs1
      (fun v hv => hrows v (List.mem_cons_of_mem _ hv))
    refine ⟨db2, rm2, ?_, ?_, ?_, fun other hne => ?_, ?_⟩
    · rw [hstep, h1]
      simp only [List.length_cons]
      push_cast
      congr 3
      omega
    · rw [h2]
      simp only [List.length_cons]
      push_cast
      congr 3 <;> omega
    · rw [h3]
      simp only [numberedRows, List.append_assoc, List.singleton_append]
    · rw [h4 other hne, hother1 other hne]
    · rw [h5, him1]

end QueryExecutor.Db

namespace RecordManager

/-! ## Record store: the claims -/

/-- C1. Starting from a freshly initialised file, after any sequence of
`insertRecord` calls with pairwise distinct non-zero slot ids (each payload
fitting in one page) intermixed with `deleteRecord` calls, every call returns
and `getAllRecordsDirect` returns a list in which no slot id occurs twice and
whose pairs are exactly the `(slot id, payload)` pairs that were inserted and
not deleted by a later call.  (The sequence has fewer than 2^31 - 1 calls, so
that page numbers stay within `int`.) -/
theorem scan_after_inserts_and_deletes (disk : Int → Page) (ops : List Op)
    (hdistinct : (insertedIds ops).Nodup)
    (hids : ∀ id ∈ insertedIds ops, id ≠ 0 ∧ isInt32 id)
    (hfit : ∀ id data, Op.insert id data ∈ ops →
      PAGE_HEADER_SIZE + RECORD_HEADER_SIZE + (data.length : Int) ≤ PAGE_INT_NUM)
    (hlen : ops.length < 2147483647) :
    ∃ st res, runOps (freshStore disk) ops = some st ∧ getAllRecordsDirect st = some res ∧
      (res.map Prod.fst).Nodup ∧
      ∀ id data, (id, data) ∈ res ↔ InsertedNotDeleted ops id data := by
  obtain ⟨st, pgs, h1, h2, h3⟩ := runOps_spec ops (freshStore disk) [[]] (StoreRep_fresh disk)
    hids hfit (by show (0 : Int) + 1 + (ops.length : Int) < 2147483648; omega)
  have h0 : allLive [[]] = [] := rfl
  rw [h0] at h3
  obtain ⟨g1, g2⟩ := specRun_char ops [] (by simpa using hdistinct)
  refine ⟨st, _, h1, getAllRecordsDirect_eq st pgs h2, by rw [h3]; exact g1, fun id data => ?_⟩
  rw [h3, g2]
  simp

/-- Instance of `scan_after_inserts_and_deletes` on `exampleOps`. -/
theorem scan_after_inserts_and_deletes_witness :
    ∃ st res, runOps (freshStore zeroDisk) exampleOps = some st ∧
      getAllRecordsDirect st = some res ∧ (res.map Prod.fst).Nodup ∧
      ∀ id data, (id, data) ∈ res ↔ InsertedNotDeleted exampleOps id data :=
  scan_after_inserts_and_deletes zeroDisk exampleOps (by decide)
    (by
      intro id h
      simp only [exampleOps, insertedIds, List.mem_cons, List.mem_singleton, List.not_mem_nil,
        or_false] at h
      rcases h with rfl | rfl | rfl <;> exact ⟨by decide, by decide, by decide⟩)
    (by
      intro id data h
      simp only [exampleOps, List.mem_cons, List.mem_singleton, Op.insert.injEq, List.not_mem_nil,
        or_false, reduceCtorEq, false_or] at h
      rcases h with ⟨-, rfl⟩ | ⟨-, rfl⟩ | ⟨-, rfl⟩ <;> decide)
    (by decide)

/-- C2 (the code accepts a duplicate). On a fresh file `insertRecord(1, ..)`
followed by a second `insertRecord(1, ..)` returns true both times: the second
call finds slot id 1 on the tail page, allocates a new page and inserts there,
and the scan then shows two live records with slot id 1. -/
theorem insertRecord_duplicate_accepted :
    (insertRecord (insertRecord (freshStore zeroDisk) 1 [100, 200, 300, 400, 500]).2
        1 [999, 888]).1 = true ∧
      getAllRecordsDirect (insertRecord (insertRecord (freshStore zeroDisk) 1
        [100, 200, 300, 400, 500]).2 1 [999, 888]).2 =
        some [(1, [100, 200, 300, 400, 500]), (1, [999, 888])] := by
  decide

theorem WellFormed_exampleStore : WellFormed exampleStore := by
  have i1 : ∀ n : Int, -2147483648 ≤ n → n < 2147483648 → isInt32 n := fun n a b => ⟨a, b⟩
  unfold exampleStore
  refine WellFormed_insertRecord _ (WellFormed_insertRecord _ (WellFormed_insertRecord _
    (WellFormed_fresh zeroDisk) 1 _ (i1 _ (by decide) (by decide)) (by decide)) 5 _
      (i1 _ (by decide) (by decide)) (by decide)) 7 _ (i1 _ (by decide) (by decide)) (by decide)

/-- C3. In a well-formed store whose live slot ids (those `getAllRecordsDirect`
returns) are pairwise distinct, `deleteRecord id` returns true exactly when
`id` is live; after a true return `recordExists id` is false, `getRecord id`
returns -1, every other slot id is looked up as before, the scan has lost
exactly the pair of `id`, and a second `deleteRecord id` returns false and
leaves the store as it is; a false return (an id that is not live) leaves the
store unchanged. -/
theorem deleteRecord_contract (st : Store) (hwf : WellFormed st)
    (live : List (Int × List Nat)) (hscan : getAllRecordsDirect st = some live)
    (hnodup : (live.map Prod.fst).Nodup) (id : Int) :
    ∃ b st', deleteRecord st id = some (b, st') ∧
      (b = true ↔ id ∈ live.map Prod.fst) ∧
      (b = true →
        recordExists st' id = some false ∧
        (∀ maxLen, getRecord st' id maxLen = some (-1, [])) ∧
        (∀ id' maxLen, id' ≠ id → getRecord st' id' maxLen = getRecord st id' maxLen) ∧
        getAllRecordsDirect st' = some (live.filter fun x => decide (x.1 ≠ id)) ∧
        deleteRecord st' id = some (false, st')) ∧
      (b = false → st' = st) := by
  obtain ⟨pgs, hp⟩ := hwf
  have hl : live = allLive pgs := by
    rw [getAllRecordsDirect_eq st pgs hp] at hscan
    exact (Option.some.inj hscan).symm
  subst hl
  obtain ⟨st', h1, h2, _, h4⟩ := deleteRecord_eq st pgs hp id
  have hlive' := allLive_tombstoneChain id pgs
  have hself : lookupLive id (allLive (tombstoneChain id pgs)) = none := by
    rw [hlive']; exact lookupLive_eraseLive_self id _ hnodup
  refine ⟨_, st', h1, lookupLive_isSome_iff_mem id _, ?_, ?_⟩
  · intro _
    refine ⟨?_, ?_, ?_, ?_, ?_⟩
    · rw [recordExists_eq st' _ h2 id, hself]; rfl
    · intro maxLen
      rw [getRecord_eq st' _ h2 id maxLen, hself]; rfl
    · intro id' maxLen hne
      rw [getRecord_eq st' _ h2 id' maxLen, getRecord_eq st _ hp id' maxLen, hlive',
        lookupLive_eraseLive_ne id id' _ hne]
    · rw [getAllRecordsDirect_eq st' _ h2, hlive', eraseLive_eq_filter id _ hnodup]
    · obtain ⟨st'', g1, _, _, g4⟩ := deleteRecord_eq st' _ h2 id
      rw [g1, hself, g4 hself]; rfl
  · intro hb
    apply h4
    cases hh : lookupLive id (allLive pgs) with
    | none => rfl
    | some d => rw [hh] at hb; simp at hb

/-- Instance of `deleteRecord_contract`: deleting slot id 5 from the store
holding slot ids 1, 5 and 7. -/
theorem deleteRecord_contract_witness :
    ∃ b st', deleteRecord exampleStore 5 = some (b, st') ∧
      (b = true ↔ (5 : Int) ∈ [1, 5, 7]) ∧
      (b = true →
        recordExists st' 5 = some false ∧
        (∀ maxLen, getRecord st' 5 maxLen = some (-1, [])) ∧
        (∀ id' maxLen, id' ≠ 5 → getRecord st' id' maxLen = getRecord exampleStore id' maxLen) ∧
        getAllRecordsDirect st' = some [(1, [100, 200, 300]), (7, [70, 71])] ∧
        deleteRecord st' 5 = some (false, st')) ∧
      (b = false → st' = exampleStore) :=
  deleteRecord_contract exampleStore WellFormed_exampleStore
    [(1, [100, 200, 300]), (5, [55]), (7, [70, 71])] (by decide) (by decide) 5

/-- C4. In a well-formed store whose live slot ids are pairwise distinct (and
whose file is below 2^31 pages), for a live slot id `id` and a payload `p` that
fits in one page, `updateRecord id p` returns true; afterwards `getRecord id`
returns the words of `p` with `p`'s length, the live slot ids are the same and
still pairwise distinct, and every other slot id is looked up as before. -/
theorem updateRecord_contract (st : Store) (hwf : WellFormed st)
    (hpages : st.tailPageID + 1 < 2147483648)
    (live : List (Int × List Nat)) (hscan : getAllRecordsDirect st = some live)
    (hnodup : (live.map Prod.fst).Nodup) (id : Int) (hlive : id ∈ live.map Prod.fst)
    (p : List Nat) (hfit : PAGE_HEADER_SIZE + RECORD_HEADER_SIZE + (p.length : Int) ≤ PAGE_INT_NUM) :
    ∃ st', updateRecord st id p = some (true, st') ∧
      (∀ maxLen, (p.length : Int) ≤ maxLen → getRecord st' id maxLen = some ((p.length : Int), p)) ∧
      (∃ live', getAllRecordsDirect st' = some live' ∧
        (∀ i, i ∈ live'.map Prod.fst ↔ i ∈ live.map Prod.fst) ∧ (live'.map Prod.fst).Nodup) ∧
      (∀ id' maxLen, id' ≠ id → getRecord st' id' maxLen = getRecord st id' maxLen) := by
  obtain ⟨pgs, hp⟩ := hwf
  have hl : live = allLive pgs := by
    rw [getAllRecordsDirect_eq st pgs hp] at hscan
    exact (Option.some.inj hscan).symm
  subst hl
  obtain ⟨x, hx, hxid⟩ := List.mem_map.1 hlive
  have hid32 : isInt32 id := hxid ▸ ChainRep_isInt32 st.pages pgs 0 hp.1 x hx
  have hid0 : id ≠ 0 := hxid ▸ allLive_fst_ne_zero pgs x hx
  obtain ⟨st1, h1, h2, h3, _⟩ := deleteRecord_eq st pgs hp id
  have hsome : (lookupLive id (allLive pgs)).isSome = true := (lookupLive_isSome_iff_mem id _).2 hlive
  rw [hsome] at h1
  have hlive1 := allLive_tombstoneChain id pgs
  obtain ⟨pgs', g1, g2, g3, _, _⟩ := insertRecord_eq st1 _ h2 id p hid32 (by rw [h3]; exact hpages)
  have hret : (insertRecord st1 id p).1 = true := g3 (by
    simp only [PAGE_HEADER_SIZE, RECORD_HEADER_SIZE] at hfit; omega)
  have hupd : updateRecord st id p = some (true, (insertRecord st1 id p).2) := by
    unfold updateRecord
    rw [h1]
    show some (insertRecord st1 id p) = _
    congr 1
    exact Prod.ext hret rfl
  have hall : allLive pgs' = eraseLive id (allLive pgs) ++ [(id, p)] := by
    rw [g2, hlive1, if_pos ⟨hret, hid0⟩]
  have hself := lookupLive_eraseLive_self id _ hnodup
  refine ⟨_, hupd, ?_, ?_, ?_⟩
  · intro maxLen hm
    rw [getRecord_eq _ _ g1 id maxLen, hall, lookupLive_snoc_self id _ p hself,
      getRecordResult_full p maxLen hm]
  · refine ⟨_, getAllRecordsDirect_eq _ _ g1, ?_, ?_⟩
    · intro i
      rw [hall, eraseLive_eq_filter id _ hnodup]
      simp only [List.map_append, List.map_cons, List.map_nil, List.mem_append, List.mem_singleton,
        List.mem_map, List.mem_filter, decide_eq_true_eq]
      constructor
      · rintro (⟨y, ⟨hy, _⟩, rfl⟩ | rfl)
        · exact ⟨y, hy, rfl⟩
        · exact ⟨x, hx, hxid⟩
      · rintro ⟨y, hy, rfl⟩
        by_cases hc : y.1 = id
        · exact Or.inr hc
        · exact Or.inl ⟨y, ⟨hy, hc⟩, rfl⟩
    · rw [hall, eraseLive_eq_filter id _ hnodup, List.map_append]
      refine List.Nodup.append (nodup_filter_fst _ _ hnodup) (by simp) ?_
      intro i hi1 hi2
      simp only [List.map_cons, List.map_nil, List.mem_singleton] at hi2
      subst hi2
      obtain ⟨y, hy, hy1⟩ := List.mem_map.1 hi1
      have := (List.mem_filter.1 hy).2
      simp at this
      exact this hy1
  · intro id' maxLen hne
    rw [getRecord_eq _ _ g1 id' maxLen, getRecord_eq st _ hp id' maxLen, hall,
      lookupLive_snoc_ne id id' _ p hne, lookupLive_eraseLive_ne id id' _ hne]

/-- Instance of `updateRecord_contract`: slot id 5 of the store holding slot
ids 1, 5 and 7 gets the payload `[9, 8, 7, 6]`. -/
theorem updateRecord_contract_witness :
    ∃ st', updateRecord exampleStore 5 [9, 8, 7, 6] = some (true, st') ∧
      (∀ maxLen, (4 : Int) ≤ maxLen → getRecord st' 5 maxLen = some (4, [9, 8, 7, 6])) ∧
      (∃ live', getAllRecordsDirect st' = some live' ∧
        (∀ i, i ∈ live'.map Prod.fst ↔ i ∈ [(1 : Int), 5, 7]) ∧ (live'.map Prod.fst).Nodup) ∧
      (∀ id' maxLen, id' ≠ 5 → getRecord st' id' maxLen = getRecord exampleStore id' maxLen) :=
  updateRecord_contract exampleStore WellFormed_exampleStore (by decide)
    [(1, [100, 200, 300]), (5, [55]), (7, [70, 71])] (by decide) (by decide) 5 (by decide)
    [9, 8, 7, 6] (by decide)

end RecordManager

namespace QueryExecutor.Db

open SystemManager (Database findTable getTableMeta getRecordManager)

/-! ## Foreign keys on insert -/

theorem foreignKeyValues_eq (tableMeta : TableMeta) (values : List Value) :
    ∀ (columns : List String),
    (∀ col ∈ columns, 0 ≤ tableMeta.getColumnIndex col ∧
      tableMeta.getColumnIndex col < values.length) →
    (columns.filterMap fun col =>
      if tableMeta.getColumnIndex col ≥ 0 ∧ tableMeta.getColumnIndex col < values.length then
        some (valueAt values (tableMeta.getColumnIndex col))
      else none) = columns.map fun col => valueAt values (tableMeta.getColumnIndex col) := by
  intro columns
  induction columns with
  | nil => intro _; rfl
  | cons c cs ih =>
    intro h
    have hc := h c (List.mem_cons_self _ _)
    have hc2 : tableMeta.getColumnIndex c ≥ 0 ∧
        tableMeta.getColumnIndex c < (values.length : Int) := ⟨hc.1, hc.2⟩
    rw [List.filterMap_cons]
    simp only [hc2, and_self, if_true, List.map_cons]
    rw [ih (fun col hcol => h col (List.mem_cons_of_mem _ hcol))]

theorem checkForeignKeys_false (db : Database) (tableMeta : TableMeta) (values : List Value)
    (fk : KeyDef) : ∀ (fks : List KeyDef), fk ∈ fks →
    (∀ fk1 ∈ fks, (checkOneForeignKey db tableMeta values fk1).isSome = true) →
    checkOneForeignKey db tableMeta values fk = some false →
    checkForeignKeys db tableMeta values fks = some false := by
  intro fks
  induction fks with
  | nil => intro h; simp at h
  | cons f rest ih =>
    intro hmem hret hfalse
    obtain ⟨b, hb⟩ := Option.isSome_iff_exists.mp (hret f (List.mem_cons_self _ _))
    cases b with
    | false => simp [checkForeignKeys, hb]
    | true =>
      simp only [checkForeignKeys, hb]
      rcases List.mem_cons.mp hmem with h | h
      · rw [← h, hfalse] at hb; cases hb
      · exact ih h (fun f1 hf1 => hret f1 (List.mem_cons_of_mem _ hf1)) hfalse

/-- The body of the loop of `checkForeignKey` returns false for a key whose
local values are all non-null and match no row of the referenced table, when it
scans a table of at most 1000 counted records or probes an index that finds
only values held by rows. -/
theorem checkOneForeignKey_unmatched (db : Database) (tableMeta : TableMeta)
    (values : List Value) (fk : KeyDef) (refMeta : TableMeta)
    (refRows : List (Int × List Value))
    (href : getTableMeta db fk.refTable = some refMeta)
    (hnonempty : refMeta.recordCount ≠ 0)
    (hcols : fk.columns ≠ [])
    (hlocal : ∀ col ∈ fk.columns, 0 ≤ tableMeta.getColumnIndex col ∧
      tableMeta.getColumnIndex col < values.length)
    (hnonnull : ∀ col ∈ fk.columns,
      (valueAt values (tableMeta.getColumnIndex col)).isNull = false)
    (hscan : scanTable db fk.refTable = some refRows)
    (hnomatch : ∀ r ∈ refRows, ∃ i, i < fk.columns.length ∧ i < fk.refColumns.length ∧
      0 ≤ refMeta.getColumnIndex (fk.refColumns.getD i "") ∧
      refMeta.getColumnIndex (fk.refColumns.getD i "") < r.2.length ∧
      compareValues (valueAt values (tableMeta.getColumnIndex (fk.columns.getD i "")))
        (valueAt r.2 (refMeta.getColumnIndex (fk.refColumns.getD i ""))) ≠ 0)
    (hpath : (foreignKeyProbe refMeta fk (foreignKeyValues tableMeta values fk) = none ∧
        refMeta.recordCount ≤ 1000) ∨
      ∃ refCol refColIdx found,
        foreignKeyProbe refMeta fk (foreignKeyValues tableMeta values fk) =
          some (refCol, refColIdx) ∧
        searchByType db.indexManager fk.refTable refCol (columnAt refMeta refColIdx).type
          ((foreignKeyValues tableMeta values fk).getD 0 Value.makeNull) = some found ∧
        (found = true → ∃ r ∈ refRows,
          compareValues ((foreignKeyValues tableMeta values fk).getD 0 Value.makeNull)
            (valueAt r.2 refColIdx) = 0)) :
    checkOneForeignKey db tableMeta values fk = some false := by
  have hvals : foreignKeyValues tableMeta values fk =
      fk.columns.map fun col => valueAt values (tableMeta.getColumnIndex col) :=
    foreignKeyValues_eq tableMeta values fk.columns hlocal
  have hall : ((foreignKeyValues tableMeta values fk).all fun v => v.isNull) = false := by
    rw [hvals]
    obtain ⟨c, cs, hc⟩ := List.exists_cons_of_ne_nil hcols
    rw [hc]
    have := hnonnull c (by rw [hc]; exact List.mem_cons_self _ _)
    simp [this]
  have hget : ∀ i, i < fk.columns.length →
      (foreignKeyValues tableMeta values fk).getD i Value.makeNull =
        valueAt values (tableMeta.getColumnIndex (fk.columns.getD i "")) := by
    intro i hi
    rw [hvals]
    simp only [List.getD_eq_getElem?_getD, List.getElem?_map]
    rw [List.getElem?_eq_getElem hi]
    rfl
  unfold checkOneForeignKey
  rw [href]
  simp only [hall, Bool.false_eq_true, if_false, hnonempty]
  rcases hpath with ⟨hprobe, hcount⟩ | ⟨refCol, refColIdx, found, hprobe, hsearch, hsound⟩
  · rw [hprobe]
    simp only [not_lt.mpr hcount, if_false, hscan, Option.map_some', Option.some.injEq,
      List.any_eq_false]
    intro r hr
    obtain ⟨i, hi1, hi2, hi3, hi4, hi5⟩ := hnomatch r hr
    unfold foreignKeyMatches
    intro hm
    rw [List.all_eq_true] at hm
    have := hm i (List.mem_range.mpr (lt_min hi1 hi2))
    simp only [ge_iff_le, hi3, hi4, and_self, if_true, decide_eq_true_eq] at this
    rw [hget i hi1] at this
    exact hi5 this
  · rw [hprobe]
    simp only [hsearch, Option.some.injEq]
    cases found with
    | false => rfl
    | true =>
      exfalso
      obtain ⟨r, hr, hmatch⟩ := hsound rfl
      obtain ⟨i, hi1, hi2, hi3, hi4, hi5⟩ := hnomatch r hr
      unfold foreignKeyProbe at hprobe
      split at hprobe
      · rename_i c rc hc hrc
        have hidx : refMeta.getColumnIndex rc = refColIdx := by
          by_cases hcond : refMeta.hasIndex rc = true ∧ refMeta.getColumnIndex rc ≥ 0 ∧
              ((foreignKeyValues tableMeta values fk).getD 0 Value.makeNull).isNull = false
          · simp only [hcond, and_self, if_true, Option.some.injEq, Prod.mk.injEq] at hprobe
            exact hprobe.2
          · simp only [hcond, if_false] at hprobe
            cases hprobe
        rw [hc] at hi1
        simp only [List.length_singleton, Nat.lt_one_iff] at hi1
        subst hi1
        rw [hget 0 (by rw [hc]; simp)] at hmatch
        rw [hrc] at hi5
        simp only [List.getD_cons_zero] at hi5
        rw [hidx] at hi5
        exact hi5 hmatch
      · cases hprobe

end QueryExecutor.Db

namespace QueryExecutor.Db

open SystemManager (Database findTable getTableMeta getRecordManager)
open RecordManager (Store StoreRep WellFormed allLive insertRecord isInt32 PAGE_INT_NUM)

/-- An INSERT of one row that passes the checks succeeds, and the scan then
ends with the row as the columns read it back. -/
theorem executeInsert_single (db : Database) (tableName : String) (m : TableMeta) (rm : Store)
    (values : List Value)
    (hfind : findTable db tableName = some (m, rm))
    (hwf : WellFormed rm) (htail : rm.tailPageID + 1 < 2147483648)
    (hid : isInt32 m.nextRecordID ∧ m.nextRecordID ≠ 0)
    (hschema : SupportedSchema m.columns)
    (hlen : values.length = m.columns.length)
    (hrepr : ∀ v ∈ values, Representable v)
    (hfit : 18 + ((packWords (serializeRecord m.columns values)).length : Int) ≤ PAGE_INT_NUM)
    (hnn : checkNotNull db tableName values = true)
    (hpk : checkPrimaryKey db tableName values = some true)
    (hfk : checkForeignKey db tableName values = some true)
    (hidx : (insertIndexEntries tableName m m.nextRecordID db.indexManager
      (m.columns.zip values)).isSome = true) :
    ∃ db1 rows,
      executeInsert db tableName [values] =
        some ({ message := "Query Done", affectedRows := 1 }, db1) ∧
      scanTable db tableName = some rows ∧
      scanTable db1 tableName =
        some (rows ++ [(m.nextRecordID, storedRow m.columns values)]) := by
  obtain ⟨im, him⟩ := Option.isSome_iff_exists.mp hidx
  obtain ⟨db1, rows, rm1, h1, h2, h3, _⟩ :=
    insertRows_step tableName m db 0 values [] m rm im hfind rfl hwf htail hid hschema hlen
      hrepr hfit hnn hpk hfk him
  refine ⟨db1, rows, ?_, h2, h3⟩
  have hm : getTableMeta db tableName = some m := by simp [getTableMeta, hfind]
  unfold executeInsert
  rw [hm]
  simp only []
  rw [h1]
  rfl

theorem scanTable_congr (db db1 : Database) (name : String)
    (h : findTable db1 name = findTable db name) : scanTable db1 name = scanTable db name := by
  unfold scanTable getTableMeta getRecordManager
  rw [h]

theorem length_countingRows : ∀ (n : Nat) (a : Int), (countingRows n a).length = n := by
  intro n
  induction n with
  | zero => intro a; rfl
  | succ n ih => intro a; simp [countingRows, ih]

theorem mem_countingRows : ∀ (n : Nat) (a : Int) (values : List Value),
    values ∈ countingRows n a → ∃ k : Int, a ≤ k ∧ k < a + n ∧ values = [Value.ofInt k] := by
  intro n
  induction n with
  | zero => intro a values h; simp [countingRows] at h
  | succ n ih =>
    intro a values h
    simp only [countingRows, List.mem_cons] at h
    rcases h with h | h
    · exact ⟨a, le_refl _, by push_cast; omega, h⟩
    · obtain ⟨k, h1, h2, h3⟩ := ih (a + 1) values h
      exact ⟨k, by omega, by push_cast; omega, h3⟩

theorem length_numberedRows (columns : List ColumnDef) : ∀ (rows : List (List Value)) (a : Int),
    (numberedRows columns a rows).length = rows.length := by
  intro rows
  induction rows with
  | nil => intro a; rfl
  | cons r rest ih => intro a; simp [numberedRows, ih]

theorem mem_numberedRows (columns : List ColumnDef) : ∀ (rows : List (List Value)) (a : Int)
    (r : Int × List Value), r ∈ numberedRows columns a rows →
    ∃ values ∈ rows, r.2 = storedRow columns values := by
  intro rows
  induction rows with
  | nil => intro a r h; simp [numberedRows] at h
  | cons v rest ih =>
    intro a r h
    simp only [numberedRows, List.mem_cons] at h
    rcases h with h | h
    · exact ⟨v, List.mem_cons_self _ _, by rw [h]⟩
    · obtain ⟨w, hw, hr⟩ := ih (a + 1) r h
      exact ⟨w, List.mem_cons_of_mem _ hw, hr⟩

end QueryExecutor.Db

namespace QueryExecutor.Db

open SystemManager (Database findTable getTableMeta getRecordManager)
open RecordManager (Store WellFormed isInt32 PAGE_INT_NUM WellFormed_fresh freshStore zeroDisk)

theorem after_eq (db : Database) (stmt : Database → Option (ResultSet × Database))
    (r : ResultSet × Database) (h : stmt db = some r) : after db stmt = r.2 := by
  unfold after
  rw [h]

/-- The 1001 rows go into `item`: the result of the statement and what the
catalog and the scan show afterwards. -/
theorem bigItemDb_spec :
    (executeInsert itemPartDb "item" (countingRows 1001 1)).map (fun r => r.1) =
      some { message := "Query Done", affectedRows := 1001 } ∧
    (∃ rm1, findTable bigItemDb "item" =
      some ({ itemMeta with nextRecordID := 1002, recordCount := 1001 }, rm1)) ∧
    scanTable bigItemDb "item" =
      some (numberedRows itemMeta.columns 1 (countingRows 1001 1)) ∧
    findTable bigItemDb "part" = some (partMeta, freshStore zeroDisk) ∧
    bigItemDb.indexManager = [] := by
  have hfind : findTable itemPartDb "item" = some (itemMeta, freshStore zeroDisk) := rfl
  have hschema : SupportedSchema itemMeta.columns := by
    refine ⟨by decide, fun col h => ?_⟩
    simp only [itemMeta, List.mem_singleton] at h
    subst h
    exact ⟨by decide, by decide, by decide⟩
  obtain ⟨db1, rm1, h1, h2, h3, h4, h5⟩ :=
    insertRows_plain "item" itemMeta hschema rfl (countingRows 1001 1) itemPartDb 0 itemMeta
      (freshStore zeroDisk) [] hfind rfl rfl rfl (WellFormed_fresh zeroDisk)
      (by rw [length_countingRows]; decide) (by decide) (by rw [length_countingRows]; decide)
      (by decide)
      (by
        intro values hv
        obtain ⟨k, hk1, hk2, hk3⟩ := mem_countingRows 1001 1 values hv
        subst hk3
        refine ⟨rfl, ?_, ?_, rfl⟩
        · intro v hv
          simp only [List.mem_singleton] at hv
          subst hv
          exact ⟨⟨by show -2147483648 ≤ k; omega, by show k < 2147483648; push_cast at hk2; omega⟩,
            by simp [Value.ofInt], fun b hb => by simp [Value.ofInt] at hb⟩
        · have : (packWords (serializeRecord itemMeta.columns [Value.ofInt k])).length = 2 := rfl
          rw [this]
          decide)
  have hexec : executeInsert itemPartDb "item" (countingRows 1001 1) =
      some ({ message := "Query Done", affectedRows := 0 + ((countingRows 1001 1).length : Int) },
        db1) := by
    have hm : getTableMeta itemPartDb "item" = some itemMeta := rfl
    unfold executeInsert
    rw [hm]
    exact h1
  have hbig : bigItemDb = db1 :=
    after_eq itemPartDb (fun db => executeInsert db "item" (countingRows 1001 1)) _ hexec
  rw [hbig, hexec]
  rw [length_countingRows] at h2 ⊢
  refine ⟨?_, ⟨rm1, ?_⟩, ?_, ?_, ?_⟩
  · rfl
  · rw [h2]
    rfl
  · rw [h3, List.nil_append]
    rfl
  · rw [h4 "part" (by decide)]
    rfl
  · rw [h5]
    rfl

end QueryExecutor.Db

namespace QueryExecutor.Db

open SystemManager (Database findTable getTableMeta getRecordManager)
open RecordManager (Store WellFormed isInt32 PAGE_INT_NUM WellFormed_fresh freshStore zeroDisk)

/-- The body of the loop of `checkForeignKey` goes on to the next key, without
looking at any row, when no index probe applies and the referenced table counts
more than 1000 records. -/
theorem checkOneForeignKey_large (db : Database) (tableMeta : TableMeta) (values : List Value)
    (fk : KeyDef) (refMeta : TableMeta) (href : getTableMeta db fk.refTable = some refMeta)
    (hprobe : foreignKeyProbe refMeta fk (foreignKeyValues tableMeta values fk) = none)
    (hcount : refMeta.recordCount > 1000) :
    checkOneForeignKey db tableMeta values fk = some true := by
  unfold checkOneForeignKey
  rw [href]
  simp only [hprobe, hcount, if_true]
  split_ifs <;> rfl

theorem checkForeignKey_single (db : Database) (tableName : String) (tableMeta : TableMeta)
    (values : List Value) (fk : KeyDef) (hmeta : getTableMeta db tableName = some tableMeta)
    (hfks : tableMeta.foreignKeys = [fk])
    (h : checkOneForeignKey db tableMeta values fk = some true) :
    checkForeignKey db tableName values = some true := by
  unfold checkForeignKey
  rw [hmeta]
  simp only [hfks, checkForeignKeys, h]

end QueryExecutor.Db

namespace IndexManager

open BPlusTree (Tree KeyType)

theorem openIndex_createIndex_self (im : OpenIndexes) (disk : Int → BPlusTree.BPlusTreeNode)
    (tableName columnName : String) (keyType : KeyType) (keyLength : Int) :
    (openIndex (createIndex im disk tableName columnName keyType keyLength) tableName
      columnName).isSome = true := by
  unfold createIndex
  by_cases h : (openIndex im tableName columnName).isSome = true
  · simp [h]
  · simp only [h, Bool.false_eq_true, if_false]
    have h' : (im.find? fun e => decide (e.1 = getIndexKey tableName columnName)) = none := by
      cases hf : im.find? fun e => decide (e.1 = getIndexKey tableName columnName) with
      | none => rfl
      | some e => simp [openIndex, hf] at h
    simp [openIndex, List.find?_append, h']

theorem openIndex_createIndex_mono (im : OpenIndexes) (disk : Int → BPlusTree.BPlusTreeNode)
    (tableName columnName t c : String) (keyType : KeyType) (keyLength : Int)
    (h : (openIndex im t c).isSome = true) :
    (openIndex (createIndex im disk tableName columnName keyType keyLength) t c).isSome = true := by
  unfold createIndex
  split
  · exact h
  · simp only [openIndex, Option.isSome_map'] at h ⊢
    rw [List.find?_append]
    cases hf : im.find? fun e => decide (e.1 = getIndexKey t c) with
    | none => simp [hf] at h
    | some e => simp

theorem openIndex_putIndex (tableName columnName t c : String) (tree : Tree) (im : OpenIndexes) :
    (openIndex (putIndex tableName columnName tree im) t c).isSome = (openIndex im t c).isSome := by
  induction im with
  | nil => rfl
  | cons e es ih =>
    simp only [putIndex]
    split
    · next he =>
      simp only [openIndex, List.find?_cons, Option.isSome_map']
      by_cases hk : e.1 = getIndexKey t c <;> simp [hk]
    · simp only [openIndex, List.find?_cons, Option.isSome_map'] at ih ⊢
      by_cases hk : e.1 = getIndexKey t c <;> simp [hk, ih]

end IndexManager

namespace SystemManager

open QueryExecutor (TableMeta ColumnDef KeyDef DataType Value)
open RecordManager (Store getAllRecordsDirect)
open IndexManager (openIndex)

theorem find_column {columns : List ColumnDef} {c : String}
    (h : ∃ col ∈ columns, col.name = c) :
    ∃ col, (columns.find? fun col => decide (col.name = c)) = some col := by
  obtain ⟨col, hmem, hname⟩ := h
  cases hf : columns.find? fun col => decide (col.name = c) with
  | some x => exact ⟨x, rfl⟩
  | none =>
    rw [List.find?_eq_none] at hf
    have := hf col hmem
    simp [hname] at this

theorem createPrimaryKeyIndexes_meta (disk : Int → BPlusTree.BPlusTreeNode) (tableName : String) :
    ∀ (primaryKey : List String) (tableMeta : TableMeta) (im : IndexManager.OpenIndexes),
      (∀ c ∈ primaryKey, ∃ col ∈ tableMeta.columns, col.name = c) →
      (createPrimaryKeyIndexes disk tableName primaryKey tableMeta im).1 =
        { tableMeta with indexes := tableMeta.indexes ++ primaryKey }
  | [], tableMeta, im, _ => by simp [createPrimaryKeyIndexes]
  | c :: rest, tableMeta, im, h => by
    obtain ⟨col, hcol⟩ := find_column (h c (List.mem_cons_self _ _))
    rw [createPrimaryKeyIndexes, hcol]
    simp only
    rw [createPrimaryKeyIndexes_meta disk tableName rest
      { tableMeta with indexes := tableMeta.indexes ++ [c] } _
      (fun c' hc' => h c' (List.mem_cons_of_mem _ hc'))]
    simp

theorem createPrimaryKeyIndexes_mono (disk : Int → BPlusTree.BPlusTreeNode)
    (tableName t c : String) :
    ∀ (primaryKey : List String) (tableMeta : TableMeta) (im : IndexManager.OpenIndexes),
      (openIndex im t c).isSome = true →
      (openIndex (createPrimaryKeyIndexes disk tableName primaryKey tableMeta im).2 t c).isSome =
        true
  | [], _, _, h => by simpa [createPrimaryKeyIndexes] using h
  | k :: rest, tableMeta, im, h => by
    rw [createPrimaryKeyIndexes]
    split
    · exact createPrimaryKeyIndexes_mono disk tableName t c rest _ _ h
    · exact createPrimaryKeyIndexes_mono disk tableName t c rest _ _
        (IndexManager.openIndex_createIndex_mono _ _ _ _ _ _ _ _ h)

theorem createPrimaryKeyIndexes_open (disk : Int → BPlusTree.BPlusTreeNode) (tableName : String) :
    ∀ (primaryKey : List String) (tableMeta : TableMeta) (im : IndexManager.OpenIndexes),
      (∀ c ∈ primaryKey, ∃ col ∈ tableMeta.columns, col.name = c) →
      ∀ c ∈ primaryKey,
        (openIndex (createPrimaryKeyIndexes disk tableName primaryKey tableMeta im).2 tableName
          c).isSome = true
  | [], _, _, _, c, hc => by simp at hc
  | k :: rest, tableMeta, im, h, c, hc => by
    obtain ⟨col, hcol⟩ := find_column (h k (List.mem_cons_self _ _))
    rw [createPrimaryKeyIndexes, hcol]
    simp only
    by_cases hck : c ∈ rest
    · exact createPrimaryKeyIndexes_open disk tableName rest
        { tableMeta with indexes := tableMeta.indexes ++ [k] } _
        (fun c' hc' => h c' (List.mem_cons_of_mem _ hc')) c hck
    · have hk : c = k := by
        rcases List.mem_cons.1 hc with h1 | h1
        · exact h1
        · exact absurd h1 hck
      subst hk
      exact createPrimaryKeyIndexes_mono disk tableName tableName c rest _ _
        (IndexManager.openIndex_createIndex_self _ _ _ _ _ _)

theorem hasDuplicateName_false : ∀ (columns : List ColumnDef) (seen : List String),
    hasDuplicateName seen columns = false ↔
      ((columns.map fun col => col.name).Nodup ∧ ∀ col ∈ columns, col.name ∉ seen) := by
  intro columns
  induction columns with
  | nil => intro seen; simp [hasDuplicateName]
  | cons col rest ih =>
    intro seen
    rw [hasDuplicateName]
    by_cases hs : seen.contains col.name = true
    · rw [if_pos hs]
      simp only [Bool.true_eq_false, false_iff, not_and]
      intro _ h
      exact h col (List.mem_cons_self _ _) (by simpa using hs)
    · rw [if_neg hs, ih]
      have hs' : col.name ∉ seen := by simpa using hs
      simp only [List.map_cons, List.nodup_cons, List.mem_map, not_exists, not_and,
        List.mem_cons, forall_eq_or_imp, not_or]
      constructor
      · rintro ⟨h1, h2⟩
        exact ⟨⟨fun x hx e => (h2 x hx).1 e, h1⟩, hs', fun x hx => (h2 x hx).2⟩
      · rintro ⟨⟨h1, h2⟩, _, h4⟩
        exact ⟨h2, fun x hx => ⟨fun e => h1 x hx e, h4 x hx⟩⟩

theorem createTable_eq (db : Database) (dataDisk : Int → RecordManager.Page)
    (indexDisk : Int → BPlusTree.BPlusTreeNode) (tableName : String) (columns : List ColumnDef)
    (primaryKey : List String) (foreignKeys : List KeyDef)
    (hnew : findTable db tableName = none)
    (hdistinct : (columns.map fun col => col.name).Nodup) :
    createTable db dataDisk indexDisk tableName columns primaryKey foreignKeys =
      (true,
        { tables := db.tables ++
            [((createPrimaryKeyIndexes indexDisk tableName primaryKey
              { tableName := tableName,
                columns := columns.map fun col =>
                  if primaryKey.contains col.name then { col with notNull := true } else col,
                primaryKey := primaryKey, foreignKeys := foreignKeys, indexes := [],
                recordCount := 0, nextRecordID := 1 } db.indexManager).1,
              RecordManager.freshStore dataDisk)],
          indexManager := (createPrimaryKeyIndexes indexDisk tableName primaryKey
              { tableName := tableName,
                columns := columns.map fun col =>
                  if primaryKey.contains col.name then { col with notNull := true } else col,
                primaryKey := primaryKey, foreignKeys := foreignKeys, indexes := [],
                recordCount := 0, nextRecordID := 1 } db.indexManager).2 }) := by
  have hdup : hasDuplicateName [] columns = false :=
    (hasDuplicateName_false columns []).2 ⟨hdistinct, fun _ _ h => by simp at h⟩
  unfold createTable
  rw [hnew, hdup]
  rfl

theorem createPrimaryKeyIndexes_tableName (indexDisk : Int → BPlusTree.BPlusTreeNode)
    (tableName : String) : ∀ (pk : List String) (m : TableMeta) (im : IndexManager.OpenIndexes),
    (createPrimaryKeyIndexes indexDisk tableName pk m im).1.tableName = m.tableName := by
  intro pk
  induction pk with
  | nil => intro m im; rfl
  | cons k rest ih =>
    intro m im
    rw [createPrimaryKeyIndexes]
    split
    · exact ih _ _
    · rw [ih]

theorem getTableMeta_createTable (db : Database) (dataDisk : Int → RecordManager.Page)
    (indexDisk : Int → BPlusTree.BPlusTreeNode) (tableName : String) (columns : List ColumnDef)
    (primaryKey : List String) (foreignKeys : List KeyDef)
    (hnew : findTable db tableName = none)
    (hdistinct : (columns.map fun col => col.name).Nodup) :
    getTableMeta (createTable db dataDisk indexDisk tableName columns primaryKey foreignKeys).2
        tableName =
      some (createPrimaryKeyIndexes indexDisk tableName primaryKey
        { tableName := tableName,
          columns := columns.map fun col =>
            if primaryKey.contains col.name then { col with notNull := true } else col,
          primaryKey := primaryKey, foreignKeys := foreignKeys, indexes := [], recordCount := 0,
          nextRecordID := 1 } db.indexManager).1 := by
  rw [createTable_eq db dataDisk indexDisk tableName columns primaryKey foreignKeys hnew hdistinct]
  unfold findTable at hnew
  simp only [getTableMeta, findTable, List.find?_append, hnew, Option.none_or,
    List.find?_cons, createPrimaryKeyIndexes_tableName, decide_True, Option.map_some']

theorem hasIndex_iff (tableMeta : TableMeta) (c : String) :
    tableMeta.hasIndex c = true ↔ c ∈ tableMeta.indexes := by
  simp [TableMeta.hasIndex]

theorem addKeyIndexes_spec (disk : Int → BPlusTree.BPlusTreeNode) (tableName : String) :
    ∀ (cols : List String) (tableMeta : TableMeta) (im : IndexManager.OpenIndexes),
      (∀ c ∈ cols, ∃ col ∈ tableMeta.columns, col.name = c) →
      (addKeyIndexes disk tableName cols tableMeta im).1 =
          { tableMeta with indexes := (addKeyIndexes disk tableName cols tableMeta im).1.indexes } ∧
        (∀ c ∈ tableMeta.indexes, c ∈ (addKeyIndexes disk tableName cols tableMeta im).1.indexes) ∧
        (∀ c ∈ cols, c ∈ (addKeyIndexes disk tableName cols tableMeta im).1.indexes) ∧
        (∀ c ∈ (addKeyIndexes disk tableName cols tableMeta im).1.indexes,
          c ∈ tableMeta.indexes ∨ c ∈ cols) ∧
        (∀ t c, (openIndex im t c).isSome = true →
          (openIndex (addKeyIndexes disk tableName cols tableMeta im).2 t c).isSome = true) ∧
        (∀ c ∈ cols, c ∉ tableMeta.indexes →
          (openIndex (addKeyIndexes disk tableName cols tableMeta im).2 tableName c).isSome = true)
  | [], tableMeta, im, _ => by simp [addKeyIndexes]
  | k :: rest, tableMeta, im, h => by
    have hrest : ∀ c ∈ rest, ∃ col ∈ tableMeta.columns, col.name = c :=
      fun c hc => h c (List.mem_cons_of_mem _ hc)
    by_cases hk : tableMeta.hasIndex k = true
    · have ih := addKeyIndexes_spec disk tableName rest tableMeta im hrest
      have hkm := (hasIndex_iff tableMeta k).1 hk
      rw [addKeyIndexes]
      simp only [hk, Bool.not_true, Bool.false_eq_true, if_false]
      refine ⟨ih.1, ih.2.1, ?_, ?_, ih.2.2.2.2.1, ?_⟩
      · intro c hc
        rcases List.mem_cons.1 hc with h1 | h1
        · subst h1; exact ih.2.1 _ hkm
        · exact ih.2.2.1 c h1
      · intro c hc
        rcases ih.2.2.2.1 c hc with h1 | h1
        · exact Or.inl h1
        · exact Or.inr (List.mem_cons_of_mem _ h1)
      · intro c hc hnot
        rcases List.mem_cons.1 hc with h1 | h1
        · subst h1; exact absurd hkm hnot
        · exact ih.2.2.2.2.2 c h1 hnot
    · obtain ⟨col, hcol⟩ := find_column (h k (List.mem_cons_self _ _))
      have hkm : k ∉ tableMeta.indexes := fun hm => hk ((hasIndex_iff tableMeta k).2 hm)
      have ih := addKeyIndexes_spec disk tableName rest
        { tableMeta with indexes := tableMeta.indexes ++ [k] }
        (IndexManager.createIndex im disk tableName k
          (if col.type = DataType.INT then BPlusTree.KeyType.INT
            else if col.type = DataType.FLOAT then BPlusTree.KeyType.FLOAT
            else BPlusTree.KeyType.VARCHAR)
          (if col.type = DataType.INT ∨ col.type = DataType.FLOAT then 0 else col.length)) hrest
      rw [addKeyIndexes]
      simp only [hk, Bool.not_false, if_true, hcol]
      simp only at ih
      refine ⟨?_, ?_, ?_, ?_, ?_, ?_⟩
      · rw [ih.1]
      · intro c hc
        exact ih.2.1 c (List.mem_append_left _ hc)
      · intro c hc
        rcases List.mem_cons.1 hc with h1 | h1
        · subst h1; exact ih.2.1 _ (List.mem_append_right _ (List.mem_singleton_self _))
        · exact ih.2.2.1 c h1
      · intro c hc
        rcases ih.2.2.2.1 c hc with h1 | h1
        · rcases List.mem_append.1 h1 with h2 | h2
          · exact Or.inl h2
          · exact Or.inr (by rw [List.mem_singleton.1 h2]; exact List.mem_cons_self _ _)
        · exact Or.inr (List.mem_cons_of_mem _ h1)
      · intro t c hc
        exact ih.2.2.2.2.1 t c (IndexManager.openIndex_createIndex_mono _ _ _ _ _ _ _ _ hc)
      · intro c hc hnot
        by_cases hck : c = k
        · subst hck
          exact ih.2.2.2.2.1 _ _ (IndexManager.openIndex_createIndex_self _ _ _ _ _ _)
        · rcases List.mem_cons.1 hc with h1 | h1
          · exact absurd h1 hck
          · refine ih.2.2.2.2.2 c h1 ?_
            intro hm
            rcases List.mem_append.1 hm with h2 | h2
            · exact hnot h2
            · exact hck (List.mem_singleton.1 h2)

theorem addKeyIndexes_single (disk : Int → BPlusTree.BPlusTreeNode) (tableName c : String)
    (tableMeta : TableMeta) (im : IndexManager.OpenIndexes)
    (hcol : ∃ col ∈ tableMeta.columns, col.name = c) (hnot : c ∉ tableMeta.indexes) :
    (addKeyIndexes disk tableName [c] tableMeta im).1.indexes = tableMeta.indexes ++ [c] := by
  obtain ⟨col, hcol⟩ := find_column hcol
  have hk : tableMeta.hasIndex c = false := by
    cases h : tableMeta.hasIndex c with
    | false => rfl
    | true => exact absurd ((hasIndex_iff tableMeta c).1 h) hnot
  simp [addKeyIndexes, hk, hcol]

end SystemManager

namespace QueryExecutor.Db

open IndexManager (openIndex)

theorem insertByType_open (im im' : IndexManager.OpenIndexes) (tableName columnName : String)
    (type : DataType) (val : Value) (rid : BPlusTree.RID)
    (h : insertByType im tableName columnName type val rid = some im') (t c : String) :
    (openIndex im' t c).isSome = (openIndex im t c).isSome := by
  unfold insertByType at h
  split_ifs at h
  · unfold IndexManager.insertEntry at h
    split at h
    · simp only [Option.map_some', Option.some.injEq] at h; rw [← h]
    · split_ifs at h
      · simp only [Option.map_some', Option.some.injEq] at h; rw [← h]
      · simp only [Option.map_map, Option.map_eq_some', Function.comp_apply] at h
        obtain ⟨r, _, hr⟩ := h
        rw [← hr, IndexManager.openIndex_putIndex]
  · unfold IndexManager.insertEntryFloat at h
    split at h
    · simp only [Option.map_some', Option.some.injEq] at h; rw [← h]
    · split_ifs at h
      · simp only [Option.map_some', Option.some.injEq] at h; rw [← h]
      · simp only [Option.map_map, Option.map_eq_some', Function.comp_apply] at h
        obtain ⟨r, _, hr⟩ := h
        rw [← hr, IndexManager.openIndex_putIndex]
  · unfold IndexManager.insertEntryStr at h
    split at h
    · simp only [Option.map_some', Option.some.injEq] at h; rw [← h]
    · split_ifs at h
      · simp only [Option.map_some', Option.some.injEq] at h; rw [← h]
      · simp only [Option.map_map, Option.map_eq_some', Function.comp_apply] at h
        obtain ⟨r, _, hr⟩ := h
        rw [← hr, IndexManager.openIndex_putIndex]

end QueryExecutor.Db

namespace SystemManager

open QueryExecutor (TableMeta ColumnDef KeyDef DataType Value)
open RecordManager (Store getAllRecordsDirect)
open IndexManager (openIndex)

theorem keyFillRecord_open (tableName : String) (tableMeta : TableMeta) (recordID : Int)
    (values : List Value) (t c : String) :
    ∀ (cols : List String) (im im' : IndexManager.OpenIndexes),
      keyFillRecord tableName tableMeta recordID values cols im = some im' →
      (openIndex im' t c).isSome = (openIndex im t c).isSome
  | [], im, im', h => by
    simp only [keyFillRecord, Option.some.injEq] at h; rw [h]
  | k :: rest, im, im', h => by
    rw [keyFillRecord] at h
    split_ifs at h
    · rw [Option.bind_eq_some] at h
      obtain ⟨im1, h1, h2⟩ := h
      rw [keyFillRecord_open tableName tableMeta recordID values t c rest im1 im' h2,
        QueryExecutor.Db.insertByType_open _ _ _ _ _ _ _ h1]
    · exact keyFillRecord_open tableName tableMeta recordID values t c rest im im' h

theorem keyFill_open (tableName : String) (tableMeta : TableMeta) (columns : List String)
    (t c : String) :
    ∀ (records : List (Int × List Nat)) (im im' : IndexManager.OpenIndexes),
      keyFill tableName tableMeta columns records im = some im' →
      (openIndex im' t c).isSome = (openIndex im t c).isSome
  | [], im, im', h => by
    simp only [keyFill, Option.some.injEq] at h; rw [h]
  | record :: rest, im, im', h => by
    rw [keyFill] at h
    split_ifs at h
    · rw [Option.bind_eq_some] at h
      obtain ⟨values, _, h0⟩ := h
      rw [Option.bind_eq_some] at h0
      obtain ⟨im1, h1, h2⟩ := h0
      rw [keyFill_open tableName tableMeta columns t c rest im1 im' h2,
        keyFillRecord_open _ _ _ _ _ _ _ _ _ h1]
    · exact keyFill_open tableName tableMeta columns t c rest im im' h

end SystemManager
namespace QueryExecutor.Db

/-! ## LOAD DATA: the fields of a line -/

theorem splitComma_ne_nil : ∀ l : List Nat, splitComma l ≠ []
  | [] => by simp [splitComma]
  | c :: rest => by
    rw [splitComma]
    split
    · simp
    · split <;> simp

theorem splitComma_cons_comma (rest : List Nat) : splitComma (44 :: rest) = [] :: splitComma rest := by
  simp [splitComma]

theorem splitComma_cons_other (c : Nat) (rest : List Nat) (hc : c ≠ 44) :
    splitComma (c :: rest) =
      (c :: (splitComma rest).headD []) :: (splitComma rest).tail := by
  rw [splitComma, if_neg hc]
  have := splitComma_ne_nil rest
  cases h : splitComma rest with
  | nil => exact absurd h this
  | cons f fs => rfl

/-- The first field is the text before the first comma, the other fields are
those of the text after it. -/
theorem splitComma_eq : ∀ l : List Nat,
    splitComma l =
      l.takeWhile (fun c => c != 44) ::
        (if (l.takeWhile fun c => c != 44).length < l.length then
          splitComma (l.drop ((l.takeWhile fun c => c != 44).length + 1))
        else [])
  | [] => by simp [splitComma]
  | c :: rest => by
    by_cases hc : c = 44
    · subst hc
      simp [splitComma_cons_comma]
    · rw [splitComma_cons_other c rest hc, splitComma_eq rest]
      have h1 : (c != 44) = true := by simp [hc]
      simp only [List.headD_cons, List.tail_cons, List.takeWhile_cons, h1, if_true,
        List.length_cons, Nat.add_lt_add_iff_right, List.drop_succ_cons]

theorem intercalate_splitComma : ∀ l : List Nat, List.intercalate [44] (splitComma l) = l
  | [] => by simp [splitComma, List.intercalate]
  | c :: rest => by
    have ih := intercalate_splitComma rest
    have hne := splitComma_ne_nil rest
    by_cases hc : c = 44
    · subst hc
      rw [splitComma_cons_comma]
      cases h : splitComma rest with
      | nil => exact absurd h hne
      | cons f fs =>
        rw [h] at ih
        simp only [List.intercalate, List.intersperse_cons_cons, List.flatten_cons,
          List.nil_append, List.singleton_append] at ih ⊢
        rw [ih]
    · rw [splitComma_cons_other c rest hc]
      cases h : splitComma rest with
      | nil => exact absurd h hne
      | cons f fs =>
        rw [h] at ih
        cases fs with
        | nil =>
          simp only [List.intercalate, List.intersperse_singleton, List.flatten_cons,
            List.flatten_nil, List.append_nil, List.headD_cons, List.tail_cons] at ih ⊢
          rw [ih]
        | cons g gs =>
          simp only [List.intercalate, List.intersperse_cons_cons, List.flatten_cons,
            List.headD_cons, List.tail_cons, List.cons_append] at ih ⊢
          rw [ih]

theorem splitComma_no_comma : ∀ (l : List Nat), ∀ f ∈ splitComma l, 44 ∉ f
  | [], f, hf => by
    simp only [splitComma, List.mem_singleton] at hf
    subst hf
    simp
  | c :: rest, f, hf => by
    have ih := splitComma_no_comma rest
    have hne := splitComma_ne_nil rest
    by_cases hc : c = 44
    · subst hc
      rw [splitComma_cons_comma] at hf
      rcases List.mem_cons.1 hf with h | h
      · subst h; simp
      · exact ih f h
    · rw [splitComma_cons_other c rest hc] at hf
      cases h : splitComma rest with
      | nil => exact absurd h hne
      | cons g gs =>
        rw [h] at hf ih
        simp only [List.headD_cons, List.tail_cons, List.mem_cons] at hf
        rcases hf with h1 | h1
        · subst h1
          intro hm
          rcases List.mem_cons.1 hm with h2 | h2
          · exact hc h2.symm
          · exact ih g (List.mem_cons_self _ _) h2
        · exact ih f (List.mem_cons_of_mem _ h1)

theorem fieldLoop_eq (stod : List Nat → Option Nat) (line : List Nat) :
    ∀ (cols : List ColumnDef) (pos : Nat), pos ≤ line.length →
      fieldLoop stod line cols pos =
        (cols.zip (splitComma (line.drop pos))).map fun p => parseField stod p.1 p.2
  | [], pos, _ => by simp [fieldLoop]
  | col :: cols, pos, hpos => by
    rw [fieldLoop, if_pos hpos, splitComma_eq (line.drop pos)]
    simp only [List.zip_cons_cons, List.map_cons, List.length_drop]
    congr 1
    by_cases hlt : ((line.drop pos).takeWhile fun c => c != 44).length < line.length - pos
    · simp only [hlt, if_true]
      rw [fieldLoop_eq stod line cols _ (by omega), List.drop_drop, Nat.add_assoc]
    · simp only [hlt, if_false]
      cases cols with
      | nil => simp [fieldLoop]
      | cons c cs =>
        rw [fieldLoop, if_neg (by omega)]
        simp

theorem loadLineValues_eq_parseLine (stod : List Nat → Option Nat) (columns : List ColumnDef)
    (line delimiter : List Nat) :
    loadLineValues stod columns line delimiter = parseLine stod columns line := by
  unfold loadLineValues parseLine
  rw [fieldLoop_eq stod line columns 0 (Nat.zero_le _), List.drop_zero]

end QueryExecutor.Db
namespace BPlusTree

/-! ## The order of `std::string` -/

theorem strLt_irrefl : ∀ a : List Nat, strLt a a = false
  | [] => rfl
  | x :: xs => by simp [strLt, strLt_irrefl xs]

theorem strLt_asymm : ∀ a b : List Nat, strLt a b = true → strLt b a = false
  | [], [], h => by simp [strLt] at h
  | [], _ :: _, _ => rfl
  | _ :: _, [], h => by simp [strLt] at h
  | x :: xs, y :: ys, h => by
    simp only [strLt] at h ⊢
    by_cases h1 : x < y
    · rw [if_neg (by omega), if_pos h1]
    · rw [if_neg h1] at h
      by_cases h2 : y < x
      · rw [if_pos h2] at h; exact absurd h (by simp)
      · rw [if_neg h2] at h
        rw [if_neg h2, if_neg h1]
        exact strLt_asymm xs ys h

theorem strLt_trans : ∀ a b c : List Nat, strLt a b = true → strLt b c = true → strLt a c = true
  | [], [], _, h, _ => by simp [strLt] at h
  | [], _ :: _, [], _, h => by simp [strLt] at h
  | [], _ :: _, _ :: _, _, _ => rfl
  | _ :: _, [], _, h, _ => by simp [strLt] at h
  | _ :: _, _ :: _, [], _, h => by simp [strLt] at h
  | x :: xs, y :: ys, z :: zs, h1, h2 => by
    simp only [strLt] at h1 h2 ⊢
    by_cases hxy : x < y
    · by_cases hyz : y < z
      · rw [if_pos (by omega)]
      · rw [if_neg hyz] at h2
        by_cases hzy : z < y
        · rw [if_pos hzy] at h2; exact absurd h2 (by simp)
        · rw [if_pos (by omega)]
    · rw [if_neg hxy] at h1
      by_cases hyx : y < x
      · rw [if_pos hyx] at h1; exact absurd h1 (by simp)
      · rw [if_neg hyx] at h1
        have hxy' : x = y := by omega
        subst hxy'
        by_cases hyz : x < z
        · rw [if_pos hyz]
        · rw [if_neg hyz] at h2 ⊢
          by_cases hzy : z < x
          · rw [if_pos hzy] at h2; exact absurd h2 (by simp)
          · rw [if_neg hzy] at h2 ⊢
            exact strLt_trans xs ys zs h1 h2

theorem strLt_total : ∀ a b : List Nat, strLt a b = false → strLt b a = false → a = b
  | [], [], _, _ => rfl
  | [], _ :: _, h, _ => by simp [strLt] at h
  | _ :: _, [], _, h => by simp [strLt] at h
  | x :: xs, y :: ys, h1, h2 => by
    simp only [strLt] at h1 h2
    by_cases hxy : x < y
    · rw [if_pos hxy] at h1; exact absurd h1 (by simp)
    · rw [if_neg hxy] at h1 h2
      by_cases hyx : y < x
      · rw [if_pos hyx] at h2; exact absurd h2 (by simp)
      · rw [if_neg hyx] at h1 h2
        have : x = y := by omega
        rw [this, strLt_total xs ys h1 h2]

/-- The order of `std::string` is the lexicographic order of the bytes. -/
theorem strLt_iff_lex : ∀ a b : List Nat, strLt a b = true ↔ List.Lex (· < ·) a b
  | [], [] => by simp [strLt]
  | [], _ :: _ => by simp [strLt, List.Lex.nil]
  | _ :: _, [] => by simp [strLt]
  | x :: xs, y :: ys => by
    simp only [strLt]
    constructor
    · intro h
      by_cases hxy : x < y
      · exact List.Lex.rel hxy
      · rw [if_neg hxy] at h
        by_cases hyx : y < x
        · rw [if_pos hyx] at h; exact absurd h (by simp)
        · rw [if_neg hyx] at h
          have : x = y := by omega
          subst this
          exact List.Lex.cons ((strLt_iff_lex xs ys).1 h)
    · intro h
      cases h with
      | rel h => rw [if_pos h]
      | cons h =>
        rw [if_neg (lt_irrefl _), if_neg (lt_irrefl _)]
        exact (strLt_iff_lex xs ys).2 h

end BPlusTree

namespace QueryExecutor

/-! ## The order of `double` and `compareValues` -/

theorem doubleLt_irrefl (a : Nat) : doubleLt a a = false := by
  simp [doubleLt]

theorem doubleLt_asymm (a b : Nat) (h : doubleLt a b = true) : doubleLt b a = false := by
  simp only [doubleLt, Bool.and_eq_true, Bool.not_eq_true', decide_eq_true_eq] at h
  simp only [doubleLt, h.1.1, h.1.2, Bool.not_false, Bool.true_and, decide_eq_false_iff_not]
  omega

theorem doubleLt_trans (a b c : Nat) (h1 : doubleLt a b = true) (h2 : doubleLt b c = true) :
    doubleLt a c = true := by
  simp only [doubleLt, Bool.and_eq_true, Bool.not_eq_true', decide_eq_true_eq] at h1 h2 ⊢
  exact ⟨⟨h1.1.1, h2.1.2⟩, by omega⟩

theorem strCompare_self (s : List Nat) : strCompare s s = 0 := by
  simp [strCompare, BPlusTree.strLt_irrefl]

end QueryExecutor
namespace QueryExecutor

/-! ## `compareValues` on values of one type -/

theorem compareValues_eq_valueLt (a b : Value) (ha : a.isNull = false) (hb : b.isNull = false)
    (hty : a.type = b.type) :
    compareValues a b = if valueLt a b then -1 else if valueLt b a then 1 else 0 := by
  cases h : a.type with
  | INT =>
    have h' : b.type = ValueType.INT := by rw [← hty]; exact h
    simp [compareValues, valueLt, ha, hb, h, h']
  | FLOAT =>
    have h' : b.type = ValueType.FLOAT := by rw [← hty]; exact h
    simp [compareValues, valueLt, ha, hb, h, h']
  | STRING =>
    have h' : b.type = ValueType.STRING := by rw [← hty]; exact h
    simp [compareValues, valueLt, ha, hb, h, h', strCompare]
  | NULL_VALUE =>
    have h' : b.type = ValueType.NULL_VALUE := by rw [← hty]; exact h
    simp [compareValues, valueLt, ha, hb, h, h', valueToString, strCompare_self]

theorem valueLt_irrefl (a : Value) : valueLt a a = false := by
  unfold valueLt
  cases a.type <;> simp [doubleLt_irrefl, BPlusTree.strLt_irrefl]

theorem valueLt_asymm (a b : Value) (hty : a.type = b.type) (h : valueLt a b = true) :
    valueLt b a = false := by
  unfold valueLt at h ⊢
  rw [← hty]
  cases hk : a.type with
  | INT => rw [hk] at h; simp only [decide_eq_true_eq] at h; simp; omega
  | FLOAT => rw [hk] at h; exact doubleLt_asymm _ _ h
  | STRING => rw [hk] at h; exact BPlusTree.strLt_asymm _ _ h
  | NULL_VALUE => rfl

theorem valueLt_trans (a b c : Value) (hab : a.type = b.type)
    (h1 : valueLt a b = true) (h2 : valueLt b c = true) : valueLt a c = true := by
  unfold valueLt at h1 h2 ⊢
  rw [← hab] at h2
  cases hk : a.type with
  | INT =>
    rw [hk] at h1 h2
    simp only [decide_eq_true_eq] at h1 h2 ⊢
    omega
  | FLOAT => rw [hk] at h1 h2; exact doubleLt_trans _ _ _ h1 h2
  | STRING => rw [hk] at h1 h2; exact BPlusTree.strLt_trans _ _ _ h1 h2
  | NULL_VALUE => rw [hk] at h1; exact absurd h1 (by simp)

theorem compareValues_pos_iff (a b : Value) (ha : a.isNull = false) (hb : b.isNull = false)
    (hty : a.type = b.type) : compareValues a b > 0 ↔ valueLt b a = true := by
  rw [compareValues_eq_valueLt a b ha hb hty]
  by_cases h1 : valueLt a b = true
  · have := valueLt_asymm a b hty h1
    simp [h1, this]
  · by_cases h2 : valueLt b a = true <;> simp [h1, h2]

theorem compareValues_neg_iff (a b : Value) (ha : a.isNull = false) (hb : b.isNull = false)
    (hty : a.type = b.type) : compareValues a b < 0 ↔ valueLt a b = true := by
  rw [compareValues_eq_valueLt a b ha hb hty]
  by_cases h1 : valueLt a b = true
  · simp [h1]
  · by_cases h2 : valueLt b a = true <;> simp [h1, h2]

theorem compareValues_nonneg_iff (a b : Value) (ha : a.isNull = false) (hb : b.isNull = false)
    (hty : a.type = b.type) : compareValues a b ≥ 0 ↔ valueLt a b = false := by
  have := compareValues_neg_iff a b ha hb hty
  constructor
  · intro h
    cases hv : valueLt a b with
    | false => rfl
    | true => have := this.2 hv; omega
  · intro h
    by_contra hc
    have := this.1 (by omega)
    rw [h] at this
    exact absurd this (by simp)

theorem compareValues_nonpos_iff (a b : Value) (ha : a.isNull = false) (hb : b.isNull = false)
    (hty : a.type = b.type) : compareValues a b ≤ 0 ↔ valueLt b a = false := by
  have := compareValues_pos_iff a b ha hb hty
  constructor
  · intro h
    cases hv : valueLt b a with
    | false => rfl
    | true => have := this.2 hv; omega
  · intro h
    by_contra hc
    have := this.1 (by omega)
    rw [h] at this
    exact absurd this (by simp)

end QueryExecutor

namespace QueryExecutor

/-! ## The running best of MAX and MIN -/

/-- The running best of a fold that replaces the best by every non-null value
that beats it: with a relation `ge` that holds of a value and itself, of `b`
and `a` when `a` does not beat `b`, and that follows a beat, the result is
null when every value is null, and otherwise a non-null element of the list in
relation `ge` to every non-null element. -/
theorem foldl_best_spec (beats : Value → Value → Bool) (ge : Value → Value → Prop)
    (S : Value → Prop)
    (hrefl : ∀ a, S a → ge a a)
    (hnot : ∀ a b, S a → S b → beats a b = false → ge b a)
    (htrans : ∀ a b c, S a → S b → S c → beats a b = true → ge b c → ge a c) :
    ∀ values : List Value, (∀ v ∈ values, v.isNull = false → S v) →
      ((∀ v ∈ values, v.isNull = true) ∧
          values.foldl (fun best v =>
            if !v.isNull && (best.isNull || beats v best) then v else best) Value.makeNull =
            Value.makeNull) ∨
        ((values.foldl (fun best v =>
            if !v.isNull && (best.isNull || beats v best) then v else best)
            Value.makeNull).isNull = false ∧
          values.foldl (fun best v =>
            if !v.isNull && (best.isNull || beats v best) then v else best) Value.makeNull ∈
            values ∧
          ∀ x ∈ values, x.isNull = false →
            ge (values.foldl (fun best v =>
              if !v.isNull && (best.isNull || beats v best) then v else best) Value.makeNull)
              x) := by
  intro values
  induction values using List.reverseRecOn with
  | nil => intro _; left; exact ⟨fun v hv => by simp at hv, rfl⟩
  | append_singleton l v ih =>
    intro hS
    have hSl : ∀ x ∈ l, x.isNull = false → S x :=
      fun x hx => hS x (List.mem_append_left _ hx)
    rw [List.foldl_append, List.foldl_cons, List.foldl_nil]
    cases hv : v.isNull with
    | true =>
      simp only [Bool.not_true, Bool.false_and, Bool.false_eq_true, if_false]
      rcases ih hSl with ⟨h1, h2⟩ | ⟨h1, h2, h3⟩
      · left
        refine ⟨?_, h2⟩
        intro x hx
        rcases List.mem_append.1 hx with h | h
        · exact h1 x h
        · rw [List.mem_singleton.1 h]; exact hv
      · right
        refine ⟨h1, List.mem_append_left _ h2, ?_⟩
        intro x hx hxn
        rcases List.mem_append.1 hx with h | h
        · exact h3 x h hxn
        · rw [List.mem_singleton.1 h, hv] at hxn; exact absurd hxn (by simp)
    | false =>
      have hSv : S v := hS v (List.mem_append_right _ (List.mem_singleton_self _)) hv
      right
      rcases ih hSl with ⟨h1, h2⟩ | ⟨h1, h2, h3⟩
      · rw [h2]
        simp only [Bool.not_false, Bool.true_and, Value.makeNull, Bool.true_or, if_true]
        refine ⟨hv, List.mem_append_right _ (List.mem_singleton_self _), ?_⟩
        intro x hx hxn
        rcases List.mem_append.1 hx with h | h
        · rw [h1 x h] at hxn; exact absurd hxn (by simp)
        · rw [List.mem_singleton.1 h]; exact hrefl v hSv
      · have hSm := hSl _ h2 h1
        simp only [Bool.not_false, Bool.true_and, h1, Bool.false_or]
        cases hb : beats v (l.foldl (fun best v =>
            if !v.isNull && (best.isNull || beats v best) then v else best) Value.makeNull) with
        | true =>
          simp only [if_true]
          refine ⟨hv, List.mem_append_right _ (List.mem_singleton_self _), ?_⟩
          intro x hx hxn
          rcases List.mem_append.1 hx with h | h
          · exact htrans _ _ _ hSv hSm (hSl x h hxn) hb (h3 x h hxn)
          · rw [List.mem_singleton.1 h]; exact hrefl v hSv
        | false =>
          simp only [Bool.false_eq_true, if_false]
          refine ⟨h1, List.mem_append_left _ h2, ?_⟩
          intro x hx hxn
          rcases List.mem_append.1 hx with h | h
          · exact h3 x h hxn
          · rw [List.mem_singleton.1 h]; exact hnot _ _ hSv hSm hb

theorem foldl_maxStep_spec (ty : ValueType) (values : List Value)
    (hty : ∀ v ∈ values, v.isNull = false → v.type = ty) :
    ((∀ v ∈ values, v.isNull = true) ∧ values.foldl maxStep Value.makeNull = Value.makeNull) ∨
      ((values.foldl maxStep Value.makeNull).isNull = false ∧
        values.foldl maxStep Value.makeNull ∈ values ∧
        ∀ x ∈ values, x.isNull = false →
          compareValues (values.foldl maxStep Value.makeNull) x ≥ 0) := by
  have key := foldl_best_spec (fun v m => decide (compareValues v m > 0))
    (fun m x => compareValues m x ≥ 0) (fun v => v.isNull = false ∧ v.type = ty)
    (fun a ha => by
      show compareValues a a ≥ 0
      rw [compareValues_nonneg_iff a a ha.1 ha.1 rfl]; exact valueLt_irrefl a)
    (fun a b ha hb h => by
      have hab : a.type = b.type := by rw [ha.2, hb.2]
      simp only [decide_eq_false_iff_not, not_lt] at h
      show compareValues b a ≥ 0
      rw [compareValues_nonneg_iff b a hb.1 ha.1 hab.symm]
      exact (compareValues_nonpos_iff a b ha.1 hb.1 hab).1 h)
    (fun a b c ha hb hc h1 h2 => by
      have hab : a.type = b.type := by rw [ha.2, hb.2]
      have hbc : b.type = c.type := by rw [hb.2, hc.2]
      simp only [decide_eq_true_eq] at h1
      have h1' := (compareValues_pos_iff a b ha.1 hb.1 hab).1 h1
      have h2' := (compareValues_nonneg_iff b c hb.1 hc.1 hbc).1 h2
      show compareValues a c ≥ 0
      rw [compareValues_nonneg_iff a c ha.1 hc.1 (hab.trans hbc)]
      cases hac : valueLt a c with
      | false => rfl
      | true =>
        have := valueLt_trans b a c hab.symm h1' hac
        rw [h2'] at this
        exact absurd this (by simp))
    values (fun v hv hn => ⟨hn, hty v hv hn⟩)
  exact key

theorem foldl_minStep_spec (ty : ValueType) (values : List Value)
    (hty : ∀ v ∈ values, v.isNull = false → v.type = ty) :
    ((∀ v ∈ values, v.isNull = true) ∧ values.foldl minStep Value.makeNull = Value.makeNull) ∨
      ((values.foldl minStep Value.makeNull).isNull = false ∧
        values.foldl minStep Value.makeNull ∈ values ∧
        ∀ x ∈ values, x.isNull = false →
          compareValues (values.foldl minStep Value.makeNull) x ≤ 0) := by
  have key := foldl_best_spec (fun v m => decide (compareValues v m < 0))
    (fun m x => compareValues m x ≤ 0) (fun v => v.isNull = false ∧ v.type = ty)
    (fun a ha => by
      show compareValues a a ≤ 0
      rw [compareValues_nonpos_iff a a ha.1 ha.1 rfl]; exact valueLt_irrefl a)
    (fun a b ha hb h => by
      have hab : a.type = b.type := by rw [ha.2, hb.2]
      simp only [decide_eq_false_iff_not, not_lt] at h
      show compareValues b a ≤ 0
      rw [compareValues_nonpos_iff b a hb.1 ha.1 hab.symm]
      exact (compareValues_nonneg_iff a b ha.1 hb.1 hab).1 h)
    (fun a b c ha hb hc h1 h2 => by
      have hab : a.type = b.type := by rw [ha.2, hb.2]
      have hbc : b.type = c.type := by rw [hb.2, hc.2]
      simp only [decide_eq_true_eq] at h1
      have h1' := (compareValues_neg_iff a b ha.1 hb.1 hab).1 h1
      have h2' := (compareValues_nonpos_iff b c hb.1 hc.1 hbc).1 h2
      show compareValues a c ≤ 0
      rw [compareValues_nonpos_iff a c ha.1 hc.1 (hab.trans hbc)]
      cases hac : valueLt c a with
      | false => rfl
      | true =>
        have := valueLt_trans c a b (hab.trans hbc).symm hac h1'
        rw [h2'] at this
        exact absurd this (by simp))
    values (fun v hv hn => ⟨hn, hty v hv hn⟩)
  exact key

end QueryExecutor

namespace QueryExecutor

/-! ## The streaming accumulator and `calculateAggregate` -/

theorem aggregateRows_single (st : AggState) (records : List (List Value)) :
    aggregateRows [st] records =
      [aggResult (records.foldl (fun s values => aggUpdate values s) st)] := by
  unfold aggregateRows
  have h : ∀ (records : List (List Value)) (st : AggState),
      records.foldl (fun sts values => sts.map (aggUpdate values)) [st] =
        [records.foldl (fun s values => aggUpdate values s) st] := by
    intro records
    induction records with
    | nil => intro st; rfl
    | cons r rs ih => intro st; simp only [List.foldl_cons, List.map_cons, List.map_nil, ih]
  rw [h]
  rfl

theorem aggregateRows_pair (st1 st2 : AggState) (records : List (List Value)) :
    aggregateRows [st1, st2] records = aggregateRows [st1] records ++ aggregateRows [st2] records := by
  rw [aggregateRows_single, aggregateRows_single]
  unfold aggregateRows
  have h : ∀ (records : List (List Value)) (st1 st2 : AggState),
      records.foldl (fun sts values => sts.map (aggUpdate values)) [st1, st2] =
        [records.foldl (fun s values => aggUpdate values s) st1,
          records.foldl (fun s values => aggUpdate values s) st2] := by
    intro records
    induction records with
    | nil => intro st1 st2; rfl
    | cons r rs ih =>
      intro st1 st2; simp only [List.foldl_cons, List.map_cons, List.map_nil, ih]
  rw [h]
  rfl

theorem columnValues_cons (colIdx : Int) (r : List Value) (rs : List (List Value)) :
    Db.columnValues colIdx (r :: rs) =
      if colIdx ≥ 0 ∧ colIdx < (r.length : Int) then valueAt r colIdx :: Db.columnValues colIdx rs
      else Db.columnValues colIdx rs := by
  unfold Db.columnValues
  rw [List.filter_cons]
  by_cases h : colIdx ≥ 0 ∧ colIdx < (r.length : Int)
  · simp [h]
  · have : (decide (colIdx ≥ 0) && decide (colIdx < (r.length : Int))) = false := by
      simpa using h
    simp only [this, Bool.false_eq_true, if_false, h]

theorem aggUpdate_max (r : List Value) (colIdx cnt : Int) (sum : Nat) (best : Value)
    (hasFloat : Bool) :
    aggUpdate r ⟨AggregateType.MAX, colIdx, cnt, sum, best, hasFloat⟩ =
      ⟨AggregateType.MAX, colIdx, cnt, sum,
        if colIdx ≥ 0 ∧ colIdx < (r.length : Int) then maxStep best (valueAt r colIdx) else best,
        hasFloat⟩ := by
  unfold aggUpdate maxStep
  by_cases h : colIdx ≥ 0 ∧ colIdx < (r.length : Int)
  · simp only [h.1, h.2, decide_True, Bool.and_self, Bool.true_and, and_self, if_true]
    split <;> rfl
  · have : (decide (colIdx ≥ 0) && decide (colIdx < (r.length : Int))) = false := by
      simpa using h
    simp only [this, Bool.false_and, Bool.false_eq_true, if_false, h]

theorem aggUpdate_min (r : List Value) (colIdx cnt : Int) (sum : Nat) (best : Value)
    (hasFloat : Bool) :
    aggUpdate r ⟨AggregateType.MIN, colIdx, cnt, sum, best, hasFloat⟩ =
      ⟨AggregateType.MIN, colIdx, cnt, sum,
        if colIdx ≥ 0 ∧ colIdx < (r.length : Int) then minStep best (valueAt r colIdx) else best,
        hasFloat⟩ := by
  unfold aggUpdate minStep
  by_cases h : colIdx ≥ 0 ∧ colIdx < (r.length : Int)
  · simp only [h.1, h.2, decide_True, Bool.and_self, Bool.true_and, and_self, if_true]
    split <;> rfl
  · have : (decide (colIdx ≥ 0) && decide (colIdx < (r.length : Int))) = false := by
      simpa using h
    simp only [this, Bool.false_and, Bool.false_eq_true, if_false, h]

theorem stream_max (colIdx cnt : Int) (sum : Nat) (hasFloat : Bool) :
    ∀ (records : List (List Value)) (best : Value),
      records.foldl (fun s values => aggUpdate values s)
          ⟨AggregateType.MAX, colIdx, cnt, sum, best, hasFloat⟩ =
        ⟨AggregateType.MAX, colIdx, cnt, sum,
          (Db.columnValues colIdx records).foldl maxStep best, hasFloat⟩
  | [], _ => rfl
  | r :: rs, best => by
    rw [List.foldl_cons, columnValues_cons, aggUpdate_max, stream_max colIdx cnt sum hasFloat rs]
    split <;> rfl

theorem stream_min (colIdx cnt : Int) (sum : Nat) (hasFloat : Bool) :
    ∀ (records : List (List Value)) (best : Value),
      records.foldl (fun s values => aggUpdate values s)
          ⟨AggregateType.MIN, colIdx, cnt, sum, best, hasFloat⟩ =
        ⟨AggregateType.MIN, colIdx, cnt, sum,
          (Db.columnValues colIdx records).foldl minStep best, hasFloat⟩
  | [], _ => rfl
  | r :: rs, best => by
    rw [List.foldl_cons, columnValues_cons, aggUpdate_min, stream_min colIdx cnt sum hasFloat rs]
    split <;> rfl

theorem calculateAggregate_max (values : List Value) :
    calculateAggregate AggregateType.MAX values = values.foldl maxStep Value.makeNull := by
  unfold calculateAggregate
  cases values with
  | nil => rfl
  | cons v vs => rfl

theorem calculateAggregate_min (values : List Value) :
    calculateAggregate AggregateType.MIN values = values.foldl minStep Value.makeNull := by
  unfold calculateAggregate
  cases values with
  | nil => rfl
  | cons v vs => rfl

/-- The streaming MAX of a column is `calculateAggregate` on its values. -/
theorem aggregateRows_max (colIdx : Int) (records : List (List Value)) :
    aggregateRows [{ type := AggregateType.MAX, colIdx := colIdx }] records =
      [calculateAggregate AggregateType.MAX (Db.columnValues colIdx records)] := by
  rw [aggregateRows_single, calculateAggregate_max]
  exact congrArg (fun st => [aggResult st]) (stream_max colIdx 0 0 false records Value.makeNull)

/-- The streaming MIN of a column is `calculateAggregate` on its values. -/
theorem aggregateRows_min (colIdx : Int) (records : List (List Value)) :
    aggregateRows [{ type := AggregateType.MIN, colIdx := colIdx }] records =
      [calculateAggregate AggregateType.MIN (Db.columnValues colIdx records)] := by
  rw [aggregateRows_single, calculateAggregate_min]
  exact congrArg (fun st => [aggResult st]) (stream_min colIdx 0 0 false records Value.makeNull)

end QueryExecutor

namespace QueryExecutor

/-! ## SUM and AVG: nulls and result types -/

theorem foldl_sumStep_filter : ∀ (values : List Value) (acc : Nat × Bool),
    values.foldl sumStep acc = (values.filter fun v => !v.isNull).foldl sumStep acc
  | [], _ => rfl
  | v :: vs, acc => by
    rw [List.foldl_cons, List.filter_cons]
    cases hv : v.isNull with
    | true =>
      have : sumStep acc v = acc := by simp [sumStep, hv]
      simp only [Bool.not_true, Bool.false_eq_true, if_false, this]
      exact foldl_sumStep_filter vs acc
    | false =>
      simp only [Bool.not_false, if_true, List.foldl_cons]
      exact foldl_sumStep_filter vs _

theorem foldl_avgStep_filter : ∀ (values : List Value) (acc : Nat × Int),
    values.foldl avgStep acc = (values.filter fun v => !v.isNull).foldl avgStep acc
  | [], _ => rfl
  | v :: vs, acc => by
    rw [List.foldl_cons, List.filter_cons]
    cases hv : v.isNull with
    | true =>
      have : avgStep acc v = acc := by simp [avgStep, hv]
      simp only [Bool.not_true, Bool.false_eq_true, if_false, this]
      exact foldl_avgStep_filter vs acc
    | false =>
      simp only [Bool.not_false, if_true, List.foldl_cons]
      exact foldl_avgStep_filter vs _

theorem foldl_sumStep_flag : ∀ (values : List Value) (acc : Nat × Bool),
    (values.foldl sumStep acc).2 =
      (acc.2 || values.any fun v => !v.isNull && decide (v.type = ValueType.FLOAT))
  | [], acc => by simp
  | v :: vs, acc => by
    rw [List.foldl_cons, foldl_sumStep_flag vs, List.any_cons]
    unfold sumStep
    cases hv : v.isNull with
    | true => simp
    | false =>
      cases ht : v.type <;> simp

theorem foldl_avgStep_count : ∀ (values : List Value) (acc : Nat × Int),
    (values.foldl avgStep acc).2 = acc.2 + ((values.filter fun v => !v.isNull).length : Int)
  | [], acc => by simp
  | v :: vs, acc => by
    rw [List.foldl_cons, foldl_avgStep_count vs, List.filter_cons]
    unfold avgStep
    cases hv : v.isNull with
    | true => simp
    | false =>
      cases ht : v.type <;> simp <;> omega

theorem calculateAggregate_sum (values : List Value) (h : values ≠ []) :
    calculateAggregate AggregateType.SUM values =
      if (values.foldl sumStep (0, false)).2 then Value.ofFloat (values.foldl sumStep (0, false)).1
      else Value.ofInt (doubleToInt (values.foldl sumStep (0, false)).1) := by
  unfold calculateAggregate
  cases values with
  | nil => exact absurd rfl h
  | cons v vs => rfl

theorem calculateAggregate_avg (values : List Value) :
    calculateAggregate AggregateType.AVG values =
      if (values.foldl avgStep (0, 0)).2 > 0 then
        Value.ofFloat (doubleDiv (values.foldl avgStep (0, 0)).1
          (intToDouble (values.foldl avgStep (0, 0)).2))
      else Value.makeNull := by
  unfold calculateAggregate
  cases values with
  | nil => rfl
  | cons v vs => rfl

theorem aggUpdate_sum (r : List Value) (colIdx cnt : Int) (sum : Nat) (best : Value)
    (hasFloat : Bool) :
    aggUpdate r ⟨AggregateType.SUM, colIdx, cnt, sum, best, hasFloat⟩ =
      ⟨AggregateType.SUM, colIdx, cnt,
        (if colIdx ≥ 0 ∧ colIdx < (r.length : Int) then
          sumStep (sum, hasFloat) (valueAt r colIdx) else (sum, hasFloat)).1, best,
        (if colIdx ≥ 0 ∧ colIdx < (r.length : Int) then
          sumStep (sum, hasFloat) (valueAt r colIdx) else (sum, hasFloat)).2⟩ := by
  unfold aggUpdate sumStep
  by_cases h : colIdx ≥ 0 ∧ colIdx < (r.length : Int)
  · simp only [h.1, h.2, decide_True, Bool.and_self, Bool.true_and, and_self, if_true]
    cases hv : (valueAt r colIdx).isNull with
    | true => simp
    | false => cases ht : (valueAt r colIdx).type <;> simp
  · have : (decide (colIdx ≥ 0) && decide (colIdx < (r.length : Int))) = false := by
      simpa using h
    simp only [this, Bool.false_and, Bool.false_eq_true, if_false, h]

theorem aggUpdate_avg (r : List Value) (colIdx cnt : Int) (sum : Nat) (best : Value)
    (hasFloat : Bool) :
    aggUpdate r ⟨AggregateType.AVG, colIdx, cnt, sum, best, hasFloat⟩ =
      ⟨AggregateType.AVG, colIdx,
        (if colIdx ≥ 0 ∧ colIdx < (r.length : Int) then
          avgStep (sum, cnt) (valueAt r colIdx) else (sum, cnt)).2,
        (if colIdx ≥ 0 ∧ colIdx < (r.length : Int) then
          avgStep (sum, cnt) (valueAt r colIdx) else (sum, cnt)).1, best, hasFloat⟩ := by
  unfold aggUpdate avgStep
  by_cases h : colIdx ≥ 0 ∧ colIdx < (r.length : Int)
  · simp only [h.1, h.2, decide_True, Bool.and_self, Bool.true_and, and_self, if_true]
    cases hv : (valueAt r colIdx).isNull with
    | true => simp
    | false => cases ht : (valueAt r colIdx).type <;> simp
  · have : (decide (colIdx ≥ 0) && decide (colIdx < (r.length : Int))) = false := by
      simpa using h
    simp only [this, Bool.false_and, Bool.false_eq_true, if_false, h]

theorem stream_sum (colIdx cnt : Int) (best : Value) :
    ∀ (records : List (List Value)) (sum : Nat) (hasFloat : Bool),
      records.foldl (fun s values => aggUpdate values s)
          ⟨AggregateType.SUM, colIdx, cnt, sum, best, hasFloat⟩ =
        ⟨AggregateType.SUM, colIdx, cnt,
          ((Db.columnValues colIdx records).foldl sumStep (sum, hasFloat)).1, best,
          ((Db.columnValues colIdx records).foldl sumStep (sum, hasFloat)).2⟩
  | [], _, _ => rfl
  | r :: rs, sum, hasFloat => by
    rw [List.foldl_cons, columnValues_cons, aggUpdate_sum, stream_sum colIdx cnt best rs]
    split <;> rfl

theorem stream_avg (colIdx : Int) (best : Value) (hasFloat : Bool) :
    ∀ (records : List (List Value)) (sum : Nat) (cnt : Int),
      records.foldl (fun s values => aggUpdate values s)
          ⟨AggregateType.AVG, colIdx, cnt, sum, best, hasFloat⟩ =
        ⟨AggregateType.AVG, colIdx,
          ((Db.columnValues colIdx records).foldl avgStep (sum, cnt)).2,
          ((Db.columnValues colIdx records).foldl avgStep (sum, cnt)).1, best, hasFloat⟩
  | [], _, _ => rfl
  | r :: rs, sum, cnt => by
    rw [List.foldl_cons, columnValues_cons, aggUpdate_avg, stream_avg colIdx best hasFloat rs]
    split <;> rfl

/-- The streaming SUM of a column, from the fold of its values. -/
theorem aggregateRows_sum (colIdx : Int) (records : List (List Value)) :
    aggregateRows [{ type := AggregateType.SUM, colIdx := colIdx }] records =
      [if ((Db.columnValues colIdx records).foldl sumStep (0, false)).2 then
          Value.ofFloat ((Db.columnValues colIdx records).foldl sumStep (0, false)).1
        else Value.ofInt (doubleToInt ((Db.columnValues colIdx records).foldl sumStep (0, false)).1)] := by
  rw [aggregateRows_single]
  exact congrArg (fun st => [aggResult st]) (stream_sum colIdx 0 Value.makeNull records 0 false)

/-- The streaming AVG of a column, from the fold of its values. -/
theorem aggregateRows_avg (colIdx : Int) (records : List (List Value)) :
    aggregateRows [{ type := AggregateType.AVG, colIdx := colIdx }] records =
      [if ((Db.columnValues colIdx records).foldl avgStep (0, 0)).2 > 0 then
          Value.ofFloat (doubleDiv ((Db.columnValues colIdx records).foldl avgStep (0, 0)).1
            (longToDouble ((Db.columnValues colIdx records).foldl avgStep (0, 0)).2))
        else Value.makeNull] := by
  rw [aggregateRows_single]
  exact congrArg (fun st => [aggResult st]) (stream_avg colIdx Value.makeNull false records 0 0)

/-- The type and null flag of the two results from the flag and the count of
the folds. -/
theorem sumAvgSpec_of_folds (values : List Value) (s a : Value) (x y : Nat) (z : Int)
    (hs : s = if (values.foldl sumStep (0, false)).2 then Value.ofFloat x else Value.ofInt z)
    (ha : a = if (values.foldl avgStep (0, 0)).2 > 0 then Value.ofFloat y else Value.makeNull) :
    SumAvgSpec values s a := by
  have hflag := foldl_sumStep_flag values (0, false)
  have hcount := foldl_avgStep_count values (0, 0)
  simp only [Bool.false_or, zero_add] at hflag hcount
  refine ⟨?_, ?_, ?_, ?_⟩
  · intro h
    have : (values.any fun v => !v.isNull && decide (v.type = ValueType.FLOAT)) = false := by
      rw [List.any_eq_false]
      intro v hv
      cases hn : v.isNull with
      | true => simp
      | false => simpa using h v hv hn
    rw [hs, hflag, this]
    exact ⟨rfl, rfl⟩
  · rintro ⟨v, hv, hn, ht⟩
    have : (values.any fun v => !v.isNull && decide (v.type = ValueType.FLOAT)) = true := by
      rw [List.any_eq_true]
      exact ⟨v, hv, by simp [hn, ht]⟩
    rw [hs, hflag, this]
    exact ⟨rfl, rfl⟩
  · rintro ⟨v, hv, hn⟩
    have hpos : 0 < (values.filter fun v => !v.isNull).length :=
      List.length_pos_of_mem (List.mem_filter.2 ⟨hv, by simp [hn]⟩)
    rw [ha, hcount, if_pos (by omega)]
    exact ⟨rfl, rfl⟩
  · intro h
    have : (values.filter fun v => !v.isNull) = [] := by
      rw [List.filter_eq_nil_iff]
      intro v hv
      simp [h v hv]
    rw [ha, hcount, this]
    simp

end QueryExecutor
namespace QueryExecutor

/-! ## The order of `double` patterns and the numbers they stand for -/

/-- The significand of a pattern scaled to the exponent -1074. -/
theorem doubleScaled_eq (b : Nat) :
    doubleScaled b (-1074) =
      if doubleNegative b then
        -((doubleMantissa b * 2 ^ (doubleExponent b + 1074).toNat : Nat) : Int)
      else ((doubleMantissa b * 2 ^ (doubleExponent b + 1074).toNat : Nat) : Int) := by
  unfold doubleScaled
  have : doubleExponent b - -1074 = doubleExponent b + 1074 := by omega
  rw [this]

theorem weight_exp_zero (b : Nat) (h : b / 4503599627370496 % 2048 = 0) :
    doubleMantissa b * 2 ^ (doubleExponent b + 1074).toNat = b % 4503599627370496 := by
  unfold doubleMantissa doubleExponent
  simp [h]

theorem weight_exp_pos (b : Nat) (h : b / 4503599627370496 % 2048 ≠ 0) :
    doubleMantissa b * 2 ^ (doubleExponent b + 1074).toNat =
      (b % 4503599627370496 + 4503599627370496) * 2 ^ (b / 4503599627370496 % 2048 - 1) := by
  unfold doubleMantissa doubleExponent
  simp only [h, if_false]
  congr 2
  omega

theorem weight_lt_pow (b : Nat) :
    doubleMantissa b * 2 ^ (doubleExponent b + 1074).toNat <
      2 ^ (52 + b / 4503599627370496 % 2048) := by
  by_cases h : b / 4503599627370496 % 2048 = 0
  · rw [weight_exp_zero b h, h]
    have : b % 4503599627370496 < 4503599627370496 := Nat.mod_lt _ (by norm_num)
    calc b % 4503599627370496 < 4503599627370496 := this
      _ = 2 ^ (52 + 0) := by norm_num
  · rw [weight_exp_pos b h]
    have hf : b % 4503599627370496 + 4503599627370496 < 2 ^ 53 := by
      have : b % 4503599627370496 < 4503599627370496 := Nat.mod_lt _ (by norm_num)
      norm_num
      omega
    have hp : 0 < 2 ^ (b / 4503599627370496 % 2048 - 1) := Nat.pow_pos (by norm_num)
    calc (b % 4503599627370496 + 4503599627370496) * 2 ^ (b / 4503599627370496 % 2048 - 1)
        < 2 ^ 53 * 2 ^ (b / 4503599627370496 % 2048 - 1) := Nat.mul_lt_mul_of_pos_right hf hp
      _ = 2 ^ (52 + b / 4503599627370496 % 2048) := by
        rw [← Nat.pow_add]
        congr 1
        omega

theorem pow_le_weight (b : Nat) (h : b / 4503599627370496 % 2048 ≠ 0) :
    2 ^ (51 + b / 4503599627370496 % 2048) ≤
      doubleMantissa b * 2 ^ (doubleExponent b + 1074).toNat := by
  rw [weight_exp_pos b h]
  calc 2 ^ (51 + b / 4503599627370496 % 2048)
      = 2 ^ 52 * 2 ^ (b / 4503599627370496 % 2048 - 1) := by
        rw [← Nat.pow_add]
        congr 1
        omega
    _ ≤ (b % 4503599627370496 + 4503599627370496) * 2 ^ (b / 4503599627370496 % 2048 - 1) :=
        Nat.mul_le_mul_right _ (by norm_num)

theorem weight_lt_of_exp_lt (a b : Nat)
    (h : a / 4503599627370496 % 2048 < b / 4503599627370496 % 2048) :
    doubleMantissa a * 2 ^ (doubleExponent a + 1074).toNat <
      doubleMantissa b * 2 ^ (doubleExponent b + 1074).toNat :=
  calc doubleMantissa a * 2 ^ (doubleExponent a + 1074).toNat
      < 2 ^ (52 + a / 4503599627370496 % 2048) := weight_lt_pow a
    _ ≤ 2 ^ (51 + b / 4503599627370496 % 2048) := Nat.pow_le_pow_right (by norm_num) (by omega)
    _ ≤ _ := pow_le_weight b (by omega)

theorem weight_lt_of_frac_lt (a b : Nat)
    (he : a / 4503599627370496 % 2048 = b / 4503599627370496 % 2048)
    (h : a % 4503599627370496 < b % 4503599627370496) :
    doubleMantissa a * 2 ^ (doubleExponent a + 1074).toNat <
      doubleMantissa b * 2 ^ (doubleExponent b + 1074).toNat := by
  by_cases h0 : a / 4503599627370496 % 2048 = 0
  · rw [weight_exp_zero a h0, weight_exp_zero b (he ▸ h0)]
    exact h
  · rw [weight_exp_pos a h0, weight_exp_pos b (he ▸ h0), he]
    exact Nat.mul_lt_mul_of_pos_right (by omega) (Nat.pow_pos (by norm_num))

/-- The magnitude bits order as the magnitudes do. -/
theorem magnitude_lt_iff (a b : Nat) :
    a % 9223372036854775808 < b % 9223372036854775808 ↔
      doubleMantissa a * 2 ^ (doubleExponent a + 1074).toNat <
        doubleMantissa b * 2 ^ (doubleExponent b + 1074).toNat := by
  have key : ∀ x y : Nat, x % 9223372036854775808 < y % 9223372036854775808 →
      doubleMantissa x * 2 ^ (doubleExponent x + 1074).toNat <
        doubleMantissa y * 2 ^ (doubleExponent y + 1074).toNat := by
    intro x y h
    by_cases he : x / 4503599627370496 % 2048 < y / 4503599627370496 % 2048
    · exact weight_lt_of_exp_lt x y he
    · exact weight_lt_of_frac_lt x y (by omega) (by omega)
  constructor
  · exact key a b
  · intro h
    by_contra hc
    rcases Nat.lt_or_ge (b % 9223372036854775808) (a % 9223372036854775808) with h1 | h1
    · have := key b a h1
      omega
    · have he : a / 4503599627370496 % 2048 = b / 4503599627370496 % 2048 := by omega
      have hf : a % 4503599627370496 = b % 4503599627370496 := by omega
      have : doubleMantissa a * 2 ^ (doubleExponent a + 1074).toNat =
          doubleMantissa b * 2 ^ (doubleExponent b + 1074).toNat := by
        unfold doubleMantissa doubleExponent
        rw [he, hf]
      omega

theorem magnitude_zero_iff (a : Nat) :
    a % 9223372036854775808 = 0 ↔
      doubleMantissa a * 2 ^ (doubleExponent a + 1074).toNat = 0 := by
  have h0 : doubleMantissa 0 * 2 ^ (doubleExponent 0 + 1074).toNat = 0 := by
    rw [weight_exp_zero 0 (by norm_num)]
  have := magnitude_lt_iff 0 a
  simp only [Nat.zero_mod, h0] at this
  omega

/-- The keys of two patterns order as the numbers scaled to the exponent
-1074. -/
theorem doubleKey_lt_iff (a b : Nat) :
    doubleKey a < doubleKey b ↔ doubleScaled a (-1074) < doubleScaled b (-1074) := by
  rw [doubleScaled_eq, doubleScaled_eq]
  unfold doubleKey doubleNegative
  have hab := magnitude_lt_iff a b
  have hba := magnitude_lt_iff b a
  have ha := magnitude_zero_iff a
  have hb := magnitude_zero_iff b
  by_cases sa : a / 9223372036854775808 % 2 = 1 <;> by_cases sb : b / 9223372036854775808 % 2 = 1 <;>
    simp only [sa, sb, if_true, if_false, decide_True, decide_False, Bool.false_eq_true] <;> omega

end QueryExecutor

namespace QueryExecutor

theorem highBit_spec : ∀ (fuel m : Nat), 0 < m → m < 2 ^ fuel →
    2 ^ highBit fuel m ≤ m ∧ m < 2 ^ (highBit fuel m + 1)
  | 0, m, h1, h2 => by simp at h2; omega
  | fuel + 1, m, h1, h2 => by
    rw [highBit]
    by_cases h : m ≥ 2
    · rw [if_pos h]
      have h3 : m / 2 < 2 ^ fuel := by
        rw [Nat.pow_succ] at h2
        omega
      obtain ⟨ih1, ih2⟩ := highBit_spec fuel (m / 2) (by omega) h3
      have e1 : 2 ^ (highBit fuel (m / 2) + 1) = 2 ^ highBit fuel (m / 2) * 2 := by
        rw [Nat.pow_succ]
      have e2 : 2 ^ (highBit fuel (m / 2) + 1 + 1) = 2 ^ highBit fuel (m / 2) * 2 * 2 := by
        rw [Nat.pow_succ, Nat.pow_succ]
      rw [e1] at ih2
      rw [e1, e2]
      constructor <;> omega
    · rw [if_neg h]
      simp
      omega

theorem highBit_le (m : Nat) (h0 : 0 < m) (h : m < 2 ^ 53) : highBit 64 m ≤ 52 := by
  obtain ⟨h1, _⟩ := highBit_spec 64 m h0 (lt_trans h (by norm_num))
  by_contra hc
  have : 2 ^ 53 ≤ 2 ^ highBit 64 m := Nat.pow_le_pow_right (by norm_num) (by omega)
  omega

/-- The pattern of a converted integer below `2 ^ 53`: its fields. -/
theorem intToDouble_fields (i : Int) (h0 : i ≠ 0) (h : i.natAbs < 2 ^ 53) :
    intToDouble i / 4503599627370496 % 2048 = 1023 + highBit 64 i.natAbs ∧
      intToDouble i % 4503599627370496 + 4503599627370496 =
        i.natAbs * 2 ^ (52 - highBit 64 i.natAbs) ∧
      (intToDouble i / 9223372036854775808 % 2 = 1 ↔ i < 0) := by
  have hm : 0 < i.natAbs := Int.natAbs_pos.2 h0
  obtain ⟨h1, h2⟩ := highBit_spec 64 i.natAbs hm (lt_trans h (by norm_num))
  have he := highBit_le i.natAbs hm h
  have hp1 : 2 ^ 52 ≤ i.natAbs * 2 ^ (52 - highBit 64 i.natAbs) := by
    calc 2 ^ 52 = 2 ^ highBit 64 i.natAbs * 2 ^ (52 - highBit 64 i.natAbs) := by
          rw [← Nat.pow_add]; congr 1; omega
      _ ≤ _ := Nat.mul_le_mul_right _ h1
  have hp2 : i.natAbs * 2 ^ (52 - highBit 64 i.natAbs) < 2 ^ 53 := by
    calc i.natAbs * 2 ^ (52 - highBit 64 i.natAbs)
        < 2 ^ (highBit 64 i.natAbs + 1) * 2 ^ (52 - highBit 64 i.natAbs) :=
          Nat.mul_lt_mul_of_pos_right h2 (Nat.pow_pos (by norm_num))
      _ = 2 ^ 53 := by rw [← Nat.pow_add]; congr 1; omega
  unfold intToDouble
  simp only [h0, if_false]
  generalize i.natAbs * 2 ^ (52 - highBit 64 i.natAbs) = p at hp1 hp2 ⊢
  generalize highBit 64 i.natAbs = e at he ⊢
  norm_num at hp1 hp2
  by_cases hneg : i < 0
  · simp only [hneg, if_true, iff_true]
    refine ⟨?_, ?_, ?_⟩ <;> omega
  · simp only [hneg, if_false, iff_false]
    refine ⟨?_, ?_, ?_⟩ <;> omega

/-- The conversion of an integer below `2 ^ 53` is exact. -/
theorem doubleScaled_intToDouble (i : Int) (h : i.natAbs < 2 ^ 53) :
    doubleScaled (intToDouble i) (-1074) = i * 2 ^ 1074 := by
  by_cases h0 : i = 0
  · subst h0
    have hz : intToDouble 0 = 0 := rfl
    rw [hz, doubleScaled_eq, weight_exp_zero 0 (by norm_num), Int.zero_mul]
    simp only [Nat.zero_mod, Nat.cast_zero, neg_zero, ite_self]
  · obtain ⟨hE, hF, hS⟩ := intToDouble_fields i h0 h
    have hm : 0 < i.natAbs := Int.natAbs_pos.2 h0
    have he := highBit_le i.natAbs hm h
    have hw : doubleMantissa (intToDouble i) *
        2 ^ (doubleExponent (intToDouble i) + 1074).toNat = i.natAbs * 2 ^ 1074 := by
      rw [weight_exp_pos _ (by rw [hE]; omega), hF, hE, Nat.mul_assoc, ← Nat.pow_add]
      congr 2
      omega
    rw [doubleScaled_eq, hw]
    unfold doubleNegative
    by_cases hneg : i < 0
    · rw [if_pos (by simpa using hS.2 hneg), Nat.cast_mul, Nat.cast_pow, Int.natCast_natAbs,
        abs_of_neg hneg, Nat.cast_ofNat, neg_mul, neg_neg]
    · rw [if_neg (by simpa using fun hc => hneg (hS.1 hc)), Nat.cast_mul, Nat.cast_pow,
        Int.natCast_natAbs, abs_of_nonneg (not_lt.1 hneg), Nat.cast_ofNat]

theorem intToDouble_finite (i : Int) (h : i.natAbs < 2 ^ 53) :
    intToDouble i / 4503599627370496 % 2048 ≠ 2047 := by
  by_cases h0 : i = 0
  · subst h0
    decide
  · obtain ⟨hE, _, _⟩ := intToDouble_fields i h0 h
    have := highBit_le i.natAbs (Int.natAbs_pos.2 h0) h
    omega

theorem doubleRat_intToDouble (i : Int) (h : i.natAbs < 2 ^ 53) :
    doubleRat (intToDouble i) = (i : ℚ) := by
  unfold doubleRat
  have h2 : ((2 : ℚ) ^ 1074) ≠ 0 := pow_ne_zero _ (by norm_num)
  rw [doubleScaled_intToDouble i h, Int.cast_mul, Int.cast_pow, Int.cast_ofNat, mul_div_assoc,
    div_self h2, mul_one]

theorem doubleRat_lt_iff (a b : Nat) :
    doubleRat a < doubleRat b ↔ doubleKey a < doubleKey b := by
  rw [doubleKey_lt_iff]
  unfold doubleRat
  rw [div_lt_div_iff_of_pos_right (by positivity)]
  exact Int.cast_lt

theorem doubleRat_eq_iff (a b : Nat) : doubleRat a = doubleRat b ↔ doubleKey a = doubleKey b := by
  have h1 := doubleRat_lt_iff a b
  have h2 := doubleRat_lt_iff b a
  constructor
  · intro h
    rcases lt_trichotomy (doubleKey a) (doubleKey b) with h3 | h3 | h3
    · exact absurd (h1.2 h3) (by rw [h]; exact lt_irrefl _)
    · exact h3
    · exact absurd (h2.2 h3) (by rw [h]; exact lt_irrefl _)
  · intro h
    rcases lt_trichotomy (doubleRat a) (doubleRat b) with h3 | h3 | h3
    · exact absurd (h1.1 h3) (by rw [h]; exact lt_irrefl _)
    · exact h3
    · exact absurd (h2.1 h3) (by rw [h]; exact lt_irrefl _)

end QueryExecutor
namespace QueryExecutor

/-! ## `compareValues` as an order -/

theorem strLt_negtrans (a b c : List Nat) (h1 : BPlusTree.strLt a b = false)
    (h2 : BPlusTree.strLt b c = false) : BPlusTree.strLt a c = false := by
  cases hac : BPlusTree.strLt a c with
  | false => rfl
  | true =>
    cases hba : BPlusTree.strLt b a with
    | true =>
      have := BPlusTree.strLt_trans b a c hba hac
      rw [h2] at this
      exact absurd this (by simp)
    | false =>
      have hab : a = b := BPlusTree.strLt_total a b h1 hba
      rw [hab, h2] at hac
      exact absurd hac (by simp)

theorem valueLt_negtrans (ty : ValueType) (a b c : Value)
    (hty : ty = ValueType.INT ∨ ty = ValueType.STRING) (ha : a.type = ty) (hb : b.type = ty)
    (h1 : valueLt a b = false) (h2 : valueLt b c = false) : valueLt a c = false := by
  unfold valueLt at h1 h2 ⊢
  rw [ha] at h1 ⊢
  rw [hb] at h2
  rcases hty with rfl | rfl
  · simp only [decide_eq_false_iff_not] at h1 h2 ⊢
    omega
  · exact strLt_negtrans _ _ _ h1 h2

/-- The result of `compareValues` on two values that are null or of one
type. -/
theorem compareValues_domain (ty : ValueType) (a b : Value)
    (ha : a.isNull = true ∨ a.type = ty) (hb : b.isNull = true ∨ b.type = ty) :
    compareValues a b =
      if a.isNull then (if b.isNull then 0 else -1)
      else if b.isNull then 1
      else if valueLt a b then -1 else if valueLt b a then 1 else 0 := by
  cases hna : a.isNull with
  | true => cases hnb : b.isNull <;> simp [compareValues, hna, hnb]
  | false =>
    cases hnb : b.isNull with
    | true => simp [compareValues, hna, hnb]
    | false =>
      have hta : a.type = ty := by
        rcases ha with h | h
        · rw [hna] at h; exact absurd h (by simp)
        · exact h
      have htb : b.type = ty := by
        rcases hb with h | h
        · rw [hnb] at h; exact absurd h (by simp)
        · exact h
      rw [compareValues_eq_valueLt a b hna hnb (by rw [hta, htb])]
      simp

end QueryExecutor

namespace QueryExecutor

theorem compareValues_neg_iff_before (ty : ValueType) (a b : Value)
    (ha : a.isNull = true ∨ a.type = ty) (hb : b.isNull = true ∨ b.type = ty) :
    compareValues a b < 0 ↔ nullsFirstLt a b := by
  rw [compareValues_domain ty a b ha hb]
  unfold nullsFirstLt
  cases a.isNull <;> cases b.isNull <;> cases valueLt a b <;> cases valueLt b a <;> simp

theorem compareValues_pos_iff_before (ty : ValueType) (a b : Value)
    (ha : a.isNull = true ∨ a.type = ty) (hb : b.isNull = true ∨ b.type = ty)
    (hasym : a.isNull = false → b.isNull = false → valueLt a b = true → valueLt b a = false) :
    compareValues a b > 0 ↔ nullsFirstLt b a := by
  rw [compareValues_domain ty a b ha hb]
  unfold nullsFirstLt
  cases hna : a.isNull <;> cases hnb : b.isNull <;> cases hab : valueLt a b <;>
    cases hba : valueLt b a <;> simp
  exact absurd (hasym hna hnb hab) (by rw [hba]; simp)

theorem type_of_domain (ty : ValueType) (a : Value) (ha : a.isNull = true ∨ a.type = ty)
    (hn : a.isNull = false) : a.type = ty := by
  rcases ha with h | h
  · rw [hn] at h; exact absurd h (by simp)
  · exact h

theorem nullsFirstLt_irrefl (a : Value) : ¬ nullsFirstLt a a := by
  unfold nullsFirstLt
  rw [valueLt_irrefl]
  cases a.isNull <;> simp

theorem nullsFirstLt_asymm (ty : ValueType) (a b : Value)
    (ha : a.isNull = true ∨ a.type = ty) (hb : b.isNull = true ∨ b.type = ty)
    (h : nullsFirstLt a b) : ¬ nullsFirstLt b a := by
  unfold nullsFirstLt at h ⊢
  rcases h with ⟨h1, h2⟩ | ⟨h1, h2, h3⟩
  · simp [h1, h2]
  · have := valueLt_asymm a b
      (by rw [type_of_domain ty a ha h1, type_of_domain ty b hb h2]) h3
    simp [h1, h2, this]

theorem nullsFirstLt_trans (ty : ValueType) (a b c : Value)
    (ha : a.isNull = true ∨ a.type = ty) (hb : b.isNull = true ∨ b.type = ty)
    (h1 : nullsFirstLt a b) (h2 : nullsFirstLt b c) : nullsFirstLt a c := by
  unfold nullsFirstLt at h1 h2 ⊢
  rcases h1 with ⟨p1, p2⟩ | ⟨p1, p2, p3⟩
  · rcases h2 with ⟨q1, q2⟩ | ⟨q1, q2, q3⟩
    · exact Or.inl ⟨p1, q2⟩
    · exact Or.inl ⟨p1, q2⟩
  · rcases h2 with ⟨q1, q2⟩ | ⟨q1, q2, q3⟩
    · rw [p2] at q1; exact absurd q1 (by simp)
    · exact Or.inr ⟨p1, q2, valueLt_trans a b c
        (by rw [type_of_domain ty a ha p1, type_of_domain ty b hb p2]) p3 q3⟩

theorem nullsFirstLt_negtrans (ty : ValueType) (a b c : Value)
    (hty : ty = ValueType.INT ∨ ty = ValueType.STRING)
    (ha : a.isNull = true ∨ a.type = ty) (hb : b.isNull = true ∨ b.type = ty)
    (h1 : ¬ nullsFirstLt a b) (h2 : ¬ nullsFirstLt b c) : ¬ nullsFirstLt a c := by
  unfold nullsFirstLt at h1 h2 ⊢
  cases hna : a.isNull <;> cases hnb : b.isNull <;> cases hnc : c.isNull <;>
    simp only [hna, hnb, hnc] at h1 h2 ⊢ <;> simp at h1 h2 ⊢
  exact valueLt_negtrans ty a b c hty (type_of_domain ty a ha hna) (type_of_domain ty b hb hnb)
    h1 h2

end QueryExecutor

namespace QueryExecutor

/-! ## The streaming accumulator against `calculateAggregate` -/

theorem foldl_count_eq : ∀ (values : List Value) (count : Int),
    values.foldl (fun (count : Int) v => if !v.isNull then count + 1 else count) count =
      count + ((values.filter fun v => !v.isNull).length : Int)
  | [], count => by simp
  | v :: vs, count => by
    rw [List.foldl_cons, foldl_count_eq vs, List.filter_cons]
    cases hv : v.isNull with
    | true => simp
    | false => simp; omega

theorem calculateAggregate_count (values : List Value) (h : values ≠ []) :
    calculateAggregate AggregateType.COUNT values =
      Value.ofInt ((values.filter fun v => !v.isNull).length : Int) := by
  unfold calculateAggregate
  cases values with
  | nil => exact absurd rfl h
  | cons v vs =>
    simp only [List.isEmpty_cons, Bool.false_eq_true, if_false]
    rw [foldl_count_eq]
    simp

theorem aggUpdate_count (r : List Value) (colIdx cnt : Int) (sum : Nat) (best : Value)
    (hasFloat : Bool) (hcol : colIdx ≥ 0) :
    aggUpdate r ⟨AggregateType.COUNT, colIdx, cnt, sum, best, hasFloat⟩ =
      ⟨AggregateType.COUNT, colIdx,
        if colIdx < (r.length : Int) ∧ (valueAt r colIdx).isNull = false then cnt + 1 else cnt,
        sum, best, hasFloat⟩ := by
  unfold aggUpdate
  have hne : colIdx ≠ -1 := by omega
  by_cases h : colIdx < (r.length : Int)
  · cases hv : (valueAt r colIdx).isNull <;> simp [hne, hcol, h, hv]
  · simp [hne, hcol, h]

theorem stream_count (colIdx : Int) (sum : Nat) (best : Value) (hasFloat : Bool)
    (hcol : colIdx ≥ 0) :
    ∀ (records : List (List Value)) (cnt : Int),
      records.foldl (fun s values => aggUpdate values s)
          ⟨AggregateType.COUNT, colIdx, cnt, sum, best, hasFloat⟩ =
        ⟨AggregateType.COUNT, colIdx,
          cnt + (((Db.columnValues colIdx records).filter fun v => !v.isNull).length : Int),
          sum, best, hasFloat⟩
  | [], cnt => by simp [Db.columnValues]
  | r :: rs, cnt => by
    rw [List.foldl_cons, columnValues_cons, aggUpdate_count r colIdx cnt sum best hasFloat hcol,
      stream_count colIdx sum best hasFloat hcol rs]
    by_cases h : colIdx < (r.length : Int)
    · cases hv : (valueAt r colIdx).isNull
      · simp [hcol, h, hv, List.filter_cons]; omega
      · simp [hcol, h, hv, List.filter_cons]
    · simp [h]

theorem columnValues_length_le (colIdx : Int) (records : List (List Value)) :
    (Db.columnValues colIdx records).length ≤ records.length := by
  unfold Db.columnValues
  rw [List.length_map]
  exact List.length_filter_le _ _

theorem columnValues_nonneg (colIdx : Int) (records : List (List Value))
    (h : Db.columnValues colIdx records ≠ []) : colIdx ≥ 0 := by
  by_contra hc
  apply h
  unfold Db.columnValues
  have : (records.filter fun record =>
      decide (colIdx ≥ 0) && decide (colIdx < (record.length : Int))) = [] := by
    rw [List.filter_eq_nil_iff]
    intro r _
    simp [hc]
  rw [this]
  rfl

end QueryExecutor

namespace RecordManager

/-! ## The record count of a page -/

theorem Counted_congr (pages pages' : Int → Page) : ∀ (pgs : List (List Rec)) (p : Int),
    (∀ q, p ≤ q → q < p + (pgs.length : Int) → pages' q 1 = pages q 1) →
      Counted pages p pgs → Counted pages' p pgs := by
  intro pgs
  induction pgs with
  | nil => intro p _ h; exact h
  | cons rs rest ih =>
    intro p hq h
    simp only [List.length_cons, Nat.cast_add, Nat.cast_one] at hq
    refine ⟨?_, ih (p + 1) (fun q h1 h2 => hq q (by omega) (by omega)) h.2⟩
    rw [hq p (le_refl _) (by omega)]
    exact h.1

theorem Counted_append (pages : Int → Page) : ∀ (a b : List (List Rec)) (p : Int),
    Counted pages p (a ++ b) ↔ Counted pages p a ∧ Counted pages (p + (a.length : Int)) b := by
  intro a
  induction a with
  | nil => intro b p; simp [Counted]
  | cons rs rest ih =>
    intro b p
    show (_ ∧ Counted pages (p + 1) (rest ++ b)) ↔ _
    rw [ih b (p + 1)]
    simp only [Counted, List.length_cons, Nat.cast_add, Nat.cast_one]
    rw [show p + 1 + (rest.length : Int) = p + ((rest.length : Int) + 1) by omega]
    tauto

theorem setPageHeader_one (pg : Page) (a b c : Int) : setPageHeader pg a b c 1 = toWord a := by
  simp [setPageHeader, write, PAGE_RECORD_COUNT_OFFSET, PAGE_FREE_START_OFFSET, PAGE_NEXT_PAGE_OFFSET]

theorem initPage_one (pg : Page) : initPage pg 1 = 0 := by
  simp [initPage, write, PAGE_TYPE_OFFSET, PAGE_RECORD_COUNT_OFFSET, PAGE_FREE_START_OFFSET,
    PAGE_NEXT_PAGE_OFFSET]

theorem liveRecs_length_le (rs : List Rec) : (liveRecs rs).length ≤ rs.length := by
  unfold liveRecs
  rw [List.length_map]
  exact List.length_filter_le _ _

theorem pageRep_live_bound (pg : Page) (rs : List Rec) (next : Int) (h : PageRep pg rs next) :
    ((liveRecs rs).length : Int) ≤ 1016 := by
  have h1 := span_ge_length rs
  have h2 := liveRecs_length_le rs
  have h3 : 16 + span rs ≤ 2048 := h.1
  omega

/-- The record count after `insertRecordInPage` has stored a record with a
slot id that is not zero. -/
theorem insertRecordInPage_count (pg : Page) (rs : List Rec) (next id : Int) (data : List Nat)
    (h : PageRep pg rs next) (hc : toInt (pg 1) = ((liveRecs rs).length : Int))
    (hn : ¬ liveIn id rs) (hid0 : id ≠ 0)
    (hf : 16 + span rs + (2 + (data.length : Int)) ≤ PAGE_INT_NUM) :
    toInt ((insertRecordInPage pg id data).2 1) =
      ((liveRecs (rs ++ [⟨id, data⟩])).length : Int) := by
  have hfind := findRecordInPage_eq pg rs next id h
  have hb := pageRep_live_bound pg rs next h
  obtain ⟨h1, h2, h3, h4⟩ := h
  have hnpos : ¬ (findRec id 16 rs).1 > 0 := fun hh => hn ((findRec_pos_iff id rs 16).1 hh)
  have hsp := span_nonneg rs
  have hP : PAGE_INT_NUM = 2048 := rfl
  have hnf : ¬ (16 + span rs + (2 + (data.length : Int)) > PAGE_INT_NUM) := by omega
  have hne : ¬ (16 + span rs = -1) := by omega
  unfold insertRecordInPage
  rw [hfind, if_neg hnpos]
  simp only [findFreeSpace, getPageHeader, PAGE_FREE_START_OFFSET, RECORD_HEADER_SIZE,
    PAGE_NEXT_PAGE_OFFSET, PAGE_RECORD_COUNT_OFFSET, h2, hnf, if_false, hne]
  rw [setPageHeader_one, hc, liveRecs_append, liveRecs_single, if_pos hid0,
    toInt_toWord _ (by omega) (by omega)]
  simp

/-- The record count after `deleteRecordInPage` has found the record. -/
theorem deleteRecordInPage_count (pg : Page) (rs : List Rec) (next id : Int)
    (h : PageRep pg rs next) (hc : toInt (pg 1) = ((liveRecs rs).length : Int))
    (hl : liveIn id rs) :
    toInt ((deleteRecordInPage pg id).2 1) = ((liveRecs (tombstone id rs)).length : Int) := by
  have hpos := (findRec_pos_iff id rs 16).2 hl
  have hfind := findRecordInPage_eq pg rs next id h
  have hb := pageRep_live_bound pg rs next h
  have hnle : ¬ (findRec id 16 rs).1 ≤ 0 := by omega
  have hsome : (lookupLive id (liveRecs rs)).isSome = true := (lookupLive_isSome_iff id rs).2 hl
  have hlen : ((liveRecs (tombstone id rs)).length : Int) = ((liveRecs rs).length : Int) - 1 := by
    rw [liveRecs_tombstone]
    have : ∀ l : List (Int × List Nat), (lookupLive id l).isSome = true →
        ((eraseLive id l).length : Int) = (l.length : Int) - 1 := by
      intro l
      induction l with
      | nil => intro h; simp [lookupLive] at h
      | cons x xs ih =>
        obtain ⟨i, d⟩ := x
        intro h
        by_cases hi : i = id
        · simp [eraseLive, hi]
        · simp only [lookupLive, hi, if_false] at h
          simp only [eraseLive, hi, if_false, List.length_cons, Nat.cast_add, Nat.cast_one]
          rw [ih h]; omega
    exact this _ hsome
  unfold deleteRecordInPage
  rw [hfind]
  simp only [hnle, if_false]
  rw [setPageHeader_one]
  show toInt (toWord (toInt (pg 1) - 1)) = _
  rw [hc, hlen, toInt_toWord _ (by omega) (by omega)]

end RecordManager

namespace RecordManager

theorem insertRecord_counted (st : Store) (init : List (List Rec)) (last : List Rec)
    (id : Int) (data : List Nat) (hrep : StoreRep st (init ++ [last]))
    (hcnt : Counted st.pages 0 (init ++ [last])) (hid : isInt32 id) (hid0 : id ≠ 0)
    (hb : st.tailPageID + 1 < 2147483648) :
    ∃ pgs', StoreRep (insertRecord st id data).2 pgs' ∧
      Counted (insertRecord st id data).2.pages 0 pgs' := by
  obtain ⟨hA, hB⟩ := insertRecord_cases st init last id data hrep hid hb
  obtain ⟨hchain, htail⟩ := hrep
  rw [ChainRep_snoc] at hchain
  obtain ⟨hlinked, hlast⟩ := hchain
  simp only [List.length_append, List.length_singleton] at htail
  push_cast at htail
  have ht : st.tailPageID = (init.length : Int) := by omega
  rw [zero_add, ← ht] at hlast
  rw [Counted_append] at hcnt
  obtain ⟨hcinit, hclast⟩ := hcnt
  rw [zero_add, ← ht] at hclast
  have hclast1 : toInt (st.pages st.tailPageID 1) = ((liveRecs last).length : Int) := hclast.1
  by_cases hc : ¬ liveIn id last ∧ 16 + span last + (2 + (data.length : Int)) ≤ PAGE_INT_NUM
  · obtain ⟨h1, h2⟩ := hA hc
    obtain ⟨k1, _⟩ := insertRecordInPage_ok _ _ _ id data hlast hc.1 hid hc.2
    have hr : (insertRecord st id data).2.pages =
        setPage st.pages st.tailPageID (insertRecordInPage (st.pages st.tailPageID) id data).2 := by
      simp only [insertRecord, k1, if_true]
    refine ⟨_, h2, ?_⟩
    rw [hr, Counted_append]
    refine ⟨Counted_congr _ _ _ _ (fun q _ hq => ?_) hcinit, ?_, trivial⟩
    · rw [setPage_other _ _ _ _ (by omega)]
    · rw [zero_add, ← ht, setPage_same]
      exact insertRecordInPage_count _ _ _ id data hlast hclast1 hc.1 hid0 hc.2
  · obtain ⟨hB1, hB2⟩ := hB hc
    have hfail : insertRecordInPage (st.pages st.tailPageID) id data =
        (false, st.pages st.tailPageID) := by
      by_cases hl : liveIn id last
      · exact insertRecordInPage_dup _ _ _ id data hlast hl
      · exact insertRecordInPage_full _ _ _ id data hlast (by
          have : ¬ (16 + span last + (2 + (data.length : Int)) ≤ PAGE_INT_NUM) :=
            fun h => hc ⟨hl, h⟩
          omega)
    have hnew := PageRep_initPage (st.pages (st.tailPageID + 1))
    have hr : (insertRecord st id data).2.pages =
        setPage (setPage (setPage st.pages st.tailPageID
            (setPageHeader (st.pages st.tailPageID) (getPageHeader (st.pages st.tailPageID)).1
              (getPageHeader (st.pages st.tailPageID)).2.1 (st.tailPageID + 1)))
            (st.tailPageID + 1) (initPage (st.pages (st.tailPageID + 1))))
            (st.tailPageID + 1)
            (insertRecordInPage (initPage (st.pages (st.tailPageID + 1))) id data).2 := by
      simp only [insertRecord, hfail]
      rfl
    have key : ∀ (rsN : List Rec),
        toInt ((insertRecordInPage (initPage (st.pages (st.tailPageID + 1))) id data).2 1) =
          ((liveRecs rsN).length : Int) →
        Counted (insertRecord st id data).2.pages 0 (init ++ [last, rsN]) := by
      intro rsN hN
      rw [hr, Counted_append]
      refine ⟨Counted_congr _ _ _ _ (fun q _ hq => ?_) hcinit, ?_, ?_, trivial⟩
      · rw [setPage_other _ _ _ _ (by omega), setPage_other _ _ _ _ (by omega),
          setPage_other _ _ _ _ (by omega)]
      · rw [zero_add, ← ht, setPage_other _ _ _ _ (by omega), setPage_other _ _ _ _ (by omega),
          setPage_same, setPageHeader_one]
        show toInt (toWord (toInt (st.pages st.tailPageID 1))) = _
        rw [toInt_toWord_toInt]
        exact hclast1
      · rw [zero_add, ← ht, setPage_same]
        exact hN
    by_cases hfit : 18 + (data.length : Int) ≤ PAGE_INT_NUM
    · obtain ⟨_, h2⟩ := hB1 hfit
      refine ⟨_, h2, key _ ?_⟩
      have hn0 : ¬ liveIn id [] := by simp [liveIn]
      have := insertRecordInPage_count _ [] _ id data hnew
        (by rw [initPage_one]; rfl) hn0 hid0 (by simp only [span]; omega)
      simpa using this
    · obtain ⟨_, h2⟩ := hB2 hfit
      refine ⟨_, h2, key _ ?_⟩
      have h1 := insertRecordInPage_full _ _ _ id data hnew (by simp only [span]; omega)
      rw [h1]
      show toInt (initPage (st.pages (st.tailPageID + 1)) 1) = _
      rw [initPage_one]; rfl

theorem deleteRecordLoop_counted (id : Int) : ∀ (pgs : List (List Rec)) (pages : Int → Page)
    (fuel : Nat) (p : Int), 0 ≤ p → ChainRep pages p pgs → Counted pages p pgs →
      pgs.length ≤ fuel → ∀ r, deleteRecordLoop fuel pages id p = some r →
        Counted r.2 p (tombstoneChain id pgs) := by
  intro pgs
  induction pgs with
  | nil => intro pages fuel p _ h; exact h.elim
  | cons rs rest ih =>
    intro pages fuel p hp h hcnt hf r hr
    obtain ⟨f, rfl⟩ : ∃ f, fuel = f + 1 := ⟨fuel - 1, by simp at hf; omega⟩
    have hpr : ∃ next, PageRep (pages p) rs next := by
      cases rest with
      | nil => exact ⟨_, (ChainRep_single _ _ _).1 h⟩
      | cons r2 rest => exact ⟨_, ((ChainRep_cons2 _ _ _ _ _).1 h).1⟩
    obtain ⟨next, hpr⟩ := hpr
    by_cases hl : liveIn id rs
    · obtain ⟨hr1, _⟩ := deleteRecordInPage_hit _ _ _ id hpr hl
      simp only [deleteRecordLoop, hr1, if_true, Option.some.injEq] at hr
      subst hr
      rw [tombstoneChain_cons_hit id rs rest hl]
      refine ⟨?_, Counted_congr _ _ _ _ (fun q hq _ => ?_) hcnt.2⟩
      · show toInt (setPage pages p _ p 1) = _
        rw [setPage_same]
        exact deleteRecordInPage_count _ _ _ id hpr hcnt.1 hl
      · show setPage pages p _ q 1 = _
        rw [setPage_other _ _ _ _ (by omega)]
    · have hmiss := deleteRecordInPage_miss _ _ _ id hpr hl
      rw [tombstoneChain_cons_miss id rs rest hl]
      cases rest with
      | nil =>
        rw [ChainRep_single] at h
        have hnext : (getPageHeader (pages p)).2.2 = -1 := h.2.2.1
        simp only [deleteRecordLoop, hmiss, hnext, if_true, Bool.false_eq_true, if_false,
          Option.some.injEq] at hr
        subst hr
        exact ⟨hcnt.1, trivial⟩
      | cons r2 rest =>
        rw [ChainRep_cons2] at h
        have hnext : (getPageHeader (pages p)).2.2 = p + 1 := h.1.2.2.1
        have hne : ¬ (p + 1 = -1) := by omega
        simp only [deleteRecordLoop, hmiss, hnext, hne, if_false, Bool.false_eq_true] at hr
        obtain ⟨pages', h1, _, h3, _⟩ :=
          deleteRecordLoop_eq id (r2 :: rest) pages f (p + 1) (by omega) h.2 (by simpa using hf)
        have := ih pages f (p + 1) (by omega) h.2 hcnt.2 (by simpa using hf) r hr
        refine ⟨?_, this⟩
        rw [h1] at hr
        simp only [Option.some.injEq] at hr
        subst hr
        show toInt (pages' p 1) = _
        rw [h3 p (by omega)]
        exact hcnt.1

end RecordManager

namespace RecordManager

/-! ## The calls on an accounted store -/

theorem accounted_fresh (disk : Int → Page) : Accounted (freshStore disk) := by
  refine ⟨[[]], StoreRep_fresh disk, ?_, trivial⟩
  show toInt ((freshStore disk).pages 0 1) = _
  simp only [freshStore, setPage_same]
  rw [initPage_one]; rfl

theorem storeRep_ne_nil (st : Store) (pgs : List (List Rec)) (h : StoreRep st pgs) :
    ∃ init last, pgs = init ++ [last] := by
  rcases List.eq_nil_or_concat pgs with hh | ⟨init, last, hcat⟩
  · rw [hh] at h; exact h.1.elim
  · exact ⟨init, last, by rw [hcat, List.concat_eq_append]⟩

theorem accounted_insert (st : Store) (h : Accounted st) (id : Int) (data : List Nat)
    (hid : isInt32 id) (hid0 : id ≠ 0) (hb : st.tailPageID + 1 < 2147483648) :
    Accounted (insertRecord st id data).2 ∧
      st.tailPageID ≤ (insertRecord st id data).2.tailPageID ∧
      (insertRecord st id data).2.tailPageID ≤ st.tailPageID + 1 := by
  obtain ⟨pgs, hrep, hcnt⟩ := h
  obtain ⟨_, _, _, _, h4, h5⟩ := insertRecord_eq st pgs hrep id data hid hb
  obtain ⟨init, last, rfl⟩ := storeRep_ne_nil st pgs hrep
  exact ⟨insertRecord_counted st init last id data hrep hcnt hid hid0 hb, h4, h5⟩

theorem accounted_delete (st : Store) (h : Accounted st) (id : Int) :
    ∃ r, deleteRecord st id = some r ∧ Accounted r.2 ∧ r.2.tailPageID = st.tailPageID ∧
      (r.1 = true → id ≠ 0) := by
  obtain ⟨pgs, hrep, hcnt⟩ := h
  obtain ⟨st', h1, h2, h3, _⟩ := deleteRecord_eq st pgs hrep id
  refine ⟨_, h1, ⟨_, h2, ?_⟩, h3, ?_⟩
  · have hloop : ∃ r, deleteRecordLoop (chainFuel st) st.pages id 0 = some r ∧ r.2 = st'.pages := by
      unfold deleteRecord at h1
      cases hd : deleteRecordLoop (chainFuel st) st.pages id 0 with
      | none => rw [hd] at h1; simp at h1
      | some r =>
        rw [hd] at h1
        simp only [Option.map_some', Option.some.injEq, Prod.mk.injEq] at h1
        exact ⟨r, rfl, by rw [← h1.2]⟩
    obtain ⟨r, hr1, hr2⟩ := hloop
    rw [← hr2]
    exact deleteRecordLoop_counted id pgs st.pages (chainFuel st) 0 (le_refl _) hrep.1 hcnt
      (by rw [StoreRep_chainFuel st pgs hrep]) r hr1
  · intro hb
    simp only at hb
    cases hl : lookupLive id (allLive pgs) with
    | none => rw [hl] at hb; simp at hb
    | some d =>
      have := lookupLive_mem id (allLive pgs) d hl
      exact allLive_fst_ne_zero pgs _ this

theorem accounted_update (st : Store) (h : Accounted st) (id : Int) (data : List Nat)
    (hid : isInt32 id) (hb : st.tailPageID + 1 < 2147483648) :
    ∃ r, updateRecord st id data = some r ∧ Accounted r.2 ∧
      st.tailPageID ≤ r.2.tailPageID ∧ r.2.tailPageID ≤ st.tailPageID + 1 := by
  obtain ⟨r, h1, h2, h3, h4⟩ := accounted_delete st h id
  obtain ⟨b, st1⟩ := r
  cases b with
  | false =>
    refine ⟨(false, st1), ?_, h2, ?_, ?_⟩
    · unfold updateRecord; rw [h1]
    · simp only at h3; simp only; omega
    · simp only at h3; simp only; omega
  | true =>
    simp only at h3
    obtain ⟨k1, k2, k3⟩ := accounted_insert st1 h2 id data hid (h4 rfl) (by rw [h3]; exact hb)
    refine ⟨insertRecord st1 id data, ?_, k1, ?_, ?_⟩
    · unfold updateRecord; rw [h1]
    · omega
    · omega

theorem runCalls_accounted : ∀ (calls : List Call) (st : Store), Accounted st →
    (∀ c ∈ calls, c.Valid) → st.tailPageID + (calls.length : Int) < 2147483647 →
      ∃ st', runCalls st calls = some st' ∧ Accounted st' ∧
        st'.tailPageID ≤ st.tailPageID + (calls.length : Int) := by
  intro calls
  induction calls with
  | nil => intro st h _ _; exact ⟨st, rfl, h, by simp⟩
  | cons c cs ih =>
    intro st h hv hlen
    simp only [List.length_cons, Nat.cast_add, Nat.cast_one] at hlen
    have hc := hv c (List.mem_cons_self c cs)
    have hcs : ∀ c' ∈ cs, c'.Valid := fun c' hc' => hv c' (List.mem_cons_of_mem c hc')
    cases c with
    | insert id data =>
      obtain ⟨k1, k2, k3⟩ := accounted_insert st h id data hc.1 hc.2 (by omega)
      obtain ⟨st', e1, e2, e3⟩ := ih _ k1 hcs (by omega)
      refine ⟨st', by simp only [runCalls]; exact e1, e2, ?_⟩
      simp only [List.length_cons, Nat.cast_add, Nat.cast_one]; omega
    | delete id =>
      obtain ⟨r, k1, k2, k3, _⟩ := accounted_delete st h id
      obtain ⟨st', e1, e2, e3⟩ := ih _ k2 hcs (by omega)
      refine ⟨st', by simp only [runCalls, k1]; exact e1, e2, ?_⟩
      simp only [List.length_cons, Nat.cast_add, Nat.cast_one]; omega
    | update id data =>
      obtain ⟨r, k1, k2, k3, k4⟩ := accounted_update st h id data hc (by omega)
      obtain ⟨st', e1, e2, e3⟩ := ih _ k2 hcs (by omega)
      refine ⟨st', by simp only [runCalls, k1]; exact e1, e2, ?_⟩
      simp only [List.length_cons, Nat.cast_add, Nat.cast_one]; omega

end RecordManager

namespace RecordManager

/-! ## What the invariant says of a page, and the two counts -/

theorem chainRep_page (pages : Int → Page) : ∀ (pgs : List (List Rec)) (p : Int),
    ChainRep pages p pgs → Counted pages p pgs → ∀ q, p ≤ q → q < p + (pgs.length : Int) →
      ∃ rs, PageRep (pages q) rs (if q + 1 = p + (pgs.length : Int) then -1 else q + 1) ∧
        toInt (pages q 1) = ((liveRecs rs).length : Int) := by
  intro pgs
  induction pgs with
  | nil => intro p h; exact h.elim
  | cons rs rest ih =>
    intro p h hc q hq1 hq2
    simp only [List.length_cons, Nat.cast_add, Nat.cast_one] at hq2 ⊢
    cases rest with
    | nil =>
      rw [ChainRep_single] at h
      simp only [List.length_nil, Nat.cast_zero, zero_add] at hq2 ⊢
      have : q = p := by omega
      subst this
      exact ⟨rs, by simpa using h, hc.1⟩
    | cons r2 rest =>
      rw [ChainRep_cons2] at h
      by_cases hqp : q = p
      · subst hqp
        refine ⟨rs, ?_, hc.1⟩
        have : ¬ (q + 1 = q + (((r2 :: rest).length : Int) + 1)) := by
          simp only [List.length_cons, Nat.cast_add, Nat.cast_one]; omega
        rw [if_neg this]
        exact h.1
      · obtain ⟨rs', k1, k2⟩ := ih (p + 1) h.2 hc.2 q (by omega) (by omega)
        refine ⟨rs', ?_, k2⟩
        rw [show p + (((r2 :: rest).length : Int) + 1) = p + 1 + ((r2 :: rest).length : Int) by omega]
        exact k1

theorem getStatisticsLoop_eq (pages : Int → Page) : ∀ (pgs : List (List Rec)) (fuel : Nat)
    (p totalRecords totalPages : Int), 0 ≤ p → ChainRep pages p pgs → Counted pages p pgs →
      pgs.length ≤ fuel →
        getStatisticsLoop fuel pages p totalRecords totalPages =
          some (totalRecords + ((allLive pgs).length : Int), totalPages + (pgs.length : Int)) := by
  intro pgs
  induction pgs with
  | nil => intro fuel p _ _ _ h; exact h.elim
  | cons rs rest ih =>
    intro fuel p tr tp hp h hc hf
    obtain ⟨f, rfl⟩ : ∃ f, fuel = f + 1 := ⟨fuel - 1, by simp at hf; omega⟩
    have hcount : (getPageHeader (pages p)).1 = ((liveRecs rs).length : Int) := hc.1
    cases rest with
    | nil =>
      rw [ChainRep_single] at h
      have hnext : (getPageHeader (pages p)).2.2 = -1 := h.2.2.1
      simp only [getStatisticsLoop, hnext, if_true, hcount, allLive, List.append_nil,
        List.length_singleton, Nat.cast_one]
    | cons r2 rest =>
      rw [ChainRep_cons2] at h
      have hnext : (getPageHeader (pages p)).2.2 = p + 1 := h.1.2.2.1
      have hne : ¬ (p + 1 = -1) := by omega
      have := ih f (p + 1) (tr + ((liveRecs rs).length : Int)) (tp + 1) (by omega) h.2 hc.2
        (by simpa using hf)
      simp only [getStatisticsLoop, hnext, hne, if_false, hcount, this]
      simp only [allLive, List.length_append, List.length_cons, Nat.cast_add, Nat.cast_one]
      congr 2 <;> omega

theorem recordIDsPageLoop_eq (pg : Page) (freeStart maxCount : Int)
    (hfs : freeStart ≤ PAGE_INT_NUM) :
    ∀ (rs : List Rec) (fuel : Nat) (pos count : Int), Layout pg pos rs →
      pos + span rs = freeStart → rs.length < fuel →
        recordIDsPageLoop fuel pg freeStart maxCount count pos =
          ((liveRecs rs).map Prod.fst).take (maxCount - count).toNat := by
  intro rs
  induction rs with
  | nil =>
    intro fuel pos count _ hs hf
    obtain ⟨f, rfl⟩ : ∃ f, fuel = f + 1 := ⟨fuel - 1, by simp at hf; omega⟩
    simp only [span] at hs
    have : ¬ (pos < freeStart ∧ count < maxCount) := by omega
    simp [recordIDsPageLoop, liveRecs, this]
  | cons r rs ih =>
    intro fuel pos count hl hs hf
    obtain ⟨f, rfl⟩ : ∃ f, fuel = f + 1 := ⟨fuel - 1, by simp at hf; omega⟩
    obtain ⟨h1, h2, _, h4⟩ := hl
    simp only [span] at hs
    have hsz := r.size_ge
    have hsp := span_nonneg rs
    have hlt : pos < freeStart := by omega
    have hnb : ¬ (r.size ≤ 0 ∨ pos + r.size > PAGE_INT_NUM) := by omega
    by_cases hcm : count < maxCount
    · have ih1 := ih f (pos + r.size) (count + 1) h4 (by omega) (by simpa using hf)
      have ih2 := ih f (pos + r.size) count h4 (by omega) (by simpa using hf)
      simp only [recordIDsPageLoop, hlt, hcm, and_self, if_true, h1, h2, hnb, if_false]
      by_cases hz : r.rid = 0
      · rw [liveRecs_cons_dead r rs hz]
        simp only [hz, ne_eq, not_true_eq_false, if_false]
        exact ih2
      · rw [liveRecs_cons_live r rs hz]
        simp only [hz, ne_eq, not_false_eq_true, if_true, List.map_cons]
        obtain ⟨n, hn⟩ : ∃ n, (maxCount - count).toNat = n + 1 :=
          ⟨(maxCount - count).toNat - 1, by omega⟩
        have hn' : (maxCount - (count + 1)).toNat = n := by omega
        rw [hn, List.take_succ_cons, ih1, hn']
    · have : ¬ (pos < freeStart ∧ count < maxCount) := fun h => hcm h.2
      have h0 : (maxCount - count).toNat = 0 := by omega
      simp only [recordIDsPageLoop, this, if_false, h0, List.take_zero]

theorem getAllRecordIDsLoop_eq (pages : Int → Page) (maxCount : Int) :
    ∀ (pgs : List (List Rec)) (fuel : Nat) (p count : Int), 0 ≤ p → ChainRep pages p pgs →
      pgs.length ≤ fuel →
        getAllRecordIDsLoop fuel pages maxCount count p =
          some (((allLive pgs).map Prod.fst).take (maxCount - count).toNat) := by
  intro pgs
  induction pgs with
  | nil => intro fuel p _ _ h; exact h.elim
  | cons rs rest ih =>
    intro fuel p count hp h hf
    obtain ⟨f, rfl⟩ : ∃ f, fuel = f + 1 := ⟨fuel - 1, by simp at hf; omega⟩
    by_cases hcm : count < maxCount
    · have hpage : ∀ next, PageRep (pages p) rs next →
          recordIDsPageLoop pageFuel (pages p) (getPageHeader (pages p)).2.1 maxCount count
              PAGE_DATA_START =
            ((liveRecs rs).map Prod.fst).take (maxCount - count).toNat := by
        intro next hpr
        have hl := pageRep_length _ rs next hpr
        obtain ⟨h1, h3, _, h5⟩ := hpr
        have : (getPageHeader (pages p)).2.1 = 16 + span rs := h3
        rw [this]
        exact recordIDsPageLoop_eq _ _ maxCount h1 rs pageFuel 16 count h5 rfl hl
      cases rest with
      | nil =>
        rw [ChainRep_single] at h
        have hnext : (getPageHeader (pages p)).2.2 = -1 := h.2.2.1
        simp only [getAllRecordIDsLoop, hcm, if_true, hpage _ h, hnext, allLive, List.append_nil]
      | cons r2 rest =>
        rw [ChainRep_cons2] at h
        have hnext : (getPageHeader (pages p)).2.2 = p + 1 := h.1.2.2.1
        have hne : ¬ (p + 1 = -1) := by omega
        have hrec := ih f (p + 1)
          (count + ((((liveRecs rs).map Prod.fst).take (maxCount - count).toNat).length : Int))
          (by omega) h.2 (by simpa using hf)
        simp only [getAllRecordIDsLoop, hcm, if_true, hpage _ h.1, hnext, hne, if_false, hrec,
          Option.map_some', Option.some.injEq]
        show _ = (((liveRecs rs ++ allLive (r2 :: rest)).map Prod.fst).take _)
        rw [List.map_append, List.take_append_eq_append_take]
        congr 2
        rw [List.length_take, List.length_map]
        omega
    · have h0 : (maxCount - count).toNat = 0 := by omega
      simp only [getAllRecordIDsLoop, hcm, if_false, h0, List.take_zero]

theorem getStatistics_eq (st : Store) (pgs : List (List Rec)) (h : StoreRep st pgs)
    (hc : Counted st.pages 0 pgs) :
    getStatistics st = some (((allLive pgs).length : Int), (pgs.length : Int)) := by
  unfold getStatistics
  rw [getStatisticsLoop_eq _ pgs _ 0 0 0 (le_refl _) h.1 hc (by rw [StoreRep_chainFuel st pgs h])]
  simp

theorem getAllRecordIDs_eq (st : Store) (pgs : List (List Rec)) (h : StoreRep st pgs)
    (maxCount : Int) :
    getAllRecordIDs st maxCount = some (((allLive pgs).map Prod.fst).take maxCount.toNat) := by
  unfold getAllRecordIDs
  rw [getAllRecordIDsLoop_eq _ maxCount pgs _ 0 0 (le_refl _) h.1
    (by rw [StoreRep_chainFuel st pgs h])]
  simp

end RecordManager

namespace BPlusTree

/-! ## B+ tree: removal and key order -/

theorem eraseAt_zero {α : Type} (x : α) (l : List α) : eraseAt (x :: l) 0 = l := by
  simp [eraseAt]

theorem eraseAt_succ {α : Type} (x : α) (l : List α) (i : Nat) :
    eraseAt (x :: l) (i + 1) = x :: eraseAt l i := by
  simp [eraseAt]

theorem mem_eraseAt {α : Type} (y : α) : ∀ (l : List α) (i : Nat), y ∈ eraseAt l i → y ∈ l := by
  intro l i h
  unfold eraseAt at h
  rcases List.mem_append.1 h with h | h
  · exact List.mem_of_mem_take h
  · exact List.mem_of_mem_drop h

/-- Erasing the entry of `key` from a sorted leaf: the other entries stay, in
order. -/
theorem erase_sorted (key : Int) : ∀ (ks : List Int) (rs : List RID), rs.length = ks.length →
    ks.Pairwise (· < ·) → key ∈ ks →
    (ks.takeWhile fun k => decide (k ≠ key)).length < ks.length ∧
    (eraseAt ks (ks.takeWhile fun k => decide (k ≠ key)).length).Pairwise (· < ·) ∧
    (eraseAt ks (ks.takeWhile fun k => decide (k ≠ key)).length).length + 1 = ks.length ∧
    (eraseAt rs (ks.takeWhile fun k => decide (k ≠ key)).length).length + 1 = ks.length ∧
    ∀ k r, (k, r) ∈ (eraseAt ks (ks.takeWhile fun k => decide (k ≠ key)).length).zip
        (eraseAt rs (ks.takeWhile fun k => decide (k ≠ key)).length) ↔
      ((k, r) ∈ ks.zip rs ∧ k ≠ key) := by
  intro ks
  induction ks with
  | nil => intro rs _ _ h; simp at h
  | cons x ks ih =>
    intro rs hlen hp hmem
    cases rs with
    | nil => simp at hlen
    | cons r0 rs =>
      simp only [List.length_cons, Nat.add_right_cancel_iff] at hlen
      rw [List.pairwise_cons] at hp
      by_cases hx : x = key
      · subst hx
        simp only [List.takeWhile_cons, ne_eq, not_true_eq_false, decide_False,
          Bool.false_eq_true, if_false, List.length_nil, eraseAt_zero, List.length_cons,
          List.zip_cons_cons, List.mem_cons, Prod.mk.injEq]
        refine ⟨by omega, hp.2, trivial, by omega, fun k r => ?_⟩
        constructor
        · intro h
          have := hp.1 k (List.of_mem_zip h).1
          exact ⟨Or.inr h, by omega⟩
        · rintro ⟨⟨e, _⟩ | h, hne⟩
          · exact absurd e hne
          · exact h
      · have hmem' : key ∈ ks := by
          rcases List.mem_cons.1 hmem with e | e
          · exact absurd e.symm hx
          · exact e
        obtain ⟨i1, i2, i3, i4, i5⟩ := ih rs hlen hp.2 hmem'
        simp only [ne_eq] at i1 i2 i3 i4 i5
        simp only [List.takeWhile_cons, ne_eq, hx, not_false_eq_true, decide_True, if_true,
          List.length_cons, eraseAt_succ, List.zip_cons_cons, List.mem_cons, Prod.mk.injEq]
        refine ⟨by omega, ?_, by omega, by omega, fun k r => ?_⟩
        · rw [List.pairwise_cons]
          exact ⟨fun y hy => hp.1 y (mem_eraseAt y _ _ hy), i2⟩
        · have := i5 k r
          rw [this]
          constructor
          · rintro (⟨e, e'⟩ | h)
            · exact ⟨Or.inl ⟨e, e'⟩, by rw [e]; exact hx⟩
            · exact ⟨Or.inr h.1, h.2⟩
          · rintro ⟨⟨e, e'⟩ | h, hne⟩
            · exact Or.inl ⟨e, e'⟩
            · exact Or.inr ⟨h, hne⟩

theorem deleteFromLeaf_leafOK (n : BPlusTreeNode) (lo hi : Int) (M : Int → Option RID)
    (key : Int) (h : LeafOK n lo hi M) (hmem : key ∈ n.keys) :
    LeafOK (deleteFromLeaf n key) lo hi (unbind M key) := by
  obtain ⟨h1, h2, h3, h4⟩ := h
  have htake : n.keys.take n.keyCount.toNat = n.keys := by
    rw [h1, Int.toNat_ofNat, List.take_length]
  obtain ⟨e1, e2, e3, e4, e5⟩ := erase_sorted key n.keys n.rids h2 h3 hmem
  unfold LeafOK deleteFromLeaf
  simp only [htake]
  rw [if_pos (by rw [h1]; exact_mod_cast e1)]
  refine ⟨?_, ?_, e2, ?_⟩
  · show n.keyCount - 1 = _
    rw [h1, ← e3]; push_cast; ring
  · show (eraseAt n.rids _).length = (eraseAt n.keys _).length
    omega
  · intro k r
    show (k, r) ∈ (eraseAt n.keys _).zip (eraseAt n.rids _) ↔ _
    rw [e5 k r, h4 k r]
    unfold unbind
    constructor
    · rintro ⟨⟨a, b, c⟩, hne⟩
      exact ⟨by rw [if_neg hne]; exact a, b, c⟩
    · rintro ⟨a, b, c⟩
      by_cases e : k = key
      · rw [if_pos e] at a; exact Option.noConfusion a
      · rw [if_neg e] at a; exact ⟨⟨a, b, c⟩, e⟩

theorem view_deleteFromLeaf (n : BPlusTreeNode) (key : Int) :
    view (deleteFromLeaf n key) = deleteFromLeaf (view n) key := by
  simp only [deleteFromLeaf]
  split_ifs with h1 h2 h2
  · rfl
  · exact absurd h1 h2
  · exact absurd h2 h1
  · rfl

theorem deleteFromLeaf_pageNum (n : BPlusTreeNode) (key : Int) :
    (deleteFromLeaf n key).pageNum = n.pageNum := by
  simp only [deleteFromLeaf]
  split_ifs <;> rfl

theorem deleteFromLeaf_shape (n : BPlusTreeNode) (key : Int) :
    (deleteFromLeaf n key).parent = n.parent ∧ (deleteFromLeaf n key).isLeaf = n.isLeaf ∧
      (deleteFromLeaf n key).children = n.children ∧
      (deleteFromLeaf n key).nextLeaf = n.nextLeaf := by
  simp only [deleteFromLeaf]
  split_ifs <;> exact ⟨rfl, rfl, rfl, rfl⟩

/-- A change of the entries of one leaf, and of the map inside the interval of
that leaf only, keeps the tree well formed. -/
theorem good_leaf_update (t t' : Tree) (g : Ghost) (M M' : Int → Option RID) (chain : List Int)
    (hg : Good t g M chain) (l : Int) (hin : g.inT l) (hleaf : (V t l).isLeaf = true)
    (hroot : t'.rootPage = t.rootPage) (hcount : t'.nodeCount = t.nodeCount)
    (hVo : ∀ p, p ≠ l → V t' p = V t p)
    (hVl : (V t' l).parent = (V t l).parent ∧ (V t' l).isLeaf = (V t l).isLeaf ∧
      (V t' l).children = (V t l).children ∧ (V t' l).nextLeaf = (V t l).nextLeaf)
    (hleafOK : LeafOK (V t' l) (g.lo l) (g.hi l) M')
    (hM : ∀ k, k < g.lo l ∨ g.hi l ≤ k → M' k = M k) : Good t' g M' chain := by
  have hss : SameShape t t' := by
    refine ⟨hroot, fun q => ?_⟩
    by_cases e : q = l
    · rw [e]; exact hVl
    · rw [hVo q e]; exact ⟨rfl, rfl, rfl, rfl⟩
  have hpar := parentOf_sameShape t t' hss
  constructor
  · rw [hroot]; exact hg.root_in
  · rw [hroot]; exact hg.root_lo
  · rw [hroot]; exact hg.root_hi
  · rw [hroot, (hss.2 _).1]; exact hg.root_par
  · intro p e; rw [hcount]; exact hg.range p e
  · intro p e
    by_cases pl : p = l
    · subst pl
      have hn := hg.node_ok p e
      unfold NodeOK at hn ⊢
      rw [(hss.2 p).2.1]
      rw [if_pos hleaf] at hn ⊢
      exact ⟨hleafOK, hn.2⟩
    · refine nodeOK_frame t t' g g M _ p (hg.node_ok p e) ?_ rfl rfl rfl ?_ ?_
      · rw [hVo p pl]; exact ⟨rfl, rfl, rfl, rfl, rfl⟩
      · intro pleaf k klo khi
        apply hM
        rcases leaf_disjoint t g M chain hg p l e hin pleaf hleaf pl with d | d
        · left; omega
        · right; omega
      · intro _ c _ cin cpar _
        exact ⟨cin, rfl, rfl, rfl, by rw [hpar]; exact cpar⟩
  · intro p e; exact upOK_sameShape t t' g hss p (hg.up_ok p e)
  · intro p e; rw [hroot]; exact hg.ht_le p e
  · rw [hroot, hcount]; exact hg.height
  · exact chainOK_sameShape t t' g hss chain hg.chain_ok
  · intro p e hl
    rw [(hss.2 p).2.1] at hl
    exact hg.chain_all p e hl
  · rw [hcount]; exact hg.chain_len

theorem unbind_range (M : Int → Option RID) (key : Int)
    (hM : ∀ k r, M k = some r → BOT ≤ k ∧ k < TOP) :
    ∀ k r, unbind M key k = some r → BOT ≤ k ∧ k < TOP := by
  intro k r h
  unfold unbind at h
  split_ifs at h
  exact hM k r h

theorem remove_of_leaf (t : Tree) (key l : Int) (hk : t.keyType = KeyType.INT)
    (hr : t.rootPage ≠ -1) (hfind : findLeaf t key = some l) (hl : l ≠ -1) :
    remove t key =
      if !((readNode t l).keys.take (readNode t l).keyCount.toNat).contains key then
        some (false, t)
      else if (deleteFromLeaf (readNode t l) key).keyCount = 0 then
        if (deleteFromLeaf (readNode t l) key).pageNum = t.rootPage then
          some (true, { t with entryCount := t.entryCount - 1, rootPage := -1, firstLeaf := -1 })
        else some (true, redistributeOrMerge { t with entryCount := t.entryCount - 1 }
          (deleteFromLeaf (readNode t l) key))
      else some (true, writeNode { t with entryCount := t.entryCount - 1 }
        (deleteFromLeaf (readNode t l) key)) := by
  unfold remove
  rw [if_neg (by simp [hk, hr]), hfind]
  simp only [hl, if_false]

/-- `remove` on a well-formed tree returns, and the tree stays well formed:
with the same entries when the key is absent or when a leaf other than the
root would become empty, without the key otherwise. -/
theorem remove_spec (t : Tree) (M : Int → Option RID) (h : Inv t M) (key : Int)
    (hlo : BOT ≤ key) (hhi : key < TOP) :
    ∃ b t', remove t key = some (b, t') ∧ (Inv t' M ∨ Inv t' (unbind M key)) := by
  obtain ⟨hk, hord, hn, hMr, hcase⟩ := h
  rcases hcase with ⟨hr, hM⟩ | ⟨hr, g, chain, hg⟩
  · refine ⟨false, t, ?_, Or.inl ⟨hk, hord, hn, hMr, Or.inl ⟨hr, hM⟩⟩⟩
    unfold remove
    rw [if_pos (Or.inr hr)]
  · obtain ⟨l, hfind, hin, hleaf, hlo', hhi'⟩ := findLeaf_spec t g M chain hg hr key hlo hhi
    have hl1 : l ≠ -1 := by have := (hg.range l hin).1; omega
    have hnl := hg.node_ok l hin
    unfold NodeOK at hnl
    rw [if_pos hleaf] at hnl
    have htake : (readNode t l).keys.take (readNode t l).keyCount.toNat = (V t l).keys := by
      rw [readNode_keys, readNode_keyCount, hnl.1.1, Int.toNat_ofNat, List.take_length]
    rw [remove_of_leaf t key l hk hr hfind hl1, htake]
    by_cases hc : (V t l).keys.contains key = true
    · have hmem : key ∈ (V t l).keys := by simpa using hc
      have hdel := deleteFromLeaf_leafOK (V t l) _ _ M key hnl.1 hmem
      rw [if_neg (by rw [hc]; decide)]
      by_cases hz : (deleteFromLeaf (readNode t l) key).keyCount = 0
      · rw [if_pos hz, deleteFromLeaf_pageNum, readNode_pageNum]
        by_cases hroot : l = t.rootPage
        · rw [if_pos hroot]
          refine ⟨true, _, rfl, Or.inr ⟨hk, hord, hn, unbind_range M key hMr, Or.inl ⟨rfl, ?_⟩⟩⟩
          intro k
          unfold unbind
          split_ifs with e
          · rfl
          · -- the root leaf held `key` only
            cases hMk : M k with
            | none => rfl
            | some r =>
              exfalso
              have hkr := hMr k r hMk
              have hin' : (k, r) ∈ (V t l).keys.zip (V t l).rids :=
                (hnl.1.2.2.2 k r).2 ⟨hMk, by rw [hroot, hg.root_lo]; exact hkr.1,
                  by rw [hroot, hg.root_hi]; exact hkr.2⟩
              have hin2 := (hdel.2.2.2 k r).2
                ⟨by unfold unbind; rw [if_neg e]; exact hMk,
                 by rw [hroot, hg.root_lo]; exact hkr.1, by rw [hroot, hg.root_hi]; exact hkr.2⟩
              have hlen0 : (deleteFromLeaf (V t l) key).keys.length = 0 := by
                have h1 := hdel.1
                have h2 : (deleteFromLeaf (V t l) key).keyCount = 0 := by
                  rw [← view_readNode, ← view_deleteFromLeaf]; exact hz
                rw [h2] at h1
                exact_mod_cast h1.symm
              have hnil := List.length_eq_zero.1 hlen0
              rw [hnil] at hin2
              simp at hin2
        · rw [if_neg hroot]
          have hnot : ¬ (deleteFromLeaf (readNode t l) key).keyCount > 0 := by omega
          have hrm : redistributeOrMerge { t with entryCount := t.entryCount - 1 }
              (deleteFromLeaf (readNode t l) key) = { t with entryCount := t.entryCount - 1 } := by
            unfold redistributeOrMerge
            rw [if_neg hnot]
          rw [hrm]
          refine ⟨true, _, rfl, Or.inl ⟨hk, hord, hn, hMr, Or.inr ⟨hr, g, chain, ?_⟩⟩⟩
          exact good_leaf_update t _ g M M chain hg l hin hleaf rfl rfl (fun _ _ => rfl)
            ⟨rfl, rfl, rfl, rfl⟩ hnl.1 (fun _ _ => rfl)
      · rw [if_neg hz]
        refine ⟨true, _, rfl, Or.inr ⟨hk, hord, hn, unbind_range M key hMr,
          Or.inr ⟨hr, g, chain, ?_⟩⟩⟩
        have hV : ∀ p, V (writeNode { t with entryCount := t.entryCount - 1 }
            (deleteFromLeaf (readNode t l) key)) p =
            if p = l then deleteFromLeaf (V t l) key else V t p := by
          intro p
          rw [V_writeNode, deleteFromLeaf_pageNum, readNode_pageNum, view_deleteFromLeaf,
            view_readNode]
          rfl
        have hsh := deleteFromLeaf_shape (V t l) key
        refine good_leaf_update t _ g M _ chain hg l hin hleaf rfl rfl
          (fun p e => by rw [hV, if_neg e]) (by rw [hV, if_pos rfl]; exact hsh)
          (by rw [hV, if_pos rfl]; exact hdel) ?_
        intro k hk'
        unfold unbind
        rw [if_neg (by rintro rfl; omega)]
    · rw [if_pos (by rw [Bool.not_eq_true] at hc; rw [hc]; rfl)]
      exact ⟨false, t, rfl, Or.inl ⟨hk, hord, hn, hMr, Or.inr ⟨hr, g, chain, hg⟩⟩⟩

theorem kidsOK_first (par : Int → Int) (g : Ghost) (p : Int) (ks cs : List Int) (a b : Int)
    (h : KidsOK par g p a b ks cs) (c : Int) (hc : cs.get? 0 = some c) :
    g.inT c ∧ g.lo c = a := by
  match ks, cs, h with
  | [], [c0], h =>
    simp only [List.get?_cons_zero, Option.some.injEq] at hc
    subst hc
    exact ⟨h.2.1, h.2.2.2.1⟩
  | k :: ks, c0 :: cs, h =>
    simp only [List.get?_cons_zero, Option.some.injEq] at hc
    subst hc
    exact ⟨h.2.1.1, h.2.1.2.2.1⟩

/-- Key `i` of an internal node is where the interval of child `i` ends and
the interval of child `i + 1` starts. -/
theorem kidsOK_at (par : Int → Int) (g : Ghost) (p : Int) : ∀ (ks cs : List Int) (a b : Int),
    KidsOK par g p a b ks cs → ∀ (i : Nat) (s c c' : Int), ks.get? i = some s →
      cs.get? i = some c → cs.get? (i + 1) = some c' →
      g.inT c ∧ g.inT c' ∧ g.hi c = s ∧ g.lo c' = s := by
  intro ks
  induction ks with
  | nil => intro cs a b _ i s c c' hs; simp at hs
  | cons k ks ih =>
    intro cs a b h i s c c' hs hc hc'
    match cs, h with
    | c0 :: cs, h =>
      obtain ⟨_, ⟨h1, h2, h3, h4, h5⟩, hrest⟩ := h
      cases i with
      | zero =>
        simp only [List.get?_cons_zero, Option.some.injEq] at hs hc
        simp only [zero_add, List.get?_cons_succ] at hc'
        subst hs hc
        obtain ⟨f1, f2⟩ := kidsOK_first par g p ks cs k b hrest c' hc'
        exact ⟨h1, f1, h4, f2⟩
      | succ i =>
        simp only [List.get?_cons_succ] at hs hc hc'
        exact ih cs k b hrest i s c c' hs hc hc'

theorem under_bounds (t : Tree) (g : Ghost) (M : Int → Option RID) (chain : List Int)
    (hg : Good t g M chain) (p q : Int) (hu : Under t p q) :
    g.inT p → g.inT q ∧ g.lo p ≤ g.lo q ∧ g.hi q ≤ g.hi p := by
  induction hu with
  | here p => intro h; exact ⟨h, le_refl _, le_refl _⟩
  | down p c q hleaf hc _ ih =>
    intro hin
    have hok := hg.node_ok p hin
    unfold NodeOK at hok
    rw [readNode_isLeaf] at hleaf
    rw [readNode_children] at hc
    rw [hleaf] at hok
    simp only [Bool.false_eq_true, if_false] at hok
    obtain ⟨c1, _, c3, _, c5, _⟩ := kidsOK_mem _ g p _ _ _ _ hok.2 c hc
    obtain ⟨i1, i2, i3⟩ := ih c1
    exact ⟨i1, by omega, by omega⟩

theorem storedUnder_bounds (t : Tree) (g : Ghost) (M : Int → Option RID) (chain : List Int)
    (hg : Good t g M chain) (p k : Int) (hin : g.inT p) (hs : StoredUnder t p k) :
    g.lo p ≤ k ∧ k < g.hi p := by
  obtain ⟨q, hu, hleaf, hk⟩ := hs
  obtain ⟨qin, qlo, qhi⟩ := under_bounds t g M chain hg p q hu hin
  have hok := hg.node_ok q qin
  unfold NodeOK at hok
  rw [readNode_isLeaf] at hleaf
  rw [if_pos hleaf] at hok
  obtain ⟨⟨h1, h2, h3, h4⟩, _⟩ := hok
  rw [readNode_keys, readNode_keyCount, h1, Int.toNat_ofNat, List.take_length] at hk
  obtain ⟨r, hr⟩ := mem_zip_of_mem_left _ _ h2 k hk
  have := (h4 k r).1 hr
  omega

theorem good_ordered (t : Tree) (g : Ghost) (M : Int → Option RID) (chain : List Int)
    (hg : Good t g M chain) : Ordered t := by
  intro _ p hu
  obtain ⟨pin, _, _⟩ := under_bounds t g M chain hg _ p hu hg.root_in
  have hok := hg.node_ok p pin
  unfold NodeOK at hok
  unfold NodeOrdered
  rw [readNode_isLeaf, readNode_keys, readNode_keyCount, readNode_children]
  by_cases hleaf : (V t p).isLeaf = true
  · rw [if_pos hleaf] at hok ⊢
    obtain ⟨⟨h1, h2, h3, h4⟩, _⟩ := hok
    rw [h1, Int.toNat_ofNat, List.take_length]
    exact h3.imp (fun h => le_of_lt h)
  · rw [if_neg hleaf] at hok ⊢
    refine ⟨hok.1, kidsOK_lengths _ g p _ _ _ _ hok.2, ?_⟩
    intro i s c c' hs hc hc'
    obtain ⟨a1, a2, a3, a4⟩ := kidsOK_at _ g p _ _ _ _ hok.2 i s c c' hs hc hc'
    refine ⟨fun k hk => ?_, fun k hk => ?_⟩
    · have := storedUnder_bounds t g M chain hg c k a1 hk
      omega
    · have := storedUnder_bounds t g M chain hg c' k a2 hk
      omega

theorem inv_ordered (t : Tree) (M : Int → Option RID) (h : Inv t M) : Ordered t := by
  obtain ⟨_, _, _, _, hcase⟩ := h
  rcases hcase with ⟨hr, _⟩ | ⟨_, g, chain, hg⟩
  · intro hne; exact absurd hr hne
  · exact good_ordered t g M chain hg

theorem runTreeOps_spec : ∀ (ops : List TreeOp) (t : Tree) (M : Int → Option RID), Inv t M →
    (∀ op ∈ ops, op.InRange) → ∃ t' M', runTreeOps t ops = some t' ∧ Inv t' M' := by
  intro ops
  induction ops with
  | nil => intro t M h _; exact ⟨t, M, rfl, h⟩
  | cons op ops ih =>
    intro t M h hr
    have hop := hr op (List.mem_cons_self _ _)
    have hrest : ∀ o ∈ ops, o.InRange := fun o ho => hr o (List.mem_cons_of_mem _ ho)
    cases op with
    | insert key rid =>
      obtain ⟨s1, s2⟩ := insert_spec t M h key rid hop.1 hop.2
      cases hM : M key with
      | none =>
        obtain ⟨t1, e1, e2⟩ := s1 hM
        obtain ⟨t', M', f1, f2⟩ := ih t1 _ e2 hrest
        exact ⟨t', M', by simp only [runTreeOps, e1]; exact f1, f2⟩
      | some r =>
        have e1 := s2 (by rw [hM]; exact Option.some_ne_none r)
        obtain ⟨t', M', f1, f2⟩ := ih t M h hrest
        exact ⟨t', M', by simp only [runTreeOps, e1]; exact f1, f2⟩
    | remove key =>
      obtain ⟨b, t1, e1, e2⟩ := remove_spec t M h key hop.1 hop.2
      rcases e2 with e2 | e2
      · obtain ⟨t', M', f1, f2⟩ := ih t1 _ e2 hrest
        exact ⟨t', M', by simp only [runTreeOps, e1]; exact f1, f2⟩
      · obtain ⟨t', M', f1, f2⟩ := ih t1 _ e2 hrest
        exact ⟨t', M', by simp only [runTreeOps, e1]; exact f1, f2⟩

end BPlusTree

namespace BPlusTree

theorem runTreeOps_append : ∀ (a b : List TreeOp) (t : Tree),
    runTreeOps t (a ++ b) = (runTreeOps t a).bind fun t1 => runTreeOps t1 b := by
  intro a
  induction a with
  | nil => intro b t; rfl
  | cons op a ih =>
    intro b t
    cases op with
    | insert key rid =>
      simp only [List.cons_append, runTreeOps]
      cases insert t key rid with
      | none => rfl
      | some r => exact ih b r.2
    | remove key =>
      simp only [List.cons_append, runTreeOps]
      cases remove t key with
      | none => rfl
      | some r => exact ih b r.2

theorem intBuilt_inv (t : Tree) (h : IntBuilt t) : ∃ M, Inv t M := by
  obtain ⟨disk, keyLength, ops, hops, hrun⟩ := h
  obtain ⟨t', M, h1, h2⟩ := runTreeOps_spec ops _ _ (inv_emptyTree disk keyLength) hops
  rw [hrun] at h1
  cases h1
  exact ⟨M, h2⟩

theorem intBuilt_emptyTree (disk : Int → BPlusTreeNode) (keyLength : Int) :
    IntBuilt (emptyTree disk KeyType.INT keyLength) :=
  ⟨disk, keyLength, [], fun _ h => by simp at h, rfl⟩

theorem intBuilt_search (t : Tree) (h : IntBuilt t) (key : Int) (hlo : BOT ≤ key)
    (hhi : key < TOP) : ∃ r, search t key = some r := by
  obtain ⟨M, hM⟩ := intBuilt_inv t h
  exact ⟨_, search_spec t M hM key hlo hhi⟩

theorem intBuilt_insert (t : Tree) (h : IntBuilt t) (key : Int) (rid : RID) (hlo : BOT ≤ key)
    (hhi : key < TOP) :
    ∃ b t', insert t key rid = some (b, t') ∧ IntBuilt t' ∧ t'.keyType = KeyType.INT := by
  obtain ⟨M, hM⟩ := intBuilt_inv t h
  obtain ⟨disk, keyLength, ops, hops, hrun⟩ := h
  obtain ⟨s1, s2⟩ := insert_spec t M hM key rid hlo hhi
  have hstep : ∀ b t', insert t key rid = some (b, t') → IntBuilt t' := by
    intro b t' e
    refine ⟨disk, keyLength, ops ++ [TreeOp.insert key rid], ?_, ?_⟩
    · intro op hop
      rcases List.mem_append.1 hop with hop | hop
      · exact hops op hop
      · simp only [List.mem_singleton] at hop
        subst hop
        exact ⟨hlo, hhi⟩
    · rw [runTreeOps_append, hrun]
      simp only [Option.some_bind, runTreeOps, e]
  cases hMk : M key with
  | none =>
    obtain ⟨t', e1, e2⟩ := s1 hMk
    exact ⟨true, t', e1, hstep _ _ e1, e2.1⟩
  | some r =>
    have e1 := s2 (by rw [hMk]; exact Option.some_ne_none r)
    exact ⟨false, t, e1, hstep _ _ e1, hM.1⟩

theorem findLeafStr_leafRooted (t : Tree) (h : LeafRooted t) (hr : t.rootPage ≠ -1)
    (key : List Nat) : findLeafStr t key = some t.rootPage := by
  obtain ⟨hn, hroot⟩ := h
  rcases hroot with e | ⟨hl, _⟩
  · exact absurd e hr
  · unfold findLeafStr
    rw [if_neg hr]
    obtain ⟨m, hm⟩ : ∃ m, nodeFuel t = m + 1 := ⟨(nodeFuel t) - 1, by unfold nodeFuel; omega⟩
    rw [hm, findLeafStrLoop]
    simp only [hl, if_true]

theorem findLeafFloat_leafRooted (t : Tree) (h : LeafRooted t) (hr : t.rootPage ≠ -1)
    (key : Nat) : findLeafFloat t key = some t.rootPage := by
  obtain ⟨hn, hroot⟩ := h
  rcases hroot with e | ⟨hl, _⟩
  · exact absurd e hr
  · unfold findLeafFloat
    rw [if_neg hr]
    obtain ⟨m, hm⟩ : ∃ m, nodeFuel t = m + 1 := ⟨(nodeFuel t) - 1, by unfold nodeFuel; omega⟩
    rw [hm, findLeafFloatLoop]
    simp only [hl, if_true]

theorem leafRooted_searchStr (t : Tree) (h : LeafRooted t) (key : List Nat) :
    ∃ r, searchStr t key = some r := by
  unfold searchStr
  by_cases hc : t.keyType ≠ KeyType.VARCHAR ∨ t.rootPage = -1
  · rw [if_pos hc]; exact ⟨_, rfl⟩
  · rw [if_neg hc]
    have hr : t.rootPage ≠ -1 := fun e => hc (Or.inr e)
    rw [findLeafStr_leafRooted t h hr key]
    simp only [hr, if_false]
    exact ⟨_, rfl⟩

theorem leafRooted_searchFloat (t : Tree) (h : LeafRooted t) (key : Nat) :
    ∃ r, searchFloat t key = some r := by
  unfold searchFloat
  by_cases hc : t.keyType ≠ KeyType.FLOAT ∨ t.rootPage = -1
  · rw [if_pos hc]; exact ⟨_, rfl⟩
  · rw [if_neg hc]
    have hr : t.rootPage ≠ -1 := fun e => hc (Or.inr e)
    rw [findLeafFloat_leafRooted t h hr key]
    simp only [hr, if_false]
    exact ⟨_, rfl⟩

theorem leafRooted_emptyTree (disk : Int → BPlusTreeNode) (keyType : KeyType) (keyLength : Int) :
    LeafRooted (emptyTree disk keyType keyLength) ∧
      rootWords (emptyTree disk keyType keyLength) = 0 :=
  ⟨⟨le_refl _, Or.inl rfl⟩, rfl⟩

theorem indexOK_emptyTree (disk : Int → BPlusTreeNode) (keyType : KeyType) (keyLength : Int) :
    IndexOK (emptyTree disk keyType keyLength) := by
  unfold IndexOK
  by_cases h : keyType = KeyType.INT
  · subst h
    rw [if_pos (show (emptyTree disk KeyType.INT keyLength).keyType = KeyType.INT from rfl)]
    exact intBuilt_emptyTree disk keyLength
  · rw [if_neg (show (emptyTree disk keyType keyLength).keyType ≠ KeyType.INT from h)]
    exact (leafRooted_emptyTree disk keyType keyLength).1

end BPlusTree

namespace BPlusTree

theorem sum_map_insertAt {α : Type} (f : α → Int) (l : List α) (i : Nat) (x : α) :
    ((insertAt l i x).map f).sum = (l.map f).sum + f x := by
  unfold insertAt
  have h : (l.map f).sum = ((l.take i).map f).sum + ((l.drop i).map f).sum := by
    rw [← List.sum_append, ← List.map_append, List.take_append_drop]
  rw [List.map_append, List.sum_append, List.map_cons, List.sum_cons, h]
  ring

theorem readNode_leaf (t : Tree) (p : Int) (h : (t.pages p).isLeaf = true) :
    readNode t p = { t.pages p with pageNum := p } := by
  unfold readNode
  simp only [h, if_true]

/-- A tree whose root page holds the leaf `leaf`. -/
theorem leafRooted_intro (t : Tree) (leaf : BPlusTreeNode) (hn : 0 ≤ t.nodeCount)
    (hr : t.rootPage ≠ -1) (hpage : t.pages t.rootPage = leaf) (hl : leaf.isLeaf = true)
    (hpn : leaf.pageNum = t.rootPage)
    (hkc : leaf.keyCount = (keysHeld t.keyType leaf : Int))
    (hrl : leaf.rids.length = keysHeld t.keyType leaf) (hfit : leafFits t.keyType leaf) :
    LeafRooted t ∧ rootWords t = leafWords t.keyType leaf := by
  have hrd : readNode t t.rootPage = leaf := by
    rw [readNode_leaf t _ (by rw [hpage]; exact hl), hpage, ← hpn]
  refine ⟨⟨hn, Or.inr ?_⟩, ?_⟩
  · rw [hrd]; exact ⟨hl, hkc, hrl, hfit⟩
  · unfold rootWords
    rw [if_neg hr, hrd]

theorem leafRooted_root (t : Tree) (h : LeafRooted t) (hr : t.rootPage ≠ -1) :
    (readNode t t.rootPage).isLeaf = true ∧
      (readNode t t.rootPage).keyCount = (keysHeld t.keyType (readNode t t.rootPage) : Int) ∧
      (readNode t t.rootPage).rids.length = keysHeld t.keyType (readNode t t.rootPage) ∧
      leafFits t.keyType (readNode t t.rootPage) := by
  rcases h.2 with e | h
  · exact absurd e hr
  · exact h

theorem insertStr_first (t : Tree) (key : List Nat) (rid : RID) (hk : t.keyType = KeyType.VARCHAR)
    (hr : t.rootPage = -1)
    (hfit : leafFits KeyType.VARCHAR
      { pageNum := t.nodeCount + 1, isLeaf := true, keyCount := 1, parent := -1,
        nextLeaf := -1, prevLeaf := -1, strKeys := [key], rids := [rid] }) :
    insertStr t key rid = some (true,
      ({ writeNode { t with nodeCount := t.nodeCount + 1 }
          { pageNum := t.nodeCount + 1, isLeaf := true, keyCount := 1, parent := -1,
            nextLeaf := -1, prevLeaf := -1, strKeys := [key], rids := [rid] } with
        rootPage := t.nodeCount + 1, firstLeaf := t.nodeCount + 1,
        entryCount := t.entryCount + 1 } : Tree)) := by
  unfold insertStr
  rw [if_neg (by simp [hk]), if_pos hr]
  simp only [allocateNewPage]
  rw [if_pos hfit]
  rfl

theorem insertStr_root (t : Tree) (key : List Nat) (rid : RID) (hk : t.keyType = KeyType.VARCHAR)
    (hr : t.rootPage ≠ -1) (hfind : findLeafStr t key = some t.rootPage)
    (hfit : leafFits KeyType.VARCHAR (insertIntoLeafStr (readNode t t.rootPage) key rid)) :
    insertStr t key rid = some (true, writeNode { t with entryCount := t.entryCount + 1 }
      (insertIntoLeafStr (readNode t t.rootPage) key rid)) := by
  unfold insertStr
  rw [if_neg (by simp [hk]), if_neg hr, hfind]
  simp only
  rw [if_pos hfit]

/-- `insert(const std::string&, ..)` on an index built by the operations, with
room in the leaf for the key: the call returns true and the leaf has grown by
the entry. -/
theorem leafRooted_insertStr (t : Tree) (hk : t.keyType = KeyType.VARCHAR) (h : LeafRooted t)
    (key : List Nat) (rid : RID)
    (hroom : rootWords t + (((key.length : Int) + 3) / 4 + 3) ≤ 2032) :
    ∃ t', insertStr t key rid = some (true, t') ∧ LeafRooted t' ∧
      t'.keyType = KeyType.VARCHAR ∧
      rootWords t' = rootWords t + (((key.length : Int) + 3) / 4 + 3) := by
  have hn := h.1
  by_cases hr : t.rootPage = -1
  · have hw0 : rootWords t = 0 := by unfold rootWords; rw [if_pos hr]
    rw [hw0] at hroom ⊢
    have hwl : leafWords KeyType.VARCHAR
        { pageNum := t.nodeCount + 1, isLeaf := true, keyCount := 1, parent := -1,
          nextLeaf := -1, prevLeaf := -1, strKeys := [key], rids := [rid] } =
        0 + (((key.length : Int) + 3) / 4 + 3) := by
      unfold leafWords
      simp only [Int.toNat_one, List.take_succ_cons, List.take_zero, List.map_cons, List.map_nil,
        List.sum_cons, List.sum_nil]
      omega
    have hfit : leafFits KeyType.VARCHAR
        { pageNum := t.nodeCount + 1, isLeaf := true, keyCount := 1, parent := -1,
          nextLeaf := -1, prevLeaf := -1, strKeys := [key], rids := [rid] } := by
      unfold leafFits BP_HEADER_SIZE RecordManager.PAGE_INT_NUM
      rw [hwl]; omega
    rw [insertStr_first t key rid hk hr hfit]
    generalize ht' : ({ writeNode { t with nodeCount := t.nodeCount + 1 }
          { pageNum := t.nodeCount + 1, isLeaf := true, keyCount := 1, parent := -1,
            nextLeaf := -1, prevLeaf := -1, strKeys := [key], rids := [rid] } with
        rootPage := t.nodeCount + 1, firstLeaf := t.nodeCount + 1,
        entryCount := t.entryCount + 1 } : Tree) = t'
    have hroot : t'.rootPage = t.nodeCount + 1 := by rw [← ht']
    have hcount : t'.nodeCount = t.nodeCount + 1 := by rw [← ht']; rfl
    have hkt : t'.keyType = KeyType.VARCHAR := by rw [← ht']; exact hk
    have hpage : t'.pages t'.rootPage =
        { pageNum := t.nodeCount + 1, isLeaf := true, keyCount := 1, parent := -1,
          nextLeaf := -1, prevLeaf := -1, strKeys := [key], rids := [rid] } := by
      rw [hroot, ← ht']
      simp only [writeNode, if_true]
    obtain ⟨a, b⟩ := leafRooted_intro t' _ (by rw [hcount]; omega) (by rw [hroot]; omega) hpage
      rfl (by rw [hroot]) (by rw [hkt]; rfl) (by rw [hkt]; rfl) (by rw [hkt]; exact hfit)
    exact ⟨t', rfl, a, hkt, by rw [b, hkt, hwl]⟩
  · obtain ⟨hl, hkc, hrl, hfit0⟩ := leafRooted_root t h hr
    rw [hk] at hkc hrl hfit0
    have hkc' : (readNode t t.rootPage).keyCount = ((readNode t t.rootPage).strKeys.length : Int) :=
      hkc
    have hw : rootWords t = leafWords KeyType.VARCHAR (readNode t t.rootPage) := by
      unfold rootWords; rw [if_neg hr, hk]
    have htake : (readNode t t.rootPage).strKeys.take (readNode t t.rootPage).keyCount.toNat =
        (readNode t t.rootPage).strKeys := by
      rw [hkc', Int.toNat_ofNat, List.take_length]
    have hlen1 : (insertIntoLeafStr (readNode t t.rootPage) key rid).strKeys.length =
        (readNode t t.rootPage).strKeys.length + 1 := by
      simp only [insertIntoLeafStr]
      rw [insertAt_length_eq]
    have hkc1 : (insertIntoLeafStr (readNode t t.rootPage) key rid).keyCount =
        (((insertIntoLeafStr (readNode t t.rootPage) key rid).strKeys.length : Nat) : Int) := by
      rw [hlen1]
      simp only [insertIntoLeafStr]
      rw [hkc']; push_cast; rfl
    have hrl1 : (insertIntoLeafStr (readNode t t.rootPage) key rid).rids.length =
        (insertIntoLeafStr (readNode t t.rootPage) key rid).strKeys.length := by
      rw [hlen1]
      simp only [insertIntoLeafStr]
      rw [insertAt_length_eq]
      have : (readNode t t.rootPage).rids.length = (readNode t t.rootPage).strKeys.length := hrl
      omega
    have hw1 : leafWords KeyType.VARCHAR (insertIntoLeafStr (readNode t t.rootPage) key rid) =
        leafWords KeyType.VARCHAR (readNode t t.rootPage) + (((key.length : Int) + 3) / 4 + 3) := by
      unfold leafWords
      simp only
      rw [hkc1, Int.toNat_ofNat, List.take_length, htake]
      simp only [insertIntoLeafStr]
      rw [sum_map_insertAt]
    have hfit1 : leafFits KeyType.VARCHAR (insertIntoLeafStr (readNode t t.rootPage) key rid) := by
      unfold leafFits BP_HEADER_SIZE RecordManager.PAGE_INT_NUM
      rw [hw1, ← hw]
      omega
    have hpn : (insertIntoLeafStr (readNode t t.rootPage) key rid).pageNum = t.rootPage := by
      simp only [insertIntoLeafStr]
      exact readNode_pageNum t t.rootPage
    rw [insertStr_root t key rid hk hr (findLeafStr_leafRooted t h hr key) hfit1]
    generalize ht' : writeNode { t with entryCount := t.entryCount + 1 }
      (insertIntoLeafStr (readNode t t.rootPage) key rid) = t'
    have hroot : t'.rootPage = t.rootPage := by rw [← ht']; rfl
    have hcount : t'.nodeCount = t.nodeCount := by rw [← ht']; rfl
    have hkt : t'.keyType = KeyType.VARCHAR := by rw [← ht']; exact hk
    have hpage : t'.pages t'.rootPage = insertIntoLeafStr (readNode t t.rootPage) key rid := by
      rw [hroot, ← ht']
      simp only [writeNode, hpn, if_true]
    obtain ⟨a, b⟩ := leafRooted_intro t' _ (by rw [hcount]; exact h.1) (by rw [hroot]; exact hr)
      hpage hl (by rw [hroot]; exact hpn) (by rw [hkt]; exact hkc1) (by rw [hkt]; exact hrl1)
      (by rw [hkt]; exact hfit1)
    exact ⟨t', rfl, a, hkt, by rw [b, hkt, hw1, hw]⟩

end BPlusTree

namespace BPlusTree

theorem insertFloat_first (t : Tree) (key : Nat) (rid : RID) (hk : t.keyType = KeyType.FLOAT)
    (hr : t.rootPage = -1)
    (hfit : leafFits KeyType.FLOAT
      { pageNum := t.nodeCount + 1, isLeaf := true, keyCount := 1, parent := -1,
        nextLeaf := -1, prevLeaf := -1, floatKeys := [key], rids := [rid] }) :
    insertFloat t key rid = some (true,
      ({ writeNode { t with nodeCount := t.nodeCount + 1 }
          { pageNum := t.nodeCount + 1, isLeaf := true, keyCount := 1, parent := -1,
            nextLeaf := -1, prevLeaf := -1, floatKeys := [key], rids := [rid] } with
        rootPage := t.nodeCount + 1, firstLeaf := t.nodeCount + 1,
        entryCount := t.entryCount + 1 } : Tree)) := by
  unfold insertFloat
  rw [if_neg (by simp [hk]), if_pos hr]
  simp only [allocateNewPage]
  rw [if_pos hfit]
  rfl

theorem insertFloat_root (t : Tree) (key : Nat) (rid : RID) (hk : t.keyType = KeyType.FLOAT)
    (hr : t.rootPage ≠ -1) (hfind : findLeafFloat t key = some t.rootPage)
    (hfit : leafFits KeyType.FLOAT (insertIntoLeafFloat (readNode t t.rootPage) key rid)) :
    insertFloat t key rid = some (true, writeNode { t with entryCount := t.entryCount + 1 }
      (insertIntoLeafFloat (readNode t t.rootPage) key rid)) := by
  unfold insertFloat
  rw [if_neg (by simp [hk]), if_neg hr, hfind]
  simp only
  rw [if_pos hfit]

/-- `insert(float, ..)` on an index built by the operations, with room in the
leaf for one more entry: the call returns true and the leaf has grown by the
three words of the entry. -/
theorem leafRooted_insertFloat (t : Tree) (hk : t.keyType = KeyType.FLOAT) (h : LeafRooted t)
    (key : Nat) (rid : RID) (hroom : rootWords t + 3 ≤ 2032) :
    ∃ t', insertFloat t key rid = some (true, t') ∧ LeafRooted t' ∧
      t'.keyType = KeyType.FLOAT ∧ rootWords t' = rootWords t + 3 := by
  have hn := h.1
  by_cases hr : t.rootPage = -1
  · have hw0 : rootWords t = 0 := by unfold rootWords; rw [if_pos hr]
    rw [hw0] at hroom ⊢
    have hwl : leafWords KeyType.FLOAT
        { pageNum := t.nodeCount + 1, isLeaf := true, keyCount := 1, parent := -1,
          nextLeaf := -1, prevLeaf := -1, floatKeys := [key], rids := [rid] } = 0 + 3 := rfl
    have hfit : leafFits KeyType.FLOAT
        { pageNum := t.nodeCount + 1, isLeaf := true, keyCount := 1, parent := -1,
          nextLeaf := -1, prevLeaf := -1, floatKeys := [key], rids := [rid] } := by
      unfold leafFits BP_HEADER_SIZE RecordManager.PAGE_INT_NUM
      rw [hwl]; omega
    rw [insertFloat_first t key rid hk hr hfit]
    generalize ht' : ({ writeNode { t with nodeCount := t.nodeCount + 1 }
          { pageNum := t.nodeCount + 1, isLeaf := true, keyCount := 1, parent := -1,
            nextLeaf := -1, prevLeaf := -1, floatKeys := [key], rids := [rid] } with
        rootPage := t.nodeCount + 1, firstLeaf := t.nodeCount + 1,
        entryCount := t.entryCount + 1 } : Tree) = t'
    have hroot : t'.rootPage = t.nodeCount + 1 := by rw [← ht']
    have hcount : t'.nodeCount = t.nodeCount + 1 := by rw [← ht']; rfl
    have hkt : t'.keyType = KeyType.FLOAT := by rw [← ht']; exact hk
    have hpage : t'.pages t'.rootPage =
        { pageNum := t.nodeCount + 1, isLeaf := true, keyCount := 1, parent := -1,
          nextLeaf := -1, prevLeaf := -1, floatKeys := [key], rids := [rid] } := by
      rw [hroot, ← ht']
      simp only [writeNode, if_true]
    obtain ⟨a, b⟩ := leafRooted_intro t' _ (by rw [hcount]; omega) (by rw [hroot]; omega) hpage
      rfl (by rw [hroot]) (by rw [hkt]; rfl) (by rw [hkt]; rfl) (by rw [hkt]; exact hfit)
    exact ⟨t', rfl, a, hkt, by rw [b, hkt, hwl]⟩
  · obtain ⟨hl, hkc, hrl, hfit0⟩ := leafRooted_root t h hr
    rw [hk] at hkc hrl hfit0
    have hkc' : (readNode t t.rootPage).keyCount =
        ((readNode t t.rootPage).floatKeys.length : Int) := hkc
    have hw : rootWords t = leafWords KeyType.FLOAT (readNode t t.rootPage) := by
      unfold rootWords; rw [if_neg hr, hk]
    have hlen1 : (insertIntoLeafFloat (readNode t t.rootPage) key rid).floatKeys.length =
        (readNode t t.rootPage).floatKeys.length + 1 := by
      simp only [insertIntoLeafFloat]
      rw [insertAt_length_eq]
    have hkc1 : (insertIntoLeafFloat (readNode t t.rootPage) key rid).keyCount =
        (((insertIntoLeafFloat (readNode t t.rootPage) key rid).floatKeys.length : Nat) : Int) := by
      rw [hlen1]
      simp only [insertIntoLeafFloat]
      rw [hkc']; push_cast; rfl
    have hrl1 : (insertIntoLeafFloat (readNode t t.rootPage) key rid).rids.length =
        (insertIntoLeafFloat (readNode t t.rootPage) key rid).floatKeys.length := by
      rw [hlen1]
      simp only [insertIntoLeafFloat]
      rw [insertAt_length_eq]
      have : (readNode t t.rootPage).rids.length = (readNode t t.rootPage).floatKeys.length := hrl
      omega
    have hw1 : leafWords KeyType.FLOAT (insertIntoLeafFloat (readNode t t.rootPage) key rid) =
        leafWords KeyType.FLOAT (readNode t t.rootPage) + 3 := by
      show 3 * (insertIntoLeafFloat (readNode t t.rootPage) key rid).keyCount =
        3 * (readNode t t.rootPage).keyCount + 3
      simp only [insertIntoLeafFloat]
      ring
    have hfit1 : leafFits KeyType.FLOAT (insertIntoLeafFloat (readNode t t.rootPage) key rid) := by
      unfold leafFits BP_HEADER_SIZE RecordManager.PAGE_INT_NUM
      rw [hw1, ← hw]
      omega
    have hpn : (insertIntoLeafFloat (readNode t t.rootPage) key rid).pageNum = t.rootPage := by
      simp only [insertIntoLeafFloat]
      exact readNode_pageNum t t.rootPage
    rw [insertFloat_root t key rid hk hr (findLeafFloat_leafRooted t h hr key) hfit1]
    generalize ht' : writeNode { t with entryCount := t.entryCount + 1 }
      (insertIntoLeafFloat (readNode t t.rootPage) key rid) = t'
    have hroot : t'.rootPage = t.rootPage := by rw [← ht']; rfl
    have hcount : t'.nodeCount = t.nodeCount := by rw [← ht']; rfl
    have hkt : t'.keyType = KeyType.FLOAT := by rw [← ht']; exact hk
    have hpage : t'.pages t'.rootPage = insertIntoLeafFloat (readNode t t.rootPage) key rid := by
      rw [hroot, ← ht']
      simp only [writeNode, hpn, if_true]
    obtain ⟨a, b⟩ := leafRooted_intro t' _ (by rw [hcount]; exact h.1) (by rw [hroot]; exact hr)
      hpage hl (by rw [hroot]; exact hpn) (by rw [hkt]; exact hkc1) (by rw [hkt]; exact hrl1)
      (by rw [hkt]; exact hfit1)
    exact ⟨t', rfl, a, hkt, by rw [b, hkt, hw1, hw]⟩

theorem leafRooted_fits (t : Tree) (h : LeafRooted t) : rootWords t ≤ 2032 := by
  unfold rootWords
  by_cases hr : t.rootPage = -1
  · rw [if_pos hr]; decide
  · rw [if_neg hr]
    have := (leafRooted_root t h hr).2.2.2
    unfold leafFits BP_HEADER_SIZE RecordManager.PAGE_INT_NUM at this
    omega

end BPlusTree

namespace IndexManager

open BPlusTree (Tree RID KeyType IndexOK IntBuilt LeafRooted rootWords BOT TOP)
open QueryExecutor (doubleToFloat)

theorem openIndex_mem (im : OpenIndexes) (t c : String) (tree : Tree)
    (h : openIndex im t c = some tree) : (getIndexKey t c, tree) ∈ im := by
  unfold openIndex at h
  rw [Option.map_eq_some'] at h
  obtain ⟨e, he, hee⟩ := h
  have h1 := List.mem_of_find?_eq_some he
  have h2 := List.find?_some he
  simp only [decide_eq_true_eq] at h2
  rw [← h2, ← hee]
  exact h1

theorem mem_putIndex (t c : String) (tree : Tree) : ∀ (im : OpenIndexes) (e : String × Tree),
    e ∈ putIndex t c tree im → e ∈ im ∨ e = (getIndexKey t c, tree) := by
  intro im
  induction im with
  | nil => intro e h; simp [putIndex] at h
  | cons x xs ih =>
    intro e h
    simp only [putIndex] at h
    split at h
    · next hx =>
      rcases List.mem_cons.1 h with h | h
      · right; rw [h, hx]
      · left; exact List.mem_cons_of_mem _ h
    · rcases List.mem_cons.1 h with h | h
      · left; rw [h]; exact List.mem_cons_self _ _
      · rcases ih e h with h | h
        · left; exact List.mem_cons_of_mem _ h
        · right; exact h

theorem indexOK_int (t : Tree) (h : IndexOK t) (hk : t.keyType = KeyType.INT) : IntBuilt t := by
  unfold IndexOK at h
  rw [if_pos hk] at h
  exact h

theorem indexOK_leaf (t : Tree) (h : IndexOK t) (hk : t.keyType ≠ KeyType.INT) :
    LeafRooted t := by
  unfold IndexOK at h
  rw [if_neg hk] at h
  exact h

theorem searchEntry_returns (im : OpenIndexes) (hok : ∀ e ∈ im, IndexOK e.2) (t c : String)
    (key : Int) (hlo : BOT ≤ key) (hhi : key < TOP) : ∃ r, searchEntry im t c key = some r := by
  unfold searchEntry
  cases ho : openIndex im t c with
  | none => exact ⟨_, rfl⟩
  | some tree =>
    simp only
    by_cases hk : tree.keyType ≠ KeyType.INT
    · rw [if_pos hk]; exact ⟨_, rfl⟩
    · rw [if_neg hk]
      have hk' : tree.keyType = KeyType.INT := by simpa using hk
      exact BPlusTree.intBuilt_search tree
        (indexOK_int tree (hok _ (openIndex_mem im t c tree ho)) hk') key hlo hhi

theorem searchEntryFloat_returns (im : OpenIndexes) (hok : ∀ e ∈ im, IndexOK e.2) (t c : String)
    (key : Nat) : ∃ r, searchEntryFloat im t c key = some r := by
  unfold searchEntryFloat
  cases ho : openIndex im t c with
  | none => exact ⟨_, rfl⟩
  | some tree =>
    simp only
    by_cases hk : tree.keyType ≠ KeyType.FLOAT
    · rw [if_pos hk]; exact ⟨_, rfl⟩
    · rw [if_neg hk]
      have hk' : tree.keyType = KeyType.FLOAT := by simpa using hk
      exact BPlusTree.leafRooted_searchFloat tree
        (indexOK_leaf tree (hok _ (openIndex_mem im t c tree ho)) (by rw [hk']; decide)) _

theorem searchEntryStr_returns (im : OpenIndexes) (hok : ∀ e ∈ im, IndexOK e.2) (t c : String)
    (key : List Nat) : ∃ r, searchEntryStr im t c key = some r := by
  unfold searchEntryStr
  cases ho : openIndex im t c with
  | none => exact ⟨_, rfl⟩
  | some tree =>
    simp only
    by_cases hk : tree.keyType ≠ KeyType.VARCHAR
    · rw [if_pos hk]; exact ⟨_, rfl⟩
    · rw [if_neg hk]
      have hk' : tree.keyType = KeyType.VARCHAR := by simpa using hk
      exact BPlusTree.leafRooted_searchStr tree
        (indexOK_leaf tree (hok _ (openIndex_mem im t c tree ho)) (by rw [hk']; decide)) _

theorem roomFor_mono (im : OpenIndexes) (touched : String → Prop) (b b' : Int) (h : b' ≤ b)
    (hr : RoomFor im touched b) : RoomFor im touched b' := by
  intro e he
  obtain ⟨h1, h2⟩ := hr e he
  exact ⟨h1, fun hk ht => by have := h2 hk ht; omega⟩

theorem roomFor_putIndex (im : OpenIndexes) (touched : String → Prop) (b : Int) (t c : String)
    (tree : Tree) (hr : RoomFor im touched b) (hok : IndexOK tree)
    (hroom : tree.keyType ≠ KeyType.INT → rootWords tree + b ≤ 2032) :
    RoomFor (putIndex t c tree im) touched b := by
  intro e he
  rcases mem_putIndex t c tree im e he with h | h
  · exact hr e h
  · rw [h]; exact ⟨hok, fun hk _ => hroom hk⟩

theorem insertEntry_room (im : OpenIndexes) (touched : String → Prop) (b : Int)
    (hr : RoomFor im touched b) (t c : String) (key : Int) (rid : RID) (hlo : BOT ≤ key)
    (hhi : key < TOP) : ∃ r, insertEntry im t c key rid = some r ∧ RoomFor r.2 touched b := by
  unfold insertEntry
  cases ho : openIndex im t c with
  | none => exact ⟨_, rfl, hr⟩
  | some tree =>
    simp only
    by_cases hk : tree.keyType ≠ KeyType.INT
    · rw [if_pos hk]; exact ⟨_, rfl, hr⟩
    · rw [if_neg hk]
      have hk' : tree.keyType = KeyType.INT := by simpa using hk
      obtain ⟨f, t', e1, e2, e3⟩ := BPlusTree.intBuilt_insert tree
        (indexOK_int tree (hr _ (openIndex_mem im t c tree ho)).1 hk') key rid hlo hhi
      rw [e1]
      refine ⟨_, rfl, roomFor_putIndex im touched b t c t' hr ?_ (fun h => absurd e3 h)⟩
      unfold IndexOK
      rw [if_pos e3]
      exact e2

theorem insertEntryFloat_room (im : OpenIndexes) (touched : String → Prop) (b cost : Int)
    (hr : RoomFor im touched b) (t c : String) (ht : touched (getIndexKey t c)) (key : Nat)
    (rid : RID) (hc3 : 3 ≤ cost) (hcb : cost ≤ b) :
    ∃ r, insertEntryFloat im t c key rid = some r ∧ RoomFor r.2 touched (b - cost) := by
  have hr' := roomFor_mono im touched b (b - cost) (by omega) hr
  unfold insertEntryFloat
  cases ho : openIndex im t c with
  | none => exact ⟨_, rfl, hr'⟩
  | some tree =>
    simp only
    by_cases hk : tree.keyType ≠ KeyType.FLOAT
    · rw [if_pos hk]; exact ⟨_, rfl, hr'⟩
    · rw [if_neg hk]
      have hk' : tree.keyType = KeyType.FLOAT := by simpa using hk
      have hne : tree.keyType ≠ KeyType.INT := by rw [hk']; decide
      obtain ⟨h1, h2⟩ := hr _ (openIndex_mem im t c tree ho)
      have hroom : rootWords tree + b ≤ 2032 := h2 hne ht
      obtain ⟨t', e1, e2, e3, e4⟩ := BPlusTree.leafRooted_insertFloat tree hk'
        (indexOK_leaf tree h1 hne) (doubleToFloat key) rid (by omega)
      rw [e1]
      refine ⟨_, rfl, roomFor_putIndex im touched (b - cost) t c t' hr' ?_ (fun _ => ?_)⟩
      · unfold IndexOK
        rw [if_neg (by rw [e3]; decide)]
        exact e2
      · rw [e4]; omega

theorem insertEntryStr_room (im : OpenIndexes) (touched : String → Prop) (b cost : Int)
    (hr : RoomFor im touched b) (t c : String) (ht : touched (getIndexKey t c)) (key : List Nat)
    (rid : RID) (hc : ((key.length : Int) + 3) / 4 + 3 ≤ cost) (hcb : cost ≤ b) :
    ∃ r, insertEntryStr im t c key rid = some r ∧ RoomFor r.2 touched (b - cost) := by
  have hpos : 0 ≤ ((key.length : Int) + 3) / 4 := by
    apply Int.ediv_nonneg <;> omega
  have hr' := roomFor_mono im touched b (b - cost) (by omega) hr
  unfold insertEntryStr
  cases ho : openIndex im t c with
  | none => exact ⟨_, rfl, hr'⟩
  | some tree =>
    simp only
    by_cases hk : tree.keyType ≠ KeyType.VARCHAR
    · rw [if_pos hk]; exact ⟨_, rfl, hr'⟩
    · rw [if_neg hk]
      have hk' : tree.keyType = KeyType.VARCHAR := by simpa using hk
      have hne : tree.keyType ≠ KeyType.INT := by rw [hk']; decide
      obtain ⟨h1, h2⟩ := hr _ (openIndex_mem im t c tree ho)
      have hroom : rootWords tree + b ≤ 2032 := h2 hne ht
      obtain ⟨t', e1, e2, e3, e4⟩ := BPlusTree.leafRooted_insertStr tree hk'
        (indexOK_leaf tree h1 hne) key rid (by omega)
      rw [e1]
      refine ⟨_, rfl, roomFor_putIndex im touched (b - cost) t c t' hr' ?_ (fun _ => ?_)⟩
      · unfold IndexOK
        rw [if_neg (by rw [e3]; decide)]
        exact e2
      · rw [e4]; omega

theorem roomFor_createIndex (im : OpenIndexes) (touched : String → Prop) (b : Int)
    (hr : RoomFor im touched b) (hb : b ≤ 2032) (disk : Int → BPlusTree.BPlusTreeNode)
    (t c : String) (keyType : KeyType) (keyLength : Int) :
    RoomFor (createIndex im disk t c keyType keyLength) touched b := by
  unfold createIndex
  split
  · exact hr
  · intro e he
    rcases List.mem_append.1 he with h | h
    · exact hr e h
    · simp only [List.mem_singleton] at h
      rw [h]
      refine ⟨BPlusTree.indexOK_emptyTree disk keyType keyLength, fun _ _ => ?_⟩
      rw [(BPlusTree.leafRooted_emptyTree disk keyType keyLength).2]
      omega

end IndexManager

namespace QueryExecutor.Db

open SystemManager (Database findTable getTableMeta getRecordManager)
open RecordManager (WellFormed isInt32)
open BPlusTree (IndexOK)

theorem searchByType_returns (im : IndexManager.OpenIndexes) (hok : ∀ e ∈ im, IndexOK e.2)
    (t c : String) (type : DataType) (val : Value) (hint : isInt32 val.intVal) :
    ∃ found, searchByType im t c type val = some found := by
  unfold searchByType
  split_ifs
  · obtain ⟨r, hr⟩ := IndexManager.searchEntry_returns im hok t c val.intVal hint.1 hint.2
    exact ⟨_, by rw [hr]; rfl⟩
  · obtain ⟨r, hr⟩ := IndexManager.searchEntryFloat_returns im hok t c val.floatVal
    exact ⟨_, by rw [hr]; rfl⟩
  · obtain ⟨r, hr⟩ := IndexManager.searchEntryStr_returns im hok t c val.strVal
    exact ⟨_, by rw [hr]; rfl⟩

theorem scanTable_returns (db : Database) (hwf : ∀ e ∈ db.tables, WellFormed e.2)
    (tableName : String) : ∃ rows, scanTable db tableName = some rows := by
  unfold scanTable getTableMeta getRecordManager
  cases hf : findTable db tableName with
  | none => exact ⟨_, rfl⟩
  | some e =>
    have hmem : e ∈ db.tables := by
      unfold findTable at hf
      exact List.mem_of_find?_eq_some hf
    obtain ⟨pgs, hp⟩ := hwf e hmem
    simp only [Option.map_some']
    rw [RecordManager.getAllRecordsDirect_eq e.2 pgs hp]
    exact ⟨_, rfl⟩

theorem foreignKeyValues_mem (tableMeta : TableMeta) (values : List Value) (fk : KeyDef) :
    ∀ v ∈ foreignKeyValues tableMeta values fk, v ∈ values := by
  intro v hv
  unfold foreignKeyValues at hv
  rw [List.mem_filterMap] at hv
  obtain ⟨col, _, hc⟩ := hv
  simp only at hc
  split_ifs at hc with h
  simp only [Option.some.injEq] at hc
  rw [← hc]
  unfold valueAt
  rw [List.getD_eq_getElem?_getD, List.getElem?_eq_getElem (by omega)]
  exact List.getElem_mem _

theorem getD_int32 (l : List Value) (hl : ∀ v ∈ l, isInt32 v.intVal) (i : Nat) :
    isInt32 (l.getD i Value.makeNull).intVal := by
  rw [List.getD_eq_getElem?_getD]
  cases h : l[i]? with
  | none => exact ⟨by decide, by decide⟩
  | some v => exact hl v (List.getElem?_mem h)

/-- On a well-formed database every foreign-key check of a row returns. -/
theorem checkOneForeignKey_returns (db : Database) (hwf : WellFormedDb db)
    (tableMeta : TableMeta) (values : List Value) (hint : ∀ v ∈ values, isInt32 v.intVal)
    (fk : KeyDef) : (checkOneForeignKey db tableMeta values fk).isSome = true := by
  unfold checkOneForeignKey
  cases getTableMeta db fk.refTable with
  | none => rfl
  | some refMeta =>
    simp only
    by_cases h1 : ((foreignKeyValues tableMeta values fk).all fun v => v.isNull) = true
    · rw [if_pos h1]; rfl
    rw [if_neg h1]
    by_cases h2 : refMeta.recordCount = 0
    · rw [if_pos h2]; rfl
    rw [if_neg h2]
    cases foreignKeyProbe refMeta fk (foreignKeyValues tableMeta values fk) with
    | some p =>
      obtain ⟨found, hf⟩ := searchByType_returns db.indexManager hwf.2 fk.refTable p.1
        (columnAt refMeta p.2).type
        ((foreignKeyValues tableMeta values fk).getD 0 Value.makeNull)
        (getD_int32 _ (fun v hv => hint v (foreignKeyValues_mem tableMeta values fk v hv)) 0)
      simp only
      rw [hf]; rfl
    | none =>
      simp only
      by_cases h3 : refMeta.recordCount > 1000
      · rw [if_pos h3]; rfl
      · rw [if_neg h3]
        obtain ⟨rows, hr⟩ := scanTable_returns db hwf.1 fk.refTable
        rw [hr]; rfl

end QueryExecutor.Db

namespace QueryExecutor.Db

open SystemManager (Database findTable getTableMeta getRecordManager)
open RecordManager (WellFormed isInt32)
open BPlusTree (IndexOK KeyType)
open IndexManager (RoomFor getIndexKey)

/-- An index update of a row value on indexes with room: the call returns, and
the room left is smaller by the cost of the entry when the key is not an INT
key. -/
theorem insertByType_room (im : IndexManager.OpenIndexes) (touched : String → Prop) (b cost : Int)
    (hr : RoomFor im touched b) (t c : String) (ht : touched (getIndexKey t c))
    (type : DataType) (val : Value) (rid : BPlusTree.RID) (hint : isInt32 val.intVal)
    (hc : ((val.strVal.length : Int) + 3) / 4 + 3 ≤ cost)
    (hb : type ≠ DataType.INT → cost ≤ b) :
    ∃ im', insertByType im t c type val rid = some im' ∧
      RoomFor im' touched (b - if type = DataType.INT then 0 else cost) := by
  have hpos : 0 ≤ ((val.strVal.length : Int) + 3) / 4 := by
    apply Int.ediv_nonneg <;> omega
  unfold insertByType
  by_cases h1 : type = DataType.INT
  · rw [if_pos h1, if_pos h1]
    obtain ⟨r, e1, e2⟩ := IndexManager.insertEntry_room im touched b hr t c val.intVal rid
      hint.1 hint.2
    rw [e1]
    exact ⟨_, rfl, by simpa using e2⟩
  · rw [if_neg h1, if_neg h1]
    by_cases h2 : type = DataType.FLOAT
    · rw [if_pos h2]
      obtain ⟨r, e1, e2⟩ := IndexManager.insertEntryFloat_room im touched b cost hr t c ht
        val.floatVal rid (by omega) (hb h1)
      rw [e1]
      exact ⟨_, rfl, e2⟩
    · rw [if_neg h2]
      obtain ⟨r, e1, e2⟩ := IndexManager.insertEntryStr_room im touched b cost hr t c ht
        val.strVal rid hc (hb h1)
      rw [e1]
      exact ⟨_, rfl, e2⟩

end QueryExecutor.Db

namespace SystemManager

open QueryExecutor (TableMeta ColumnDef KeyDef DataType Value rd32 shl1 stripTrailingZeros
  floatToDouble valueAt unpackBytes)
open QueryExecutor.Db (columnAt insertByType)
open RecordManager (Store toInt getAllRecordsDirect isInt32 WellFormed)
open IndexManager (RoomFor getIndexKey)

theorem stripTrailingZeros_length (s : List Nat) : (stripTrailingZeros s).length ≤ s.length := by
  unfold stripTrailingZeros
  rw [List.length_reverse]
  have := List.Sublist.length_le (List.dropWhile_sublist (fun b => decide (b = 0)) (l := s.reverse))
  rw [List.length_reverse] at this
  exact this

theorem unpackBytes_length : ∀ ws : List Nat, (unpackBytes ws).length = 4 * ws.length := by
  intro ws
  induction ws with
  | nil => rfl
  | cons w ws ih =>
    simp only [unpackBytes, List.length_append, ih, List.length_cons]
    have : (QueryExecutor.le32 w).length = 4 := rfl
    omega

/-- A record without a negative length word is read. -/
theorem keyFillValues_returns (data : List Nat) (len : Int) (nullBitmap : Nat) :
    ∀ (cols : List ColumnDef) (j : Nat) (pos : Int),
      lengthsNonNegative data len nullBitmap j cols pos = true →
      ∃ vs, keyFillValues data len nullBitmap j cols pos = some vs := by
  intro cols
  induction cols with
  | nil => intro j pos _; exact ⟨[], rfl⟩
  | cons col cols ih =>
    intro j pos h
    rw [lengthsNonNegative] at h
    rw [keyFillValues]
    cases hty : col.type with
    | INT =>
      simp only [hty] at h ⊢
      by_cases hfit : pos + 4 ≤ len
      · rw [if_pos hfit] at h ⊢
        obtain ⟨vs, e⟩ := ih _ _ h
        rw [e]; exact ⟨_, rfl⟩
      · rw [if_neg hfit] at h ⊢
        exact ih _ _ h
    | FLOAT =>
      simp only [hty] at h ⊢
      by_cases hfit : pos + 4 ≤ len
      · rw [if_pos hfit] at h ⊢
        obtain ⟨vs, e⟩ := ih _ _ h
        rw [e]; exact ⟨_, rfl⟩
      · rw [if_neg hfit] at h ⊢
        exact ih _ _ h
    | VARCHAR =>
      simp only [hty] at h ⊢
      by_cases hfit : pos + 4 ≤ len
      · rw [if_pos hfit] at h ⊢
        rw [Bool.and_eq_true, Bool.or_eq_true] at h
        obtain ⟨h1, h2⟩ := h
        obtain ⟨vs, e⟩ := ih _ _ h2
        rw [e]
        by_cases hnull : decide (nullBitmap &&& shl1 j ≠ 0) = true
        · rw [if_pos hnull]; exact ⟨_, rfl⟩
        · rw [if_neg hnull]
          have hlen : 0 ≤ toInt (rd32 data pos) := by
            rcases h1 with h1 | h1
            · exact absurd h1 hnull
            · exact of_decide_eq_true h1
          split_ifs
          · omega
          · exact ⟨_, rfl⟩
          · exact ⟨_, rfl⟩
      · rw [if_neg hfit] at h ⊢
        exact ih _ _ h
    | UNKNOWN =>
      simp only [hty] at h ⊢
      exact ih _ _ h

/-- The values `addPrimaryKey` reads from a stored record are C++ values whose
strings are no longer than the record. -/
theorem keyFillValues_bound (data : List Nat) (len : Int) (nullBitmap : Nat) :
    ∀ (cols : List ColumnDef) (j : Nat) (pos : Int) (vs : List Value),
      keyFillValues data len nullBitmap j cols pos = some vs →
      ∀ v ∈ vs, isInt32 v.intVal ∧ v.strVal.length ≤ data.length := by
  have hnull : isInt32 Value.makeNull.intVal ∧ Value.makeNull.strVal.length ≤ data.length :=
    ⟨⟨by decide, by decide⟩, Nat.zero_le _⟩
  have hzero : isInt32 0 := ⟨by decide, by decide⟩
  intro cols
  induction cols with
  | nil =>
    intro j pos vs h v hv
    simp only [keyFillValues, Option.some.injEq] at h
    rw [← h] at hv
    cases hv
  | cons col cols ih =>
    intro j pos vs h v hv
    rw [keyFillValues] at h
    cases hty : col.type with
    | INT =>
      simp only [hty] at h
      split_ifs at h
      · rw [Option.map_eq_some'] at h
        obtain ⟨rest, e, rfl⟩ := h
        rcases List.mem_cons.1 hv with h | h
        · rw [h]; exact hnull
        · exact ih _ _ _ e v h
      · rw [Option.map_eq_some'] at h
        obtain ⟨rest, e, rfl⟩ := h
        rcases List.mem_cons.1 hv with h | h
        · rw [h]; exact ⟨RecordManager.toInt_range _, Nat.zero_le _⟩
        · exact ih _ _ _ e v h
      · exact ih _ _ _ h v hv
    | FLOAT =>
      simp only [hty] at h
      split_ifs at h
      · rw [Option.map_eq_some'] at h
        obtain ⟨rest, e, rfl⟩ := h
        rcases List.mem_cons.1 hv with h | h
        · rw [h]; exact hnull
        · exact ih _ _ _ e v h
      · rw [Option.map_eq_some'] at h
        obtain ⟨rest, e, rfl⟩ := h
        rcases List.mem_cons.1 hv with h | h
        · rw [h]; exact ⟨hzero, Nat.zero_le _⟩
        · exact ih _ _ _ e v h
      · exact ih _ _ _ h v hv
    | VARCHAR =>
      simp only [hty] at h
      split_ifs at h
      · rw [Option.map_eq_some'] at h
        obtain ⟨rest, e, rfl⟩ := h
        rcases List.mem_cons.1 hv with h | h
        · rw [h]; exact hnull
        · exact ih _ _ _ e v h
      · rw [Option.map_eq_some'] at h
        obtain ⟨rest, e, rfl⟩ := h
        rcases List.mem_cons.1 hv with h | h
        · rw [h]
          refine ⟨hzero, ?_⟩
          show (stripTrailingZeros _).length ≤ _
          refine le_trans (stripTrailingZeros_length _) ?_
          rw [List.length_take, List.length_drop]
          omega
        · exact ih _ _ _ e v h
      · exact ih _ _ _ h v hv
      · exact ih _ _ _ h v hv
    | UNKNOWN =>
      simp only [hty] at h
      exact ih _ _ _ h v hv

theorem valueAt_mem (values : List Value) (i : Int) (h0 : 0 ≤ i) (h1 : i < values.length) :
    valueAt values i ∈ values := by
  unfold valueAt
  rw [List.getD_eq_getElem?_getD, List.getElem?_eq_getElem (by omega)]
  exact List.getElem_mem _

/-- The index loop of `addPrimaryKey` for one stored record, on indexes with
room for an entry of `w` words for every key column that is not an INT
column. -/
theorem keyFillRecord_room (tableName : String) (tableMeta : TableMeta) (recordID : Int)
    (values : List Value) (touched : String → Prop) (w : Int) (hw : 0 ≤ w)
    (hvals : ∀ v ∈ values, isInt32 v.intVal ∧ ((v.strVal.length : Int) + 3) / 4 + 3 ≤ w) :
    ∀ (cols : List String) (im : IndexManager.OpenIndexes) (b : Int),
      (∀ c ∈ cols, touched (getIndexKey tableName c)) → RoomFor im touched b →
      ((cols.filter fun c => decide ((columnAt tableMeta (tableMeta.getColumnIndex c)).type ≠
        DataType.INT)).length : Int) * w ≤ b →
      ∃ im', keyFillRecord tableName tableMeta recordID values cols im = some im' ∧
        RoomFor im' touched
          (b - ((cols.filter fun c =>
            decide ((columnAt tableMeta (tableMeta.getColumnIndex c)).type ≠
              DataType.INT)).length : Int) * w) := by
  intro cols
  induction cols with
  | nil =>
    intro im b _ hr _
    exact ⟨im, rfl, by simpa using hr⟩
  | cons c rest ih =>
    intro im b ht hr hb
    have htr : ∀ c' ∈ rest, touched (getIndexKey tableName c') :=
      fun c' hc' => ht c' (List.mem_cons_of_mem _ hc')
    have hlen0 : (0 : Int) ≤ ((rest.filter fun c =>
        decide ((columnAt tableMeta (tableMeta.getColumnIndex c)).type ≠
          DataType.INT)).length : Int) := Int.natCast_nonneg _
    have hrest0 := mul_nonneg hlen0 hw
    rw [keyFillRecord]
    by_cases hty : (columnAt tableMeta (tableMeta.getColumnIndex c)).type = DataType.INT
    · have hf : ((c :: rest).filter fun c =>
          decide ((columnAt tableMeta (tableMeta.getColumnIndex c)).type ≠ DataType.INT)) =
          rest.filter fun c =>
            decide ((columnAt tableMeta (tableMeta.getColumnIndex c)).type ≠ DataType.INT) := by
        rw [List.filter_cons]
        simp [hty]
      rw [hf] at hb ⊢
      split_ifs with hcond
      · obtain ⟨im1, e1, e2⟩ := QueryExecutor.Db.insertByType_room im touched b w hr tableName c
          (ht c (List.mem_cons_self _ _)) _ (valueAt values (tableMeta.getColumnIndex c))
          ⟨0, recordID⟩
          (hvals _ (valueAt_mem values _ hcond.1 hcond.2.1)).1
          (hvals _ (valueAt_mem values _ hcond.1 hcond.2.1)).2
          (fun h => absurd hty h)
        rw [e1, Option.some_bind]
        rw [if_pos hty, sub_zero] at e2
        exact ih im1 b htr e2 hb
      · exact ih im b htr hr hb
    · have hf : ((c :: rest).filter fun c =>
          decide ((columnAt tableMeta (tableMeta.getColumnIndex c)).type ≠ DataType.INT)) =
          c :: rest.filter fun c =>
            decide ((columnAt tableMeta (tableMeta.getColumnIndex c)).type ≠ DataType.INT) := by
        rw [List.filter_cons]
        simp [hty]
      rw [hf] at hb ⊢
      simp only [List.length_cons, Nat.cast_add, Nat.cast_one] at hb ⊢
      have hb1 : w ≤ b := by nlinarith
      have hb2 : ((rest.filter fun c =>
          decide ((columnAt tableMeta (tableMeta.getColumnIndex c)).type ≠
            DataType.INT)).length : Int) * w ≤ b - w := by nlinarith
      split_ifs with hcond
      · obtain ⟨im1, e1, e2⟩ := QueryExecutor.Db.insertByType_room im touched b w hr tableName c
          (ht c (List.mem_cons_self _ _)) _ (valueAt values (tableMeta.getColumnIndex c))
          ⟨0, recordID⟩
          (hvals _ (valueAt_mem values _ hcond.1 hcond.2.1)).1
          (hvals _ (valueAt_mem values _ hcond.1 hcond.2.1)).2
          (fun _ => hb1)
        rw [e1, Option.some_bind]
        rw [if_neg hty] at e2
        obtain ⟨im', f1, f2⟩ := ih im1 (b - w) htr e2 hb2
        refine ⟨im', f1, ?_⟩
        have : b - w - ((rest.filter fun c =>
            decide ((columnAt tableMeta (tableMeta.getColumnIndex c)).type ≠
              DataType.INT)).length : Int) * w =
            b - (((rest.filter fun c =>
              decide ((columnAt tableMeta (tableMeta.getColumnIndex c)).type ≠
                DataType.INT)).length : Int) + 1) * w := by ring
        rw [← this]
        exact f2
      · obtain ⟨im', f1, f2⟩ := ih im b htr hr (by nlinarith)
        refine ⟨im', f1, IndexManager.roomFor_mono _ _ _ _ ?_ f2⟩
        nlinarith

end SystemManager

namespace SystemManager

open QueryExecutor (TableMeta ColumnDef KeyDef DataType Value rd32 shl1 stripTrailingZeros
  floatToDouble valueAt unpackBytes)
open QueryExecutor.Db (columnAt insertByType)
open RecordManager (Store toInt getAllRecordsDirect isInt32 WellFormed)
open IndexManager (RoomFor getIndexKey)

theorem fillWords_cons (tableMeta : TableMeta) (columns : List String) (r : Int × List Nat)
    (rest : List (Int × List Nat)) :
    fillWords tableMeta columns (r :: rest) =
      ((columns.filter fun c =>
        decide ((columnAt tableMeta (tableMeta.getColumnIndex c)).type ≠
          DataType.INT)).length : Int) * ((r.2.length : Int) + 3) +
        fillWords tableMeta columns rest := by
  unfold fillWords
  rw [List.map_cons, List.sum_cons]
  ring

theorem fillWords_nonneg (tableMeta : TableMeta) (columns : List String)
    (records : List (Int × List Nat)) : 0 ≤ fillWords tableMeta columns records := by
  induction records with
  | nil => simp [fillWords]
  | cons r rest ih =>
    rw [fillWords_cons]
    have h1 : (0 : Int) ≤ ((columns.filter fun c =>
        decide ((columnAt tableMeta (tableMeta.getColumnIndex c)).type ≠
          DataType.INT)).length : Int) := Int.natCast_nonneg _
    have h2 : (0 : Int) ≤ (r.2.length : Int) + 3 := by omega
    have := mul_nonneg h1 h2
    omega

theorem fillWords_columns (m m' : TableMeta) (h : m.columns = m'.columns) (columns : List String)
    (records : List (Int × List Nat)) : fillWords m columns records = fillWords m' columns records := by
  unfold fillWords columnAt TableMeta.getColumnIndex
  rw [h]

/-- The fill loop of `addPrimaryKey` on indexes with room for `fillWords`
words: the loop returns and every index is as the index operations build
it. -/
theorem keyFill_room (tableName : String) (tableMeta : TableMeta) (columns : List String)
    (touched : String → Prop) (ht : ∀ c ∈ columns, touched (getIndexKey tableName c)) :
    ∀ (records : List (Int × List Nat)) (im : IndexManager.OpenIndexes) (b : Int),
      (∀ r ∈ records, readableRecord tableMeta.columns r.2) →
      RoomFor im touched b → fillWords tableMeta columns records ≤ b →
      ∃ im', keyFill tableName tableMeta columns records im = some im' ∧
        RoomFor im' touched (b - fillWords tableMeta columns records) := by
  intro records
  induction records with
  | nil =>
    intro im b _ hr _
    exact ⟨im, rfl, IndexManager.roomFor_mono _ _ _ _
      (by have := fillWords_nonneg tableMeta columns []; omega) hr⟩
  | cons r rest ih =>
    intro im b hread hr hb
    have hread' : ∀ r' ∈ rest, readableRecord tableMeta.columns r'.2 :=
      fun r' hr' => hread r' (List.mem_cons_of_mem _ hr')
    rw [fillWords_cons] at hb ⊢
    have hrest := fillWords_nonneg tableMeta columns rest
    have h1 : (0 : Int) ≤ ((columns.filter fun c =>
        decide ((columnAt tableMeta (tableMeta.getColumnIndex c)).type ≠
          DataType.INT)).length : Int) := Int.natCast_nonneg _
    have h2 : (0 : Int) ≤ (r.2.length : Int) + 3 := by omega
    have h3 := mul_nonneg h1 h2
    rw [keyFill]
    split_ifs with hlen
    · obtain ⟨vs, hvs⟩ := keyFillValues_returns _ _ _ tableMeta.columns 0 4
        (hread r (List.mem_cons_self _ _))
      have hvals : ∀ v ∈ vs,
          isInt32 v.intVal ∧ ((v.strVal.length : Int) + 3) / 4 + 3 ≤ (r.2.length : Int) + 3 := by
        intro v hv
        obtain ⟨i1, i2⟩ := keyFillValues_bound _ _ _ _ _ _ vs hvs v hv
        rw [unpackBytes_length] at i2
        refine ⟨i1, ?_⟩
        omega
      obtain ⟨im1, e1, e2⟩ := keyFillRecord_room tableName tableMeta r.1 vs touched
        ((r.2.length : Int) + 3) h2 hvals columns im b ht hr (by omega)
      rw [hvs, Option.some_bind, e1, Option.some_bind]
      obtain ⟨im', f1, f2⟩ := ih im1 _ hread' e2 (by omega)
      refine ⟨im', f1, ?_⟩
      have : b - ((columns.filter fun c =>
          decide ((columnAt tableMeta (tableMeta.getColumnIndex c)).type ≠
            DataType.INT)).length : Int) * ((r.2.length : Int) + 3) -
          fillWords tableMeta columns rest =
          b - (((columns.filter fun c =>
            decide ((columnAt tableMeta (tableMeta.getColumnIndex c)).type ≠
              DataType.INT)).length : Int) * ((r.2.length : Int) + 3) +
            fillWords tableMeta columns rest) := by ring
      rw [← this]
      exact f2
    · obtain ⟨im', f1, f2⟩ := ih im b hread' hr (by omega)
      exact ⟨im', f1, IndexManager.roomFor_mono _ _ _ _ (by omega) f2⟩

theorem addKeyIndexes_room (disk : Int → BPlusTree.BPlusTreeNode) (tableName : String)
    (touched : String → Prop) (b : Int) (hb : b ≤ 2032) :
    ∀ (cols : List String) (tableMeta : TableMeta) (im : IndexManager.OpenIndexes),
      RoomFor im touched b → RoomFor (addKeyIndexes disk tableName cols tableMeta im).2 touched b := by
  intro cols
  induction cols with
  | nil => intro tableMeta im hr; exact hr
  | cons c rest ih =>
    intro tableMeta im hr
    rw [addKeyIndexes]
    split_ifs
    · split
      · exact ih _ _ hr
      · exact ih _ _ (IndexManager.roomFor_createIndex im touched b hr hb disk _ _ _ _)
    · exact ih _ _ hr

theorem addKeyIndexes_columns (disk : Int → BPlusTree.BPlusTreeNode) (tableName : String) :
    ∀ (cols : List String) (tableMeta : TableMeta) (im : IndexManager.OpenIndexes),
      (addKeyIndexes disk tableName cols tableMeta im).1.columns = tableMeta.columns := by
  intro cols
  induction cols with
  | nil => intro tableMeta im; rfl
  | cons c rest ih =>
    intro tableMeta im
    rw [addKeyIndexes]
    split_ifs
    · split
      · exact ih _ _
      · rw [ih]
    · exact ih _ _

/-- On a well-formed database whose stored records are readable, with room in
the leaves of the FLOAT and VARCHAR indexes of the key columns, the scan and
the fill loop of `addPrimaryKey` return. -/
theorem addPrimaryKey_returns (db : Database) (indexDisk : Int → BPlusTree.BPlusTreeNode)
    (tableName : String) (columns : List String) (tableMeta : TableMeta) (rm : Store)
    (hwf : QueryExecutor.Db.WellFormedDb db)
    (hfind : findTable db tableName = some (tableMeta, rm))
    (hread : ∀ records, getAllRecordsDirect rm = some records →
      ∀ r ∈ records, readableRecord tableMeta.columns r.2)
    (hroom : ∀ records, getAllRecordsDirect rm = some records →
      fillWords tableMeta columns records ≤ 2032 ∧
        ∀ e ∈ db.indexManager, e.2.keyType ≠ BPlusTree.KeyType.INT →
          (∃ c ∈ columns, e.1 = getIndexKey tableName c) →
            BPlusTree.rootWords e.2 + fillWords tableMeta columns records ≤ 2032) :
    ∃ records, getAllRecordsDirect rm = some records ∧
      ∀ m m1, m.columns = tableMeta.columns →
        ∃ im, keyFill tableName m columns records
          (addKeyIndexes indexDisk tableName columns m1 db.indexManager).2 = some im := by
  have hmem : (tableMeta, rm) ∈ db.tables := by
    unfold findTable at hfind
    exact List.mem_of_find?_eq_some hfind
  obtain ⟨pgs, hp⟩ := hwf.1 _ hmem
  refine ⟨_, RecordManager.getAllRecordsDirect_eq rm pgs hp, ?_⟩
  intro m m1 hm
  obtain ⟨h1, h2⟩ := hroom _ (RecordManager.getAllRecordsDirect_eq rm pgs hp)
  have hr0 : RoomFor db.indexManager (fun k => ∃ c ∈ columns, k = getIndexKey tableName c)
      (fillWords tableMeta columns (RecordManager.allLive pgs)) :=
    fun e he => ⟨hwf.2 e he, fun hk ht => h2 e he hk ht⟩
  have hr1 := addKeyIndexes_room indexDisk tableName _ _ h1 columns m1 db.indexManager hr0
  obtain ⟨im, e1, _⟩ := keyFill_room tableName m columns _ (fun c hc => ⟨c, hc, rfl⟩) _ _ _
    (by rw [hm]; exact hread _ (RecordManager.getAllRecordsDirect_eq rm pgs hp)) hr1
    (by rw [fillWords_columns m tableMeta hm])
  exact ⟨im, e1⟩

end SystemManager

namespace QueryExecutor

/-! ## Row encoding: the round trip -/

/-- C9 (amended). For every schema of at most 32 columns, each INT, FLOAT or
VARCHAR(n) with `0 ≤ n`, and every row valid under it (one value per column,
each null or of the column's type, each string within its capacity) in which no
string ends in a NUL byte, decoding the encoded row gives values with the same
null flags and the same integer, floating-point and string contents. -/
theorem deserialize_serialize_roundtrip (columns : List ColumnDef) (row : List Value)
    (hschema : SupportedSchema columns) (hrow : RowValid columns row) :
    List.Forall₂ SameContent row (deserializeRecord columns (serializeRecord columns row)) := by
  rw [deserialize_serialize_eq columns row hschema hrow]
  exact forall₂_sameContent_canon columns row hrow

/-- Instance of `deserialize_serialize_roundtrip` on `exampleColumns` and
`exampleRow`. -/
theorem deserialize_serialize_roundtrip_witness :
    List.Forall₂ SameContent exampleRow
      (deserializeRecord exampleColumns (serializeRecord exampleColumns exampleRow)) :=
  deserialize_serialize_roundtrip exampleColumns exampleRow
    ⟨by decide, by
      intro col h
      simp only [exampleColumns, List.mem_cons, List.mem_singleton, List.not_mem_nil, or_false] at h
      rcases h with rfl | rfl | rfl <;> exact ⟨by decide, by decide, by decide⟩⟩
    ⟨Or.inr (Or.inl ⟨rfl, rfl, by decide, by decide⟩), fun _ => by
        intro b hb; simp [Value.ofInt] at hb,
      Or.inr (Or.inr (Or.inr ⟨rfl, rfl, by decide, by decide⟩)), fun _ => by
        intro b hb
        simp only [Value.ofString, List.getLast?_cons_cons, List.getLast?_singleton,
          Option.some.injEq] at hb
        omega,
      Or.inl rfl, fun h => by simp [Value.makeNull] at h, trivial⟩

set_option maxRecDepth 20000 in
/-- C9 as stated fails. (1) Under VARCHAR(8) the valid string "a\0" is decoded
as "a": the decoder strips trailing NUL bytes. (2) Under 33 INT columns a row
whose value at index 32 is null is decoded with a non-null value there: the
null bitmap has 32 bits. -/
theorem roundtrip_counterexample :
    (ClaimRowValid [⟨"n", DataType.VARCHAR, 8, false⟩] [Value.ofString [97, 0]] ∧
      deserializeRecord [⟨"n", DataType.VARCHAR, 8, false⟩]
        (serializeRecord [⟨"n", DataType.VARCHAR, 8, false⟩] [Value.ofString [97, 0]]) =
          [Value.ofString [97]]) ∧
    (ClaimRowValid wideColumns wideRow ∧ (wideRow.map fun v => v.isNull).getLast? = some true ∧
      ((deserializeRecord wideColumns (serializeRecord wideColumns wideRow)).map
        fun v => v.isNull).getLast? = some false) := by
  refine ⟨⟨?_, by decide⟩, ?_, by decide, by decide⟩
  · exact List.Forall₂.cons (Or.inr (Or.inr (Or.inr ⟨rfl, rfl, by decide, by decide⟩)))
      List.Forall₂.nil
  · unfold ClaimRowValid wideColumns wideRow
    have h7 : ∀ c : ColumnDef, c.type = DataType.INT → ValidFor c (Value.ofInt 7) :=
      fun c hc => Or.inr (Or.inl ⟨hc, rfl, by decide, by decide⟩)
    simp only [List.replicate, List.cons_append, List.nil_append]
    repeat first
      | exact List.Forall₂.nil
      | refine List.Forall₂.cons (h7 _ rfl) ?_
      | refine List.Forall₂.cons (Or.inl rfl) ?_

end QueryExecutor

namespace QueryExecutor

/-! ## Record count against the live rows -/

/-- C10 (the count is not decremented). Scenario S1: after the three rows are
inserted and `DELETE ... WHERE id = 2` has removed one of them (affected rows
1), the `COUNT(*)` fast path returns 3 while a full scan of the record store
finds 2 live rows: `updateRecordCount` ignores the negative delta that
`executeDelete` passes. -/
theorem count_star_stale_after_delete :
    (executeDelete whereIdIs2 (fun _ => false)
        (executeInsert (fun _ _ => true) tableS1 rowsS1).2).map
      (fun r => (r.1, r.2.1, selectCountStar r.2.2, (scanTable r.2.2).map List.length)) =
      some (true, 1, 3, some 2) := by
  decide

end QueryExecutor

namespace BPlusTree

/-! ## B+ tree: duplicate keys and removal -/

/-- C6 (VARCHAR keys are not checked for duplicates). On an empty VARCHAR(8)
tree, `insert("a", (0,1))` followed by `insert("a", (0,2))` returns true both
times; the header entry count becomes 2 and the leaf holds the key "a" twice. -/
theorem insertStr_duplicate_accepted :
    ((insertStr (emptyTree blankDisk KeyType.VARCHAR 8) [97] ⟨0, 1⟩).bind fun r1 =>
      (insertStr r1.2 [97] ⟨0, 2⟩).map fun r2 => (r1.1, r2.1, r2.2.entryCount)) =
        some (true, true, 2) ∧
    ((insertStr (emptyTree blankDisk KeyType.VARCHAR 8) [97] ⟨0, 1⟩).bind fun r1 =>
      (insertStr r1.2 [97] ⟨0, 2⟩).map fun r2 =>
        ((readNode r2.2 r2.2.rootPage).strKeys, (readNode r2.2 r2.2.rootPage).rids)) =
        some ([[97], [97]], [⟨0, 2⟩, ⟨0, 1⟩]) := by
  decide

/-- C7 (the last entry of a non-root leaf is not removed). Whenever the leaf
that `findLeaf` reaches for `key` is not the root and holds `key` as its only
entry, `remove key` returns true and changes nothing but the header entry
count: the leaf page is not written, so `search key` afterwards still returns
the RID, for every order. -/
theorem remove_last_entry_of_nonroot_leaf (t : Tree) (key leafPage : Int) (rid : RID)
    (hkind : t.keyType = KeyType.INT) (hroot : t.rootPage ≠ -1)
    (hfind : findLeaf t key = some leafPage) (hleaf : leafPage ≠ -1)
    (hnonroot : leafPage ≠ t.rootPage)
    (hkeys : (readNode t leafPage).keys = [key]) (hcount : (readNode t leafPage).keyCount = 1)
    (hrids : (readNode t leafPage).rids = [rid]) :
    remove t key = some (true, { t with entryCount := t.entryCount - 1 }) ∧
      search { t with entryCount := t.entryCount - 1 } key = some (some rid) :=
  ⟨remove_single_key_leaf t key leafPage hkind hroot hfind hleaf hnonroot hkeys hcount,
    search_single_key_leaf { t with entryCount := t.entryCount - 1 } key leafPage rid hkind hroot
      ((findLeaf_congr t { t with entryCount := t.entryCount - 1 } key (fun _ => rfl) rfl rfl).trans hfind) hleaf hkeys hcount hrids⟩

/-- Instance of `remove_last_entry_of_nonroot_leaf` in the tree the code
builds with its own order 677: after the inserts of the keys 1, …, 677 and the
removals of the keys 1, …, 337 (`drainedTree`), leaf 1 is not the root and
holds only key 338; `remove 338` returns true and `search 338` still finds the
RID. -/
theorem remove_last_entry_of_nonroot_leaf_witness :
    remove drainedTree 338 =
        some (true, { drainedTree with entryCount := drainedTree.entryCount - 1 }) ∧
      search { drainedTree with entryCount := drainedTree.entryCount - 1 } 338 =
        some (some ⟨0, 338⟩) :=
  remove_last_entry_of_nonroot_leaf drainedTree 338 1 ⟨0, 338⟩ drainedTree_twoLeaves.keyType
    (by rw [drainedTree_twoLeaves.rootPage]; decide)
    (drainedTree_twoLeaves.findLeaf_low 338 (by decide)) (by decide)
    (by rw [drainedTree_twoLeaves.rootPage]; decide) drainedTree_leaf.1 drainedTree_leaf.2.1
    drainedTree_leaf.2.2

end BPlusTree

namespace BPlusTree

/-! ## B+ tree: search after inserts -/

/-- C5 (search after inserts of distinct keys). Starting from the empty INT
tree (order 677, as the constructor computes it), the inserts of any list of
entries with pairwise distinct `int` keys all return, however many leaf and
internal splits they cause; in the resulting tree `search k` returns true with
the RID inserted with `k` for every inserted key, and false for every other
`int` key. -/
theorem search_after_inserts (disk : Int → BPlusTreeNode) (keyLength : Int)
    (entries : List (Int × RID)) (hdistinct : (entries.map Prod.fst).Nodup)
    (hint : ∀ e ∈ entries, BOT ≤ e.1 ∧ e.1 < TOP) :
    ∃ t, insertAll (emptyTree disk KeyType.INT keyLength) entries = some t ∧
      (∀ k r, (k, r) ∈ entries → search t k = some (some r)) ∧
      (∀ k, BOT ≤ k → k < TOP → k ∉ entries.map Prod.fst → search t k = some none) := by
  obtain ⟨t, h1, h2⟩ := insertAll_spec entries _ _ (inv_emptyTree disk keyLength) hint
  obtain ⟨f1, f2⟩ := foldl_bindNew_nodup entries (fun _ => none) hdistinct (fun _ _ => rfl)
  refine ⟨t, h1, ?_, ?_⟩
  · intro k r hkr
    obtain ⟨hlo, hhi⟩ := hint (k, r) hkr
    rw [search_spec t _ h2 k hlo hhi, f1 k r hkr]
  · intro k hlo hhi hk
    rw [search_spec t _ h2 k hlo hhi, f2 k hk]

/-- Instance of `search_after_inserts`: the keys 5, 3, 9 inserted in this
order into an empty tree on a blank file. -/
theorem search_after_inserts_witness :
    (([(5, ⟨1, 1⟩), (3, ⟨1, 2⟩), (9, ⟨1, 3⟩)] : List (Int × RID)).map Prod.fst).Nodup ∧
    (∀ e ∈ ([(5, ⟨1, 1⟩), (3, ⟨1, 2⟩), (9, ⟨1, 3⟩)] : List (Int × RID)),
      BOT ≤ e.1 ∧ e.1 < TOP) ∧
    ∃ t, insertAll (emptyTree blankDisk KeyType.INT 4)
        [(5, ⟨1, 1⟩), (3, ⟨1, 2⟩), (9, ⟨1, 3⟩)] = some t ∧
      (∀ k r, (k, r) ∈ ([(5, ⟨1, 1⟩), (3, ⟨1, 2⟩), (9, ⟨1, 3⟩)] : List (Int × RID)) →
        search t k = some (some r)) ∧
      (∀ k, BOT ≤ k → k < TOP →
        k ∉ ([(5, ⟨1, 1⟩), (3, ⟨1, 2⟩), (9, ⟨1, 3⟩)] : List (Int × RID)).map Prod.fst →
        search t k = some none) :=
  ⟨by decide, by decide,
    search_after_inserts blankDisk 4 [(5, ⟨1, 1⟩), (3, ⟨1, 2⟩), (9, ⟨1, 3⟩)] (by decide)
      (by decide)⟩

end BPlusTree
namespace BPlusTree

/-! ## B+ tree: range search after inserts -/

/-- C8 (range search after inserts of distinct keys). In the INT tree built
from the empty tree by the inserts of entries with pairwise distinct `int`
keys, `rangeSearch lowKey highKey includeLow includeHigh` returns, for every
`int` `lowKey` and all `highKey`, `includeLow`, `includeHigh`, the RIDs of a
list `es` of entries whose keys are strictly increasing and which are exactly
the inserted entries with a key within both bounds, however many leaves the
range spans. -/
theorem rangeSearch_after_inserts (disk : Int → BPlusTreeNode) (keyLength : Int)
    (entries : List (Int × RID)) (lowKey highKey : Int) (includeLow includeHigh : Bool)
    (hdistinct : (entries.map Prod.fst).Nodup)
    (hint : ∀ e ∈ entries, BOT ≤ e.1 ∧ e.1 < TOP) (hlow : BOT ≤ lowKey ∧ lowKey < TOP) :
    ∃ t, insertAll (emptyTree disk KeyType.INT keyLength) entries = some t ∧
      ∃ es : List (Int × RID),
        rangeSearch t lowKey highKey includeLow includeHigh = some (es.map Prod.snd) ∧
        (es.map Prod.fst).Pairwise (· < ·) ∧
        ∀ k r, (k, r) ∈ es ↔ ((k, r) ∈ entries ∧ aboveLow lowKey includeLow k = true ∧
          belowHigh highKey includeHigh k = true) := by
  obtain ⟨t, h1, h2⟩ := insertAll_spec entries _ _ (inv_emptyTree disk keyLength) hint
  obtain ⟨es, e1, e2, e3⟩ := rangeSearch_spec t _ h2 lowKey highKey includeLow includeHigh
    hlow.1 hlow.2
  refine ⟨t, h1, es, e1, e2, ?_⟩
  intro k r
  rw [e3 k r]
  have := entriesMap_nodup entries hdistinct k r
  unfold entriesMap at this
  rw [this]

/-- Instance of `rangeSearch_after_inserts`: the keys 5, 3, 9 inserted in this
order, and the range from 3 (inclusive) to 9 (exclusive). -/
theorem rangeSearch_after_inserts_witness :
    (([(5, ⟨1, 1⟩), (3, ⟨1, 2⟩), (9, ⟨1, 3⟩)] : List (Int × RID)).map Prod.fst).Nodup ∧
    (∀ e ∈ ([(5, ⟨1, 1⟩), (3, ⟨1, 2⟩), (9, ⟨1, 3⟩)] : List (Int × RID)),
      BOT ≤ e.1 ∧ e.1 < TOP) ∧
    (BOT ≤ 3 ∧ (3 : Int) < TOP) ∧
    ∃ t, insertAll (emptyTree blankDisk KeyType.INT 4)
        [(5, ⟨1, 1⟩), (3, ⟨1, 2⟩), (9, ⟨1, 3⟩)] = some t ∧
      ∃ es : List (Int × RID),
        rangeSearch t 3 9 true false = some (es.map Prod.snd) ∧
        (es.map Prod.fst).Pairwise (· < ·) ∧
        ∀ k r, (k, r) ∈ es ↔
          ((k, r) ∈ ([(5, ⟨1, 1⟩), (3, ⟨1, 2⟩), (9, ⟨1, 3⟩)] : List (Int × RID)) ∧
            aboveLow 3 true k = true ∧ belowHigh 9 false k = true) :=
  ⟨by decide, by decide, by decide,
    rangeSearch_after_inserts blankDisk 4 [(5, ⟨1, 1⟩), (3, ⟨1, 2⟩), (9, ⟨1, 3⟩)] 3 9 true false
      (by decide) (by decide) (by decide)⟩

end BPlusTree
namespace QueryExecutor

/-! ## The WHERE predicate: the claims -/

/-- C18. For the six comparison operators `matchWhereClause` is false when the
left column value is null or the right operand (the literal, or the value of
the compared column) is null; when the column resolves in the row, `IS NULL`
returns the null flag of the column value and `IS NOT NULL` its negation. -/
theorem matchWhereClause_null_handling (clause : WhereClause) (tableMeta : TableMeta)
    (record : List Value) :
    let colIdx := tableMeta.getColumnIndex (stripTablePrefix clause.column.columnName)
    let leftVal := valueAt record colIdx
    let rightVal :=
      if clause.isColumnCompare then
        valueAt record (tableMeta.getColumnIndex (stripTablePrefix clause.rightColumn.columnName))
      else clause.value
    (clause.op ∈ [CompareOp.EQ, CompareOp.NE, CompareOp.LT, CompareOp.LE, CompareOp.GT,
        CompareOp.GE] →
      leftVal.isNull = true ∨ rightVal.isNull = true →
      matchWhereClause clause tableMeta record = false) ∧
    (0 ≤ colIdx ∧ colIdx < record.length →
      (clause.op = CompareOp.IS_NULL →
        matchWhereClause clause tableMeta record = leftVal.isNull) ∧
      (clause.op = CompareOp.IS_NOT_NULL →
        matchWhereClause clause tableMeta record = !leftVal.isNull)) := by
  intro colIdx leftVal rightVal
  refine ⟨fun hop hnull => matchWhereClause_compare_null clause tableMeta record hop hnull,
    fun hres => ⟨fun hop => ?_, fun hop => ?_⟩⟩
  · have hc : ¬ (colIdx < 0 ∨ colIdx ≥ record.length) := by omega
    unfold matchWhereClause
    simp only []
    rw [if_neg hc, hop]
  · have hc : ¬ (colIdx < 0 ∨ colIdx ≥ record.length) := by omega
    unfold matchWhereClause
    simp only []
    rw [if_neg hc, hop]

/-- Instance of `matchWhereClause_null_handling` on the table `t (x INT, y INT)`
and the row `(NULL, 1)`: `x < 3` is false and `x IS NULL` is true. -/
theorem matchWhereClause_null_handling_witness :
    matchWhereClause (Db.compareLiteral "x" CompareOp.LT (Value.ofInt 3)) Db.tableXY
        [Value.makeNull, Value.ofInt 1] = false ∧
      matchWhereClause (Db.compareLiteral "x" CompareOp.IS_NULL Value.makeNull) Db.tableXY
        [Value.makeNull, Value.ofInt 1] = true :=
  ⟨(matchWhereClause_null_handling (Db.compareLiteral "x" CompareOp.LT (Value.ofInt 3))
      Db.tableXY [Value.makeNull, Value.ofInt 1]).1 (by decide) (Or.inl (by decide)),
    ((matchWhereClause_null_handling (Db.compareLiteral "x" CompareOp.IS_NULL Value.makeNull)
      Db.tableXY [Value.makeNull, Value.ofInt 1]).2 (by decide)).1 rfl⟩

/-- C19 (IN has no null test). On the table `t (x INT, y INT)` and the row
`(NULL, 1)`, `x IN (1, NULL)` is true although `x = 1` and `x = NULL` are both
false on that row: the IN branch compares with `compareValues`, which returns
0 for two nulls, without the null test of the comparison branch. -/
theorem in_list_null_matches_null :
    matchWhereClause
        { column := { columnName := "x" }, op := CompareOp.IN,
          inList := [Value.ofInt 1, Value.makeNull] }
        Db.tableXY [Value.makeNull, Value.ofInt 1] = true ∧
      matchWhereClause (Db.compareLiteral "x" CompareOp.EQ (Value.ofInt 1)) Db.tableXY
        [Value.makeNull, Value.ofInt 1] = false ∧
      matchWhereClause (Db.compareLiteral "x" CompareOp.EQ Value.makeNull) Db.tableXY
        [Value.makeNull, Value.ofInt 1] = false := by
  decide

/-- C20 (a line terminator is not matched by a wildcard). `likeMatch` is false
for the string `ab\r` against the patterns `%` and `ab_`, and for `a\nb` against
`a_b`: the wildcards become `.` in the regular expression, which matches every
character except `\n` and `\r`.  Without the line terminator the same patterns
match. -/
theorem likeMatch_rejects_line_terminator :
    likeMatch [97, 98, 13] [37] = false ∧ likeMatch [97, 98, 13] [97, 98, 95] = false ∧
      likeMatch [97, 10, 98] [97, 95, 98] = false ∧
      likeMatch [97, 98, 32] [37] = true ∧ likeMatch [97, 98, 32] [97, 98, 95] = true := by
  decide

end QueryExecutor

namespace QueryExecutor.Db

open SystemManager (Database getTableMeta)

/-! ## Statements on a database: the claims -/

set_option maxRecDepth 100000 in
/-- C11 (two live rows with the same stored key). In the table
`t (a VARCHAR(2), PRIMARY KEY (a))`, `INSERT ('abc')` followed by
`INSERT ('abd')` succeeds both times and the scan then shows two live rows
whose stored key is `ab`: `checkPrimaryKey` looks up the value as given while
`serializeRecord` stores it cut to the column length. -/
theorem duplicate_key_after_truncation :
    (runAll shortKeyDb
        [fun db => executeInsert db "t" [[Value.ofString [97, 98, 99]]],
          fun db => executeInsert db "t" [[Value.ofString [97, 98, 100]]]]).bind
      (fun r => (scanTable r.2 "t").map fun rows => (r.1.success, r.1.affectedRows, rows)) =
      some (true, 1, [(1, [Value.ofString [97, 98]]), (2, [Value.ofString [97, 98]])]) := by
  decide

set_option maxRecDepth 100000 in
/-- C14 (the delete stops halfway). With `dept` holding the rows 1 and 10 and
`emp` holding a row that references 10, `DELETE FROM dept` returns the
foreign-key error, yet the row 1 of `dept`, which comes first in the scan, has
been tombstoned and its index entry removed: the reference test and the
deletion are interleaved in one loop, which returns at the first referenced
row. -/
theorem delete_stops_halfway :
    (runAll deptEmpDb
        [fun db => executeInsert db "dept" [[Value.ofInt 1], [Value.ofInt 10]],
          fun db => executeInsert db "emp" [[Value.ofInt 7, Value.ofInt 10]],
          fun db => executeDelete db "dept" []]).bind
      (fun r => (scanTable r.2 "dept").bind fun rows =>
        (IndexManager.searchEntry r.2.indexManager "dept" "id" 1).map fun found =>
          (r.1, rows, found)) =
      some (errorResult "Foreign key constraint failed - cannot delete referenced row",
        [(2, [Value.ofInt 10])], none) := by
  decide

set_option maxRecDepth 100000 in
/-- C15 (a key update is always refused). In the table
`t (id INT, PRIMARY KEY (id))` with the rows 1 and 2,
`UPDATE t SET id = 3 WHERE id = 1` returns the duplicate-entry error although
no row holds 3: the new key is put into the index before `checkPrimaryKey`
probes the index for it.  The rows are unchanged, and the index no longer
finds the key 1. -/
theorem update_key_always_duplicate :
    (runAll intKeyDb
        [fun db => executeInsert db "t" [[Value.ofInt 1], [Value.ofInt 2]],
          fun db => executeUpdate db "t" [⟨"id", Value.ofInt 3⟩]
            [compareLiteral "id" CompareOp.EQ (Value.ofInt 1)]]).bind
      (fun r => (scanTable r.2 "t").bind fun rows =>
        (indexScan r.2 "t" (compareLiteral "id" CompareOp.EQ (Value.ofInt 1))).map fun old =>
          (r.1, rows, old)) =
      some (errorResult "Duplicate entry - duplicate value violates constraint",
        [(1, [Value.ofInt 1]), (2, [Value.ofInt 2])], []) := by
  decide

set_option maxRecDepth 100000 in
/-- C16 (the load applies no check). With `dept` holding the row 1, loading
the lines `1,1`, `1,1`, `2,` and `3,99` into
`emp (id INT, dept INT NOT NULL, PRIMARY KEY (id), FOREIGN KEY (dept)
REFERENCES dept (id))` stores and counts all four rows: a repeated primary key,
a null in a NOT NULL column and a reference to a missing parent.
`executeLoadData` calls none of `checkNotNull`, `checkPrimaryKey` and
`checkForeignKey`. -/
theorem load_data_skips_checks :
    (runAll deptEmpDb
        [fun db => executeInsert db "dept" [[Value.ofInt 1]],
          fun db => executeLoadData (fun _ => none) db
            [asciiBytes "1,1", asciiBytes "1,1", asciiBytes "2,", asciiBytes "3,99"] "emp"]).bind
      (fun r => (scanTable r.2 "emp").map fun rows =>
        (r.1, rows, (getTableMeta r.2 "emp").map fun m => m.recordCount)) =
      some ({ message := "Query OK", affectedRows := 4 },
        [(1, [Value.ofInt 1, Value.ofInt 1]), (2, [Value.ofInt 1, Value.ofInt 1]),
          (3, [Value.ofInt 2, Value.makeNull]), (4, [Value.ofInt 3, Value.ofInt 99])],
        some 4) := by
  decide

end QueryExecutor.Db

namespace QueryExecutor.Db

open SystemManager (Database getTableMeta)

/-! ## Foreign keys on insert: the claims -/

set_option maxRecDepth 100000 in
/-- C12 as stated fails. With `site (a INT, b INT)` holding the row (1, 5) and
`visit (x INT, y INT, FOREIGN KEY (x, y) REFERENCES site (a, b))`, the row
(NULL, 5) of `visit` has a null among the local columns of the key, yet
`checkForeignKey` refuses it and the INSERT returns the foreign-key error: only
a key whose local values are all null is exempt. -/
theorem partial_null_key_rejected :
    getTableMeta siteVisitDb "visit" = some visitMeta ∧
      (runAll siteVisitDb [fun db => executeInsert db "site" [[Value.ofInt 1, Value.ofInt 5]]]).bind
        (fun r => checkOneForeignKey r.2 visitMeta [Value.makeNull, Value.ofInt 5] visitKey) =
        some false ∧
      (runAll siteVisitDb
        [fun db => executeInsert db "site" [[Value.ofInt 1, Value.ofInt 5]],
          fun db => executeInsert db "visit" [[Value.makeNull, Value.ofInt 5]]]).map
        (fun r => r.1) =
        some (errorResult "Foreign key constraint violated - foreign key reference not found") := by
  decide

/-- C12 (amended). When the referenced table exists, `checkForeignKey` accepts
a row for a foreign key whenever all of that key's local column values are
null, whatever the referenced table contains; for a single-column key that is
whenever its value is null. -/
theorem checkForeignKey_all_null (db : Database) (tableMeta : TableMeta) (values : List Value)
    (fk : KeyDef) (refMeta : TableMeta) (href : getTableMeta db fk.refTable = some refMeta) :
    ((∀ v ∈ foreignKeyValues tableMeta values fk, v.isNull = true) →
      checkOneForeignKey db tableMeta values fk = some true) ∧
    (∀ col, fk.columns = [col] →
      (valueAt values (tableMeta.getColumnIndex col)).isNull = true →
      checkOneForeignKey db tableMeta values fk = some true) := by
  have main : (∀ v ∈ foreignKeyValues tableMeta values fk, v.isNull = true) →
      checkOneForeignKey db tableMeta values fk = some true := by
    intro hnull
    unfold checkOneForeignKey
    rw [href]
    have hall : ((foreignKeyValues tableMeta values fk).all fun v => v.isNull) = true := by
      rw [List.all_eq_true]
      exact hnull
    simp only [hall, if_true]
  refine ⟨main, fun col hcol hv => main ?_⟩
  intro v hmem
  unfold foreignKeyValues at hmem
  rw [hcol] at hmem
  simp only [List.filterMap_cons, List.filterMap_nil] at hmem
  split at hmem
  · simp at hmem
  · rename_i w hw
    simp only [List.mem_singleton] at hmem
    split_ifs at hw with hc
    · simp only [Option.some.injEq] at hw
      rw [hmem, ← hw]
      exact hv

set_option maxRecDepth 100000 in
/-- Instance of `checkForeignKey_all_null` on `siteVisitDb` and the row
(NULL, NULL) of `visit`. -/
theorem checkForeignKey_all_null_witness :
    checkOneForeignKey siteVisitDb visitMeta [Value.makeNull, Value.makeNull] visitKey =
      some true :=
  (checkForeignKey_all_null siteVisitDb visitMeta [Value.makeNull, Value.makeNull] visitKey
    { tableName := "site",
      columns := [⟨"a", DataType.INT, 0, false⟩, ⟨"b", DataType.INT, 0, false⟩] }
    (by decide)).1 (by decide)

end QueryExecutor.Db

namespace QueryExecutor.Db

open SystemManager (Database findTable getTableMeta getRecordManager)
open RecordManager (Store WellFormed isInt32 PAGE_INT_NUM WellFormed_fresh freshStore zeroDisk)

/-! ## Foreign keys on insert: rejection of an unmatched key -/

theorem indexOK_of_intBuilt (t : BPlusTree.Tree) (hk : t.keyType = BPlusTree.KeyType.INT)
    (h : BPlusTree.IntBuilt t) : BPlusTree.IndexOK t := by
  unfold BPlusTree.IndexOK
  rw [if_pos hk]
  exact h

/-- On a well-formed database the primary-key check of a row returns. -/
theorem checkPrimaryKey_returns (db : Database) (hwf : WellFormedDb db) (tableName : String)
    (values : List Value) (hint : ∀ v ∈ values, isInt32 v.intVal) :
    ∃ b, checkPrimaryKey db tableName values = some b := by
  unfold checkPrimaryKey
  cases getTableMeta db tableName with
  | none => exact ⟨_, rfl⟩
  | some tableMeta =>
    simp only
    split_ifs
    · exact ⟨_, rfl⟩
    · exact ⟨_, rfl⟩
    · exact ⟨_, rfl⟩
    · cases primaryKeyProbe tableMeta values with
      | some p =>
        obtain ⟨found, hf⟩ := searchByType_returns db.indexManager hwf.2 tableName p.1
          (columnAt tableMeta p.2).type (valueAt values p.2) (getD_int32 values hint _)
        simp only
        rw [hf]
        exact ⟨_, rfl⟩
      | none =>
        obtain ⟨rows, hr⟩ := scanTable_returns db hwf.1 tableName
        simp only
        rw [hr]
        exact ⟨_, rfl⟩

set_option maxRecDepth 100000 in
theorem deptOneDb_wellFormed : WellFormedDb deptOneDb := by
  have ht : deptOneDb.tables =
      [({ tableName := "dept", columns := [⟨"id", DataType.INT, 0, true⟩], primaryKey := ["id"],
          indexes := ["id"], recordCount := 1, nextRecordID := 2 },
        (RecordManager.insertRecord (freshStore zeroDisk) 1
          (packWords (serializeRecord [⟨"id", DataType.INT, 0, true⟩] [Value.ofInt 1]))).2),
       (empMeta, freshStore zeroDisk)] := rfl
  have hi : deptOneDb.indexManager =
      [("dept_id", ((BPlusTree.runTreeOps (BPlusTree.emptyTree BPlusTree.blankDisk
          BPlusTree.KeyType.INT 0) [BPlusTree.TreeOp.insert 1 ⟨0, 1⟩]).getD
          (BPlusTree.emptyTree BPlusTree.blankDisk BPlusTree.KeyType.INT 0))),
       ("emp_id", BPlusTree.emptyTree BPlusTree.blankDisk BPlusTree.KeyType.INT 0)] := rfl
  constructor
  · intro e he
    rw [ht] at he
    simp only [List.mem_cons, List.mem_singleton, List.not_mem_nil, or_false] at he
    rcases he with rfl | rfl
    · exact RecordManager.WellFormed_insertRecord _ (WellFormed_fresh zeroDisk) 1 _
        ⟨by decide, by decide⟩ (by decide)
    · exact WellFormed_fresh zeroDisk
  · intro e he
    rw [hi] at he
    simp only [List.mem_cons, List.mem_singleton, List.not_mem_nil, or_false] at he
    rcases he with rfl | rfl
    · exact indexOK_of_intBuilt _ rfl
        ⟨BPlusTree.blankDisk, 0, [BPlusTree.TreeOp.insert 1 ⟨0, 1⟩],
          fun op hop => by
            simp only [List.mem_singleton] at hop
            subst hop
            exact ⟨by decide, by decide⟩, rfl⟩
    · exact BPlusTree.indexOK_emptyTree _ _ _

end QueryExecutor.Db

namespace QueryExecutor.Db

open SystemManager (Database findTable getTableMeta getRecordManager)
open RecordManager (Store WellFormed isInt32 PAGE_INT_NUM WellFormed_fresh freshStore zeroDisk)

/-! ## Value types on insert: the claims -/

set_option maxRecDepth 100000 in
/-- C17 (no coercion and no type check on INSERT). In the table
`m (f FLOAT, k INT)`, `INSERT INTO m VALUES (5, 'x')` succeeds: the string
given for the INT column raises no error and the row is stored, the INT column
reading back as 0; the integer literal given for the FLOAT column reads back
as 0.0, not as the floating-point number 5.0.  `serializeRecord` stores the
field of the declared type, which `Value(int)` and `Value(string)` leave at
zero. -/
theorem insert_without_type_check :
    (executeInsert mixedDb "m" [[Value.ofInt 5, Value.ofString [120]]]).bind
      (fun r => (scanTable r.2 "m").map fun rows => (r.1, rows)) =
      some ({ message := "Query Done", affectedRows := 1 },
        [(1, [Value.ofFloat 0, Value.ofInt 0])]) ∧
    Value.ofFloat (intToDouble 5) ≠ Value.ofFloat 0 := by
  decide

/-- What `executeInsert` stores.  A row with one value per column that passes
the NOT NULL, primary-key and foreign-key checks is stored whatever the types
of its values, and the scan then ends with the row in which every column holds
the field of the given value that belongs to the declared type of the column
(the integer field for an INT column, the floating-point field for a FLOAT
column, the string cut to the column length for a VARCHAR column).  The table
is on a well-formed file with room for one more page, the schema has at most
32 columns, the encoded row fits in one page and the index updates return. -/
theorem insert_stores_declared_fields (db : Database) (tableName : String) (m : TableMeta)
    (rm : Store) (values : List Value)
    (hfind : findTable db tableName = some (m, rm))
    (hwf : WellFormed rm) (htail : rm.tailPageID + 1 < 2147483648)
    (hid : isInt32 m.nextRecordID ∧ m.nextRecordID ≠ 0)
    (hschema : SupportedSchema m.columns)
    (hlen : values.length = m.columns.length)
    (hrepr : ∀ v ∈ values, Representable v)
    (hfit : 18 + ((packWords (serializeRecord m.columns values)).length : Int) ≤ PAGE_INT_NUM)
    (hnn : checkNotNull db tableName values = true)
    (hpk : checkPrimaryKey db tableName values = some true)
    (hfk : checkForeignKey db tableName values = some true)
    (hidx : (insertIndexEntries tableName m m.nextRecordID db.indexManager
      (m.columns.zip values)).isSome = true) :
    ∃ db1 rows,
      executeInsert db tableName [values] =
        some ({ message := "Query Done", affectedRows := 1 }, db1) ∧
      scanTable db tableName = some rows ∧
      scanTable db1 tableName =
        some (rows ++ [(m.nextRecordID, storedRow m.columns values)]) :=
  executeInsert_single db tableName m rm values hfind hwf htail hid hschema hlen hrepr hfit hnn
    hpk hfk hidx

set_option maxRecDepth 100000 in
/-- Instance of `insert_stores_declared_fields` on the table `m (f FLOAT, k INT)`
and the row `(5, 'x')`. -/
theorem insert_stores_declared_fields_witness :
    ∃ db1 rows,
      executeInsert mixedDb "m" [[Value.ofInt 5, Value.ofString [120]]] =
        some ({ message := "Query Done", affectedRows := 1 }, db1) ∧
      scanTable mixedDb "m" = some rows ∧
      scanTable db1 "m" = some (rows ++ [(1, [Value.ofFloat 0, Value.ofInt 0])]) :=
  insert_stores_declared_fields mixedDb "m" mixedMeta (freshStore zeroDisk)
    [Value.ofInt 5, Value.ofString [120]] rfl (WellFormed_fresh zeroDisk) (by decide)
    ⟨⟨by decide, by decide⟩, by decide⟩
    ⟨by decide, fun col h => by
      simp only [mixedMeta, List.mem_cons, List.mem_singleton, List.not_mem_nil, or_false] at h
      rcases h with rfl | rfl <;> exact ⟨by decide, by decide, by decide⟩⟩
    rfl
    (by
      intro v hv
      simp only [List.mem_cons, List.mem_singleton, List.not_mem_nil, or_false] at hv
      rcases hv with rfl | rfl
      · exact ⟨⟨by decide, by decide⟩, by decide, fun b hb => by simp [Value.ofInt] at hb⟩
      · refine ⟨⟨by decide, by decide⟩, by decide, fun b hb => ?_⟩
        simp only [Value.ofString, List.mem_singleton] at hb
        omega)
    (by decide) (by decide) (by decide) (by decide) (by decide)

end QueryExecutor.Db

namespace QueryExecutor.Db

/-! ### SELECT on example databases -/

/-- C23 (COUNT over an empty join is null). With `a (x INT)` holding one row
and `b (y INT)` none, `SELECT COUNT(a.x) FROM a, b` returns one row whose
value is null, not 0: the join has no row, and `calculateAggregate` returns
null for an empty list before it looks at the aggregate.  On the one table
`a` without rows the streaming accumulator returns 0 for `COUNT(a.x)`. -/
theorem count_over_empty_join_is_null
    (sort : (List Value → List Value → Bool) → List (List Value) → List (List Value)) :
    selectFrom sort onlyADb [selectColumn AggregateType.COUNT "a" "x"] ["a", "b"] [] =
        some { columnNames := ["COUNT(a.x)"], columnTypes := [DataType.INT],
               rows := [[Value.makeNull]] } ∧
      selectFrom sort pairDb [selectColumn AggregateType.COUNT "a" "x"] ["a"] [] =
        some { columnNames := ["COUNT(a.x)"], columnTypes := [DataType.INT],
               rows := [[Value.ofInt 0]] } :=
  ⟨rfl, rfl⟩

/-- The example of GROUP BY with the rows `(1, 10)`, `(1, 20)`, `(2, 5)`,
`(2, NULL)` of `t (g INT, v INT)`: `SELECT g, SUM(v), COUNT(v) FROM t
GROUP BY g` returns the rows `(1, 30, 2)` and `(2, 5, 1)`. -/
theorem group_by_example
    (sort : (List Value → List Value → Bool) → List (List Value) → List (List Value)) :
    executeSelect sort groupDb
        [selectColumn AggregateType.NONE "" "g", selectColumn AggregateType.SUM "" "v",
          selectColumn AggregateType.COUNT "" "v"]
        ["t"] [] ⟨"", "g"⟩ ⟨"", ""⟩ OrderType.ASC (-1) 0 true false =
      some { columnNames := ["g", "SUM(v)", "COUNT(v)"],
             columnTypes := [DataType.INT, DataType.INT, DataType.INT],
             rows := [[Value.ofInt 1, Value.ofInt 30, Value.ofInt 2],
               [Value.ofInt 2, Value.ofInt 5, Value.ofInt 1]] } :=
  rfl

/-- C25 (two distinct values in one group). In `t (g FLOAT, v INT)` with the
rows `(1.001, 10)` and `(1.002, 20)`, `SELECT g, SUM(v), COUNT(v) FROM t
GROUP BY g` returns the single row `(1.001, 30, 2)`: the groups are keyed by
`ResultSet::valueToString`, which prints both values as `1.00`. -/
theorem group_by_merges_distinct_floats
    (sort : (List Value → List Value → Bool) → List (List Value) → List (List Value)) :
    executeSelect sort floatGroupDb
        [selectColumn AggregateType.NONE "" "g", selectColumn AggregateType.SUM "" "v",
          selectColumn AggregateType.COUNT "" "v"]
        ["t"] [] ⟨"", "g"⟩ ⟨"", ""⟩ OrderType.ASC (-1) 0 true false =
      some { columnNames := ["g", "SUM(v)", "COUNT(v)"],
             columnTypes := [DataType.FLOAT, DataType.INT, DataType.INT],
             rows := [[Value.ofFloat 4607186922399644778, Value.ofInt 30, Value.ofInt 2]] } :=
  rfl

/-- C26 (no ordering by a column that is not selected). In `t (a INT, b INT)`
with the rows `(1, 2)` and `(2, 1)`, `SELECT a FROM t ORDER BY b ASC` returns
`1` before `2`, the scan order, whatever the sorting function: the ORDER BY
column is looked up among the selected columns only, and when it is not found
`std::sort` is not called.  Ordered by `b` the rows are `2`, `1`. -/
theorem order_by_unselected_column_unsorted
    (sort : (List Value → List Value → Bool) → List (List Value) → List (List Value)) :
    executeSelect sort orderDb [selectColumn AggregateType.NONE "" "a"] ["t"] [] ⟨"", ""⟩
        ⟨"", "b"⟩ OrderType.ASC (-1) 0 false true =
      some { columnNames := ["a"], columnTypes := [DataType.INT],
             rows := [[Value.ofInt 1], [Value.ofInt 2]] } :=
  rfl

/-- C27 (a join pairs two null keys). With `a (x INT)` and `b (y INT)` each
holding the one row `(NULL)`, `SELECT * FROM a, b WHERE a.x = b.y` returns the
row `(NULL, NULL)`: `matchRecord` hands both operands to `compareValues`
without the null test of `matchWhereClause`, and two nulls compare as 0. -/
theorem join_pairs_null_keys
    (sort : (List Value → List Value → Bool) → List (List Value) → List (List Value)) :
    selectFrom sort nullPairDb [{ isAllColumns := true }] ["a", "b"] [joinOnXY] =
      some { columnNames := ["a.x", "b.y"], columnTypes := [DataType.INT, DataType.INT],
             rows := [[Value.makeNull, Value.makeNull]] } :=
  rfl

/-- C28 (an aggregate over a join reads the wrong column). With `a (id INT)`
holding `1` and `b (id INT)` holding `10`, `SELECT SUM(b.id) FROM a, b` returns
1, the sum of `a.id`; and with `a (id2 INT)` holding `1`, `SELECT SUM(id)
FROM a, b` returns 1, the sum of `a.id2`: the lookup of the aggregate branch
takes the first column of the join whose name is the reference or merely
contains `.id`. -/
theorem join_aggregate_resolves_wrong_column
    (sort : (List Value → List Value → Bool) → List (List Value) → List (List Value)) :
    selectFrom sort sameNameDb [selectColumn AggregateType.SUM "b" "id"] ["a", "b"] [] =
        some { columnNames := ["SUM(b.id)"], columnTypes := [DataType.INT],
               rows := [[Value.ofInt 1]] } ∧
      selectFrom sort longerNameDb [selectColumn AggregateType.SUM "" "id"] ["a", "b"] [] =
        some { columnNames := ["SUM(id)"], columnTypes := [DataType.INT],
               rows := [[Value.ofInt 1]] } :=
  ⟨rfl, rfl⟩

end QueryExecutor.Db
namespace QueryExecutor

/-! ## `compareValues` and `evaluateCompare` -/

/-- The three-way result of a strict total order, read by `evaluateCompare`,
gives the usual meaning of the operators. -/
theorem evaluateCompare_threeWay {α : Type} (lt : α → α → Prop) (x y : α) (less greater : Bool)
    (hless : less = true ↔ lt x y) (hgreater : greater = true ↔ lt y x)
    (hirrefl : ∀ z, ¬lt z z) (hasymm : lt x y → ¬lt y x)
    (htotal : ¬lt x y → ¬lt y x → x = y) (op : CompareOp) :
    evaluateCompare op (if less then -1 else if greater then 1 else 0) = true ↔
      op.holds lt x y := by
  have hxy : x = y → ¬lt x y ∧ ¬lt y x := by
    intro h; subst h; exact ⟨hirrefl x, hirrefl x⟩
  by_cases h1 : lt x y
  · have h2 := hasymm h1
    have hl : less = true := hless.2 h1
    have hne : x ≠ y := fun h => (hxy h).1 h1
    cases op <;> simp [evaluateCompare, CompareOp.holds, hl, h1, h2, hne]
  · have hl : less = false := by
      cases hb : less with
      | false => rfl
      | true => exact absurd (hless.1 hb) h1
    by_cases h2 : lt y x
    · have hg : greater = true := hgreater.2 h2
      have hne : x ≠ y := fun h => (hxy h).2 h2
      cases op <;> simp [evaluateCompare, CompareOp.holds, hl, hg, h1, h2, hne]
    · have hg : greater = false := by
        cases hb : greater with
        | false => rfl
        | true => exact absurd (hgreater.1 hb) h2
      have he : x = y := htotal h1 h2
      cases op <;> simp [evaluateCompare, CompareOp.holds, hl, hg, h1, h2, he, hirrefl y]

theorem compareValues_int (a b : Int) :
    compareValues (Value.ofInt a) (Value.ofInt b) =
      if decide (a < b) then -1 else if decide (b < a) then 1 else 0 := by
  simp [compareValues, Value.ofInt]

theorem compareValues_string (s t : List Nat) :
    compareValues (Value.ofString s) (Value.ofString t) =
      if BPlusTree.strLt s t then -1 else if BPlusTree.strLt t s then 1 else 0 := by
  simp [compareValues, Value.ofString, strCompare]

theorem compareValues_float (x y : Nat) :
    compareValues (Value.ofFloat x) (Value.ofFloat y) =
      if doubleLt x y then -1 else if doubleLt y x then 1 else 0 := by
  simp [compareValues, Value.ofFloat]

theorem doubleLt_iff_rat (x y : Nat) (hx : doubleIsNaN x = false) (hy : doubleIsNaN y = false) :
    doubleLt x y = true ↔ doubleRat x < doubleRat y := by
  rw [doubleRat_lt_iff]
  simp [doubleLt, hx, hy]

theorem intToDouble_not_nan (i : Int) (h : i.natAbs < 2 ^ 53) :
    doubleIsNaN (intToDouble i) = false := by
  have := intToDouble_finite i h
  simp [doubleIsNaN, this]

/-- C21 (a NaN equals every integer). Against the NaN with pattern
9221120237041090560 the INT value 1 compares as equal: `compareValues` returns
0 when neither `f1 < f2` nor `f1 > f2` holds, so `=`, `<=` and `>=` evaluate
to true and `<>` to false.  After `LOAD DATA` of the one line `nan` into
`t (f FLOAT)`, `SELECT * FROM t WHERE f = 1` returns the NaN row and
`SELECT * FROM t WHERE f <> 1` returns no row. -/
theorem nan_equals_every_integer
    (sort : (List Value → List Value → Bool) → List (List Value) → List (List Value)) :
    doubleIsNaN 9221120237041090560 = true ∧
      compareValues (Value.ofInt 1) (Value.ofFloat 9221120237041090560) = 0 ∧
      evaluateCompare CompareOp.EQ
        (compareValues (Value.ofInt 1) (Value.ofFloat 9221120237041090560)) = true ∧
      evaluateCompare CompareOp.NE
        (compareValues (Value.ofInt 1) (Value.ofFloat 9221120237041090560)) = false ∧
      ((Db.executeLoadData Db.stodNan Db.floatDb [asciiBytes "nan"] "t").bind fun r =>
          Db.selectFrom sort r.2 [{ isAllColumns := true }] ["t"]
            [Db.compareLiteral "f" CompareOp.EQ (Value.ofInt 1)]) =
        some { columnNames := ["f"], columnTypes := [DataType.FLOAT],
               rows := [[Value.ofFloat 9221120237041090560]] } ∧
      ((Db.executeLoadData Db.stodNan Db.floatDb [asciiBytes "nan"] "t").bind fun r =>
          Db.selectFrom sort r.2 [{ isAllColumns := true }] ["t"]
            [Db.compareLiteral "f" CompareOp.NE (Value.ofInt 1)]) =
        some { columnNames := ["f"], columnTypes := [DataType.FLOAT], rows := [] } :=
  ⟨by decide, by decide, by decide, by decide, rfl, rfl⟩

/-- Apart from NaN the comparison is the usual one.  `compareValues` gives 0
for two nulls and puts a null below every non-null value; for two INT values
and for two STRING values `evaluateCompare` applied to its result gives the
usual meaning of `=`, `<>`, `<`, `<=`, `>`, `>=` for the order of the integers
and for the lexicographic order of the bytes; an `int` compared with a FLOAT
is promoted to `double`, so that for a finite FLOAT `f` the operators have
their usual meaning between the integer and the number `f` stands for, and an
infinite FLOAT `g` is above or below every integer by its sign. -/
theorem compare_values_usual_meaning (op : CompareOp) (n1 n2 v : Value) (a b : Int)
    (s t : List Nat) (i : Int) (f g : Nat)
    (hn1 : n1.isNull = true) (hn2 : n2.isNull = true) (hv : v.isNull = false)
    (hi : -2147483648 ≤ i ∧ i ≤ 2147483647)
    (hf : f / 4503599627370496 % 2048 ≠ 2047)
    (hg : doubleIsInf g = true) :
    compareValues n1 n2 = 0 ∧ compareValues n1 v = -1 ∧ compareValues v n1 = 1 ∧
      (evaluateCompare op (compareValues (Value.ofInt a) (Value.ofInt b)) = true ↔
        op.holds (fun x y : Int => x < y) a b) ∧
      (evaluateCompare op (compareValues (Value.ofString s) (Value.ofString t)) = true ↔
        op.holds (List.Lex fun x y : Nat => x < y) s t) ∧
      compareValues (Value.ofInt i) (Value.ofFloat f) =
        compareValues (Value.ofFloat (intToDouble i)) (Value.ofFloat f) ∧
      compareValues (Value.ofFloat f) (Value.ofInt i) =
        compareValues (Value.ofFloat f) (Value.ofFloat (intToDouble i)) ∧
      (evaluateCompare op (compareValues (Value.ofInt i) (Value.ofFloat f)) = true ↔
        op.holds (fun x y : ℚ => x < y) (i : ℚ) (doubleRat f)) ∧
      (evaluateCompare op (compareValues (Value.ofFloat f) (Value.ofInt i)) = true ↔
        op.holds (fun x y : ℚ => x < y) (doubleRat f) (i : ℚ)) ∧
      compareValues (Value.ofInt i) (Value.ofFloat g) = (if doubleNegative g then 1 else -1) ∧
      compareValues (Value.ofFloat g) (Value.ofInt i) = (if doubleNegative g then -1 else 1) := by
  have hi53 : i.natAbs < 2 ^ 53 := by omega
  have hnan := intToDouble_not_nan i hi53
  have hfnan : doubleIsNaN f = false := by simp [doubleIsNaN, hf]
  have hrat := doubleRat_intToDouble i hi53
  have hp1 : compareValues (Value.ofInt i) (Value.ofFloat f) =
      compareValues (Value.ofFloat (intToDouble i)) (Value.ofFloat f) := by
    simp [compareValues, Value.ofInt, Value.ofFloat]
  have hp2 : compareValues (Value.ofFloat f) (Value.ofInt i) =
      compareValues (Value.ofFloat f) (Value.ofFloat (intToDouble i)) := by
    simp [compareValues, Value.ofInt, Value.ofFloat]
  refine ⟨?_, ?_, ?_, ?_, ?_, hp1, hp2, ?_, ?_, ?_, ?_⟩
  · simp [compareValues, hn1, hn2]
  · simp [compareValues, hn1, hv]
  · simp [compareValues, hn1, hv]
  · rw [compareValues_int]
    exact evaluateCompare_threeWay (fun x y : Int => x < y) a b _ _ (by simp) (by simp)
      (fun z => lt_irrefl z) (fun h => not_lt.2 (le_of_lt h))
      (fun h1 h2 => le_antisymm (not_lt.1 h2) (not_lt.1 h1)) op
  · rw [compareValues_string]
    exact evaluateCompare_threeWay (List.Lex fun x y : Nat => x < y) s t _ _
      (BPlusTree.strLt_iff_lex s t) (BPlusTree.strLt_iff_lex t s)
      (fun z hz => by
        have := (BPlusTree.strLt_iff_lex z z).2 hz
        rw [BPlusTree.strLt_irrefl] at this
        exact absurd this (by simp))
      (fun h hc => by
        have h1 := (BPlusTree.strLt_iff_lex s t).2 h
        have h2 := (BPlusTree.strLt_iff_lex t s).2 hc
        rw [BPlusTree.strLt_asymm s t h1] at h2
        exact absurd h2 (by simp))
      (fun h1 h2 => by
        apply BPlusTree.strLt_total
        · cases hb : BPlusTree.strLt s t with
          | false => rfl
          | true => exact absurd ((BPlusTree.strLt_iff_lex s t).1 hb) h1
        · cases hb : BPlusTree.strLt t s with
          | false => rfl
          | true => exact absurd ((BPlusTree.strLt_iff_lex t s).1 hb) h2) op
  · rw [hp1, compareValues_float, ← hrat]
    exact evaluateCompare_threeWay (fun x y : ℚ => x < y) _ _ _ _
      (doubleLt_iff_rat _ _ hnan hfnan) (doubleLt_iff_rat _ _ hfnan hnan)
      (fun z => lt_irrefl z) (fun h => not_lt.2 (le_of_lt h))
      (fun h1 h2 => le_antisymm (not_lt.1 h2) (not_lt.1 h1)) op
  · rw [hp2, compareValues_float, ← hrat]
    exact evaluateCompare_threeWay (fun x y : ℚ => x < y) _ _ _ _
      (doubleLt_iff_rat _ _ hfnan hnan) (doubleLt_iff_rat _ _ hnan hfnan)
      (fun z => lt_irrefl z) (fun h => not_lt.2 (le_of_lt h))
      (fun h1 h2 => le_antisymm (not_lt.1 h2) (not_lt.1 h1)) op
  · have hfin := intToDouble_finite i hi53
    have hgnan : doubleIsNaN g = false := by
      simp only [doubleIsInf, Bool.and_eq_true, decide_eq_true_eq] at hg
      simp [doubleIsNaN, hg.2]
    have hp : compareValues (Value.ofInt i) (Value.ofFloat g) =
        compareValues (Value.ofFloat (intToDouble i)) (Value.ofFloat g) := by
      simp [compareValues, Value.ofInt, Value.ofFloat]
    rw [hp, compareValues_float]
    simp only [doubleIsInf, Bool.and_eq_true, decide_eq_true_eq] at hg
    simp only [doubleLt, hnan, hgnan, Bool.not_false, Bool.true_and, doubleKey, doubleNegative]
    by_cases sg : g / 9223372036854775808 % 2 = 1 <;>
      by_cases si : intToDouble i / 9223372036854775808 % 2 = 1 <;>
      simp only [sg, si, if_true, if_false, decide_True, decide_False, decide_eq_true_eq,
        Bool.false_eq_true] <;>
      split_ifs <;> omega
  · have hfin := intToDouble_finite i hi53
    have hgnan : doubleIsNaN g = false := by
      simp only [doubleIsInf, Bool.and_eq_true, decide_eq_true_eq] at hg
      simp [doubleIsNaN, hg.2]
    have hp : compareValues (Value.ofFloat g) (Value.ofInt i) =
        compareValues (Value.ofFloat g) (Value.ofFloat (intToDouble i)) := by
      simp [compareValues, Value.ofInt, Value.ofFloat]
    rw [hp, compareValues_float]
    simp only [doubleIsInf, Bool.and_eq_true, decide_eq_true_eq] at hg
    simp only [doubleLt, hnan, hgnan, Bool.not_false, Bool.true_and, doubleKey, doubleNegative]
    by_cases sg : g / 9223372036854775808 % 2 = 1 <;>
      by_cases si : intToDouble i / 9223372036854775808 % 2 = 1 <;>
      simp only [sg, si, if_true, if_false, decide_True, decide_False, decide_eq_true_eq,
        Bool.false_eq_true] <;>
      split_ifs <;> omega

/-- Instance of `compare_values_usual_meaning`: the operator `<=`, the
integers 2 and 3, the strings `a` and `b`, the integer 2 against the FLOAT 2.5
(pattern 4612811918334230528) and against plus infinity (pattern
9218868437227405312). -/
theorem compare_values_usual_meaning_witness :
    compareValues Value.makeNull Value.makeNull = 0 ∧
      compareValues Value.makeNull (Value.ofInt 5) = -1 ∧
      compareValues (Value.ofInt 5) Value.makeNull = 1 ∧
      (evaluateCompare CompareOp.LE (compareValues (Value.ofInt 2) (Value.ofInt 3)) = true ↔
        CompareOp.LE.holds (fun x y : Int => x < y) 2 3) ∧
      (evaluateCompare CompareOp.LE
          (compareValues (Value.ofString [97]) (Value.ofString [98])) = true ↔
        CompareOp.LE.holds (List.Lex fun x y : Nat => x < y) [97] [98]) ∧
      compareValues (Value.ofInt 2) (Value.ofFloat 4612811918334230528) =
        compareValues (Value.ofFloat (intToDouble 2)) (Value.ofFloat 4612811918334230528) ∧
      compareValues (Value.ofFloat 4612811918334230528) (Value.ofInt 2) =
        compareValues (Value.ofFloat 4612811918334230528) (Value.ofFloat (intToDouble 2)) ∧
      (evaluateCompare CompareOp.LE
          (compareValues (Value.ofInt 2) (Value.ofFloat 4612811918334230528)) = true ↔
        CompareOp.LE.holds (fun x y : ℚ => x < y) ((2 : Int) : ℚ)
          (doubleRat 4612811918334230528)) ∧
      (evaluateCompare CompareOp.LE
          (compareValues (Value.ofFloat 4612811918334230528) (Value.ofInt 2)) = true ↔
        CompareOp.LE.holds (fun x y : ℚ => x < y) (doubleRat 4612811918334230528)
          ((2 : Int) : ℚ)) ∧
      compareValues (Value.ofInt 2) (Value.ofFloat 9218868437227405312) =
        (if doubleNegative 9218868437227405312 then 1 else -1) ∧
      compareValues (Value.ofFloat 9218868437227405312) (Value.ofInt 2) =
        (if doubleNegative 9218868437227405312 then -1 else 1) :=
  compare_values_usual_meaning CompareOp.LE Value.makeNull Value.makeNull (Value.ofInt 5) 2 3
    [97] [98] 2 4612811918334230528 9218868437227405312 rfl rfl rfl (by decide) (by decide)
    (by decide)

end QueryExecutor
namespace QueryExecutor

open QueryExecutor.Db (columnValues)

/-! ## Aggregates: SUM, AVG, MAX, MIN -/

/-- C22 as stated fails. AVG over the INT inputs 1 and 2 is the FLOAT value
1.5 (pattern 4609434218613702656), on both paths, not an INT value; SUM over
the one STRING input `a` is the INT value 0, not a FLOAT value; and
`calculateAggregate` gives null for SUM over the empty list where the
streaming accumulator gives the INT value 0. -/
theorem avg_of_ints_is_float :
    calculateAggregate AggregateType.AVG [Value.ofInt 1, Value.ofInt 2] =
        Value.ofFloat 4609434218613702656 ∧
      aggregateRows [{ type := AggregateType.AVG, colIdx := 0 }]
          [[Value.ofInt 1], [Value.ofInt 2]] = [Value.ofFloat 4609434218613702656] ∧
      calculateAggregate AggregateType.SUM [Value.ofString [97]] = Value.ofInt 0 ∧
      aggregateRows [{ type := AggregateType.SUM, colIdx := 0 }] [[Value.ofString [97]]] =
        [Value.ofInt 0] ∧
      calculateAggregate AggregateType.SUM [] = Value.makeNull ∧
      aggregateRows [{ type := AggregateType.SUM, colIdx := 0 }] [] = [Value.ofInt 0] := by
  decide

/-- C22 (amended). SUM and AVG ignore null values: the result of
`calculateAggregate` on a non-empty list, and the result of the streaming
accumulator on the rows, depend only on the non-null values of the column.
SUM returns an INT value when no non-null input is a FLOAT and a FLOAT value
when one is; AVG returns a FLOAT value when some input is not null and null
when none is (`SumAvgSpec`).  This holds for `calculateAggregate` on a
non-empty list and for the streaming accumulator on any rows. -/
theorem sum_avg_ignore_nulls (agg : AggregateType) (values values' : List Value)
    (records records' : List (List Value)) (colIdx : Int)
    (hagg : agg = AggregateType.SUM ∨ agg = AggregateType.AVG)
    (hne : values ≠ []) (hne' : values' ≠ [])
    (hsame : (values.filter fun v => !v.isNull) = values'.filter fun v => !v.isNull)
    (hrows : ((columnValues colIdx records).filter fun v => !v.isNull) =
      (columnValues colIdx records').filter fun v => !v.isNull) :
    calculateAggregate agg values = calculateAggregate agg values' ∧
      aggregateRows [{ type := agg, colIdx := colIdx }] records =
        aggregateRows [{ type := agg, colIdx := colIdx }] records' ∧
      SumAvgSpec values (calculateAggregate AggregateType.SUM values)
        (calculateAggregate AggregateType.AVG values) ∧
      ∃ s a,
        aggregateRows
            [{ type := AggregateType.SUM, colIdx := colIdx },
              { type := AggregateType.AVG, colIdx := colIdx }] records = [s, a] ∧
          SumAvgSpec (columnValues colIdx records) s a := by
  refine ⟨?_, ?_, ?_, ?_⟩
  · rcases hagg with h | h
    · rw [h, calculateAggregate_sum values hne, calculateAggregate_sum values' hne',
        foldl_sumStep_filter values, foldl_sumStep_filter values', hsame]
    · rw [h, calculateAggregate_avg, calculateAggregate_avg, foldl_avgStep_filter values,
        foldl_avgStep_filter values', hsame]
  · rcases hagg with h | h
    · rw [h, aggregateRows_sum, aggregateRows_sum, foldl_sumStep_filter (columnValues _ records),
        foldl_sumStep_filter (columnValues _ records'), hrows]
    · rw [h, aggregateRows_avg, aggregateRows_avg, foldl_avgStep_filter (columnValues _ records),
        foldl_avgStep_filter (columnValues _ records'), hrows]
  · exact sumAvgSpec_of_folds values _ _ _ _ _ (calculateAggregate_sum values hne)
      (calculateAggregate_avg values)
  · rw [aggregateRows_pair, aggregateRows_sum, aggregateRows_avg]
    exact ⟨_, _, rfl, sumAvgSpec_of_folds (columnValues colIdx records) _ _ _ _ _ rfl rfl⟩

/-- Instance of `sum_avg_ignore_nulls`: SUM over `3, NULL, 4` against SUM over
`NULL, 3, 4, NULL`, on both paths. -/
theorem sum_avg_ignore_nulls_witness :
    calculateAggregate AggregateType.SUM [Value.ofInt 3, Value.makeNull, Value.ofInt 4] =
        calculateAggregate AggregateType.SUM
          [Value.makeNull, Value.ofInt 3, Value.ofInt 4, Value.makeNull] ∧
      aggregateRows [{ type := AggregateType.SUM, colIdx := 0 }]
          [[Value.ofInt 3], [Value.makeNull], [Value.ofInt 4]] =
        aggregateRows [{ type := AggregateType.SUM, colIdx := 0 }]
          [[Value.makeNull], [Value.ofInt 3], [Value.ofInt 4], [Value.makeNull]] ∧
      SumAvgSpec [Value.ofInt 3, Value.makeNull, Value.ofInt 4]
        (calculateAggregate AggregateType.SUM [Value.ofInt 3, Value.makeNull, Value.ofInt 4])
        (calculateAggregate AggregateType.AVG [Value.ofInt 3, Value.makeNull, Value.ofInt 4]) ∧
      ∃ s a,
        aggregateRows
            [{ type := AggregateType.SUM, colIdx := 0 },
              { type := AggregateType.AVG, colIdx := 0 }]
            [[Value.ofInt 3], [Value.makeNull], [Value.ofInt 4]] = [s, a] ∧
          SumAvgSpec (columnValues 0 [[Value.ofInt 3], [Value.makeNull], [Value.ofInt 4]]) s a :=
  sum_avg_ignore_nulls AggregateType.SUM [Value.ofInt 3, Value.makeNull, Value.ofInt 4]
    [Value.makeNull, Value.ofInt 3, Value.ofInt 4, Value.makeNull]
    [[Value.ofInt 3], [Value.makeNull], [Value.ofInt 4]]
    [[Value.makeNull], [Value.ofInt 3], [Value.ofInt 4], [Value.makeNull]] 0
    (Or.inl rfl) (by decide) (by decide) (by decide) (by decide)

/-- C24. For a list of values that are each null or of the one type `ty`,
MAX returns null exactly when the list has no non-null element, and otherwise
a non-null element of the list that compares greater than or equal to every
non-null element under `compareValues`; MIN likewise with less than or equal.
The streaming accumulator returns for a column what `calculateAggregate`
returns on the values of the column. -/
theorem max_min_extremal (ty : ValueType) (values : List Value) (colIdx : Int)
    (records : List (List Value))
    (hty : ∀ v ∈ values, v.isNull = false → v.type = ty) :
    ((calculateAggregate AggregateType.MAX values).isNull = true ↔
        ∀ v ∈ values, v.isNull = true) ∧
      ((∃ v ∈ values, v.isNull = false) →
        calculateAggregate AggregateType.MAX values ∈ values ∧
        ∀ x ∈ values, x.isNull = false →
          compareValues (calculateAggregate AggregateType.MAX values) x ≥ 0) ∧
      ((calculateAggregate AggregateType.MIN values).isNull = true ↔
        ∀ v ∈ values, v.isNull = true) ∧
      ((∃ v ∈ values, v.isNull = false) →
        calculateAggregate AggregateType.MIN values ∈ values ∧
        ∀ x ∈ values, x.isNull = false →
          compareValues (calculateAggregate AggregateType.MIN values) x ≤ 0) ∧
      aggregateRows [{ type := AggregateType.MAX, colIdx := colIdx }] records =
        [calculateAggregate AggregateType.MAX (columnValues colIdx records)] ∧
      aggregateRows [{ type := AggregateType.MIN, colIdx := colIdx }] records =
        [calculateAggregate AggregateType.MIN (columnValues colIdx records)] := by
  have hmax := foldl_maxStep_spec ty values hty
  have hmin := foldl_minStep_spec ty values hty
  rw [← calculateAggregate_max] at hmax
  rw [← calculateAggregate_min] at hmin
  refine ⟨?_, ?_, ?_, ?_, aggregateRows_max colIdx records, aggregateRows_min colIdx records⟩
  · rcases hmax with ⟨h1, h2⟩ | ⟨h1, h2, _⟩
    · exact ⟨fun _ => h1, fun _ => by rw [h2]; rfl⟩
    · constructor
      · intro h; rw [h1] at h; exact absurd h (by simp)
      · intro h; rw [h _ h2] at h1; exact absurd h1 (by simp)
  · rintro ⟨v, hv, hn⟩
    rcases hmax with ⟨h1, _⟩ | ⟨_, h2, h3⟩
    · rw [h1 v hv] at hn; exact absurd hn (by simp)
    · exact ⟨h2, h3⟩
  · rcases hmin with ⟨h1, h2⟩ | ⟨h1, h2, _⟩
    · exact ⟨fun _ => h1, fun _ => by rw [h2]; rfl⟩
    · constructor
      · intro h; rw [h1] at h; exact absurd h (by simp)
      · intro h; rw [h _ h2] at h1; exact absurd h1 (by simp)
  · rintro ⟨v, hv, hn⟩
    rcases hmin with ⟨h1, _⟩ | ⟨_, h2, h3⟩
    · rw [h1 v hv] at hn; exact absurd hn (by simp)
    · exact ⟨h2, h3⟩

/-- Instance of `max_min_extremal`: the INT column `3, NULL, 7`. -/
theorem max_min_extremal_witness :
    ((calculateAggregate AggregateType.MAX
          [Value.ofInt 3, Value.makeNull, Value.ofInt 7]).isNull = true ↔
        ∀ v ∈ [Value.ofInt 3, Value.makeNull, Value.ofInt 7], v.isNull = true) ∧
      ((∃ v ∈ [Value.ofInt 3, Value.makeNull, Value.ofInt 7], v.isNull = false) →
        calculateAggregate AggregateType.MAX [Value.ofInt 3, Value.makeNull, Value.ofInt 7] ∈
          [Value.ofInt 3, Value.makeNull, Value.ofInt 7] ∧
        ∀ x ∈ [Value.ofInt 3, Value.makeNull, Value.ofInt 7], x.isNull = false →
          compareValues
            (calculateAggregate AggregateType.MAX
              [Value.ofInt 3, Value.makeNull, Value.ofInt 7]) x ≥ 0) ∧
      ((calculateAggregate AggregateType.MIN
          [Value.ofInt 3, Value.makeNull, Value.ofInt 7]).isNull = true ↔
        ∀ v ∈ [Value.ofInt 3, Value.makeNull, Value.ofInt 7], v.isNull = true) ∧
      ((∃ v ∈ [Value.ofInt 3, Value.makeNull, Value.ofInt 7], v.isNull = false) →
        calculateAggregate AggregateType.MIN [Value.ofInt 3, Value.makeNull, Value.ofInt 7] ∈
          [Value.ofInt 3, Value.makeNull, Value.ofInt 7] ∧
        ∀ x ∈ [Value.ofInt 3, Value.makeNull, Value.ofInt 7], x.isNull = false →
          compareValues
            (calculateAggregate AggregateType.MIN
              [Value.ofInt 3, Value.makeNull, Value.ofInt 7]) x ≤ 0) ∧
      aggregateRows [{ type := AggregateType.MAX, colIdx := 0 }]
          [[Value.ofInt 3], [Value.makeNull], [Value.ofInt 7]] =
        [calculateAggregate AggregateType.MAX
          (columnValues 0 [[Value.ofInt 3], [Value.makeNull], [Value.ofInt 7]])] ∧
      aggregateRows [{ type := AggregateType.MIN, colIdx := 0 }]
          [[Value.ofInt 3], [Value.makeNull], [Value.ofInt 7]] =
        [calculateAggregate AggregateType.MIN
          (columnValues 0 [[Value.ofInt 3], [Value.makeNull], [Value.ofInt 7]])] :=
  max_min_extremal ValueType.INT [Value.ofInt 3, Value.makeNull, Value.ofInt 7] 0
    [[Value.ofInt 3], [Value.makeNull], [Value.ofInt 7]] (by decide)

end QueryExecutor
namespace QueryExecutor.Db

/-! ## LOAD DATA: the values of a line -/

theorem parseLine_length (stod : List Nat → Option Nat) (columns : List ColumnDef)
    (line : List Nat) : (parseLine stod columns line).length = columns.length := by
  unfold parseLine
  simp only [List.length_append, List.length_map, List.length_zip, List.length_replicate]
  omega

theorem parseLine_getD (stod : List Nat → Option Nat) (columns : List ColumnDef)
    (line : List Nat) (i : Nat) (hi : i < columns.length) :
    (parseLine stod columns line).getD i Value.makeNull =
      if i < (splitComma line).length then
        parseField stod (columns.getD i ⟨"", DataType.UNKNOWN, 0, false⟩)
          ((splitComma line).getD i [])
      else Value.makeNull := by
  unfold parseLine
  simp only [List.getD_eq_getElem?_getD]
  by_cases hf : i < (splitComma line).length
  · rw [if_pos hf, List.getElem?_append_left (by simp; omega)]
    simp [List.getElem?_map, List.getElem?_zip_eq_some, List.getElem?_eq_getElem, hi, hf]
  · rw [if_neg hf, List.getElem?_append_right (by simp; omega)]
    rw [List.getElem?_replicate]
    split <;> rfl

/-- C29 as stated fails. For the columns `a VARCHAR(8), b VARCHAR(8)` and the
statement delimiter `|`, the line `x|y,z` gives the values `x|y` and `z`, not
`x` and `y,z`: the line is cut at the comma and the delimiter of the statement
is not read. -/
theorem load_ignores_statement_delimiter :
    loadLineValues (fun _ => none)
        [⟨"a", DataType.VARCHAR, 8, false⟩, ⟨"b", DataType.VARCHAR, 8, false⟩]
        (asciiBytes "x|y,z") (asciiBytes "|") =
      [Value.ofString (asciiBytes "x|y"), Value.ofString (asciiBytes "z")] ∧
    loadLineValues (fun _ => none)
        [⟨"a", DataType.VARCHAR, 8, false⟩, ⟨"b", DataType.VARCHAR, 8, false⟩]
        (asciiBytes "x|y,z") (asciiBytes "|") ≠
      [Value.ofString (asciiBytes "x"), Value.ofString (asciiBytes "y,z")] := by
  decide

/-- C29 (amended). Whatever delimiter the statement gives, `executeLoadData`
splits each line at the commas: with `fields` the texts between the commas of
the line (no field holds a comma, and the fields joined by commas are the
line), the values of the line are as many as the columns, the value of column
`i` is built from field `i` when the line has one and is null otherwise;
fields beyond the columns are dropped.  An empty field and the token `NULL`
give null; in an INT or FLOAT column a field that `std::stoi` or `std::stod`
rejects gives null and a field it accepts gives the number; in a VARCHAR column
the field is taken verbatim. -/
theorem load_line_splits_on_commas (stod : List Nat → Option Nat) (columns : List ColumnDef)
    (line delimiter : List Nat) :
    ∃ fields : List (List Nat),
      fields ≠ [] ∧ (∀ f ∈ fields, 44 ∉ f) ∧ List.intercalate [44] fields = line ∧
      (loadLineValues stod columns line delimiter).length = columns.length ∧
      (∀ i, i < columns.length →
        (loadLineValues stod columns line delimiter).getD i Value.makeNull =
          if i < fields.length then
            parseField stod (columns.getD i ⟨"", DataType.UNKNOWN, 0, false⟩) (fields.getD i [])
          else Value.makeNull) ∧
      ∀ (col : ColumnDef) (field : List Nat),
        (field = [] ∨ field = asciiBytes "NULL" → parseField stod col field = Value.makeNull) ∧
        (field ≠ [] → field ≠ asciiBytes "NULL" →
          (col.type = DataType.INT →
            (stoi field = none → parseField stod col field = Value.makeNull) ∧
            ∀ v, stoi field = some v → parseField stod col field = Value.ofInt v) ∧
          (col.type = DataType.FLOAT →
            (stod field = none → parseField stod col field = Value.makeNull) ∧
            ∀ bits, stod field = some bits → parseField stod col field = Value.ofFloat bits) ∧
          (col.type = DataType.VARCHAR → parseField stod col field = Value.ofString field)) := by
  refine ⟨splitComma line, splitComma_ne_nil line, splitComma_no_comma line,
    intercalate_splitComma line, ?_, ?_, ?_⟩
  · rw [loadLineValues_eq_parseLine, parseLine_length]
  · intro i hi
    rw [loadLineValues_eq_parseLine, parseLine_getD stod columns line i hi]
  · intro col field
    refine ⟨?_, ?_⟩
    · intro h
      unfold parseField
      rcases h with h | h
      · simp [h]
      · rw [if_pos (Or.inr h)]
    · intro h1 h2
      have hne : ¬(field.isEmpty = true ∨ field = asciiBytes "NULL") := by
        rintro (h | h)
        · exact h1 (List.isEmpty_iff.1 h)
        · exact h2 h
      refine ⟨?_, ?_, ?_⟩
      · intro ht
        unfold parseField
        rw [if_neg hne, if_pos ht]
        exact ⟨fun h => by rw [h], fun v h => by rw [h]⟩
      · intro ht
        unfold parseField
        rw [if_neg hne, if_neg (by rw [ht]; decide), if_pos ht]
        exact ⟨fun h => by rw [h], fun v h => by rw [h]⟩
      · intro ht
        unfold parseField
        rw [if_neg hne, if_neg (by rw [ht]; decide), if_neg (by rw [ht]; decide)]

end QueryExecutor.Db
namespace QueryExecutor.Db

open RecordManager (WellFormed_fresh freshStore zeroDisk)

set_option maxRecDepth 100000 in
theorem threeTypeDb_wellFormed : WellFormedDb threeTypeDb := by
  have ht : threeTypeDb.tables =
      [({ tableName := "u", columns := [⟨"a", DataType.INT, 0, false⟩, ⟨"s", DataType.VARCHAR, 8, false⟩, ⟨"f", DataType.FLOAT, 0, false⟩], recordCount := 1, nextRecordID := 2 },
        (RecordManager.insertRecord (freshStore zeroDisk) 1
          (packWords (serializeRecord
            [⟨"a", DataType.INT, 0, false⟩, ⟨"s", DataType.VARCHAR, 8, false⟩,
              ⟨"f", DataType.FLOAT, 0, false⟩]
            [Value.ofInt 1, Value.ofString [120], Value.ofFloat 4612811918334230528]))).2)] :=
    rfl
  have hi : threeTypeDb.indexManager = [] := rfl
  constructor
  · intro e he
    rw [ht] at he
    simp only [List.mem_singleton] at he
    subst he
    exact RecordManager.WellFormed_insertRecord _ (WellFormed_fresh zeroDisk) 1 _
      ⟨by decide, by decide⟩ (by decide)
  · intro e he
    rw [hi] at he
    cases he

end QueryExecutor.Db

namespace SystemManager

open QueryExecutor (TableMeta ColumnDef KeyDef DataType Value)
open QueryExecutor.Db (emptyDatabase twoKeyDb noKeyDb threeTypeDb indexLists WellFormedDb)
open RecordManager (Store getAllRecordsDirect zeroDisk)
open BPlusTree (blankDisk)
open IndexManager (openIndex getIndexKey)

/-! ## Indexes of a primary key -/

end SystemManager

namespace QueryExecutor.Db

open SystemManager (Database getTableMeta)

/-! ## Statements that name a missing column -/

set_option maxRecDepth 100000 in
/-- C32 (a missing column is not reported). In `t (a INT, b INT)` with the
rows `(1, 2)` and `(2, 1)`, the statements `SELECT * FROM t WHERE nosuch = 1`,
`DELETE FROM t WHERE nosuch = 1` and `UPDATE t SET a = 5 WHERE nosuch = 1`
succeed and match no row, and `UPDATE t SET nosuch = 5` succeeds, reports two
affected rows and leaves both rows as they were: `matchWhereClause` returns
false for a column it cannot resolve and the SET loop skips it.  A selector
that names the column, `SELECT nosuch FROM t`, returns the error. -/
theorem missing_column_not_reported
    (sort : (List Value → List Value → Bool) → List (List Value) → List (List Value)) :
    selectFrom sort orderDb [{ isAllColumns := true }] ["t"]
        [compareLiteral "nosuch" CompareOp.EQ (Value.ofInt 1)] =
      some { success := true, columnNames := ["a", "b"],
             columnTypes := [DataType.INT, DataType.INT], rows := [] } ∧
    ((executeDelete orderDb "t" [compareLiteral "nosuch" CompareOp.EQ (Value.ofInt 1)]).map
        fun r => r.1) = some { success := true, message := "Query Done", affectedRows := 0 } ∧
    ((executeUpdate orderDb "t" [⟨"a", Value.ofInt 5⟩]
        [compareLiteral "nosuch" CompareOp.EQ (Value.ofInt 1)]).map fun r => r.1) =
      some { success := true, message := "Query Done", affectedRows := 0 } ∧
    ((executeUpdate orderDb "t" [⟨"nosuch", Value.ofInt 5⟩] []).bind fun r =>
        (scanTable r.2 "t").map fun rows => (r.1, rows)) =
      some ({ success := true, message := "Query Done", affectedRows := 2 },
        [(1, [Value.ofInt 1, Value.ofInt 2]), (2, [Value.ofInt 2, Value.ofInt 1])]) ∧
    selectFrom sort orderDb [selectColumn AggregateType.NONE "" "nosuch"] ["t"] [] =
      some { success := false, message := "Column 'nosuch' not found", columnNames := [],
             columnTypes := [], rows := [] } :=
  ⟨rfl, by decide, by decide, by decide!, rfl⟩

end QueryExecutor.Db

namespace QueryExecutor.Db

open SystemManager (Database getTableMeta)

/-! ## The index probe against the full scan -/

set_option maxRecDepth 100000 in
/-- C33 (the index probe loses rows). In `t (a VARCHAR(2), PRIMARY KEY (a))`
with the rows `a` and `c`, `SELECT * FROM t WHERE a < 'b'` takes the index
probe and returns no row, where the scan filtered by the same WHERE returns
the row `a`: `indexScan` collects RIDs of a VARCHAR or FLOAT key for `=` only.
In `t (id INT, PRIMARY KEY (id))` with the rows 1 and 2, `WHERE id = id` and
`WHERE id < 1.5` take the probe and return no row, where the filtered scan
returns both rows and the row 1: the probe reads the key from
`clause.value.intVal`, which is 0 for a column operand and for a FLOAT
literal. -/
theorem index_probe_loses_rows
    (sort : (List Value → List Value → Bool) → List (List Value) → List (List Value)) :
    (shouldUseIndex twoNamesDb "t" (compareLiteral "a" CompareOp.LT (Value.ofString [98])) = true ∧
      selectFrom sort twoNamesDb [{ isAllColumns := true }] ["t"]
          [compareLiteral "a" CompareOp.LT (Value.ofString [98])] =
        some { columnNames := ["a"], columnTypes := [DataType.VARCHAR], rows := [] } ∧
      scanTableFiltered twoNamesDb "t" [compareLiteral "a" CompareOp.LT (Value.ofString [98])] =
        some [(1, [Value.ofString [97]])]) ∧
    (shouldUseIndex twoIdsDb "t" idEqualsId = true ∧
      selectFrom sort twoIdsDb [{ isAllColumns := true }] ["t"] [idEqualsId] =
        some { columnNames := ["id"], columnTypes := [DataType.INT], rows := [] } ∧
      scanTableFiltered twoIdsDb "t" [idEqualsId] =
        some [(1, [Value.ofInt 1]), (2, [Value.ofInt 2])]) ∧
    (shouldUseIndex twoIdsDb "t"
        (compareLiteral "id" CompareOp.LT (Value.ofFloat 4609434218613702656)) = true ∧
      selectFrom sort twoIdsDb [{ isAllColumns := true }] ["t"]
          [compareLiteral "id" CompareOp.LT (Value.ofFloat 4609434218613702656)] =
        some { columnNames := ["id"], columnTypes := [DataType.INT], rows := [] } ∧
      scanTableFiltered twoIdsDb "t"
          [compareLiteral "id" CompareOp.LT (Value.ofFloat 4609434218613702656)] =
        some [(1, [Value.ofInt 1])]) :=
  ⟨⟨by decide!, rfl, by decide!⟩, ⟨by decide!, rfl, by decide!⟩, ⟨by decide!, rfl, by decide!⟩⟩

end QueryExecutor.Db

namespace QueryExecutor.Db

open SystemManager (Database getTableMeta)

/-! ## The index against the rows -/

set_option maxRecDepth 100000 in
/-- C34 (index and rows disagree). In `t (id INT, PRIMARY KEY (id))` with the
rows 1 and 2, `UPDATE t SET id = 3 WHERE id = 1` returns the duplicate-entry
error and leaves the rows as they were, yet the index on `id` then holds the
key 3 for slot 1, which no live row has, and no longer holds the key 1 of the
live row in slot 1: the SET loop moves the index entry before the checks run.
In `t (a INT, b INT, PRIMARY KEY (a, b))`, after the successful inserts of
`(1, 1)` and `(1, 2)` the index on `a` holds slot 1 only, not the pair of the
key 1 and slot 2: the tree refuses the second entry for the key 1. -/
theorem index_and_rows_disagree :
    ((runAll intKeyDb
        [fun db => executeInsert db "t" [[Value.ofInt 1], [Value.ofInt 2]],
          fun db => executeUpdate db "t" [⟨"id", Value.ofInt 3⟩]
            [compareLiteral "id" CompareOp.EQ (Value.ofInt 1)]]).bind
      fun r => (scanTable r.2 "t").map fun rows => (r.1.success, rows)) =
      some (false, [(1, [Value.ofInt 1]), (2, [Value.ofInt 2])]) ∧
    ((runAll intKeyDb
        [fun db => executeInsert db "t" [[Value.ofInt 1], [Value.ofInt 2]],
          fun db => executeUpdate db "t" [⟨"id", Value.ofInt 3⟩]
            [compareLiteral "id" CompareOp.EQ (Value.ofInt 1)]]).bind
      fun r => (IndexManager.searchEntry r.2.indexManager "t" "id" 3).bind fun new =>
        (IndexManager.searchEntry r.2.indexManager "t" "id" 1).map fun old => (new, old)) =
      some (some ⟨0, 1⟩, none) ∧
    ((runAll twoKeyDb
        [fun db => executeInsert db "t" [[Value.ofInt 1, Value.ofInt 1]],
          fun db => executeInsert db "t" [[Value.ofInt 1, Value.ofInt 2]]]).bind
      fun r => (scanTable r.2 "t").bind fun rows =>
        (IndexManager.rangeSearch r.2.indexManager "t" "a" (-2147483648) 2147483647 true
          true).map fun entries => (r.1.success, rows, entries)) =
      some (true, [(1, [Value.ofInt 1, Value.ofInt 1]), (2, [Value.ofInt 1, Value.ofInt 2])],
        [⟨0, 1⟩]) := by
  decide!

end QueryExecutor.Db

namespace BPlusTree

/-! ## The number of entries of a node -/

set_option maxRecDepth 100000 in
/-- C36 (a VARCHAR leaf is never split). A tree with VARCHAR(255) keys has
order 30.  After the inserts of 30 distinct one-byte keys into the empty tree
the root is still the only node, a leaf with 30 entries, and after a 31st
insert it is a leaf with 31 entries: `insert(const std::string&, ..)` writes
the leaf back without the test `keyCount >= order` that `insert(int, ..)`
makes. -/
theorem varchar_leaf_reaches_order :
    calculateOrder KeyType.VARCHAR 255 = 30 ∧
    ((insertAllStr (emptyTree blankDisk KeyType.VARCHAR 255) (byteEntries 30)).map fun t =>
      (t.order, t.nodeCount, (readNode t t.rootPage).isLeaf, (readNode t t.rootPage).keyCount,
        (readNode t t.rootPage).strKeys.length)) = some (30, 1, true, 30, 30) ∧
    ((insertAllStr (emptyTree blankDisk KeyType.VARCHAR 255) (byteEntries 31)).map fun t =>
      (t.order, t.nodeCount, (readNode t t.rootPage).isLeaf, (readNode t t.rootPage).keyCount,
        (readNode t t.rootPage).strKeys.length)) = some (30, 1, true, 31, 31) := by
  decide!

end BPlusTree

namespace RecordManager

/-! ## A failed `updateRecord` -/

set_option maxRecDepth 100000 in
/-- C38 (a failed update loses the record). In the store with the live slot
ids 1, 5 and 7, `updateRecord(5, p)` with a payload `p` of 2031 words, which
fits in no page, returns false; afterwards `getRecord(5)` returns -1 and the
scan shows the records 1 and 7 only: `updateRecord` deletes the old record
before `insertRecord` finds that the new one does not fit.  For a slot id that
is not live, `updateRecord(9, p)`, the call returns false and the store is as
before. -/
theorem failed_update_loses_record :
    getRecord exampleStore 5 2048 = some (1, [55]) ∧
    ((updateRecord exampleStore 5 (List.replicate 2031 9)).map fun r => r.1) = some false ∧
    ((updateRecord exampleStore 5 (List.replicate 2031 9)).bind fun r => getRecord r.2 5 2048) =
      some (-1, []) ∧
    ((updateRecord exampleStore 5 (List.replicate 2031 9)).bind fun r =>
      getAllRecordsDirect r.2) = some [(1, [100, 200, 300]), (7, [70, 71])] ∧
    updateRecord exampleStore 9 [1] = some (false, exampleStore) :=
  ⟨by decide!, by decide!, by decide!, by decide!, rfl⟩

end RecordManager

namespace QueryExecutor

/-- C39. For every non-empty sequence of rows that passed WHERE, fewer than
`2 ^ 31` of them, and every column the rows have, the streaming accumulator of
`executeSelect` produces for COUNT(col), SUM, AVG, MIN and MAX the same value
as `calculateAggregate` applied to the list of the column's values: the same
null flag, type and number.  (This holds for values of every type, INT or
null among them.) -/
theorem streaming_matches_calculateAggregate (agg : AggregateType) (colIdx : Int)
    (records : List (List Value)) (hrows : records ≠ [])
    (hcol : ∀ r ∈ records, 0 ≤ colIdx ∧ colIdx < (r.length : Int))
    (hlen : (records.length : Int) < 2147483648) :
    aggregateRows [{ type := agg, colIdx := colIdx }] records =
      [calculateAggregate agg (Db.columnValues colIdx records)] := by
  have hne : Db.columnValues colIdx records ≠ [] := by
    cases records with
    | nil => exact absurd rfl hrows
    | cons r rs =>
      have := hcol r (List.mem_cons_self r rs)
      rw [columnValues_cons]
      simp [this.1, this.2]
  have hcolIdx : colIdx ≥ 0 := columnValues_nonneg colIdx records hne
  have hle := columnValues_length_le colIdx records
  have hfl : ((Db.columnValues colIdx records).filter fun v => !v.isNull).length ≤
      (Db.columnValues colIdx records).length := List.length_filter_le _ _
  cases agg with
  | NONE =>
    rw [aggregateRows_single]
    have h : ∀ (records : List (List Value)) (st : AggState), st.type = AggregateType.NONE →
        (records.foldl (fun s values => aggUpdate values s) st).type = AggregateType.NONE := by
      intro records
      induction records with
      | nil => intro st h; exact h
      | cons r rs ih =>
        intro st h
        rw [List.foldl_cons]
        apply ih
        unfold aggUpdate
        rw [h]
        exact h
    have h1 := h records { type := AggregateType.NONE, colIdx := colIdx } rfl
    unfold aggResult calculateAggregate
    rw [h1]
    cases hv : Db.columnValues colIdx records with
    | nil => exact absurd hv hne
    | cons v vs => rfl
  | COUNT =>
    rw [aggregateRows_single, calculateAggregate_count _ hne]
    have := stream_count colIdx 0 Value.makeNull false hcolIdx records 0
    rw [show ({ type := AggregateType.COUNT, colIdx := colIdx } : AggState) =
      ⟨AggregateType.COUNT, colIdx, 0, 0, Value.makeNull, false⟩ from rfl, this]
    unfold aggResult
    simp only [zero_add]
    rw [if_neg (by omega)]
  | SUM => rw [aggregateRows_sum, calculateAggregate_sum _ hne]
  | AVG =>
    rw [aggregateRows_avg, calculateAggregate_avg]
    have hc := foldl_avgStep_count (Db.columnValues colIdx records) (0, 0)
    have : longToDouble ((Db.columnValues colIdx records).foldl avgStep (0, 0)).2 =
        intToDouble ((Db.columnValues colIdx records).foldl avgStep (0, 0)).2 := by
      unfold longToDouble
      rw [if_pos]
      rw [hc]
      simp only [zero_add, Int.natAbs_ofNat]
      omega
    rw [this]
  | MAX => exact aggregateRows_max colIdx records
  | MIN => exact aggregateRows_min colIdx records

theorem streaming_matches_calculateAggregate_witness :
    aggregateRows [{ type := AggregateType.AVG, colIdx := 0 }]
        [[Value.ofInt 1], [Value.makeNull], [Value.ofInt 2]] =
      [calculateAggregate AggregateType.AVG
        (Db.columnValues 0 [[Value.ofInt 1], [Value.makeNull], [Value.ofInt 2]])] :=
  streaming_matches_calculateAggregate AggregateType.AVG 0
    [[Value.ofInt 1], [Value.makeNull], [Value.ofInt 2]] (by simp)
    (by intro r hr; simp at hr; rcases hr with rfl | rfl | rfl <;> decide) (by decide)

end QueryExecutor

namespace QueryExecutor

/-- C40. On values that are null or all of the one type `ty`, INT or STRING,
`compareValues` is a total preorder: a value compares as 0 with itself, the
sign of `compareValues a b` is the opposite of the sign of `compareValues b a`
(so one of the two is at most 0), and `compareValues a b ≤ 0` with
`compareValues b c ≤ 0` gives `compareValues a c ≤ 0`.  Hence the comparator
that ORDER BY hands to `std::sort`, on rows that hold such values in the
ordering column, is a strict weak ordering for ASC and for DESC: no row comes
before itself, coming before is transitive, and so is being unordered. -/
theorem compareValues_total_preorder (ty : ValueType) (a b c : Value)
    (hty : ty = ValueType.INT ∨ ty = ValueType.STRING)
    (ha : a.isNull = true ∨ a.type = ty) (hb : b.isNull = true ∨ b.type = ty)
    (hc : c.isNull = true ∨ c.type = ty) :
    compareValues a a = 0 ∧
      Int.sign (compareValues a b) = -Int.sign (compareValues b a) ∧
      (compareValues a b ≤ 0 ∨ compareValues b a ≤ 0) ∧
      (compareValues a b ≤ 0 → compareValues b c ≤ 0 → compareValues a c ≤ 0) ∧
      ∀ (orderColIdx : Int) (orderType : Db.OrderType) (x y z : List Value),
        valueAt x orderColIdx = a → valueAt y orderColIdx = b → valueAt z orderColIdx = c →
          Db.orderBefore orderColIdx orderType x x = false ∧
          (Db.orderBefore orderColIdx orderType x y = true →
            Db.orderBefore orderColIdx orderType y z = true →
              Db.orderBefore orderColIdx orderType x z = true) ∧
          (Db.orderBefore orderColIdx orderType x y = false →
            Db.orderBefore orderColIdx orderType y x = false →
            Db.orderBefore orderColIdx orderType y z = false →
            Db.orderBefore orderColIdx orderType z y = false →
              Db.orderBefore orderColIdx orderType x z = false ∧
                Db.orderBefore orderColIdx orderType z x = false) := by
  have asym : ∀ u v : Value, (u.isNull = true ∨ u.type = ty) → (v.isNull = true ∨ v.type = ty) →
      u.isNull = false → v.isNull = false → valueLt u v = true → valueLt v u = false :=
    fun u v hu hv h1 h2 h3 =>
      valueLt_asymm u v (by rw [type_of_domain ty u hu h1, type_of_domain ty v hv h2]) h3
  have neg : ∀ u v : Value, (u.isNull = true ∨ u.type = ty) → (v.isNull = true ∨ v.type = ty) →
      (compareValues u v < 0 ↔ nullsFirstLt u v) :=
    fun u v hu hv => compareValues_neg_iff_before ty u v hu hv
  have pos : ∀ u v : Value, (u.isNull = true ∨ u.type = ty) → (v.isNull = true ∨ v.type = ty) →
      (compareValues u v > 0 ↔ nullsFirstLt v u) :=
    fun u v hu hv => compareValues_pos_iff_before ty u v hu hv (asym u v hu hv)
  have irr := nullsFirstLt_irrefl
  have hself : compareValues a a = 0 := by
    have h1 := (neg a a ha ha).not.2 (irr a)
    have h2 := (pos a a ha ha).not.2 (irr a)
    omega
  have hsign : Int.sign (compareValues a b) = -Int.sign (compareValues b a) := by
    rcases lt_trichotomy (compareValues a b) 0 with h | h | h
    · have : compareValues b a > 0 := (pos b a hb ha).2 ((neg a b ha hb).1 h)
      rw [Int.sign_eq_neg_one_of_neg h, Int.sign_eq_one_of_pos this]
    · have h1 : ¬ compareValues b a > 0 := fun h' =>
        absurd ((neg a b ha hb).2 ((pos b a hb ha).1 h')) (by omega)
      have h2 : ¬ compareValues b a < 0 := fun h' =>
        absurd ((pos a b ha hb).2 ((neg b a hb ha).1 h')) (by omega)
      have : compareValues b a = 0 := by omega
      rw [h, this]; rfl
    · have : compareValues b a < 0 := (neg b a hb ha).2 ((pos a b ha hb).1 h)
      rw [Int.sign_eq_one_of_pos h, Int.sign_eq_neg_one_of_neg this]; rfl
  have hle : ∀ u v : Value, (u.isNull = true ∨ u.type = ty) → (v.isNull = true ∨ v.type = ty) →
      (compareValues u v ≤ 0 ↔ ¬ nullsFirstLt v u) := fun u v hu hv => by
    rw [← pos u v hu hv]; omega
  have hge : ∀ u v : Value, (u.isNull = true ∨ u.type = ty) → (v.isNull = true ∨ v.type = ty) →
      (compareValues u v ≥ 0 ↔ ¬ nullsFirstLt u v) := fun u v hu hv => by
    rw [← neg u v hu hv]; omega
  refine ⟨hself, hsign, ?_, ?_, ?_⟩
  · by_cases h : compareValues a b ≤ 0
    · exact Or.inl h
    · right
      have h1 : compareValues a b > 0 := by omega
      have := (neg b a hb ha).2 ((pos a b ha hb).1 h1)
      omega
  · intro h1 h2
    exact (hle a c ha hc).2
      (nullsFirstLt_negtrans ty c b a hty hc hb ((hle b c hb hc).1 h2) ((hle a b ha hb).1 h1))
  · intro orderColIdx orderType x y z hx hy hz
    unfold Db.orderBefore
    rw [hx, hy, hz]
    cases orderType with
    | ASC =>
      simp only [if_true, decide_eq_true_eq, decide_eq_false_iff_not, not_lt]
      refine ⟨by omega, ?_, ?_⟩
      · intro h1 h2
        exact (neg a c ha hc).2
          (nullsFirstLt_trans ty a b c ha hb ((neg a b ha hb).1 h1) ((neg b c hb hc).1 h2))
      · intro h1 h2 h3 h4
        exact ⟨(hge a c ha hc).2
            (nullsFirstLt_negtrans ty a b c hty ha hb ((hge a b ha hb).1 h1)
              ((hge b c hb hc).1 h3)),
          (hge c a hc ha).2
            (nullsFirstLt_negtrans ty c b a hty hc hb ((hge c b hc hb).1 h4)
              ((hge b a hb ha).1 h2))⟩
    | DESC =>
      simp only [reduceCtorEq, if_false, decide_eq_true_eq, decide_eq_false_iff_not, not_lt]
      refine ⟨by omega, ?_, ?_⟩
      · intro h1 h2
        exact (pos a c ha hc).2
          (nullsFirstLt_trans ty c b a hc hb ((pos b c hb hc).1 h2) ((pos a b ha hb).1 h1))
      · intro h1 h2 h3 h4
        exact ⟨(hle a c ha hc).2
            (nullsFirstLt_negtrans ty c b a hty hc hb ((hle b c hb hc).1 h3)
              ((hle a b ha hb).1 h1)),
          (hle c a hc ha).2
            (nullsFirstLt_negtrans ty a b c hty ha hb ((hle b a hb ha).1 h2)
              ((hle c b hc hb).1 h4))⟩

theorem compareValues_total_preorder_witness :
    compareValues (Value.ofInt 1) (Value.ofInt 1) = 0 ∧
      Int.sign (compareValues (Value.ofInt 1) Value.makeNull) =
        -Int.sign (compareValues Value.makeNull (Value.ofInt 1)) ∧
      (compareValues Value.makeNull (Value.ofInt 2) ≤ 0 →
        compareValues (Value.ofInt 2) (Value.ofInt 3) ≤ 0 →
          compareValues Value.makeNull (Value.ofInt 3) ≤ 0) :=
  ⟨(compareValues_total_preorder ValueType.INT (Value.ofInt 1) Value.makeNull (Value.ofInt 2)
      (Or.inl rfl) (Or.inr rfl) (Or.inl rfl) (Or.inr rfl)).1,
    (compareValues_total_preorder ValueType.INT (Value.ofInt 1) Value.makeNull (Value.ofInt 2)
      (Or.inl rfl) (Or.inr rfl) (Or.inl rfl) (Or.inr rfl)).2.1,
    (compareValues_total_preorder ValueType.INT Value.makeNull (Value.ofInt 2) (Value.ofInt 3)
      (Or.inl rfl) (Or.inl rfl) (Or.inr rfl) (Or.inr rfl)).2.2.2.1⟩

end QueryExecutor

namespace SystemManager.MetaFile

open QueryExecutor (Value DataType asciiBytes)

/-! ## The `.meta` file: save and load -/

set_option maxRecDepth 100000 in
/-- C31 (a string default is not restored). For the entry of
`CREATE TABLE t (a VARCHAR(20) DEFAULT 'hello world')`, `saveTableMeta` writes
the column line `a VARCHAR 20 0 1 STRING hello world`, and `loadTableMeta` on
the file it wrote yields the default value `hello`, not `hello world`: the
default is read back with `colIss >> val`, which stops at the blank.  The
loaded entry differs from the saved one.  (The entry has no FLOAT default, so
the two parameters are not consulted; they are set to constant functions.) -/
theorem string_default_not_restored :
    getLines [] (saveTableMeta (fun _ => []) greetingMeta) =
        [asciiBytes "TABLE t", asciiBytes "COLUMNS 1",
          asciiBytes "a VARCHAR 20 0 1 STRING hello world", asciiBytes "PRIMARY_KEY 0",
          asciiBytes "FOREIGN_KEYS 0", asciiBytes "INDEXES 0", asciiBytes "EXPLICIT_INDEXES 0",
          asciiBytes "PRIMARY_KEY_COLS 0", asciiBytes "RECORD_COUNT 0",
          asciiBytes "NEXT_RECORD_ID 1"] ∧
      loadTableMeta (fun _ => none) (saveTableMeta (fun _ => []) greetingMeta) =
        some { tableName := asciiBytes "t",
               columns := [{ name := asciiBytes "a", type := DataType.VARCHAR, length := 20,
                             hasDefault := true,
                             defaultValue := Value.ofString (asciiBytes "hello") }] } ∧
      loadTableMeta (fun _ => none) (saveTableMeta (fun _ => []) greetingMeta) ≠
        some greetingMeta := by
  decide!

end SystemManager.MetaFile

namespace RecordManager

/-! ## The record pages of a store -/

set_option maxRecDepth 100000 in
/-- C37 as stated fails. After `insertRecord(0, ..)` on a fresh store the call
has returned true and header word 1 of page 0 is 1, but the record carries the
slot id 0 of a tombstone: the scan shows no record, `getStatistics` reports
one record and `getAllRecordIDs` returns no id.  And in the store with the
three live records 1, 5 and 7, `getStatistics` reports 3 while
`getAllRecordIDs` with `maxCount = 2` returns two ids. -/
theorem zero_slot_id_miscounted :
    (insertRecord (freshStore zeroDisk) 0 [7]).1 = true ∧
      toInt ((insertRecord (freshStore zeroDisk) 0 [7]).2.pages 0 1) = 1 ∧
      getAllRecordsDirect (insertRecord (freshStore zeroDisk) 0 [7]).2 = some [] ∧
      getStatistics (insertRecord (freshStore zeroDisk) 0 [7]).2 = some (1, 1) ∧
      getAllRecordIDs (insertRecord (freshStore zeroDisk) 0 [7]).2 100 = some [] ∧
      getStatistics exampleStore = some (3, 1) ∧
      getAllRecordIDs exampleStore 2 = some [1, 5] := by
  decide!

/-- C37 (amended). From a freshly initialised store, every sequence of fewer
than `2 ^ 31 - 1` calls of `insertRecord` with slot ids other than zero,
`deleteRecord` and `updateRecord` returns, and in the store it leaves every
page `p` of the chain `0 .. tailPageID` holds a list `rs` of records, live and
tombstoned, back to back from word 16, such that header word 1 is the number
of records of `rs` that are not tombstones, `free_start` is 16 plus the sum of
their total lengths, which is at most 2048, and the page is linked to page
`p + 1`, the tail to none.  Consequently the record total of `getStatistics`
is the number of ids `getAllRecordIDs` returns whenever `maxCount` is at least
that total. -/
theorem pages_accounted (disk : Int → Page) (calls : List Call)
    (hvalid : ∀ c ∈ calls, c.Valid) (hlen : (calls.length : Int) < 2147483647) :
    ∃ st, runCalls (freshStore disk) calls = some st ∧
      (∀ p, 0 ≤ p → p ≤ st.tailPageID → ∃ rs : List Rec,
        Layout (st.pages p) 16 rs ∧
          toInt (st.pages p 1) = ((rs.filter fun r => decide (r.rid ≠ 0)).length : Int) ∧
          toInt (st.pages p 2) = 16 + span rs ∧ 16 + span rs ≤ 2048 ∧
          toInt (st.pages p 3) = (if p = st.tailPageID then -1 else p + 1)) ∧
      ∃ total totalPages, getStatistics st = some (total, totalPages) ∧
        ∀ maxCount, total ≤ maxCount →
          (getAllRecordIDs st maxCount).map (fun ids => (ids.length : Int)) = some total := by
  obtain ⟨st, h1, ⟨pgs, hrep, hcnt⟩, _⟩ :=
    runCalls_accounted calls (freshStore disk) (accounted_fresh disk) hvalid
      (by show (0 : Int) + _ < _; omega)
  refine ⟨st, h1, ?_, (allLive pgs).length, pgs.length, getStatistics_eq st pgs hrep hcnt, ?_⟩
  · intro p hp0 hp1
    have htail : st.tailPageID + 1 = (pgs.length : Int) := hrep.2
    obtain ⟨rs, k1, k2⟩ := chainRep_page st.pages pgs 0 hrep.1 hcnt p hp0 (by omega)
    refine ⟨rs, k1.2.2.2, ?_, k1.2.1, k1.1, ?_⟩
    · rw [k2]; simp [liveRecs]
    · rw [k1.2.2.1]
      by_cases hpt : p = st.tailPageID
      · rw [if_pos (by omega), if_pos hpt]
      · rw [if_neg (by omega), if_neg hpt]
  · intro maxCount hmax
    rw [getAllRecordIDs_eq st pgs hrep maxCount]
    simp only [Option.map_some', Option.some.injEq, List.length_take, List.length_map]
    omega

theorem pages_accounted_witness :
    ∃ st, runCalls (freshStore zeroDisk) exampleCalls = some st ∧
      (∀ p, 0 ≤ p → p ≤ st.tailPageID → ∃ rs : List Rec,
        Layout (st.pages p) 16 rs ∧
          toInt (st.pages p 1) = ((rs.filter fun r => decide (r.rid ≠ 0)).length : Int) ∧
          toInt (st.pages p 2) = 16 + span rs ∧ 16 + span rs ≤ 2048 ∧
          toInt (st.pages p 3) = (if p = st.tailPageID then -1 else p + 1)) ∧
      ∃ total totalPages, getStatistics st = some (total, totalPages) ∧
        ∀ maxCount, total ≤ maxCount →
          (getAllRecordIDs st maxCount).map (fun ids => (ids.length : Int)) = some total :=
  pages_accounted zeroDisk exampleCalls
    (by
      intro c hc
      simp only [exampleCalls, List.mem_cons, List.mem_singleton, List.not_mem_nil,
        or_false] at hc
      rcases hc with rfl | rfl | rfl | rfl | rfl <;>
        simp only [Call.Valid, isInt32] <;> decide)
    (by decide)

end RecordManager

namespace BPlusTree

/-- C35: on an INT tree that starts empty (on any file contents), every
sequence of `insert` and `remove` calls with `int` keys returns, and in the
tree it leaves every page from the root down has the order property: the keys
of a leaf are non-decreasing, and an internal node with keys `s_0 .. s_(n-1)`
has the children `c_0 .. c_n`, every key stored under `c_i` is at most `s_i`
and every key stored under `c_(i+1)` is at least `s_i`. -/
theorem reachable_tree_ordered (disk : Int → BPlusTreeNode) (keyLength : Int)
    (ops : List TreeOp) (hkeys : ∀ op ∈ ops, op.InRange) :
    ∃ t, runTreeOps (emptyTree disk KeyType.INT keyLength) ops = some t ∧
      (t.rootPage ≠ -1 → ∀ p, Under t t.rootPage p →
        if (readNode t p).isLeaf then
          ((readNode t p).keys.take (readNode t p).keyCount.toNat).Pairwise (· ≤ ·)
        else
          (readNode t p).keyCount = ((readNode t p).keys.length : Int) ∧
          (readNode t p).children.length = (readNode t p).keys.length + 1 ∧
          ∀ (i : Nat) (s c c' : Int), (readNode t p).keys.get? i = some s →
            (readNode t p).children.get? i = some c →
            (readNode t p).children.get? (i + 1) = some c' →
            (∀ k, StoredUnder t c k → k ≤ s) ∧ (∀ k, StoredUnder t c' k → s ≤ k)) := by
  obtain ⟨t, M, h1, h2⟩ :=
    runTreeOps_spec ops _ _ (inv_emptyTree disk keyLength) hkeys
  exact ⟨t, h1, inv_ordered t M h2⟩

/-- The order property after the calls of `exampleTreeOps` on a blank file. -/
theorem reachable_tree_ordered_witness :
    (∀ op ∈ exampleTreeOps, op.InRange) ∧
    ∃ t, runTreeOps (emptyTree blankDisk KeyType.INT 4) exampleTreeOps = some t ∧
      (t.rootPage ≠ -1 → ∀ p, Under t t.rootPage p →
        if (readNode t p).isLeaf then
          ((readNode t p).keys.take (readNode t p).keyCount.toNat).Pairwise (· ≤ ·)
        else
          (readNode t p).keyCount = ((readNode t p).keys.length : Int) ∧
          (readNode t p).children.length = (readNode t p).keys.length + 1 ∧
          ∀ (i : Nat) (s c c' : Int), (readNode t p).keys.get? i = some s →
            (readNode t p).children.get? i = some c →
            (readNode t p).children.get? (i + 1) = some c' →
            (∀ k, StoredUnder t c k → k ≤ s) ∧ (∀ k, StoredUnder t c' k → s ≤ k)) :=
  ⟨by decide, reachable_tree_ordered blankDisk 4 exampleTreeOps (by decide)⟩

end BPlusTree
